import Mathlib

/-! Type contexts of the tier-2 optimizer (`Python/tier2.c`).

A shallow embedding of the type-context functions of `Python/tier2.c`.

* A type node (`_Py_TYPENODE_t`, a `uintptr_t`) is a natural number; its two low
  bits are the tag.
* Pointers are byte addresses.  One node occupies `sizeof(_Py_TYPENODE_t) = 8`
  bytes, so `&arr[i]` is `arr + 8 * i`.
* The heap is a partial map from addresses to words.  A load or store through
  an address that is not mapped is a fault (`Fault.bad_access`).
* `assert` and the `#ifdef Py_DEBUG` blocks are governed by one build
  parameter `Py_DEBUG : Bool` (a release build defines `NDEBUG` and leaves
  `Py_DEBUG` undefined); a failing assertion is `Fault.assertion`.
* `(int)` casts of pointer differences wrap to 32 bits; the statements assume that the
  two arrays of a context lie within `int` range of each other (`Arrays`).
* The `do … while` of `__typenode_get_rootptr` is bounded by a fuel argument.
* Diagnostic output (`fprintf`, `print_typestack`) is not part of the model.
-/

namespace Tier2

/-! ## Execution results -/

/-- Ways in which a call stops without returning a value. -/
inductive Fault where
  | assertion
  | unreachable
  | bad_access
  | overflow
  | out_of_fuel
  deriving DecidableEq, Repr

/-- Result of running a piece of the C code. -/
abbrev Exec (α : Type) := Except Fault α

/-- The heap: a partial map from byte addresses to machine words. -/
abbrev Mem := Nat → Option Nat

/-- Read `*p`. -/
def load (m : Mem) (p : Nat) : Exec Nat :=
  match m p with
  | some v => .ok v
  | none => .error .bad_access

/-- Write `*p = v`. -/
def store (m : Mem) (p v : Nat) : Exec Mem :=
  match m p with
  | some _ => .ok (fun a => if a = p then some v else m a)
  | none => .error .bad_access

/-- C `assert(cond)`; checked only when assertions are compiled in. -/
def c_assert (Py_DEBUG : Bool) (cond : Bool) : Exec Unit :=
  if Py_DEBUG && !cond then .error .assertion else .ok ()

/-! ## Machine arithmetic -/

/-- Value of `INT_MAX`. -/
def INT_MAX : Int := 2147483647

/-- Conversion of a wide integer to `int` (wraps modulo `2^32`). -/
def to_int (x : Int) : Int := (x + 2147483648) % 4294967296 - 2147483648

/-- Pointer difference `p - q` of two `_Py_TYPENODE_t *`, in elements. -/
def ptr_diff (p q : Nat) : Int := ((p : Int) - (q : Int)) / 8

/-- Address of `arr[i]` for a `_Py_TYPENODE_t *arr` and a signed index `i`. -/
def ptr_index (arr : Nat) (i : Int) : Nat :=
  (((arr : Int) + 8 * i) % 18446744073709551616).toNat

/-! ## Type nodes (`Include/cpython/code.h`) -/

def TYPE_NULL : Nat := 0
def TYPE_ROOT_POSITIVE : Nat := 1
def TYPE_REF : Nat := 2
def TYPE_ROOT_NEGATIVE : Nat := 3

/-- Tag of a node: `(typenode) & 0b11`. -/
def _Py_TYPENODE_GET_TAG (typenode : Nat) : Nat := typenode % 4

/-- Payload of a node: `(typenode) & ~0b11`. -/
def _Py_TYPENODE_CLEAR_TAG (typenode : Nat) : Nat := typenode - typenode % 4

/-- Positive root: `CLEAR_TAG(ptr) | TYPE_ROOT_POSITIVE`. -/
def _Py_TYPENODE_MAKE_ROOT_POSITIVE (ptr : Nat) : Nat :=
  _Py_TYPENODE_CLEAR_TAG ptr + TYPE_ROOT_POSITIVE

/-- Negative root: `CLEAR_TAG(ptr) | TYPE_ROOT_NEGATIVE`. -/
def _Py_TYPENODE_MAKE_ROOT_NEGATIVE (ptr : Nat) : Nat :=
  _Py_TYPENODE_CLEAR_TAG ptr + TYPE_ROOT_NEGATIVE

/-- Reference node: `CLEAR_TAG(ptr) | TYPE_REF`. -/
def _Py_TYPENODE_MAKE_REF (ptr : Nat) : Nat :=
  _Py_TYPENODE_CLEAR_TAG ptr + TYPE_REF

/-- The unknown type: `MAKE_ROOT_POSITIVE(0)`. -/
def _Py_TYPENODE_POSITIVE_NULLROOT : Nat := _Py_TYPENODE_MAKE_ROOT_POSITIVE 0

/-- Root test: `(typenode) & 1`. -/
def _Py_TYPENODE_IS_ROOT (typenode : Nat) : Nat := typenode % 2

/-- Addresses of the type objects the optimizer compares against. -/
structure TypeObjects where
  PyFloat_Type : Nat
  PyRawFloat_Type : Nat
  PyLong_Type : Nat
  PySmallInt_Type : Nat
  PyList_Type : Nat
  deriving DecidableEq, Repr

/-- The struct `_PyTier2TypeContext`; pointer fields hold addresses. -/
structure _PyTier2TypeContext where
  type_stack_ptr : Nat
  type_locals_len : Nat
  type_stack_len : Nat
  type_stack : Nat
  type_locals : Nat
  deriving DecidableEq, Repr

/-! ## Type context functions (`Python/tier2.c`) -/

/-- Mark `n` nodes starting at `p` as allocated (contents indeterminate, here `0`). -/
def malloc_nodes (m : Mem) (p n : Nat) : Mem :=
  fun a => if p ≤ a ∧ a < p + 8 * n ∧ (a - p) % 8 = 0 then some 0 else m a

/-- Follow `REF` links from the node value `ref` up to the root; returns the
address of the root.  `fuel` bounds the number of iterations of the `do … while`. -/
def __typenode_get_rootptr (m : Mem) : Nat → Nat → Exec Nat
  | 0, _ => .error .out_of_fuel
  | fuel + 1, ref => do
    let ref_ptr := _Py_TYPENODE_CLEAR_TAG ref
    let ref1 ← load m ref_ptr
    if _Py_TYPENODE_IS_ROOT ref1 ≠ 0 then pure ref_ptr
    else __typenode_get_rootptr m fuel ref1

/-- Root value that a node value resolves to. -/
def typenode_get_root (m : Mem) (fuel : Nat) (node : Nat) : Exec Nat :=
  let tag := _Py_TYPENODE_GET_TAG node
  if tag = TYPE_ROOT_POSITIVE ∨ tag = TYPE_ROOT_NEGATIVE then .ok node
  else if tag = TYPE_REF then do
    let p ← __typenode_get_rootptr m fuel node
    load m p
  else .error .unreachable

/-- Body of the two loops of `print_typestack` for the index `i`; both loops read
`type_locals[i]`.  The node is resolved to its root, and for a `REF` the assertion on the
place of its parent is made.  What is written to `stderr` is left out, and with it the
read of `tp_name` from the type object of a positive root. -/
def print_typestack.visit (Py_DEBUG : Bool) (m : Mem) (fuel : Nat)
    (type_context : _PyTier2TypeContext) (i : Nat) : Exec Unit := do
  let nstack := type_context.type_stack_len
  let nlocals := type_context.type_locals_len
  let node ← load m (type_context.type_locals + 8 * i)
  let tag := _Py_TYPENODE_GET_TAG node
  let _ ← typenode_get_root m fuel node
  if tag = TYPE_REF then
    let parent := _Py_TYPENODE_CLEAR_TAG node
    let plocals := to_int (ptr_diff parent type_context.type_locals)
    let pstack := to_int (ptr_diff parent type_context.type_stack)
    let is_local := decide (0 ≤ plocals ∧ plocals < (nlocals : Int))
    if !is_local then c_assert Py_DEBUG (decide (0 ≤ pstack ∧ pstack < (nstack : Int)))
    else pure ()
  else pure ()

/-- One of the two loops of `print_typestack`, for the indices `i ..< i + n`. -/
def print_typestack.loop (Py_DEBUG : Bool) (m : Mem) (fuel : Nat)
    (type_context : _PyTier2TypeContext) : Nat → Nat → Exec Unit
  | 0, _ => .ok ()
  | n + 1, i => do
    print_typestack.visit Py_DEBUG m fuel type_context i
    print_typestack.loop Py_DEBUG m fuel type_context n (i + 1)

/-- Prints the entries of a type context (`TYPEPROP_DEBUG` is defined as 1, so the function
is part of every build).  The first loop runs over the `type_stack_len` indices of the
stack but reads `type_locals[i]`, as the second loop over the locals does. -/
def print_typestack (Py_DEBUG : Bool) (m : Mem) (fuel : Nat)
    (type_context : _PyTier2TypeContext) : Exec Unit := do
  print_typestack.loop Py_DEBUG m fuel type_context type_context.type_stack_len 0
  print_typestack.loop Py_DEBUG m fuel type_context type_context.type_locals_len 0

/-- The `switch` in the body of the two copy loops of `_PyTier2TypeContext_Copy`: stores
the copy of `node` into `*dst_ptr`, where `type_locals`/`type_stack` are the new arrays. -/
def _PyTier2TypeContext_Copy.node (Py_DEBUG : Bool) (type_context : _PyTier2TypeContext)
    (type_locals type_stack : Nat) (m : Mem) (dst_ptr node : Nat) : Exec Mem :=
  let nlocals := type_context.type_locals_len
  let nstack := type_context.type_stack_len
  if _Py_TYPENODE_GET_TAG node = TYPE_ROOT_POSITIVE
      ∨ _Py_TYPENODE_GET_TAG node = TYPE_ROOT_NEGATIVE then
    store m dst_ptr node
  else if _Py_TYPENODE_GET_TAG node = TYPE_REF then
    let parent := _Py_TYPENODE_CLEAR_TAG node
    let offset_locals := to_int (ptr_diff parent type_context.type_locals)
    if 0 ≤ offset_locals ∧ offset_locals < (nlocals : Int) then
      store m dst_ptr (_Py_TYPENODE_MAKE_REF (ptr_index type_locals offset_locals))
    else
      let offset_stack := to_int (ptr_diff parent type_context.type_stack)
      c_assert Py_DEBUG (decide (0 ≤ offset_stack ∧ offset_stack < (nstack : Int)))
        >>= fun _ =>
      store m dst_ptr (_Py_TYPENODE_MAKE_REF (ptr_index type_stack offset_stack))
  else
    .error .unreachable

/-- One of the two copy loops of `_PyTier2TypeContext_Copy`: copies `src_arr[i ..< i + n]`
into `dst_arr`, where `type_locals`/`type_stack` are the new arrays. -/
def _PyTier2TypeContext_Copy.loop (Py_DEBUG : Bool) (type_context : _PyTier2TypeContext)
    (type_locals type_stack : Nat) (src_arr dst_arr : Nat) :
    Nat → Nat → Mem → Exec Mem
  | 0, _, m => .ok m
  | n + 1, i, m => do
    let node ← load m (src_arr + 8 * i)
    let m1 ← _PyTier2TypeContext_Copy.node Py_DEBUG type_context type_locals type_stack
      m (dst_arr + 8 * i) node
    _PyTier2TypeContext_Copy.loop Py_DEBUG type_context type_locals type_stack
      src_arr dst_arr n (i + 1) m1

/-- The statements of `_PyTier2TypeContext_Copy` behind its `#if TYPEPROP_DEBUG` block.
`type_locals`, `type_stack` and `new_type_context` are the results of the three
`PyMem_Malloc` calls (`0` is `NULL`).  Returns the new heap and the new context (`none`
is `NULL`). -/
def _PyTier2TypeContext_Copy.body (Py_DEBUG : Bool) (m : Mem)
    (type_context : _PyTier2TypeContext)
    (type_locals type_stack new_type_context : Nat) :
    Exec (Mem × Option _PyTier2TypeContext) :=
  let nlocals := type_context.type_locals_len
  let nstack := type_context.type_stack_len
  if type_locals = 0 then .ok (m, none)
  else if type_stack = 0 then .ok (m, none)
  else if new_type_context = 0 then .ok (m, none)
  else do
    let m0 := malloc_nodes (malloc_nodes m type_locals nlocals) type_stack nstack
    let m1 ← _PyTier2TypeContext_Copy.loop Py_DEBUG type_context type_locals type_stack
      type_context.type_locals type_locals nlocals 0 m0
    let m2 ← _PyTier2TypeContext_Copy.loop Py_DEBUG type_context type_locals type_stack
      type_context.type_stack type_stack nstack 0 m1
    pure (m2, some
      { type_locals_len := nlocals
        type_stack_len := nstack
        type_locals := type_locals
        type_stack := type_stack
        type_stack_ptr :=
          ptr_index type_context.type_stack_ptr
            (ptr_diff type_stack type_context.type_stack) })

/-- Deep copy of a type context: the context is printed first (`TYPEPROP_DEBUG`), then
copied.  `type_locals`, `type_stack` and `new_type_context` are the results of the three
`PyMem_Malloc` calls (`0` is `NULL`); `fuel` bounds the loops of `typenode_get_root` in
`print_typestack`.  Returns the new heap and the new context (`none` is `NULL`). -/
def _PyTier2TypeContext_Copy (Py_DEBUG : Bool) (m : Mem) (fuel : Nat)
    (type_context : _PyTier2TypeContext)
    (type_locals type_stack new_type_context : Nat) :
    Exec (Mem × Option _PyTier2TypeContext) :=
  print_typestack Py_DEBUG m fuel type_context >>= fun _ =>
  _PyTier2TypeContext_Copy.body Py_DEBUG m type_context type_locals type_stack
    new_type_context

/-- The `PyTypeObject *` (as an address) that a node resolves to. -/
def typenode_get_type (Py_DEBUG : Bool) (m : Mem) (fuel : Nat) (node : Nat) : Exec Nat := do
  let root ← typenode_get_root m fuel node
  c_assert Py_DEBUG (decide (_Py_TYPENODE_GET_TAG root ≠ TYPE_ROOT_NEGATIVE))
  pure (_Py_TYPENODE_CLEAR_TAG root)

/-- Location of a node of `ctx`: the index and `*is_localvar`. -/
def typenode_get_location (ctx : _PyTier2TypeContext) (node : Nat) : Exec (Int × Bool) :=
  let nlocals := ctx.type_locals_len
  let offset := to_int (ptr_diff node ctx.type_locals)
  if offset ≥ 0 ∧ offset < (nlocals : Int) then .ok (offset, true)
  else
    let nstack := ctx.type_stack_len
    let offset := to_int (ptr_diff node ctx.type_stack)
    -- `for (int i = 0; i < nstack; i++) { *is_localvar = false; return offset; }`
    if 0 < nstack then .ok (offset, false)
    else .error .unreachable

/-- The `switch` on a tag used to find the root pointer of the node at `x`
(falls through from `TYPE_REF` to the root cases). -/
def rootref_of (m : Mem) (fuel : Nat) (x : Nat) (x_val : Nat) : Exec Nat :=
  let x_tag := _Py_TYPENODE_GET_TAG x_val
  if x_tag = TYPE_REF then __typenode_get_rootptr m fuel x_val
  else if x_tag = TYPE_ROOT_POSITIVE ∨ x_tag = TYPE_ROOT_NEGATIVE then .ok x
  else .error .unreachable

/-- Whether the nodes at addresses `x` and `y` are in the same tree. -/
def typenode_is_same_tree (m : Mem) (fuel : Nat) (x y : Nat) : Exec Bool := do
  let x_val ← load m x
  let y_val ← load m y
  let y_rootref ← rootref_of m fuel y y_val
  let x_rootref ← rootref_of m fuel x x_val
  pure (decide (x_rootref = y_rootref))

/-- Value stored into `*dst` by TYPE_SET/TYPE_OVERWRITE: `src` itself when it is a
new root, a `REF` to `src` otherwise. -/
def src_node (src : Nat) (src_is_new : Bool) : Nat :=
  if !src_is_new then _Py_TYPENODE_MAKE_REF src else src

/-- Body of the child scans of `__type_propagate_TYPE_OVERWRITE` when `dst` was a root:
if the node at `node_ptr` is a child of `dst`, it becomes the new root (gets `old_dst`)
when it is the first child found, and is pointed at the new root otherwise.
The state is the heap and `new_root_ptr` (`0` is `NULL`). -/
def __type_propagate_TYPE_OVERWRITE.root_visit (child_test old_dst node_ptr : Nat)
    (s : Mem × Nat) : Exec (Mem × Nat) := do
  let v ← load s.1 node_ptr
  if v = child_test then
    if s.2 = 0 then do
      let m1 ← store s.1 node_ptr old_dst
      pure (m1, node_ptr)
    else do
      let m1 ← store s.1 node_ptr (_Py_TYPENODE_MAKE_REF s.2)
      pure (m1, s.2)
  else pure s

/-- Child scan of `__type_propagate_TYPE_OVERWRITE` when `dst` was a root, over
`arr[i ..< i + n]`. -/
def __type_propagate_TYPE_OVERWRITE.root_loop (arr child_test old_dst : Nat) :
    Nat → Nat → Mem × Nat → Exec (Mem × Nat)
  | 0, _, s => .ok s
  | n + 1, i, s => do
    let s1 ← __type_propagate_TYPE_OVERWRITE.root_visit child_test old_dst (arr + 8 * i) s
    __type_propagate_TYPE_OVERWRITE.root_loop arr child_test old_dst n (i + 1) s1

/-- Body of the child scans of `__type_propagate_TYPE_OVERWRITE` when `dst` was a `REF`:
a child of `dst` is pointed at the former parent of `dst`. -/
def __type_propagate_TYPE_OVERWRITE.ref_visit (child_test old_dst node_ptr : Nat)
    (m : Mem) : Exec Mem := do
  let v ← load m node_ptr
  if v = child_test then store m node_ptr old_dst else pure m

/-- Child scan of `__type_propagate_TYPE_OVERWRITE` when `dst` was a `REF`, over
`arr[i ..< i + n]`. -/
def __type_propagate_TYPE_OVERWRITE.ref_loop (arr child_test old_dst : Nat) :
    Nat → Nat → Mem → Exec Mem
  | 0, _, m => .ok m
  | n + 1, i, m => do
    let m1 ← __type_propagate_TYPE_OVERWRITE.ref_visit child_test old_dst (arr + 8 * i) m
    __type_propagate_TYPE_OVERWRITE.ref_loop arr child_test old_dst n (i + 1) m1

/-- TYPE_OVERWRITE: the node at `dst` is removed from its tree and overwritten by
`src` (a root value when `src_is_new`, else the address of a node). -/
def __type_propagate_TYPE_OVERWRITE (Py_DEBUG : Bool) (m : Mem) (fuel : Nat)
    (type_context : _PyTier2TypeContext) (src dst : Nat) (src_is_new : Bool) :
    Exec Mem := do
  if src_is_new then
    c_assert Py_DEBUG (decide (_Py_TYPENODE_IS_ROOT src ≠ 0))
  let same ← if !src_is_new then typenode_is_same_tree m fuel src dst else pure false
  if same then pure m
  else do
    let old_dst ← load m dst
    let tag := _Py_TYPENODE_GET_TAG old_dst
    let nlocals := type_context.type_locals_len
    let nstack := type_context.type_stack_len
    if tag = TYPE_ROOT_POSITIVE ∨ tag = TYPE_ROOT_NEGATIVE then do
      let m1 ← store m dst (src_node src src_is_new)
      let child_test := _Py_TYPENODE_MAKE_REF (_Py_TYPENODE_CLEAR_TAG dst)
      let s2 ← __type_propagate_TYPE_OVERWRITE.root_loop type_context.type_locals
        child_test old_dst nlocals 0 (m1, 0)
      let s3 ← __type_propagate_TYPE_OVERWRITE.root_loop type_context.type_stack
        child_test old_dst nstack 0 s2
      pure s3.1
    else if tag = TYPE_REF then do
      let m1 ← store m dst (src_node src src_is_new)
      let child_test := _Py_TYPENODE_MAKE_REF (_Py_TYPENODE_CLEAR_TAG dst)
      let m2 ← __type_propagate_TYPE_OVERWRITE.ref_loop type_context.type_locals
        child_test old_dst nlocals 0 m1
      __type_propagate_TYPE_OVERWRITE.ref_loop type_context.type_stack
        child_test old_dst nstack 0 m2
    else .error .unreachable

/-- Body of the child scans of `__type_propagate_TYPE_SWAP`: a child of `src` becomes a
child of `dst` and vice versa. -/
def __type_propagate_TYPE_SWAP.visit (src_child_test dst_child_test node_ptr : Nat)
    (m : Mem) : Exec Mem := do
  let v ← load m node_ptr
  if v = src_child_test then store m node_ptr dst_child_test
  else if v = dst_child_test then store m node_ptr src_child_test
  else pure m

/-- Child scan of `__type_propagate_TYPE_SWAP` over `arr[i ..< i + n]`. -/
def __type_propagate_TYPE_SWAP.loop (arr src_child_test dst_child_test : Nat) :
    Nat → Nat → Mem → Exec Mem
  | 0, _, m => .ok m
  | n + 1, i, m => do
    let m1 ← __type_propagate_TYPE_SWAP.visit src_child_test dst_child_test (arr + 8 * i) m
    __type_propagate_TYPE_SWAP.loop arr src_child_test dst_child_test n (i + 1) m1

/-- The compound assignment `*p ^= *q`. -/
def xor_assign (m : Mem) (p q : Nat) : Exec Mem := do
  let a ← load m p
  let b ← load m q
  store m p (a ^^^ b)

/-- TYPE_SWAP: the nodes at `src` and `dst` swap positions. -/
def __type_propagate_TYPE_SWAP (m : Mem) (fuel : Nat)
    (type_context : _PyTier2TypeContext) (src dst : Nat) : Exec Mem := do
  let same ← typenode_is_same_tree m fuel src dst
  if same then pure m
  else do
    let src_child_test := _Py_TYPENODE_MAKE_REF (_Py_TYPENODE_CLEAR_TAG src)
    let dst_child_test := _Py_TYPENODE_MAKE_REF (_Py_TYPENODE_CLEAR_TAG dst)
    let m1 ← __type_propagate_TYPE_SWAP.loop type_context.type_locals
      src_child_test dst_child_test type_context.type_locals_len 0 m
    let m2 ← __type_propagate_TYPE_SWAP.loop type_context.type_stack
      src_child_test dst_child_test type_context.type_stack_len 0 m1
    let m3 ← xor_assign m2 src dst
    let m4 ← xor_assign m3 dst src
    xor_assign m4 src dst

/-- Whether `t` is an unboxed type: `t == &PyRawFloat_Type`. -/
def is_unboxed_type (T : TypeObjects) (t : Nat) : Bool := decide (t = T.PyRawFloat_Type)

/-- Helper of `typecontext_is_compatible`: whether the trees of the two nodes have
their roots at corresponding places of the two contexts. -/
def typenode_is_compatible (m : Mem) (fuel : Nat)
    (ctx1 ctx2 : _PyTier2TypeContext) (ctx1_node ctx2_node : Nat) : Exec Bool := do
  let v1 ← load m ctx1_node
  let root1 ← rootref_of m fuel ctx1_node v1
  let v2 ← load m ctx2_node
  let root2 ← rootref_of m fuel ctx2_node v2
  let (node_idx1, is_local1) ← typenode_get_location ctx1 root1
  let (node_idx2, is_local2) ← typenode_get_location ctx2 root2
  let mappedroot1 :=
    if is_local1 then ptr_index ctx2.type_locals node_idx1
    else ptr_index ctx2.type_stack node_idx1
  let mappedroot2 :=
    if is_local2 then ptr_index ctx1.type_locals node_idx2
    else ptr_index ctx1.type_stack node_idx2
  let b1 ← typenode_is_same_tree m fuel mappedroot1 root2
  if b1 then typenode_is_same_tree m fuel mappedroot2 root1 else pure false

/-- One of the two loops of `typecontext_is_compatible`, over `arr1[i ..< i + n]` and
`arr2[i ..< i + n]`; `false` is the early `return false`. -/
def typecontext_is_compatible.loop (m : Mem) (fuel : Nat)
    (ctx1 ctx2 : _PyTier2TypeContext) (arr1 arr2 : Nat) : Nat → Nat → Exec Bool
  | 0, _ => .ok true
  | n + 1, i => do
    let b ← typenode_is_compatible m fuel ctx1 ctx2 (arr1 + 8 * i) (arr2 + 8 * i)
    if !b then pure false
    else typecontext_is_compatible.loop m fuel ctx1 ctx2 arr1 arr2 n (i + 1)

/-- Number of live stack slots: `(int)(ctx->type_stack_ptr - ctx->type_stack)`. -/
def stack_elems (ctx : _PyTier2TypeContext) : Int :=
  to_int (ptr_diff ctx.type_stack_ptr ctx.type_stack)

/-- Checks that type context 2 is compatible with context 1. -/
def typecontext_is_compatible (Py_DEBUG : Bool) (m : Mem) (fuel : Nat)
    (ctx1 ctx2 : _PyTier2TypeContext) : Exec Bool := do
  let stack_elems1 := stack_elems ctx1
  -- the `#ifdef Py_DEBUG` block
  c_assert Py_DEBUG (decide (ctx1.type_locals_len = ctx2.type_locals_len))
  c_assert Py_DEBUG (decide (ctx1.type_stack_len = ctx2.type_stack_len))
  c_assert Py_DEBUG (decide (stack_elems1 = stack_elems ctx2))
  let ok_locals ← typecontext_is_compatible.loop m fuel ctx1 ctx2
    ctx1.type_locals ctx2.type_locals ctx1.type_locals_len 0
  if !ok_locals then pure false
  else
    typecontext_is_compatible.loop m fuel ctx1 ctx2
      ctx1.type_stack ctx2.type_stack stack_elems1.toNat 0

/-- One of the two loops of `diff_typecontext`, over `arr1[i ..< i + n]` and
`arr2[i ..< i + n]`, starting with the running count `diff`.  `none` is the early
`return INT_MAX`; `some d` is the count when the loop ran to its end. -/
def diff_typecontext.loop (Py_DEBUG : Bool) (T : TypeObjects) (m : Mem) (fuel : Nat)
    (arr1 arr2 : Nat) : Nat → Nat → Int → Exec (Option Int)
  | 0, _, diff => .ok (some diff)
  | n + 1, i, diff => do
    let n1 ← load m (arr1 + 8 * i)
    let a ← typenode_get_type Py_DEBUG m fuel n1
    let n2 ← load m (arr2 + 8 * i)
    let b ← typenode_get_type Py_DEBUG m fuel n2
    if a = 0 ∧ b ≠ 0 then pure none
    else if a ≠ b ∧ b ≠ 0 then pure none
    else if is_unboxed_type T a = true ∧ a ≠ b then pure none
    else
      let diff1 := diff + (if a ≠ b then 1 else 0)
      if diff1 > INT_MAX then .error .overflow
      else diff_typecontext.loop Py_DEBUG T m fuel arr1 arr2 n (i + 1) diff1

/-- The statements of `diff_typecontext` behind its `#if BB_DEBUG` block. -/
def diff_typecontext.body (Py_DEBUG : Bool) (T : TypeObjects) (m : Mem) (fuel : Nat)
    (ctx1 ctx2 : _PyTier2TypeContext) : Exec Int := do
  c_assert Py_DEBUG (decide (ctx1.type_locals_len = ctx2.type_locals_len))
  c_assert Py_DEBUG (decide (ctx1.type_stack_len = ctx2.type_stack_len))
  let stack_elems1 := stack_elems ctx1
  let stack_elems2 := stack_elems ctx2
  c_assert Py_DEBUG (decide (stack_elems1 = stack_elems2))
  let compatible ← typecontext_is_compatible Py_DEBUG m fuel ctx1 ctx2
  if !compatible then pure INT_MAX
  else do
    let r1 ← diff_typecontext.loop Py_DEBUG T m fuel
      ctx1.type_locals ctx2.type_locals ctx1.type_locals_len 0 0
    match r1 with
    | none => pure INT_MAX
    | some diff => do
      let r2 ← diff_typecontext.loop Py_DEBUG T m fuel
        ctx1.type_stack ctx2.type_stack stack_elems1.toNat 0 diff
      match r2 with
      | none => pure INT_MAX
      | some diff2 => pure diff2

/-- Distance between two type contexts; incompatible contexts give `INT_MAX`.  Both
contexts are printed first (`BB_DEBUG` and `TYPEPROP_DEBUG`). -/
def diff_typecontext (Py_DEBUG : Bool) (T : TypeObjects) (m : Mem) (fuel : Nat)
    (ctx1 ctx2 : _PyTier2TypeContext) : Exec Int :=
  print_typestack Py_DEBUG m fuel ctx1 >>= fun _ =>
  print_typestack Py_DEBUG m fuel ctx2 >>= fun _ =>
  diff_typecontext.body Py_DEBUG T m fuel ctx1 ctx2

/-! ## Well-formed contexts -/

/-- The address `p` is the address of a node of `c` (of `type_locals` or `type_stack`). -/
def InCtx (c : _PyTier2TypeContext) (p : Nat) : Prop :=
  (∃ i, i < c.type_locals_len ∧ p = c.type_locals + 8 * i)
    ∨ (∃ i, i < c.type_stack_len ∧ p = c.type_stack + 8 * i)

instance (c : _PyTier2TypeContext) (p : Nat) : Decidable (InCtx c p) := by
  unfold InCtx; infer_instance

/-- Layout of two node arrays of `nlocals` and `nstack` elements at addresses `locals` and
`stack` under which the pointer arithmetic of the code means what it intends: the arrays
are non-null, aligned, disjoint and inside the 64-bit address space (as the allocator
guarantees), and they are close enough that element distances between them are
representable as `int` (the code casts such distances to `int`). -/
def Arrays (locals nlocals stack nstack : Nat) : Prop :=
  0 < locals ∧ 0 < stack
    ∧ locals % 8 = 0 ∧ stack % 8 = 0
    ∧ (locals + 8 * nlocals ≤ stack ∨ stack + 8 * nstack ≤ locals)
    ∧ locals + 8 * nlocals < 18446744073709551616
    ∧ stack + 8 * nstack < 18446744073709551616
    ∧ stack + 8 * nstack < locals + 8 * 2147483648
    ∧ locals + 8 * nlocals < stack + 8 * 2147483648

instance (a b c d : Nat) : Decidable (Arrays a b c d) := by
  unfold Arrays; infer_instance

/-- Memory layout of a context: its two arrays are laid out as `Arrays` describes and
`type_stack_ptr` points into (or one past the end of) `type_stack`. -/
def Layout (c : _PyTier2TypeContext) : Prop :=
  Arrays c.type_locals c.type_locals_len c.type_stack c.type_stack_len
    ∧ c.type_stack ≤ c.type_stack_ptr
    ∧ c.type_stack_ptr ≤ c.type_stack + 8 * c.type_stack_len
    ∧ c.type_stack_ptr % 8 = 0

instance (c : _PyTier2TypeContext) : Decidable (Layout c) := by
  unfold Layout; infer_instance

/-- The node stored at `p` is a root or a `REF` to a node of `c`. -/
def NodeOk (m : Mem) (c : _PyTier2TypeContext) (p : Nat) : Prop :=
  match m p with
  | none => False
  | some v =>
    _Py_TYPENODE_GET_TAG v ≠ TYPE_NULL
      ∧ (_Py_TYPENODE_GET_TAG v = TYPE_REF → InCtx c (_Py_TYPENODE_CLEAR_TAG v))

instance (m : Mem) (c : _PyTier2TypeContext) (p : Nat) : Decidable (NodeOk m c p) := by
  unfold NodeOk; split <;> infer_instance

/-- Following `REF` links from the node at `p` reaches a root within
`type_locals_len + type_stack_len` steps. -/
def Rooted (m : Mem) (c : _PyTier2TypeContext) (p : Nat) : Prop :=
  ∃ r, __typenode_get_rootptr m (c.type_locals_len + c.type_stack_len)
    (_Py_TYPENODE_MAKE_REF p) = .ok r

instance (m : Mem) (c : _PyTier2TypeContext) (p : Nat) : Decidable (Rooted m c p) := by
  unfold Rooted
  cases h : __typenode_get_rootptr m (c.type_locals_len + c.type_stack_len)
    (_Py_TYPENODE_MAKE_REF p) with
  | error e => exact isFalse (by simp)
  | ok r => exact isTrue ⟨r, rfl⟩

/-- Every node of the context is a root or a `REF` to a node of the same context. -/
def Closed (m : Mem) (c : _PyTier2TypeContext) : Prop :=
  Layout c
    ∧ (∀ i, i < c.type_locals_len → NodeOk m c (c.type_locals + 8 * i))
    ∧ (∀ i, i < c.type_stack_len → NodeOk m c (c.type_stack + 8 * i))

instance (m : Mem) (c : _PyTier2TypeContext) : Decidable (Closed m c) := by
  unfold Closed; infer_instance

/-- The `REF` links of the context form a forest: from every node a root is reached
within `type_locals_len + type_stack_len` steps. -/
def Acyclic (m : Mem) (c : _PyTier2TypeContext) : Prop :=
  (∀ i, i < c.type_locals_len → Rooted m c (c.type_locals + 8 * i))
    ∧ (∀ i, i < c.type_stack_len → Rooted m c (c.type_stack + 8 * i))

instance (m : Mem) (c : _PyTier2TypeContext) : Decidable (Acyclic m c) := by
  unfold Acyclic; infer_instance

/-- Well-formed type context in heap `m`: closed and acyclic. -/
def WellFormed (m : Mem) (c : _PyTier2TypeContext) : Prop :=
  Closed m c ∧ Acyclic m c

instance (m : Mem) (c : _PyTier2TypeContext) : Decidable (WellFormed m c) := by
  unfold WellFormed; infer_instance

/-- Reaching a root by following `REF` links: `RootAt m p r d` says that the chain
starting at address `p` ends at the root stored at address `r` after `d` links. -/
inductive RootAt (m : Mem) : Nat → Nat → Nat → Prop where
  | root (p v : Nat) (hv : m p = some v) (hr : _Py_TYPENODE_IS_ROOT v ≠ 0) : RootAt m p p 0
  | step (p v r d : Nat) (hv : m p = some v) (hr : _Py_TYPENODE_IS_ROOT v = 0)
      (h : RootAt m (_Py_TYPENODE_CLEAR_TAG v) r d) : RootAt m p r (d + 1)

/-- Heap that holds exactly the arrays `ls` at address `lb` and `ss` at address `sb`. -/
def heap_of (lb : Nat) (ls : List Nat) (sb : Nat) (ss : List Nat) : Mem := fun a =>
  if lb ≤ a ∧ a < lb + 8 * ls.length ∧ (a - lb) % 8 = 0 then ls[(a - lb) / 8]?
  else if sb ≤ a ∧ a < sb + 8 * ss.length ∧ (a - sb) % 8 = 0 then ss[(a - sb) / 8]?
  else none

/-! ## Example contexts -/

/-- A context with two locals and three stack slots (two of them live). -/
def ex_ctx : _PyTier2TypeContext :=
  { type_locals := 64, type_locals_len := 2, type_stack := 128, type_stack_len := 3,
    type_stack_ptr := 144 }

/-- Heap for `ex_ctx`: `locals = [unknown, REF stack[0]]` and
`stack = [known type at address 8, REF locals[0], REF stack[1]]`. -/
def ex_mem : Mem := heap_of 64 [1, 130] 128 [9, 66, 138]

/-! ## Vocabulary of the statements -/

/-- Position of the arrays at `type_locals`/`type_stack` that corresponds to the position
`p` of the context `c`: same array, same index. -/
def reloc (c : _PyTier2TypeContext) (type_locals type_stack : Nat) (p : Nat) : Nat :=
  if c.type_locals ≤ p ∧ p < c.type_locals + 8 * c.type_locals_len then
    type_locals + (p - c.type_locals)
  else type_stack + (p - c.type_stack)

/-- The node `v` of `c` seen from the arrays at `type_locals`/`type_stack`: a root is
itself, a `REF` refers to the corresponding position. -/
def reloc_node (c : _PyTier2TypeContext) (type_locals type_stack : Nat) (v : Nat) : Nat :=
  if _Py_TYPENODE_GET_TAG v = TYPE_REF then
    _Py_TYPENODE_MAKE_REF (reloc c type_locals type_stack (_Py_TYPENODE_CLEAR_TAG v))
  else v

/-- The node at address `q` of heap `m'` (a node of `c'`) is the copy of the node at
address `p` of heap `m` (a node of `c`): a root has the identical value, a `REF` to
`locals[j]` (resp. `stack[j]`) of `c` is a `REF` to `locals[j]` (resp. `stack[j]`) of `c'`. -/
def CopiedNode (m m' : Mem) (c c' : _PyTier2TypeContext) (p q : Nat) : Prop :=
  ∃ v v', m p = some v ∧ m' q = some v'
    ∧ (_Py_TYPENODE_IS_ROOT v ≠ 0 → v' = v)
    ∧ (∀ j, j < c.type_locals_len → v = _Py_TYPENODE_MAKE_REF (c.type_locals + 8 * j) →
        v' = _Py_TYPENODE_MAKE_REF (c'.type_locals + 8 * j))
    ∧ (∀ j, j < c.type_stack_len → v = _Py_TYPENODE_MAKE_REF (c.type_stack + 8 * j) →
        v' = _Py_TYPENODE_MAKE_REF (c'.type_stack + 8 * j))

/-- The arrays at `type_locals` and `type_stack` are what two successful `PyMem_Malloc`
calls return when `c` is copied in heap `m`: laid out as `Arrays` describes and not
in use by `m`. -/
def FreshArrays (m : Mem) (c : _PyTier2TypeContext) (type_locals type_stack : Nat) : Prop :=
  Arrays type_locals c.type_locals_len type_stack c.type_stack_len
    ∧ (∀ i, i < c.type_locals_len → m (type_locals + 8 * i) = none)
    ∧ (∀ i, i < c.type_stack_len → m (type_stack + 8 * i) = none)

instance (m : Mem) (c : _PyTier2TypeContext) (a b : Nat) : Decidable (FreshArrays m c a b) := by
  unfold FreshArrays; infer_instance

deriving instance DecidableEq for Except

/-- Heap that holds what `m1` holds and, elsewhere, what `m2` holds. -/
def heap_join (m1 m2 : Mem) : Mem := fun a =>
  match m1 a with
  | some v => some v
  | none => m2 a

/-- The type that the node stored at address `p` resolves to (the payload of its root),
computed by `typenode_get_type` with its assertion left aside. -/
def resolved_type (m : Mem) (fuel : Nat) (p : Nat) : Exec Nat :=
  load m p >>= typenode_get_type false m fuel

/-- Number of indices `i < n` at which `arr1[i]` and `arr2[i]` resolve to different types. -/
def differing (m : Mem) (fuel : Nat) (arr1 arr2 : Nat) (n : Nat) : Nat :=
  (List.range n).countP
    (fun i => decide (resolved_type m fuel (arr1 + 8 * i) ≠ resolved_type m fuel (arr2 + 8 * i)))

/-- The root that the node stored at `p` resolves to is not a negative root, which is
what the assertion of `typenode_get_type` demands. -/
def PositiveRoot (m : Mem) (fuel : Nat) (p : Nat) : Prop :=
  match load m p >>= typenode_get_root m fuel with
  | .ok root => _Py_TYPENODE_GET_TAG root ≠ TYPE_ROOT_NEGATIVE
  | .error _ => False

instance (m : Mem) (fuel p : Nat) : Decidable (PositiveRoot m fuel p) := by
  unfold PositiveRoot; split <;> infer_instance

/-- Every local and every live stack slot of `c` resolves to a root that is not negative. -/
def PositiveRoots (m : Mem) (fuel : Nat) (c : _PyTier2TypeContext) : Prop :=
  (∀ i, i < c.type_locals_len → PositiveRoot m fuel (c.type_locals + 8 * i))
    ∧ (∀ i, i < (stack_elems c).toNat → PositiveRoot m fuel (c.type_stack + 8 * i))

instance (m : Mem) (fuel : Nat) (c : _PyTier2TypeContext) :
    Decidable (PositiveRoots m fuel c) := by
  unfold PositiveRoots; infer_instance

/-- The two contexts have the same dimensions and the same stack height. -/
def SameDims (c1 c2 : _PyTier2TypeContext) : Prop :=
  c1.type_locals_len = c2.type_locals_len ∧ c1.type_stack_len = c2.type_stack_len
    ∧ stack_elems c1 = stack_elems c2

instance (c1 c2 : _PyTier2TypeContext) : Decidable (SameDims c1 c2) := by
  unfold SameDims; infer_instance

/-- The copy of `ex_ctx` made at addresses 256 (locals) and 512 (stack). -/
def ex_ctx_copy : _PyTier2TypeContext :=
  { type_locals := 256, type_locals_len := 2, type_stack := 512, type_stack_len := 3,
    type_stack_ptr := 528 }

/-- Heap holding `ex_ctx` and its copy `ex_ctx_copy`. -/
def ex_mem_copy : Mem := heap_join ex_mem (heap_of 256 [1, 514] 512 [9, 258, 522])

/-- A context like `ex_ctx_copy` in which the type of `stack[0]` is unknown. -/
def ex_ctx_wide : _PyTier2TypeContext :=
  { type_locals := 1024, type_locals_len := 2, type_stack := 2048, type_stack_len := 3,
    type_stack_ptr := 2064 }

/-- Heap holding `ex_ctx` and the wider context `ex_ctx_wide`. -/
def ex_mem_wide : Mem := heap_join ex_mem (heap_of 1024 [1, 2050] 2048 [1, 1026, 2058])

/-- A context like `ex_ctx` with a third local, so that it has as many locals as stack
slots. -/
def room_ctx : _PyTier2TypeContext :=
  { type_locals := 64, type_locals_len := 3, type_stack := 128, type_stack_len := 3,
    type_stack_ptr := 144 }

/-- Heap for `room_ctx`: `locals = [unknown, REF stack[0], unknown]` and
`stack = [known type at address 8, REF locals[0], REF stack[1]]`. -/
def room_mem : Mem := heap_of 64 [1, 130, 1] 128 [9, 66, 138]

/-- The copy of `room_ctx` made at addresses 256 (locals) and 512 (stack). -/
def room_ctx_copy : _PyTier2TypeContext :=
  { type_locals := 256, type_locals_len := 3, type_stack := 512, type_stack_len := 3,
    type_stack_ptr := 528 }

/-- Heap holding `room_ctx` and its copy `room_ctx_copy`. -/
def room_mem_copy : Mem := heap_join room_mem (heap_of 256 [1, 514, 1] 512 [9, 258, 522])

/-- A context like `room_ctx_copy` in which the type of `stack[0]` is unknown. -/
def room_ctx_wide : _PyTier2TypeContext :=
  { type_locals := 1024, type_locals_len := 3, type_stack := 2048, type_stack_len := 3,
    type_stack_ptr := 2064 }

/-- Heap holding `room_ctx` and the wider context `room_ctx_wide`. -/
def room_mem_wide : Mem :=
  heap_join room_mem (heap_of 1024 [1, 2050, 1] 2048 [1, 1026, 2058])

/-- A context whose only local has a negative root (float ruled out, as after a failed
`CHECK_FLOAT` guard) and whose stack is empty. -/
def neg_ctx : _PyTier2TypeContext :=
  { type_locals := 64, type_locals_len := 1, type_stack := 128, type_stack_len := 1,
    type_stack_ptr := 128 }

/-- Heap for `neg_ctx`: `locals = [ROOT_NEG with bit 2 set]`, `stack = [unknown]`. -/
def neg_mem : Mem := heap_of 64 [7] 128 [1]

/-- The addresses `p1` and `p2` are the same local or the same live stack slot (below
`stack_top`) of the contexts `c1` and `c2`. -/
def LivePair (c1 c2 : _PyTier2TypeContext) (p1 p2 : Nat) : Prop :=
  (∃ i, i < c1.type_locals_len ∧ p1 = c1.type_locals + 8 * i ∧ p2 = c2.type_locals + 8 * i)
    ∨ (∃ i, i < (stack_elems c1).toNat
        ∧ p1 = c1.type_stack + 8 * i ∧ p2 = c2.type_stack + 8 * i)

instance (c1 c2 : _PyTier2TypeContext) (p1 p2 : Nat) : Decidable (LivePair c1 c2 p1 p2) := by
  unfold LivePair; infer_instance

/-- The transposition of the addresses `src` and `dst`. -/
def swap_addr (src dst a : Nat) : Nat :=
  if a = src then dst else if a = dst then src else a

/-- A node in which a `REF` to `src` is replaced by a `REF` to `dst` and vice versa. -/
def swap_ref (src dst v : Nat) : Nat :=
  if v = _Py_TYPENODE_MAKE_REF src then _Py_TYPENODE_MAKE_REF dst
  else if v = _Py_TYPENODE_MAKE_REF dst then _Py_TYPENODE_MAKE_REF src
  else v

/-- The heap in which the nodes of `c` at `src` and `dst` have swapped positions: the
node at `a` is the former node at the transposed address, with `REF`s to `src` and `dst`
exchanged. -/
def swapped (m : Mem) (c : _PyTier2TypeContext) (src dst : Nat) : Mem := fun a =>
  if InCtx c a then (m (swap_addr src dst a)).map (swap_ref src dst) else m a

/-- The node at `c1` is the first node of `c`, in the scan order locals then stack, whose
value is `child_test`. -/
def FirstChild (m : Mem) (c : _PyTier2TypeContext) (child_test c1 : Nat) : Prop :=
  (∃ i, i < c.type_locals_len ∧ c1 = c.type_locals + 8 * i ∧ m c1 = some child_test
      ∧ ∀ k, k < i → m (c.type_locals + 8 * k) ≠ some child_test)
    ∨ (∃ j, j < c.type_stack_len ∧ c1 = c.type_stack + 8 * j ∧ m c1 = some child_test
        ∧ (∀ k, k < c.type_locals_len → m (c.type_locals + 8 * k) ≠ some child_test)
        ∧ ∀ k, k < j → m (c.type_stack + 8 * k) ≠ some child_test)

instance (m : Mem) (c : _PyTier2TypeContext) (ct c1 : Nat) : Decidable (FirstChild m c ct c1) := by
  unfold FirstChild; infer_instance

/-- Admissible source of a TYPE_SET/TYPE_OVERWRITE onto `dst`: a new root value, or the
address of a node of the context that is not in the tree of `dst`. -/
def SrcOk (m : Mem) (fuel : Nat) (c : _PyTier2TypeContext) (src dst : Nat)
    (src_is_new : Bool) : Prop :=
  (src_is_new = true ∧ _Py_TYPENODE_IS_ROOT src ≠ 0)
    ∨ (src_is_new = false ∧ InCtx c src ∧ typenode_is_same_tree m fuel src dst = .ok false)

instance (m : Mem) (fuel : Nat) (c : _PyTier2TypeContext) (src dst : Nat) (b : Bool) :
    Decidable (SrcOk m fuel c src dst b) := by
  unfold SrcOk; infer_instance

/-- Heap `m'` is heap `m` after the root `dst` (holding `old`) has been detached from its
children and overwritten with `sn`: without children only `dst` changes; otherwise the
first child `c1` holds `old` and the other children point at `c1`. -/
def RootDetached (m m' : Mem) (c : _PyTier2TypeContext) (dst sn old : Nat) : Prop :=
  m' dst = some sn ∧ (∀ a, ¬ InCtx c a → m' a = m a)
    ∧ ((∀ a, InCtx c a → a ≠ dst → m a ≠ some (_Py_TYPENODE_MAKE_REF dst) ∧ m' a = m a)
      ∨ ∃ c1, FirstChild m c (_Py_TYPENODE_MAKE_REF dst) c1 ∧ c1 ≠ dst ∧ m' c1 = some old
          ∧ ∀ a, InCtx c a → a ≠ dst → a ≠ c1 → m' a =
              (m a).map (fun v => if v = _Py_TYPENODE_MAKE_REF dst
                then _Py_TYPENODE_MAKE_REF c1 else v))

/-- Heap `m'` is heap `m` after the `REF` node `dst` (holding `old`, a `REF` to its parent)
has been detached and overwritten with `sn`: every child of `dst` holds `old`. -/
def RefDetached (m m' : Mem) (c : _PyTier2TypeContext) (dst sn old : Nat) : Prop :=
  m' dst = some sn ∧ (∀ a, ¬ InCtx c a → m' a = m a)
    ∧ ∀ a, InCtx c a → a ≠ dst → m' a =
        (m a).map (fun v => if v = _Py_TYPENODE_MAKE_REF dst then old else v)

/-- The context that `_PyTier2TypeContext_Copy` returns for `c` when the new arrays are at
`type_locals` and `type_stack`. -/
def copy_of (c : _PyTier2TypeContext) (type_locals type_stack : Nat) : _PyTier2TypeContext :=
  { type_locals_len := c.type_locals_len
    type_stack_len := c.type_stack_len
    type_locals := type_locals
    type_stack := type_stack
    type_stack_ptr := type_stack + (c.type_stack_ptr - c.type_stack) }

/-- Heap `m'` holds the context `c` of heap `m` unchanged and, in the arrays at
`type_locals`/`type_stack`, a copy of every node of `c`, relocated. -/
def CopyHeap (m m' : Mem) (c : _PyTier2TypeContext) (type_locals type_stack : Nat) : Prop :=
  ∀ p, InCtx c p → ∃ v, m p = some v ∧ m' p = some v
    ∧ m' (reloc c type_locals type_stack p) = some (reloc_node c type_locals type_stack v)

/-- TYPE_SET: the root of the tree of the node at `dst` is overwritten by `src` (a root
value when `src_is_new`, else the address of a node, to which the root becomes a `REF`). -/
def __type_propagate_TYPE_SET (Py_DEBUG : Bool) (m : Mem) (fuel : Nat)
    (src dst : Nat) (src_is_new : Bool) : Exec Mem := do
  if src_is_new then
    c_assert Py_DEBUG (decide (_Py_TYPENODE_IS_ROOT src ≠ 0))
  let same ← if !src_is_new then typenode_is_same_tree m fuel src dst else pure false
  if same then pure m
  else do
    let dst_val ← load m dst
    let rootref ← rootref_of m fuel dst dst_val
    store m rootref (src_node src src_is_new)

/-- The heap `m` after the assignment `*p = v` to an allocated cell. -/
def heap_set (m : Mem) (p v : Nat) : Mem := fun a => if a = p then some v else m a

/-- The loops `for (int i = 0; i < n; i++) arr[i] = _Py_TYPENODE_POSITIVE_NULLROOT;` of
`initialize_type_context`, over `arr[i ..< i + n]`. -/
def initialize_type_context.loop (arr : Nat) : Nat → Nat → Mem → Exec Mem
  | 0, _, m => .ok m
  | n + 1, i, m => do
    let m1 ← store m (arr + 8 * i) _Py_TYPENODE_POSITIVE_NULLROOT
    initialize_type_context.loop arr n (i + 1) m1

/-- Allocates and initializes the type context of a code object with `co_nlocals` locals
and stack size `co_stacksize`.  `type_locals`, `type_stack` and `type_context` are the
results of the three `PyMem_Malloc` calls (`0` is `NULL`).  Returns the new heap and the
new context (`none` is `NULL`; what was allocated before a failure is freed again). -/
def initialize_type_context (m : Mem) (co_nlocals co_stacksize : Nat)
    (type_locals type_stack type_context : Nat) :
    Exec (Mem × Option _PyTier2TypeContext) :=
  let nlocals := co_nlocals
  let nstack := co_stacksize
  if type_locals = 0 then .ok (m, none)
  else if type_stack = 0 then .ok (m, none)
  else do
    let m0 := malloc_nodes (malloc_nodes m type_locals nlocals) type_stack nstack
    let m1 ← initialize_type_context.loop type_locals nlocals 0 m0
    let m2 ← initialize_type_context.loop type_stack nstack 0 m1
    if type_context = 0 then .ok (m, none)
    else
      .ok (m2, some
        { type_locals_len := nlocals
          type_stack_len := nstack
          type_locals := type_locals
          type_stack := type_stack
          type_stack_ptr := type_stack })

/-! ## Opcodes, code units and the type propagator -/

/-- Opcodes that the functions below name.  Their numbers are defined in `opcode.h`, which
is not among the sources; only the identity of an opcode matters here. -/
inductive Opcode where
  | CACHE
  | NOP
  | SWAP
  | BINARY_OP
  | BB_BRANCH
  | CHECK_INT
  | CHECK_FLOAT
  | UNBOX_FLOAT
  | BOX_FLOAT
  | BINARY_OP_ADD_FLOAT_UNBOXED
  | BINARY_OP_SUBTRACT_FLOAT_UNBOXED
  | BINARY_OP_MULTIPLY_FLOAT_UNBOXED
  | BINARY_OP_ADD_INT_REST
  | BINARY_OP_SUBTRACT_INT_REST
  | BINARY_OP_MULTIPLY_INT_REST
  | EXTENDED_ARG
  | END_FOR
  | RESUME
  | RESUME_QUICK
  | LOAD_FAST
  | LOAD_CONST
  | RETURN_VALUE
  | JUMP_FORWARD
  | JUMP_BACKWARD
  | JUMP_BACKWARD_NO_INTERRUPT
  | JUMP_BACKWARD_QUICK
  | BB_BRANCH_IF_FLAG_SET
  | BB_BRANCH_IF_FLAG_UNSET
  | BB_JUMP_IF_FLAG_SET
  | BB_JUMP_IF_FLAG_UNSET
  | BB_JUMP_BACKWARD_LAZY
  | LIST_EXTEND
  | SET_UPDATE
  | DICT_UPDATE
  | FORMAT_VALUE
  | SETUP_ANNOTATIONS
  | BEFORE_WITH
  | SEND
  | YIELD_VALUE
  | GET_AITER
  | GET_ANEXT
  | BEFORE_ASYNC_WITH
  | END_ASYNC_FOR
  | RAISE_VARARGS
  | PUSH_EXC_INFO
  | RERAISE
  | POP_EXCEPT
  | CHECK_EXC_MATCH
  | CLEANUP_THROW
  | LOAD_DEREF
  | LOAD_CLASSDEREF
  | MAKE_CELL
  | DELETE_FAST
  | MATCH_MAPPING
  | MATCH_SEQUENCE
  | MATCH_KEYS
  | POP_JUMP_IF_FALSE
  | POP_JUMP_IF_TRUE
  | POP_JUMP_IF_NOT_NONE
  | POP_JUMP_IF_NONE
  | FOR_ITER
  | BB_TEST_ITER
  | BB_TEST_POP_IF_FALSE
  | BB_TEST_POP_IF_TRUE
  | BB_TEST_POP_IF_NOT_NONE
  | BB_TEST_POP_IF_NONE
  | RETURN_CONST
  | INTERPRETER_EXIT
  | STORE_GLOBAL
  deriving DecidableEq, Repr

/-- Constants of headers that are not among the sources (`opcode.h`, `pycore_code.h`):
the opargs of `BINARY_OP` for `+`, `-` and `*`, and the number of cache entries that
follow a `BB_BRANCH`. -/
structure Headers where
  NB_ADD : Int
  NB_SUBTRACT : Int
  NB_MULTIPLY : Int
  INLINE_CACHE_ENTRIES_BB_BRANCH : Nat
  deriving DecidableEq, Repr

/-- The enum `_Py_NegativeTypeMaskBit`, declared in a header that is not among the
sources: the bit index of each type in the mask of a negative root. -/
structure _Py_NegativeTypeMaskBit where
  FLOAT_BITIDX : Nat
  RAWFLOAT_BITIDX : Nat
  LONG_BITIDX : Nat
  SMALLINT_BITIDX : Nat
  LIST_BITIDX : Nat
  deriving DecidableEq, Repr

/-- The union `_Py_CODEUNIT`: a code unit is read and written either as the pair
`op.code`, `op.arg` or as the 16-bit word `cache`. -/
inductive _Py_CODEUNIT where
  | op (code : Opcode) (arg : Nat)
  | cache (cache : Nat)
  deriving DecidableEq, Repr

/-- A buffer of code units; a `_Py_CODEUNIT *` into it is the index of a unit.  The buffer
is as long as the writers need (their callers reserve the space beforehand). -/
abbrev Code := Nat → _Py_CODEUNIT

/-- The byte `op.arg` of a code unit (the high byte of the word when the unit was last
written as a cache word). -/
def _Py_CODEUNIT.op_arg : _Py_CODEUNIT → Nat
  | .op _ arg => arg
  | .cache w => w / 256 % 256

/-- The two assignments `p->op.code = opcode; p->op.arg = arg;`. -/
def set_op (code : Code) (p : Nat) (opcode : Opcode) (arg : Int) : Code :=
  fun a => if a = p then .op opcode (arg % 256).toNat else code a

/-- The assignment `p->op.code = opcode` alone, as `_py_set_opcode(p, opcode)` does. -/
def _py_set_opcode (code : Code) (p : Nat) (opcode : Opcode) : Code :=
  fun a => if a = p then .op opcode (code p).op_arg else code a

/-- The macro `TYPESTACK_PEEK(idx)` of `type_propagate`: `&((*type_stackptr)[-(idx)])`. -/
def TYPESTACK_PEEK (type_context : _PyTier2TypeContext) (idx : Int) : Nat :=
  ptr_index type_context.type_stack_ptr (-idx)

/-- The function `__type_stack_shrink`: `*type_stackptr -= idx`. -/
def __type_stack_shrink (type_context : _PyTier2TypeContext) (idx : Int) :
    _PyTier2TypeContext :=
  { type_context with type_stack_ptr := ptr_index type_context.type_stack_ptr (-idx) }

/-- Modelled from the spec: the cases of the `switch` of `type_propagate` that come from
the generated file `tier2_typepropagator.c.h`, which is not among the sources.  The spec
gives: `BOX_FLOAT k` / `UNBOX_FLOAT k` overwrite the node at depth `k` with a fresh root of
boxed/unboxed float type; `BINARY_OP_ADD_INT_REST` and the like pop two and push one
`ROOT_POS` of the result type; a type guard `CHECK_INT k` / `CHECK_FLOAT k` narrows the
tree of `stack[top-1-k]` to the guarded type by a TYPE_SET with a new root.  `none` stands
for an opcode without a case here. -/
def tier2_typepropagator (Py_DEBUG : Bool) (T : TypeObjects) (m : Mem) (fuel : Nat)
    (opcode : Opcode) (oparg : Int) (type_context : _PyTier2TypeContext) :
    Option (Exec (Mem × _PyTier2TypeContext)) :=
  let overwrite (typeobject : Nat) (ctx : _PyTier2TypeContext) (idx : Int) :
      Exec (Mem × _PyTier2TypeContext) :=
    (__type_propagate_TYPE_OVERWRITE Py_DEBUG m fuel ctx
      (_Py_TYPENODE_MAKE_ROOT_POSITIVE typeobject) (TYPESTACK_PEEK ctx idx) true).map
      fun m1 => (m1, ctx)
  let set (typeobject : Nat) (idx : Int) : Exec (Mem × _PyTier2TypeContext) :=
    (__type_propagate_TYPE_SET Py_DEBUG m fuel
      (_Py_TYPENODE_MAKE_ROOT_POSITIVE typeobject) (TYPESTACK_PEEK type_context idx) true).map
      fun m1 => (m1, type_context)
  match opcode with
  | .UNBOX_FLOAT => some (overwrite T.PyRawFloat_Type type_context (1 + oparg))
  | .BOX_FLOAT => some (overwrite T.PyFloat_Type type_context (1 + oparg))
  | .BINARY_OP_ADD_FLOAT_UNBOXED | .BINARY_OP_SUBTRACT_FLOAT_UNBOXED
  | .BINARY_OP_MULTIPLY_FLOAT_UNBOXED =>
    some (overwrite T.PyRawFloat_Type (__type_stack_shrink type_context 1) 1)
  | .BINARY_OP_ADD_INT_REST | .BINARY_OP_SUBTRACT_INT_REST
  | .BINARY_OP_MULTIPLY_INT_REST =>
    some (overwrite T.PyLong_Type (__type_stack_shrink type_context 1) 1)
  | .CHECK_FLOAT => some (set T.PyFloat_Type (1 + oparg))
  | .CHECK_INT => some (set T.PyLong_Type (1 + oparg))
  | _ => none

/-- The `switch` of `type_propagate`: the generated cases, the case `SWAP` and the
`default` case.  Returns the heap and the context (whose stack pointer the instruction
may move). -/
def type_propagate.switch (Py_DEBUG : Bool) (T : TypeObjects) (m : Mem) (fuel : Nat)
    (opcode : Opcode) (oparg : Int) (type_context : _PyTier2TypeContext) :
    Exec (Mem × _PyTier2TypeContext) :=
  match tier2_typepropagator Py_DEBUG T m fuel opcode oparg type_context with
  | some r => r
  | none =>
    match opcode with
    | .SWAP =>
      let top := TYPESTACK_PEEK type_context 1
      let bottom := TYPESTACK_PEEK type_context (2 + (oparg - 2))
      (__type_propagate_TYPE_SWAP m fuel type_context top bottom).map
        fun m1 => (m1, type_context)
    | _ => .error .unreachable

/-- Type propagation across a single instruction: the `switch`, then the context is
printed (`TYPEPROP_DEBUG`).  Returns the heap and the context (whose stack pointer the
instruction may move). -/
def type_propagate (Py_DEBUG : Bool) (T : TypeObjects) (m : Mem) (fuel : Nat)
    (opcode : Opcode) (oparg : Int) (type_context : _PyTier2TypeContext) :
    Exec (Mem × _PyTier2TypeContext) :=
  type_propagate.switch Py_DEBUG T m fuel opcode oparg type_context >>= fun r =>
  print_typestack Py_DEBUG r.1 fuel r.2 >>= fun _ =>
  .ok r

/-- A context after two `LOAD_FAST`s: two locals and two live stack slots. -/
def swap_ctx : _PyTier2TypeContext :=
  { type_locals := 64, type_locals_len := 2, type_stack := 128, type_stack_len := 3,
    type_stack_ptr := 144 }

/-- Heap for `swap_ctx`: `locals = [known type at address 8, known type at address 16]` and
`stack = [REF locals[0], REF locals[1], unknown]`. -/
def swap_mem : Mem := heap_of 64 [9, 17] 128 [66, 74, 1]

/-- A context like `swap_ctx` with a third local, so that it has as many locals as stack
slots. -/
def swap_room_ctx : _PyTier2TypeContext :=
  { type_locals := 64, type_locals_len := 3, type_stack := 128, type_stack_len := 3,
    type_stack_ptr := 144 }

/-- Heap for `swap_room_ctx`: `locals = [known type at address 8, known type at address 16,
unknown]` and `stack = [REF locals[0], REF locals[1], unknown]`. -/
def swap_room_mem : Mem := heap_of 64 [9, 17, 1] 128 [66, 74, 1]

/-! ## Basic-block metadata and branch caches -/

/-- The fields of `_PyTier2Info` that hold the basic-block metadata: `bb_data` is `none`
for `NULL`, else the array of `_PyTier2BBMetadata *` it points to (as long as allocated). -/
structure _PyTier2Info where
  bb_data_len : Int
  bb_data_curr : Int
  bb_data : Option (List Nat)
  deriving DecidableEq, Repr

/-- Result of `PyMem_Realloc(bb_data, new_len * sizeof(_PyTier2BBMetadata *))` when it
succeeds: the old elements, followed by indeterminate ones (here `0`). -/
def realloc_bb_data (bb_data : Option (List Nat)) (new_len : Int) : List Nat :=
  let old := bb_data.getD []
  (old ++ List.replicate (new_len.toNat - old.length) 0).take new_len.toNat

/-- Writes `metadata` to the `bb_data` of the tier-2 info `t2_info` of a code object.
`ids` holds the field `id` of the metadata object at each address; `realloc_ok` says
whether `PyMem_Realloc` succeeds if it is called.  Returns `0` on success and `1` on error,
with the new state. -/
def write_bb_metadata (t2_info : _PyTier2Info) (ids : Nat → Int) (metadata : Nat)
    (realloc_ok : Bool) : Exec (Int × _PyTier2Info × (Nat → Int)) :=
  let grow : Option _PyTier2Info :=
    if t2_info.bb_data = none ∨ t2_info.bb_data_curr ≥ t2_info.bb_data_len then
      let new_len := to_int ((t2_info.bb_data_len + 1) * 2)
      if new_len < 0 then none
      else if !realloc_ok then none
      else some { t2_info with
        bb_data := some (realloc_bb_data t2_info.bb_data new_len)
        bb_data_len := new_len }
    else some t2_info
  match grow with
  | none => .ok (1, t2_info, ids)
  | some t =>
    let id := t.bb_data_curr
    match t.bb_data with
    | none => .error .bad_access
    | some arr =>
      if 0 ≤ id ∧ id.toNat < arr.length then
        .ok (0,
          { t with
            bb_data := some (arr.set id.toNat metadata)
            bb_data_curr := to_int (t.bb_data_curr + 1) },
          fun p => if p = metadata then id else ids p)
      else .error .bad_access

/-- Initializes the tier-2 info of a code object of `size` code units (`Py_SIZE(co)`).
`t2_info_ok` and `bb_data_ok` say whether `PyMem_Malloc` and `PyMem_Calloc` succeed.
`none` is `NULL`. -/
def _PyTier2Info_Initialize (Py_DEBUG : Bool) (size : Nat) (t2_info_ok bb_data_ok : Bool) :
    Exec (Option _PyTier2Info) :=
  if !t2_info_ok then .ok none
  else do
    let bb_data_len : Int := ((size / 5 + 1 : Nat) : Int)
    c_assert Py_DEBUG (decide (to_int bb_data_len = bb_data_len))
    if !bb_data_ok then .ok none
    else
      .ok (some
        { bb_data_len := to_int bb_data_len
          bb_data_curr := 0
          bb_data := some (List.replicate bb_data_len.toNat 0) })

/-- The macro `BB_ID(bb_id_raw)`. -/
def BB_ID (bb_id_raw : Nat) : Nat := bb_id_raw >>> 1

/-- The macro `BB_IS_TYPE_BRANCH(bb_id_raw)`. -/
def BB_IS_TYPE_BRANCH (bb_id_raw : Nat) : Nat := bb_id_raw &&& 1

/-- The macro `MAKE_TAGGED_BB_ID(bb_id, type_branch)`. -/
def MAKE_TAGGED_BB_ID (bb_id type_branch : Nat) : Nat := bb_id <<< 1 ||| type_branch

/-- Writes a basic block's id to the cache entry at `cache`: the 16-bit field
`bb_id_tagged` receives `MAKE_TAGGED_BB_ID((uint16_t)bb_id, is_type_guard)`. -/
def write_bb_id (Py_DEBUG : Bool) (code : Code) (cache : Nat) (bb_id : Int)
    (is_type_guard : Bool) : Exec Code := do
  c_assert Py_DEBUG (decide (bb_id % 65536 = bb_id))
  -- Make sure MSB is unset, because we need to shift it.
  c_assert Py_DEBUG (decide (bb_id / 32768 % 2 = 0))
  let bb_id_tagged := MAKE_TAGGED_BB_ID (bb_id % 65536).toNat is_type_guard.toNat % 65536
  pure (fun a => if a = cache then .cache bb_id_tagged else code a)

/-- Emits `cache_entries` CACHE entries at `write_curr`; returns the buffer and the new
`write_curr`. -/
def emit_cache_entries (code : Code) (write_curr : Nat) : Nat → Code × Nat
  | 0 => (code, write_curr)
  | cache_entries + 1 =>
    emit_cache_entries (_py_set_opcode code write_curr .CACHE) (write_curr + 1) cache_entries

/-- Emits a type guard: the guard instruction, a `NOP`, `BB_BRANCH` and its cache entries
with the tagged id of the basic block.  Returns the buffer and the new end of the written
instructions. -/
def emit_type_guard (Py_DEBUG : Bool) (H : Headers) (code : Code) (write_curr : Nat)
    (guard_opcode : Opcode) (guard_oparg : Int) (bb_id : Int) : Exec (Code × Nat) := do
  c_assert Py_DEBUG (decide (guard_oparg ≤ 0xFF))
  let code1 := set_op code write_curr guard_opcode (guard_oparg % 256)
  let code2 := set_op code1 (write_curr + 1) .NOP 0
  let code3 := set_op code2 (write_curr + 2) .BB_BRANCH 0
  let cache := write_curr + 3
  let r := emit_cache_entries code3 (write_curr + 3) H.INLINE_CACHE_ENTRIES_BB_BRANCH
  let code5 ← write_bb_id Py_DEBUG r.1 cache bb_id true
  pure (code5, r.2)

/-- The `bb_data` state reached after the successful `write_bb_metadata` calls that wrote
the metadata pointers `metas`, in this order: `bb_data_curr` is their number, the array has
`bb_data_len` elements (a positive `int` below `INT_MAX`) and its first elements are
`metas`. -/
def Dense (t : _PyTier2Info) (metas : List Nat) : Prop :=
  t.bb_data_curr = (metas.length : Int) ∧ 1 ≤ t.bb_data_len ∧ t.bb_data_len < INT_MAX
    ∧ match t.bb_data with
      | none => False
      | some arr => (arr.length : Int) = t.bb_data_len ∧ arr.take metas.length = metas

instance (t : _PyTier2Info) (metas : List Nat) : Decidable (Dense t metas) := by
  unfold Dense; split <;> infer_instance

/-! ## Negative types and type guards -/

/-- Bit index of a type object in a negative mask. -/
def typeobject_to_bitidx (B : _Py_NegativeTypeMaskBit) (T : TypeObjects) (typeobject : Nat) :
    Exec Nat :=
  if typeobject = T.PyFloat_Type then .ok B.FLOAT_BITIDX
  else if typeobject = T.PyRawFloat_Type then .ok B.RAWFLOAT_BITIDX
  else if typeobject = T.PyLong_Type then .ok B.LONG_BITIDX
  else if typeobject = T.PySmallInt_Type then .ok B.SMALLINT_BITIDX
  else if typeobject = T.PyList_Type then .ok B.LIST_BITIDX
  else .error .unreachable

/-- The negative root `node` with the bit of `typeobject` set:
`node | ((_Py_TYPENODE_t)1 << bitidx)`. -/
def set_negativetype (Py_DEBUG : Bool) (B : _Py_NegativeTypeMaskBit) (T : TypeObjects)
    (node typeobject : Nat) : Exec Nat := do
  c_assert Py_DEBUG (decide (_Py_TYPENODE_GET_TAG node = TYPE_ROOT_NEGATIVE))
  let bitidx ← typeobject_to_bitidx B T typeobject
  pure (node ||| (1 <<< bitidx) % 18446744073709551616)

/-- The test that `has_negativetype` performs: `false` when the tag of `node` is
`TYPE_ROOT_NEGATIVE`, else whether `node & ((_Py_TYPENODE_t)1 << bitidx)` is non-zero. -/
def has_negativetype (B : _Py_NegativeTypeMaskBit) (T : TypeObjects)
    (node typeobject : Nat) : Exec Bool :=
  if _Py_TYPENODE_GET_TAG node = TYPE_ROOT_NEGATIVE then .ok false
  else do
    let bitidx ← typeobject_to_bitidx B T typeobject
    pure (decide (node &&& (1 <<< bitidx) % 18446744073709551616 ≠ 0))

/-- Type object that a guard opcode checks for. -/
def guardopcode_to_typeobject (T : TypeObjects) (guard_opcode : Opcode) : Exec Nat :=
  match guard_opcode with
  | .CHECK_INT => .ok T.PyLong_Type
  | .CHECK_FLOAT => .ok T.PyFloat_Type
  | _ => .error .unreachable

/-- The macro `_Py_TYPENODE_IS_POSITIVE_NULL(typenode)`. -/
def _Py_TYPENODE_IS_POSITIVE_NULL (typenode : Nat) : Bool :=
  decide (typenode = _Py_TYPENODE_POSITIVE_NULLROOT)

/-- The part of `_PyTier2_GenerateNextBBMetaWithTypeContext` that updates
`type_context_copy` before the next basic block is emitted.  `code` holds the tier-2
instructions; `n_required_pop` and `is_successor` are `BB_TEST_GET_N_REQUIRES_POP(bb_flag)`
and `BB_TEST_IS_SUCCESSOR(bb_flag)` (macros of a header that is not among the sources).
When the branch was a type guard, the guard is propagated on the success path and the
guarded type is recorded as ruled out on the failure path. -/
def _PyTier2_GenerateNextBBMetaWithTypeContext.propagate (Py_DEBUG : Bool)
    (B : _Py_NegativeTypeMaskBit) (T : TypeObjects) (m : Mem) (fuel : Nat) (code : Code)
    (bb_id_tagged : Nat) (curr_executing_instr : Nat) (n_required_pop : Int)
    (is_successor : Bool) (type_context_copy : _PyTier2TypeContext) :
    Exec (Mem × _PyTier2TypeContext) :=
  let ctx :=
    if n_required_pop ≠ 0 then __type_stack_shrink type_context_copy n_required_pop
    else type_context_copy
  -- For type branches, they directly precede the bb branch instruction
  if BB_IS_TYPE_BRANCH bb_id_tagged ≠ 0 then
    match code (curr_executing_instr - 2) with
    | .cache _ => .error .unreachable
    | .op guard_opcode arg =>
      if is_successor then type_propagate Py_DEBUG T m fuel guard_opcode (arg : Int) ctx
      else do
        let dst := ptr_index ctx.type_stack_ptr (-1 - (arg : Int))
        let dst_val ← load m dst
        let dstroot ← typenode_get_root m fuel dst_val
        -- Check if we are removing any type information.
        c_assert Py_DEBUG (decide (_Py_TYPENODE_GET_TAG dstroot = TYPE_ROOT_NEGATIVE)
          || _Py_TYPENODE_IS_POSITIVE_NULL dstroot)
        let typeobject ← guardopcode_to_typeobject T guard_opcode
        let src ← set_negativetype Py_DEBUG B T (_Py_TYPENODE_MAKE_ROOT_NEGATIVE 0) typeobject
        let m1 ← __type_propagate_TYPE_SET Py_DEBUG m fuel src dst true
        -- `#if TYPEPROP_DEBUG && defined(Py_DEBUG)`
        if Py_DEBUG then print_typestack Py_DEBUG m1 fuel ctx
        pure (m1, ctx)
  else .ok (m, ctx)

/-! ## Emitting instructions for `BINARY_OP` -/

/-- State of the emitter: the tier-2 instruction buffer with its write pointer, and the
heap with the type context that the emitted instructions are propagated through. -/
structure Emitter where
  code : Code
  write_curr : Nat
  m : Mem
  type_context : _PyTier2TypeContext

/-- Body of the loop of `rebox_stack` for index `i`: a stack slot of raw float type gets a
`BOX_FLOAT i`, which is propagated. -/
def rebox_stack.visit (Py_DEBUG : Bool) (T : TypeObjects) (fuel : Nat) (i : Int)
    (s : Emitter) : Exec Emitter := do
  let curr := ptr_index s.type_context.type_stack_ptr (-1 - i)
  let node ← load s.m curr
  let t ← typenode_get_type Py_DEBUG s.m fuel node
  if t = T.PyRawFloat_Type then do
    let r ← type_propagate Py_DEBUG T s.m fuel .BOX_FLOAT i s.type_context
    pure { code := set_op s.code s.write_curr .BOX_FLOAT i
           write_curr := s.write_curr + 1
           m := r.1
           type_context := r.2 }
  else pure s

/-- The loop of `rebox_stack` for the indices `i ..< i + n`. -/
def rebox_stack.loop (Py_DEBUG : Bool) (T : TypeObjects) (fuel : Nat) :
    Nat → Int → Emitter → Exec Emitter
  | 0, _, s => .ok s
  | n + 1, i, s => do
    let s1 ← rebox_stack.visit Py_DEBUG T fuel i s
    rebox_stack.loop Py_DEBUG T fuel n (i + 1) s1

/-- Emits the rebox instructions for the top `num_elements` stack entries. -/
def rebox_stack (Py_DEBUG : Bool) (T : TypeObjects) (fuel : Nat) (s : Emitter)
    (num_elements : Int) : Exec Emitter :=
  rebox_stack.loop Py_DEBUG T fuel num_elements.toNat 0 s

/-- The mask `END_GUARD` of `infer_BINARY_OP`. -/
def END_GUARD (B : _Py_NegativeTypeMaskBit) : Nat :=
  1 <<< B.FLOAT_BITIDX ||| 1 <<< B.LONG_BITIDX

/-- The guard exits of `infer_BINARY_OP`: `*needs_guard = true`, the type guard is emitted
at `write_curr`, and `write_curr` itself is returned (the pointer that `emit_type_guard`
returns is not used). -/
def infer_BINARY_OP.guard (Py_DEBUG : Bool) (H : Headers) (s : Emitter)
    (guard_opcode : Opcode) (guard_oparg : Int) (bb_id : Int) : Exec (Bool × Emitter) := do
  let r ← emit_type_guard Py_DEBUG H s.code s.write_curr guard_opcode guard_oparg bb_id
  pure (true, { s with code := r.1 })

/-- The two unboxing steps of `infer_BINARY_OP`: `UNBOX_FLOAT k` is emitted and
propagated, and the type of the operand is read again.  Returns the new state and type. -/
def infer_BINARY_OP.unbox (Py_DEBUG : Bool) (T : TypeObjects) (fuel : Nat) (k : Int)
    (s : Emitter) : Exec (Emitter × Nat) := do
  let r ← type_propagate Py_DEBUG T s.m fuel .UNBOX_FLOAT k s.type_context
  let node ← load r.1 (ptr_index r.2.type_stack_ptr (-1 - k))
  let root ← typenode_get_root r.1 fuel node
  pure ({ code := set_op s.code s.write_curr .UNBOX_FLOAT k
          write_curr := s.write_curr + 1
          m := r.1
          type_context := r.2 }, _Py_TYPENODE_CLEAR_TAG root)

/-- The specialised opcode of `infer_BINARY_OP` for two unboxed floats. -/
def infer_BINARY_OP.float_opcode (H : Headers) (oparg : Int) : Exec Opcode :=
  if oparg = H.NB_ADD then .ok .BINARY_OP_ADD_FLOAT_UNBOXED
  else if oparg = H.NB_SUBTRACT then .ok .BINARY_OP_SUBTRACT_FLOAT_UNBOXED
  else if oparg = H.NB_MULTIPLY then .ok .BINARY_OP_MULTIPLY_FLOAT_UNBOXED
  else .error .unreachable

/-- The specialised opcode of `infer_BINARY_OP` for two ints. -/
def infer_BINARY_OP.int_opcode (H : Headers) (oparg : Int) : Exec Opcode :=
  if oparg = H.NB_ADD then .ok .BINARY_OP_ADD_INT_REST
  else if oparg = H.NB_SUBTRACT then .ok .BINARY_OP_SUBTRACT_INT_REST
  else if oparg = H.NB_MULTIPLY then .ok .BINARY_OP_MULTIPLY_INT_REST
  else .error .unreachable

/-- The statements `write_curr->op.code = opcode; write_curr++;
type_propagate(opcode, 0, type_context, NULL);` of `infer_BINARY_OP`. -/
def infer_BINARY_OP.specialise (Py_DEBUG : Bool) (T : TypeObjects) (fuel : Nat)
    (opcode : Opcode) (s : Emitter) : Exec (Bool × Emitter) := do
  let r ← type_propagate Py_DEBUG T s.m fuel opcode 0 s.type_context
  pure (false, { code := _py_set_opcode s.code s.write_curr opcode
                 write_curr := s.write_curr + 1
                 m := r.1
                 type_context := r.2 })

/-- The end of `infer_BINARY_OP`, once the operand types are `righttype` and `lefttype`:
the specialised instruction for two unboxed floats or two ints, else a rebox. -/
def infer_BINARY_OP.finish (Py_DEBUG : Bool) (H : Headers) (T : TypeObjects) (fuel : Nat)
    (oparg : Int) (s : Emitter) (righttype lefttype : Nat) : Exec (Bool × Emitter) :=
  if righttype = T.PyRawFloat_Type ∧ lefttype = T.PyRawFloat_Type then
    infer_BINARY_OP.float_opcode H oparg >>= fun opcode =>
      infer_BINARY_OP.specialise Py_DEBUG T fuel opcode s
  else if righttype = T.PyLong_Type ∧ lefttype = T.PyLong_Type then
    infer_BINARY_OP.int_opcode H oparg >>= fun opcode =>
      infer_BINARY_OP.specialise Py_DEBUG T fuel opcode s
  else
    rebox_stack Py_DEBUG T fuel s 2 >>= fun s1 => pure (false, s1)

/-- The part of `infer_BINARY_OP` after the guards, for operand roots of types
`righttype` and `lefttype`: unbox the boxed floats, then `finish`. -/
def infer_BINARY_OP.typed (Py_DEBUG : Bool) (H : Headers) (T : TypeObjects) (fuel : Nat)
    (oparg : Int) (s : Emitter) (righttype lefttype : Nat) : Exec (Bool × Emitter) :=
  (if righttype = T.PyFloat_Type
      ∧ (lefttype = T.PyFloat_Type ∨ lefttype = T.PyRawFloat_Type) then
    infer_BINARY_OP.unbox Py_DEBUG T fuel 0 s
  else pure (s, righttype)) >>= fun r1 =>
  (if lefttype = T.PyFloat_Type then infer_BINARY_OP.unbox Py_DEBUG T fuel 1 r1.1
  else pure (r1.1, lefttype)) >>= fun r2 =>
  infer_BINARY_OP.finish Py_DEBUG H T fuel oparg r2.1 r1.2 r2.2

/-- Decides what to emit for a `BINARY_OP` with oparg `oparg` (`+`, `-` or `*`) from the
types of the two top stack entries.  Returns `*needs_guard` and the emitter state, whose
`write_curr` is the returned pointer.  (The parameters `t2_start` and `raw_op` are not
used by the function.) -/
def infer_BINARY_OP (Py_DEBUG : Bool) (H : Headers) (B : _Py_NegativeTypeMaskBit)
    (T : TypeObjects) (fuel : Nat) (oparg : Int) (s : Emitter) (bb_id : Int) :
    Exec (Bool × Emitter) := do
  c_assert Py_DEBUG
    (decide (oparg = H.NB_ADD ∨ oparg = H.NB_SUBTRACT ∨ oparg = H.NB_MULTIPLY))
  let right ← load s.m (ptr_index s.type_context.type_stack_ptr (-1))
  let rightroot ← typenode_get_root s.m fuel right
  let left ← load s.m (ptr_index s.type_context.type_stack_ptr (-2))
  let leftroot ← typenode_get_root s.m fuel left
  if _Py_TYPENODE_IS_POSITIVE_NULL rightroot then
    infer_BINARY_OP.guard Py_DEBUG H s .CHECK_FLOAT 0 bb_id
  else if _Py_TYPENODE_IS_POSITIVE_NULL leftroot then
    infer_BINARY_OP.guard Py_DEBUG H s .CHECK_FLOAT 1 bb_id
  else if (_Py_TYPENODE_GET_TAG leftroot = TYPE_ROOT_NEGATIVE
        ∧ _Py_TYPENODE_CLEAR_TAG leftroot = END_GUARD B)
      ∨ (_Py_TYPENODE_GET_TAG rightroot = TYPE_ROOT_NEGATIVE
        ∧ _Py_TYPENODE_CLEAR_TAG rightroot = END_GUARD B) then
    rebox_stack Py_DEBUG T fuel s 2 >>= fun s1 => pure (false, s1)
  else
    has_negativetype B T rightroot T.PyFloat_Type >>= fun right_excludes_float =>
    if right_excludes_float then infer_BINARY_OP.guard Py_DEBUG H s .CHECK_INT 0 bb_id
    else
      has_negativetype B T leftroot T.PyFloat_Type >>= fun left_excludes_float =>
      if left_excludes_float then infer_BINARY_OP.guard Py_DEBUG H s .CHECK_INT 1 bb_id
      else
        infer_BINARY_OP.typed Py_DEBUG H T fuel oparg s
          (_Py_TYPENODE_CLEAR_TAG rightroot) (_Py_TYPENODE_CLEAR_TAG leftroot)

/-- The code units of `code` at the positions `start ..< stop`. -/
def emitted (code : Code) (start stop : Nat) : List _Py_CODEUNIT :=
  (List.range (stop - start)).map fun i => code (start + i)

/-- Example addresses of the type objects. -/
def ex_types : TypeObjects := ⟨1024, 1040, 1056, 1072, 1088⟩

/-- The bit indices of the table of `bit_to_typeobject`, which maps them back to the type
objects: float 2, raw float 3, int 4, small int 5, list 6. -/
def ex_bits : _Py_NegativeTypeMaskBit := ⟨2, 3, 4, 5, 6⟩

/-- Example values of the header constants. -/
def ex_headers : Headers := ⟨0, 10, 5, 1⟩

/-- An instruction buffer that has not been written yet. -/
def ex_code : Code := fun _ => .cache 0

/-- A context with two locals and the two operands of a `BINARY_OP` on the stack. -/
def binop_ctx : _PyTier2TypeContext :=
  { type_locals := 64, type_locals_len := 2, type_stack := 128, type_stack_len := 2,
    type_stack_ptr := 144 }

/-- Heap for `binop_ctx` with the local `x` and an unknown local, the left operand `l`
and the right operand `r`. -/
def binop_mem (x l r : Nat) : Mem := heap_of 64 [x, 1] 128 [l, r]

/-- A context with fewer locals than stack slots: one local and the two operands of a
`BINARY_OP` on the stack. -/
def tight_binop_ctx : _PyTier2TypeContext :=
  { type_locals := 64, type_locals_len := 1, type_stack := 128, type_stack_len := 2,
    type_stack_ptr := 144 }

/-- Heap for `tight_binop_ctx` with the local `x`, the left operand `l` and the right
operand `r`. -/
def tight_binop_mem (x l r : Nat) : Mem := heap_of 64 [x] 128 [l, r]

/-- The emitter at the start of an empty buffer, for the context `binop_ctx` in heap `m`. -/
def binop_emitter (m : Mem) : Emitter :=
  { code := ex_code, write_curr := 0, m := m, type_context := binop_ctx }

/-- The emitter at the start of an empty buffer, for the context `tight_binop_ctx` in
heap `m`. -/
def tight_binop_emitter (m : Mem) : Emitter :=
  { code := ex_code, write_curr := 0, m := m, type_context := tight_binop_ctx }

/-! ## Rewriting branch placeholders -/

/-- The macro `_Py_OPCODE(word)`, which reads `word.op.code`.  A unit that was last written
as a cache word has no opcode that this development names. -/
def _Py_OPCODE (word : _Py_CODEUNIT) : Exec Opcode :=
  match word with
  | .op code _ => .ok code
  | .cache _ => .error .unreachable

/-- The prefix written in front of a rewritten jump: `EXTENDED_ARG` with the high byte of
`oparg` when `oparg > 0xFF`, else `NOP` with arg 0. -/
def write_jump_slot (code : Code) (write_curr : Nat) (oparg : Int) : Code :=
  if oparg > 0xFF then
    set_op (_py_set_opcode code write_curr .EXTENDED_ARG) write_curr .EXTENDED_ARG
      (oparg / 256 % 256)
  else
    set_op (_py_set_opcode code write_curr .NOP) write_curr .NOP 0

/-- Rewrites the `BB_BRANCH_IF_FLAG_SET/UNSET` at `bb_branch` to a forward jump to `target`.
Pointers are indices into the buffer; `bb_branch - 1` does not exist for index 0. -/
def _PyTier2_RewriteForwardJump (Py_DEBUG : Bool) (code : Code) (bb_branch target : Nat) :
    Exec Code := do
  let branch ← _Py_OPCODE (code bb_branch)
  c_assert Py_DEBUG
    (decide (branch = .BB_BRANCH_IF_FLAG_SET ∨ branch = .BB_BRANCH_IF_FLAG_UNSET))
  if bb_branch = 0 then .error .bad_access
  else do
    let write_curr := bb_branch - 1
    -- -1 because the PC is auto incremented
    let oparg := to_int ((target : Int) - (bb_branch : Int) - 1)
    c_assert Py_DEBUG (decide (oparg > 0))
    c_assert Py_DEBUG (decide (oparg ≤ 0xFFFF))
    let code1 := write_jump_slot code write_curr oparg
    let write_curr := write_curr + 1
    let jump : Opcode :=
      if branch = .BB_BRANCH_IF_FLAG_SET then .BB_JUMP_IF_FLAG_SET
      else .BB_JUMP_IF_FLAG_UNSET
    pure (set_op (_py_set_opcode code1 write_curr jump) write_curr jump (oparg % 256))

/-- The two assertions at the start of `_PyTier2_RewriteBackwardJump`; they read the
opcodes only when assertions are compiled in. -/
def _PyTier2_RewriteBackwardJump.asserts (Py_DEBUG : Bool) (code : Code)
    (jump_backward_lazy prev : Nat) : Exec Unit :=
  if Py_DEBUG then do
    let op ← _Py_OPCODE (code jump_backward_lazy)
    c_assert Py_DEBUG (decide (op = .BB_JUMP_BACKWARD_LAZY))
    let prev_op ← _Py_OPCODE (code prev)
    c_assert Py_DEBUG (decide (prev_op = .EXTENDED_ARG ∨ prev_op = .NOP))
  else pure ()

/-- Rewrites the `BB_JUMP_BACKWARD_LAZY` at `jump_backward_lazy` to a jump to `target`. -/
def _PyTier2_RewriteBackwardJump (Py_DEBUG : Bool) (code : Code)
    (jump_backward_lazy target : Nat) : Exec Code :=
  if jump_backward_lazy = 0 then .error .bad_access
  else do
    let write_curr := jump_backward_lazy - 1
    let prev := jump_backward_lazy - 1
    _PyTier2_RewriteBackwardJump.asserts Py_DEBUG code jump_backward_lazy prev
    -- +1 because we increment the PC before JUMPBY
    let oparg := to_int ((target : Int) - ((jump_backward_lazy : Int) + 1))
    c_assert Py_DEBUG (decide (oparg ≠ 0))
    -- Is backwards jump.
    let is_backwards_jump := decide (oparg < 0)
    let oparg := if is_backwards_jump then to_int (-oparg) else oparg
    c_assert Py_DEBUG (decide (oparg > 0))
    c_assert Py_DEBUG (decide (oparg ≤ 0xFFFF))
    let code1 := write_jump_slot code write_curr oparg
    let write_curr := write_curr + 1
    let jump : Opcode := if is_backwards_jump then .JUMP_BACKWARD_QUICK else .JUMP_FORWARD
    let code2 := set_op (_py_set_opcode code1 write_curr jump) write_curr jump (oparg % 256)
    let write_curr := write_curr + 1
    pure (_py_set_opcode code2 write_curr .END_FOR)

/-- The oparg that the interpreter decodes for the instruction at `p`: the `op.arg` byte of
the unit at `p`, with the `op.arg` byte of an `EXTENDED_ARG` at `p - 1` as the high byte. -/
def decoded_oparg (code : Code) (p : Nat) : Nat :=
  match code (p - 1) with
  | .op .EXTENDED_ARG hi => hi * 256 + (code p).op_arg
  | _ => (code p).op_arg

/-- A buffer with the branch placeholder `NOP; BB_BRANCH_IF_FLAG_UNSET; CACHE` at the
positions 4 to 6 and the lazy backward jump `NOP; BB_JUMP_BACKWARD_LAZY; CACHE` at the
positions 9 to 11. -/
def jump_code : Code := fun a =>
  if a = 4 then .op .NOP 0
  else if a = 5 then .op .BB_BRANCH_IF_FLAG_UNSET 0
  else if a = 9 then .op .NOP 0
  else if a = 10 then .op .BB_JUMP_BACKWARD_LAZY 0
  else .cache 0

/-! ## The basic-block builder -/

/-- The tables `_PyOpcode_Deopt` and `_PyOpcode_Caches` of `pycore_opcode.h`, which is not
among the sources. -/
structure OpcodeTables where
  _PyOpcode_Deopt : Opcode → Opcode
  _PyOpcode_Caches : Opcode → Nat

/-- Transfers of the generated file `tier2_typepropagator.c.h` for the opcodes that the
spec gives no transfer for (`none`: no transfer supplied). -/
abbrev Transfers :=
  Opcode → Int → Mem → _PyTier2TypeContext → Option (Exec (Mem × _PyTier2TypeContext))

/-- The struct `_PyTier2BBSpace`: `water_level` and `max_capacity` are in bytes, `u_code`
is the buffer of code units (a code unit has two bytes). -/
structure _PyTier2BBSpace where
  max_capacity : Int
  water_level : Int
  u_code : Code

/-- The struct `_PyTier2BBMetadata`, with `tier2_start` an index into the buffer of the
basic-block space and `tier1_end` an index into the tier-1 code. -/
structure _PyTier2BBMetadata where
  id : Int
  type_context : _PyTier2TypeContext
  tier2_start : Nat
  tier1_end : Int
  deriving DecidableEq, Repr

/-- Emits a single instruction (respects `EXTENDED_ARG`); returns the buffer and the new
`write_curr`. -/
def emit_i (code : Code) (write_curr : Nat) (opcode : Opcode) (oparg : Int) : Code × Nat :=
  let r : Code × Nat :=
    if oparg > 0xFF then
      (set_op (_py_set_opcode code write_curr .EXTENDED_ARG) write_curr .EXTENDED_ARG
        (oparg / 256 % 256), write_curr + 1)
    else (code, write_curr)
  (set_op (_py_set_opcode r.1 r.2 opcode) r.2 opcode (oparg % 256), r.2 + 1)

/-- Copies `n_entries` cache entries from the tier-1 code at `cache` to `write_curr`. -/
def copy_cache_entries (tier1 : Code) :
    Nat → Code → Nat → Nat → Code × Nat
  | 0, code, write_curr, _ => (code, write_curr)
  | n_entries + 1, code, write_curr, cache =>
    copy_cache_entries tier1 n_entries
      (fun a => if a = write_curr then tier1 cache else code a) (write_curr + 1) (cache + 1)

/-- Whether the tier-1 instruction at index `curr` is a backwards jump target. -/
def IS_BACKWARDS_JUMP_TARGET (backward_jump_offsets : List Int) (curr : Nat) : Bool :=
  backward_jump_offsets.any fun offset => decide ((curr : Int) = offset)

/-- Emits the exit of a scope: the tier-1 exit instruction `exit`, behind a rebox of the
returned value for `RETURN_VALUE`. -/
def emit_scope_exit (Py_DEBUG : Bool) (T : TypeObjects) (fuel : Nat) (s : Emitter)
    (exit : _Py_CODEUNIT) : Exec Emitter := do
  let op ← _Py_OPCODE exit
  match op with
  | .RETURN_VALUE =>
    let s1 ← rebox_stack Py_DEBUG T fuel s 1
    pure { s1 with
      code := fun a => if a = s1.write_curr then exit else s1.code a
      write_curr := s1.write_curr + 1 }
  | .RETURN_CONST | .INTERPRETER_EXIT =>
    pure { s with
      code := fun a => if a = s.write_curr then exit else s.code a
      write_curr := s.write_curr + 1 }
  -- The rest are forbidden.
  | _ => .error .unreachable

/-- The local variables of `_PyTier2_Code_DetectAndEmitBB` that the modelled cases use:
`write_i` with the buffer and `starting_type_context` with the heap (in `s`), `t2_start`,
the tier-1 index `i`, `needs_guard`, `meta`, and the locals for the handling of backwards
jumps, with the initial values of their declarations.  Tier-1 pointers are indices into the
tier-1 code; `none` is `NULL`. -/
structure Builder where
  s : Emitter
  t2_start : Nat
  i : Int
  needs_guard : Bool
  meta : Option _PyTier2BBMetadata := none
  starts_with_backwards_jump_target : Bool := false
  backwards_jump_target_offset : Int := -1
  virtual_start : Bool := false
  start_type_context_copy : Option _PyTier2TypeContext := none
  virtual_tier1_start : Option Nat := none

/-- How a case of the `switch` of the builder leaves: `continue` (on to the next
instruction), `END()` (the basic block ends) or `return NULL`. -/
inductive Control where
  | next
  | END
  | RETURN_NULL
  deriving DecidableEq, Repr

/-- The call `type_propagate(opcode, oparg, starting_type_context, consts)` of the macros
`DISPATCH` and `DISPATCH_REBOX`, with the transfers `G` of the generated file. -/
def dispatch_propagate (Py_DEBUG : Bool) (T : TypeObjects) (G : Transfers) (fuel : Nat)
    (opcode : Opcode) (oparg : Int) (s : Emitter) :
    Exec (Mem × _PyTier2TypeContext) :=
  match G opcode oparg s.m s.type_context with
  | some r => r
  | none => type_propagate Py_DEBUG T s.m fuel opcode oparg s.type_context

/-- The macro `DISPATCH()` up to its `continue`: the instruction `specop` with the
`op.arg` of the tier-1 instruction at `curr` is emitted, its cache entries are copied, and
the instruction is propagated. -/
def DISPATCH (Py_DEBUG : Bool) (T : TypeObjects) (G : Transfers) (fuel : Nat)
    (tier1 : Code) (b : Builder) (curr : Nat) (specop opcode : Opcode) (oparg : Int)
    (caches : Nat) : Exec Builder := do
  let w1 := emit_i b.s.code b.s.write_curr specop (tier1 curr).op_arg
  let w2 := copy_cache_entries tier1 caches w1.1 w1.2 (curr + 1)
  let r ← dispatch_propagate Py_DEBUG T G fuel opcode oparg b.s
  pure { b with
    s := { code := w2.1, write_curr := w2.2, m := r.1, type_context := r.2 }
    i := b.i + caches }

/-- The macro `DISPATCH_REBOX(x)` up to its `continue`: `rebox_stack`, then as
`DISPATCH()`. -/
def DISPATCH_REBOX (Py_DEBUG : Bool) (T : TypeObjects) (G : Transfers) (fuel : Nat)
    (tier1 : Code) (b : Builder) (curr : Nat) (specop opcode : Opcode) (oparg : Int)
    (caches : Nat) (x : Int) : Exec Builder := do
  let s1 ← rebox_stack Py_DEBUG T fuel b.s x
  DISPATCH Py_DEBUG T G fuel tier1 { b with s := s1 } curr specop opcode oparg caches

/-- The `case BINARY_OP` of the builder.  `bb_data_curr` is `co->_tier2_info->bb_data_curr`.
The pointer `possible_next` that `infer_BINARY_OP` returns is its `write_curr`, a pointer
into the buffer on every path (`some`), so the test for `NULL` never succeeds. -/
def _PyTier2_Code_DetectAndEmitBB.case_BINARY_OP (Py_DEBUG : Bool) (H : Headers)
    (B : _Py_NegativeTypeMaskBit) (T : TypeObjects) (G : Transfers) (fuel : Nat)
    (tier1 : Code) (bb_data_curr : Int) (b : Builder) (curr : Nat)
    (specop opcode : Opcode) (oparg : Int) (caches : Nat) : Exec (Control × Builder) :=
  if oparg = H.NB_ADD ∨ oparg = H.NB_SUBTRACT ∨ oparg = H.NB_MULTIPLY then
    -- Add operation. Need to check if we can infer types.
    infer_BINARY_OP Py_DEBUG H B T fuel oparg b.s bb_data_curr >>= fun r =>
    let possible_next : Option Nat := some r.2.write_curr
    match possible_next with
    | none =>
      (DISPATCH_REBOX Py_DEBUG T G fuel tier1 { b with s := r.2, needs_guard := r.1 }
        curr specop opcode oparg caches 2).map fun b1 => (Control.next, b1)
    | some next =>
      let b1 : Builder :=
        { b with s := { r.2 with write_curr := next }, needs_guard := r.1 }
      if r.1 then
        -- Point to the same instruction, because in this BB we emit the guard.
        -- The next BB emits the instruction.
        pure (Control.END, { b1 with i := b1.i - 1 })
      else pure (Control.next, { b1 with i := b1.i + caches })
  else
    (DISPATCH_REBOX Py_DEBUG T G fuel tier1 b curr specop opcode oparg caches 2).map
      fun b1 => (Control.next, b1)

/-- Allocates the metadata of a basic block and writes it to `bb_data`.  `metadata` is the
result of `PyMem_Malloc` (`none` for `NULL`).  Returns the metadata (`none` for `NULL`)
with the new tier-2 info and ids. -/
def _PyTier2_AllocateBBMetaData (t2_info : _PyTier2Info) (ids : Nat → Int)
    (metadata : Option Nat) (realloc_ok : Bool) (tier2_start : Nat) (tier1_end : Int)
    (type_context : _PyTier2TypeContext) :
    Exec (Option _PyTier2BBMetadata × _PyTier2Info × (Nat → Int)) :=
  match metadata with
  | none => .ok (none, t2_info, ids)
  | some p => do
    let r ← write_bb_metadata t2_info ids p realloc_ok
    if r.1 ≠ 0 then pure (none, r.2.1, r.2.2)
    else
      pure (some { id := r.2.2 p, type_context := type_context, tier2_start := tier2_start,
                   tier1_end := tier1_end }, r.2.1, r.2.2)

/-! ## Versions of a backward-jump target -/

/-- The constant `MAX_BB_VERSIONS`. -/
def MAX_BB_VERSIONS : Nat := 10

/-- The struct `_PyTier2BBStartTypeContextTriplet`.  Only `id` is initialized (to `-1`)
when the rows are allocated; the pointer fields are `none` until they are written. -/
structure _PyTier2BBStartTypeContextTriplet where
  id : Int
  tier1_start : Option Nat
  start_type_context : Option _PyTier2TypeContext
  deriving DecidableEq, Repr

/-- The element `bb_data[id]` of the tier-2 info, dereferenced; `metas` holds the metadata
object at each address. -/
def bb_data_at (t2_info : _PyTier2Info) (metas : Nat → Option _PyTier2BBMetadata)
    (id : Int) : Exec _PyTier2BBMetadata :=
  match t2_info.bb_data with
  | none => .error .bad_access
  | some arr =>
    if 0 ≤ id ∧ id.toNat < arr.length then
      match metas (arr.getD id.toNat 0) with
      | some x => .ok x
      | none => .error .bad_access
    else .error .bad_access

/-- The first index `i` with `backward_jump_offsets[i] == jump_offset`, from index `i0`
on. -/
def find_jump_offset (jump_offset : Int) : List Int → Nat → Option Nat
  | [], _ => none
  | o :: os, i0 => if o = jump_offset then some i0 else find_jump_offset jump_offset os (i0 + 1)

/-- Adds the metadata with id `meta_id` to the row of the backwards jump target
`backwards_jump_target`.  Returns 1 for error and 0 for success, with the rows. -/
def add_metadata_to_jump_2d_array (Py_DEBUG : Bool) (backward_jump_offsets : List Int)
    (backward_jump_target_bb_pairs : List (List _PyTier2BBStartTypeContextTriplet))
    (meta_id : Int) (backwards_jump_target : Int) (starting_context : _PyTier2TypeContext)
    (tier1_start : Nat) :
    Exec (Int × List (List _PyTier2BBStartTypeContextTriplet)) := do
  -- Locate where to insert the BB ID
  let found := find_jump_offset backwards_jump_target backward_jump_offsets 0
  c_assert Py_DEBUG found.isSome
  let backward_jump_offset_index := found.getD backward_jump_offsets.length
  match backward_jump_target_bb_pairs.get? backward_jump_offset_index with
  | none => .error .bad_access
  | some row =>
    if row.length < MAX_BB_VERSIONS then .error .bad_access
    else
      match (row.take MAX_BB_VERSIONS).findIdx? (fun t => decide (t.id = -1)) with
      | some jump_i =>
        pure (0, backward_jump_target_bb_pairs.set backward_jump_offset_index
          (row.set jump_i
            { id := meta_id, start_type_context := some starting_context,
              tier1_start := some tier1_start }))
      -- Out of basic blocks versions.
      | none => pure (1, backward_jump_target_bb_pairs)

/-- Checks whether the opcode is a scope exit. -/
def IS_SCOPE_EXIT_OPCODE (opcode : Opcode) : Bool :=
  decide (opcode = .RETURN_VALUE) || decide (opcode = .RETURN_CONST)
    || decide (opcode = .RAISE_VARARGS) || decide (opcode = .RERAISE)
    || decide (opcode = .INTERPRETER_EXIT)

/-- C equivalent of `dis.hasjabs`. -/
def IS_JABS_OPCODE (_opcode : Opcode) : Bool := false

/-- C equivalent of `dis.hasjrel`. -/
def IS_JREL_OPCODE (opcode : Opcode) : Bool :=
  decide (opcode = .FOR_ITER) || decide (opcode = .JUMP_FORWARD)
    -- These two tend to be after a COMPARE_OP
    || decide (opcode = .POP_JUMP_IF_FALSE) || decide (opcode = .POP_JUMP_IF_TRUE)
    || decide (opcode = .SEND)
    || decide (opcode = .POP_JUMP_IF_NOT_NONE) || decide (opcode = .POP_JUMP_IF_NONE)
    || decide (opcode = .JUMP_BACKWARD_QUICK) || decide (opcode = .JUMP_BACKWARD_NO_INTERRUPT)
    || decide (opcode = .JUMP_BACKWARD)

/-- C equivalent of `dis.hasjrel || dis.hasjabs`. -/
def IS_JUMP_OPCODE (opcode : Opcode) : Bool :=
  IS_JREL_OPCODE opcode || IS_JABS_OPCODE opcode

/-- Constants of headers that are not among the sources, which `emit_logical_branch` uses
for `FOR_ITER`: the number of its cache entries and the value of
`adaptive_counter_warmup()`. -/
structure IterHeaders where
  INLINE_CACHE_ENTRIES_FOR_ITER : Nat
  adaptive_counter_warmup : Nat
  deriving DecidableEq, Repr

/-- The tier-2 opcode that `emit_logical_branch` chooses for the tier-1 branch, and
whether the opcode is propagated at once. -/
def emit_logical_branch.opcode (deopt : Opcode) : Exec (Opcode × Bool) :=
  if deopt = .JUMP_BACKWARD_QUICK ∨ deopt = .JUMP_BACKWARD then
    -- The initial backwards jump needs to find the right basic block.
    .ok (.BB_JUMP_BACKWARD_LAZY, false)
  else if deopt = .FOR_ITER then .ok (.BB_TEST_ITER, false)
  else if deopt = .POP_JUMP_IF_FALSE then .ok (.BB_TEST_POP_IF_FALSE, true)
  else if deopt = .POP_JUMP_IF_TRUE then .ok (.BB_TEST_POP_IF_TRUE, true)
  else if deopt = .POP_JUMP_IF_NOT_NONE then .ok (.BB_TEST_POP_IF_NOT_NONE, true)
  else if deopt = .POP_JUMP_IF_NONE then .ok (.BB_TEST_POP_IF_NONE, true)
  else .error .unreachable

/-- The two statements `_py_set_opcode(write_curr, requires_extended_arg ? EXTENDED_ARG :
NOP); write_curr->op.arg = (oparg >> 8) & 0xFF;` of `emit_logical_branch`. -/
def emit_logical_branch.slot (code : Code) (write_curr : Nat) (oparg : Int) : Code :=
  let opcode : Opcode := if oparg > 0xFF then .EXTENDED_ARG else .NOP
  set_op (_py_set_opcode code write_curr opcode) write_curr opcode (oparg / 256 % 256)

/-- The end of each branch of `emit_logical_branch`: the branch instruction `opcode` with
the low byte of `oparg` at `write_curr`, its cache entries, and the id of the basic block
in the first of them. -/
def emit_logical_branch.branch (Py_DEBUG : Bool) (H : Headers) (code : Code)
    (write_curr : Nat) (opcode : Opcode) (oparg : Int) (bb_id : Int) : Exec (Code × Nat) :=
  let code1 := set_op (_py_set_opcode code write_curr opcode) write_curr opcode (oparg % 256)
  let cache := write_curr + 1
  let r := emit_cache_entries code1 (write_curr + 1) H.INLINE_CACHE_ENTRIES_BB_BRANCH
  write_bb_id Py_DEBUG r.1 cache bb_id false >>= fun code2 =>
  .ok (code2, r.2)

/-- Converts the tier-1 branch `branch` to tier-2 branch bytecode at `write_curr`.  The
opcodes `BB_TEST_*` are propagated with the transfers `G` of the generated file. -/
def emit_logical_branch (Py_DEBUG : Bool) (H : Headers) (I : IterHeaders) (T : TypeObjects)
    (Tb : OpcodeTables) (G : Transfers) (fuel : Nat) (s : Emitter) (branch : _Py_CODEUNIT)
    (bb_id : Int) (oparg : Int) : Exec Emitter :=
  _Py_OPCODE branch >>= fun branch_opcode =>
  emit_logical_branch.opcode (Tb._PyOpcode_Deopt branch_opcode) >>= fun chosen =>
  let opcode := chosen.1
  (if chosen.2 then dispatch_propagate Py_DEBUG T G fuel opcode oparg s
  else .ok (s.m, s.type_context)) >>= fun p1 =>
  c_assert Py_DEBUG (decide (oparg ≤ 0xFFFF)) >>= fun _ =>
  -- Backwards jumps should be handled specially.
  if opcode = .BB_JUMP_BACKWARD_LAZY then
    -- Just in case, can be swapped out with an EXTENDED_ARG
    let code1 := emit_logical_branch.slot s.code s.write_curr oparg
    emit_logical_branch.branch Py_DEBUG H code1 (s.write_curr + 1) .BB_JUMP_BACKWARD_LAZY
      oparg bb_id >>= fun r =>
    .ok { code := r.1, write_curr := r.2, m := p1.1, type_context := p1.2 }
  -- FOR_ITER is also a special jump
  else if opcode = .BB_TEST_ITER then
    let oparg := to_int ((I.INLINE_CACHE_ENTRIES_FOR_ITER : Int) + oparg)
    let code1 := emit_logical_branch.slot s.code s.write_curr oparg
    let code2 := set_op (_py_set_opcode code1 (s.write_curr + 1) .BB_TEST_ITER)
      (s.write_curr + 1) .BB_TEST_ITER (oparg % 256)
    -- Initialize adaptive interpreter counter
    let code3 : Code := fun a =>
      if a = s.write_curr + 2 then .cache I.adaptive_counter_warmup else code2 a
    let r := emit_cache_entries code3 (s.write_curr + 2) I.INLINE_CACHE_ENTRIES_FOR_ITER
    dispatch_propagate Py_DEBUG T G fuel .BB_TEST_ITER oparg
      { s with m := p1.1, type_context := p1.2 } >>= fun p2 =>
    let code4 := emit_logical_branch.slot r.1 r.2 oparg
    emit_logical_branch.branch Py_DEBUG H code4 (r.2 + 1) .BB_BRANCH oparg bb_id
      >>= fun r2 =>
    .ok { code := r2.1, write_curr := r2.2, m := p2.1, type_context := p2.2 }
  else
    let code1 := emit_logical_branch.slot s.code s.write_curr oparg
    let code2 := set_op (_py_set_opcode code1 (s.write_curr + 1) opcode)
      (s.write_curr + 1) opcode (oparg % 256)
    let code3 := emit_logical_branch.slot code2 (s.write_curr + 2) oparg
    emit_logical_branch.branch Py_DEBUG H code3 (s.write_curr + 3) .BB_BRANCH oparg bb_id
      >>= fun r =>
    .ok { code := r.1, write_curr := r.2, m := p1.1, type_context := p1.2 }

/-- The objects that the loop of the builder changes besides its locals: the tier-2 info
with the ids of the metadata objects, and `bb_space->water_level`. -/
structure BuilderSpace where
  t2_info : _PyTier2Info
  ids : Nat → Int
  water_level : Int

/-- The results of the allocations that the builder makes when it splits a basic block at
a backwards jump target: the three `PyMem_Malloc` of each of the two copies of the type
context (`0` is `NULL`), the `PyMem_Malloc` of the metadata (`none` is `NULL`) and whether
a `PyMem_Realloc` of `bb_data` succeeds. -/
structure SplitAllocs where
  type_context_copy : Nat × Nat × Nat
  metadata : Option Nat
  realloc_ok : Bool
  start_type_context_copy : Nat × Nat × Nat
  deriving DecidableEq, Repr

/-- The locals `curr`, `specop`, `opcode`, `oparg` and `caches` of an iteration of the
builder at the label `dispatch_opcode`. -/
structure Dispatched where
  curr : Nat
  specop : Opcode
  opcode : Opcode
  oparg : Int
  caches : Nat
  deriving DecidableEq, Repr

/-- The statements of the builder for `opcode == EXTENDED_ARG` up to `DISPATCH_GOTO()`:
the instruction behind the `EXTENDED_ARG` becomes the current one, with the merged oparg;
`curr` and `i` advance, nothing is emitted.  (A shift `oparg << 8` of a negative `int` or
beyond `INT_MAX` is undefined.) -/
def _PyTier2_Code_DetectAndEmitBB.extended_arg (Tb : OpcodeTables) (tier1 : Code)
    (b : Builder) (d : Dispatched) : Exec (Builder × Dispatched) :=
  -- Note: EXTENDED_ARG could be a jump target!!!!!
  let next_instr := d.curr + 1
  _Py_OPCODE (tier1 next_instr) >>= fun specop =>
  let opcode := Tb._PyOpcode_Deopt specop
  if d.oparg < 0 ∨ d.oparg * 256 > INT_MAX then .error .overflow
  else
    .ok ({ b with i := b.i + 1 },
      { curr := d.curr + 1
        specop := specop
        opcode := opcode
        oparg := to_int ((d.oparg.toNat <<< 8 ||| (tier1 next_instr).op_arg : Nat) : Int)
        caches := Tb._PyOpcode_Caches opcode })

/-- How the `default` case of the builder leaves: through `continue`, `END()` or
`return NULL` (`done`), or through `DISPATCH_GOTO()` with new locals (`again`). -/
inductive Flow where
  | done (control : Control) (e : BuilderSpace) (b : Builder)
  | again (e : BuilderSpace) (b : Builder) (d : Dispatched)

/-- The `default` case of the builder from the label `fall_through` on. -/
def _PyTier2_Code_DetectAndEmitBB.fall_through (Py_DEBUG : Bool) (H : Headers)
    (I : IterHeaders) (T : TypeObjects) (Tb : OpcodeTables) (G : Transfers) (fuel : Nat)
    (tier1 : Code) (e : BuilderSpace) (b : Builder) (d : Dispatched) : Exec Flow :=
  -- These are definitely the end of a basic block.
  if IS_SCOPE_EXIT_OPCODE d.opcode then
    -- Emit the scope exit instruction.
    emit_scope_exit Py_DEBUG T fuel b.s (tier1 d.curr) >>= fun s1 =>
    .ok (.done .END e { b with s := s1 })
  -- Jumps may be the end of a basic block if they are conditional (a branch).
  else if IS_JUMP_OPCODE d.opcode then
    -- Unconditional forward jump... continue with the BB without writing the jump.
    if d.opcode = .JUMP_FORWARD then
      -- JUMP offset (oparg) + current instruction + cache entries
      .ok (.done .next e { b with i := b.i + d.oparg })
    else
      -- Get the BB ID without incrementing it.
      -- AllocateBBMetaData will increment.
      emit_logical_branch Py_DEBUG H I T Tb G fuel b.s (tier1 d.curr)
        e.t2_info.bb_data_curr d.oparg >>= fun s1 =>
      .ok (.done .END e { b with s := s1, i := b.i + d.caches })
  else if d.opcode = .EXTENDED_ARG then
    _PyTier2_Code_DetectAndEmitBB.extended_arg Tb tier1 b d >>= fun r =>
    .ok (.again e r.1 r.2)
  else
    DISPATCH Py_DEBUG T G fuel tier1 b d.curr d.specop d.opcode d.oparg d.caches
      >>= fun b1 =>
    .ok (.done .next e b1)

/-- The part of the `default` case of the builder that creates a virtual end of the basic
block at a backwards jump target: the block emitted so far is committed, and the locals
are reset for the block that starts at the target. -/
def _PyTier2_Code_DetectAndEmitBB.split (Py_DEBUG : Bool) (Tb : OpcodeTables)
    (fuel : Nat) (tier1 : Code) (A : Nat → SplitAllocs) (e : BuilderSpace) (b : Builder)
    (d : Dispatched) : Exec Flow :=
  let a := A d.curr
  print_typestack Py_DEBUG b.s.m fuel b.s.type_context >>= fun _ =>
  -- Else, create a virtual end to the basic block.
  -- But generate the block after that so it can fall through.
  let i := b.i - 1
  _PyTier2TypeContext_Copy Py_DEBUG b.s.m fuel b.s.type_context a.type_context_copy.1
    a.type_context_copy.2.1 a.type_context_copy.2.2 >>= fun copied =>
  match copied.2 with
  | none => .ok (.done .RETURN_NULL e { b with s := { b.s with m := copied.1 }, i := i })
  | some type_context_copy =>
    _PyTier2_AllocateBBMetaData e.t2_info e.ids a.metadata a.realloc_ok b.t2_start i
      type_context_copy >>= fun r =>
    match r.1 with
    | none =>
      .ok (.done .RETURN_NULL { e with t2_info := r.2.1, ids := r.2.2 }
        { b with s := { b.s with m := copied.1 }, i := i })
    | some new_meta =>
      let e1 : BuilderSpace :=
        { t2_info := r.2.1
          ids := r.2.2
          water_level := e.water_level
            + ((b.s.write_curr : Int) - (b.t2_start : Int)) * 2 }
      -- Reset all our values
      let i := i + 1
      let b1 : Builder :=
        { b with
          s := { b.s with m := copied.1 }
          meta := some new_meta
          t2_start := b.s.write_curr
          i := i
          virtual_tier1_start := some i.toNat
          backwards_jump_target_offset := to_int d.curr
          virtual_start := true }
      if d.opcode = .EXTENDED_ARG then
        _PyTier2_Code_DetectAndEmitBB.extended_arg Tb tier1 b1 d >>= fun r2 =>
        .ok (.again e1 r2.1 r2.2)
      else
        -- Don't change opcode or oparg, let us handle it again.
        .ok (.again e1 b1 d)

/-- The `default` case of the builder. -/
def _PyTier2_Code_DetectAndEmitBB.case_default (Py_DEBUG : Bool) (H : Headers)
    (I : IterHeaders) (T : TypeObjects) (Tb : OpcodeTables) (G : Transfers) (fuel : Nat)
    (tier1 : Code) (backward_jump_offsets : List Int) (A : Nat → SplitAllocs)
    (e : BuilderSpace) (b : Builder) (d : Dispatched) : Exec Flow :=
  -- This should be the end of another basic block, or the start of a new.
  -- Start of a new basic block, just ignore and continue.
  if b.virtual_start then
    let a := A d.curr
    _PyTier2TypeContext_Copy Py_DEBUG b.s.m fuel b.s.type_context
      a.start_type_context_copy.1
      a.start_type_context_copy.2.1 a.start_type_context_copy.2.2 >>= fun copied =>
    let b1 : Builder :=
      { b with
        s := { b.s with m := copied.1 }
        starts_with_backwards_jump_target := true
        virtual_start := false
        start_type_context_copy := copied.2 }
    match copied.2 with
    | none => .ok (.done .RETURN_NULL e b1)
    | some _ =>
      _PyTier2_Code_DetectAndEmitBB.fall_through Py_DEBUG H I T Tb G fuel tier1 e b1 d
  else if IS_BACKWARDS_JUMP_TARGET backward_jump_offsets d.curr then
    _PyTier2_Code_DetectAndEmitBB.split Py_DEBUG Tb fuel tier1 A e b d
  else
    _PyTier2_Code_DetectAndEmitBB.fall_through Py_DEBUG H I T Tb G fuel tier1 e b d

/-- The `switch` of the builder from the label `dispatch_opcode` on, for the cases
`RESUME`, `END_FOR` and `BINARY_OP` and for the `default` case; `n` bounds the number of
`DISPATCH_GOTO()`.  `none` stands for an opcode whose own case is not modelled here
(`LOAD_CONST`, `LOAD_FAST`). -/
def _PyTier2_Code_DetectAndEmitBB.dispatch_opcode (Py_DEBUG : Bool) (H : Headers)
    (I : IterHeaders) (B : _Py_NegativeTypeMaskBit) (T : TypeObjects) (Tb : OpcodeTables)
    (G : Transfers) (fuel : Nat) (tier1 : Code) (backward_jump_offsets : List Int)
    (A : Nat → SplitAllocs) :
    Nat → BuilderSpace → Builder → Dispatched →
      Option (Exec (Control × BuilderSpace × Builder))
  | 0, _, _, _ => some (.error .out_of_fuel)
  | n + 1, e, b, d =>
    if d.opcode = .RESUME then
      some ((DISPATCH Py_DEBUG T G fuel tier1 b d.curr .RESUME_QUICK .RESUME_QUICK d.oparg
        d.caches).map fun b1 => (Control.next, e, b1))
    else if d.opcode = .END_FOR then
      some (
        -- Assert that we are the start of a BB
        c_assert Py_DEBUG (decide (b.t2_start = b.s.write_curr)) >>= fun _ =>
        -- Though we want to emit this, we don't want to start execution from END_FOR.
        -- So we tell the BB to skip over it.
        (DISPATCH Py_DEBUG T G fuel tier1 { b with t2_start := b.t2_start + 1 } d.curr
          d.specop d.opcode d.oparg d.caches).map fun b1 => (Control.next, e, b1))
    else if d.opcode = .BINARY_OP then
      some ((_PyTier2_Code_DetectAndEmitBB.case_BINARY_OP Py_DEBUG H B T G fuel tier1
        e.t2_info.bb_data_curr b d.curr d.specop d.opcode d.oparg d.caches).map
        fun r => (r.1, e, r.2))
    else if d.opcode = .LOAD_CONST ∨ d.opcode = .LOAD_FAST then none
    else
      match _PyTier2_Code_DetectAndEmitBB.case_default Py_DEBUG H I T Tb G fuel tier1
          backward_jump_offsets A e b d with
      | .error f => some (.error f)
      | .ok (.done control e1 b1) => some (.ok (control, e1, b1))
      | .ok (.again e1 b1 d1) =>
        _PyTier2_Code_DetectAndEmitBB.dispatch_opcode Py_DEBUG H I B T Tb G fuel tier1
          backward_jump_offsets A n e1 b1 d1

/-- One iteration of the loop of the builder: the locals of the iteration are read from
the tier-1 instruction at index `i`, then the `switch` is entered; `gotos` bounds the
number of `DISPATCH_GOTO()` of the iteration. -/
def _PyTier2_Code_DetectAndEmitBB.step (Py_DEBUG : Bool) (H : Headers) (I : IterHeaders)
    (B : _Py_NegativeTypeMaskBit) (T : TypeObjects) (Tb : OpcodeTables) (G : Transfers)
    (fuel : Nat) (tier1 : Code) (backward_jump_offsets : List Int) (A : Nat → SplitAllocs)
    (gotos : Nat) (e : BuilderSpace) (b : Builder) :
    Option (Exec (Control × BuilderSpace × Builder)) :=
  let curr := b.i.toNat
  match tier1 curr with
  | .cache _ => some (.error .unreachable)
  | .op specop arg =>
    let opcode := Tb._PyOpcode_Deopt specop
    _PyTier2_Code_DetectAndEmitBB.dispatch_opcode Py_DEBUG H I B T Tb G fuel tier1
      backward_jump_offsets A (gotos + 1) e b
      { curr := curr, specop := specop, opcode := opcode, oparg := arg,
        caches := Tb._PyOpcode_Caches opcode }

/-- The loop `for (; i < Py_SIZE(co); i++)` of the builder, for at most `n` iterations;
returns how the loop was left (`next` when `i` reached `Py_SIZE(co)`) with the state at
the label `end` or at the `return NULL`. -/
def _PyTier2_Code_DetectAndEmitBB.loop (Py_DEBUG : Bool) (H : Headers) (I : IterHeaders)
    (B : _Py_NegativeTypeMaskBit) (T : TypeObjects) (Tb : OpcodeTables) (G : Transfers)
    (fuel : Nat) (tier1 : Code) (size : Int) (backward_jump_offsets : List Int)
    (A : Nat → SplitAllocs) (gotos : Nat) :
    Nat → BuilderSpace → Builder → Option (Exec (Control × BuilderSpace × Builder))
  | 0, e, b => if b.i < size then some (.error .out_of_fuel) else some (.ok (.next, e, b))
  | n + 1, e, b =>
    if b.i < size then
      match _PyTier2_Code_DetectAndEmitBB.step Py_DEBUG H I B T Tb G fuel tier1
          backward_jump_offsets A gotos e b with
      | none => none
      | some (.error f) => some (.error f)
      | some (.ok r) =>
        if r.1 = .next then
          _PyTier2_Code_DetectAndEmitBB.loop Py_DEBUG H I B T Tb G fuel tier1 size
            backward_jump_offsets A gotos n r.2.1 { r.2.2 with i := r.2.2.i + 1 }
        else some (.ok r)
    else some (.ok (.next, e, b))

/-- What a run of the builder leaves behind: the returned metadata (`none` for `NULL`),
the basic-block space, the tier-2 info with the rows of versions, and the heap. -/
structure Built where
  metadata : Option _PyTier2BBMetadata
  bb_space : _PyTier2BBSpace
  t2_info : _PyTier2Info
  backward_jump_target_bb_pairs : List (List _PyTier2BBStartTypeContextTriplet)
  m : Mem

/-- The statements of the builder from the label `end` on, with the locals `b` of the
loop: `first_meta` is `meta` (set when the block was split at a backwards jump target,
else `NULL`), and `starts_with_backwards_jump_target`, `backwards_jump_target_offset`,
`start_type_context_copy` and `virtual_tier1_start` are the locals of these names.
`metadata` and `realloc_ok` are the results of the allocations. -/
def _PyTier2_Code_DetectAndEmitBB.finish (Py_DEBUG : Bool) (t2_info : _PyTier2Info)
    (ids : Nat → Int) (metadata : Option Nat) (realloc_ok : Bool)
    (backward_jump_offsets : List Int)
    (backward_jump_target_bb_pairs : List (List _PyTier2BBStartTypeContextTriplet))
    (bb_space : _PyTier2BBSpace) (b : Builder) (first_meta : Option _PyTier2BBMetadata)
    (starts_with_backwards_jump_target : Bool) (backwards_jump_target_offset : Int)
    (start_type_context_copy : Option _PyTier2TypeContext)
    (virtual_tier1_start : Option Nat) : Exec Built :=
  -- Create the tier 2 BB
  -- + 1 because we want to start with the NEXT instruction for the scan
  _PyTier2_AllocateBBMetaData t2_info ids metadata realloc_ok b.t2_start (b.i + 1)
    b.s.type_context >>= fun r =>
  match r.1 with
  | none =>
    pure { metadata := none
           bb_space := { bb_space with u_code := b.s.code }
           t2_info := r.2.1
           backward_jump_target_bb_pairs := backward_jump_target_bb_pairs
           m := b.s.m }
  | some temp_meta =>
    -- We need to return the first block to enter into. If there is already a block
    -- generated before us, then we use that instead of the most recent block.
    let first := first_meta.getD temp_meta
    (if starts_with_backwards_jump_target then
      -- Add the basic block to the jump ids
      c_assert Py_DEBUG start_type_context_copy.isSome >>= fun _ =>
      c_assert Py_DEBUG virtual_tier1_start.isSome >>= fun _ =>
      match start_type_context_copy, virtual_tier1_start with
      | some starting_context, some tier1_start =>
        add_metadata_to_jump_2d_array Py_DEBUG backward_jump_offsets
          backward_jump_target_bb_pairs temp_meta.id backwards_jump_target_offset
          starting_context tier1_start
      | _, _ => .error .bad_access
    else pure (0, backward_jump_target_bb_pairs)) >>= fun added =>
    if added.1 < 0 then
      pure { metadata := none
             bb_space := { bb_space with u_code := b.s.code }
             t2_info := r.2.1
             backward_jump_target_bb_pairs := added.2
             m := b.s.m }
    else
      -- Tell BB space the number of bytes we wrote.
      pure { metadata := some first
             bb_space :=
               { bb_space with
                 u_code := b.s.code
                 water_level := bb_space.water_level
                   + ((b.s.write_curr : Int) - (b.t2_start : Int)) * 2 }
             t2_info := r.2.1
             backward_jump_target_bb_pairs := added.2
             m := b.s.m }

/-- Detects a basic block from the tier-1 instruction at `tier1_start` on and emits its
instructions into the basic-block space, for tier-1 code made of the modelled cases of
`dispatch_opcode` (`none` otherwise).  `tier1` and `size` are `_PyCode_CODE(co)` and
`Py_SIZE(co)`; `A` holds the results of the allocations of a split at each tier-1 index,
`metadata` and `realloc_ok` are the results of the allocations at the label `end`.  (What
`_PyTier2TypeContext_Free` does to the heap before a `return NULL` is left out.) -/
def _PyTier2_Code_DetectAndEmitBB (Py_DEBUG : Bool) (H : Headers) (I : IterHeaders)
    (B : _Py_NegativeTypeMaskBit) (T : TypeObjects) (Tb : OpcodeTables) (G : Transfers)
    (fuel : Nat) (tier1 : Code) (size : Int) (backward_jump_offsets : List Int)
    (backward_jump_target_bb_pairs : List (List _PyTier2BBStartTypeContextTriplet))
    (t2_info : _PyTier2Info) (ids : Nat → Int) (bb_space : _PyTier2BBSpace)
    (tier1_start : Nat) (m : Mem) (starting_type_context : _PyTier2TypeContext)
    (A : Nat → SplitAllocs) (metadata : Option Nat) (realloc_ok : Bool) :
    Option (Exec Built) :=
  let t2_start := (bb_space.water_level / 2).toNat
  let b : Builder :=
    { s := { code := bb_space.u_code, write_curr := t2_start, m := m,
             type_context := starting_type_context }
      t2_start := t2_start
      i := tier1_start
      needs_guard := false }
  let e : BuilderSpace :=
    { t2_info := t2_info, ids := ids, water_level := bb_space.water_level }
  match _PyTier2_Code_DetectAndEmitBB.loop Py_DEBUG H I B T Tb G fuel tier1 size
      backward_jump_offsets A (2 * size.toNat + 2) (size - tier1_start).toNat e b with
  | none => none
  | some (.error f) => some (.error f)
  | some (.ok r) =>
    let bb_space1 : _PyTier2BBSpace :=
      { max_capacity := bb_space.max_capacity
        water_level := r.2.1.water_level
        u_code := bb_space.u_code }
    if r.1 = .RETURN_NULL then
      some (.ok
        { metadata := none
          bb_space := { bb_space1 with u_code := r.2.2.s.code }
          t2_info := r.2.1.t2_info
          backward_jump_target_bb_pairs := backward_jump_target_bb_pairs
          m := r.2.2.s.m })
    else
      some (_PyTier2_Code_DetectAndEmitBB.finish Py_DEBUG r.2.1.t2_info r.2.1.ids metadata
        realloc_ok backward_jump_offsets backward_jump_target_bb_pairs bb_space1 r.2.2
        r.2.2.meta r.2.2.starts_with_backwards_jump_target
        r.2.2.backwards_jump_target_offset r.2.2.start_type_context_copy
        r.2.2.virtual_tier1_start)

/-- The locals of the search of `_PyTier2_LocateJumpBackwardsBB` over the versions of a
jump target. -/
structure VersionSearch where
  matching_bb_id : Int
  candidate_bb_id : Int
  min_diff : Int
  candidate_bb_tier1_start : Option Nat
  deriving DecidableEq, Repr

/-- Body of the loop over the versions, for the row element `t`. -/
def _PyTier2_LocateJumpBackwardsBB.visit (Py_DEBUG : Bool) (T : TypeObjects) (m : Mem)
    (fuel : Nat) (curr_type_context : _PyTier2TypeContext)
    (t : _PyTier2BBStartTypeContextTriplet) (st : VersionSearch) : Exec VersionSearch :=
  let target_bb_id := t.id
  if target_bb_id ≥ 0 then
    match t.start_type_context with
    | none => .error .bad_access
    | some start_type_context =>
      diff_typecontext Py_DEBUG T m fuel curr_type_context start_type_context >>= fun diff =>
      if diff < st.min_diff then
        pure { candidate_bb_id := target_bb_id
               candidate_bb_tier1_start := t.tier1_start
               min_diff := diff
               matching_bb_id := target_bb_id }
      else
        pure { st with candidate_bb_id := target_bb_id
                       candidate_bb_tier1_start := t.tier1_start }
  else pure st

/-- The loop over the versions of a row. -/
def _PyTier2_LocateJumpBackwardsBB.search (Py_DEBUG : Bool) (T : TypeObjects) (m : Mem)
    (fuel : Nat) (curr_type_context : _PyTier2TypeContext) :
    List _PyTier2BBStartTypeContextTriplet → VersionSearch → Exec VersionSearch
  | [], st => .ok st
  | t :: ts, st =>
    _PyTier2_LocateJumpBackwardsBB.visit Py_DEBUG T m fuel curr_type_context t st >>=
      _PyTier2_LocateJumpBackwardsBB.search Py_DEBUG T m fuel curr_type_context ts

/-- Checks that the basic-block space has room for `space_requested` more bytes. -/
def _PyTier2_BBSpaceCheckAndReallocIfNeeded (bb_space : _PyTier2BBSpace)
    (space_requested : Int) : Exec _PyTier2BBSpace :=
  -- Over max capacity
  if bb_space.water_level + space_requested > bb_space.max_capacity then
    .error .unreachable
  else .ok bb_space

/-- What `_PyTier2_LocateJumpBackwardsBB` leaves behind: the returned tier-2 pointer
(`none` for `NULL`), `*tier1_fallback`, the rows of versions, and whether a new basic
block was generated. -/
structure Located where
  result : Option Nat
  tier1_fallback : Int
  backward_jump_target_bb_pairs : List (List _PyTier2BBStartTypeContextTriplet)
  generated : Bool
  deriving DecidableEq, Repr

/-- The part of `_PyTier2_LocateJumpBackwardsBB` that generates a new version and stores
it in the row `jump_offset_id`.  `copied` and `second_copy` are the results of the two
calls of `_PyTier2TypeContext_Copy` (`none` for `NULL`); `generate` stands for the call of
`_PyTier2_GenerateNextBBMetaWithTypeContext` with the candidate id, the copied context and
the tier-1 start of the candidate: it gives the new metadata (`none` for `NULL`) and the
rows as the call leaves them. -/
def _PyTier2_LocateJumpBackwardsBB.install (Py_DEBUG : Bool)
    (backward_jump_target_bb_pairs : List (List _PyTier2BBStartTypeContextTriplet))
    (tier1_fallback : Int) (jump_offset_id : Int) (st : VersionSearch)
    (copied second_copy : Option _PyTier2TypeContext)
    (generate : Int → _PyTier2TypeContext → Option Nat →
      Option _PyTier2BBMetadata × List (List _PyTier2BBStartTypeContextTriplet)) :
    Exec Located :=
  let fail : Located :=
    { result := none, tier1_fallback := tier1_fallback,
      backward_jump_target_bb_pairs := backward_jump_target_bb_pairs, generated := false }
  match copied with
  | none => .ok fail
  | some copied =>
    match second_copy with
    | none => .ok fail
    | some second_copy =>
      let g := generate st.candidate_bb_id copied st.candidate_bb_tier1_start
      match g.1 with
      | none => .ok { fail with backward_jump_target_bb_pairs := g.2 }
      | some new_meta =>
        -- Store the metadata in the jump ids.
        if jump_offset_id < 0 then .error .bad_access
        else
          match g.2.get? jump_offset_id.toNat with
          | none => .error .bad_access
          | some row =>
            if row.length < MAX_BB_VERSIONS then .error .bad_access
            else
              -- Write to an available space
              match (row.take MAX_BB_VERSIONS).findIdx? (fun t => decide (t.id < 0)) with
              | some x =>
                .ok { result := some new_meta.tier2_start
                      tier1_fallback := tier1_fallback
                      backward_jump_target_bb_pairs := g.2.set jump_offset_id.toNat
                        (row.set x
                          { id := new_meta.id, start_type_context := some second_copy,
                            tier1_start := st.candidate_bb_tier1_start })
                      generated := true }
              | none =>
                c_assert Py_DEBUG false >>= fun _ =>
                .ok { result := some new_meta.tier2_start
                      tier1_fallback := tier1_fallback
                      backward_jump_target_bb_pairs := g.2
                      generated := true }

/-- The loop of `_PyTier2_LocateJumpBackwardsBB` over the rows: the row of the first
index `i` with `backward_jump_offsets[i] == jump_offset` is searched.  Returns
`jump_offset_id` and the locals of the search. -/
def _PyTier2_LocateJumpBackwardsBB.scan (Py_DEBUG : Bool) (T : TypeObjects) (m : Mem)
    (fuel : Nat) (backward_jump_offsets : List Int)
    (backward_jump_target_bb_pairs : List (List _PyTier2BBStartTypeContextTriplet))
    (jump_offset : Int) (curr_type_context : _PyTier2TypeContext) :
    Exec (Int × VersionSearch) :=
  let st0 : VersionSearch :=
    { matching_bb_id := -1, candidate_bb_id := -1, min_diff := INT_MAX,
      candidate_bb_tier1_start := none }
  match find_jump_offset jump_offset backward_jump_offsets 0 with
  | none => .ok (-1, st0)
  | some i =>
    match backward_jump_target_bb_pairs.get? i with
    | none => .error .bad_access
    | some row =>
      if row.length < MAX_BB_VERSIONS then .error .bad_access
      else
        (_PyTier2_LocateJumpBackwardsBB.search Py_DEBUG T m fuel curr_type_context
          (row.take MAX_BB_VERSIONS) st0).map fun st => ((i : Int), st)

/-- Locates the basic block of a backwards jump target whose starting type context
matches the one at the end of the basic block `BB_ID(bb_id_tagged)`, or generates a new
version.  `size` is `Py_SIZE(co)`; tier-1 pointers are indices into the tier-1 code. -/
def _PyTier2_LocateJumpBackwardsBB (Py_DEBUG : Bool) (T : TypeObjects) (m : Mem)
    (fuel : Nat) (size : Int) (t2_info : _PyTier2Info)
    (metas : Nat → Option _PyTier2BBMetadata) (bb_space : _PyTier2BBSpace)
    (backward_jump_offsets : List Int)
    (backward_jump_target_bb_pairs : List (List _PyTier2BBStartTypeContextTriplet))
    (bb_id_tagged : Nat) (jumpby : Int) (stacklevel : Int)
    (copied second_copy : Option _PyTier2TypeContext)
    (generate : Int → _PyTier2TypeContext → Option Nat →
      Option _PyTier2BBMetadata × List (List _PyTier2BBStartTypeContextTriplet)) :
    Exec Located :=
  c_assert Py_DEBUG (decide ((BB_ID bb_id_tagged : Int) ≤ t2_info.bb_data_curr)) >>= fun _ =>
  bb_data_at t2_info metas (BB_ID bb_id_tagged) >>= fun bb =>
  -- We assert that there are as many items on the operand stack as there are on the
  -- saved type stack.
  c_assert Py_DEBUG (decide (stack_elems bb.type_context = stacklevel)) >>= fun _ =>
  -- The jump target
  let tier1_jump_target := bb.tier1_end + jumpby
  let tier1_fallback := tier1_jump_target
  _PyTier2_BBSpaceCheckAndReallocIfNeeded bb_space (size * 2 - tier1_jump_target * 2)
    >>= fun _ =>
  -- Get type_context of previous BB
  let curr_type_context := bb.type_context
  -- Now, find the matching BB
  let jump_offset := to_int tier1_jump_target
  _PyTier2_LocateJumpBackwardsBB.scan Py_DEBUG T m fuel backward_jump_offsets
    backward_jump_target_bb_pairs jump_offset curr_type_context >>= fun r =>
  let jump_offset_id := r.1
  let st := r.2
  c_assert Py_DEBUG (decide (jump_offset_id ≥ 0)) >>= fun _ =>
  c_assert Py_DEBUG (decide (st.candidate_bb_id ≥ 0)) >>= fun _ =>
  c_assert Py_DEBUG st.candidate_bb_tier1_start.isSome >>= fun _ =>
  -- We couldn't find a matching BB to jump to. Time to generate our own.
  if st.matching_bb_id = -1 then
    _PyTier2_LocateJumpBackwardsBB.install Py_DEBUG backward_jump_target_bb_pairs
      tier1_fallback jump_offset_id st copied second_copy generate
  else
    c_assert Py_DEBUG (decide (st.matching_bb_id ≥ 0)) >>= fun _ =>
    c_assert Py_DEBUG (decide (st.matching_bb_id ≤ t2_info.bb_data_curr)) >>= fun _ =>
    bb_data_at t2_info metas st.matching_bb_id >>= fun target_metadata =>
    pure { result := some target_metadata.tier2_start
           tier1_fallback := tier1_fallback
           backward_jump_target_bb_pairs := backward_jump_target_bb_pairs
           generated := false }

/-- The opcode tables of the examples: the specialised forms named here deoptimise to
their generic form, every other opcode is its own deoptimised form, and `BINARY_OP` alone
has a cache entry. -/
def ex_tables : OpcodeTables :=
  { _PyOpcode_Deopt := fun op =>
      match op with
      | .RESUME_QUICK => .RESUME
      | .JUMP_BACKWARD_QUICK => .JUMP_BACKWARD
      | .BINARY_OP_ADD_INT_REST | .BINARY_OP_SUBTRACT_INT_REST
      | .BINARY_OP_MULTIPLY_INT_REST => .BINARY_OP
      | _ => op
    _PyOpcode_Caches := fun op => if op = .BINARY_OP then 1 else 0 }

/-- No transfer beyond those that the spec gives. -/
def no_transfers : Transfers := fun _ _ _ _ => none

/-- Tier-1 code `… ; BINARY_OP + ; CACHE ; RETURN_VALUE` with the `BINARY_OP` at index 3
(`+` is oparg 0 in `ex_headers`). -/
def binop_tier1 : Code := fun a =>
  if a = 3 then .op .BINARY_OP 0
  else if a = 4 then .cache 0
  else if a = 5 then .op .RETURN_VALUE 0
  else .op .NOP 0

/-- A tier-2 info with room for four basic blocks, one of which is allocated. -/
def ex_t2_info : _PyTier2Info :=
  { bb_data_len := 4, bb_data_curr := 1, bb_data := some [4096, 0, 0, 0] }

/-- Example values of the header constants of `FOR_ITER`. -/
def ex_iter : IterHeaders := ⟨1, 17⟩

/-- Allocations of a split that all fail; for tier-1 code without a backwards jump target. -/
def no_split : Nat → SplitAllocs := fun _ => ⟨(0, 0, 0), none, false, (0, 0, 0)⟩

/-- An empty basic-block space. -/
def ex_bb_space : _PyTier2BBSpace :=
  { max_capacity := 256, water_level := 0, u_code := ex_code }

/-- Tier-1 code `EXTENDED_ARG 1; STORE_GLOBAL 4; RETURN_VALUE`: a `STORE_GLOBAL` with the
oparg `0x104`. -/
def store_global_tier1 : Code := fun a =>
  if a = 0 then .op .EXTENDED_ARG 1
  else if a = 1 then .op .STORE_GLOBAL 4
  else .op .RETURN_VALUE 0

/-- A transfer for `STORE_GLOBAL`, which the spec gives none for: the stored value is
popped. -/
def store_global_transfers : Transfers := fun opcode _ m c =>
  if opcode = .STORE_GLOBAL then some (.ok (m, __type_stack_shrink c 1)) else none

/-- The builder at the start of `store_global_tier1`, with two values on the type stack. -/
def store_global_builder : Builder :=
  { s := binop_emitter (binop_mem 1 1057 1057), t2_start := 0, i := 0, needs_guard := false }

/-- The tier-2 info and the water level next to `store_global_builder`. -/
def store_global_space : BuilderSpace :=
  { t2_info := ex_t2_info, ids := fun _ => 0, water_level := 0 }

/-- Tier-1 code whose instruction at index 1 is the conditional branch
`POP_JUMP_IF_FALSE 3`; the index 1 is also the target of a backward jump. -/
def branch_tier1 : Code := fun a =>
  if a = 1 then .op .POP_JUMP_IF_FALSE 3 else .op .NOP 0

/-- A transfer for `BB_TEST_POP_IF_FALSE`, which the spec gives none for: the tested value
is popped. -/
def branch_transfers : Transfers := fun opcode _ m c =>
  if opcode = .BB_TEST_POP_IF_FALSE then some (.ok (m, __type_stack_shrink c 1)) else none

/-- Allocations of a split that succeed: the copies of the type context at the addresses
256 and 512, and 1024 and 2048, and the metadata at the address 4104. -/
def branch_allocs : Nat → SplitAllocs := fun _ =>
  ⟨(256, 512, 8), some 4104, true, (1024, 2048, 16)⟩

/-- The builder in front of the branch of `branch_tier1`, with an empty buffer and the
context `room_ctx`. -/
def branch_builder : Builder :=
  { s := { code := ex_code, write_curr := 0, m := room_mem, type_context := room_ctx }
    t2_start := 0, i := 1, needs_guard := false }

/-- The tier-2 info next to `branch_builder`: one basic block is allocated. -/
def branch_space : BuilderSpace :=
  { t2_info := ex_t2_info, ids := fun _ => 0, water_level := 0 }

/-- The locals of the iteration at the branch of `branch_tier1`. -/
def branch_dispatched : Dispatched :=
  { curr := 1, specop := .POP_JUMP_IF_FALSE, opcode := .POP_JUMP_IF_FALSE, oparg := 3,
    caches := 0 }

/-- The run of the `switch` of the builder at the branch of `branch_tier1`: a split at the
backwards jump target, then the branch. -/
def branch_run : Option (Exec (Control × BuilderSpace × Builder)) :=
  _PyTier2_Code_DetectAndEmitBB.dispatch_opcode true ex_headers ex_iter ex_bits ex_types
    ex_tables branch_transfers 6 branch_tier1 [1] branch_allocs 2 branch_space
    branch_builder branch_dispatched

/-- The tier-2 info and the locals of the builder at the end of `branch_run`. -/
def branch_end : BuilderSpace × Builder :=
  match branch_run with
  | some (.ok r) => r.2
  | _ => (branch_space, branch_builder)

/-- The call of `_PyTier2_AllocateBBMetaData` at the label `end` behind `branch_run`, with
the metadata at the address 4112. -/
def branch_commit : Exec (Option _PyTier2BBMetadata × _PyTier2Info × (Nat → Int)) :=
  _PyTier2_AllocateBBMetaData branch_end.1.t2_info branch_end.1.ids (some 4112) true
    branch_end.2.t2_start (branch_end.2.i + 1) branch_end.2.s.type_context

/-- The metadata that `branch_commit` returns, with the tier-2 info and the ids. -/
def branch_meta : _PyTier2BBMetadata × _PyTier2Info × (Nat → Int) :=
  match branch_commit with
  | .ok (some x, r) => (x, r)
  | _ => ({ id := -1, type_context := room_ctx, tier2_start := 0, tier1_end := 0 },
      ex_t2_info, fun _ => 0)

/-- What the examples observe of a run of the builder: the returned metadata,
`water_level` and the first code units of the buffer. -/
structure BuiltSummary where
  metadata : Option _PyTier2BBMetadata
  water_level : Int
  units : List _Py_CODEUNIT
  deriving DecidableEq, Repr

/-- The summary of a run of the builder with the first `n` code units of the buffer. -/
def Built.summary (n : Nat) (b : Built) : BuiltSummary :=
  { metadata := b.metadata
    water_level := b.bb_space.water_level
    units := emitted b.bb_space.u_code 0 n }

/-- An example of transfers of the generated file: `END_FOR` leaves the type context as it
is.  (The buffer and `water_level` do not depend on what a transfer does to the context.) -/
def end_for_transfers : Transfers := fun opcode _ m type_context =>
  if opcode = .END_FOR then some (.ok (m, type_context)) else none

/-- Tier-1 code `END_FOR ; RETURN_VALUE`. -/
def end_for_tier1 : Code := fun a =>
  if a = 0 then .op .END_FOR 0 else .op .RETURN_VALUE 0

/-- Heap with the context `room_ctx` and its two copies `room_ctx_copy` and `room_ctx_wide`. -/
def versions_mem : Mem :=
  heap_join room_mem_copy (heap_of 1024 [1, 2050, 1] 2048 [1, 1026, 2058])

/-- A row of versions: ids 1, 2 and 3 in the slots 0 to 2, with the starting contexts
`room_ctx_wide`, `room_ctx_copy` and `room_ctx_copy`; the other slots are free. -/
def versions_row : List _PyTier2BBStartTypeContextTriplet :=
  [ { id := 1, tier1_start := some 5, start_type_context := some room_ctx_wide },
    { id := 2, tier1_start := some 5, start_type_context := some room_ctx_copy },
    { id := 3, tier1_start := some 5, start_type_context := some room_ctx_copy } ]
  ++ List.replicate 7 { id := -1, tier1_start := none, start_type_context := none }

/-- A tier-2 info with four basic blocks. -/
def versions_t2_info : _PyTier2Info :=
  { bb_data_len := 4, bb_data_curr := 4, bb_data := some [4096, 4104, 4112, 4120] }

/-- The metadata objects of `versions_t2_info`: block 0 ends in the backward jump, with
the type context `room_ctx`; the blocks 1 to 3 are the versions of the jump target. -/
def versions_metas : Nat → Option _PyTier2BBMetadata := fun p =>
  if p = 4096 then some { id := 0, type_context := room_ctx, tier2_start := 0, tier1_end := 20 }
  else if p = 4104 then
    some { id := 1, type_context := room_ctx_wide, tier2_start := 10, tier1_end := 20 }
  else if p = 4112 then
    some { id := 2, type_context := room_ctx_copy, tier2_start := 30, tier1_end := 20 }
  else if p = 4120 then
    some { id := 3, type_context := room_ctx_copy, tier2_start := 50, tier1_end := 20 }
  else none

/-- A basic-block space with 100 bytes used. -/
def versions_bb_space : _PyTier2BBSpace :=
  { max_capacity := 1000, water_level := 100, u_code := ex_code }

/-- The differences of the versions of `versions_row` against `room_ctx`. -/
def versions_diff (t : _PyTier2BBStartTypeContextTriplet) : Int :=
  if t.id = 1 then 2 else 0

/-- A row whose `MAX_BB_VERSIONS` slots all hold a version (ids 1 to 10), each with the
starting context `room_ctx`. -/
def full_row : List _PyTier2BBStartTypeContextTriplet :=
  (List.range MAX_BB_VERSIONS).map fun k =>
    { id := (k : Int) + 1, tier1_start := some 5, start_type_context := some room_ctx }

/-- A tier-2 info with eleven basic blocks. -/
def full_t2_info : _PyTier2Info :=
  { bb_data_len := 12, bb_data_curr := 11,
    bb_data := some ((List.range 12).map fun k => 4096 + 8 * k) }

/-- The metadata objects of `full_t2_info`: block 0 ends in the backward jump with the type
context `room_ctx_wide`, which no version of `full_row` is compatible with. -/
def full_metas : Nat → Option _PyTier2BBMetadata := fun p =>
  if p = 4096 then
    some { id := 0, type_context := room_ctx_wide, tier2_start := 0, tier1_end := 20 }
  else if 4096 < p ∧ p < 4096 + 8 * 11 ∧ p % 8 = 0 then
    some { id := ((p - 4096) / 8 : Nat), type_context := room_ctx,
           tier2_start := 10 * ((p - 4096) / 8), tier1_end := 20 }
  else none

/-- The metadata of the basic block that a generation in the examples returns. -/
def new_version : _PyTier2BBMetadata :=
  { id := 11, type_context := room_ctx_wide, tier2_start := 110, tier1_end := 20 }

/-- The locals of the builder at the label `end` after it emitted three code units from
unit 50 on. -/
def end_builder : Builder :=
  { s := { code := ex_code, write_curr := 53, m := versions_mem, type_context := room_ctx_wide }
    t2_start := 50
    i := 9
    needs_guard := false }

/-! ## Warmup and initialization of tier 2 -/

/-- Opcodes that tier 2 cannot handle.  `nextop` is the deoptimised opcode of the following
code unit, `none` when that is not an opcode named here (the value 255 behind the last unit,
or the low byte of a cache entry). -/
def IS_FORBIDDEN_OPCODE (opcode : Opcode) (nextop : Option Opcode) : Bool :=
  match opcode with
  -- Modifying containers
  | .LIST_EXTEND | .SET_UPDATE | .DICT_UPDATE
  -- f-strings
  | .FORMAT_VALUE
  -- Type hinting
  | .SETUP_ANNOTATIONS
  -- Context manager
  | .BEFORE_WITH
  -- Generators and coroutines
  | .SEND | .YIELD_VALUE | .GET_AITER | .GET_ANEXT | .BEFORE_ASYNC_WITH | .END_ASYNC_FOR
  -- Raise keyword
  | .RAISE_VARARGS
  -- Exceptions
  | .PUSH_EXC_INFO | .RERAISE | .POP_EXCEPT | .CHECK_EXC_MATCH | .CLEANUP_THROW
  -- Closures
  | .LOAD_DEREF | .LOAD_CLASSDEREF | .MAKE_CELL
  -- DELETE_FAST
  | .DELETE_FAST
  -- Pattern matching
  | .MATCH_MAPPING | .MATCH_SEQUENCE | .MATCH_KEYS => true
  -- Two simultaneous EXTENDED_ARG
  | .EXTENDED_ARG => decide (nextop = some .EXTENDED_ARG)
  | _ => false

/-- Whether the opcode is optimizable: a specialised form of `BINARY_OP` for `+`, `-` or
`*`. -/
def IS_OPTIMIZABLE_OPCODE (H : Headers) (Tb : OpcodeTables) (opcode : Opcode) (oparg : Int) :
    Bool :=
  match Tb._PyOpcode_Deopt opcode with
  | .BINARY_OP =>
    if oparg = H.NB_SUBTRACT ∨ oparg = H.NB_MULTIPLY ∨ oparg = H.NB_ADD then
      -- We want a specialised form, not the generic BINARY_OP.
      decide (opcode ≠ Tb._PyOpcode_Deopt opcode)
    else false
  | _ => false

/-- The fields of `PyCodeObject` that the warmup uses: the code units `_PyCode_CODE(co)`,
their number `Py_SIZE(co)`, the warmup counter and the tier-2 info (`none` for `NULL`). -/
structure PyCodeObject where
  co_code : Code
  size : Nat
  _tier2_warmup : Int
  _tier2_info : Option _PyTier2Info

/-- The loop of `replace_resume_and_jump_backwards` from index `i` on, for at most `n`
iterations. -/
def replace_resume_and_jump_backwards.loop (Tb : OpcodeTables) (size : Nat) :
    Nat → Nat → Code → Exec Code
  | 0, i, code => if i < size then .error .out_of_fuel else .ok code
  | n + 1, i, code =>
    if i < size then
      _Py_OPCODE (code i) >>= fun op =>
      let opcode := Tb._PyOpcode_Deopt op
      let code1 :=
        if opcode = .RESUME then _py_set_opcode code i .RESUME_QUICK
        else if opcode = .JUMP_BACKWARD then _py_set_opcode code i .JUMP_BACKWARD_QUICK
        else code
      replace_resume_and_jump_backwards.loop Tb size n (i + Tb._PyOpcode_Caches opcode + 1)
        code1
    else .ok code

/-- Single scan to replace `RESUME` and `JUMP_BACKWARD` instructions by their quick
variants. -/
def replace_resume_and_jump_backwards (Tb : OpcodeTables) (co : PyCodeObject) : Exec Code :=
  replace_resume_and_jump_backwards.loop Tb co.size co.size 0 co.co_code

/-- The deoptimised opcode of a code unit read as an instruction; `none` for a unit that
was last written as a cache word. -/
def deopt_of (Tb : OpcodeTables) (word : _Py_CODEUNIT) : Option Opcode :=
  match word with
  | .op code _ => some (Tb._PyOpcode_Deopt code)
  | .cache _ => none

/-- The scan of `_PyCode_Tier2Initialize` for forbidden opcodes from index `curr` on, for
at most `n` iterations.  `none` is the `return NULL` at a forbidden opcode; `some` holds
`optimizable` at the end of the loop. -/
def _PyCode_Tier2Initialize.scan (H : Headers) (Tb : OpcodeTables) (code : Code)
    (size : Nat) : Nat → Nat → Bool → Exec (Option Bool)
  | 0, curr, optimizable =>
    if curr < size then .error .out_of_fuel else .ok (some optimizable)
  | n + 1, curr, optimizable =>
    if curr < size then
      _Py_OPCODE (code curr) >>= fun op =>
      let deopt := Tb._PyOpcode_Deopt op
      let next : Option Opcode :=
        if curr + 1 < size then deopt_of Tb (code (curr + 1)) else none
      if IS_FORBIDDEN_OPCODE deopt next then .ok none
      else
        -- Skip the cache entries
        _PyCode_Tier2Initialize.scan H Tb code size n (curr + Tb._PyOpcode_Caches deopt + 1)
          (optimizable || IS_OPTIMIZABLE_OPCODE H Tb op (code curr).op_arg)
    else .ok (some optimizable)

/-- The assertion at the start of `_PyCode_Tier2Initialize`, which reads the unit in front
of `next_instr` only when assertions are compiled in. -/
def _PyCode_Tier2Initialize.asserts (Py_DEBUG : Bool) (code : Code) (next_instr : Nat) :
    Exec Unit :=
  if Py_DEBUG then
    if next_instr = 0 then .error .bad_access
    else
      _Py_OPCODE (code (next_instr - 1)) >>= fun op =>
      c_assert Py_DEBUG (decide (op = .RESUME))
  else pure ()

/-- Initializes the tier 2 of a code object.  Returns the next tier-2 instruction (`none`
for `NULL`) and the code object.  `later` stands for the part of the function from the
call of `_PyTier2Info_Initialize` on, which is reached when no opcode is forbidden and
some opcode is optimizable. -/
def _PyCode_Tier2Initialize (Py_DEBUG : Bool) (H : Headers) (Tb : OpcodeTables)
    (later : PyCodeObject → Exec (Option Nat × PyCodeObject)) (co : PyCodeObject)
    (next_instr : Nat) : Exec (Option Nat × PyCodeObject) :=
  _PyCode_Tier2Initialize.asserts Py_DEBUG co.co_code next_instr >>= fun _ =>
  -- Replace all the RESUME and JUMP_BACKWARDS so that it doesn't waste time again.
  replace_resume_and_jump_backwards Tb co >>= fun code1 =>
  let co1 := { co with co_code := code1 }
  -- Impossibly big.
  if to_int co1.size ≠ co1.size then .ok (none, co1)
  else
    -- First check for forbidden opcodes that we currently can't handle.
    _PyCode_Tier2Initialize.scan H Tb co1.co_code co1.size co1.size 0 false >>= fun r =>
    match r with
    | none => .ok (none, co1)
    | some optimizable =>
      if !optimizable then .ok (none, co1)
      else later co1

/-- What a call of `_PyCode_Tier2Warmup` leaves behind: the returned instruction pointer,
the code object, `frame->is_tier2`, and whether `_PyCode_Tier2Initialize` was called. -/
structure Warmed where
  next : Nat
  co : PyCodeObject
  is_tier2 : Bool
  attempted : Bool

/-- The statements of `_PyCode_Tier2Warmup` after a successful initialization: the
`RESUME` in front of `next_instr` becomes `RESUME_QUICK`. -/
def _PyCode_Tier2Warmup.enter (Py_DEBUG : Bool) (co : PyCodeObject) (next_instr next : Nat) :
    Exec Warmed :=
  if next_instr = 0 then .error .bad_access
  else
    let curr := next_instr - 1
    (if Py_DEBUG then
      _Py_OPCODE (co.co_code curr) >>= fun op =>
      c_assert Py_DEBUG (decide (op = .RESUME ∨ op = .RESUME_QUICK))
    else pure ()) >>= fun _ =>
    .ok { next := next
          co := { co with co_code := _py_set_opcode co.co_code curr .RESUME_QUICK }
          is_tier2 := true
          attempted := true }

/-- Tier 2 warmup counter. -/
def _PyCode_Tier2Warmup (Py_DEBUG : Bool) (H : Headers) (Tb : OpcodeTables)
    (later : PyCodeObject → Exec (Option Nat × PyCodeObject)) (code : PyCodeObject)
    (next_instr : Nat) : Exec Warmed :=
  if code._tier2_warmup ≠ 0 then
    let code1 := { code with _tier2_warmup := to_int (code._tier2_warmup + 1) }
    if code1._tier2_warmup ≥ 0 then
      c_assert Py_DEBUG code1._tier2_info.isNone >>= fun _ =>
      -- If it fails, due to lack of memory or whatever,
      -- just fall back to the tier 1 interpreter.
      _PyCode_Tier2Initialize Py_DEBUG H Tb later code1 next_instr >>= fun r =>
      match r.1 with
      | some next => _PyCode_Tier2Warmup.enter Py_DEBUG r.2 next_instr next
      | none => .ok { next := next_instr, co := r.2, is_tier2 := false, attempted := true }
    else .ok { next := next_instr, co := code1, is_tier2 := false, attempted := false }
  else .ok { next := next_instr, co := code, is_tier2 := false, attempted := false }

/-- The positions at which the instructions of the code start: from `i` on, each
instruction is followed by its cache entries (at most `n` instructions). -/
def instruction_positions (Tb : OpcodeTables) (code : Code) (size : Nat) :
    Nat → Nat → List Nat
  | 0, _ => []
  | n + 1, i =>
    if i < size then
      i :: instruction_positions Tb code size n
        (i + (match deopt_of Tb (code i) with
              | some opcode => Tb._PyOpcode_Caches opcode
              | none => 0) + 1)
    else []

/-- The instruction at `p` is forbidden: its deoptimised opcode with that of the following
unit, if there is one. -/
def forbidden_at (Tb : OpcodeTables) (code : Code) (size : Nat) (p : Nat) : Bool :=
  match deopt_of Tb (code p) with
  | some opcode =>
    IS_FORBIDDEN_OPCODE opcode (if p + 1 < size then deopt_of Tb (code (p + 1)) else none)
  | none => false

/-- A generator: `RESUME; LOAD_FAST 0; YIELD_VALUE; BINARY_OP +; CACHE; RETURN_VALUE`, with
the `BINARY_OP` in the specialised form `BINARY_OP_ADD_INT_REST`. -/
def generator_code : Code := fun a =>
  if a = 0 then .op .RESUME 0
  else if a = 1 then .op .LOAD_FAST 0
  else if a = 2 then .op .YIELD_VALUE 0
  else if a = 3 then .op .BINARY_OP_ADD_INT_REST 0
  else if a = 4 then .cache 0
  else .op .RETURN_VALUE 0

/-- The code object of `generator_code`, one call before it is hot. -/
def generator_co : PyCodeObject :=
  { co_code := generator_code, size := 6, _tier2_warmup := -1, _tier2_info := none }

/-! ## The table of backward-jump targets -/

/-- Checks if this is a backwards jump instruction. -/
def IS_JUMP_BACKWARDS_OPCODE (opcode : Opcode) : Bool :=
  decide (opcode = .JUMP_BACKWARD_NO_INTERRUPT) || decide (opcode = .JUMP_BACKWARD)
    || decide (opcode = .JUMP_BACKWARD_QUICK)

/-- The comparison function `compare_ints` for `qsort`: the `int` difference `a - b`. -/
def compare_ints (a b : Int) : Int := to_int (a - b)

/-- The call `qsort(base, n, sizeof(int), compare_ints)` of the C library: the elements in
the order of `compare_ints`. -/
def qsort (base : List Int) : List Int :=
  base.insertionSort fun a b => compare_ints a b ≤ 0

/-- The first loop of `_PyCode_Tier2FillJumpTargets` from index `i` on, for at most `n`
iterations: counts the backwards jumps. -/
def _PyCode_Tier2FillJumpTargets.count (Tb : OpcodeTables) (code : Code) (size : Nat) :
    Nat → Nat → Int → Exec Int
  | 0, i, backwards_jump_count =>
    if i < size then .error .out_of_fuel else .ok backwards_jump_count
  | n + 1, i, backwards_jump_count =>
    if i < size then
      _Py_OPCODE (code i) >>= fun op =>
      let opcode := Tb._PyOpcode_Deopt op
      _PyCode_Tier2FillJumpTargets.count Tb code size n (i + Tb._PyOpcode_Caches opcode + 1)
        (backwards_jump_count + (IS_JUMP_BACKWARDS_OPCODE opcode).toNat)
    else .ok backwards_jump_count

/-- The second loop of `_PyCode_Tier2FillJumpTargets`, for at most `n` code units.  `i` is
the index `curr - start`; `pending` is `none` at the head of the `for` loop and holds the
oparg collected so far at the label `dispatch_same_oparg` behind an `EXTENDED_ARG`;
`offsets` holds `backward_jump_offsets[0 ..< curr_i]`, and `count` is the allocated
length. -/
def _PyCode_Tier2FillJumpTargets.fill (Tb : OpcodeTables) (code : Code) (size : Nat)
    (count : Nat) : Nat → Nat → Option Int → List Int → Exec (List Int)
  | 0, i, pending, offsets =>
    if pending.isNone ∧ ¬ i < size then .ok offsets else .error .out_of_fuel
  | n + 1, i, pending, offsets =>
    if pending.isNone ∧ ¬ i < size then .ok offsets
    else
      _Py_OPCODE (code i) >>= fun op =>
      let opcode := Tb._PyOpcode_Deopt op
      let oparg : Int :=
        match pending with
        | none => (code i).op_arg
        | some high => to_int (high * 256 + (code i).op_arg)
      if IS_JUMP_BACKWARDS_OPCODE opcode then
        -- + 1 because it's calculated from nextinstr (see JUMPBY in ceval.c)
        let target : Int := (i : Int) + 1 - oparg
        if offsets.length < count then
          _PyCode_Tier2FillJumpTargets.fill Tb code size count n
            (i + Tb._PyOpcode_Caches opcode + 1) none (offsets ++ [to_int target])
        else .error .bad_access
      else if opcode = .EXTENDED_ARG then
        _PyCode_Tier2FillJumpTargets.fill Tb code size count n (i + 1) (some oparg) offsets
      else
        _PyCode_Tier2FillJumpTargets.fill Tb code size count n
          (i + Tb._PyOpcode_Caches opcode + 1) none offsets

/-- The loops that deduplicate the sorted offsets, for `n` iterations of the outer loop:
for the index `i`, each later element `x` with
`backward_jump_offsets[i] == backward_jump_offsets[x]` becomes `-1`.  The head of the list
is the element at `i`, the tail holds the elements at the indices `x > i`. -/
def _PyCode_Tier2FillJumpTargets.dedupe : Nat → List Int → List Int
  | 0, l => l
  | _ + 1, [] => []
  | n + 1, a :: rest =>
    a :: _PyCode_Tier2FillJumpTargets.dedupe n (rest.map fun x => if a = x then -1 else x)

/-- What `_PyCode_Tier2FillJumpTargets` leaves behind: the return value (0 on success, 1 on
error) and the fields `backward_jump_count`, `backward_jump_offsets` (`none` for `NULL`)
and `backward_jump_target_bb_pairs` of the tier-2 info. -/
structure FilledJumpTargets where
  ret : Int
  backward_jump_count : Int
  backward_jump_offsets : Option (List Int)
  backward_jump_target_bb_pairs : List (List _PyTier2BBStartTypeContextTriplet)
  deriving DecidableEq, Repr

/-- Creates the rows of `MAX_BB_VERSIONS` free slots each. -/
def allocate_jump_offset_2d_array (backwards_jump_count : Nat) :
    List (List _PyTier2BBStartTypeContextTriplet) :=
  List.replicate backwards_jump_count
    (List.replicate MAX_BB_VERSIONS
      { id := -1, tier1_start := none, start_type_context := none })

/-- Populates the backwards jump target offset array for a code object.  `t` holds the
fields before the call; `offsets_ok`, `pairs_ok` and `rows_ok` say whether the allocations
of the offsets, of the array of rows and of the rows succeed. -/
def _PyCode_Tier2FillJumpTargets (Py_DEBUG : Bool) (Tb : OpcodeTables) (code : Code)
    (size : Nat) (t : FilledJumpTargets) (offsets_ok pairs_ok rows_ok : Bool) :
    Exec FilledJumpTargets :=
  -- Count all the backwards jump targets.
  _PyCode_Tier2FillJumpTargets.count Tb code size size 0 0 >>= fun backwards_jump_count =>
  -- Impossibly big.
  if backwards_jump_count ≠ to_int backwards_jump_count then .ok { t with ret := 1 }
  -- Don't allocate a zero byte space as this may be undefined behavior.
  else if backwards_jump_count = 0 then
    .ok { t with ret := 0, backward_jump_offsets := none, backward_jump_count := 0 }
  else if !offsets_ok then .ok { t with ret := 1 }
  else if !pairs_ok then .ok { t with ret := 1 }
  else if !rows_ok then .ok { t with ret := 1 }
  else
    _PyCode_Tier2FillJumpTargets.fill Tb code size backwards_jump_count.toNat size 0 none []
      >>= fun offsets =>
    c_assert Py_DEBUG (decide ((offsets.length : Int) = backwards_jump_count)) >>= fun _ =>
    -- the elements that the second loop has not written are indeterminate (here `0`)
    let backward_jump_offsets :=
      offsets ++ List.replicate (backwards_jump_count.toNat - offsets.length) 0
    let sorted := qsort backward_jump_offsets
    -- Deduplicate
    let deduplicated :=
      _PyCode_Tier2FillJumpTargets.dedupe (backwards_jump_count.toNat - 1) sorted
    .ok { ret := 0
          backward_jump_count := to_int backwards_jump_count
          backward_jump_offsets := some (qsort deduplicated)
          backward_jump_target_bb_pairs :=
            allocate_jump_offset_2d_array backwards_jump_count.toNat }

/-- A loop with two `continue`-like jumps: the `JUMP_BACKWARD`s at the indices 4, 6 and 8
all target index 2 (`target = curr + 1 - oparg`). -/
def loop_code : Code := fun a =>
  if a = 0 then .op .RESUME 0
  else if a = 4 then .op .JUMP_BACKWARD 3
  else if a = 6 then .op .JUMP_BACKWARD 5
  else if a = 8 then .op .JUMP_BACKWARD 7
  else if a = 9 then .op .RETURN_VALUE 0
  else .op .NOP 0

/-- Two loops: the `JUMP_BACKWARD`s at the indices 4 and 8 target the indices 2 and 6. -/
def two_loops_code : Code := fun a =>
  if a = 0 then .op .RESUME 0
  else if a = 4 then .op .JUMP_BACKWARD 3
  else if a = 8 then .op .JUMP_BACKWARD 3
  else if a = 9 then .op .RETURN_VALUE 0
  else .op .NOP 0

/-- The fields of a tier-2 info before the jump targets are filled in. -/
def unfilled : FilledJumpTargets :=
  { ret := 0, backward_jump_count := 0, backward_jump_offsets := none,
    backward_jump_target_bb_pairs := [] }

/-- An instruction of a bytecode: the index of its opcode unit, its opcode (in the generic
form) and its oparg, in which the `EXTENDED_ARG` prefixes are merged. -/
structure DecodedInstruction where
  index : Nat
  opcode : Opcode
  oparg : Int
  deriving DecidableEq, Repr

/-- The instructions of the bytecode `code[i ..< size]`, in the words of the spec and not
of the loops of `_PyCode_Tier2FillJumpTargets`: an instruction is an opcode unit, with the
`EXTENDED_ARG` prefixes in front of it merged into its oparg (`pending` holds what the
prefixes read so far give), followed by the cache entries of the opcode.  A prefix that
no instruction follows within the bytecode is an error.  `n` bounds the number of code
units read. -/
def decode_tier1 (Tb : OpcodeTables) (code : Code) (size : Nat) :
    Nat → Nat → Option Int → Exec (List DecodedInstruction)
  | 0, i, pending =>
    if i < size then .error .out_of_fuel
    else if pending.isNone then .ok [] else .error .unreachable
  | n + 1, i, pending =>
    if i < size then
      _Py_OPCODE (code i) >>= fun op =>
      let opcode := Tb._PyOpcode_Deopt op
      let oparg : Int :=
        match pending with
        | none => (code i).op_arg
        | some high => to_int (high * 256 + (code i).op_arg)
      if opcode = .EXTENDED_ARG then decode_tier1 Tb code size n (i + 1) (some oparg)
      else
        decode_tier1 Tb code size n (i + Tb._PyOpcode_Caches opcode + 1) none >>= fun rest =>
        .ok ({ index := i, opcode := opcode, oparg := oparg } :: rest)
    else if pending.isNone then .ok [] else .error .unreachable

/-- The tier-1 offsets targeted by the backward jumps among the instructions `l`: a
backward jump with oparg `a` whose opcode unit is at the index `i` goes to `i + 1 - a`
(the oparg counts back from the next instruction). -/
def backward_jump_targets (l : List DecodedInstruction) : List Int :=
  (l.filter fun x => IS_JUMP_BACKWARDS_OPCODE x.opcode).map fun x =>
    (x.index : Int) + 1 - x.oparg

/-- The instructions of `two_loops_code`: one per code unit. -/
def two_loops_instructions : List DecodedInstruction :=
  (List.range 10).map fun i =>
    match two_loops_code i with
    | .op opcode arg => { index := i, opcode := opcode, oparg := arg }
    | .cache _ => { index := i, opcode := .NOP, oparg := 0 }

/-! ## The copy-and-patch compiler (`jit.c`) -/

/-- The struct `Hole` of the generated header `jit_stencils.h`, which is not among the
sources, with the fields that `jit.c` reads. -/
structure Hole where
  offset : Nat
  addend : Nat
  kind : Nat
  pc : Nat
  deriving DecidableEq, Repr

/-- The struct `Stencil` of `jit_stencils.h`, with the fields that `copy_and_patch` and
`_PyJIT_CompileTrace` read (`nholes` is the length of `holes`). -/
structure Stencil where
  nbytes : Nat
  bytes : List Nat
  holes : List Hole
  deriving DecidableEq, Repr

/-- The tables and constants of `jit_stencils.h`: the stencil of each opcode, the
trampoline stencil, the initial patches `GET_PATCHES()` and the indices of the hole kinds
that `_PyJIT_CompileTrace` sets. -/
structure JitStencils where
  stencils : Nat → Stencil
  trampoline_stencil : Stencil
  GET_PATCHES : Nat → Nat
  HOLE_base : Nat
  HOLE_continue : Nat
  HOLE_next_instr : Nat
  HOLE_oparg_plus_one : Nat

/-- An element `trace[i]` of a trace: the address of a code unit with its `op.code` and
`op.arg`. -/
structure TraceInstruction where
  address : Nat
  code : Nat
  arg : Nat
  deriving DecidableEq, Repr

/-- What one call of `copy_and_patch` writes: `nbytes` bytes of the stencil at `memory`, and
then the word `value` at the address `addr` of every hole. -/
structure Stamp where
  memory : Nat
  nbytes : Nat
  bytes : List Nat
  holes : List (Nat × Nat)
  deriving DecidableEq, Repr

/-- The memory that the compiler works on: the mapped regions `(address, size)`, the
`size_t` headers that `alloc` has written, the stencils stamped so far, and the static
variable `stencils_loaded`. -/
structure JitState where
  mapped : List (Nat × Nat)
  headers : List (Nat × Nat)
  stamps : List Stamp
  stencils_loaded : Int
  deriving DecidableEq, Repr

/-- The size of a `size_t`. -/
def sizeof_size_t : Nat := 8

/-- Wrap-around of `size_t` and `uintptr_t` arithmetic. -/
def to_size_t (x : Nat) : Nat := x % 18446744073709551616

/-- Maps `nbytes + sizeof(size_t)` bytes and stores that size in front of the returned
pointer.  `mmap` is the result of `MMAP` (`none` for `MAP_FAILED`); the returned pointer is
0 for `NULL`. -/
def alloc (Py_DEBUG : Bool) (st : JitState) (mmap : Option Nat) (nbytes : Nat) :
    Exec (JitState × Nat) :=
  let nbytes := to_size_t (nbytes + sizeof_size_t)
  match mmap with
  | none => .ok (st, 0)
  | some memory =>
    c_assert Py_DEBUG (decide (memory ≠ 0)) >>= fun _ =>
    .ok ({ st with mapped := (memory, nbytes) :: st.mapped
                   headers := (memory, nbytes) :: st.headers },
      memory + sizeof_size_t)

/-- Copies the stencil to `memory` and patches its holes. -/
def copy_and_patch (memory : Nat) (stencil : Stencil) (patches : Nat → Nat) : Stamp :=
  { memory := memory
    nbytes := stencil.nbytes
    bytes := stencil.bytes
    holes := stencil.holes.map fun hole =>
      let addr := memory + hole.offset
      (addr, to_size_t (patches hole.kind + hole.addend + hole.pc * addr)) }

/-- The assignment `patches[kind] = value`. -/
def set_patch (patches : Nat → Nat) (kind value : Nat) : Nat → Nat :=
  fun k => if k = kind then value else patches k

/-- The first loop of `_PyJIT_CompileTrace`, over the rest of the trace: the total
compiled size, or `none` for the `return NULL` at a stencil without bytes. -/
def _PyJIT_CompileTrace.total (J : JitStencils) : List TraceInstruction → Nat → Option Nat
  | [], nbytes => some nbytes
  | instruction :: rest, nbytes =>
    let stencil := J.stencils instruction.code
    if stencil.nbytes = 0 then none
    else _PyJIT_CompileTrace.total J rest (to_size_t (nbytes + stencil.nbytes))

/-- The local variables of the second loop of `_PyJIT_CompileTrace`: the cursors `head`
and `entry_points`, `seen_jump_targets`, the stencils stamped so far, and the indices at
which `jump_target_trace_offsets` has been read. -/
structure Stamping where
  head : Nat
  entry_points : Nat
  seen_jump_targets : Nat
  stamps : List Stamp
  reads : List Nat
  deriving DecidableEq, Repr

/-- Body of the second loop of `_PyJIT_CompileTrace` for the instruction at index `i`.
`jump_target_trace_offsets` gives the `int` found at each index from the start of the
array, also behind its `n_jump_targets` elements. -/
def _PyJIT_CompileTrace.visit (J : JitStencils) (memory : Nat) (size : Nat)
    (jump_target_trace_offsets : Nat → Int) (i : Nat) (instruction : TraceInstruction)
    (s : Stamping) : Stamping :=
  -- For each jump target, create an entry trampoline.
  let s1 : Stamping :=
    if (i : Int) = jump_target_trace_offsets s.seen_jump_targets then
      let trampoline := J.trampoline_stencil
      let patches_entrypoint :=
        set_patch (set_patch J.GET_PATCHES J.HOLE_base s.entry_points) J.HOLE_continue s.head
      { s with
        seen_jump_targets := s.seen_jump_targets + 1
        stamps := s.stamps ++ [copy_and_patch s.entry_points trampoline patches_entrypoint]
        entry_points := s.entry_points + trampoline.nbytes
        reads := s.reads ++ [s.seen_jump_targets] }
    else { s with reads := s.reads ++ [s.seen_jump_targets] }
  let stencil := J.stencils instruction.code
  let patches :=
    set_patch
      (set_patch
        (set_patch (set_patch J.GET_PATCHES J.HOLE_base s1.head) J.HOLE_continue
          (if i + 1 ≠ size then s1.head + stencil.nbytes
            else memory + J.trampoline_stencil.nbytes))
        J.HOLE_next_instr instruction.address)
      J.HOLE_oparg_plus_one (instruction.arg + 1)
  { s1 with
    stamps := s1.stamps ++ [copy_and_patch s1.head stencil patches]
    head := s1.head + stencil.nbytes }

/-- The second loop of `_PyJIT_CompileTrace` over the rest of the trace, from index `i`
on. -/
def _PyJIT_CompileTrace.stamp (J : JitStencils) (memory : Nat) (size : Nat)
    (jump_target_trace_offsets : Nat → Int) :
    List TraceInstruction → Nat → Stamping → Stamping
  | [], _, s => s
  | instruction :: rest, i, s =>
    _PyJIT_CompileTrace.stamp J memory size jump_target_trace_offsets rest (i + 1)
      (_PyJIT_CompileTrace.visit J memory size jump_target_trace_offsets i instruction s)

/-- What `_PyJIT_CompileTrace` leaves behind: the returned entry point (`none` for
`NULL`), the memory, and the local variables `memory`, `nbytes` and those of the second
loop at the end (all 0 when the function returns before they are set). -/
structure Compiled where
  result : Option Nat
  st : JitState
  memory : Nat
  nbytes : Nat
  first_entry_point : Nat
  stamping : Stamping
  deriving DecidableEq, Repr

/-- The statements of `_PyJIT_CompileTrace` at its start that load the stencils once:
`preload_ok` says whether every `preload_stencil` succeeds.  Returns the new value of
`stencils_loaded`. -/
def _PyJIT_CompileTrace.preload (stencils_loaded : Int) (preload_ok : Bool) : Int :=
  if stencils_loaded = 0 then (if preload_ok then 1 else -1) else stencils_loaded

/-- Compiles a trace.  `size` is the length of `trace`; `mmap_body` and
`mmap_entry_points` are the results of the two calls of `MMAP`; `n` is `n_jump_targets`
converted to `size_t`.  The result of the second `alloc` is not tested: its stamps are
recorded like the others. -/
def _PyJIT_CompileTrace (Py_DEBUG : Bool) (J : JitStencils) (st : JitState)
    (preload_ok : Bool) (mmap_body mmap_entry_points : Option Nat)
    (trace : List TraceInstruction) (jump_target_trace_offsets : Nat → Int)
    (n_jump_targets : Int) : Exec Compiled :=
  let size := trace.length
  let none_yet : Stamping :=
    { head := 0, entry_points := 0, seen_jump_targets := 0, stamps := [], reads := [] }
  c_assert Py_DEBUG (decide (size > 0)) >>= fun _ =>
  c_assert Py_DEBUG (decide (n_jump_targets > 0)) >>= fun _ =>
  let st1 := { st with
    stencils_loaded := _PyJIT_CompileTrace.preload st.stencils_loaded preload_ok }
  if st1.stencils_loaded < 0 then
    .ok { result := none, st := st1, memory := 0, nbytes := 0, first_entry_point := 0,
          stamping := none_yet }
  else
    -- First, loop over everything once to find the total compiled size:
    match _PyJIT_CompileTrace.total J trace 0 with
    | none =>
      .ok { result := none, st := st1, memory := 0, nbytes := 0, first_entry_point := 0,
            stamping := none_yet }
    | some nbytes =>
      alloc Py_DEBUG st1 mmap_body nbytes >>= fun a1 =>
      let memory := a1.2
      if memory = 0 then
        .ok { result := none, st := a1.1, memory := 0, nbytes := nbytes,
              first_entry_point := 0, stamping := none_yet }
      else
        -- Allocate all the entry point (trampoline) stencils,
        let n := (n_jump_targets % 18446744073709551616).toNat
        alloc Py_DEBUG a1.1 mmap_entry_points (to_size_t (J.trampoline_stencil.nbytes * n))
          >>= fun a2 =>
        let first_entry_point := a2.2
        let s := _PyJIT_CompileTrace.stamp J memory size jump_target_trace_offsets trace 0
          { head := memory, entry_points := first_entry_point, seen_jump_targets := 0,
            stamps := [], reads := [] }
        -- Wow, done already?
        c_assert Py_DEBUG (decide (memory + nbytes = s.head)) >>= fun _ =>
        c_assert Py_DEBUG (decide ((s.seen_jump_targets : Int) = n_jump_targets))
          >>= fun _ =>
        c_assert Py_DEBUG (decide
          (first_entry_point + to_size_t (J.trampoline_stencil.nbytes * n)
            = s.entry_points)) >>= fun _ =>
        c_assert Py_DEBUG (decide (first_entry_point ≠ 0)) >>= fun _ =>
        .ok { result := if first_entry_point = 0 then none else some first_entry_point
              st := { a2.1 with stamps := a2.1.stamps ++ s.stamps }
              memory := memory
              nbytes := nbytes
              first_entry_point := first_entry_point
              stamping := s }

/-- Example stencils: the opcode 1 has a stencil of 16 bytes with a hole for each patch,
the opcode 2 one of 24 bytes, every other opcode none; the trampoline has 32 bytes. -/
def ex_stencils : JitStencils :=
  { stencils := fun op =>
      if op = 1 then
        { nbytes := 16, bytes := List.replicate 16 144,
          holes := [⟨0, 0, 0, 0⟩, ⟨8, 4, 1, 1⟩] }
      else if op = 2 then
        { nbytes := 24, bytes := List.replicate 24 144,
          holes := [⟨0, 0, 2, 0⟩, ⟨8, 0, 3, 0⟩] }
      else { nbytes := 0, bytes := [], holes := [] }
    trampoline_stencil :=
      { nbytes := 32, bytes := List.replicate 32 144, holes := [⟨0, 0, 0, 0⟩, ⟨8, 0, 1, 0⟩] }
    GET_PATCHES := fun _ => 0
    HOLE_base := 0
    HOLE_continue := 1
    HOLE_next_instr := 2
    HOLE_oparg_plus_one := 3 }

/-- A memory without mapped regions, before the stencils are loaded. -/
def ex_jit_state : JitState := { mapped := [], headers := [], stamps := [], stencils_loaded := 0 }

/-- A trace of two instructions with the opcodes 1 and 2. -/
def ex_trace : List TraceInstruction := [⟨4000, 1, 0⟩, ⟨4002, 2, 5⟩]

/-- The offsets array `[0]` of one jump target; the `int` behind it is `-1`. -/
def ex_offsets : Nat → Int := fun k => if k = 0 then 0 else -1

/-- The result of compiling `ex_trace` with the jump target 0 when the two mappings are at
65536 and 131072. -/
def ex_compiled : Compiled :=
  match _PyJIT_CompileTrace true ex_stencils ex_jit_state true (some 65536) (some 131072)
      ex_trace ex_offsets 1 with
  | .ok r => r
  | .error _ =>
    { result := none, st := ex_jit_state, memory := 0, nbytes := 0, first_entry_point := 0,
      stamping :=
        { head := 0, entry_points := 0, seen_jump_targets := 0, stamps := [], reads := [] } }

/-- The array `patches` of `_PyJIT_CompileTrace` at the call
`copy_and_patch(head, stencil, patches)` for the instruction at index `i`: the four
assignments in front of the call, in their order, on `GET_PATCHES()`. -/
def _PyJIT_CompileTrace.patches (J : JitStencils) (memory : Nat) (size : Nat) (i : Nat)
    (instruction : TraceInstruction) (head : Nat) : Nat → Nat :=
  let stencil := J.stencils instruction.code
  set_patch
    (set_patch
      (set_patch (set_patch J.GET_PATCHES J.HOLE_base head) J.HOLE_continue
        (if i + 1 ≠ size then head + stencil.nbytes
          else memory + J.trampoline_stencil.nbytes))
      J.HOLE_next_instr instruction.address)
    J.HOLE_oparg_plus_one (instruction.arg + 1)

/-- A trace of two instructions whose last one has a stencil with a hole for
`HOLE_continue`. -/
def ex_trace_continue : List TraceInstruction := [⟨4000, 2, 5⟩, ⟨4002, 1, 0⟩]

/-- The result of compiling `ex_trace_continue` with the jump target 0 when the two
mappings are at 65536 and 131072. -/
def ex_compiled_continue : Compiled :=
  match _PyJIT_CompileTrace true ex_stencils ex_jit_state true (some 65536) (some 131072)
      ex_trace_continue ex_offsets 1 with
  | .ok r => r
  | .error _ =>
    { result := none, st := ex_jit_state, memory := 0, nbytes := 0, first_entry_point := 0,
      stamping :=
        { head := 0, entry_points := 0, seen_jump_targets := 0, stamps := [], reads := [] } }

/-- The call `MUNMAP(memory, nbytes)`: the mapped regions that lie in the range
`[memory, memory + nbytes)` are unmapped.  (A region that the range covers only in part
would be cut; this does not occur for a range that is read from a header of `alloc`.) -/
def MUNMAP (mapped : List (Nat × Nat)) (memory nbytes : Nat) : List (Nat × Nat) :=
  mapped.filter fun region =>
    !(decide (memory ≤ region.1) && decide (region.1 + region.2 ≤ memory + nbytes))

/-- The read `*(size_t *)memory` of a header: a fault where the `size_t` is not mapped,
otherwise the size that `alloc` has stored there last. -/
def read_header (st : JitState) (memory : Nat) : Exec Nat :=
  if st.mapped.any fun region =>
      decide (region.1 ≤ memory) && decide (memory + sizeof_size_t ≤ region.1 + region.2)
  then
    match st.headers.lookup memory with
    | some nbytes => .ok nbytes
    | none => .error .bad_access
  else .error .bad_access

/-- Unmaps the region whose header lies in front of `trace`. -/
def _PyJIT_Free (st : JitState) (trace : Nat) : Exec JitState :=
  if trace < sizeof_size_t then .error .bad_access
  else
    let memory := trace - sizeof_size_t
    read_header st memory >>= fun nbytes =>
    .ok { st with mapped := MUNMAP st.mapped memory nbytes }

/-- The root that the stack slot at depth `i` below the stack pointer resolves to. -/
def slot_root (m : Mem) (fuel : Nat) (c : _PyTier2TypeContext) (i : Nat) : Exec Nat :=
  load m (c.type_stack_ptr - 8 * (i + 1)) >>= typenode_get_root m fuel

/-- Whether the stack slot at depth `i` resolves to a root of raw (unboxed) float type. -/
def is_raw_float (T : TypeObjects) (m : Mem) (fuel : Nat) (c : _PyTier2TypeContext)
    (i : Nat) : Bool :=
  decide ((slot_root m fuel c i).map _Py_TYPENODE_CLEAR_TAG = .ok T.PyRawFloat_Type)

/-- A context with one local and three live stack slots. -/
def rebox_ctx : _PyTier2TypeContext :=
  { type_locals := 64, type_locals_len := 1, type_stack := 128, type_stack_len := 3,
    type_stack_ptr := 152 }

/-- Heap for `rebox_ctx`: the slot at depth 2 is a root of raw float type, the slot at
depth 1 a reference to it, the top slot a root of int type. -/
def rebox_mem : Mem := heap_of 64 [1] 128 [1041, 130, 1057]

/-- A context like `rebox_ctx` with three locals, so that it has as many locals as stack
slots. -/
def rebox_room_ctx : _PyTier2TypeContext :=
  { type_locals := 64, type_locals_len := 3, type_stack := 128, type_stack_len := 3,
    type_stack_ptr := 152 }

/-- Heap for `rebox_room_ctx`: the locals are unknown, the stack is that of `rebox_mem`. -/
def rebox_room_mem : Mem := heap_of 64 [1, 1, 1] 128 [1041, 130, 1057]

/-- The emitter at the start of an empty buffer, for the context `rebox_ctx`. -/
def rebox_emitter : Emitter :=
  { code := ex_code, write_curr := 0, m := rebox_mem, type_context := rebox_ctx }

/-- The emitter at the start of an empty buffer, for the context `rebox_room_ctx`. -/
def rebox_room_emitter : Emitter :=
  { code := ex_code, write_curr := 0, m := rebox_room_mem, type_context := rebox_room_ctx }

/-- The call `_PyTier2Info_Initialize(co)` with its effect on the code object: the
assertion `co->_tier2_info == NULL` at its start and the assignment
`co->_tier2_info = t2_info` at its end. -/
def _PyTier2Info_Initialize.attach (Py_DEBUG : Bool) (co : PyCodeObject)
    (t2_info_ok bb_data_ok : Bool) : Exec (Option _PyTier2Info × PyCodeObject) :=
  c_assert Py_DEBUG co._tier2_info.isNone >>= fun _ =>
  _PyTier2Info_Initialize Py_DEBUG co.size t2_info_ok bb_data_ok >>= fun t2_info =>
  match t2_info with
  | none => .ok (none, co)
  | some t => .ok (some t, { co with _tier2_info := some t })

/-- What the part of `_PyCode_Tier2Initialize` from the call of `_PyTier2Info_Initialize`
on leaves behind: the returned pointer (`none` for `NULL`), the code object, and whether
the `_PyTier2Info` that `co->_tier2_info` points to has been passed to `PyMem_Free`. -/
structure Initialized where
  next : Option Nat
  co : PyCodeObject
  t2_info_freed : Bool

/-- The label `cleanup` of `_PyCode_Tier2Initialize`:
`PyMem_Free(t2_info); PyMem_Free(bb_space); return NULL;`. -/
def _PyCode_Tier2Initialize.cleanup (co : PyCodeObject) : Initialized :=
  { next := none, co := co, t2_info_freed := true }

/-- The part of `_PyCode_Tier2Initialize` from the call of `_PyTier2Info_Initialize` on.
`t2_info_ok`, `bb_data_ok`, `bb_space_ok` and `type_context_ok` say whether the
allocations of `_PyTier2Info_Initialize`, `_PyTier2_CreateBBSpace` and
`initialize_type_context` succeed, `offsets_ok`, `pairs_ok` and `rows_ok` those of
`_PyCode_Tier2FillJumpTargets`; `entry` is `meta->tier2_start` of the entry basic block
that `_PyTier2_Code_DetectAndEmitBB` returns (`none` when it returns `NULL`). -/
def _PyCode_Tier2Initialize.later (Py_DEBUG : Bool) (Tb : OpcodeTables)
    (t2_info_ok bb_data_ok bb_space_ok offsets_ok pairs_ok rows_ok type_context_ok : Bool)
    (entry : Option Nat) (co : PyCodeObject) : Exec Initialized :=
  _PyTier2Info_Initialize.attach Py_DEBUG co t2_info_ok bb_data_ok >>= fun r =>
  match r.1 with
  | none => .ok { next := none, co := r.2, t2_info_freed := false }
  | some _ =>
    if !bb_space_ok then
      -- PyMem_Free(t2_info); return NULL;
      .ok { next := none, co := r.2, t2_info_freed := true }
    else
      _PyCode_Tier2FillJumpTargets Py_DEBUG Tb r.2.co_code r.2.size unfilled offsets_ok
        pairs_ok rows_ok >>= fun filled =>
      if filled.ret ≠ 0 then .ok (_PyCode_Tier2Initialize.cleanup r.2)
      else if !type_context_ok then .ok (_PyCode_Tier2Initialize.cleanup r.2)
      else
        match entry with
        | none => .ok (_PyCode_Tier2Initialize.cleanup r.2)
        | some tier2_start =>
          .ok { next := some tier2_start, co := r.2, t2_info_freed := false }

/-- Code of a function whose `BINARY_OP +` has been specialised: `RESUME`, the
specialised instruction with its cache entry, `RETURN_VALUE`. -/
def hot_code : Code := fun a =>
  if a = 0 then .op .RESUME 0
  else if a = 1 then .op .BINARY_OP_ADD_INT_REST 0
  else if a = 2 then .cache 0
  else .op .RETURN_VALUE 0

/-- The code object of `hot_code`, one call before it is deemed hot. -/
def hot_co : PyCodeObject :=
  { co_code := hot_code, size := 4, _tier2_warmup := -1, _tier2_info := none }

/-- The root of the tree of the node at `p` is itself a local or a live stack slot of
`c`. -/
def LiveRoot (m : Mem) (fuel : Nat) (c : _PyTier2TypeContext) (p : Nat) : Prop :=
  match load m p >>= rootref_of m fuel p with
  | .ok r => LivePair c c r r
  | .error _ => False

instance (m : Mem) (fuel : Nat) (c : _PyTier2TypeContext) (p : Nat) :
    Decidable (LiveRoot m fuel c p) := by
  unfold LiveRoot; split <;> infer_instance

/-- Every local and every live stack slot of `c` has the root of its tree among the locals
and the live stack slots. -/
def LiveRoots (m : Mem) (fuel : Nat) (c : _PyTier2TypeContext) : Prop :=
  (∀ i, i < c.type_locals_len → LiveRoot m fuel c (c.type_locals + 8 * i))
    ∧ (∀ i, i < (stack_elems c).toNat → LiveRoot m fuel c (c.type_stack + 8 * i))

instance (m : Mem) (fuel : Nat) (c : _PyTier2TypeContext) :
    Decidable (LiveRoots m fuel c) := by
  unfold LiveRoots; infer_instance

/-- A context with one local and one live stack slot out of three. -/
def dead_ctx1 : _PyTier2TypeContext :=
  { type_locals := 64, type_locals_len := 1, type_stack := 128, type_stack_len := 3,
    type_stack_ptr := 136 }

/-- A second context of the same dimensions and stack height. -/
def dead_ctx2 : _PyTier2TypeContext :=
  { type_locals := 256, type_locals_len := 1, type_stack := 512, type_stack_len := 3,
    type_stack_ptr := 520 }

/-- Heap for `dead_ctx1` and `dead_ctx2`.  In `dead_ctx1` the live stack slot is a
reference to the slot `stack[2]` above the stack pointer (as left by a pop); in
`dead_ctx2` every node is a root. -/
def dead_mem : Mem := heap_join (heap_of 64 [1] 128 [146, 1, 1]) (heap_of 256 [1] 512 [1, 1, 1])

/-! ## Basic facts -/

section basics

@[simp] theorem ok_bind {α β : Type} (a : α) (f : α → Exec β) :
    (Except.ok a >>= f) = f a := rfl

@[simp] theorem error_bind {α β : Type} (e : Fault) (f : α → Exec β) :
    ((Except.error e : Exec α) >>= f) = Except.error e := rfl

@[simp] theorem pure_eq_ok {α : Type} (a : α) : (pure a : Exec α) = Except.ok a := rfl

theorem load_eq {m : Mem} {p v : Nat} (h : m p = some v) : load m p = .ok v := by
  simp [load, h]

theorem load_ok_iff {m : Mem} {p v : Nat} : load m p = .ok v ↔ m p = some v := by
  unfold load
  cases h : m p <;> simp

theorem store_eq {m : Mem} {p w : Nat} (v : Nat) (h : m p = some w) :
    store m p v = .ok (fun a => if a = p then some v else m a) := by
  simp [store, h]

theorem c_assert_true (d : Bool) : c_assert d true = .ok () := by
  cases d <;> rfl

theorem c_assert_release (b : Bool) : c_assert false b = .ok () := rfl

theorem tag_lt (v : Nat) : _Py_TYPENODE_GET_TAG v < 4 := Nat.mod_lt _ (by decide)

theorem is_root_iff (v : Nat) :
    _Py_TYPENODE_IS_ROOT v ≠ 0 ↔
      (_Py_TYPENODE_GET_TAG v = TYPE_ROOT_POSITIVE ∨ _Py_TYPENODE_GET_TAG v = TYPE_ROOT_NEGATIVE) := by
  unfold _Py_TYPENODE_IS_ROOT _Py_TYPENODE_GET_TAG TYPE_ROOT_POSITIVE TYPE_ROOT_NEGATIVE
  omega

theorem not_root_iff (v : Nat) :
    _Py_TYPENODE_IS_ROOT v = 0 ↔
      (_Py_TYPENODE_GET_TAG v = TYPE_REF ∨ _Py_TYPENODE_GET_TAG v = TYPE_NULL) := by
  unfold _Py_TYPENODE_IS_ROOT _Py_TYPENODE_GET_TAG TYPE_REF TYPE_NULL
  omega

theorem clear_tag_make_ref {p : Nat} (h : p % 4 = 0) :
    _Py_TYPENODE_CLEAR_TAG (_Py_TYPENODE_MAKE_REF p) = p := by
  unfold _Py_TYPENODE_CLEAR_TAG _Py_TYPENODE_MAKE_REF _Py_TYPENODE_CLEAR_TAG TYPE_REF
  omega

theorem tag_make_ref (p : Nat) : _Py_TYPENODE_GET_TAG (_Py_TYPENODE_MAKE_REF p) = TYPE_REF := by
  unfold _Py_TYPENODE_GET_TAG _Py_TYPENODE_MAKE_REF _Py_TYPENODE_CLEAR_TAG TYPE_REF
  omega

theorem is_root_make_ref (p : Nat) : _Py_TYPENODE_IS_ROOT (_Py_TYPENODE_MAKE_REF p) = 0 := by
  unfold _Py_TYPENODE_IS_ROOT _Py_TYPENODE_MAKE_REF _Py_TYPENODE_CLEAR_TAG TYPE_REF
  omega

theorem make_ref_clear_tag {v : Nat} (h : _Py_TYPENODE_GET_TAG v = TYPE_REF) :
    _Py_TYPENODE_MAKE_REF (_Py_TYPENODE_CLEAR_TAG v) = v := by
  unfold _Py_TYPENODE_GET_TAG TYPE_REF at h
  unfold _Py_TYPENODE_MAKE_REF _Py_TYPENODE_CLEAR_TAG TYPE_REF
  omega

theorem make_ref_inj {p q : Nat} (hp : p % 4 = 0) (hq : q % 4 = 0)
    (h : _Py_TYPENODE_MAKE_REF p = _Py_TYPENODE_MAKE_REF q) : p = q := by
  have := congrArg _Py_TYPENODE_CLEAR_TAG h
  rwa [clear_tag_make_ref hp, clear_tag_make_ref hq] at this

theorem to_int_of_range {x : Int} (h1 : -2147483648 ≤ x) (h2 : x < 2147483648) :
    to_int x = x := by
  unfold to_int
  omega

theorem ptr_diff_index (b i : Nat) : ptr_diff (b + 8 * i) b = (i : Int) := by
  unfold ptr_diff
  push_cast
  omega

theorem ptr_index_nat {b i : Nat} (h : b + 8 * i < 18446744073709551616) :
    ptr_index b (i : Int) = b + 8 * i := by
  unfold ptr_index
  omega

end basics

/-! ## Root chains -/

section chains

theorem get_rootptr_succ (m : Mem) (fuel ref : Nat) :
    __typenode_get_rootptr m (fuel + 1) ref =
      (load m (_Py_TYPENODE_CLEAR_TAG ref) >>= fun ref1 =>
        if _Py_TYPENODE_IS_ROOT ref1 ≠ 0 then pure (_Py_TYPENODE_CLEAR_TAG ref)
        else __typenode_get_rootptr m fuel ref1) := rfl

theorem rootAt_of_get_rootptr {m : Mem} :
    ∀ (fuel ref r : Nat), __typenode_get_rootptr m fuel ref = .ok r →
      ∃ d, d < fuel ∧ RootAt m (_Py_TYPENODE_CLEAR_TAG ref) r d := by
  intro fuel
  induction fuel with
  | zero => intro ref r h; simp [__typenode_get_rootptr] at h
  | succ n ih =>
    intro ref r h
    rw [get_rootptr_succ] at h
    cases hv : m (_Py_TYPENODE_CLEAR_TAG ref) with
    | none => simp [load, hv] at h
    | some v =>
      rw [load_eq hv] at h
      simp only [ok_bind] at h
      by_cases hr : _Py_TYPENODE_IS_ROOT v ≠ 0
      · rw [if_pos hr] at h
        simp only [pure_eq_ok, Except.ok.injEq] at h
        subst h
        exact ⟨0, Nat.succ_pos _, RootAt.root _ v hv hr⟩
      · rw [if_neg hr] at h
        obtain ⟨d, hd, hroot⟩ := ih v r h
        exact ⟨d + 1, Nat.succ_lt_succ hd, RootAt.step _ v r d hv (by simpa using hr) hroot⟩

theorem get_rootptr_of_rootAt {m : Mem} {p r d : Nat} (h : RootAt m p r d) :
    ∀ (fuel ref : Nat), _Py_TYPENODE_CLEAR_TAG ref = p → d < fuel →
      __typenode_get_rootptr m fuel ref = .ok r := by
  induction h with
  | root p v hv hr =>
    intro fuel ref href hd
    obtain ⟨n, rfl⟩ : ∃ n, fuel = n + 1 := ⟨fuel - 1, by omega⟩
    rw [get_rootptr_succ, href, load_eq hv]
    simp [hr]
  | step p v r d hv hr _ ih =>
    intro fuel ref href hd
    obtain ⟨n, rfl⟩ : ∃ n, fuel = n + 1 := ⟨fuel - 1, by omega⟩
    rw [get_rootptr_succ, href, load_eq hv]
    simp only [ok_bind, hr, ne_eq, not_true_eq_false, if_false]
    exact ih n v rfl (by omega)

theorem RootAt.unique {m : Mem} {p r d : Nat} (h : RootAt m p r d) :
    ∀ {r' d' : Nat}, RootAt m p r' d' → r = r' ∧ d = d' := by
  induction h with
  | root p v hv hr =>
    intro r' d' h'
    cases h' with
    | root _ v' hv' hr' => exact ⟨rfl, rfl⟩
    | step _ v' _ _ hv' hr' _ =>
      rw [hv] at hv'; cases hv'; exact absurd hr' hr
  | step p v r d hv hr _ ih =>
    intro r' d' h'
    cases h' with
    | root _ v' hv' hr' =>
      rw [hv] at hv'; cases hv'; exact absurd hr hr'
    | step _ v' _ d2 hv' hr' h2 =>
      rw [hv] at hv'; cases hv'
      obtain ⟨h1, h2⟩ := ih h2
      exact ⟨h1, by omega⟩

theorem RootAt.root_is_root {m : Mem} {p r d : Nat} (h : RootAt m p r d) :
    ∃ v, m r = some v ∧ _Py_TYPENODE_IS_ROOT v ≠ 0 := by
  induction h with
  | root p v hv hr => exact ⟨v, hv, hr⟩
  | step _ _ _ _ _ _ _ ih => exact ih

theorem RootAt.root_self {m : Mem} {p r d : Nat} (h : RootAt m p r d) : RootAt m r r 0 := by
  obtain ⟨v, hv, hr⟩ := h.root_is_root
  exact RootAt.root r v hv hr

theorem get_rootptr_mono {m : Mem} {fuel fuel' ref r : Nat}
    (h : __typenode_get_rootptr m fuel ref = .ok r) (hle : fuel ≤ fuel') :
    __typenode_get_rootptr m fuel' ref = .ok r := by
  obtain ⟨d, hd, hroot⟩ := rootAt_of_get_rootptr fuel ref r h
  exact get_rootptr_of_rootAt hroot fuel' ref rfl (by omega)

end chains

/-! ## Nodes of a well-formed context -/

section contexts

theorem InCtx.locals {c : _PyTier2TypeContext} {i : Nat} (h : i < c.type_locals_len) :
    InCtx c (c.type_locals + 8 * i) := Or.inl ⟨i, h, rfl⟩

theorem InCtx.stack {c : _PyTier2TypeContext} {i : Nat} (h : i < c.type_stack_len) :
    InCtx c (c.type_stack + 8 * i) := Or.inr ⟨i, h, rfl⟩

theorem InCtx.aligned {c : _PyTier2TypeContext} {p : Nat} (hl : Layout c) (h : InCtx c p) :
    p % 8 = 0 := by
  obtain ⟨⟨_, _, h1, h2, _⟩, _⟩ := hl
  rcases h with ⟨i, _, rfl⟩ | ⟨i, _, rfl⟩ <;> omega

theorem InCtx.aligned4 {c : _PyTier2TypeContext} {p : Nat} (hl : Layout c) (h : InCtx c p) :
    p % 4 = 0 := by
  have := h.aligned hl
  omega

theorem InCtx.pos {c : _PyTier2TypeContext} {p : Nat} (hl : Layout c) (h : InCtx c p) :
    0 < p := by
  obtain ⟨⟨h1, h2, _⟩, _⟩ := hl
  rcases h with ⟨i, _, rfl⟩ | ⟨i, _, rfl⟩ <;> omega

theorem Closed.nodeOk {m : Mem} {c : _PyTier2TypeContext} {p : Nat}
    (hc : Closed m c) (h : InCtx c p) : NodeOk m c p := by
  rcases h with ⟨i, hi, rfl⟩ | ⟨i, hi, rfl⟩
  · exact hc.2.1 i hi
  · exact hc.2.2 i hi

theorem Closed.get {m : Mem} {c : _PyTier2TypeContext} {p : Nat}
    (hc : Closed m c) (h : InCtx c p) :
    ∃ v, m p = some v ∧ _Py_TYPENODE_GET_TAG v ≠ TYPE_NULL
      ∧ (_Py_TYPENODE_GET_TAG v = TYPE_REF → InCtx c (_Py_TYPENODE_CLEAR_TAG v)) := by
  have hn := hc.nodeOk h
  unfold NodeOk at hn
  cases hv : m p with
  | none => rw [hv] at hn; exact hn.elim
  | some v => rw [hv] at hn; exact ⟨v, rfl, hn⟩

theorem Closed.rootAt_inCtx {m : Mem} {c : _PyTier2TypeContext} (hc : Closed m c)
    {p r d : Nat} (h : RootAt m p r d) : InCtx c p → InCtx c r := by
  induction h with
  | root p v hv hr => exact id
  | step p v r d hv hr _ ih =>
    intro hp
    obtain ⟨v', hv', htag, href⟩ := hc.get hp
    rw [hv] at hv'; cases hv'
    apply ih
    apply href
    rcases (not_root_iff v).1 hr with h | h
    · exact h
    · exact absurd h htag

theorem Acyclic.rooted {m : Mem} {c : _PyTier2TypeContext} {p : Nat}
    (ha : Acyclic m c) (h : InCtx c p) : Rooted m c p := by
  rcases h with ⟨i, hi, rfl⟩ | ⟨i, hi, rfl⟩
  · exact ha.1 i hi
  · exact ha.2 i hi

/-- In a well-formed context every node has a root, which is a node of the context. -/
theorem WellFormed.rootAt {m : Mem} {c : _PyTier2TypeContext} {p : Nat}
    (hw : WellFormed m c) (h : InCtx c p) :
    ∃ r d, RootAt m p r d ∧ d < c.type_locals_len + c.type_stack_len ∧ InCtx c r := by
  obtain ⟨r, hr⟩ := hw.2.rooted h
  obtain ⟨d, hd, hroot⟩ := rootAt_of_get_rootptr _ _ _ hr
  rw [clear_tag_make_ref (h.aligned4 hw.1.1)] at hroot
  exact ⟨r, d, hroot, hd, hw.1.rootAt_inCtx hroot h⟩

theorem rootref_of_eq {m : Mem} {p v r d fuel : Nat} (hv : m p = some v)
    (htag : _Py_TYPENODE_GET_TAG v ≠ TYPE_NULL) (h : RootAt m p r d) (hd : d ≤ fuel) :
    rootref_of m fuel p v = .ok r := by
  unfold rootref_of
  cases h with
  | root _ v' hv' hr =>
    rw [hv] at hv'; cases hv'
    have h1 := (is_root_iff v).1 hr
    have h2 : _Py_TYPENODE_GET_TAG v ≠ TYPE_REF := by
      unfold TYPE_REF; unfold TYPE_ROOT_POSITIVE TYPE_ROOT_NEGATIVE at h1; omega
    simp [h2, h1]
  | step _ v' _ d' hv' hr h' =>
    rw [hv] at hv'; cases hv'
    have h1 : _Py_TYPENODE_GET_TAG v = TYPE_REF := by
      rcases (not_root_iff v).1 hr with h | h
      · exact h
      · exact absurd h htag
    simp only [h1, if_true]
    exact get_rootptr_of_rootAt h' fuel v rfl (by omega)

theorem typenode_get_root_eq {m : Mem} {p v r d rv fuel : Nat} (hv : m p = some v)
    (htag : _Py_TYPENODE_GET_TAG v ≠ TYPE_NULL) (h : RootAt m p r d) (hd : d ≤ fuel)
    (hrv : m r = some rv) : typenode_get_root m fuel v = .ok rv := by
  unfold typenode_get_root
  cases h with
  | root _ v' hv' hr =>
    rw [hv] at hv'; cases hv'
    rw [hv] at hrv; cases hrv
    have h1 := (is_root_iff v).1 hr
    simp [h1]
  | step _ v' _ d' hv' hr h' =>
    rw [hv] at hv'; cases hv'
    have h1 : _Py_TYPENODE_GET_TAG v = TYPE_REF := by
      rcases (not_root_iff v).1 hr with h | h
      · exact h
      · exact absurd h htag
    have h2 : ¬ (TYPE_REF = TYPE_ROOT_POSITIVE ∨ TYPE_REF = TYPE_ROOT_NEGATIVE) := by decide
    simp only [h1, h2, if_false, if_true]
    rw [get_rootptr_of_rootAt h' fuel v rfl (by omega)]
    simp [load_eq hrv]

theorem same_tree_eq {m : Mem} {c : _PyTier2TypeContext} (hc : Closed m c)
    {x y rx ry dx dy fuel : Nat} (hx : InCtx c x) (hy : InCtx c y)
    (hrx : RootAt m x rx dx) (hry : RootAt m y ry dy) (hdx : dx ≤ fuel) (hdy : dy ≤ fuel) :
    typenode_is_same_tree m fuel x y = .ok (decide (rx = ry)) := by
  obtain ⟨vx, hvx, htx, _⟩ := hc.get hx
  obtain ⟨vy, hvy, hty, _⟩ := hc.get hy
  unfold typenode_is_same_tree
  rw [load_eq hvx, load_eq hvy]
  simp only [ok_bind]
  rw [rootref_of_eq hvy hty hry hdy, rootref_of_eq hvx htx hrx hdx]
  rfl

theorem arrays_local_offset {l L s S i : Nat} (h : Arrays l L s S) (hi : i < L) :
    to_int (ptr_diff (l + 8 * i) l) = (i : Int) := by
  obtain ⟨_, _, _, _, hd, _, _, h1, h2⟩ := h
  rw [ptr_diff_index]
  apply to_int_of_range <;> omega

theorem arrays_stack_offset {l L s S j : Nat} (h : Arrays l L s S) (hj : j < S) :
    to_int (ptr_diff (s + 8 * j) s) = (j : Int) := by
  obtain ⟨_, _, _, _, hd, _, _, h1, h2⟩ := h
  rw [ptr_diff_index]
  apply to_int_of_range <;> omega

theorem arrays_stack_not_local {l L s S j : Nat} (h : Arrays l L s S) (hj : j < S) :
    ¬ (0 ≤ to_int (ptr_diff (s + 8 * j) l) ∧ to_int (ptr_diff (s + 8 * j) l) < (L : Int)) := by
  obtain ⟨_, _, hl, hs, hd, _, _, h1, h2⟩ := h
  have : to_int (ptr_diff (s + 8 * j) l) = ptr_diff (s + 8 * j) l := by
    apply to_int_of_range <;> unfold ptr_diff <;> omega
  rw [this]
  unfold ptr_diff
  omega

theorem get_location_locals {c : _PyTier2TypeContext} (hl : Layout c) {i : Nat}
    (hi : i < c.type_locals_len) :
    typenode_get_location c (c.type_locals + 8 * i) = .ok ((i : Int), true) := by
  unfold typenode_get_location
  simp only [arrays_local_offset hl.1 hi]
  have : (i : Int) ≥ 0 ∧ (i : Int) < (c.type_locals_len : Int) := by omega
  simp [this]

theorem get_location_stack {c : _PyTier2TypeContext} (hl : Layout c) {j : Nat}
    (hj : j < c.type_stack_len) :
    typenode_get_location c (c.type_stack + 8 * j) = .ok ((j : Int), false) := by
  unfold typenode_get_location
  have h1 := arrays_stack_not_local hl.1 hj
  have h2 : ¬ (to_int (ptr_diff (c.type_stack + 8 * j) c.type_locals) ≥ 0 ∧
      to_int (ptr_diff (c.type_stack + 8 * j) c.type_locals) < (c.type_locals_len : Int)) := by
    intro h; exact h1 ⟨h.1, h.2⟩
  simp only [h2, if_false, arrays_stack_offset hl.1 hj]
  have : 0 < c.type_stack_len := by omega
  simp [this]

end contexts

theorem layout_stack_elems {c : _PyTier2TypeContext} (hl : Layout c) :
    ∃ k, k ≤ c.type_stack_len ∧ c.type_stack_ptr = c.type_stack + 8 * k
      ∧ stack_elems c = (k : Int) := by
  obtain ⟨⟨_, _, _, hs, hd, _, _, h1, h2⟩, h3, h4, h5⟩ := hl
  refine ⟨(c.type_stack_ptr - c.type_stack) / 8, by omega, by omega, ?_⟩
  unfold stack_elems
  have : c.type_stack_ptr = c.type_stack + 8 * ((c.type_stack_ptr - c.type_stack) / 8) := by
    omega
  rw [this, ptr_diff_index]
  rw [← this]
  apply to_int_of_range <;> omega

theorem same_tree_self {m : Mem} {c : _PyTier2TypeContext} (hw : WellFormed m c)
    {x fuel : Nat} (hx : InCtx c x) (hf : c.type_locals_len + c.type_stack_len ≤ fuel) :
    typenode_is_same_tree m fuel x x = .ok true := by
  obtain ⟨r, d, hr, hd, _⟩ := hw.rootAt hx
  rw [same_tree_eq hw.1 hx hx hr hr (by omega) (by omega)]
  simp

theorem typenode_is_compatible_self {m : Mem} {c : _PyTier2TypeContext}
    (hw : WellFormed m c) {p fuel : Nat} (hp : InCtx c p)
    (hf : c.type_locals_len + c.type_stack_len ≤ fuel) :
    typenode_is_compatible m fuel c c p p = .ok true := by
  obtain ⟨r, d, hr, hd, hrin⟩ := hw.rootAt hp
  obtain ⟨v, hv, htag, _⟩ := hw.1.get hp
  have hl := hw.1.1
  unfold typenode_is_compatible
  rw [load_eq hv]
  simp only [ok_bind]
  rw [rootref_of_eq hv htag hr (by omega)]
  simp only [ok_bind]
  have hself := same_tree_self hw hrin hf
  rcases hrin with ⟨i, hi, rfl⟩ | ⟨j, hj, rfl⟩
  · rw [get_location_locals hl hi]
    simp only [ok_bind, if_true]
    have hb : c.type_locals + 8 * i < 18446744073709551616 := by
      have := hl.1.2.2.2.2.2.1
      omega
    rw [ptr_index_nat hb, hself]
    simp [hself]
  · rw [get_location_stack hl hj]
    have hb : c.type_stack + 8 * j < 18446744073709551616 := by
      have := hl.1.2.2.2.2.2.2.1
      omega
    simp only [ok_bind, Bool.false_eq_true, if_false]
    rw [ptr_index_nat hb, hself]
    simp [hself]

theorem compatible_loop_self {m : Mem} {c : _PyTier2TypeContext}
    (hw : WellFormed m c) {fuel : Nat} (hf : c.type_locals_len + c.type_stack_len ≤ fuel)
    (arr : Nat) :
    ∀ (n i : Nat), (∀ k, i ≤ k → k < i + n → InCtx c (arr + 8 * k)) →
      typecontext_is_compatible.loop m fuel c c arr arr n i = .ok true := by
  intro n
  induction n with
  | zero => intro i _; rfl
  | succ n ih =>
    intro i h
    unfold typecontext_is_compatible.loop
    rw [typenode_is_compatible_self hw (h i (le_refl _) (by omega)) hf]
    simp only [ok_bind, Bool.not_true, Bool.false_eq_true, if_false]
    exact ih (i + 1) (fun k hk1 hk2 => h k (by omega) (by omega))

/-! ## Reflexivity of compatibility, reflexivity and symmetry of `same_tree` -/

/-- C4: `typecontext_is_compatible` is reflexive: for every well-formed (acyclic,
in-bounds) type context `c`, `typecontext_is_compatible(c, c)` returns true. -/
theorem typecontext_is_compatible_refl (Py_DEBUG : Bool) (m : Mem)
    (c : _PyTier2TypeContext) (fuel : Nat) (hw : WellFormed m c)
    (hf : c.type_locals_len + c.type_stack_len ≤ fuel) :
    typecontext_is_compatible Py_DEBUG m fuel c c = .ok true := by
  obtain ⟨k, hk, _, hse⟩ := layout_stack_elems hw.1.1
  unfold typecontext_is_compatible
  simp only [decide_True, c_assert_true, ok_bind]
  rw [compatible_loop_self hw hf c.type_locals c.type_locals_len 0
    (fun i _ hi => InCtx.locals (by omega))]
  simp only [ok_bind, Bool.not_true, Bool.false_eq_true, if_false, hse, Int.toNat_ofNat]
  exact compatible_loop_self hw hf c.type_stack k 0 (fun i _ hi => InCtx.stack (by omega))

theorem typecontext_is_compatible_refl_witness :
    WellFormed ex_mem ex_ctx ∧ typecontext_is_compatible true ex_mem 5 ex_ctx ex_ctx = .ok true :=
  ⟨by decide, typecontext_is_compatible_refl true ex_mem ex_ctx 5 (by decide) (by decide)⟩

/-- C7: `typenode_is_same_tree` is reflexive and symmetric: for all nodes `a`, `b` of
one acyclic type context, `same_tree(a, a)` is true and
`same_tree(a, b) = same_tree(b, a)` (both calls return, with the same value). -/
theorem typenode_is_same_tree_refl_symm (m : Mem) (c : _PyTier2TypeContext)
    (fuel a b : Nat) (hw : WellFormed m c) (ha : InCtx c a) (hb : InCtx c b)
    (hf : c.type_locals_len + c.type_stack_len ≤ fuel) :
    typenode_is_same_tree m fuel a a = .ok true
      ∧ ∃ t : Bool, typenode_is_same_tree m fuel a b = .ok t
          ∧ typenode_is_same_tree m fuel b a = .ok t := by
  refine ⟨same_tree_self hw ha hf, ?_⟩
  obtain ⟨ra, da, hra, hda, _⟩ := hw.rootAt ha
  obtain ⟨rb, db, hrb, hdb, _⟩ := hw.rootAt hb
  refine ⟨decide (ra = rb), same_tree_eq hw.1 ha hb hra hrb (by omega) (by omega), ?_⟩
  rw [same_tree_eq hw.1 hb ha hrb hra (by omega) (by omega)]
  congr 1
  exact decide_eq_decide.2 eq_comm

theorem typenode_is_same_tree_refl_symm_witness :
    WellFormed ex_mem ex_ctx ∧ InCtx ex_ctx 72 ∧ InCtx ex_ctx 136
      ∧ (typenode_is_same_tree ex_mem 5 72 72 = .ok true
        ∧ ∃ t : Bool, typenode_is_same_tree ex_mem 5 72 136 = .ok t
            ∧ typenode_is_same_tree ex_mem 5 136 72 = .ok t) :=
  ⟨by decide, by decide, by decide,
    typenode_is_same_tree_refl_symm ex_mem ex_ctx 5 72 136 (by decide) (by decide)
      (by decide) (by decide)⟩

/-! ## The debug print of a type context -/

section print_facts

/-- One iteration of a loop of `print_typestack` returns when `type_locals[i]` is a node of
a well-formed context. -/
theorem print_visit_ok (d : Bool) {m : Mem} {c : _PyTier2TypeContext} (hw : WellFormed m c)
    {fuel i : Nat} (hi : i < c.type_locals_len)
    (hf : c.type_locals_len + c.type_stack_len ≤ fuel) :
    print_typestack.visit d m fuel c i = .ok () := by
  have hin : InCtx c (c.type_locals + 8 * i) := InCtx.locals hi
  obtain ⟨v, hv, htag, href⟩ := hw.1.get hin
  obtain ⟨r, dd, hroot, hdd, _⟩ := hw.rootAt hin
  obtain ⟨rv, hrv, _⟩ := hroot.root_is_root
  have hg := typenode_get_root_eq hv htag hroot (by omega : dd ≤ fuel) hrv
  unfold print_typestack.visit
  rw [load_eq hv]
  simp only [ok_bind, hg]
  by_cases ht : _Py_TYPENODE_GET_TAG v = TYPE_REF
  · rw [if_pos ht]
    rcases href ht with ⟨j, hj, e⟩ | ⟨j, hj, e⟩
    · have h1 := arrays_local_offset hw.1.1.1 hj
      rw [e, h1]
      have hl : decide ((0 : Int) ≤ (j : Int) ∧ (j : Int) < (c.type_locals_len : Int))
          = true := decide_eq_true ⟨by omega, by omega⟩
      rw [hl]
      rfl
    · have h1 := arrays_stack_offset hw.1.1.1 hj
      have h2 := arrays_stack_not_local hw.1.1.1 hj
      rw [e, h1, decide_eq_false h2]
      have hs : decide ((0 : Int) ≤ (j : Int) ∧ (j : Int) < (c.type_stack_len : Int))
          = true := decide_eq_true ⟨by omega, by omega⟩
      rw [hs]
      exact c_assert_true d
  · rw [if_neg ht]
    rfl

/-- A loop of `print_typestack` returns when it stays inside `type_locals`. -/
theorem print_loop_ok (d : Bool) {m : Mem} {c : _PyTier2TypeContext} (hw : WellFormed m c)
    {fuel : Nat} (hf : c.type_locals_len + c.type_stack_len ≤ fuel) :
    ∀ n i, i + n ≤ c.type_locals_len → print_typestack.loop d m fuel c n i = .ok () := by
  intro n
  induction n with
  | zero => intro i _; rfl
  | succ n ih =>
    intro i hi
    unfold print_typestack.loop
    rw [print_visit_ok d hw (by omega) hf]
    exact ih (i + 1) (by omega)

/-- The context is printed without a fault when it is well-formed and has no more stack
slots than locals. -/
theorem print_typestack_ok (d : Bool) {m : Mem} {c : _PyTier2TypeContext}
    (hw : WellFormed m c) {fuel : Nat} (hf : c.type_locals_len + c.type_stack_len ≤ fuel)
    (hlen : c.type_stack_len ≤ c.type_locals_len) :
    print_typestack d m fuel c = .ok () := by
  unfold print_typestack
  rw [print_loop_ok d hw hf _ 0 (by omega)]
  exact print_loop_ok d hw hf _ 0 (by omega)

/-- A loop of `print_typestack` that reaches an index whose unit of `type_locals` is not
mapped ends in a bad access. -/
theorem print_loop_out_of_bounds (d : Bool) {m : Mem} {c : _PyTier2TypeContext}
    (hw : WellFormed m c) {fuel : Nat} (hf : c.type_locals_len + c.type_stack_len ≤ fuel)
    (hout : m (c.type_locals + 8 * c.type_locals_len) = none) :
    ∀ n i, i ≤ c.type_locals_len → c.type_locals_len < i + n →
      print_typestack.loop d m fuel c n i = .error .bad_access := by
  intro n
  induction n with
  | zero => intro i h1 h2; omega
  | succ n ih =>
    intro i h1 h2
    unfold print_typestack.loop
    by_cases hi : i < c.type_locals_len
    · rw [print_visit_ok d hw hi hf]
      exact ih (i + 1) (by omega) (by omega)
    · have e : i = c.type_locals_len := by omega
      have hv : print_typestack.visit d m fuel c i = .error .bad_access := by
        unfold print_typestack.visit
        rw [e]
        simp [load, hout]
      rw [hv]
      rfl

/-- The context is not printed without a fault when it has more stack slots than locals
and the unit behind `type_locals` is not mapped: the first loop reads `type_locals[i]`
for the indices of the stack. -/
theorem print_typestack_out_of_bounds (d : Bool) {m : Mem} {c : _PyTier2TypeContext}
    (hw : WellFormed m c) {fuel : Nat} (hf : c.type_locals_len + c.type_stack_len ≤ fuel)
    (hlen : c.type_locals_len < c.type_stack_len)
    (hout : m (c.type_locals + 8 * c.type_locals_len) = none) :
    print_typestack d m fuel c = .error .bad_access := by
  unfold print_typestack
  rw [print_loop_out_of_bounds d hw hf hout _ 0 (by omega) (by omega)]
  rfl

/-- Printing never returns for a context with more stack slots than locals whose unit
behind `type_locals` is not mapped, whatever the nodes are. -/
theorem print_typestack_faults (d : Bool) (m : Mem) (c : _PyTier2TypeContext) (fuel : Nat)
    (hlen : c.type_locals_len < c.type_stack_len)
    (hout : m (c.type_locals + 8 * c.type_locals_len) = none) :
    print_typestack d m fuel c ≠ .ok () := by
  have key : ∀ n i, i ≤ c.type_locals_len → c.type_locals_len < i + n →
      print_typestack.loop d m fuel c n i ≠ .ok () := by
    intro n
    induction n with
    | zero => intro i h1 h2; omega
    | succ n ih =>
      intro i h1 h2 h
      unfold print_typestack.loop at h
      cases hv : print_typestack.visit d m fuel c i with
      | error e => rw [hv] at h; cases h
      | ok u =>
        rw [hv] at h
        by_cases hi : i < c.type_locals_len
        · exact ih (i + 1) (by omega) (by omega) h
        · have e : i = c.type_locals_len := by omega
          unfold print_typestack.visit at hv
          rw [e] at hv
          simp [load, hout] at hv
  intro h
  unfold print_typestack at h
  cases hl : print_typestack.loop d m fuel c c.type_stack_len 0 with
  | error e => rw [hl] at h; cases h
  | ok u => exact key _ 0 (by omega) (by omega) hl

/-- When the context is printed without a fault, the deep copy is what the statements
behind the print do. -/
theorem copy_eq_body (d : Bool) {m : Mem} {c : _PyTier2TypeContext} {fuel : Nat}
    (h : print_typestack d m fuel c = .ok ()) (tl ts nc : Nat) :
    _PyTier2TypeContext_Copy d m fuel c tl ts nc
      = _PyTier2TypeContext_Copy.body d m c tl ts nc := by
  unfold _PyTier2TypeContext_Copy
  rw [h]
  rfl

/-- When both contexts are printed without a fault, the distance is what the statements
behind the prints compute. -/
theorem diff_eq_body (d : Bool) (T : TypeObjects) {m : Mem} {c1 c2 : _PyTier2TypeContext}
    {fuel : Nat} (h1 : print_typestack d m fuel c1 = .ok ())
    (h2 : print_typestack d m fuel c2 = .ok ()) :
    diff_typecontext d T m fuel c1 c2 = diff_typecontext.body d T m fuel c1 c2 := by
  unfold diff_typecontext
  rw [h1, h2]
  rfl

/-- A distance that is returned was computed by the statements behind the prints, and
both prints returned. -/
theorem diff_body_of_ok {d : Bool} {T : TypeObjects} {m : Mem} {c1 c2 : _PyTier2TypeContext}
    {fuel : Nat} {r : Int} (h : diff_typecontext d T m fuel c1 c2 = .ok r) :
    diff_typecontext.body d T m fuel c1 c2 = .ok r
      ∧ print_typestack d m fuel c1 = .ok () ∧ print_typestack d m fuel c2 = .ok () := by
  unfold diff_typecontext at h
  cases h1 : print_typestack d m fuel c1 with
  | error e => rw [h1] at h; cases h
  | ok u =>
    rw [h1] at h
    cases h2 : print_typestack d m fuel c2 with
    | error e => rw [h2] at h; cases h
    | ok u2 =>
      rw [h2] at h
      exact ⟨h, rfl, rfl⟩

/-- When the `switch` of `type_propagate` returns and the resulting context is printed
without a fault, `type_propagate` returns what the `switch` did. -/
theorem type_propagate_eq_switch (d : Bool) (T : TypeObjects) {m : Mem} {fuel : Nat}
    {opcode : Opcode} {oparg : Int} {c : _PyTier2TypeContext}
    {r : Mem × _PyTier2TypeContext}
    (hs : type_propagate.switch d T m fuel opcode oparg c = .ok r)
    (hp : print_typestack d r.1 fuel r.2 = .ok ()) :
    type_propagate d T m fuel opcode oparg c = .ok r := by
  unfold type_propagate
  rw [hs]
  show (print_typestack d r.1 fuel r.2 >>= fun _ => Except.ok r) = _
  rw [hp]
  rfl

/-- A result of `type_propagate` is the result of its `switch`, printed without a
fault. -/
theorem switch_of_type_propagate {d : Bool} {T : TypeObjects} {m : Mem} {fuel : Nat}
    {opcode : Opcode} {oparg : Int} {c : _PyTier2TypeContext}
    {r : Mem × _PyTier2TypeContext}
    (h : type_propagate d T m fuel opcode oparg c = .ok r) :
    type_propagate.switch d T m fuel opcode oparg c = .ok r
      ∧ print_typestack d r.1 fuel r.2 = .ok () := by
  unfold type_propagate at h
  cases hs : type_propagate.switch d T m fuel opcode oparg c with
  | error e => rw [hs] at h; cases h
  | ok x =>
    rw [hs] at h
    have h' : (print_typestack d x.1 fuel x.2 >>= fun _ => Except.ok x) = .ok r := h
    cases hp : print_typestack d x.1 fuel x.2 with
    | error e => rw [hp] at h'; cases h'
    | ok u =>
      rw [hp] at h'
      have e : x = r := Except.ok.inj h'
      subst e
      exact ⟨rfl, hp⟩

/-- A fault of the print at the end of `type_propagate` is the outcome of the call. -/
theorem type_propagate_print_error (d : Bool) (T : TypeObjects) {m : Mem} {fuel : Nat}
    {opcode : Opcode} {oparg : Int} {c : _PyTier2TypeContext}
    {r : Mem × _PyTier2TypeContext} {e : Fault}
    (hs : type_propagate.switch d T m fuel opcode oparg c = .ok r)
    (hp : print_typestack d r.1 fuel r.2 = .error e) :
    type_propagate d T m fuel opcode oparg c = .error e := by
  unfold type_propagate
  rw [hs]
  show (print_typestack d r.1 fuel r.2 >>= fun _ => Except.ok r) = _
  rw [hp]
  rfl

/-- An address that is not mapped is not a node of a well-formed context. -/
theorem not_inCtx_of_unmapped {m : Mem} {c : _PyTier2TypeContext} (hw : WellFormed m c)
    {a : Nat} (h : m a = none) : ¬ InCtx c a := by
  intro ha
  obtain ⟨v, hv, _⟩ := hw.1.get ha
  rw [h] at hv
  cases hv

end print_facts

/-! ## Deep copy -/

section copy

theorem reloc_locals {c : _PyTier2TypeContext} (tl ts : Nat) {j : Nat}
    (hj : j < c.type_locals_len) : reloc c tl ts (c.type_locals + 8 * j) = tl + 8 * j := by
  unfold reloc
  rw [if_pos (by omega)]
  omega

theorem reloc_stack {c : _PyTier2TypeContext} (hl : Layout c) (tl ts : Nat) {j : Nat}
    (hj : j < c.type_stack_len) : reloc c tl ts (c.type_stack + 8 * j) = ts + 8 * j := by
  unfold reloc
  obtain ⟨⟨_, _, _, _, hd, _⟩, _⟩ := hl
  rw [if_neg (by omega)]
  omega

theorem reloc_inCtx {c c' : _PyTier2TypeContext} (hl : Layout c)
    (hL : c'.type_locals_len = c.type_locals_len) (hS : c'.type_stack_len = c.type_stack_len)
    {p : Nat} (hp : InCtx c p) : InCtx c' (reloc c c'.type_locals c'.type_stack p) := by
  rcases hp with ⟨i, hi, rfl⟩ | ⟨j, hj, rfl⟩
  · rw [reloc_locals _ _ hi]; exact InCtx.locals (by omega)
  · rw [reloc_stack hl _ _ hj]; exact InCtx.stack (by omega)

/-- The value stored by one iteration of a copy loop. -/
theorem copy_loop_spec (Py_DEBUG : Bool) {m : Mem} {c : _PyTier2TypeContext}
    (hc : Closed m c) {tl ts : Nat}
    (hnew : Arrays tl c.type_locals_len ts c.type_stack_len)
    (src dst n0 : Nat) (hsrc : ∀ k, k < n0 → InCtx c (src + 8 * k))
    (hdst : ∀ k, k < n0 → ¬ InCtx c (dst + 8 * k)) :
    ∀ (n i : Nat) (mc : Mem), i + n ≤ n0 → (∀ p, InCtx c p → mc p = m p) →
      (∀ k, k < n0 → ∃ w, mc (dst + 8 * k) = some w) →
      ∃ m', _PyTier2TypeContext_Copy.loop Py_DEBUG c tl ts src dst n i mc = .ok m'
        ∧ (∀ k, i ≤ k → k < i + n →
            ∃ v, m (src + 8 * k) = some v ∧ m' (dst + 8 * k) = some (reloc_node c tl ts v))
        ∧ (∀ a, (∀ k, i ≤ k → k < i + n → a ≠ dst + 8 * k) → m' a = mc a) := by
  intro n
  induction n with
  | zero =>
    intro i mc _ _ _
    exact ⟨mc, rfl, fun k h1 h2 => by omega, fun a _ => rfl⟩
  | succ n ih =>
    intro i mc hin hold hmapped
    have hi : i < n0 := by omega
    obtain ⟨v, hv, htag, href⟩ := hc.get (hsrc i hi)
    obtain ⟨w, hw⟩ := hmapped i hi
    have hload : load mc (src + 8 * i) = .ok v := load_eq (by rw [hold _ (hsrc i hi)]; exact hv)
    -- the store performed by this iteration
    have hstep : _PyTier2TypeContext_Copy.node Py_DEBUG c tl ts mc (dst + 8 * i) v
        = .ok (fun a => if a = dst + 8 * i then some (reloc_node c tl ts v) else mc a) := by
      unfold _PyTier2TypeContext_Copy.node
      simp only []
      by_cases hroot : _Py_TYPENODE_GET_TAG v = TYPE_ROOT_POSITIVE
          ∨ _Py_TYPENODE_GET_TAG v = TYPE_ROOT_NEGATIVE
      · rw [if_pos hroot, store_eq v hw]
        have : _Py_TYPENODE_GET_TAG v ≠ TYPE_REF := by
          unfold TYPE_ROOT_POSITIVE TYPE_ROOT_NEGATIVE at hroot; unfold TYPE_REF; omega
        simp [reloc_node, this]
      · have hisref : _Py_TYPENODE_GET_TAG v = TYPE_REF := by
          have := tag_lt v
          unfold TYPE_ROOT_POSITIVE TYPE_ROOT_NEGATIVE at hroot
          unfold TYPE_NULL at htag
          unfold TYPE_REF
          omega
        rw [if_neg hroot, if_pos hisref]
        rcases href hisref with ⟨j, hj, hpj⟩ | ⟨j, hj, hpj⟩
        · rw [hpj, arrays_local_offset hc.1.1 hj]
          rw [if_pos (by omega)]
          have hb : tl + 8 * j < 18446744073709551616 := by
            have := hnew.2.2.2.2.2.1
            omega
          rw [ptr_index_nat hb, store_eq _ hw]
          simp [reloc_node, hisref, hpj, reloc_locals tl ts hj]
        · rw [hpj, if_neg (arrays_stack_not_local hc.1.1 hj), arrays_stack_offset hc.1.1 hj]
          have hb : ts + 8 * j < 18446744073709551616 := by
            have := hnew.2.2.2.2.2.2.1
            omega
          have hd : decide ((0 : Int) ≤ (j : Int) ∧ (j : Int) < (c.type_stack_len : Int)) = true := by
            simp; omega
          rw [hd, c_assert_true, ptr_index_nat hb]
          simp only [ok_bind]
          rw [store_eq _ hw]
          simp [reloc_node, hisref, hpj, reloc_stack hc.1 tl ts hj]
    unfold _PyTier2TypeContext_Copy.loop
    rw [hload]
    simp only [ok_bind]
    rw [hstep]
    simp only [ok_bind]
    obtain ⟨m', hm', h1, h2⟩ := ih (i + 1)
      (fun a => if a = dst + 8 * i then some (reloc_node c tl ts v) else mc a)
      (by omega)
      (fun p hp => by
        have : p ≠ dst + 8 * i := fun h => hdst i hi (h ▸ hp)
        simp only [this, if_false]
        exact hold p hp)
      (fun k hk => by
        by_cases hki : dst + 8 * k = dst + 8 * i
        · exact ⟨reloc_node c tl ts v, by simp only [hki, if_true]⟩
        · simp only [hki, if_false]; exact hmapped k hk)
    refine ⟨m', hm', ?_, ?_⟩
    · intro k hk1 hk2
      by_cases hki : k = i
      · subst hki
        refine ⟨v, hv, ?_⟩
        rw [h2 _ (fun k' hk1' hk2' => by omega)]
        simp
      · exact h1 k (by omega) (by omega)
    · intro a ha
      rw [h2 a (fun k hk1 hk2 => ha k (by omega) (by omega))]
      have : a ≠ dst + 8 * i := ha i (le_refl _) (by omega)
      simp [this]

end copy

section copy_full

theorem fresh_not_inCtx {m : Mem} {c : _PyTier2TypeContext} (hc : Closed m c) {a : Nat}
    (h : m a = none) : ¬ InCtx c a := by
  intro hin
  obtain ⟨v, hv, _⟩ := hc.get hin
  rw [h] at hv; cases hv

theorem malloc_nodes_old {m : Mem} {p n a : Nat} (h : ∀ i, i < n → m (p + 8 * i) = none)
    {v : Nat} (ha : m a = some v) : malloc_nodes m p n a = m a := by
  unfold malloc_nodes
  rw [if_neg]
  rintro ⟨h1, h2, h3⟩
  have := h ((a - p) / 8) (by omega)
  have e : p + 8 * ((a - p) / 8) = a := by omega
  rw [e, ha] at this
  cases this

theorem malloc_nodes_new (m : Mem) (p n : Nat) {i : Nat} (hi : i < n) :
    malloc_nodes m p n (p + 8 * i) = some 0 := by
  unfold malloc_nodes
  rw [if_pos]
  refine ⟨by omega, by omega, by omega⟩

theorem malloc_nodes_mapped (m : Mem) (p n : Nat) {a w : Nat} (h : m a = some w) :
    ∃ w', malloc_nodes m p n a = some w' := by
  unfold malloc_nodes
  split
  · exact ⟨0, rfl⟩
  · exact ⟨w, h⟩

theorem malloc_nodes_other (m : Mem) (p n : Nat) {a : Nat}
    (h : ∀ i, i < n → a ≠ p + 8 * i) : malloc_nodes m p n a = m a := by
  unfold malloc_nodes
  rw [if_neg]
  rintro ⟨h1, h2, h3⟩
  exact h ((a - p) / 8) (by omega) (by omega)

/-- Full description of a successful deep copy. -/
theorem copy_full (Py_DEBUG : Bool) {m : Mem} {c : _PyTier2TypeContext} {tl ts nc : Nat}
    (hc : Closed m c) (hf : FreshArrays m c tl ts) (hnc : nc ≠ 0) :
    ∃ m', _PyTier2TypeContext_Copy.body Py_DEBUG m c tl ts nc = .ok (m', some
        { type_locals_len := c.type_locals_len
          type_stack_len := c.type_stack_len
          type_locals := tl
          type_stack := ts
          type_stack_ptr := ts + (c.type_stack_ptr - c.type_stack) })
      ∧ (∀ p, InCtx c p → ∃ v, m p = some v ∧ m' p = some v
            ∧ m' (reloc c tl ts p) = some (reloc_node c tl ts v))
      ∧ (∀ a, (∀ i, i < c.type_locals_len → a ≠ tl + 8 * i) →
            (∀ i, i < c.type_stack_len → a ≠ ts + 8 * i) → m' a = m a) := by
  obtain ⟨hnew, hfl, hfs⟩ := hf
  have hl := hc.1
  have hnl : ∀ k, k < c.type_locals_len → ¬ InCtx c (tl + 8 * k) :=
    fun k hk => fresh_not_inCtx hc (hfl k hk)
  have hns : ∀ k, k < c.type_stack_len → ¬ InCtx c (ts + 8 * k) :=
    fun k hk => fresh_not_inCtx hc (hfs k hk)
  have hdisj : ∀ i j, i < c.type_locals_len → j < c.type_stack_len →
      tl + 8 * i ≠ ts + 8 * j := by
    intro i j hi hj
    have := hnew.2.2.2.2.1
    omega
  -- the heap after the two allocations
  have hold0 : ∀ p, InCtx c p →
      malloc_nodes (malloc_nodes m tl c.type_locals_len) ts c.type_stack_len p = m p := by
    intro p hp
    obtain ⟨v, hv, _⟩ := hc.get hp
    have h1 : malloc_nodes m tl c.type_locals_len p = m p := malloc_nodes_old hfl hv
    rw [malloc_nodes_other, h1]
    intro i hi e
    exact hns i hi (e ▸ hp)
  have hmap_l : ∀ k, k < c.type_locals_len → ∃ w,
      malloc_nodes (malloc_nodes m tl c.type_locals_len) ts c.type_stack_len (tl + 8 * k)
        = some w := fun k hk =>
    malloc_nodes_mapped _ _ _ (malloc_nodes_new m tl c.type_locals_len hk)
  obtain ⟨m1, hm1, h1a, h1b⟩ := copy_loop_spec Py_DEBUG hc hnew c.type_locals tl
    c.type_locals_len (fun k hk => InCtx.locals hk) hnl c.type_locals_len 0 _
    (by omega) hold0 hmap_l
  have hold1 : ∀ p, InCtx c p → m1 p = m p := by
    intro p hp
    rw [h1b p (fun k _ hk e => hnl k (by omega) (e ▸ hp))]
    exact hold0 p hp
  have hmap_s : ∀ k, k < c.type_stack_len → ∃ w, m1 (ts + 8 * k) = some w := by
    intro k hk
    rw [h1b _ (fun k' _ hk' e => hdisj k' k (by omega) hk e.symm)]
    exact ⟨0, malloc_nodes_new _ ts c.type_stack_len hk⟩
  obtain ⟨m2, hm2, h2a, h2b⟩ := copy_loop_spec Py_DEBUG hc hnew c.type_stack ts
    c.type_stack_len (fun k hk => InCtx.stack hk) hns c.type_stack_len 0 m1
    (by omega) hold1 hmap_s
  refine ⟨m2, ?_, ?_, ?_⟩
  · unfold _PyTier2TypeContext_Copy.body
    have h1 : tl ≠ 0 := by have := hnew.1; omega
    have h2 : ts ≠ 0 := by have := hnew.2.1; omega
    simp only [h1, h2, hnc, if_false, hm1, hm2, ok_bind, pure_eq_ok]
    have hp : ptr_index c.type_stack_ptr (ptr_diff ts c.type_stack)
        = ts + (c.type_stack_ptr - c.type_stack) := by
      obtain ⟨⟨_, _, _, hs, _⟩, h3, h4, h5⟩ := hl
      obtain ⟨_, _, _, hs', _, _, hb, _⟩ := hnew
      unfold ptr_index ptr_diff
      omega
    rw [hp]
  · intro p hp
    obtain ⟨v, hv, _⟩ := hc.get hp
    refine ⟨v, hv, ?_, ?_⟩
    · rw [h2b p (fun k _ hk e => hns k (by omega) (e ▸ hp)), hold1 p hp, hv]
    · rcases hp with ⟨i, hi, rfl⟩ | ⟨j, hj, rfl⟩
      · rw [reloc_locals tl ts hi]
        obtain ⟨v', hv', hm⟩ := h1a i (by omega) (by omega)
        rw [hv] at hv'; cases hv'
        rw [h2b _ (fun k _ hk e => hdisj i k hi (by omega) e), hm]
      · rw [reloc_stack hl tl ts hj]
        obtain ⟨v', hv', hm⟩ := h2a j (by omega) (by omega)
        rw [hv] at hv'; cases hv'
        exact hm
  · intro a hal has
    rw [h2b a (fun k _ hk => has k (by omega)), h1b a (fun k _ hk => hal k (by omega))]
    rw [malloc_nodes_other _ _ _ has, malloc_nodes_other _ _ _ hal]

end copy_full

theorem copiedNode_of_reloc {m m' : Mem} {c c' : _PyTier2TypeContext} (hl : Layout c)
    {p q v : Nat} (hv : m p = some v)
    (hq : m' q = some (reloc_node c c'.type_locals c'.type_stack v)) :
    CopiedNode m m' c c' p q := by
  refine ⟨v, _, hv, hq, ?_, ?_, ?_⟩
  · intro hr
    have h1 := (is_root_iff v).1 hr
    have h2 : _Py_TYPENODE_GET_TAG v ≠ TYPE_REF := by
      unfold TYPE_REF; unfold TYPE_ROOT_POSITIVE TYPE_ROOT_NEGATIVE at h1; omega
    simp [reloc_node, h2]
  · intro j hj e
    have ha : (c.type_locals + 8 * j) % 4 = 0 := (InCtx.locals hj).aligned4 hl
    subst e
    simp [reloc_node, tag_make_ref, clear_tag_make_ref ha, reloc_locals _ _ hj]
  · intro j hj e
    have ha : (c.type_stack + 8 * j) % 4 = 0 := (InCtx.stack hj).aligned4 hl
    subst e
    simp [reloc_node, tag_make_ref, clear_tag_make_ref ha, reloc_stack hl _ _ hj]

/-- The statements of `_PyTier2TypeContext_Copy` behind the print return, for a closed
context, a context with the same lengths and stack offset whose nodes are the relocated
nodes of the original. -/
theorem copy_body_correct (Py_DEBUG : Bool) (m : Mem) (c : _PyTier2TypeContext)
    (type_locals type_stack new_type_context : Nat)
    (hc : Closed m c) (hf : FreshArrays m c type_locals type_stack)
    (hnc : new_type_context ≠ 0) :
    ∃ m' c', _PyTier2TypeContext_Copy.body Py_DEBUG m c type_locals type_stack new_type_context
        = .ok (m', some c')
      ∧ c'.type_locals = type_locals ∧ c'.type_stack = type_stack
      ∧ c'.type_locals_len = c.type_locals_len ∧ c'.type_stack_len = c.type_stack_len
      ∧ c'.type_stack ≤ c'.type_stack_ptr
      ∧ c'.type_stack_ptr - c'.type_stack = c.type_stack_ptr - c.type_stack
      ∧ (∀ i, i < c.type_locals_len →
          CopiedNode m m' c c' (c.type_locals + 8 * i) (c'.type_locals + 8 * i))
      ∧ (∀ i, i < c.type_stack_len →
          CopiedNode m m' c c' (c.type_stack + 8 * i) (c'.type_stack + 8 * i))
      ∧ (∀ q v, InCtx c' q → m' q = some v → _Py_TYPENODE_GET_TAG v = TYPE_REF →
          InCtx c' (_Py_TYPENODE_CLEAR_TAG v) ∧ ¬ InCtx c (_Py_TYPENODE_CLEAR_TAG v)) := by
  obtain ⟨m', hm', hnodes, _⟩ := copy_full Py_DEBUG hc hf hnc
  have hl := hc.1
  refine ⟨m', _, hm', rfl, rfl, rfl, rfl, by simp, by simp, ?_, ?_, ?_⟩
  · intro i hi
    obtain ⟨v, hv, _, hq⟩ := hnodes _ (InCtx.locals hi)
    rw [reloc_locals _ _ hi] at hq
    exact copiedNode_of_reloc hl hv hq
  · intro i hi
    obtain ⟨v, hv, _, hq⟩ := hnodes _ (InCtx.stack hi)
    rw [reloc_stack hl _ _ hi] at hq
    exact copiedNode_of_reloc hl hv hq
  · intro q v hq hv htag
    -- `q` is the image of a node `p` of `c`
    have key : ∀ p, InCtx c p → q = reloc c type_locals type_stack p →
        InCtx (⟨type_stack + (c.type_stack_ptr - c.type_stack), c.type_locals_len,
            c.type_stack_len, type_stack, type_locals⟩ : _PyTier2TypeContext)
          (_Py_TYPENODE_CLEAR_TAG v) ∧ ¬ InCtx c (_Py_TYPENODE_CLEAR_TAG v) := by
      intro p hp e
      obtain ⟨w, hw, _, hq'⟩ := hnodes p hp
      rw [← e, hv] at hq'
      have hvw : v = reloc_node c type_locals type_stack w := by simpa using hq'
      obtain ⟨w', hw', wtag, wref⟩ := hc.get hp
      rw [hw] at hw'; cases hw'
      have hwt : _Py_TYPENODE_GET_TAG w = TYPE_REF := by
        by_contra hne
        have : v = w := by rw [hvw]; simp [reloc_node, hne]
        rw [this] at htag
        exact hne htag
      have hin := wref hwt
      have hvw' : v = _Py_TYPENODE_MAKE_REF
          (reloc c type_locals type_stack (_Py_TYPENODE_CLEAR_TAG w)) := by
        rw [hvw]; simp [reloc_node, hwt]
      have h8l : type_locals % 8 = 0 := hf.1.2.2.1
      have h8s : type_stack % 8 = 0 := hf.1.2.2.2.1
      rcases hin with ⟨j, hj, ej⟩ | ⟨j, hj, ej⟩
      · rw [ej, reloc_locals _ _ hj] at hvw'
        rw [hvw', clear_tag_make_ref (by omega)]
        exact ⟨Or.inl ⟨j, hj, rfl⟩, fresh_not_inCtx hc (hf.2.1 j hj)⟩
      · rw [ej, reloc_stack hl _ _ hj] at hvw'
        rw [hvw', clear_tag_make_ref (by omega)]
        exact ⟨Or.inr ⟨j, hj, rfl⟩, fresh_not_inCtx hc (hf.2.2 j hj)⟩
    rcases hq with ⟨i, hi, rfl⟩ | ⟨i, hi, rfl⟩
    · have hi' : i < c.type_locals_len := hi
      exact key (c.type_locals + 8 * i) (InCtx.locals hi')
        (reloc_locals type_locals type_stack hi').symm
    · have hi' : i < c.type_stack_len := hi
      exact key (c.type_stack + 8 * i) (InCtx.stack hi')
        (reloc_stack hl type_locals type_stack hi').symm


/-- C1 (fails on the code for a context with more stack slots than locals):
`_PyTier2TypeContext_Copy(c)` prints the context before it copies it, and the first loop of
`print_typestack` reads `type_locals[i]` for the indices `i` of the stack.
For a well-formed type context `c` (every `REF` points inside `c`'s locals or stack, and
the `REF` links end in roots):
(1) when `c` has no more stack slots than locals, the call returns a context with the same
locals/stack lengths and the same `stack_top` offset, in which every root node has the
identical value as in `c` and every `REF` node refers to the same (array, index) position
as in `c` but inside the copy's own arrays; hence no `REF` in the copy points into `c`'s
arrays;
(2) when `c` has more stack slots than locals and the unit behind `type_locals` is not
mapped, the call ends in a bad access, before anything is allocated or copied. -/
theorem typecontext_copy_correct (Py_DEBUG : Bool) (m : Mem) (fuel : Nat)
    (c : _PyTier2TypeContext) (type_locals type_stack new_type_context : Nat)
    (hw : WellFormed m c) (hfuel : c.type_locals_len + c.type_stack_len ≤ fuel) :
    (c.type_stack_len ≤ c.type_locals_len → FreshArrays m c type_locals type_stack →
      new_type_context ≠ 0 →
      ∃ m' c', _PyTier2TypeContext_Copy Py_DEBUG m fuel c type_locals type_stack
          new_type_context = .ok (m', some c')
        ∧ c'.type_locals = type_locals ∧ c'.type_stack = type_stack
        ∧ c'.type_locals_len = c.type_locals_len ∧ c'.type_stack_len = c.type_stack_len
        ∧ c'.type_stack ≤ c'.type_stack_ptr
        ∧ c'.type_stack_ptr - c'.type_stack = c.type_stack_ptr - c.type_stack
        ∧ (∀ i, i < c.type_locals_len →
            CopiedNode m m' c c' (c.type_locals + 8 * i) (c'.type_locals + 8 * i))
        ∧ (∀ i, i < c.type_stack_len →
            CopiedNode m m' c c' (c.type_stack + 8 * i) (c'.type_stack + 8 * i))
        ∧ (∀ q v, InCtx c' q → m' q = some v → _Py_TYPENODE_GET_TAG v = TYPE_REF →
            InCtx c' (_Py_TYPENODE_CLEAR_TAG v) ∧ ¬ InCtx c (_Py_TYPENODE_CLEAR_TAG v)))
      ∧ (c.type_locals_len < c.type_stack_len →
          m (c.type_locals + 8 * c.type_locals_len) = none →
          _PyTier2TypeContext_Copy Py_DEBUG m fuel c type_locals type_stack
            new_type_context = .error .bad_access) := by
  constructor
  · intro hlen hf hnc
    rw [copy_eq_body Py_DEBUG (print_typestack_ok Py_DEBUG hw hfuel hlen)]
    exact copy_body_correct Py_DEBUG m c type_locals type_stack new_type_context hw.1 hf hnc
  · intro hlen hout
    unfold _PyTier2TypeContext_Copy
    rw [print_typestack_out_of_bounds Py_DEBUG hw hfuel hlen hout]
    rfl

theorem typecontext_copy_correct_witness :
    WellFormed room_mem room_ctx ∧ FreshArrays room_mem room_ctx 256 512
      ∧ (∃ m' c', _PyTier2TypeContext_Copy true room_mem 6 room_ctx 256 512 1024
            = .ok (m', some c')
          ∧ c'.type_locals = 256 ∧ c'.type_stack = 512
          ∧ c'.type_locals_len = room_ctx.type_locals_len
          ∧ c'.type_stack_len = room_ctx.type_stack_len
          ∧ c'.type_stack ≤ c'.type_stack_ptr
          ∧ c'.type_stack_ptr - c'.type_stack = room_ctx.type_stack_ptr - room_ctx.type_stack
          ∧ (∀ i, i < room_ctx.type_locals_len →
              CopiedNode room_mem m' room_ctx c' (room_ctx.type_locals + 8 * i)
                (c'.type_locals + 8 * i))
          ∧ (∀ i, i < room_ctx.type_stack_len →
              CopiedNode room_mem m' room_ctx c' (room_ctx.type_stack + 8 * i)
                (c'.type_stack + 8 * i))
          ∧ (∀ q v, InCtx c' q → m' q = some v → _Py_TYPENODE_GET_TAG v = TYPE_REF →
              InCtx c' (_Py_TYPENODE_CLEAR_TAG v)
                ∧ ¬ InCtx room_ctx (_Py_TYPENODE_CLEAR_TAG v)))
      ∧ WellFormed ex_mem ex_ctx ∧ ex_ctx.type_locals_len < ex_ctx.type_stack_len
      ∧ _PyTier2TypeContext_Copy true ex_mem 5 ex_ctx 256 512 1024 = .error .bad_access
      ∧ _PyTier2TypeContext_Copy false ex_mem 5 ex_ctx 256 512 1024 = .error .bad_access :=
  ⟨by decide, by decide,
    (typecontext_copy_correct true room_mem 6 room_ctx 256 512 1024 (by decide)
      (by decide)).1 (by decide) (by decide) (by decide),
    by decide, by decide,
    (typecontext_copy_correct true ex_mem 5 ex_ctx 256 512 1024 (by decide)
      (by decide)).2 (by decide) (by decide),
    (typecontext_copy_correct false ex_mem 5 ex_ctx 256 512 1024 (by decide)
      (by decide)).2 (by decide) (by decide)⟩

/-! ## Diffing type contexts -/

section diff

theorem get_type_release_of_ok {d : Bool} {m : Mem} {fuel v a : Nat}
    (h : typenode_get_type d m fuel v = .ok a) : typenode_get_type false m fuel v = .ok a := by
  unfold typenode_get_type at h ⊢
  cases hr : typenode_get_root m fuel v with
  | error e => rw [hr] at h; simp at h
  | ok root =>
    rw [hr] at h
    simp only [ok_bind, c_assert_release] at h ⊢
    cases hc : c_assert d (decide (_Py_TYPENODE_GET_TAG root ≠ TYPE_ROOT_NEGATIVE)) with
    | error e => rw [hc] at h; simp at h
    | ok u => rw [hc] at h; simpa using h

/-- One iteration of a `diff_typecontext` loop, with the two types already computed. -/
theorem diff_loop_succ (d : Bool) (T : TypeObjects) (m : Mem) (fuel arr1 arr2 n i : Nat)
    (diff : Int) :
    diff_typecontext.loop d T m fuel arr1 arr2 (n + 1) i diff =
      (load m (arr1 + 8 * i) >>= fun n1 => typenode_get_type d m fuel n1 >>= fun a =>
       load m (arr2 + 8 * i) >>= fun n2 => typenode_get_type d m fuel n2 >>= fun b =>
        if a = 0 ∧ b ≠ 0 then pure none
        else if a ≠ b ∧ b ≠ 0 then pure none
        else if is_unboxed_type T a = true ∧ a ≠ b then pure none
        else if diff + (if a ≠ b then 1 else 0) > INT_MAX then .error .overflow
        else diff_typecontext.loop d T m fuel arr1 arr2 n (i + 1)
          (diff + (if a ≠ b then 1 else 0))) := rfl

/-- What one position contributes: the two types the loop computed there. -/
theorem diff_loop_types {d : Bool} {T : TypeObjects} {m : Mem} {fuel arr1 arr2 n i : Nat}
    {diff : Int} {r : Option Int}
    (h : diff_typecontext.loop d T m fuel arr1 arr2 (n + 1) i diff = .ok r) :
    ∃ a b, (load m (arr1 + 8 * i) >>= typenode_get_type d m fuel) = .ok a
      ∧ (load m (arr2 + 8 * i) >>= typenode_get_type d m fuel) = .ok b
      ∧ (if a = 0 ∧ b ≠ 0 then pure none
        else if a ≠ b ∧ b ≠ 0 then pure none
        else if is_unboxed_type T a = true ∧ a ≠ b then pure none
        else if diff + (if a ≠ b then 1 else 0) > INT_MAX then .error .overflow
        else diff_typecontext.loop d T m fuel arr1 arr2 n (i + 1)
          (diff + (if a ≠ b then 1 else 0))) = Except.ok r := by
  rw [diff_loop_succ] at h
  cases h1 : load m (arr1 + 8 * i) with
  | error e => rw [h1] at h; simp at h
  | ok n1 =>
    rw [h1] at h
    simp only [ok_bind] at h
    cases h2 : typenode_get_type d m fuel n1 with
    | error e => rw [h2] at h; simp at h
    | ok a =>
      rw [h2] at h
      simp only [ok_bind] at h
      cases h3 : load m (arr2 + 8 * i) with
      | error e => rw [h3] at h; simp at h
      | ok n2 =>
        rw [h3] at h
        simp only [ok_bind] at h
        cases h4 : typenode_get_type d m fuel n2 with
        | error e => rw [h4] at h; simp at h
        | ok b =>
          rw [h4] at h
          simp only [ok_bind] at h
          exact ⟨a, b, by simp [h2], by simp [h4], h⟩

theorem resolved_of_node_type {d : Bool} {m : Mem} {fuel p a : Nat}
    (h : (load m p >>= typenode_get_type d m fuel) = .ok a) : resolved_type m fuel p = .ok a := by
  unfold resolved_type
  cases h1 : load m p with
  | error e => rw [h1] at h; simp at h
  | ok v =>
    rw [h1] at h
    simp only [ok_bind] at h ⊢
    exact get_type_release_of_ok h

/-- A loop of `diff_typecontext` that runs to its end has counted the differing positions,
and at every position the type in `c2` equals the type in `c1` or is unknown. -/
theorem diff_loop_some {d : Bool} {T : TypeObjects} {m : Mem} {fuel arr1 arr2 : Nat} :
    ∀ (n i : Nat) (diff diff' : Int),
      diff_typecontext.loop d T m fuel arr1 arr2 n i diff = .ok (some diff') →
      diff' = diff + ((List.range' i n).countP (fun k =>
          decide (resolved_type m fuel (arr1 + 8 * k) ≠ resolved_type m fuel (arr2 + 8 * k))) : Nat)
        ∧ ∀ k, i ≤ k → k < i + n → ∃ a b, resolved_type m fuel (arr1 + 8 * k) = .ok a
            ∧ resolved_type m fuel (arr2 + 8 * k) = .ok b
            ∧ (a ≠ b → a ≠ 0 ∧ b = 0 ∧ a ≠ T.PyRawFloat_Type) := by
  intro n
  induction n with
  | zero =>
    intro i diff diff' h
    simp only [diff_typecontext.loop, Except.ok.injEq, Option.some.injEq] at h
    subst h
    exact ⟨by simp, fun k h1 h2 => by omega⟩
  | succ n ih =>
    intro i diff diff' h
    obtain ⟨a, b, ha, hb, hrest⟩ := diff_loop_types h
    have hra := resolved_of_node_type ha
    have hrb := resolved_of_node_type hb
    by_cases c1 : a = 0 ∧ b ≠ 0
    · rw [if_pos c1] at hrest; simp at hrest
    rw [if_neg c1] at hrest
    by_cases c2 : a ≠ b ∧ b ≠ 0
    · rw [if_pos c2] at hrest; simp at hrest
    rw [if_neg c2] at hrest
    by_cases c3 : is_unboxed_type T a = true ∧ a ≠ b
    · rw [if_pos c3] at hrest; simp at hrest
    rw [if_neg c3] at hrest
    by_cases c4 : diff + (if a ≠ b then 1 else 0) > INT_MAX
    · rw [if_pos c4] at hrest; simp at hrest
    rw [if_neg c4] at hrest
    obtain ⟨e, hk⟩ := ih (i + 1) _ diff' hrest
    refine ⟨?_, ?_⟩
    · rw [e, List.range'_succ, List.countP_cons, hra, hrb]
      by_cases hab : a = b
      · simp [hab]
      · simp [hab]; omega
    · intro k hk1 hk2
      by_cases hki : k = i
      · subst hki
        refine ⟨a, b, hra, hrb, fun hab => ?_⟩
        have hb0 : b = 0 := by
          by_contra hne; exact c2 ⟨hab, hne⟩
        refine ⟨fun ha0 => hab (ha0.trans hb0.symm), hb0, fun hraw => c3 ⟨?_, hab⟩⟩
        simp [is_unboxed_type, hraw]
      · exact hk k (by omega) (by omega)

end diff

section diff_result

/-- A finite result of `diff_typecontext` comes from both loops running to their end. -/
theorem diff_finite {d : Bool} {T : TypeObjects} {m : Mem} {fuel : Nat}
    {c1 c2 : _PyTier2TypeContext} {r : Int}
    (h : diff_typecontext.body d T m fuel c1 c2 = .ok r) (hne : r ≠ INT_MAX) :
    typecontext_is_compatible d m fuel c1 c2 = .ok true
      ∧ ∃ diff, diff_typecontext.loop d T m fuel c1.type_locals c2.type_locals
            c1.type_locals_len 0 0 = .ok (some diff)
          ∧ diff_typecontext.loop d T m fuel c1.type_stack c2.type_stack
            (stack_elems c1).toNat 0 diff = .ok (some r) := by
  unfold diff_typecontext.body at h
  cases h1 : c_assert d (decide (c1.type_locals_len = c2.type_locals_len)) with
  | error e => rw [h1] at h; simp at h
  | ok u1 =>
  rw [h1] at h
  simp only [ok_bind] at h
  cases h2 : c_assert d (decide (c1.type_stack_len = c2.type_stack_len)) with
  | error e => rw [h2] at h; simp at h
  | ok u2 =>
  rw [h2] at h
  simp only [ok_bind] at h
  cases h3 : c_assert d (decide (stack_elems c1 = stack_elems c2)) with
  | error e => rw [h3] at h; simp at h
  | ok u3 =>
  rw [h3] at h
  simp only [ok_bind] at h
  cases h4 : typecontext_is_compatible d m fuel c1 c2 with
  | error e => rw [h4] at h; simp at h
  | ok b =>
  rw [h4] at h
  simp only [ok_bind] at h
  cases b with
  | false => simp at h; exact absurd h.symm hne
  | true =>
  refine ⟨rfl, ?_⟩
  simp only [Bool.not_true, Bool.false_eq_true, if_false] at h
  cases h5 : diff_typecontext.loop d T m fuel c1.type_locals c2.type_locals
      c1.type_locals_len 0 0 with
  | error e => rw [h5] at h; simp at h
  | ok r1 =>
  rw [h5] at h
  simp only [ok_bind] at h
  cases r1 with
  | none => simp at h; exact absurd h.symm hne
  | some diff =>
  refine ⟨diff, rfl, ?_⟩
  simp only at h
  cases h6 : diff_typecontext.loop d T m fuel c1.type_stack c2.type_stack
      (stack_elems c1).toNat 0 diff with
  | error e => rw [h6] at h; simp at h
  | ok r2 =>
  rw [h6] at h
  simp only [ok_bind] at h
  cases r2 with
  | none => simp at h; exact absurd h.symm hne
  | some diff2 =>
    simp at h
    rw [h]

theorem differing_le (m : Mem) (fuel arr1 arr2 n : Nat) : differing m fuel arr1 arr2 n ≤ n := by
  unfold differing
  calc _ ≤ (List.range n).length := List.countP_le_length _
    _ = n := List.length_range n

/-- A result of the statements of `diff_typecontext` behind the prints that is not
`INT_MAX` is the number of positions whose resolved root type differs. -/
theorem diff_body_counts (Py_DEBUG : Bool) (T : TypeObjects) (m : Mem) (fuel : Nat)
    (c1 c2 : _PyTier2TypeContext) (r : Int)
    (h : diff_typecontext.body Py_DEBUG T m fuel c1 c2 = .ok r) (hne : r ≠ INT_MAX) :
    r = ((differing m fuel c1.type_locals c2.type_locals c1.type_locals_len
          + differing m fuel c1.type_stack c2.type_stack (stack_elems c1).toNat : Nat) : Int)
      ∧ r ≤ ((c1.type_locals_len + (stack_elems c1).toNat : Nat) : Int) := by
  obtain ⟨_, diff, hl, hs⟩ := diff_finite h hne
  obtain ⟨e1, _⟩ := diff_loop_some _ _ _ _ hl
  obtain ⟨e2, _⟩ := diff_loop_some _ _ _ _ hs
  have hr : r = ((differing m fuel c1.type_locals c2.type_locals c1.type_locals_len
          + differing m fuel c1.type_stack c2.type_stack (stack_elems c1).toNat : Nat) : Int) := by
    rw [e2, e1]
    unfold differing
    rw [List.range_eq_range', List.range_eq_range']
    push_cast
    ring
  refine ⟨hr, ?_⟩
  rw [hr]
  have h1 := differing_le m fuel c1.type_locals c2.type_locals c1.type_locals_len
  have h2 := differing_le m fuel c1.type_stack c2.type_stack (stack_elems c1).toNat
  exact_mod_cast Nat.add_le_add h1 h2


/-- C6: for every pair of contexts `c1`, `c2` for which `diff_typecontext(c1, c2)` is not
`INT_MAX`, the result equals the number of positions (all locals plus the live stack
slots below `stack_top`) whose resolved root type differs between `c1` and `c2`, and is
therefore at most `locals_len` + stack height. -/
theorem diff_typecontext_counts (Py_DEBUG : Bool) (T : TypeObjects) (m : Mem) (fuel : Nat)
    (c1 c2 : _PyTier2TypeContext) (r : Int)
    (h : diff_typecontext Py_DEBUG T m fuel c1 c2 = .ok r) (hne : r ≠ INT_MAX) :
    r = ((differing m fuel c1.type_locals c2.type_locals c1.type_locals_len
          + differing m fuel c1.type_stack c2.type_stack (stack_elems c1).toNat : Nat) : Int)
      ∧ r ≤ ((c1.type_locals_len + (stack_elems c1).toNat : Nat) : Int) :=
  diff_body_counts Py_DEBUG T m fuel c1 c2 r (diff_body_of_ok h).1 hne

theorem diff_typecontext_counts_witness :
    diff_typecontext true ⟨8, 16, 24, 32, 40⟩ room_mem_wide 6 room_ctx room_ctx_wide = .ok 2
      ∧ (2 : Int) ≠ INT_MAX
      ∧ ((2 : Int) = ((differing room_mem_wide 6 room_ctx.type_locals
              room_ctx_wide.type_locals room_ctx.type_locals_len
            + differing room_mem_wide 6 room_ctx.type_stack room_ctx_wide.type_stack
              (stack_elems room_ctx).toNat : Nat) : Int)
        ∧ (2 : Int) ≤ ((room_ctx.type_locals_len + (stack_elems room_ctx).toNat : Nat) : Int)) :=
  ⟨by decide, by decide,
    diff_typecontext_counts true ⟨8, 16, 24, 32, 40⟩ room_mem_wide 6 room_ctx room_ctx_wide 2
      (by decide) (by decide)⟩

end diff_result

section diff_symm

theorem countP_range_zero {p : Nat → Bool} {i n : Nat}
    (h : ∀ k, i ≤ k → k < i + n → p k = false) : (List.range' i n).countP p = 0 := by
  rw [List.countP_eq_zero]
  intro k hk
  rw [List.mem_range'_1] at hk
  simp [h k hk.1 hk.2]

/-- Two loops of `diff_typecontext` over the same positions, one in each direction, that
both run to their end have found no differing position. -/
theorem diff_loop_both {d : Bool} {T : TypeObjects} {m : Mem} {fuel arr1 arr2 n : Nat}
    {x x' y y' : Int}
    (h1 : diff_typecontext.loop d T m fuel arr1 arr2 n 0 x = .ok (some x'))
    (h2 : diff_typecontext.loop d T m fuel arr2 arr1 n 0 y = .ok (some y')) :
    x' = x ∧ y' = y := by
  obtain ⟨e1, p1⟩ := diff_loop_some _ _ _ _ h1
  obtain ⟨e2, p2⟩ := diff_loop_some _ _ _ _ h2
  have same : ∀ k, 0 ≤ k → k < 0 + n →
      resolved_type m fuel (arr1 + 8 * k) = resolved_type m fuel (arr2 + 8 * k) := by
    intro k hk1 hk2
    obtain ⟨a, b, ha, hb, hab⟩ := p1 k hk1 hk2
    obtain ⟨b', a', hb', ha', hba⟩ := p2 k hk1 hk2
    rw [ha] at ha'; rw [hb] at hb'
    cases ha'; cases hb'
    rw [ha, hb]
    by_contra hne
    have hne' : a ≠ b := fun e => hne (by rw [e])
    obtain ⟨h1, h2, _⟩ := hab hne'
    obtain ⟨h3, h4, _⟩ := hba (Ne.symm hne')
    exact h1 h4
  rw [countP_range_zero (fun k hk1 hk2 => by simp [same k hk1 hk2])] at e1
  rw [countP_range_zero (fun k hk1 hk2 => by simp [same k hk1 hk2])] at e2
  simp at e1 e2
  exact ⟨e1, e2⟩

/-- Two results of the statements of `diff_typecontext` behind the prints, one in each
direction, that are not `INT_MAX` are both 0. -/
theorem diff_body_symm_of_finite (Py_DEBUG : Bool) (T : TypeObjects) (m : Mem)
    (fuel : Nat) (c1 c2 : _PyTier2TypeContext) (r1 r2 : Int) (hd : SameDims c1 c2)
    (h1 : diff_typecontext.body Py_DEBUG T m fuel c1 c2 = .ok r1)
    (h2 : diff_typecontext.body Py_DEBUG T m fuel c2 c1 = .ok r2)
    (hn1 : r1 ≠ INT_MAX) (hn2 : r2 ≠ INT_MAX) :
    r1 = r2 ∧ r1 = 0 := by
  obtain ⟨_, x, hl1, hs1⟩ := diff_finite h1 hn1
  obtain ⟨_, y, hl2, hs2⟩ := diff_finite h2 hn2
  obtain ⟨hL, _, hH⟩ := hd
  rw [← hL] at hl2
  rw [← hH] at hs2
  obtain ⟨ex, ey⟩ := diff_loop_both hl1 hl2
  obtain ⟨er1, er2⟩ := diff_loop_both hs1 hs2
  omega


/-- C3 (as amended): for contexts `c1`, `c2` of equal dimensions and stack height,
`diff_typecontext(c1, c2) = diff_typecontext(c2, c1)` whenever neither of the two is
`INT_MAX` (both are then 0). -/
theorem diff_typecontext_symm_of_finite (Py_DEBUG : Bool) (T : TypeObjects) (m : Mem)
    (fuel : Nat) (c1 c2 : _PyTier2TypeContext) (r1 r2 : Int) (hd : SameDims c1 c2)
    (h1 : diff_typecontext Py_DEBUG T m fuel c1 c2 = .ok r1)
    (h2 : diff_typecontext Py_DEBUG T m fuel c2 c1 = .ok r2)
    (hn1 : r1 ≠ INT_MAX) (hn2 : r2 ≠ INT_MAX) :
    r1 = r2 ∧ r1 = 0 :=
  diff_body_symm_of_finite Py_DEBUG T m fuel c1 c2 r1 r2 hd (diff_body_of_ok h1).1
    (diff_body_of_ok h2).1 hn1 hn2

theorem diff_typecontext_symm_of_finite_witness :
    SameDims room_ctx room_ctx_copy
      ∧ diff_typecontext true ⟨8, 16, 24, 32, 40⟩ room_mem_copy 6 room_ctx room_ctx_copy
          = .ok 0
      ∧ diff_typecontext true ⟨8, 16, 24, 32, 40⟩ room_mem_copy 6 room_ctx_copy room_ctx
          = .ok 0
      ∧ (0 : Int) ≠ INT_MAX
      ∧ ((0 : Int) = 0 ∧ (0 : Int) = 0) :=
  ⟨by decide, by decide, by decide, by decide,
    diff_typecontext_symm_of_finite true ⟨8, 16, 24, 32, 40⟩ room_mem_copy 6 room_ctx
      room_ctx_copy 0 0 (by decide) (by decide) (by decide) (by decide) (by decide)⟩

/-- C3 (counterexample): `room_ctx` and `room_ctx_wide` are well-formed, have equal
dimensions (three locals, three stack slots) and stack height and are compatible in both
directions, yet going from `room_ctx` to `room_ctx_wide` (a widening at two positions) has
diff 2 while the other direction (a narrowing) has diff `INT_MAX`. -/
theorem diff_typecontext_not_symmetric :
    WellFormed room_mem_wide room_ctx ∧ WellFormed room_mem_wide room_ctx_wide
      ∧ SameDims room_ctx room_ctx_wide
      ∧ typecontext_is_compatible true room_mem_wide 6 room_ctx room_ctx_wide = .ok true
      ∧ typecontext_is_compatible true room_mem_wide 6 room_ctx_wide room_ctx = .ok true
      ∧ diff_typecontext true ⟨8, 16, 24, 32, 40⟩ room_mem_wide 6 room_ctx room_ctx_wide
          = .ok 2
      ∧ diff_typecontext true ⟨8, 16, 24, 32, 40⟩ room_mem_wide 6 room_ctx_wide room_ctx
          = .ok INT_MAX
      ∧ diff_typecontext true ⟨8, 16, 24, 32, 40⟩ room_mem_wide 6 room_ctx room_ctx_wide
          ≠ diff_typecontext true ⟨8, 16, 24, 32, 40⟩ room_mem_wide 6 room_ctx_wide
              room_ctx := by
  decide

end diff_symm

section compat_total

theorem get_location_inCtx {c : _PyTier2TypeContext} (hl : Layout c) {r : Nat}
    (hr : InCtx c r) (c' : _PyTier2TypeContext)
    (hL : c'.type_locals_len = c.type_locals_len) (hS : c'.type_stack_len = c.type_stack_len)
    (hl' : Layout c') :
    ∃ idx is_local, typenode_get_location c r = .ok (idx, is_local)
      ∧ InCtx c' (if is_local then ptr_index c'.type_locals idx
          else ptr_index c'.type_stack idx) := by
  rcases hr with ⟨i, hi, rfl⟩ | ⟨j, hj, rfl⟩
  · refine ⟨i, true, get_location_locals hl hi, ?_⟩
    have hb : c'.type_locals + 8 * i < 18446744073709551616 := by
      have := hl'.1.2.2.2.2.2.1
      omega
    simp only [if_true]
    rw [ptr_index_nat hb]
    exact InCtx.locals (by omega)
  · refine ⟨j, false, get_location_stack hl hj, ?_⟩
    have hb : c'.type_stack + 8 * j < 18446744073709551616 := by
      have := hl'.1.2.2.2.2.2.2.1
      omega
    simp only [Bool.false_eq_true, if_false]
    rw [ptr_index_nat hb]
    exact InCtx.stack (by omega)

theorem same_tree_total {m : Mem} {c : _PyTier2TypeContext} (hw : WellFormed m c)
    {x y fuel : Nat} (hx : InCtx c x) (hy : InCtx c y)
    (hf : c.type_locals_len + c.type_stack_len ≤ fuel) :
    ∃ b, typenode_is_same_tree m fuel x y = .ok b := by
  obtain ⟨rx, dx, hrx, hdx, _⟩ := hw.rootAt hx
  obtain ⟨ry, dy, hry, hdy, _⟩ := hw.rootAt hy
  exact ⟨_, same_tree_eq hw.1 hx hy hrx hry (by omega) (by omega)⟩

theorem typenode_is_compatible_total {m : Mem} {c1 c2 : _PyTier2TypeContext}
    (hw1 : WellFormed m c1) (hw2 : WellFormed m c2)
    (hL : c1.type_locals_len = c2.type_locals_len) (hS : c1.type_stack_len = c2.type_stack_len)
    {p1 p2 fuel : Nat} (hp1 : InCtx c1 p1) (hp2 : InCtx c2 p2)
    (hf : c1.type_locals_len + c1.type_stack_len ≤ fuel) :
    ∃ b, typenode_is_compatible m fuel c1 c2 p1 p2 = .ok b := by
  obtain ⟨r1, d1, hr1, hd1, hr1in⟩ := hw1.rootAt hp1
  obtain ⟨r2, d2, hr2, hd2, hr2in⟩ := hw2.rootAt hp2
  obtain ⟨v1, hv1, htag1, _⟩ := hw1.1.get hp1
  obtain ⟨v2, hv2, htag2, _⟩ := hw2.1.get hp2
  obtain ⟨idx1, loc1, hloc1, hin1⟩ :=
    get_location_inCtx hw1.1.1 hr1in c2 hL.symm hS.symm hw2.1.1
  obtain ⟨idx2, loc2, hloc2, hin2⟩ :=
    get_location_inCtx hw2.1.1 hr2in c1 hL hS hw1.1.1
  have hf2 : c2.type_locals_len + c2.type_stack_len ≤ fuel := by omega
  obtain ⟨b1, hb1⟩ := same_tree_total hw2 hin1 hr2in hf2
  obtain ⟨b2, hb2⟩ := same_tree_total hw1 hin2 hr1in hf
  unfold typenode_is_compatible
  rw [load_eq hv1]
  simp only [ok_bind]
  rw [rootref_of_eq hv1 htag1 hr1 (by omega)]
  simp only [ok_bind]
  rw [load_eq hv2]
  simp only [ok_bind]
  rw [rootref_of_eq hv2 htag2 hr2 (by omega)]
  simp only [ok_bind]
  rw [hloc1]
  simp only [ok_bind]
  rw [hloc2]
  simp only [ok_bind]
  rw [hb1]
  simp only [ok_bind]
  cases b1 with
  | false => exact ⟨false, by simp⟩
  | true => exact ⟨b2, by simp [hb2]⟩

theorem compatible_loop_total {m : Mem} {c1 c2 : _PyTier2TypeContext}
    (hw1 : WellFormed m c1) (hw2 : WellFormed m c2)
    (hL : c1.type_locals_len = c2.type_locals_len) (hS : c1.type_stack_len = c2.type_stack_len)
    {fuel : Nat} (hf : c1.type_locals_len + c1.type_stack_len ≤ fuel) (arr1 arr2 : Nat) :
    ∀ (n i : Nat), (∀ k, i ≤ k → k < i + n → InCtx c1 (arr1 + 8 * k) ∧ InCtx c2 (arr2 + 8 * k)) →
      ∃ b, typecontext_is_compatible.loop m fuel c1 c2 arr1 arr2 n i = .ok b := by
  intro n
  induction n with
  | zero => intro i _; exact ⟨true, rfl⟩
  | succ n ih =>
    intro i h
    obtain ⟨hi1, hi2⟩ := h i (le_refl _) (by omega)
    obtain ⟨b, hb⟩ := typenode_is_compatible_total hw1 hw2 hL hS hi1 hi2 hf
    unfold typecontext_is_compatible.loop
    rw [hb]
    simp only [ok_bind]
    cases b with
    | false => exact ⟨false, by simp⟩
    | true =>
      simp only [Bool.not_true, Bool.false_eq_true, if_false]
      exact ih (i + 1) (fun k hk1 hk2 => h k (by omega) (by omega))

theorem typecontext_is_compatible_total (d : Bool) {m : Mem} {c1 c2 : _PyTier2TypeContext}
    (hw1 : WellFormed m c1) (hw2 : WellFormed m c2) (hd : SameDims c1 c2)
    {fuel : Nat} (hf : c1.type_locals_len + c1.type_stack_len ≤ fuel) :
    ∃ b, typecontext_is_compatible d m fuel c1 c2 = .ok b := by
  obtain ⟨hL, hS, hH⟩ := hd
  obtain ⟨k, hk, _, hse⟩ := layout_stack_elems hw1.1.1
  obtain ⟨bl, hbl⟩ := compatible_loop_total hw1 hw2 hL hS hf c1.type_locals c2.type_locals
    c1.type_locals_len 0 (fun i _ hi => ⟨InCtx.locals (by omega), InCtx.locals (by omega)⟩)
  obtain ⟨bs, hbs⟩ := compatible_loop_total hw1 hw2 hL hS hf c1.type_stack c2.type_stack
    k 0 (fun i _ hi => ⟨InCtx.stack (by omega), InCtx.stack (by omega)⟩)
  unfold typecontext_is_compatible
  simp only [hL, hS, hH, decide_True, c_assert_true, ok_bind]
  rw [hL] at hbl
  rw [hbl]
  simp only [ok_bind]
  cases bl with
  | false => exact ⟨false, by simp⟩
  | true =>
    simp only [Bool.not_true, Bool.false_eq_true, if_false]
    rw [← hH, hse, Int.toNat_ofNat]
    exact ⟨bs, hbs⟩

end compat_total

section diff_total

theorem node_type_ok (d : Bool) {m : Mem} {c : _PyTier2TypeContext} (hw : WellFormed m c)
    {p fuel : Nat} (hp : InCtx c p) (hf : c.type_locals_len + c.type_stack_len ≤ fuel)
    (hpos : d = true → PositiveRoot m fuel p) :
    ∃ a, (load m p >>= typenode_get_type d m fuel) = .ok a := by
  obtain ⟨r, dr, hr, hdr, hrin⟩ := hw.rootAt hp
  obtain ⟨v, hv, htag, _⟩ := hw.1.get hp
  obtain ⟨rv, hrv, _⟩ := hw.1.get hrin
  have hroot := typenode_get_root_eq hv htag hr (by omega : dr ≤ fuel) hrv
  rw [load_eq hv]
  simp only [ok_bind]
  unfold typenode_get_type
  rw [hroot]
  simp only [ok_bind]
  cases d with
  | false => exact ⟨_Py_TYPENODE_CLEAR_TAG rv, by simp [c_assert_release]⟩
  | true =>
    have h := hpos rfl
    unfold PositiveRoot at h
    rw [load_eq hv] at h
    simp only [ok_bind, hroot] at h
    rw [decide_eq_true h, c_assert_true]
    exact ⟨_Py_TYPENODE_CLEAR_TAG rv, by simp⟩

/-- A loop of `diff_typecontext` returns when both types can be computed at every
position it visits and the running count cannot overflow. -/
theorem diff_loop_total (d : Bool) (T : TypeObjects) (m : Mem) (fuel arr1 arr2 : Nat) :
    ∀ (n i : Nat) (diff : Int),
      (∀ k, i ≤ k → k < i + n →
        (∃ a, (load m (arr1 + 8 * k) >>= typenode_get_type d m fuel) = .ok a)
          ∧ ∃ b, (load m (arr2 + 8 * k) >>= typenode_get_type d m fuel) = .ok b) →
      diff + n ≤ INT_MAX →
      ∃ r, diff_typecontext.loop d T m fuel arr1 arr2 n i diff = .ok r
        ∧ ∀ diff', r = some diff' → diff' ≤ diff + n := by
  intro n
  induction n with
  | zero =>
    intro i diff _ _
    exact ⟨some diff, rfl, fun d' h => by cases h; simp⟩
  | succ n ih =>
    intro i diff h hb
    obtain ⟨⟨a, ha⟩, ⟨b, hb'⟩⟩ := h i (le_refl _) (by omega)
    rw [diff_loop_succ]
    cases h1 : load m (arr1 + 8 * i) with
    | error e => rw [h1] at ha; simp at ha
    | ok n1 =>
    rw [h1] at ha
    simp only [ok_bind] at ha ⊢
    rw [ha]
    simp only [ok_bind]
    cases h2 : load m (arr2 + 8 * i) with
    | error e => rw [h2] at hb'; simp at hb'
    | ok n2 =>
    rw [h2] at hb'
    simp only [ok_bind] at hb' ⊢
    rw [hb']
    simp only [ok_bind]
    by_cases c1 : a = 0 ∧ b ≠ 0
    · rw [if_pos c1]; exact ⟨none, rfl, fun _ h => by cases h⟩
    rw [if_neg c1]
    by_cases c2 : a ≠ b ∧ b ≠ 0
    · rw [if_pos c2]; exact ⟨none, rfl, fun _ h => by cases h⟩
    rw [if_neg c2]
    by_cases c3 : is_unboxed_type T a = true ∧ a ≠ b
    · rw [if_pos c3]; exact ⟨none, rfl, fun _ h => by cases h⟩
    rw [if_neg c3]
    have hstep : diff + (if a ≠ b then 1 else 0) ≤ diff + 1 := by
      split <;> omega
    have c4 : ¬ diff + (if a ≠ b then 1 else 0) > INT_MAX := by
      push_cast at hb
      omega
    rw [if_neg c4]
    obtain ⟨r, hr, hbound⟩ := ih (i + 1) (diff + (if a ≠ b then 1 else 0))
      (fun k hk1 hk2 => h k (by omega) (by omega)) (by push_cast at hb; omega)
    refine ⟨r, hr, fun d' hd' => ?_⟩
    have := hbound d' hd'
    push_cast
    omega

theorem layout_lens_bound {c : _PyTier2TypeContext} (hl : Layout c) :
    c.type_locals_len + c.type_stack_len < 2147483648 := by
  obtain ⟨⟨_, _, _, _, hd, _, _, h1, h2⟩, _⟩ := hl
  omega

end diff_total

section diff_int_max

/-- The statements of `diff_typecontext` behind its prints return on well-formed contexts
of equal dimensions, provided (when assertions are compiled in) that no position resolves
to a negative root. -/
theorem diff_typecontext_total (d : Bool) (T : TypeObjects) {m : Mem}
    {c1 c2 : _PyTier2TypeContext} (hw1 : WellFormed m c1) (hw2 : WellFormed m c2)
    (hd : SameDims c1 c2) {fuel : Nat} (hf : c1.type_locals_len + c1.type_stack_len ≤ fuel)
    (hpos : d = true → PositiveRoots m fuel c1 ∧ PositiveRoots m fuel c2) :
    ∃ r, diff_typecontext.body d T m fuel c1 c2 = .ok r := by
  obtain ⟨b, hb⟩ := typecontext_is_compatible_total d hw1 hw2 hd hf
  obtain ⟨hL, hS, hH⟩ := hd
  obtain ⟨k, hk, _, hse⟩ := layout_stack_elems hw1.1.1
  have hlen := layout_lens_bound hw1.1.1
  have hf2 : c2.type_locals_len + c2.type_stack_len ≤ fuel := by omega
  obtain ⟨r1, hr1, hb1⟩ := diff_loop_total d T m fuel
    c1.type_locals c2.type_locals c1.type_locals_len 0 0
    (fun i _ hi => ⟨node_type_ok d hw1 (InCtx.locals (by omega)) hf
        (fun h => (hpos h).1.1 i (by omega)),
      node_type_ok d hw2 (InCtx.locals (by omega)) hf2
        (fun h => (hpos h).2.1 i (by omega))⟩)
    (by unfold INT_MAX; omega)
  unfold diff_typecontext.body
  have hse2 : stack_elems c2 = (k : Int) := hH ▸ hse
  simp only [hL, hS, hH, decide_True, c_assert_true, ok_bind]
  rw [hb]
  simp only [ok_bind]
  cases b with
  | false => exact ⟨INT_MAX, by simp⟩
  | true =>
    simp only [Bool.not_true, Bool.false_eq_true, if_false]
    rw [hL] at hr1
    rw [hr1]
    simp only [ok_bind]
    cases r1 with
    | none => exact ⟨INT_MAX, by simp⟩
    | some diff =>
      have hdiff := hb1 diff rfl
      obtain ⟨r2, hr2, _⟩ := diff_loop_total d T m fuel
        c1.type_stack c2.type_stack k 0 diff
        (fun i _ hi => ⟨node_type_ok d hw1 (InCtx.stack (by omega)) hf
            (fun h => (hpos h).1.2 i (by rw [hse, Int.toNat_ofNat]; omega)),
          node_type_ok d hw2 (InCtx.stack (by omega)) hf2
            (fun h => (hpos h).2.2 i (by rw [← hH, hse, Int.toNat_ofNat]; omega))⟩)
        (by unfold INT_MAX; omega)
      rw [hse2, Int.toNat_ofNat]
      simp only []
      rw [hr2]
      simp only [ok_bind]
      cases r2 with
      | none => exact ⟨INT_MAX, by simp⟩
      | some diff2 => exact ⟨diff2, by simp⟩

end diff_int_max

/-- The statements of `diff_typecontext` behind the prints return `INT_MAX` whenever some
local or live stack position is narrowed, converted, or unboxed in `c1` and different in
`c2`. -/
theorem diff_body_int_max (Py_DEBUG : Bool) (T : TypeObjects) (m : Mem) (fuel : Nat)
    (c1 c2 : _PyTier2TypeContext) (hw1 : WellFormed m c1) (hw2 : WellFormed m c2)
    (hd : SameDims c1 c2) (hf : c1.type_locals_len + c1.type_stack_len ≤ fuel)
    (hpos : Py_DEBUG = true → PositiveRoots m fuel c1 ∧ PositiveRoots m fuel c2)
    (p1 p2 a b : Nat) (hp : LivePair c1 c2 p1 p2)
    (ha : resolved_type m fuel p1 = .ok a) (hb : resolved_type m fuel p2 = .ok b)
    (hab : (a = 0 ∧ b ≠ 0) ∨ (a ≠ 0 ∧ b ≠ 0 ∧ a ≠ b) ∨ (a = T.PyRawFloat_Type ∧ a ≠ b)) :
    diff_typecontext.body Py_DEBUG T m fuel c1 c2 = .ok INT_MAX := by
  obtain ⟨r, hr⟩ := diff_typecontext_total Py_DEBUG T hw1 hw2 hd hf hpos
  by_cases hne : r = INT_MAX
  · rw [hr, hne]
  exfalso
  obtain ⟨_, diff, hl, hs⟩ := diff_finite hr hne
  have key : ∃ a' b', resolved_type m fuel p1 = .ok a' ∧ resolved_type m fuel p2 = .ok b'
      ∧ (a' ≠ b' → a' ≠ 0 ∧ b' = 0 ∧ a' ≠ T.PyRawFloat_Type) := by
    rcases hp with ⟨i, hi, rfl, rfl⟩ | ⟨i, hi, rfl, rfl⟩
    · exact (diff_loop_some _ _ _ _ hl).2 i (Nat.zero_le _) (by omega)
    · exact (diff_loop_some _ _ _ _ hs).2 i (Nat.zero_le _) (by omega)
  obtain ⟨a', b', ha', hb', h⟩ := key
  rw [ha] at ha'; rw [hb] at hb'
  cases ha'; cases hb'
  rcases hab with ⟨h1, h2⟩ | ⟨h1, h2, h3⟩ | ⟨h1, h2⟩
  · exact (h (fun e => h2 (e ▸ h1))).1 h1
  · exact h2 (h h3).2.1
  · exact (h h2).2.2 h1


/-- C5 (fails on the code for contexts with more stack slots than locals):
`diff_typecontext(c1, c2)` prints both contexts before it compares them, and the first
loop of `print_typestack` reads `type_locals[i]` for the indices `i` of the stack.  The
contexts are well-formed and of equal dimensions; in a build with assertions the roots
are not negative, as `typenode_get_type` asserts.
(1) When the contexts have no more stack slots than locals, the call returns `INT_MAX`
whenever some local or live stack position has (a) unknown type in `c1` and a known type
in `c2` (narrowing), or (b) two different known types in `c1` and `c2` (conversion such as
int to float), or (c) the unboxed raw-float type in `c1` and any different type (including
unknown) in `c2`.
(2) When they have more stack slots than locals and the unit behind the locals of `c1` is
not mapped, the call ends in a bad access, whatever the positions hold. -/
theorem diff_typecontext_int_max (Py_DEBUG : Bool) (T : TypeObjects) (m : Mem) (fuel : Nat)
    (c1 c2 : _PyTier2TypeContext) (hw1 : WellFormed m c1) (hw2 : WellFormed m c2)
    (hd : SameDims c1 c2) (hf : c1.type_locals_len + c1.type_stack_len ≤ fuel)
    (hpos : Py_DEBUG = true → PositiveRoots m fuel c1 ∧ PositiveRoots m fuel c2)
    (p1 p2 a b : Nat) (hp : LivePair c1 c2 p1 p2)
    (ha : resolved_type m fuel p1 = .ok a) (hb : resolved_type m fuel p2 = .ok b)
    (hab : (a = 0 ∧ b ≠ 0) ∨ (a ≠ 0 ∧ b ≠ 0 ∧ a ≠ b) ∨ (a = T.PyRawFloat_Type ∧ a ≠ b)) :
    (c1.type_stack_len ≤ c1.type_locals_len →
        diff_typecontext Py_DEBUG T m fuel c1 c2 = .ok INT_MAX)
      ∧ (c1.type_locals_len < c1.type_stack_len →
          m (c1.type_locals + 8 * c1.type_locals_len) = none →
          diff_typecontext Py_DEBUG T m fuel c1 c2 = .error .bad_access) := by
  constructor
  · intro hlen
    have hf2 : c2.type_locals_len + c2.type_stack_len ≤ fuel := by
      rw [← hd.1, ← hd.2.1]
      exact hf
    have hlen2 : c2.type_stack_len ≤ c2.type_locals_len := by
      rw [← hd.1, ← hd.2.1]
      exact hlen
    rw [diff_eq_body Py_DEBUG T (print_typestack_ok Py_DEBUG hw1 hf hlen)
      (print_typestack_ok Py_DEBUG hw2 hf2 hlen2)]
    exact diff_body_int_max Py_DEBUG T m fuel c1 c2 hw1 hw2 hd hf hpos p1 p2 a b hp ha hb hab
  · intro hlen hout
    unfold diff_typecontext
    rw [print_typestack_out_of_bounds Py_DEBUG hw1 hf hlen hout]
    rfl

theorem diff_typecontext_int_max_witness :
    WellFormed room_mem_wide room_ctx_wide ∧ WellFormed room_mem_wide room_ctx
      ∧ SameDims room_ctx_wide room_ctx
      ∧ (PositiveRoots room_mem_wide 6 room_ctx_wide ∧ PositiveRoots room_mem_wide 6 room_ctx)
      ∧ LivePair room_ctx_wide room_ctx 1032 72
      ∧ resolved_type room_mem_wide 6 1032 = .ok 0 ∧ resolved_type room_mem_wide 6 72 = .ok 8
      ∧ diff_typecontext true ⟨8, 16, 24, 32, 40⟩ room_mem_wide 6 room_ctx_wide room_ctx
          = .ok INT_MAX
      ∧ WellFormed ex_mem_wide ex_ctx_wide ∧ WellFormed ex_mem_wide ex_ctx
      ∧ LivePair ex_ctx_wide ex_ctx 1032 72
      ∧ ex_ctx_wide.type_locals_len < ex_ctx_wide.type_stack_len
      ∧ diff_typecontext true ⟨8, 16, 24, 32, 40⟩ ex_mem_wide 5 ex_ctx_wide ex_ctx
          = .error .bad_access
      ∧ diff_typecontext false ⟨8, 16, 24, 32, 40⟩ ex_mem_wide 5 ex_ctx_wide ex_ctx
          = .error .bad_access :=
  ⟨by decide, by decide, by decide, by decide, by decide, by decide, by decide,
    (diff_typecontext_int_max true ⟨8, 16, 24, 32, 40⟩ room_mem_wide 6 room_ctx_wide room_ctx
      (by decide) (by decide) (by decide) (by decide) (fun _ => by decide)
      1032 72 0 8 (by decide) (by decide) (by decide) (by decide)).1 (by decide),
    by decide, by decide, by decide, by decide,
    (diff_typecontext_int_max true ⟨8, 16, 24, 32, 40⟩ ex_mem_wide 5 ex_ctx_wide ex_ctx
      (by decide) (by decide) (by decide) (by decide) (fun _ => by decide)
      1032 72 0 8 (by decide) (by decide) (by decide) (by decide)).2 (by decide) (by decide),
    (diff_typecontext_int_max false ⟨8, 16, 24, 32, 40⟩ ex_mem_wide 5 ex_ctx_wide ex_ctx
      (by decide) (by decide) (by decide) (by decide) (fun h => by cases h)
      1032 72 0 8 (by decide) (by decide) (by decide) (by decide)).2 (by decide) (by decide)⟩

/-! ## TYPE_SWAP -/

section swap

theorem swap_loop_spec (arr st dt : Nat) :
    ∀ (n i : Nat) (mc : Mem), (∀ k, i ≤ k → k < i + n → ∃ w, mc (arr + 8 * k) = some w) →
      ∃ m', __type_propagate_TYPE_SWAP.loop arr st dt n i mc = .ok m'
        ∧ (∀ k, i ≤ k → k < i + n → m' (arr + 8 * k) =
            (mc (arr + 8 * k)).map
              (fun v => if v = st then dt else if v = dt then st else v))
        ∧ (∀ a, (∀ k, i ≤ k → k < i + n → a ≠ arr + 8 * k) → m' a = mc a) := by
  intro n
  induction n with
  | zero =>
    intro i mc _
    exact ⟨mc, rfl, fun k h1 h2 => by omega, fun a _ => rfl⟩
  | succ n ih =>
    intro i mc hmapped
    obtain ⟨w, hw⟩ := hmapped i (le_refl _) (by omega)
    -- heap after this iteration
    have hstep : ∃ m1, __type_propagate_TYPE_SWAP.visit st dt (arr + 8 * i) mc = .ok m1
        ∧ m1 (arr + 8 * i) = some (if w = st then dt else if w = dt then st else w)
        ∧ ∀ a, a ≠ arr + 8 * i → m1 a = mc a := by
      unfold __type_propagate_TYPE_SWAP.visit
      rw [load_eq hw]
      simp only [ok_bind]
      by_cases h1 : w = st
      · rw [if_pos h1, store_eq dt hw]
        exact ⟨_, rfl, by simp [h1], fun a ha => by simp [ha]⟩
      · rw [if_neg h1]
        by_cases h2 : w = dt
        · rw [if_pos h2, store_eq st hw]
          exact ⟨_, rfl, by simp only [if_true, if_neg h1, if_pos h2],
            fun a ha => by simp [ha]⟩
        · rw [if_neg h2]
          exact ⟨mc, rfl, by simp [h1, h2, hw], fun a _ => rfl⟩
    obtain ⟨m1, hm1, hval, hother⟩ := hstep
    obtain ⟨m', hm', h1, h2⟩ := ih (i + 1) m1 (fun k hk1 hk2 => by
      rw [hother _ (by omega)]
      exact hmapped k (by omega) (by omega))
    refine ⟨m', ?_, ?_, ?_⟩
    · unfold __type_propagate_TYPE_SWAP.loop
      rw [hm1]
      exact hm'
    · intro k hk1 hk2
      by_cases hki : k = i
      · subst hki
        rw [h2 _ (fun k' hk1' hk2' => by omega), hval, hw]
        rfl
      · rw [h1 k (by omega) (by omega), hother _ (by omega)]
    · intro a ha
      rw [h2 a (fun k hk1 hk2 => ha k (by omega) (by omega))]
      exact hother a (ha i (le_refl _) (by omega))

theorem xor_swap {m : Mem} {src dst s d : Nat} (hne : src ≠ dst)
    (hs : m src = some s) (hd : m dst = some d) :
    (xor_assign m src dst >>= fun m3 => xor_assign m3 dst src >>= fun m4 =>
        xor_assign m4 src dst)
      = .ok (fun a => if a = src then some d else if a = dst then some s else m a) := by
  have hne' : dst ≠ src := Ne.symm hne
  unfold xor_assign
  simp only [load_eq hs, load_eq hd, ok_bind, store_eq (s ^^^ d) hs]
  have h1 : (fun a => if a = src then some (s ^^^ d) else m a) dst = some d := by
    simp [hne', hd]
  have h2 : (fun a => if a = src then some (s ^^^ d) else m a) src = some (s ^^^ d) := by
    simp
  rw [load_eq h1, load_eq h2]
  simp only [ok_bind]
  rw [store_eq (d ^^^ (s ^^^ d)) h1]
  simp only [ok_bind]
  have e1 : d ^^^ (s ^^^ d) = s := by
    rw [Nat.xor_comm s d, ← Nat.xor_assoc, Nat.xor_self, Nat.zero_xor]
  rw [e1]
  have h3 : (fun a => if a = dst then some s
      else (fun a => if a = src then some (s ^^^ d) else m a) a) src = some (s ^^^ d) := by
    simp [hne]
  have h4 : (fun a => if a = dst then some s
      else (fun a => if a = src then some (s ^^^ d) else m a) a) dst = some s := by
    simp
  rw [load_eq h3, load_eq h4]
  simp only [ok_bind]
  rw [store_eq _ h3]
  have e2 : s ^^^ d ^^^ s = d := by
    rw [Nat.xor_comm s d, Nat.xor_assoc, Nat.xor_self, Nat.xor_zero]
  rw [e2]
  congr 1
  funext a
  by_cases ha : a = src
  · simp [ha]
  · by_cases hb : a = dst
    · simp [hb, hne']
    · simp [ha, hb]

end swap

section swap_spec

theorem clear_tag_aligned {p : Nat} (h : p % 4 = 0) : _Py_TYPENODE_CLEAR_TAG p = p := by
  unfold _Py_TYPENODE_CLEAR_TAG
  omega

theorem swap_addr_invol (src dst a : Nat) : swap_addr src dst (swap_addr src dst a) = a := by
  unfold swap_addr
  by_cases h1 : a = src
  · by_cases h2 : dst = src
    · simp [h1, h2]
    · simp [h1, h2]
  · by_cases h2 : a = dst
    · simp [h1, h2]
    · simp [h1, h2]

theorem swap_addr_inj {src dst a b : Nat} (h : swap_addr src dst a = swap_addr src dst b) :
    a = b := by
  have := congrArg (swap_addr src dst) h
  rwa [swap_addr_invol, swap_addr_invol] at this

theorem swap_addr_inCtx {c : _PyTier2TypeContext} {src dst a : Nat}
    (hs : InCtx c src) (hd : InCtx c dst) (ha : InCtx c a) : InCtx c (swap_addr src dst a) := by
  unfold swap_addr
  split
  · exact hd
  · split
    · exact hs
    · exact ha

theorem swap_ref_invol (src dst v : Nat) : swap_ref src dst (swap_ref src dst v) = v := by
  unfold swap_ref
  by_cases h1 : v = _Py_TYPENODE_MAKE_REF src
  · by_cases h2 : _Py_TYPENODE_MAKE_REF dst = _Py_TYPENODE_MAKE_REF src
    · simp [h1, h2]
    · simp [h1, h2]
  · by_cases h2 : v = _Py_TYPENODE_MAKE_REF dst
    · simp [h1, h2]
    · simp [h1, h2]

theorem swap_ref_root {src dst v : Nat} (h : _Py_TYPENODE_IS_ROOT v ≠ 0) :
    swap_ref src dst v = v := by
  unfold swap_ref
  have h1 : v ≠ _Py_TYPENODE_MAKE_REF src := fun e => h (e ▸ is_root_make_ref src)
  have h2 : v ≠ _Py_TYPENODE_MAKE_REF dst := fun e => h (e ▸ is_root_make_ref dst)
  simp [h1, h2]

theorem swap_ref_tag (src dst v : Nat) :
    _Py_TYPENODE_GET_TAG (swap_ref src dst v) = _Py_TYPENODE_GET_TAG v := by
  unfold swap_ref
  split
  · next h => rw [h, tag_make_ref, tag_make_ref]
  · split
    · next h => rw [h, tag_make_ref, tag_make_ref]
    · rfl

theorem swap_ref_make_ref {src dst x : Nat} (hs : src % 4 = 0) (hd : dst % 4 = 0)
    (hx : x % 4 = 0) :
    swap_ref src dst (_Py_TYPENODE_MAKE_REF x) = _Py_TYPENODE_MAKE_REF (swap_addr src dst x) := by
  unfold swap_ref swap_addr
  by_cases h1 : x = src
  · simp [h1]
  · have h1' : _Py_TYPENODE_MAKE_REF x ≠ _Py_TYPENODE_MAKE_REF src :=
      fun e => h1 (make_ref_inj hx hs e)
    by_cases h2 : x = dst
    · subst h2
      rw [if_neg h1', if_pos rfl, if_neg h1, if_pos rfl]
    · have h2' : _Py_TYPENODE_MAKE_REF x ≠ _Py_TYPENODE_MAKE_REF dst :=
        fun e => h2 (make_ref_inj hx hd e)
      simp [h1, h2, h1', h2']

theorem swapped_at {m : Mem} {c : _PyTier2TypeContext} {src dst a : Nat}
    (hs : InCtx c src) (hd : InCtx c dst) (ha : InCtx c a) :
    swapped m c src dst (swap_addr src dst a) = (m a).map (swap_ref src dst) := by
  unfold swapped
  rw [if_pos (swap_addr_inCtx hs hd ha), swap_addr_invol]

/-- The swapped heap is the same forest with the two addresses relabelled. -/
theorem swapped_rootAt {m : Mem} {c : _PyTier2TypeContext} (hc : Closed m c)
    {src dst : Nat} (hs : InCtx c src) (hd : InCtx c dst) {a r d : Nat}
    (h : RootAt m a r d) :
    InCtx c a → RootAt (swapped m c src dst) (swap_addr src dst a) (swap_addr src dst r) d := by
  induction h with
  | root p v hv hr =>
    intro hp
    refine RootAt.root _ v ?_ hr
    rw [swapped_at hs hd hp, hv]
    simp [swap_ref_root hr]
  | step p v r d hv hr _ ih =>
    intro hp
    obtain ⟨v', hv', htag, href⟩ := hc.get hp
    rw [hv] at hv'; cases hv'
    have hisref : _Py_TYPENODE_GET_TAG v = TYPE_REF := by
      rcases (not_root_iff v).1 hr with h | h
      · exact h
      · exact absurd h htag
    have hin := href hisref
    have hl := hc.1
    have e : swap_ref src dst v
        = _Py_TYPENODE_MAKE_REF (swap_addr src dst (_Py_TYPENODE_CLEAR_TAG v)) := by
      conv_lhs => rw [← make_ref_clear_tag hisref]
      exact swap_ref_make_ref (hs.aligned4 hl) (hd.aligned4 hl) (hin.aligned4 hl)
    refine RootAt.step _ (swap_ref src dst v) _ d ?_ ?_ ?_
    · rw [swapped_at hs hd hp, hv]; rfl
    · rw [e]; exact is_root_make_ref _
    · rw [e, clear_tag_make_ref ((swap_addr_inCtx hs hd hin).aligned4 hl)]
      exact ih hin

theorem swapped_wellFormed {m : Mem} {c : _PyTier2TypeContext} (hw : WellFormed m c)
    {src dst : Nat} (hs : InCtx c src) (hd : InCtx c dst) :
    WellFormed (swapped m c src dst) c := by
  have hl := hw.1.1
  have node : ∀ a, InCtx c a → NodeOk (swapped m c src dst) c a
      ∧ Rooted (swapped m c src dst) c a := by
    intro a ha
    have hb := swap_addr_inCtx hs hd ha
    obtain ⟨v, hv, htag, href⟩ := hw.1.get hb
    have hval : swapped m c src dst a = some (swap_ref src dst v) := by
      have := @swapped_at m c src dst _ hs hd hb
      rw [swap_addr_invol, hv] at this
      exact this
    constructor
    · unfold NodeOk
      rw [hval]
      simp only [swap_ref_tag]
      refine ⟨htag, fun hisref => ?_⟩
      have hin := href hisref
      have e : swap_ref src dst v
          = _Py_TYPENODE_MAKE_REF (swap_addr src dst (_Py_TYPENODE_CLEAR_TAG v)) := by
        conv_lhs => rw [← make_ref_clear_tag hisref]
        exact swap_ref_make_ref (hs.aligned4 hl) (hd.aligned4 hl) (hin.aligned4 hl)
      rw [e, clear_tag_make_ref ((swap_addr_inCtx hs hd hin).aligned4 hl)]
      exact swap_addr_inCtx hs hd hin
    · obtain ⟨r, d, hr, hdlt, _⟩ := hw.rootAt hb
      have := swapped_rootAt hw.1 hs hd hr hb
      rw [swap_addr_invol] at this
      exact ⟨_, get_rootptr_of_rootAt this _ _ (clear_tag_make_ref (ha.aligned4 hl)) hdlt⟩
  exact ⟨⟨hl, fun i hi => (node _ (InCtx.locals hi)).1, fun i hi => (node _ (InCtx.stack hi)).1⟩,
    ⟨fun i hi => (node _ (InCtx.locals hi)).2, fun i hi => (node _ (InCtx.stack hi)).2⟩⟩

theorem swapped_swapped {m : Mem} {c : _PyTier2TypeContext} {src dst : Nat}
    (hs : InCtx c src) (hd : InCtx c dst) :
    swapped (swapped m c src dst) c src dst = m := by
  funext a
  unfold swapped
  by_cases ha : InCtx c a
  · rw [if_pos ha, if_pos (swap_addr_inCtx hs hd ha), swap_addr_invol]
    cases m a with
    | none => rfl
    | some v => simp [swap_ref_invol]
  · rw [if_neg ha, if_neg ha]

end swap_spec

section swap_eval

theorem locals_ne_stack {c : _PyTier2TypeContext} (hl : Layout c) {i j : Nat}
    (hi : i < c.type_locals_len) (hj : j < c.type_stack_len) :
    c.type_locals + 8 * i ≠ c.type_stack + 8 * j := by
  have := hl.1.2.2.2.2.1
  omega

/-- The two child scans of TYPE_SWAP together exchange the `REF`s to `src` and `dst`
in every node of the context. -/
theorem swap_loops {m : Mem} {c : _PyTier2TypeContext} (hc : Closed m c) (st dt : Nat) :
    ∃ m2, (__type_propagate_TYPE_SWAP.loop c.type_locals st dt c.type_locals_len 0 m
          >>= fun m1 => __type_propagate_TYPE_SWAP.loop c.type_stack st dt
            c.type_stack_len 0 m1) = .ok m2
      ∧ ∀ a, m2 a = if InCtx c a then
            (m a).map (fun v => if v = st then dt else if v = dt then st else v)
          else m a := by
  have hl := hc.1
  obtain ⟨m1, hm1, h1a, h1b⟩ := swap_loop_spec c.type_locals st dt c.type_locals_len 0 m
    (fun k _ hk => by
      obtain ⟨v, hv, _⟩ := hc.get (InCtx.locals (by omega : k < c.type_locals_len))
      exact ⟨v, hv⟩)
  obtain ⟨m2, hm2, h2a, h2b⟩ := swap_loop_spec c.type_stack st dt c.type_stack_len 0 m1
    (fun k _ hk => by
      have hk' : k < c.type_stack_len := by omega
      obtain ⟨v, hv, _⟩ := hc.get (InCtx.stack hk')
      rw [h1b _ (fun k' _ hk2 e => locals_ne_stack hl (by omega) hk' e.symm)]
      exact ⟨v, hv⟩)
  refine ⟨m2, by rw [hm1]; exact hm2, fun a => ?_⟩
  by_cases ha : InCtx c a
  · rw [if_pos ha]
    rcases ha with ⟨i, hi, rfl⟩ | ⟨j, hj, rfl⟩
    · rw [h2b _ (fun k _ hk e => locals_ne_stack hl hi (by omega) e)]
      exact h1a i (Nat.zero_le _) (by omega)
    · rw [h2a j (Nat.zero_le _) (by omega)]
      rw [h1b _ (fun k' _ hk2 e => locals_ne_stack hl (by omega) hj e.symm)]
  · rw [if_neg ha]
    rw [h2b a (fun k _ hk e => ha (e ▸ InCtx.stack (by omega)))]
    exact h1b a (fun k _ hk e => ha (e ▸ InCtx.locals (by omega)))

/-- What `__type_propagate_TYPE_SWAP` computes on a well-formed context. -/
theorem type_swap_eval {m : Mem} {c : _PyTier2TypeContext} (hw : WellFormed m c)
    {src dst fuel : Nat} (hs : InCtx c src) (hd : InCtx c dst)
    (hf : c.type_locals_len + c.type_stack_len ≤ fuel) :
    ∃ rs rd ds dd, RootAt m src rs ds ∧ RootAt m dst rd dd
      ∧ __type_propagate_TYPE_SWAP m fuel c src dst
          = .ok (if rs = rd then m else swapped m c src dst) := by
  have hl := hw.1.1
  obtain ⟨rs, ds, hrs, hds, _⟩ := hw.rootAt hs
  obtain ⟨rd, dd, hrd, hdd, _⟩ := hw.rootAt hd
  refine ⟨rs, rd, ds, dd, hrs, hrd, ?_⟩
  unfold __type_propagate_TYPE_SWAP
  rw [same_tree_eq hw.1 hs hd hrs hrd (by omega) (by omega)]
  simp only [ok_bind]
  by_cases hroot : rs = rd
  · simp [hroot]
  · have hne : src ≠ dst := by
      intro e
      subst e
      exact hroot (hrs.unique hrd).1
    simp only [hroot, decide_False, Bool.false_eq_true, if_false]
    rw [clear_tag_aligned (hs.aligned4 hl), clear_tag_aligned (hd.aligned4 hl)]
    obtain ⟨m2, hm2, hval⟩ := swap_loops hw.1 (_Py_TYPENODE_MAKE_REF src)
      (_Py_TYPENODE_MAKE_REF dst)
    obtain ⟨s, hsv, _⟩ := hw.1.get hs
    obtain ⟨d, hdv, _⟩ := hw.1.get hd
    have hs2 : m2 src = some (swap_ref src dst s) := by
      rw [hval, if_pos hs, hsv]; rfl
    have hd2 : m2 dst = some (swap_ref src dst d) := by
      rw [hval, if_pos hd, hdv]; rfl
    have hx := xor_swap hne hs2 hd2
    cases hl1 : __type_propagate_TYPE_SWAP.loop c.type_locals (_Py_TYPENODE_MAKE_REF src)
        (_Py_TYPENODE_MAKE_REF dst) c.type_locals_len 0 m with
    | error e => rw [hl1] at hm2; simp at hm2
    | ok m1 =>
      rw [hl1] at hm2
      simp only [ok_bind] at hm2 ⊢
      rw [hm2]
      simp only [ok_bind]
      rw [hx]
      congr 1
      funext a
      unfold swapped swap_addr
      by_cases ha : a = src
      · subst ha
        simp [hs, hdv]
      · by_cases hb : a = dst
        · subst hb
          simp [hd, ha, hsv]
        · simp only [ha, hb, if_false]
          rw [hval]
          rfl

end swap_eval

/-- C8: TYPE_SWAP is an involution: for every acyclic type context and every two node
positions `src`, `dst` in it, applying `__type_propagate_TYPE_SWAP(src, dst)` twice
leaves every node of locals and stack (indeed the whole heap) with exactly its original
value. -/
theorem type_swap_involution (m : Mem) (c : _PyTier2TypeContext) (fuel src dst : Nat)
    (hw : WellFormed m c) (hs : InCtx c src) (hd : InCtx c dst)
    (hf : c.type_locals_len + c.type_stack_len ≤ fuel) :
    ∃ m1 m2, __type_propagate_TYPE_SWAP m fuel c src dst = .ok m1
      ∧ __type_propagate_TYPE_SWAP m1 fuel c src dst = .ok m2
      ∧ (∀ p, InCtx c p → m2 p = m p) ∧ m2 = m := by
  obtain ⟨rs, rd, ds, dd, hrs, hrd, h1⟩ := type_swap_eval hw hs hd hf
  by_cases hroot : rs = rd
  · rw [if_pos hroot] at h1
    exact ⟨m, m, h1, h1, fun _ _ => rfl, rfl⟩
  · rw [if_neg hroot] at h1
    have hw' := swapped_wellFormed hw hs hd
    obtain ⟨rs', rd', ds', dd', hrs', hrd', h2⟩ := type_swap_eval hw' hs hd hf
    -- the roots of `src` and `dst` after the first swap
    have e1 := swapped_rootAt hw.1 hs hd hrd hd
    have e2 := swapped_rootAt hw.1 hs hd hrs hs
    have a1 : swap_addr src dst dst = src := by
      unfold swap_addr; split
      · next h => exact h
      · simp
    have a2 : swap_addr src dst src = dst := by
      unfold swap_addr; simp
    rw [a1] at e1
    rw [a2] at e2
    have hne : rs' ≠ rd' := by
      rw [(hrs'.unique e1).1, (hrd'.unique e2).1]
      intro e
      exact hroot (swap_addr_inj e).symm
    rw [if_neg hne, swapped_swapped hs hd] at h2
    exact ⟨_, m, h1, h2, fun _ _ => rfl, rfl⟩

theorem type_swap_involution_witness :
    WellFormed ex_mem ex_ctx ∧ InCtx ex_ctx 72 ∧ InCtx ex_ctx 136
      ∧ ∃ m1 m2, __type_propagate_TYPE_SWAP ex_mem 5 ex_ctx 72 136 = .ok m1
        ∧ __type_propagate_TYPE_SWAP m1 5 ex_ctx 72 136 = .ok m2
        ∧ (∀ p, InCtx ex_ctx p → m2 p = ex_mem p) ∧ m2 = ex_mem :=
  ⟨by decide, by decide, by decide,
    type_swap_involution ex_mem ex_ctx 5 72 136 (by decide) (by decide) (by decide)
      (by decide)⟩

/-! ## Diff of a context with its own copy -/

/-- C2 (failing input): `neg_ctx` is a well-formed context whose local has a negative
root, the state reached after a failed type guard.  Diffing it with its own deep copy
in a build with assertions stops in the assertion of `typenode_get_type` instead of
returning 0; with assertions compiled out the same call returns 0. -/
theorem diff_typecontext_copy_negative_root :
    WellFormed neg_mem neg_ctx ∧ FreshArrays neg_mem neg_ctx 256 512
      ∧ (match _PyTier2TypeContext_Copy true neg_mem 2 neg_ctx 256 512 1024 with
          | .ok (m', some c') => diff_typecontext true ⟨8, 16, 24, 32, 40⟩ m' 2 neg_ctx c'
          | _ => .ok 0) = .error .assertion
      ∧ (match _PyTier2TypeContext_Copy false neg_mem 2 neg_ctx 256 512 1024 with
          | .ok (m', some c') => diff_typecontext false ⟨8, 16, 24, 32, 40⟩ m' 2 neg_ctx c'
          | _ => .error .unreachable) = .ok 0 := by
  decide

/-! ## TYPE_OVERWRITE -/

section overwrite_loops

theorem ref_loop_spec (arr ct old : Nat) :
    ∀ (n i : Nat) (mc : Mem), (∀ k, i ≤ k → k < i + n → ∃ w, mc (arr + 8 * k) = some w) →
      ∃ m', __type_propagate_TYPE_OVERWRITE.ref_loop arr ct old n i mc = .ok m'
        ∧ (∀ k, i ≤ k → k < i + n → m' (arr + 8 * k) =
            (mc (arr + 8 * k)).map (fun v => if v = ct then old else v))
        ∧ (∀ a, (∀ k, i ≤ k → k < i + n → a ≠ arr + 8 * k) → m' a = mc a) := by
  intro n
  induction n with
  | zero =>
    intro i mc _
    exact ⟨mc, rfl, fun k h1 h2 => by omega, fun a _ => rfl⟩
  | succ n ih =>
    intro i mc hmapped
    obtain ⟨w, hw⟩ := hmapped i (le_refl _) (by omega)
    have hstep : ∃ m1, __type_propagate_TYPE_OVERWRITE.ref_visit ct old (arr + 8 * i) mc = .ok m1
        ∧ m1 (arr + 8 * i) = some (if w = ct then old else w)
        ∧ ∀ a, a ≠ arr + 8 * i → m1 a = mc a := by
      unfold __type_propagate_TYPE_OVERWRITE.ref_visit
      rw [load_eq hw]
      simp only [ok_bind]
      by_cases h1 : w = ct
      · rw [if_pos h1, store_eq old hw]
        exact ⟨_, rfl, by simp [h1], fun a ha => by simp [ha]⟩
      · rw [if_neg h1]
        exact ⟨mc, rfl, by simp [h1, hw], fun a _ => rfl⟩
    obtain ⟨m1, hm1, hval, hother⟩ := hstep
    obtain ⟨m', hm', h1, h2⟩ := ih (i + 1) m1 (fun k hk1 hk2 => by
      rw [hother _ (by omega)]
      exact hmapped k (by omega) (by omega))
    refine ⟨m', ?_, ?_, ?_⟩
    · unfold __type_propagate_TYPE_OVERWRITE.ref_loop
      rw [hm1]
      exact hm'
    · intro k hk1 hk2
      by_cases hki : k = i
      · subst hki
        rw [h2 _ (fun k' hk1' hk2' => by omega), hval, hw]
        rfl
      · rw [h1 k (by omega) (by omega), hother _ (by omega)]
    · intro a ha
      rw [h2 a (fun k hk1 hk2 => ha k (by omega) (by omega))]
      exact hother a (ha i (le_refl _) (by omega))

/-- Child scan of the root case once the new root has been elected: every further
child is pointed at it. -/
theorem root_loop_elected (arr ct old nr : Nat) (hnr : nr ≠ 0) :
    ∀ (n i : Nat) (mc : Mem), (∀ k, i ≤ k → k < i + n → ∃ w, mc (arr + 8 * k) = some w) →
      ∃ m', __type_propagate_TYPE_OVERWRITE.root_loop arr ct old n i (mc, nr) = .ok (m', nr)
        ∧ (∀ k, i ≤ k → k < i + n → m' (arr + 8 * k) =
            (mc (arr + 8 * k)).map (fun v => if v = ct then _Py_TYPENODE_MAKE_REF nr else v))
        ∧ (∀ a, (∀ k, i ≤ k → k < i + n → a ≠ arr + 8 * k) → m' a = mc a) := by
  intro n
  induction n with
  | zero =>
    intro i mc _
    exact ⟨mc, rfl, fun k h1 h2 => by omega, fun a _ => rfl⟩
  | succ n ih =>
    intro i mc hmapped
    obtain ⟨w, hw⟩ := hmapped i (le_refl _) (by omega)
    have hstep : ∃ m1, __type_propagate_TYPE_OVERWRITE.root_visit ct old (arr + 8 * i) (mc, nr)
          = .ok (m1, nr)
        ∧ m1 (arr + 8 * i) = some (if w = ct then _Py_TYPENODE_MAKE_REF nr else w)
        ∧ ∀ a, a ≠ arr + 8 * i → m1 a = mc a := by
      unfold __type_propagate_TYPE_OVERWRITE.root_visit
      simp only [load_eq hw, ok_bind]
      by_cases h1 : w = ct
      · rw [if_pos h1, if_neg hnr, store_eq _ hw]
        exact ⟨_, rfl, by simp [h1], fun a ha => by simp [ha]⟩
      · rw [if_neg h1]
        exact ⟨mc, rfl, by simp [h1, hw], fun a _ => rfl⟩
    obtain ⟨m1, hm1, hval, hother⟩ := hstep
    obtain ⟨m', hm', h1, h2⟩ := ih (i + 1) m1 (fun k hk1 hk2 => by
      rw [hother _ (by omega)]
      exact hmapped k (by omega) (by omega))
    refine ⟨m', ?_, ?_, ?_⟩
    · unfold __type_propagate_TYPE_OVERWRITE.root_loop
      rw [hm1]
      exact hm'
    · intro k hk1 hk2
      by_cases hki : k = i
      · subst hki
        rw [h2 _ (fun k' hk1' hk2' => by omega), hval, hw]
        rfl
      · rw [h1 k (by omega) (by omega), hother _ (by omega)]
    · intro a ha
      rw [h2 a (fun k hk1 hk2 => ha k (by omega) (by omega))]
      exact hother a (ha i (le_refl _) (by omega))

/-- Child scan of the root case before a new root has been elected: either the range
has no child, or its first child becomes the new root and every later child is pointed
at it. -/
theorem root_loop_electing (arr ct old : Nat) (harr : 0 < arr) :
    ∀ (n i : Nat) (mc : Mem), (∀ k, i ≤ k → k < i + n → ∃ w, mc (arr + 8 * k) = some w) →
      ∃ m' nr', __type_propagate_TYPE_OVERWRITE.root_loop arr ct old n i (mc, 0) = .ok (m', nr')
        ∧ (∀ a, (∀ k, i ≤ k → k < i + n → a ≠ arr + 8 * k) → m' a = mc a)
        ∧ ((nr' = 0 ∧ ∀ k, i ≤ k → k < i + n →
              mc (arr + 8 * k) ≠ some ct ∧ m' (arr + 8 * k) = mc (arr + 8 * k))
          ∨ (∃ k0, i ≤ k0 ∧ k0 < i + n ∧ nr' = arr + 8 * k0 ∧ mc (arr + 8 * k0) = some ct
              ∧ (∀ k, i ≤ k → k < k0 → mc (arr + 8 * k) ≠ some ct)
              ∧ ∀ k, i ≤ k → k < i + n → m' (arr + 8 * k) =
                  if k = k0 then some old
                  else (mc (arr + 8 * k)).map
                    (fun v => if v = ct then _Py_TYPENODE_MAKE_REF nr' else v))) := by
  intro n
  induction n with
  | zero =>
    intro i mc _
    exact ⟨mc, 0, rfl, fun a _ => rfl, Or.inl ⟨rfl, fun k h1 h2 => by omega⟩⟩
  | succ n ih =>
    intro i mc hmapped
    obtain ⟨w, hw⟩ := hmapped i (le_refl _) (by omega)
    by_cases hchild : w = ct
    · -- the node at `i` is the first child: it is elected
      have hvisit : __type_propagate_TYPE_OVERWRITE.root_visit ct old (arr + 8 * i) (mc, 0)
          = .ok ((fun a => if a = arr + 8 * i then some old else mc a), arr + 8 * i) := by
        unfold __type_propagate_TYPE_OVERWRITE.root_visit
        simp only [load_eq hw, ok_bind]
        rw [if_pos hchild, if_pos trivial, store_eq old hw]
        rfl
      obtain ⟨m', hm', h1, h2⟩ := root_loop_elected arr ct old (arr + 8 * i) (by omega) n (i + 1)
        (fun a => if a = arr + 8 * i then some old else mc a) (fun k hk1 hk2 => by
          have : arr + 8 * k ≠ arr + 8 * i := by omega
          simp only [this, if_false]
          exact hmapped k (by omega) (by omega))
      refine ⟨m', arr + 8 * i, ?_, ?_, Or.inr ⟨i, le_refl _, by omega, rfl, hchild ▸ hw,
        fun k hk1 hk2 => by omega, ?_⟩⟩
      · unfold __type_propagate_TYPE_OVERWRITE.root_loop
        rw [hvisit]
        exact hm'
      · intro a ha
        rw [h2 a (fun k hk1 hk2 => ha k (by omega) (by omega))]
        have : a ≠ arr + 8 * i := ha i (le_refl _) (by omega)
        simp [this]
      · intro k hk1 hk2
        by_cases hki : k = i
        · subst hki
          rw [h2 _ (fun k' hk1' hk2' => by omega)]
          simp
        · rw [if_neg hki, h1 k (by omega) (by omega)]
          have : arr + 8 * k ≠ arr + 8 * i := by omega
          simp only [this, if_false]
    · -- not a child: the scan goes on
      have hvisit : __type_propagate_TYPE_OVERWRITE.root_visit ct old (arr + 8 * i) (mc, 0)
          = .ok (mc, 0) := by
        unfold __type_propagate_TYPE_OVERWRITE.root_visit
        simp only [load_eq hw, ok_bind]
        rw [if_neg hchild]
        rfl
      obtain ⟨m', nr', hm', hframe, hcases⟩ := ih (i + 1) mc
        (fun k hk1 hk2 => hmapped k (by omega) (by omega))
      have hi : m' (arr + 8 * i) = mc (arr + 8 * i) := hframe _ (fun k hk1 hk2 => by omega)
      have hnot : mc (arr + 8 * i) ≠ some ct := by
        rw [hw]; intro e; exact hchild (by simpa using e)
      refine ⟨m', nr', ?_, ?_, ?_⟩
      · unfold __type_propagate_TYPE_OVERWRITE.root_loop
        rw [hvisit]
        exact hm'
      · intro a ha
        exact hframe a (fun k hk1 hk2 => ha k (by omega) (by omega))
      · rcases hcases with ⟨h0, hall⟩ | ⟨k0, hk0a, hk0b, hnr, hk0c, hbefore, hall⟩
        · refine Or.inl ⟨h0, fun k hk1 hk2 => ?_⟩
          by_cases hki : k = i
          · subst hki; exact ⟨hnot, hi⟩
          · exact hall k (by omega) (by omega)
        · refine Or.inr ⟨k0, by omega, by omega, hnr, hk0c, fun k hk1 hk2 => ?_,
            fun k hk1 hk2 => ?_⟩
          · by_cases hki : k = i
            · subst hki; exact hnot
            · exact hbefore k (by omega) hk2
          · by_cases hki : k = i
            · subst hki
              rw [if_neg (by omega), hi, hw]
              simp [hchild]
            · exact hall k (by omega) (by omega)

end overwrite_loops

section overwrite_scans

theorem FirstChild.inCtx {m : Mem} {c : _PyTier2TypeContext} {ct c1 : Nat}
    (h : FirstChild m c ct c1) : InCtx c c1 := by
  rcases h with ⟨i, hi, rfl, _⟩ | ⟨j, hj, rfl, _⟩
  · exact InCtx.locals hi
  · exact InCtx.stack hj

theorem FirstChild.child {m : Mem} {c : _PyTier2TypeContext} {ct c1 : Nat}
    (h : FirstChild m c ct c1) : m c1 = some ct := by
  rcases h with ⟨i, _, _, h, _⟩ | ⟨j, _, _, h, _⟩ <;> exact h

/-- The two child scans of the `REF` case of TYPE_OVERWRITE. -/
theorem ref_loops {m1 : Mem} {c : _PyTier2TypeContext} (hl : Layout c)
    (hmap : ∀ a, InCtx c a → ∃ w, m1 a = some w) (ct old : Nat) :
    ∃ m', (__type_propagate_TYPE_OVERWRITE.ref_loop c.type_locals ct old c.type_locals_len 0 m1
          >>= fun m2 => __type_propagate_TYPE_OVERWRITE.ref_loop c.type_stack ct old
            c.type_stack_len 0 m2) = .ok m'
      ∧ ∀ a, m' a = if InCtx c a then (m1 a).map (fun v => if v = ct then old else v)
          else m1 a := by
  obtain ⟨m2, hm2, h1a, h1b⟩ := ref_loop_spec c.type_locals ct old c.type_locals_len 0 m1
    (fun k _ hk => hmap _ (InCtx.locals (by omega)))
  obtain ⟨m3, hm3, h2a, h2b⟩ := ref_loop_spec c.type_stack ct old c.type_stack_len 0 m2
    (fun k _ hk => by
      have hk' : k < c.type_stack_len := by omega
      rw [h1b _ (fun k' _ hk2 e => locals_ne_stack hl (by omega) hk' e.symm)]
      exact hmap _ (InCtx.stack hk'))
  refine ⟨m3, by rw [hm2]; exact hm3, fun a => ?_⟩
  by_cases ha : InCtx c a
  · rw [if_pos ha]
    rcases ha with ⟨i, hi, rfl⟩ | ⟨j, hj, rfl⟩
    · rw [h2b _ (fun k _ hk e => locals_ne_stack hl hi (by omega) e)]
      exact h1a i (Nat.zero_le _) (by omega)
    · rw [h2a j (Nat.zero_le _) (by omega)]
      rw [h1b _ (fun k' _ hk2 e => locals_ne_stack hl (by omega) hj e.symm)]
  · rw [if_neg ha]
    rw [h2b a (fun k _ hk e => ha (e ▸ InCtx.stack (by omega)))]
    exact h1b a (fun k _ hk e => ha (e ▸ InCtx.locals (by omega)))

/-- The two child scans of the root case of TYPE_OVERWRITE: without children nothing
changes; otherwise the first child gets `old_dst` and the other children point at it. -/
theorem root_loops {m1 : Mem} {c : _PyTier2TypeContext} (hl : Layout c)
    (hmap : ∀ a, InCtx c a → ∃ w, m1 a = some w) (ct old : Nat) :
    ∃ s, (__type_propagate_TYPE_OVERWRITE.root_loop c.type_locals ct old c.type_locals_len 0
            (m1, 0)
          >>= fun s2 => __type_propagate_TYPE_OVERWRITE.root_loop c.type_stack ct old
            c.type_stack_len 0 s2) = .ok s
      ∧ (∀ a, ¬ InCtx c a → s.1 a = m1 a)
      ∧ ((∀ a, InCtx c a → m1 a ≠ some ct ∧ s.1 a = m1 a)
        ∨ ∃ c1, FirstChild m1 c ct c1 ∧ ∀ a, InCtx c a → s.1 a =
            if a = c1 then some old
            else (m1 a).map (fun v => if v = ct then _Py_TYPENODE_MAKE_REF c1 else v)) := by
  have hlpos : 0 < c.type_locals := hl.1.1
  have hspos : 0 < c.type_stack := hl.1.2.1
  obtain ⟨m2, nr2, hm2, hframe2, hcase2⟩ := root_loop_electing c.type_locals ct old hlpos
    c.type_locals_len 0 m1 (fun k _ hk => hmap _ (InCtx.locals (by omega)))
  have hstack2 : ∀ j, j < c.type_stack_len → m2 (c.type_stack + 8 * j) = m1 (c.type_stack + 8 * j) :=
    fun j hj => hframe2 _ (fun k _ hk e => locals_ne_stack hl (by omega) hj e.symm)
  have hmap2 : ∀ k, 0 ≤ k → k < 0 + c.type_stack_len → ∃ w, m2 (c.type_stack + 8 * k) = some w :=
    fun k _ hk => by
      rw [hstack2 k (by omega)]
      exact hmap _ (InCtx.stack (by omega))
  have hout2 : ∀ a, ¬ InCtx c a → m2 a = m1 a :=
    fun a ha => hframe2 a (fun k _ hk e => ha (e ▸ InCtx.locals (by omega)))
  rcases hcase2 with ⟨hnr, hnone⟩ | ⟨k0, _, hk0, hnr, hchild, hbefore, hall⟩
  · -- no child among the locals
    subst hnr
    obtain ⟨m3, nr3, hm3, hframe3, hcase3⟩ := root_loop_electing c.type_stack ct old hspos
      c.type_stack_len 0 m2 hmap2
    have hlocals3 : ∀ i, i < c.type_locals_len →
        m3 (c.type_locals + 8 * i) = m1 (c.type_locals + 8 * i) := fun i hi => by
      rw [hframe3 _ (fun k _ hk e => locals_ne_stack hl hi (by omega) e)]
      exact (hnone i (Nat.zero_le _) (by omega)).2
    refine ⟨(m3, nr3), by rw [hm2]; exact hm3, fun a ha => ?_, ?_⟩
    · show m3 a = m1 a
      rw [hframe3 a (fun k _ hk e => ha (e ▸ InCtx.stack (by omega)))]
      exact hout2 a ha
    · rcases hcase3 with ⟨_, hnone3⟩ | ⟨j0, _, hj0, hnr3, hchild3, hbefore3, hall3⟩
      · refine Or.inl (fun a ha => ?_)
        rcases ha with ⟨i, hi, rfl⟩ | ⟨j, hj, rfl⟩
        · exact ⟨(hnone i (Nat.zero_le _) (by omega)).1, hlocals3 i hi⟩
        · obtain ⟨h1, h2⟩ := hnone3 j (Nat.zero_le _) (by omega)
          rw [hstack2 j hj] at h1 h2
          exact ⟨h1, h2⟩
      · refine Or.inr ⟨c.type_stack + 8 * j0, Or.inr ⟨j0, by omega, rfl, ?_, ?_, ?_⟩, ?_⟩
        · rw [← hstack2 j0 (by omega)]; exact hchild3
        · exact fun k hk => (hnone k (Nat.zero_le _) (by omega)).1
        · intro k hk
          rw [← hstack2 k (by omega)]
          exact hbefore3 k (Nat.zero_le _) hk
        · intro a ha
          show m3 a = _
          rcases ha with ⟨i, hi, rfl⟩ | ⟨j, hj, rfl⟩
          · rw [if_neg (locals_ne_stack hl hi (by omega)), hlocals3 i hi]
            have hne := (hnone i (Nat.zero_le _) (by omega)).1
            cases hv : m1 (c.type_locals + 8 * i) with
            | none => rfl
            | some v =>
              have : v ≠ ct := fun e => hne (by rw [hv, e])
              simp [this]
          · rw [hall3 j (Nat.zero_le _) (by omega), hstack2 j hj, ← hnr3]
            by_cases hjj : j = j0
            · subst hjj; simp [hnr3]
            · have : c.type_stack + 8 * j ≠ nr3 := by rw [hnr3]; omega
              simp only [hjj, this, if_false]
  · -- the first child is a local
    have hnr0 : nr2 ≠ 0 := by omega
    obtain ⟨m3, hm3, h3a, h3b⟩ := root_loop_elected c.type_stack ct old nr2 hnr0
      c.type_stack_len 0 m2 hmap2
    refine ⟨(m3, nr2), by rw [hm2]; exact hm3, fun a ha => ?_, Or.inr ⟨nr2, ?_, ?_⟩⟩
    · show m3 a = m1 a
      rw [h3b a (fun k _ hk e => ha (e ▸ InCtx.stack (by omega)))]
      exact hout2 a ha
    · exact Or.inl ⟨k0, by omega, hnr, hnr ▸ hchild, fun k hk => hbefore k (Nat.zero_le _) hk⟩
    · intro a ha
      show m3 a = _
      rcases ha with ⟨i, hi, rfl⟩ | ⟨j, hj, rfl⟩
      · rw [h3b _ (fun k _ hk e => locals_ne_stack hl hi (by omega) e)]
        rw [hall i (Nat.zero_le _) (by omega)]
        by_cases hii : i = k0
        · subst hii; simp [hnr]
        · have : c.type_locals + 8 * i ≠ nr2 := by rw [hnr]; omega
          simp only [hii, this, if_false]
      · rw [h3a j (Nat.zero_le _) (by omega), hstack2 j hj]
        have : c.type_stack + 8 * j ≠ nr2 := by
          rw [hnr]; exact (locals_ne_stack hl (by omega) hj).symm
        simp only [this, if_false]

end overwrite_scans

section overwrite_eval

theorem FirstChild.congr {m m1 : Mem} {c : _PyTier2TypeContext} {ct c1 : Nat}
    (h : FirstChild m1 c ct c1) (hiff : ∀ a, InCtx c a → (m1 a = some ct ↔ m a = some ct)) :
    FirstChild m c ct c1 := by
  rcases h with ⟨i, hi, e, hch, hb⟩ | ⟨j, hj, e, hch, hl, hb⟩
  · refine Or.inl ⟨i, hi, e, (hiff _ (e ▸ InCtx.locals hi)).1 hch, fun k hk h => ?_⟩
    exact hb k hk ((hiff _ (InCtx.locals (by omega))).2 h)
  · refine Or.inr ⟨j, hj, e, (hiff _ (e ▸ InCtx.stack hj)).1 hch, fun k hk h => ?_,
      fun k hk h => ?_⟩
    · exact hl k hk ((hiff _ (InCtx.locals hk)).2 h)
    · exact hb k hk ((hiff _ (InCtx.stack (by omega))).2 h)

theorem srcOk_facts {m : Mem} {c : _PyTier2TypeContext} (hw : WellFormed m c)
    {src dst fuel : Nat} {b : Bool} (hd : InCtx c dst)
    (hf : c.type_locals_len + c.type_stack_len ≤ fuel) (hsrc : SrcOk m fuel c src dst b) :
    src_node src b ≠ _Py_TYPENODE_MAKE_REF dst
      ∧ _Py_TYPENODE_GET_TAG (src_node src b) ≠ TYPE_NULL
      ∧ (b = false → src ≠ dst) := by
  have hl := hw.1.1
  rcases hsrc with ⟨hb, hroot⟩ | ⟨hb, hin, hsame⟩
  · subst hb
    refine ⟨fun e => hroot ?_, ?_, fun h => by cases h⟩
    · have : src_node src true = src := rfl
      rw [this] at e
      rw [e]; exact is_root_make_ref dst
    · have : src_node src true = src := rfl
      rw [this]
      have := (is_root_iff src).1 hroot
      unfold TYPE_ROOT_POSITIVE TYPE_ROOT_NEGATIVE at this
      unfold TYPE_NULL
      omega
  · subst hb
    have hne : src ≠ dst := by
      intro e
      subst e
      rw [same_tree_self hw hin hf] at hsame
      cases hsame
    have e1 : src_node src false = _Py_TYPENODE_MAKE_REF src := rfl
    refine ⟨fun e => hne ?_, ?_, fun _ => hne⟩
    · rw [e1] at e
      exact make_ref_inj (hin.aligned4 hl) (hd.aligned4 hl) e
    · rw [e1, tag_make_ref]; decide

/-- The prologue of `__type_propagate_TYPE_OVERWRITE` for an admissible source: the
assertion holds and the same-tree test is negative, so the node is detached. -/
theorem overwrite_body (d : Bool) {m : Mem} {c : _PyTier2TypeContext}
    {src dst fuel old : Nat} {b : Bool} (hsrc : SrcOk m fuel c src dst b)
    (hold : m dst = some old) :
    __type_propagate_TYPE_OVERWRITE d m fuel c src dst b =
      if _Py_TYPENODE_GET_TAG old = TYPE_ROOT_POSITIVE
          ∨ _Py_TYPENODE_GET_TAG old = TYPE_ROOT_NEGATIVE then
        (__type_propagate_TYPE_OVERWRITE.root_loop c.type_locals
            (_Py_TYPENODE_MAKE_REF (_Py_TYPENODE_CLEAR_TAG dst)) old c.type_locals_len 0
            (fun a => if a = dst then some (src_node src b) else m a, 0)
          >>= fun s2 => __type_propagate_TYPE_OVERWRITE.root_loop c.type_stack
            (_Py_TYPENODE_MAKE_REF (_Py_TYPENODE_CLEAR_TAG dst)) old c.type_stack_len 0 s2)
          >>= fun s3 => pure s3.1
      else if _Py_TYPENODE_GET_TAG old = TYPE_REF then
        __type_propagate_TYPE_OVERWRITE.ref_loop c.type_locals
            (_Py_TYPENODE_MAKE_REF (_Py_TYPENODE_CLEAR_TAG dst)) old c.type_locals_len 0
            (fun a => if a = dst then some (src_node src b) else m a)
          >>= fun m2 => __type_propagate_TYPE_OVERWRITE.ref_loop c.type_stack
            (_Py_TYPENODE_MAKE_REF (_Py_TYPENODE_CLEAR_TAG dst)) old c.type_stack_len 0 m2
      else .error .unreachable := by
  unfold __type_propagate_TYPE_OVERWRITE
  rcases hsrc with ⟨hb, hroot⟩ | ⟨hb, hin, hsame⟩
  · subst hb
    simp only [if_true, decide_eq_true hroot, c_assert_true, ok_bind, Bool.not_true,
      Bool.false_eq_true, if_false, pure_eq_ok, load_eq hold,
      store_eq (src_node src true) hold]
    split
    · cases h1 : __type_propagate_TYPE_OVERWRITE.root_loop c.type_locals
        (_Py_TYPENODE_MAKE_REF (_Py_TYPENODE_CLEAR_TAG dst)) old c.type_locals_len 0
        (fun a => if a = dst then some (src_node src true) else m a, 0) with
      | error e => rfl
      | ok s2 => rfl
    · rfl
  · subst hb
    simp only [Bool.false_eq_true, if_false, ok_bind, Bool.not_false, if_true, hsame,
      pure_eq_ok, load_eq hold, store_eq (src_node src false) hold]
    split
    · cases h1 : __type_propagate_TYPE_OVERWRITE.root_loop c.type_locals
        (_Py_TYPENODE_MAKE_REF (_Py_TYPENODE_CLEAR_TAG dst)) old c.type_locals_len 0
        (fun a => if a = dst then some (src_node src false) else m a, 0) with
      | error e => rfl
      | ok s2 => rfl
    · rfl

end overwrite_eval

section overwrite_detach

theorem overwrite_root_eval (d : Bool) {m : Mem} {c : _PyTier2TypeContext}
    (hw : WellFormed m c) {src dst fuel old : Nat} {b : Bool} (hd : InCtx c dst)
    (hf : c.type_locals_len + c.type_stack_len ≤ fuel) (hsrc : SrcOk m fuel c src dst b)
    (hold : m dst = some old) (hroot : _Py_TYPENODE_IS_ROOT old ≠ 0) :
    ∃ m', __type_propagate_TYPE_OVERWRITE d m fuel c src dst b = .ok m'
      ∧ RootDetached m m' c dst (src_node src b) old := by
  have hl := hw.1.1
  obtain ⟨hsn, _, _⟩ := srcOk_facts hw hd hf hsrc
  have holdne : old ≠ _Py_TYPENODE_MAKE_REF dst := fun e => hroot (e ▸ is_root_make_ref dst)
  rw [overwrite_body d hsrc hold, if_pos ((is_root_iff old).1 hroot),
    clear_tag_aligned (hd.aligned4 hl)]
  have hmap : ∀ a, InCtx c a →
      ∃ w, (fun a => if a = dst then some (src_node src b) else m a) a = some w := by
    intro a ha
    by_cases h : a = dst
    · exact ⟨src_node src b, by simp only [h, if_true]⟩
    · obtain ⟨v, hv, _⟩ := hw.1.get ha
      exact ⟨v, by simp only [h, if_false]; exact hv⟩
  have hiff : ∀ a, InCtx c a →
      ((fun a => if a = dst then some (src_node src b) else m a) a
          = some (_Py_TYPENODE_MAKE_REF dst)
        ↔ m a = some (_Py_TYPENODE_MAKE_REF dst)) := by
    intro a _
    by_cases h : a = dst
    · subst h
      simp only [if_true, hold, Option.some.injEq]
      exact ⟨fun e => absurd e hsn, fun e => absurd e holdne⟩
    · simp only [h, if_false]
  obtain ⟨s, hs, hout, hcases⟩ := root_loops hl hmap (_Py_TYPENODE_MAKE_REF dst) old
  rw [hs]
  refine ⟨s.1, rfl, ?_, ?_, ?_⟩
  · -- the value at `dst`
    rcases hcases with hnone | ⟨c1, hfirst, hall⟩
    · rw [(hnone dst hd).2]; simp
    · have hc1 : c1 ≠ dst := by
        intro e
        have := hfirst.child
        rw [e] at this
        simp only [if_true, Option.some.injEq] at this
        exact hsn this
      rw [hall dst hd, if_neg (Ne.symm hc1)]
      simp [hsn]
  · intro a ha
    rw [hout a ha]
    have : a ≠ dst := fun e => ha (e ▸ hd)
    simp [this]
  · rcases hcases with hnone | ⟨c1, hfirst, hall⟩
    · refine Or.inl (fun a ha hne => ?_)
      obtain ⟨h1, h2⟩ := hnone a ha
      refine ⟨fun e => h1 ((hiff a ha).2 e), ?_⟩
      rw [h2]; simp [hne]
    · have hc1 : c1 ≠ dst := by
        intro e
        have := hfirst.child
        rw [e] at this
        simp only [if_true, Option.some.injEq] at this
        exact hsn this
      refine Or.inr ⟨c1, hfirst.congr hiff, hc1, ?_, fun a ha hne hne1 => ?_⟩
      · rw [hall c1 hfirst.inCtx]; simp
      · rw [hall a ha, if_neg hne1]
        simp [hne]

theorem overwrite_ref_eval (d : Bool) {m : Mem} {c : _PyTier2TypeContext}
    (hw : WellFormed m c) {src dst fuel old : Nat} {b : Bool} (hd : InCtx c dst)
    (hf : c.type_locals_len + c.type_stack_len ≤ fuel) (hsrc : SrcOk m fuel c src dst b)
    (hold : m dst = some old) (href : _Py_TYPENODE_GET_TAG old = TYPE_REF) :
    ∃ m', __type_propagate_TYPE_OVERWRITE d m fuel c src dst b = .ok m'
      ∧ RefDetached m m' c dst (src_node src b) old := by
  have hl := hw.1.1
  obtain ⟨hsn, _, _⟩ := srcOk_facts hw hd hf hsrc
  have hnr : ¬ (_Py_TYPENODE_GET_TAG old = TYPE_ROOT_POSITIVE
      ∨ _Py_TYPENODE_GET_TAG old = TYPE_ROOT_NEGATIVE) := by
    rw [href]; decide
  rw [overwrite_body d hsrc hold, if_neg hnr, if_pos href, clear_tag_aligned (hd.aligned4 hl)]
  have hmap : ∀ a, InCtx c a →
      ∃ w, (fun a => if a = dst then some (src_node src b) else m a) a = some w := by
    intro a ha
    by_cases h : a = dst
    · exact ⟨src_node src b, by simp only [h, if_true]⟩
    · obtain ⟨v, hv, _⟩ := hw.1.get ha
      exact ⟨v, by simp only [h, if_false]; exact hv⟩
  obtain ⟨m', hm', hval⟩ := ref_loops hl hmap (_Py_TYPENODE_MAKE_REF dst) old
  refine ⟨m', hm', ?_, ?_, ?_⟩
  · rw [hval, if_pos hd]; simp [hsn]
  · intro a ha
    rw [hval, if_neg ha]
    have : a ≠ dst := fun e => ha (e ▸ hd)
    simp [this]
  · intro a ha hne
    rw [hval, if_pos ha]
    simp [hne]

end overwrite_detach

section overwrite_closed

theorem srcOk_node_ok {m : Mem} {c : _PyTier2TypeContext} (hw : WellFormed m c)
    {src dst fuel : Nat} {b : Bool} (hsrc : SrcOk m fuel c src dst b) :
    _Py_TYPENODE_GET_TAG (src_node src b) = TYPE_REF →
      InCtx c (_Py_TYPENODE_CLEAR_TAG (src_node src b)) := by
  intro htag
  rcases hsrc with ⟨hb, hroot⟩ | ⟨hb, hin, _⟩
  · subst hb
    have : src_node src true = src := rfl
    rw [this] at htag
    have := (is_root_iff src).1 hroot
    unfold TYPE_ROOT_POSITIVE TYPE_ROOT_NEGATIVE at this
    unfold TYPE_REF at htag
    omega
  · subst hb
    have : src_node src false = _Py_TYPENODE_MAKE_REF src := rfl
    rw [this, clear_tag_make_ref (hin.aligned4 hw.1.1)]
    exact hin

theorem closed_of_nodes {m : Mem} {c : _PyTier2TypeContext} (hl : Layout c)
    (h : ∀ a, InCtx c a → ∃ v, m a = some v ∧ _Py_TYPENODE_GET_TAG v ≠ TYPE_NULL
      ∧ (_Py_TYPENODE_GET_TAG v = TYPE_REF → InCtx c (_Py_TYPENODE_CLEAR_TAG v))) :
    Closed m c := by
  have node : ∀ a, InCtx c a → NodeOk m c a := by
    intro a ha
    obtain ⟨v, hv, h1, h2⟩ := h a ha
    unfold NodeOk
    rw [hv]
    exact ⟨h1, h2⟩
  exact ⟨hl, fun i hi => node _ (InCtx.locals hi), fun i hi => node _ (InCtx.stack hi)⟩

theorem rootDetached_closed {m m' : Mem} {c : _PyTier2TypeContext} (hw : WellFormed m c)
    {src dst fuel old : Nat} {b : Bool} (hd : InCtx c dst)
    (hf : c.type_locals_len + c.type_stack_len ≤ fuel) (hsrc : SrcOk m fuel c src dst b)
    (hold : m dst = some old) (hroot : _Py_TYPENODE_IS_ROOT old ≠ 0)
    (h : RootDetached m m' c dst (src_node src b) old) : Closed m' c := by
  have hl := hw.1.1
  obtain ⟨hdst, _, hcases⟩ := h
  obtain ⟨_, hsntag, _⟩ := srcOk_facts hw hd hf hsrc
  apply closed_of_nodes hl
  intro a ha
  by_cases hne : a = dst
  · subst hne
    exact ⟨_, hdst, hsntag, srcOk_node_ok hw hsrc⟩
  obtain ⟨v, hv, htag, href⟩ := hw.1.get ha
  have holdtag : _Py_TYPENODE_GET_TAG old ≠ TYPE_NULL ∧ _Py_TYPENODE_GET_TAG old ≠ TYPE_REF := by
    have := (is_root_iff old).1 hroot
    unfold TYPE_ROOT_POSITIVE TYPE_ROOT_NEGATIVE at this
    unfold TYPE_NULL TYPE_REF
    omega
  rcases hcases with hnone | ⟨c1, hfirst, hc1, hc1v, hall⟩
  · exact ⟨v, by rw [(hnone a ha hne).2]; exact hv, htag, href⟩
  · by_cases hac : a = c1
    · subst hac
      exact ⟨old, hc1v, holdtag.1, fun h => absurd h holdtag.2⟩
    · rw [hall a ha hne hac, hv]
      by_cases hvc : v = _Py_TYPENODE_MAKE_REF dst
      · refine ⟨_Py_TYPENODE_MAKE_REF c1, by simp [hvc], ?_, fun _ => ?_⟩
        · rw [tag_make_ref]; decide
        · rw [clear_tag_make_ref (hfirst.inCtx.aligned4 hl)]
          exact hfirst.inCtx
      · exact ⟨v, by simp [hvc], htag, href⟩

theorem refDetached_closed {m m' : Mem} {c : _PyTier2TypeContext} (hw : WellFormed m c)
    {src dst fuel old : Nat} {b : Bool} (hd : InCtx c dst)
    (hf : c.type_locals_len + c.type_stack_len ≤ fuel) (hsrc : SrcOk m fuel c src dst b)
    (hold : m dst = some old) (h : RefDetached m m' c dst (src_node src b) old) :
    Closed m' c := by
  have hl := hw.1.1
  obtain ⟨hdst, _, hall⟩ := h
  obtain ⟨_, hsntag, _⟩ := srcOk_facts hw hd hf hsrc
  obtain ⟨old', hold', holdtag, holdref⟩ := hw.1.get hd
  rw [hold] at hold'; cases hold'
  apply closed_of_nodes hl
  intro a ha
  by_cases hne : a = dst
  · subst hne
    exact ⟨_, hdst, hsntag, srcOk_node_ok hw hsrc⟩
  obtain ⟨v, hv, htag, href⟩ := hw.1.get ha
  rw [hall a ha hne, hv]
  by_cases hvc : v = _Py_TYPENODE_MAKE_REF dst
  · exact ⟨old, by simp [hvc], holdtag, holdref⟩
  · exact ⟨v, by simp [hvc], htag, href⟩

end overwrite_closed

section overwrite_roots

/-- Roots after the root `dst` has been detached: a node outside the former tree of
`dst` keeps its root; a former descendant of `dst` is rooted at the first child. -/
theorem rootDetached_rootAt {m m' : Mem} {c : _PyTier2TypeContext} (hc : Closed m c)
    {dst sn old : Nat} (hd : InCtx c dst) (hold : m dst = some old)
    (hroot : _Py_TYPENODE_IS_ROOT old ≠ 0) (h : RootDetached m m' c dst sn old)
    {a r d : Nat} (hr : RootAt m a r d) :
    InCtx c a → a ≠ dst →
      (r ≠ dst → RootAt m' a r d)
        ∧ (r = dst → ∃ c1 d', FirstChild m c (_Py_TYPENODE_MAKE_REF dst) c1 ∧ d' ≤ d
            ∧ RootAt m' a c1 d') := by
  have hl := hc.1
  obtain ⟨_, _, hcases⟩ := h
  -- nodes that are not children of `dst` keep their value
  have keep : ∀ a v, InCtx c a → a ≠ dst → m a = some v → v ≠ _Py_TYPENODE_MAKE_REF dst →
      m' a = some v := by
    intro a v ha hne hv hvc
    rcases hcases with hnone | ⟨c1, hfirst, hc1, hc1v, hall⟩
    · rw [(hnone a ha hne).2]; exact hv
    · have hac : a ≠ c1 := by
        intro e
        have := hfirst.child
        rw [← e, hv] at this
        exact hvc (by simpa using this)
      rw [hall a ha hne hac, hv]
      simp [hvc]
  induction hr with
  | root p v hv hvr =>
    intro hp hne
    refine ⟨fun _ => RootAt.root p v ?_ hvr, fun e => absurd e hne⟩
    exact keep p v hp hne hv (fun e => hvr (e ▸ is_root_make_ref dst))
  | step p v r d hv hvr hnext ih =>
    intro hp hne
    obtain ⟨v', hv', htag, href⟩ := hc.get hp
    rw [hv] at hv'; cases hv'
    have hisref : _Py_TYPENODE_GET_TAG v = TYPE_REF := by
      rcases (not_root_iff v).1 hvr with h | h
      · exact h
      · exact absurd h htag
    have hin := href hisref
    by_cases hvc : v = _Py_TYPENODE_MAKE_REF dst
    · -- `p` is a child of `dst`
      have hnd : _Py_TYPENODE_CLEAR_TAG v = dst := by
        rw [hvc]; exact clear_tag_make_ref (hd.aligned4 hl)
      rw [hnd] at hnext
      have hrd : r = dst ∧ d = 0 := by
        have := hnext.unique (RootAt.root dst old hold hroot)
        exact this
      obtain ⟨hr1, hd1⟩ := hrd
      refine ⟨fun h => absurd hr1 h, fun _ => ?_⟩
      rcases hcases with hnone | ⟨c1, hfirst, hc1, hc1v, hall⟩
      · exact absurd (hvc ▸ hv) (hnone p hp hne).1
      · by_cases hpc : p = c1
        · subst hpc
          exact ⟨p, 0, hfirst, Nat.zero_le _, RootAt.root p old hc1v hroot⟩
        · refine ⟨c1, 1, hfirst, by omega, ?_⟩
          refine RootAt.step p (_Py_TYPENODE_MAKE_REF c1) c1 0 ?_ (is_root_make_ref c1) ?_
          · rw [hall p hp hne hpc, hv]; simp [hvc]
          · rw [clear_tag_make_ref (hfirst.inCtx.aligned4 hl)]
            exact RootAt.root c1 old hc1v hroot
    · have hnd : _Py_TYPENODE_CLEAR_TAG v ≠ dst := by
        intro e
        apply hvc
        rw [← make_ref_clear_tag hisref, e]
      obtain ⟨ih1, ih2⟩ := ih hin hnd
      have hv'' := keep p v hp hne hv hvc
      refine ⟨fun h => RootAt.step p v r d hv'' hvr (ih1 h), fun h => ?_⟩
      obtain ⟨c1, d', hfirst, hd', hr'⟩ := ih2 h
      exact ⟨c1, d' + 1, hfirst, by omega, RootAt.step p v c1 d' hv'' hvr hr'⟩

/-- Roots after the `REF` node `dst` has been detached: every other node keeps its root
(the chain now bypasses `dst`). -/
theorem refDetached_rootAt {m m' : Mem} {c : _PyTier2TypeContext} (hc : Closed m c)
    {dst sn old : Nat} (hd : InCtx c dst) (hold : m dst = some old)
    (href : _Py_TYPENODE_GET_TAG old = TYPE_REF) (h : RefDetached m m' c dst sn old)
    {a r d : Nat} (hr : RootAt m a r d) :
    InCtx c a → ∃ d', d' ≤ d
      ∧ RootAt m' (if a = dst then _Py_TYPENODE_CLEAR_TAG old else a) r d' := by
  have hl := hc.1
  obtain ⟨_, _, hall⟩ := h
  have holdnr : _Py_TYPENODE_IS_ROOT old = 0 := (not_root_iff old).2 (Or.inl href)
  induction hr with
  | root p v hv hvr =>
    intro hp
    have hne : p ≠ dst := by
      intro e
      rw [e, hold] at hv
      cases hv
      exact hvr holdnr
    refine ⟨0, le_refl _, ?_⟩
    rw [if_neg hne]
    refine RootAt.root p v ?_ hvr
    rw [hall p hp hne, hv]
    have : v ≠ _Py_TYPENODE_MAKE_REF dst := fun e => hvr (e ▸ is_root_make_ref dst)
    simp [this]
  | step p v r d hv hvr hnext ih =>
    intro hp
    obtain ⟨v', hv', htag, hvref⟩ := hc.get hp
    rw [hv] at hv'; cases hv'
    have hisref : _Py_TYPENODE_GET_TAG v = TYPE_REF := by
      rcases (not_root_iff v).1 hvr with h | h
      · exact h
      · exact absurd h htag
    have hin := hvref hisref
    obtain ⟨d', hd', hr'⟩ := ih hin
    by_cases hpd : p = dst
    · -- the chain starts at `dst`: continue from its parent
      rw [if_pos hpd]
      rw [hpd, hold] at hv
      cases hv
      have hPne : _Py_TYPENODE_CLEAR_TAG old ≠ dst := by
        intro e
        rw [e] at hnext
        have h1 := RootAt.step dst old r d hold holdnr (e ▸ hnext)
        have := (hnext.unique h1).2
        omega
      rw [if_neg hPne] at hr'
      exact ⟨d', by omega, hr'⟩
    · rw [if_neg hpd]
      by_cases hvc : v = _Py_TYPENODE_MAKE_REF dst
      · -- `p` is a child of `dst`: it now refers to the parent of `dst`
        have hnd : _Py_TYPENODE_CLEAR_TAG v = dst := by
          rw [hvc]; exact clear_tag_make_ref (hd.aligned4 hl)
        rw [if_pos hnd] at hr'
        refine ⟨d' + 1, by omega, RootAt.step p old r d' ?_ holdnr hr'⟩
        rw [hall p hp hpd, hv]; simp [hvc]
      · have hnd : _Py_TYPENODE_CLEAR_TAG v ≠ dst := by
          intro e
          apply hvc
          rw [← make_ref_clear_tag hisref, e]
        rw [if_neg hnd] at hr'
        refine ⟨d' + 1, by omega, RootAt.step p v r d' ?_ hvr hr'⟩
        rw [hall p hp hpd, hv]; simp [hvc]

end overwrite_roots

section overwrite_frame

theorem FirstChild.same {m : Mem} {c : _PyTier2TypeContext} {ct c1 c2 : Nat}
    (h1 : FirstChild m c ct c1) (h2 : FirstChild m c ct c2) : c1 = c2 := by
  rcases h1 with ⟨i, hi, e1, hc1, hb1⟩ | ⟨j, hj, e1, hc1, hl1, hb1⟩
  · rcases h2 with ⟨i', hi', e2, hc2, hb2⟩ | ⟨j', hj', e2, hc2, hl2, hb2⟩
    · have : i = i' := by
        rcases Nat.lt_trichotomy i i' with h | h | h
        · exact absurd (e1 ▸ hc1) (hb2 i h)
        · exact h
        · exact absurd (e2 ▸ hc2) (hb1 i' h)
      rw [e1, e2, this]
    · exact absurd (e1 ▸ hc1) (hl2 i hi)
  · rcases h2 with ⟨i', hi', e2, hc2, hb2⟩ | ⟨j', hj', e2, hc2, hl2, hb2⟩
    · exact absurd (e2 ▸ hc2) (hl1 i' hi')
    · have : j = j' := by
        rcases Nat.lt_trichotomy j j' with h | h | h
        · exact absurd (e1 ▸ hc1) (hb2 j h)
        · exact h
        · exact absurd (e2 ▸ hc2) (hb1 j' h)
      rw [e1, e2, this]

theorem rootDetached_keep {m m' : Mem} {c : _PyTier2TypeContext} {dst sn old : Nat}
    (h : RootDetached m m' c dst sn old) {a v : Nat} (ha : InCtx c a) (hne : a ≠ dst)
    (hv : m a = some v) (hvc : v ≠ _Py_TYPENODE_MAKE_REF dst) : m' a = some v := by
  obtain ⟨_, _, hcases⟩ := h
  rcases hcases with hnone | ⟨c1, hfirst, hc1, hc1v, hall⟩
  · rw [(hnone a ha hne).2]; exact hv
  · have hac : a ≠ c1 := by
      intro e
      have := hfirst.child
      rw [← e, hv] at this
      exact hvc (by simpa using this)
    rw [hall a ha hne hac, hv]
    simp [hvc]

/-- If every node other than `dst` has, in `m'`, the root `ρ r` where `r` was its root in
`m`, with the same root value and no longer chain, and `ρ` does not merge roots, then
root values and the same-tree relation of nodes other than `dst` are unchanged. -/
theorem frame_of_roots {m m' : Mem} {c : _PyTier2TypeContext} (hw : WellFormed m c)
    (hc' : Closed m' c) {dst fuel : Nat} (hf : c.type_locals_len + c.type_stack_len ≤ fuel)
    (ρ : Nat → Nat)
    (H : ∀ a r d, InCtx c a → a ≠ dst → RootAt m a r d →
      ∃ d', d' ≤ d ∧ RootAt m' a (ρ r) d' ∧ ∃ rv, m r = some rv ∧ m' (ρ r) = some rv)
    (Hinj : ∀ a b ra rb da db, InCtx c a → a ≠ dst → InCtx c b → b ≠ dst →
      RootAt m a ra da → RootAt m b rb db → ρ ra = ρ rb → ra = rb) :
    (∀ a, InCtx c a → a ≠ dst →
        (load m' a >>= typenode_get_root m' fuel) = (load m a >>= typenode_get_root m fuel)
          ∧ ∃ rv, (load m a >>= typenode_get_root m fuel) = .ok rv)
      ∧ (∀ a b, InCtx c a → InCtx c b → a ≠ dst → b ≠ dst →
          typenode_is_same_tree m' fuel a b = typenode_is_same_tree m fuel a b
            ∧ ∃ t, typenode_is_same_tree m fuel a b = .ok t) := by
  constructor
  · intro a ha hne
    obtain ⟨r, d, hr, hd, _⟩ := hw.rootAt ha
    obtain ⟨d', hd', hr', rv, hrv, hrv'⟩ := H a r d ha hne hr
    obtain ⟨v, hv, htag, _⟩ := hw.1.get ha
    obtain ⟨v', hv', htag', _⟩ := hc'.get ha
    have e1 : (load m a >>= typenode_get_root m fuel) = .ok rv := by
      rw [load_eq hv]
      exact typenode_get_root_eq hv htag hr (by omega) hrv
    have e2 : (load m' a >>= typenode_get_root m' fuel) = .ok rv := by
      rw [load_eq hv']
      exact typenode_get_root_eq hv' htag' hr' (by omega) hrv'
    exact ⟨by rw [e1, e2], rv, e1⟩
  · intro a b ha hb hna hnb
    obtain ⟨ra, da, hra, hda, _⟩ := hw.rootAt ha
    obtain ⟨rb, db, hrb, hdb, _⟩ := hw.rootAt hb
    obtain ⟨da', hda', hra', _⟩ := H a ra da ha hna hra
    obtain ⟨db', hdb', hrb', _⟩ := H b rb db hb hnb hrb
    rw [same_tree_eq hw.1 ha hb hra hrb (by omega) (by omega),
      same_tree_eq hc' ha hb hra' hrb' (by omega) (by omega)]
    refine ⟨?_, _, rfl⟩
    congr 1
    apply decide_eq_decide.2
    constructor
    · exact Hinj a b ra rb da db ha hna hb hnb hra hrb
    · intro e; rw [e]

end overwrite_frame

section overwrite_frame_cases

/-- The map on roots induced by detaching the root `dst`: the tree of `dst` is now rooted
at the first child `c1`. -/
theorem rootDetached_roots {m m' : Mem} {c : _PyTier2TypeContext} (hw : WellFormed m c)
    {dst sn old : Nat} (hd : InCtx c dst) (hold : m dst = some old)
    (hroot : _Py_TYPENODE_IS_ROOT old ≠ 0) (h : RootDetached m m' c dst sn old) :
    ∃ ρ : Nat → Nat,
      (∀ c1, FirstChild m c (_Py_TYPENODE_MAKE_REF dst) c1 → ρ dst = c1)
      ∧ (∀ r, r ≠ dst → ρ r = r)
      ∧ (∀ a r d, InCtx c a → a ≠ dst → RootAt m a r d →
          ∃ d', d' ≤ d ∧ RootAt m' a (ρ r) d' ∧ ∃ rv, m r = some rv ∧ m' (ρ r) = some rv)
      ∧ (∀ a b ra rb da db, InCtx c a → a ≠ dst → InCtx c b → b ≠ dst →
          RootAt m a ra da → RootAt m b rb db → ρ ra = ρ rb → ra = rb) := by
  have hc := hw.1
  have holdne : old ≠ _Py_TYPENODE_MAKE_REF dst := fun e => hroot (e ▸ is_root_make_ref dst)
  -- the value of a root other than `dst` is kept
  have keeproot : ∀ a r d, InCtx c a → RootAt m a r d → r ≠ dst →
      ∃ rv, m r = some rv ∧ m' r = some rv := by
    intro a r d ha hr hne
    obtain ⟨rv, hrv, hrr⟩ := hr.root_is_root
    exact ⟨rv, hrv, rootDetached_keep h (hc.rootAt_inCtx hr ha) hne hrv
      (fun e => hrr (e ▸ is_root_make_ref dst))⟩
  obtain ⟨hdst, hout, hcases⟩ := h
  rcases hcases with hnone | ⟨c1, hfirst, hc1, hc1v, hall⟩
  · -- `dst` has no child: no other node is rooted at `dst`
    have nochild : ∀ c1, ¬ FirstChild m c (_Py_TYPENODE_MAKE_REF dst) c1 := by
      intro c1 hf
      have hne : c1 ≠ dst := by
        intro e
        have := hf.child
        rw [e, hold] at this
        exact holdne (by simpa using this)
      exact (hnone c1 hf.inCtx hne).1 hf.child
    have hne_root : ∀ a r d, InCtx c a → a ≠ dst → RootAt m a r d → r ≠ dst := by
      intro a r d ha hne hr e
      obtain ⟨c1, _, hf, _⟩ :=
        (rootDetached_rootAt hc hd hold hroot ⟨hdst, hout, Or.inl hnone⟩ hr ha hne).2 e
      exact nochild c1 hf
    refine ⟨id, fun c1 hf => absurd hf (nochild c1), fun _ _ => rfl, ?_, ?_⟩
    · intro a r d ha hne hr
      have hrne := hne_root a r d ha hne hr
      exact ⟨d, le_refl _,
        (rootDetached_rootAt hc hd hold hroot ⟨hdst, hout, Or.inl hnone⟩ hr ha hne).1 hrne,
        keeproot a r d ha hr hrne⟩
    · intro a b ra rb da db _ _ _ _ _ _ e
      exact e
  · have hdet : RootDetached m m' c dst sn old :=
      ⟨hdst, hout, Or.inr ⟨c1, hfirst, hc1, hc1v, hall⟩⟩
    refine ⟨fun r => if r = dst then c1 else r, fun c2 hf => ?_, fun r hr => by simp [hr],
      ?_, ?_⟩
    · simp only [if_true]
      exact hfirst.same hf
    · intro a r d ha hne hr
      obtain ⟨h1, h2⟩ := rootDetached_rootAt hc hd hold hroot hdet hr ha hne
      by_cases hrd : r = dst
      · obtain ⟨c2, d', hf2, hd', hr'⟩ := h2 hrd
        have : c2 = c1 := hf2.same hfirst
        subst this
        refine ⟨d', hd', by simpa [hrd] using hr', old, by rw [hrd]; exact hold, ?_⟩
        simpa [hrd] using hc1v
      · simp only [hrd, if_false]
        exact ⟨d, le_refl _, h1 hrd, keeproot a r d ha hr hrd⟩
    · intro a b ra rb da db ha _ hb _ hra hrb e
      -- `c1` is not a root of `m`
      have c1_not_root : ∀ x r d, RootAt m x r d → r ≠ c1 := by
        intro x r d hr e
        obtain ⟨rv, hrv, hrr⟩ := hr.root_is_root
        rw [e, hfirst.child] at hrv
        cases hrv
        exact hrr (is_root_make_ref dst)
      by_cases h1 : ra = dst
      · by_cases h2 : rb = dst
        · rw [h1, h2]
        · simp only [h1, h2, if_true, if_false] at e
          exact absurd e.symm (c1_not_root b rb db hrb)
      · by_cases h2 : rb = dst
        · simp only [h1, h2, if_true, if_false] at e
          exact absurd e (c1_not_root a ra da hra)
        · simpa [h1, h2] using e

theorem refDetached_roots {m m' : Mem} {c : _PyTier2TypeContext} (hw : WellFormed m c)
    {dst sn old : Nat} (hd : InCtx c dst) (hold : m dst = some old)
    (href : _Py_TYPENODE_GET_TAG old = TYPE_REF) (h : RefDetached m m' c dst sn old) :
    ∀ a r d, InCtx c a → a ≠ dst → RootAt m a r d →
      ∃ d', d' ≤ d ∧ RootAt m' a r d' ∧ ∃ rv, m r = some rv ∧ m' r = some rv := by
  intro a r d ha hne hr
  obtain ⟨d', hd', hr'⟩ := refDetached_rootAt hw.1 hd hold href h hr ha
  rw [if_neg hne] at hr'
  refine ⟨d', hd', hr', ?_⟩
  obtain ⟨rv, hrv, hrr⟩ := hr.root_is_root
  refine ⟨rv, hrv, ?_⟩
  have hrin := hw.1.rootAt_inCtx hr ha
  have hrne : r ≠ dst := by
    intro e
    rw [e, hold] at hrv
    cases hrv
    exact hrr ((not_root_iff old).2 (Or.inl href))
  rw [h.2.2 r hrin hrne, hrv]
  have : rv ≠ _Py_TYPENODE_MAKE_REF dst := fun e => hrr (e ▸ is_root_make_ref dst)
  simp [this]

end overwrite_frame_cases

theorem no_self_ref {m : Mem} {c : _PyTier2TypeContext} (hw : WellFormed m c) {p : Nat}
    (hp : InCtx c p) : m p ≠ some (_Py_TYPENODE_MAKE_REF p) := by
  intro hv
  obtain ⟨r, d, hr, _, _⟩ := hw.rootAt hp
  have hstep := RootAt.step p _ r d hv (is_root_make_ref p)
    (by rw [clear_tag_make_ref (hp.aligned4 hw.1.1)]; exact hr)
  have := (hr.unique hstep).2
  omega

/-- C10: TYPE_OVERWRITE detaches only `dst`: for every acyclic context, node `dst` (root
or `REF`) and `src` not in `dst`'s tree (or a new root value), the call returns a heap in
which `dst` holds the source, every node other than `dst` resolves to the same root value
as before, and the same-tree relation between any two nodes other than `dst` is
unchanged; when `dst` was a `REF`, its former direct children now hold the former value
of `dst`, the reference to its former parent. -/
theorem type_overwrite_detaches_only_dst (Py_DEBUG : Bool) (m : Mem)
    (c : _PyTier2TypeContext) (fuel src dst : Nat) (src_is_new : Bool)
    (hw : WellFormed m c) (hd : InCtx c dst)
    (hf : c.type_locals_len + c.type_stack_len ≤ fuel)
    (hsrc : SrcOk m fuel c src dst src_is_new) :
    ∃ m', __type_propagate_TYPE_OVERWRITE Py_DEBUG m fuel c src dst src_is_new = .ok m'
      ∧ m' dst = some (src_node src src_is_new)
      ∧ (∀ a, InCtx c a → a ≠ dst →
          (load m' a >>= typenode_get_root m' fuel) = (load m a >>= typenode_get_root m fuel)
            ∧ ∃ rv, (load m a >>= typenode_get_root m fuel) = .ok rv)
      ∧ (∀ a b, InCtx c a → InCtx c b → a ≠ dst → b ≠ dst →
          typenode_is_same_tree m' fuel a b = typenode_is_same_tree m fuel a b
            ∧ ∃ t, typenode_is_same_tree m fuel a b = .ok t)
      ∧ (∀ old, m dst = some old → _Py_TYPENODE_GET_TAG old = TYPE_REF →
          ∀ a, InCtx c a → m a = some (_Py_TYPENODE_MAKE_REF dst) → m' a = some old) := by
  obtain ⟨old, hold, htag, _⟩ := hw.1.get hd
  by_cases hroot : _Py_TYPENODE_IS_ROOT old ≠ 0
  · obtain ⟨m', hm', hdet⟩ := overwrite_root_eval Py_DEBUG hw hd hf hsrc hold hroot
    have hc' := rootDetached_closed hw hd hf hsrc hold hroot hdet
    obtain ⟨ρ, _, _, H, Hinj⟩ := rootDetached_roots hw hd hold hroot hdet
    obtain ⟨f1, f2⟩ := frame_of_roots hw hc' hf ρ H Hinj
    refine ⟨m', hm', hdet.1, f1, f2, fun old' hold' href => ?_⟩
    rw [hold] at hold'; cases hold'
    have := (is_root_iff old).1 hroot
    rw [href] at this
    exact absurd this (by decide)
  · have href : _Py_TYPENODE_GET_TAG old = TYPE_REF := by
      rcases (not_root_iff old).1 (by simpa using hroot) with h | h
      · exact h
      · exact absurd h htag
    obtain ⟨m', hm', hdet⟩ := overwrite_ref_eval Py_DEBUG hw hd hf hsrc hold href
    have hc' := refDetached_closed hw hd hf hsrc hold hdet
    obtain ⟨f1, f2⟩ := frame_of_roots hw hc' hf id
      (refDetached_roots hw hd hold href hdet) (fun _ _ _ _ _ _ _ _ _ _ _ _ e => e)
    refine ⟨m', hm', hdet.1, f1, f2, fun old' hold' _ a ha hv => ?_⟩
    rw [hold] at hold'; cases hold'
    have hne : a ≠ dst := by
      intro e
      rw [e] at hv
      exact no_self_ref hw hd hv
    rw [hdet.2.2 a ha hne, hv]
    simp

theorem type_overwrite_detaches_only_dst_witness :
    WellFormed ex_mem ex_ctx ∧ InCtx ex_ctx 136 ∧ SrcOk ex_mem 5 ex_ctx 72 136 false
      ∧ ∃ m', __type_propagate_TYPE_OVERWRITE true ex_mem 5 ex_ctx 72 136 false = .ok m'
        ∧ m' 136 = some (src_node 72 false)
        ∧ (∀ a, InCtx ex_ctx a → a ≠ 136 →
            (load m' a >>= typenode_get_root m' 5) = (load ex_mem a >>= typenode_get_root ex_mem 5)
              ∧ ∃ rv, (load ex_mem a >>= typenode_get_root ex_mem 5) = .ok rv)
        ∧ (∀ a b, InCtx ex_ctx a → InCtx ex_ctx b → a ≠ 136 → b ≠ 136 →
            typenode_is_same_tree m' 5 a b = typenode_is_same_tree ex_mem 5 a b
              ∧ ∃ t, typenode_is_same_tree ex_mem 5 a b = .ok t)
        ∧ (∀ old, ex_mem 136 = some old → _Py_TYPENODE_GET_TAG old = TYPE_REF →
            ∀ a, InCtx ex_ctx a → ex_mem a = some (_Py_TYPENODE_MAKE_REF 136) →
              m' a = some old) :=
  ⟨by decide, by decide, by decide,
    type_overwrite_detaches_only_dst true ex_mem ex_ctx 5 72 136 false (by decide) (by decide)
      (by decide) (by decide)⟩

/-- C9: for every acyclic context and node `dst` that is a root with at least one direct
child, after `__type_propagate_TYPE_OVERWRITE(src, dst, true)` with a new root value
`src`: `dst` holds `src` and is alone in its tree (no other node is in the tree of
`dst`), and the former descendants of `dst` form exactly one tree: its root `c1` is the
first direct child of `dst` in the scan order locals then stack, `c1` holds the former
root value of `dst`, and a node other than `dst` is in the tree of `c1` exactly when it
was in the tree of `dst`. -/
theorem type_overwrite_root_elects_child (Py_DEBUG : Bool) (m : Mem)
    (c : _PyTier2TypeContext) (fuel src dst old : Nat)
    (hw : WellFormed m c) (hd : InCtx c dst)
    (hf : c.type_locals_len + c.type_stack_len ≤ fuel)
    (hsrc : _Py_TYPENODE_IS_ROOT src ≠ 0)
    (hold : m dst = some old) (hroot : _Py_TYPENODE_IS_ROOT old ≠ 0)
    (hchild : ∃ a, InCtx c a ∧ m a = some (_Py_TYPENODE_MAKE_REF dst)) :
    ∃ m' c1, __type_propagate_TYPE_OVERWRITE Py_DEBUG m fuel c src dst true = .ok m'
      ∧ m' dst = some src
      ∧ (∀ a, InCtx c a → a ≠ dst → typenode_is_same_tree m' fuel a dst = .ok false)
      ∧ FirstChild m c (_Py_TYPENODE_MAKE_REF dst) c1
      ∧ m' c1 = some old
      ∧ (∀ a, InCtx c a → a ≠ dst →
          typenode_is_same_tree m' fuel a c1 = typenode_is_same_tree m fuel a dst
            ∧ ∃ t, typenode_is_same_tree m fuel a dst = .ok t) := by
  have hso : SrcOk m fuel c src dst true := Or.inl ⟨rfl, hsrc⟩
  obtain ⟨m', hm', hdet⟩ := overwrite_root_eval Py_DEBUG hw hd hf hso hold hroot
  have hc' := rootDetached_closed hw hd hf hso hold hroot hdet
  obtain ⟨ρ, hρ1, hρ2, H, _⟩ := rootDetached_roots hw hd hold hroot hdet
  have hdstv : m' dst = some src := hdet.1
  have holdne : old ≠ _Py_TYPENODE_MAKE_REF dst := fun e => hroot (e ▸ is_root_make_ref dst)
  -- the first child exists
  obtain ⟨c1, hfirst, hc1, hc1v⟩ : ∃ c1, FirstChild m c (_Py_TYPENODE_MAKE_REF dst) c1
      ∧ c1 ≠ dst ∧ m' c1 = some old := by
    rcases hdet.2.2 with hnone | ⟨c1, hfirst, hc1, hc1v, _⟩
    · obtain ⟨a, ha, hv⟩ := hchild
      have hne : a ≠ dst := by
        intro e
        rw [e, hold] at hv
        exact holdne (by simpa using hv)
      exact absurd hv (hnone a ha hne).1
    · exact ⟨c1, hfirst, hc1, hc1v⟩
  have hρdst : ρ dst = c1 := hρ1 c1 hfirst
  have hrdst' : RootAt m' dst dst 0 := RootAt.root dst src hdstv hsrc
  have hrdst : RootAt m dst dst 0 := RootAt.root dst old hold hroot
  have hrc1' : RootAt m' c1 c1 0 := RootAt.root c1 old hc1v hroot
  -- the root in `m'` of a node other than `dst` is not `dst`
  have ρne : ∀ r, ρ r ≠ dst := by
    intro r
    by_cases h : r = dst
    · rw [h, hρdst]; exact hc1
    · rw [hρ2 r h]; exact h
  refine ⟨m', c1, hm', hdstv, fun a ha hne => ?_, hfirst, hc1v, fun a ha hne => ?_⟩
  · obtain ⟨r, d, hr, hdlt, _⟩ := hw.rootAt ha
    obtain ⟨d', hd', hr', _⟩ := H a r d ha hne hr
    rw [same_tree_eq hc' ha hd hr' hrdst' (by omega) (by omega)]
    simp [ρne r]
  · obtain ⟨r, d, hr, hdlt, _⟩ := hw.rootAt ha
    obtain ⟨d', hd', hr', _⟩ := H a r d ha hne hr
    rw [same_tree_eq hc' ha hfirst.inCtx hr' hrc1' (by omega) (by omega),
      same_tree_eq hw.1 ha hd hr hrdst (by omega) (by omega)]
    refine ⟨?_, _, rfl⟩
    congr 1
    apply decide_eq_decide.2
    constructor
    · intro e
      by_contra h
      rw [hρ2 r h] at e
      -- `c1` is not a root of `m`
      obtain ⟨rv, hrv, hrr⟩ := hr.root_is_root
      rw [e, hfirst.child] at hrv
      cases hrv
      exact hrr (is_root_make_ref dst)
    · intro e
      rw [e, hρdst]

theorem type_overwrite_root_elects_child_witness :
    WellFormed ex_mem ex_ctx ∧ InCtx ex_ctx 64 ∧ _Py_TYPENODE_IS_ROOT 17 ≠ 0
      ∧ ex_mem 64 = some 1 ∧ _Py_TYPENODE_IS_ROOT 1 ≠ 0
      ∧ (∃ a, InCtx ex_ctx a ∧ ex_mem a = some (_Py_TYPENODE_MAKE_REF 64))
      ∧ ∃ m' c1, __type_propagate_TYPE_OVERWRITE true ex_mem 5 ex_ctx 17 64 true = .ok m'
        ∧ m' 64 = some 17
        ∧ (∀ a, InCtx ex_ctx a → a ≠ 64 → typenode_is_same_tree m' 5 a 64 = .ok false)
        ∧ FirstChild ex_mem ex_ctx (_Py_TYPENODE_MAKE_REF 64) c1
        ∧ m' c1 = some 1
        ∧ (∀ a, InCtx ex_ctx a → a ≠ 64 →
            typenode_is_same_tree m' 5 a c1 = typenode_is_same_tree ex_mem 5 a 64
              ∧ ∃ t, typenode_is_same_tree ex_mem 5 a 64 = .ok t) :=
  ⟨by decide, by decide, by decide, by decide, by decide, ⟨136, by decide, by decide⟩,
    type_overwrite_root_elects_child true ex_mem ex_ctx 5 17 64 1 (by decide) (by decide)
      (by decide) (by decide) (by decide) (by decide) ⟨136, by decide, by decide⟩⟩

/-! ## A context and its copy -/

section copy_sim

theorem copy_of_layout {m : Mem} {c : _PyTier2TypeContext} {tl ts : Nat} (hl : Layout c)
    (hf : FreshArrays m c tl ts) : Layout (copy_of c tl ts) := by
  obtain ⟨ha, h1, h2, h3⟩ := hl
  obtain ⟨hn, _, _⟩ := hf
  refine ⟨hn, ?_, ?_, ?_⟩
  · show ts ≤ ts + (c.type_stack_ptr - c.type_stack); omega
  · show ts + (c.type_stack_ptr - c.type_stack) ≤ ts + 8 * c.type_stack_len; omega
  · show (ts + (c.type_stack_ptr - c.type_stack)) % 8 = 0
    have := ha.2.2.2.1
    have := hn.2.2.2.1
    omega

theorem copy_of_inCtx {c : _PyTier2TypeContext} {tl ts q : Nat}
    (hl : Layout c) (hq : InCtx (copy_of c tl ts) q) :
    ∃ p, InCtx c p ∧ q = reloc c tl ts p := by
  rcases hq with ⟨i, hi, rfl⟩ | ⟨j, hj, rfl⟩
  · have hi' : i < c.type_locals_len := hi
    exact ⟨c.type_locals + 8 * i, InCtx.locals hi', (reloc_locals tl ts hi').symm⟩
  · have hj' : j < c.type_stack_len := hj
    exact ⟨c.type_stack + 8 * j, InCtx.stack hj', (reloc_stack hl tl ts hj').symm⟩

theorem reloc_inCtx_copy {c : _PyTier2TypeContext} (tl ts : Nat) {p : Nat}
    (hl : Layout c) (hp : InCtx c p) : InCtx (copy_of c tl ts) (reloc c tl ts p) :=
  @reloc_inCtx c (copy_of c tl ts) hl rfl rfl p hp

theorem reloc_node_tag (c : _PyTier2TypeContext) (tl ts v : Nat) :
    _Py_TYPENODE_GET_TAG (reloc_node c tl ts v) = _Py_TYPENODE_GET_TAG v := by
  unfold reloc_node
  split
  · next h => rw [tag_make_ref, h]
  · rfl

theorem reloc_node_root {c : _PyTier2TypeContext} {tl ts v : Nat}
    (h : _Py_TYPENODE_IS_ROOT v ≠ 0) : reloc_node c tl ts v = v := by
  have h1 := (is_root_iff v).1 h
  have h2 : _Py_TYPENODE_GET_TAG v ≠ TYPE_REF := by
    unfold TYPE_REF; unfold TYPE_ROOT_POSITIVE TYPE_ROOT_NEGATIVE at h1; omega
  simp [reloc_node, h2]

/-- Root chains of the original are kept by the copy operation, and mirrored in the copy. -/
theorem copy_rootAt {m m' : Mem} {c : _PyTier2TypeContext} {tl ts : Nat}
    (hc : Closed m c) (hf : FreshArrays m c tl ts) (hh : CopyHeap m m' c tl ts)
    {p r d : Nat} (h : RootAt m p r d) :
    InCtx c p → RootAt m' p r d ∧ RootAt m' (reloc c tl ts p) (reloc c tl ts r) d := by
  have hl := hc.1
  have hl' := copy_of_layout hl hf
  induction h with
  | root p v hv hr =>
    intro hp
    obtain ⟨v', hv', hm', hm''⟩ := hh p hp
    rw [hv] at hv'; cases hv'
    refine ⟨RootAt.root p v hm' hr, RootAt.root _ v ?_ hr⟩
    rw [hm'', reloc_node_root hr]
  | step p v r d hv hr _ ih =>
    intro hp
    obtain ⟨v', hv', hm', hm''⟩ := hh p hp
    rw [hv] at hv'; cases hv'
    obtain ⟨w, hw, htag, href⟩ := hc.get hp
    rw [hv] at hw; cases hw
    have hisref : _Py_TYPENODE_GET_TAG v = TYPE_REF := by
      rcases (not_root_iff v).1 hr with h | h
      · exact h
      · exact absurd h htag
    have hin := href hisref
    obtain ⟨ih1, ih2⟩ := ih hin
    refine ⟨RootAt.step p v r d hm' hr ih1, ?_⟩
    have e : reloc_node c tl ts v
        = _Py_TYPENODE_MAKE_REF (reloc c tl ts (_Py_TYPENODE_CLEAR_TAG v)) := by
      simp [reloc_node, hisref]
    refine RootAt.step _ (reloc_node c tl ts v) _ d hm'' ?_ ?_
    · rw [e]; exact is_root_make_ref _
    · rw [e, clear_tag_make_ref ((reloc_inCtx_copy tl ts hl hin).aligned4 hl')]
      exact ih2

theorem copy_wellFormed {m m' : Mem} {c : _PyTier2TypeContext} {tl ts : Nat}
    (hw : WellFormed m c) (hf : FreshArrays m c tl ts) (hh : CopyHeap m m' c tl ts) :
    WellFormed m' c ∧ WellFormed m' (copy_of c tl ts) := by
  have hl := hw.1.1
  have hl' := copy_of_layout hl hf
  have old : ∀ a, InCtx c a → NodeOk m' c a ∧ Rooted m' c a := by
    intro a ha
    obtain ⟨v, hv, hm', _⟩ := hh a ha
    obtain ⟨w, hw', htag, href⟩ := hw.1.get ha
    rw [hv] at hw'; cases hw'
    constructor
    · unfold NodeOk; rw [hm']; exact ⟨htag, href⟩
    · obtain ⟨r, d, hr, hd, _⟩ := hw.rootAt ha
      exact ⟨r, get_rootptr_of_rootAt (copy_rootAt hw.1 hf hh hr ha).1 _ _
        (clear_tag_make_ref (ha.aligned4 hl)) hd⟩
  have new : ∀ q, InCtx (copy_of c tl ts) q →
      NodeOk m' (copy_of c tl ts) q ∧ Rooted m' (copy_of c tl ts) q := by
    intro q hq
    obtain ⟨p, hp, rfl⟩ := copy_of_inCtx hl hq
    obtain ⟨v, hv, _, hm''⟩ := hh p hp
    obtain ⟨w, hw', htag, href⟩ := hw.1.get hp
    rw [hv] at hw'; cases hw'
    constructor
    · unfold NodeOk
      rw [hm'']
      simp only [reloc_node_tag]
      refine ⟨htag, fun hisref => ?_⟩
      have hin := href hisref
      have e : reloc_node c tl ts v
          = _Py_TYPENODE_MAKE_REF (reloc c tl ts (_Py_TYPENODE_CLEAR_TAG v)) := by
        simp [reloc_node, hisref]
      rw [e, clear_tag_make_ref ((reloc_inCtx_copy tl ts hl hin).aligned4 hl')]
      exact reloc_inCtx_copy tl ts hl hin
    · obtain ⟨r, d, hr, hd, _⟩ := hw.rootAt hp
      exact ⟨_, get_rootptr_of_rootAt (copy_rootAt hw.1 hf hh hr hp).2 _ _
        (clear_tag_make_ref (hq.aligned4 hl')) hd⟩
  exact ⟨⟨⟨hl, fun i hi => (old _ (InCtx.locals hi)).1, fun i hi => (old _ (InCtx.stack hi)).1⟩,
      ⟨fun i hi => (old _ (InCtx.locals hi)).2, fun i hi => (old _ (InCtx.stack hi)).2⟩⟩,
    ⟨⟨hl', fun i hi => (new _ (InCtx.locals hi)).1, fun i hi => (new _ (InCtx.stack hi)).1⟩,
      ⟨fun i hi => (new _ (InCtx.locals hi)).2, fun i hi => (new _ (InCtx.stack hi)).2⟩⟩⟩

end copy_sim

section copy_diff

theorem copy_sameDims {m : Mem} {c : _PyTier2TypeContext} {tl ts : Nat} (hl : Layout c)
    (hf : FreshArrays m c tl ts) : SameDims c (copy_of c tl ts) := by
  refine ⟨rfl, rfl, ?_⟩
  obtain ⟨k, _, hk, hse⟩ := layout_stack_elems hl
  obtain ⟨k', _, hk', hse'⟩ := layout_stack_elems (copy_of_layout hl hf)
  have e : (copy_of c tl ts).type_stack_ptr = ts + (c.type_stack_ptr - c.type_stack) := rfl
  have e2 : (copy_of c tl ts).type_stack = ts := rfl
  rw [e, e2] at hk'
  have : k = k' := by omega
  rw [hse, hse', this]

/-- Root value of a node, in terms of its root chain. -/
theorem load_get_root_eq {m : Mem} {p v r d rv fuel : Nat} (hv : m p = some v)
    (htag : _Py_TYPENODE_GET_TAG v ≠ TYPE_NULL) (h : RootAt m p r d) (hd : d ≤ fuel)
    (hrv : m r = some rv) : (load m p >>= typenode_get_root m fuel) = .ok rv := by
  rw [load_eq hv]
  exact typenode_get_root_eq hv htag h hd hrv

theorem node_type_of_root (d : Bool) {m : Mem} {p fuel rv : Nat}
    (h : (load m p >>= typenode_get_root m fuel) = .ok rv) :
    (load m p >>= typenode_get_type d m fuel) =
      (c_assert d (decide (_Py_TYPENODE_GET_TAG rv ≠ TYPE_ROOT_NEGATIVE)) >>= fun _ =>
        pure (_Py_TYPENODE_CLEAR_TAG rv)) := by
  cases hl : load m p with
  | error e => rw [hl] at h; simp at h
  | ok v =>
    rw [hl] at h
    simp only [ok_bind] at h ⊢
    unfold typenode_get_type
    rw [h]
    rfl

/-- In the heap after a copy, a node of the original and its copy resolve to the same
root value. -/
theorem copy_root_values {m m' : Mem} {c : _PyTier2TypeContext} {tl ts : Nat}
    (hw : WellFormed m c) (hf : FreshArrays m c tl ts) (hh : CopyHeap m m' c tl ts)
    {p fuel : Nat} (hp : InCtx c p) (hfuel : c.type_locals_len + c.type_stack_len ≤ fuel) :
    ∃ rv, (load m p >>= typenode_get_root m fuel) = .ok rv
      ∧ (load m' p >>= typenode_get_root m' fuel) = .ok rv
      ∧ (load m' (reloc c tl ts p) >>= typenode_get_root m' fuel) = .ok rv := by
  obtain ⟨r, d, hr, hd, hrin⟩ := hw.rootAt hp
  obtain ⟨hr1, hr2⟩ := copy_rootAt hw.1 hf hh hr hp
  obtain ⟨v, hv, hm', hm''⟩ := hh p hp
  obtain ⟨w, hw', htag, _⟩ := hw.1.get hp
  rw [hv] at hw'; cases hw'
  obtain ⟨rv, hrv, hrm', hrm''⟩ := hh r hrin
  obtain ⟨_, hrr⟩ := hr.root_is_root
  have hroot : _Py_TYPENODE_IS_ROOT rv ≠ 0 := by
    obtain ⟨rv', h1, h2⟩ := hr.root_is_root
    rw [hrv] at h1; cases h1; exact h2
  rw [reloc_node_root hroot] at hrm''
  refine ⟨rv, load_get_root_eq hv htag hr (by omega) hrv,
    load_get_root_eq hm' htag hr1 (by omega) hrm', ?_⟩
  exact load_get_root_eq hm'' (by rw [reloc_node_tag]; exact htag) hr2 (by omega) hrm''

theorem copy_compatible_node {m m' : Mem} {c : _PyTier2TypeContext} {tl ts : Nat}
    (hw : WellFormed m c) (hf : FreshArrays m c tl ts) (hh : CopyHeap m m' c tl ts)
    {p fuel : Nat} (hp : InCtx c p) (hfuel : c.type_locals_len + c.type_stack_len ≤ fuel) :
    typenode_is_compatible m' fuel c (copy_of c tl ts) p (reloc c tl ts p) = .ok true := by
  have hl := hw.1.1
  have hl' := copy_of_layout hl hf
  obtain ⟨hw1, hw2⟩ := copy_wellFormed hw hf hh
  obtain ⟨r, d, hr, hd, hrin⟩ := hw.rootAt hp
  obtain ⟨hr1, hr2⟩ := copy_rootAt hw.1 hf hh hr hp
  obtain ⟨v, hv, hm', hm''⟩ := hh p hp
  obtain ⟨w, hw', htag, _⟩ := hw.1.get hp
  rw [hv] at hw'; cases hw'
  have hself1 := same_tree_self hw1 hrin hfuel
  have hself2 := same_tree_self hw2 (reloc_inCtx_copy tl ts hl hrin) hfuel
  unfold typenode_is_compatible
  rw [load_eq hm']
  simp only [ok_bind]
  rw [rootref_of_eq hm' htag hr1 (by omega)]
  simp only [ok_bind]
  rw [load_eq hm'']
  simp only [ok_bind]
  rw [rootref_of_eq hm'' (by rw [reloc_node_tag]; exact htag) hr2 (by omega)]
  simp only [ok_bind]
  rcases hrin with ⟨i, hi, rfl⟩ | ⟨j, hj, rfl⟩
  · have hb : c.type_locals + 8 * i < 18446744073709551616 := by
      have := hl.1.2.2.2.2.2.1
      omega
    have hb' : tl + 8 * i < 18446744073709551616 := by
      have := hl'.1.2.2.2.2.2.1
      have e : (copy_of c tl ts).type_locals = tl := rfl
      have e2 : (copy_of c tl ts).type_locals_len = c.type_locals_len := rfl
      rw [e, e2] at this
      omega
    rw [reloc_locals tl ts hi] at hself2 ⊢
    have hloc' : typenode_get_location (copy_of c tl ts) (tl + 8 * i) = .ok ((i : Int), true) :=
      @get_location_locals (copy_of c tl ts) hl' i hi
    rw [get_location_locals hl hi, hloc']
    have e1 : ptr_index (copy_of c tl ts).type_locals (i : Int) = tl + 8 * i := ptr_index_nat hb'
    simp only [ok_bind, if_true, e1, ptr_index_nat hb, hself1, hself2]
  · have hb : c.type_stack + 8 * j < 18446744073709551616 := by
      have := hl.1.2.2.2.2.2.2.1
      omega
    have hb' : ts + 8 * j < 18446744073709551616 := by
      have := hl'.1.2.2.2.2.2.2.1
      have e : (copy_of c tl ts).type_stack = ts := rfl
      have e2 : (copy_of c tl ts).type_stack_len = c.type_stack_len := rfl
      rw [e, e2] at this
      omega
    rw [reloc_stack hl tl ts hj] at hself2 ⊢
    have hloc' : typenode_get_location (copy_of c tl ts) (ts + 8 * j) = .ok ((j : Int), false) :=
      @get_location_stack (copy_of c tl ts) hl' j hj
    rw [get_location_stack hl hj, hloc']
    have e1 : ptr_index (copy_of c tl ts).type_stack (j : Int) = ts + 8 * j := ptr_index_nat hb'
    simp only [ok_bind, Bool.false_eq_true, if_false, if_true, e1, ptr_index_nat hb, hself1,
      hself2]

theorem compatible_loop_all (m : Mem) (fuel : Nat) (c1 c2 : _PyTier2TypeContext)
    (arr1 arr2 : Nat) :
    ∀ (n i : Nat), (∀ k, i ≤ k → k < i + n →
        typenode_is_compatible m fuel c1 c2 (arr1 + 8 * k) (arr2 + 8 * k) = .ok true) →
      typecontext_is_compatible.loop m fuel c1 c2 arr1 arr2 n i = .ok true := by
  intro n
  induction n with
  | zero => intro i _; rfl
  | succ n ih =>
    intro i h
    unfold typecontext_is_compatible.loop
    rw [h i (le_refl _) (by omega)]
    simp only [ok_bind, Bool.not_true, Bool.false_eq_true, if_false]
    exact ih (i + 1) (fun k hk1 hk2 => h k (by omega) (by omega))

theorem diff_loop_same (d : Bool) (T : TypeObjects) (m : Mem) (fuel arr1 arr2 : Nat) :
    ∀ (n i : Nat) (diff : Int), diff ≤ INT_MAX →
      (∀ k, i ≤ k → k < i + n → ∃ a,
        (load m (arr1 + 8 * k) >>= typenode_get_type d m fuel) = .ok a
          ∧ (load m (arr2 + 8 * k) >>= typenode_get_type d m fuel) = .ok a) →
      diff_typecontext.loop d T m fuel arr1 arr2 n i diff = .ok (some diff) := by
  intro n
  induction n with
  | zero => intro i diff _ _; rfl
  | succ n ih =>
    intro i diff hdiff h
    obtain ⟨a, ha, hb⟩ := h i (le_refl _) (by omega)
    rw [diff_loop_succ]
    cases h1 : load m (arr1 + 8 * i) with
    | error e => rw [h1] at ha; simp at ha
    | ok n1 =>
    rw [h1] at ha
    simp only [ok_bind] at ha ⊢
    rw [ha]
    simp only [ok_bind]
    cases h2 : load m (arr2 + 8 * i) with
    | error e => rw [h2] at hb; simp at hb
    | ok n2 =>
    rw [h2] at hb
    simp only [ok_bind] at hb ⊢
    rw [hb]
    simp only [ok_bind, ne_eq, not_true_eq_false, and_false, false_and, if_false, add_zero,
      and_not_self]
    rw [if_neg (by omega)]
    exact ih (i + 1) diff hdiff (fun k hk1 hk2 => h k (by omega) (by omega))

end copy_diff

/-- Diffing a well-formed context with its own deep copy gives 0, provided (when
assertions are compiled in) that no local or live stack slot resolves to a negative
root: stated for the statements of both functions behind their prints of the
contexts. -/
theorem diff_typecontext_copy_zero (d : Bool) (T : TypeObjects) {m : Mem}
    {c : _PyTier2TypeContext} {tl ts nc fuel : Nat} (hw : WellFormed m c)
    (hf : FreshArrays m c tl ts) (hnc : nc ≠ 0)
    (hfuel : c.type_locals_len + c.type_stack_len ≤ fuel)
    (hpos : d = true → PositiveRoots m fuel c) :
    ∃ m', _PyTier2TypeContext_Copy.body d m c tl ts nc = .ok (m', some (copy_of c tl ts))
      ∧ diff_typecontext.body d T m' fuel c (copy_of c tl ts) = .ok 0 := by
  have hl := hw.1.1
  obtain ⟨m', hm', hh, _⟩ := copy_full d hw.1 hf hnc
  refine ⟨m', hm', ?_⟩
  have hh' : CopyHeap m m' c tl ts := hh
  obtain ⟨hL, hS, hH⟩ := copy_sameDims hl hf
  obtain ⟨k, hk, _, hse⟩ := layout_stack_elems hl
  have hse2 : stack_elems (copy_of c tl ts) = (k : Int) := hH ▸ hse
  -- compatibility
  have hcl := compatible_loop_all m' fuel c (copy_of c tl ts)
    c.type_locals tl c.type_locals_len 0 (fun i _ hi => by
      have hi' : i < c.type_locals_len := by omega
      have := copy_compatible_node hw hf hh' (InCtx.locals hi') hfuel
      rwa [reloc_locals tl ts hi'] at this)
  have hcs := compatible_loop_all m' fuel c (copy_of c tl ts)
    c.type_stack ts k 0 (fun j _ hj => by
      have hj' : j < c.type_stack_len := by omega
      have := copy_compatible_node hw hf hh' (InCtx.stack hj') hfuel
      rwa [reloc_stack hl tl ts hj'] at this)
  have hcompat : typecontext_is_compatible d m' fuel c (copy_of c tl ts) = .ok true := by
    unfold typecontext_is_compatible
    simp only [← hL, ← hS, ← hH, decide_True, c_assert_true, ok_bind]
    have e1 : (copy_of c tl ts).type_locals = tl := rfl
    have e2 : (copy_of c tl ts).type_stack = ts := rfl
    rw [e1, e2, hcl]
    simp only [ok_bind, Bool.not_true, Bool.false_eq_true, if_false, hse, Int.toNat_ofNat]
    exact hcs
  -- the types at corresponding positions
  have types : ∀ p, InCtx c p → (d = true → PositiveRoot m fuel p) → ∃ a,
      (load m' p >>= typenode_get_type d m' fuel) = .ok a
        ∧ (load m' (reloc c tl ts p) >>= typenode_get_type d m' fuel) = .ok a := by
    intro p hp hposp
    obtain ⟨rv, h0, h1, h2⟩ := copy_root_values hw hf hh' hp hfuel
    have hassert : c_assert d (decide (_Py_TYPENODE_GET_TAG rv ≠ TYPE_ROOT_NEGATIVE)) = .ok () := by
      cases d with
      | false => rfl
      | true =>
        have := hposp rfl
        unfold PositiveRoot at this
        rw [h0] at this
        rw [decide_eq_true this, c_assert_true]
    refine ⟨_Py_TYPENODE_CLEAR_TAG rv, ?_, ?_⟩
    · rw [node_type_of_root d h1, hassert]; rfl
    · rw [node_type_of_root d h2, hassert]; rfl
  have hdl := diff_loop_same d T m' fuel c.type_locals tl c.type_locals_len 0 0
    (by unfold INT_MAX; omega) (fun i _ hi => by
      have hi' : i < c.type_locals_len := by omega
      have := types _ (InCtx.locals hi') (fun h => (hpos h).1 i hi')
      rwa [reloc_locals tl ts hi'] at this)
  have hds := diff_loop_same d T m' fuel c.type_stack ts k 0 0
    (by unfold INT_MAX; omega) (fun j _ hj => by
      have hj' : j < c.type_stack_len := by omega
      have := types _ (InCtx.stack hj')
        (fun h => (hpos h).2 j (by rw [hse, Int.toNat_ofNat]; omega))
      rwa [reloc_stack hl tl ts hj'] at this)
  unfold diff_typecontext.body
  simp only [← hL, ← hS, ← hH, decide_True, c_assert_true, ok_bind, hcompat, Bool.not_true,
    Bool.false_eq_true, if_false]
  have e1 : (copy_of c tl ts).type_locals = tl := rfl
  have e2 : (copy_of c tl ts).type_stack = ts := rfl
  rw [e1, e2, hdl]
  simp only [ok_bind, hse, Int.toNat_ofNat]
  rw [hds]
  rfl

/-! ## Depth of a node in a closed context -/

/-- The nodes on the chain from a node of a closed context to its root are pairwise
distinct nodes of the context. -/
theorem rootAt_chain {m : Mem} {c : _PyTier2TypeContext} (hc : Closed m c)
    {p r d : Nat} (h : RootAt m p r d) :
    InCtx c p → ∃ l : List Nat, l.length = d + 1 ∧ l.Nodup
      ∧ ∀ a ∈ l, InCtx c a ∧ ∃ d', d' ≤ d ∧ RootAt m a r d' := by
  induction h with
  | root p v hv hr =>
    intro hp
    refine ⟨[p], rfl, List.nodup_singleton p, ?_⟩
    intro a ha
    rw [List.mem_singleton] at ha
    subst ha
    exact ⟨hp, 0, Nat.le_refl 0, RootAt.root a v hv hr⟩
  | step p v r d hv hr hch ih =>
    intro hp
    obtain ⟨v', hv', htag, href⟩ := hc.get hp
    rw [hv] at hv'; cases hv'
    have hq : InCtx c (_Py_TYPENODE_CLEAR_TAG v) := by
      apply href
      rcases (not_root_iff v).1 hr with h | h
      · exact h
      · exact absurd h htag
    obtain ⟨l, hlen, hnd, hall⟩ := ih hq
    refine ⟨p :: l, by simp [hlen], ?_, ?_⟩
    · refine List.nodup_cons.2 ⟨?_, hnd⟩
      intro hmem
      obtain ⟨_, d', hd', hroot⟩ := hall p hmem
      have := (RootAt.step p v r d hv hr hch).unique hroot
      omega
    · intro a ha
      rcases List.mem_cons.1 ha with rfl | ha
      · exact ⟨hp, d + 1, Nat.le_refl _, RootAt.step a v r d hv hr hch⟩
      · obtain ⟨h1, d', hd', hroot⟩ := hall a ha
        exact ⟨h1, d', by omega, hroot⟩

/-- A chain of `REF` links inside a closed context is shorter than the number of nodes. -/
theorem rootAt_depth_lt {m : Mem} {c : _PyTier2TypeContext} (hc : Closed m c)
    {p r d : Nat} (h : RootAt m p r d) (hp : InCtx c p) :
    d < c.type_locals_len + c.type_stack_len := by
  obtain ⟨l, hlen, hnd, hall⟩ := rootAt_chain hc h hp
  have hsub : l.toFinset ⊆
      (Finset.range c.type_locals_len).image (fun i => c.type_locals + 8 * i)
        ∪ (Finset.range c.type_stack_len).image (fun j => c.type_stack + 8 * j) := by
    intro a ha
    rw [List.mem_toFinset] at ha
    rcases (hall a ha).1 with ⟨i, hi, rfl⟩ | ⟨j, hj, rfl⟩
    · exact Finset.mem_union_left _ (Finset.mem_image.2 ⟨i, Finset.mem_range.2 hi, rfl⟩)
    · exact Finset.mem_union_right _ (Finset.mem_image.2 ⟨j, Finset.mem_range.2 hj, rfl⟩)
  have h1 := Finset.card_le_card hsub
  rw [List.toFinset_card_of_nodup hnd, hlen] at h1
  have h2 := Finset.card_union_le
    ((Finset.range c.type_locals_len).image (fun i => c.type_locals + 8 * i))
    ((Finset.range c.type_stack_len).image (fun j => c.type_stack + 8 * j))
  have h3 : ((Finset.range c.type_locals_len).image (fun i => c.type_locals + 8 * i)).card
      ≤ (Finset.range c.type_locals_len).card := Finset.card_image_le
  have h4 : ((Finset.range c.type_stack_len).image (fun j => c.type_stack + 8 * j)).card
      ≤ (Finset.range c.type_stack_len).card := Finset.card_image_le
  rw [Finset.card_range] at h3 h4
  omega

/-- A closed context in which every node has a root is well formed. -/
theorem wellFormed_of_rootAt {m : Mem} {c : _PyTier2TypeContext} (hc : Closed m c)
    (h : ∀ p, InCtx c p → ∃ r d, RootAt m p r d) : WellFormed m c := by
  have key : ∀ p, InCtx c p → Rooted m c p := by
    intro p hp
    obtain ⟨r, d, hr⟩ := h p hp
    exact ⟨r, get_rootptr_of_rootAt hr _ _ (clear_tag_make_ref (hp.aligned4 hc.1))
      (rootAt_depth_lt hc hr hp)⟩
  exact ⟨hc, fun i hi => key _ (InCtx.locals hi), fun i hi => key _ (InCtx.stack hi)⟩

/-! ## TYPE_SET -/

section type_set

/-- TYPE_SET for an admissible source: the assertion holds and the same-tree test is
negative, so the root of `dst` is overwritten. -/
theorem set_body (d : Bool) {m : Mem} {c : _PyTier2TypeContext}
    {src dst fuel : Nat} {b : Bool} (hsrc : SrcOk m fuel c src dst b) :
    __type_propagate_TYPE_SET d m fuel src dst b =
      (load m dst >>= fun dst_val => rootref_of m fuel dst dst_val
        >>= fun rootref => store m rootref (src_node src b)) := by
  unfold __type_propagate_TYPE_SET
  rcases hsrc with ⟨hb, hroot⟩ | ⟨hb, hin, hsame⟩
  · subst hb
    simp only [if_true, decide_eq_true hroot, c_assert_true, ok_bind, Bool.not_true,
      Bool.false_eq_true, if_false, pure_eq_ok]
  · subst hb
    simp only [Bool.false_eq_true, if_false, ok_bind, Bool.not_false, if_true, hsame,
      pure_eq_ok]

theorem set_same (d : Bool) {m : Mem} {src dst fuel : Nat}
    (hsame : typenode_is_same_tree m fuel src dst = .ok true) :
    __type_propagate_TYPE_SET d m fuel src dst false = .ok m := by
  unfold __type_propagate_TYPE_SET
  simp only [Bool.false_eq_true, if_false, ok_bind, Bool.not_false, if_true, hsame,
    pure_eq_ok]

theorem set_eval (d : Bool) {m : Mem} {c : _PyTier2TypeContext} (hw : WellFormed m c)
    {src dst fuel rd dd : Nat} {b : Bool} (hd : InCtx c dst)
    (hf : c.type_locals_len + c.type_stack_len ≤ fuel) (hsrc : SrcOk m fuel c src dst b)
    (hrd : RootAt m dst rd dd) :
    __type_propagate_TYPE_SET d m fuel src dst b = .ok (heap_set m rd (src_node src b)) := by
  obtain ⟨v, hv, htag, _⟩ := hw.1.get hd
  obtain ⟨rv, hrv, _⟩ := hrd.root_is_root
  have hdd := rootAt_depth_lt hw.1 hrd hd
  rw [set_body d hsrc, load_eq hv, ok_bind, rootref_of_eq hv htag hrd (by omega), ok_bind,
    store_eq _ hrv]
  rfl

theorem heap_set_rootAt_other {m : Mem} {rd sn rdv : Nat} (hrd : m rd = some rdv)
    (hroot : _Py_TYPENODE_IS_ROOT rdv ≠ 0) {a r d : Nat} (h : RootAt m a r d) :
    r ≠ rd → RootAt (heap_set m rd sn) a r d := by
  induction h with
  | root p v hv hr =>
    intro hne
    exact RootAt.root p v (by simp [heap_set, hne, hv]) hr
  | step p v r d hv hr _ ih =>
    intro hne
    have hp : p ≠ rd := by
      intro e; subst e; rw [hrd] at hv; cases hv; exact hroot hr
    exact RootAt.step p v r d (by simp [heap_set, hp, hv]) hr (ih hne)

theorem heap_set_rootAt_new {m : Mem} {rd sn : Nat} (hsn : _Py_TYPENODE_IS_ROOT sn ≠ 0)
    {a r d : Nat} (h : RootAt m a r d) : r = rd → RootAt (heap_set m rd sn) a rd d := by
  induction h with
  | root p v hv hr =>
    intro e
    subst e
    exact RootAt.root p sn (by simp [heap_set]) hsn
  | step p v r d hv hr hch ih =>
    intro e
    have hp : p ≠ rd := by
      intro e'; subst e'; subst e
      obtain ⟨w, hw, hwr⟩ := hch.root_is_root
      rw [hv] at hw; cases hw; exact hwr hr
    exact RootAt.step p v rd d (by simp [heap_set, hp, hv]) hr (ih e)

theorem heap_set_rootAt_ref {m : Mem} {rd src rs ds : Nat} (hal : src % 4 = 0)
    (hs : RootAt (heap_set m rd (_Py_TYPENODE_MAKE_REF src)) src rs ds)
    {a r d : Nat} (h : RootAt m a r d) :
    r = rd → ∃ d', RootAt (heap_set m rd (_Py_TYPENODE_MAKE_REF src)) a rs d' := by
  induction h with
  | root p v hv hr =>
    intro e
    subst e
    refine ⟨ds + 1, RootAt.step p (_Py_TYPENODE_MAKE_REF src) rs ds (by simp [heap_set])
      (is_root_make_ref src) ?_⟩
    rw [clear_tag_make_ref hal]
    exact hs
  | step p v r d hv hr hch ih =>
    intro e
    have hp : p ≠ rd := by
      intro e'; subst e'; subst e
      obtain ⟨w, hw, hwr⟩ := hch.root_is_root
      rw [hv] at hw; cases hw; exact hwr hr
    obtain ⟨d', hd'⟩ := ih e
    exact ⟨d' + 1, RootAt.step p v rs d' (by simp [heap_set, hp, hv]) hr hd'⟩

/-- Overwriting the root of `dst` with an admissible source keeps the context closed. -/
theorem heap_set_closed {m : Mem} {c : _PyTier2TypeContext} (hw : WellFormed m c)
    {src dst fuel rd : Nat} {b : Bool} (hd : InCtx c dst)
    (hf : c.type_locals_len + c.type_stack_len ≤ fuel) (hsrc : SrcOk m fuel c src dst b) :
    Closed (heap_set m rd (src_node src b)) c := by
  apply closed_of_nodes hw.1.1
  intro a ha
  by_cases e : a = rd
  · subst e
    exact ⟨src_node src b, by simp [heap_set], (srcOk_facts hw hd hf hsrc).2.1,
      srcOk_node_ok hw hsrc⟩
  · obtain ⟨v, hv, h1, h2⟩ := hw.1.get ha
    exact ⟨v, by simp [heap_set, e, hv], h1, h2⟩

/-- Effect of TYPE_SET with an admissible source on the forest: the nodes of the tree of
`dst` (root `rd`) get the root `ρ`, the others keep theirs. -/
theorem heap_set_forest {m : Mem} {c : _PyTier2TypeContext} (hw : WellFormed m c)
    {src dst fuel rd dd : Nat} {b : Bool} (hd : InCtx c dst)
    (hf : c.type_locals_len + c.type_stack_len ≤ fuel) (hsrc : SrcOk m fuel c src dst b)
    (hrd : RootAt m dst rd dd) :
    ∃ ρ, (b = true → ρ = rd)
      ∧ (b = false → ∃ ds, RootAt m src ρ ds ∧ ρ ≠ rd)
      ∧ (∀ a r d, RootAt m a r d → r ≠ rd →
          RootAt (heap_set m rd (src_node src b)) a r d)
      ∧ (∀ a d, RootAt m a rd d →
          ∃ d', RootAt (heap_set m rd (src_node src b)) a ρ d') := by
  obtain ⟨rdv, hrdv, hrdr⟩ := hrd.root_is_root
  rcases hsrc with ⟨hb, hroot⟩ | ⟨hb, hin, hsame⟩
  · subst hb
    refine ⟨rd, fun _ => rfl, (fun h => by cases h),
      fun a r d h hne => heap_set_rootAt_other hrdv hrdr h hne, ?_⟩
    intro a d h
    exact ⟨d, heap_set_rootAt_new hroot h rfl⟩
  · subst hb
    obtain ⟨rs, ds, hrs, hds, _⟩ := hw.rootAt hin
    have hdd := rootAt_depth_lt hw.1 hrd hd
    have hne : rs ≠ rd := by
      intro e
      rw [same_tree_eq hw.1 hin hd hrs hrd (by omega) (by omega)] at hsame
      simp [e] at hsame
    have e1 : src_node src false = _Py_TYPENODE_MAKE_REF src := rfl
    refine ⟨rs, (fun h => by cases h), fun _ => ⟨ds, hrs, hne⟩,
      fun a r d h hne => heap_set_rootAt_other hrdv hrdr h hne, ?_⟩
    intro a d h
    rw [e1]
    exact heap_set_rootAt_ref (hin.aligned4 hw.1.1)
      (heap_set_rootAt_other hrdv hrdr hrs hne) h rfl

/-- TYPE_SET with an admissible source keeps the context well formed. -/
theorem heap_set_wellFormed {m : Mem} {c : _PyTier2TypeContext} (hw : WellFormed m c)
    {src dst fuel rd dd : Nat} {b : Bool} (hd : InCtx c dst)
    (hf : c.type_locals_len + c.type_stack_len ≤ fuel) (hsrc : SrcOk m fuel c src dst b)
    (hrd : RootAt m dst rd dd) :
    WellFormed (heap_set m rd (src_node src b)) c := by
  apply wellFormed_of_rootAt (heap_set_closed hw hd hf hsrc)
  obtain ⟨ρ, _, _, hother, hin⟩ := heap_set_forest hw hd hf hsrc hrd
  intro p hp
  obtain ⟨r, d, hr, _, _⟩ := hw.rootAt hp
  by_cases e : r = rd
  · subst e
    obtain ⟨d', h⟩ := hin p d hr
    exact ⟨ρ, d', h⟩
  · exact ⟨r, d, hother p r d hr e⟩

end type_set
section type_set_claim

/-- Root values after TYPE_SET with an admissible source: a node outside the tree of `dst`
is unchanged and keeps its root value; a node of the tree of `dst` gets the root `ρ`. -/
theorem set_roots {m : Mem} {c : _PyTier2TypeContext} (hw : WellFormed m c)
    {src dst fuel rd dd : Nat} {b : Bool} (hd : InCtx c dst)
    (hf : c.type_locals_len + c.type_stack_len ≤ fuel) (hsrc : SrcOk m fuel c src dst b)
    (hrd : RootAt m dst rd dd) {a : Nat} (ha : InCtx c a) :
    (typenode_is_same_tree m fuel a dst = .ok false →
        heap_set m rd (src_node src b) a = m a
          ∧ (load (heap_set m rd (src_node src b)) a
                >>= typenode_get_root (heap_set m rd (src_node src b)) fuel)
              = (load m a >>= typenode_get_root m fuel))
      ∧ (typenode_is_same_tree m fuel a dst = .ok true →
          ∀ ρ d' ρv, RootAt (heap_set m rd (src_node src b)) a ρ d' →
            heap_set m rd (src_node src b) ρ = some ρv →
            (load (heap_set m rd (src_node src b)) a
                >>= typenode_get_root (heap_set m rd (src_node src b)) fuel) = .ok ρv) := by
  have hc' := @heap_set_closed m c hw src dst fuel rd _ hd hf hsrc
  obtain ⟨rdv, hrdv, hrdr⟩ := hrd.root_is_root
  obtain ⟨ra, da, hra, hda, hrain⟩ := hw.rootAt ha
  have hdd := rootAt_depth_lt hw.1 hrd hd
  have hst := same_tree_eq hw.1 ha hd hra hrd (Nat.le_trans (Nat.le_of_lt hda) hf)
    (Nat.le_trans (Nat.le_of_lt hdd) hf)
  constructor
  · intro h
    rw [hst] at h
    have hne : ra ≠ rd := by
      intro e; simp [e] at h
    have hane : a ≠ rd := by
      intro e; subst e
      exact hne (hra.unique hrd.root_self).1
    obtain ⟨v, hv, htag, _⟩ := hw.1.get ha
    obtain ⟨rav, hrav, _⟩ := hra.root_is_root
    have e1 : heap_set m rd (src_node src b) a = m a := by simp [heap_set, hane]
    refine ⟨e1, ?_⟩
    rw [load_get_root_eq hv htag hra (Nat.le_trans (Nat.le_of_lt hda) hf) hrav]
    exact load_get_root_eq (e1.trans hv) htag (heap_set_rootAt_other hrdv hrdr hra hne)
      (Nat.le_trans (Nat.le_of_lt hda) hf) (by simp [heap_set, hne, hrav])
  · intro _ ρ d' ρv hρ hρv
    obtain ⟨v', hv', htag', _⟩ := hc'.get ha
    have hd' := rootAt_depth_lt hc' hρ ha
    exact load_get_root_eq hv' htag' hρ (Nat.le_trans (Nat.le_of_lt hd') hf) hρv

/-- C11: TYPE_SET merges the tree of `dst` into `src`.  In a well-formed context, for a
node `dst` of the context and `src` a new root value or a node of the context, the call
returns a heap in which: with `src_is_new`, every node that was in the tree of `dst`
resolves to the root value `src`; with `src` a node of a different tree, `src` and `dst`
are in the same tree and every node formerly in the tree of `dst` resolves to the root of
`src`; with `src` already in the tree of `dst`, the heap is unchanged.  In all cases the
nodes outside the tree of `dst` are unchanged and keep their root values. -/
theorem type_set_merges (Py_DEBUG : Bool) (m : Mem) (c : _PyTier2TypeContext)
    (fuel src dst : Nat) (src_is_new : Bool)
    (hw : WellFormed m c) (hd : InCtx c dst)
    (hf : c.type_locals_len + c.type_stack_len ≤ fuel)
    (hnew : src_is_new = true → _Py_TYPENODE_IS_ROOT src ≠ 0)
    (hold : src_is_new = false → InCtx c src) :
    ∃ m', __type_propagate_TYPE_SET Py_DEBUG m fuel src dst src_is_new = .ok m'
      ∧ (src_is_new = true →
          ∀ a, InCtx c a → typenode_is_same_tree m fuel a dst = .ok true →
            (load m' a >>= typenode_get_root m' fuel) = .ok src)
      ∧ (src_is_new = false → typenode_is_same_tree m fuel src dst = .ok false →
          typenode_is_same_tree m' fuel src dst = .ok true
            ∧ (∃ rv, (load m src >>= typenode_get_root m fuel) = .ok rv)
            ∧ ∀ a, InCtx c a → typenode_is_same_tree m fuel a dst = .ok true →
                (load m' a >>= typenode_get_root m' fuel)
                  = (load m src >>= typenode_get_root m fuel))
      ∧ (src_is_new = false → typenode_is_same_tree m fuel src dst = .ok true → m' = m)
      ∧ (∀ a, InCtx c a → typenode_is_same_tree m fuel a dst = .ok false →
          m' a = m a
            ∧ (load m' a >>= typenode_get_root m' fuel)
                = (load m a >>= typenode_get_root m fuel))
      ∧ (∀ a, ¬ InCtx c a → m' a = m a) := by
  obtain ⟨rd, dd, hrd, hdd, hrdin⟩ := hw.rootAt hd
  obtain ⟨rdv, hrdv, hrdr⟩ := hrd.root_is_root
  have hout : ∀ sn a, ¬ InCtx c a → heap_set m rd sn a = m a := by
    intro sn a ha
    have : a ≠ rd := fun e => ha (e ▸ hrdin)
    simp [heap_set, this]
  cases src_is_new with
  | true =>
    have hsrc : SrcOk m fuel c src dst true := Or.inl ⟨rfl, hnew rfl⟩
    obtain ⟨ρ, hρ, _, _, hin⟩ := heap_set_forest hw hd hf hsrc hrd
    have hρ' := hρ rfl
    subst hρ'
    refine ⟨_, set_eval Py_DEBUG hw hd hf hsrc hrd, ?_, (fun h => by cases h),
      (fun h => by cases h), fun a ha => (set_roots hw hd hf hsrc hrd ha).1, hout _⟩
    intro _ a ha hsame
    obtain ⟨ra, da, hra, hda, _⟩ := hw.rootAt ha
    have hst := same_tree_eq hw.1 ha hd hra hrd (Nat.le_trans (Nat.le_of_lt hda) hf)
      (Nat.le_trans (Nat.le_of_lt hdd) hf)
    rw [hst] at hsame
    have e : ra = ρ := by simpa using hsame
    subst e
    obtain ⟨d', hd'⟩ := hin a da hra
    exact (set_roots hw hd hf hsrc hrd ha).2 (by rw [hst]; simp) ra d' src hd'
      (by simp [heap_set, src_node])
  | false =>
    have hsin := hold rfl
    obtain ⟨t, ht⟩ := same_tree_total hw hsin hd hf
    cases t with
    | true =>
      refine ⟨m, set_same Py_DEBUG ht, (fun h => by cases h), ?_, fun _ _ => rfl,
        fun a _ _ => ⟨rfl, rfl⟩, fun _ _ => rfl⟩
      intro _ h
      rw [ht] at h
      cases h
    | false =>
      have hsrc : SrcOk m fuel c src dst false := Or.inr ⟨rfl, hsin, ht⟩
      obtain ⟨ρ, _, hρ, hother, hin⟩ := heap_set_forest hw hd hf hsrc hrd
      obtain ⟨ds, hrs, hne⟩ := hρ rfl
      have hc' := @heap_set_closed m c hw src dst fuel rd _ hd hf hsrc
      obtain ⟨ρv, hρv, _⟩ := hrs.root_is_root
      have hds := rootAt_depth_lt hw.1 hrs hsin
      obtain ⟨sv, hsv, hstag, _⟩ := hw.1.get hsin
      have hsroot : (load m src >>= typenode_get_root m fuel) = .ok ρv :=
        load_get_root_eq hsv hstag hrs (Nat.le_trans (Nat.le_of_lt hds) hf) hρv
      have hρv' : heap_set m rd (src_node src false) ρ = some ρv := by
        simp [heap_set, hne, hρv]
      refine ⟨_, set_eval Py_DEBUG hw hd hf hsrc hrd, (fun h => by cases h), ?_, ?_,
        fun a ha => (set_roots hw hd hf hsrc hrd ha).1, hout _⟩
      · intro _ _
        refine ⟨?_, ⟨ρv, hsroot⟩, ?_⟩
        · obtain ⟨d', hd'⟩ := hin dst dd hrd
          have h1 := rootAt_depth_lt hc' hd' hd
          rw [same_tree_eq hc' hsin hd (hother src ρ ds hrs hne) hd'
            (Nat.le_trans (Nat.le_of_lt hds) hf) (Nat.le_trans (Nat.le_of_lt h1) hf)]
          simp
        · intro a ha hsame
          obtain ⟨ra, da, hra, hda, _⟩ := hw.rootAt ha
          have hst := same_tree_eq hw.1 ha hd hra hrd (Nat.le_trans (Nat.le_of_lt hda) hf)
            (Nat.le_trans (Nat.le_of_lt hdd) hf)
          rw [hst] at hsame
          have e : ra = rd := by simpa using hsame
          subst e
          obtain ⟨d', hd'⟩ := hin a da hra
          rw [hsroot]
          exact (set_roots hw hd hf hsrc hrd ha).2 (by rw [hst]; simp) ρ d' ρv hd' hρv'
      · intro _ h
        rw [ht] at h
        cases h

theorem type_set_merges_witness :
    WellFormed ex_mem ex_ctx ∧ InCtx ex_ctx 136
      ∧ ∃ m', __type_propagate_TYPE_SET true ex_mem 5 72 136 false = .ok m'
        ∧ (false = true →
            ∀ a, InCtx ex_ctx a → typenode_is_same_tree ex_mem 5 a 136 = .ok true →
              (load m' a >>= typenode_get_root m' 5) = .ok 72)
        ∧ (false = false → typenode_is_same_tree ex_mem 5 72 136 = .ok false →
            typenode_is_same_tree m' 5 72 136 = .ok true
              ∧ (∃ rv, (load ex_mem 72 >>= typenode_get_root ex_mem 5) = .ok rv)
              ∧ ∀ a, InCtx ex_ctx a → typenode_is_same_tree ex_mem 5 a 136 = .ok true →
                  (load m' a >>= typenode_get_root m' 5)
                    = (load ex_mem 72 >>= typenode_get_root ex_mem 5))
        ∧ (false = false → typenode_is_same_tree ex_mem 5 72 136 = .ok true → m' = ex_mem)
        ∧ (∀ a, InCtx ex_ctx a → typenode_is_same_tree ex_mem 5 a 136 = .ok false →
            m' a = ex_mem a
              ∧ (load m' a >>= typenode_get_root m' 5)
                  = (load ex_mem a >>= typenode_get_root ex_mem 5))
        ∧ (∀ a, ¬ InCtx ex_ctx a → m' a = ex_mem a) :=
  ⟨by decide, by decide,
    type_set_merges true ex_mem ex_ctx 5 72 136 false (by decide) (by decide) (by decide)
      (by decide) (by decide)⟩

end type_set_claim

/-! ## The forest invariant -/

section forest

theorem init_loop_spec (arr : Nat) :
    ∀ (n i : Nat) (m : Mem), (∀ k, i ≤ k → k < i + n → ∃ w, m (arr + 8 * k) = some w) →
      ∃ m', initialize_type_context.loop arr n i m = .ok m'
        ∧ (∀ k, i ≤ k → k < i + n → m' (arr + 8 * k) = some _Py_TYPENODE_POSITIVE_NULLROOT)
        ∧ ∀ a, (∀ k, i ≤ k → k < i + n → a ≠ arr + 8 * k) → m' a = m a := by
  intro n
  induction n with
  | zero =>
    intro i m _
    exact ⟨m, rfl, fun k h1 h2 => by omega, fun _ _ => rfl⟩
  | succ n ih =>
    intro i m hm
    obtain ⟨w, hw⟩ := hm i (Nat.le_refl _) (by omega)
    have hstep : initialize_type_context.loop arr (n + 1) i m =
        (store m (arr + 8 * i) _Py_TYPENODE_POSITIVE_NULLROOT >>= fun m1 =>
          initialize_type_context.loop arr n (i + 1) m1) := rfl
    rw [hstep, store_eq _ hw, ok_bind]
    obtain ⟨m', he, h1, h2⟩ := ih (i + 1)
      (fun a => if a = arr + 8 * i then some _Py_TYPENODE_POSITIVE_NULLROOT else m a)
      (by
        intro k hk1 hk2
        obtain ⟨w', hw'⟩ := hm k (by omega) (by omega)
        have e : arr + 8 * k ≠ arr + 8 * i := by omega
        exact ⟨w', by simp [e, hw']⟩)
    refine ⟨m', he, ?_, ?_⟩
    · intro k hk1 hk2
      by_cases e : k = i
      · subst e
        rw [h2 _ (fun k' hk1' hk2' => by omega)]
        simp
      · exact h1 k (by omega) (by omega)
    · intro a ha
      rw [h2 a (fun k hk1 hk2 => ha k (by omega) (by omega))]
      have : a ≠ arr + 8 * i := ha i (Nat.le_refl _) (by omega)
      simp [this]

/-- The context that `initialize_type_context` builds is well formed: every node is an
unknown positive root. -/
theorem initialize_wellFormed (m : Mem) {nlocals nstack tl ts : Nat} (tc : Nat)
    (harr : Arrays tl nlocals ts nstack) (htc : tc ≠ 0) :
    ∃ m1 c1, initialize_type_context m nlocals nstack tl ts tc = .ok (m1, some c1)
      ∧ c1.type_locals_len = nlocals ∧ c1.type_stack_len = nstack
      ∧ c1.type_stack_ptr = c1.type_stack
      ∧ (∀ p, InCtx c1 p → m1 p = some _Py_TYPENODE_POSITIVE_NULLROOT)
      ∧ WellFormed m1 c1 := by
  have htl : tl ≠ 0 := by have := harr.1; omega
  have hts : ts ≠ 0 := by have := harr.2.1; omega
  obtain ⟨m1, he1, h1a, h1b⟩ := init_loop_spec tl nlocals 0
    (malloc_nodes (malloc_nodes m tl nlocals) ts nstack)
    (by
      intro k _ hk
      exact malloc_nodes_mapped _ ts nstack (malloc_nodes_new m tl nlocals (by omega)))
  obtain ⟨m2, he2, h2a, h2b⟩ := init_loop_spec ts nstack 0 m1
    (by
      intro k _ hk
      by_cases e : ∀ k', 0 ≤ k' → k' < 0 + nlocals → ts + 8 * k ≠ tl + 8 * k'
      · rw [h1b _ e]
        exact ⟨_, malloc_nodes_new _ ts nstack (by omega)⟩
      · push_neg at e
        obtain ⟨k', hk1, hk2, e'⟩ := e
        exact ⟨_, e' ▸ h1a k' hk1 hk2⟩)
  have hdis : ∀ i j, i < nlocals → j < nstack → tl + 8 * i ≠ ts + 8 * j := by
    intro i j hi hj
    rcases harr.2.2.2.2.1 with h | h <;> omega
  let c1 : _PyTier2TypeContext :=
    { type_locals_len := nlocals, type_stack_len := nstack, type_locals := tl,
      type_stack := ts, type_stack_ptr := ts }
  have hnode : ∀ p, InCtx c1 p → m2 p = some _Py_TYPENODE_POSITIVE_NULLROOT := by
    rintro p (⟨i, hi, rfl⟩ | ⟨j, hj, rfl⟩)
    · have hi' : i < nlocals := hi
      show m2 (tl + 8 * i) = _
      rw [h2b _ (fun k _ hk => hdis i k hi' (by omega))]
      exact h1a i (Nat.zero_le _) (by omega)
    · have hj' : j < nstack := hj
      exact h2a j (Nat.zero_le _) (by omega)
  have hlay : Layout c1 := ⟨harr, Nat.le_refl _, Nat.le_add_right _ _, harr.2.2.2.1⟩
  have hclosed : Closed m2 c1 := by
    apply closed_of_nodes hlay
    intro a ha
    exact ⟨_, hnode a ha, by decide, fun h => by cases h⟩
  refine ⟨m2, c1, ?_, rfl, rfl, rfl, hnode, wellFormed_of_rootAt hclosed ?_⟩
  · unfold initialize_type_context
    simp only [if_neg htl, if_neg hts, if_neg htc, he1, he2, ok_bind]
  · intro p hp
    exact ⟨p, 0, RootAt.root p _ (hnode p hp) (by decide)⟩

theorem overwrite_same (d : Bool) {m : Mem} {c : _PyTier2TypeContext} {src dst fuel : Nat}
    (hsame : typenode_is_same_tree m fuel src dst = .ok true) :
    __type_propagate_TYPE_OVERWRITE d m fuel c src dst false = .ok m := by
  unfold __type_propagate_TYPE_OVERWRITE
  simp only [Bool.false_eq_true, if_false, ok_bind, Bool.not_false, if_true, hsame,
    pure_eq_ok]

/-- After `dst` has been detached and overwritten by an admissible source, the context is
well formed as soon as it is closed and the other nodes have roots. -/
theorem detached_wellFormed {m m' : Mem} {c : _PyTier2TypeContext} (hw : WellFormed m c)
    (hc' : Closed m' c) {src dst fuel : Nat} {b : Bool} (hd : InCtx c dst)
    (hf : c.type_locals_len + c.type_stack_len ≤ fuel) (hsrc : SrcOk m fuel c src dst b)
    (hdst : m' dst = some (src_node src b))
    (H : ∀ a, InCtx c a → a ≠ dst → ∃ r d, RootAt m' a r d) : WellFormed m' c := by
  apply wellFormed_of_rootAt hc'
  intro p hp
  by_cases e : p = dst
  · subst e
    have hne := (srcOk_facts hw hd hf hsrc).2.2
    rcases hsrc with ⟨hb, hroot⟩ | ⟨hb, hin, _⟩
    · subst hb
      exact ⟨p, 0, RootAt.root p _ hdst hroot⟩
    · subst hb
      obtain ⟨r, d, hr⟩ := H src hin (hne rfl)
      refine ⟨r, d + 1, RootAt.step p _ r d hdst (is_root_make_ref src) ?_⟩
      have e1 : src_node src false = _Py_TYPENODE_MAKE_REF src := rfl
      rw [e1, clear_tag_make_ref (hin.aligned4 hw.1.1)]
      exact hr
  · exact H p hp e

/-- TYPE_OVERWRITE with an admissible source keeps the context well formed. -/
theorem overwrite_wellFormed (d : Bool) {m : Mem} {c : _PyTier2TypeContext}
    (hw : WellFormed m c) {src dst fuel : Nat} {b : Bool} (hd : InCtx c dst)
    (hf : c.type_locals_len + c.type_stack_len ≤ fuel) (hsrc : SrcOk m fuel c src dst b) :
    ∃ m', __type_propagate_TYPE_OVERWRITE d m fuel c src dst b = .ok m'
      ∧ WellFormed m' c := by
  obtain ⟨old, hold, htag, _⟩ := hw.1.get hd
  by_cases hroot : _Py_TYPENODE_IS_ROOT old ≠ 0
  · obtain ⟨m', he, hdet⟩ := overwrite_root_eval d hw hd hf hsrc hold hroot
    refine ⟨m', he, detached_wellFormed hw
      (rootDetached_closed hw hd hf hsrc hold hroot hdet) hd hf hsrc hdet.1 ?_⟩
    obtain ⟨ρ, _, _, hρ, _⟩ := rootDetached_roots hw hd hold hroot hdet
    intro a ha hne
    obtain ⟨r, d0, hr, _, _⟩ := hw.rootAt ha
    obtain ⟨d', _, hr', _⟩ := hρ a r d0 ha hne hr
    exact ⟨_, d', hr'⟩
  · have href : _Py_TYPENODE_GET_TAG old = TYPE_REF := by
      rcases (not_root_iff old).1 (by simpa using hroot) with h | h
      · exact h
      · exact absurd h htag
    obtain ⟨m', he, hdet⟩ := overwrite_ref_eval d hw hd hf hsrc hold href
    refine ⟨m', he, detached_wellFormed hw
      (refDetached_closed hw hd hf hsrc hold hdet) hd hf hsrc hdet.1 ?_⟩
    intro a ha hne
    obtain ⟨r, d0, hr, _, _⟩ := hw.rootAt ha
    obtain ⟨d', _, hr', _⟩ := refDetached_roots hw hd hold href hdet a r d0 ha hne hr
    exact ⟨_, d', hr'⟩

end forest
section forest_claim

/-- C12: forest invariant.  `WellFormed m c` says that every node of the context is a root
or a `REF` to a node of the context and that following `REF` links from any node reaches
a root within `type_locals_len + type_stack_len` iterations of `__typenode_get_rootptr`.
The context built by `initialize_type_context` is well formed, and TYPE_SET,
TYPE_OVERWRITE (for `dst` in the context and `src` a new root value or a node of the
context) and TYPE_SWAP (for two nodes of the context) return a heap in which the context
is well formed again; in a well-formed context `__typenode_get_rootptr` returns a root of
the context for every node. -/
theorem forest_invariant (Py_DEBUG : Bool) (m0 : Mem) (nlocals nstack tl ts tc : Nat)
    (m : Mem) (c : _PyTier2TypeContext) (fuel src dst : Nat) (src_is_new : Bool)
    (x y : Nat)
    (harr : Arrays tl nlocals ts nstack) (htc : tc ≠ 0)
    (hw : WellFormed m c) (hd : InCtx c dst)
    (hf : c.type_locals_len + c.type_stack_len ≤ fuel)
    (hnew : src_is_new = true → _Py_TYPENODE_IS_ROOT src ≠ 0)
    (hold : src_is_new = false → InCtx c src)
    (hx : InCtx c x) (hy : InCtx c y) :
    (∃ m1 c1, initialize_type_context m0 nlocals nstack tl ts tc = .ok (m1, some c1)
        ∧ WellFormed m1 c1)
      ∧ (∃ m', __type_propagate_TYPE_SET Py_DEBUG m fuel src dst src_is_new = .ok m'
          ∧ WellFormed m' c)
      ∧ (∃ m', __type_propagate_TYPE_OVERWRITE Py_DEBUG m fuel c src dst src_is_new = .ok m'
          ∧ WellFormed m' c)
      ∧ (∃ m', __type_propagate_TYPE_SWAP m fuel c x y = .ok m' ∧ WellFormed m' c)
      ∧ (∀ p, InCtx c p →
          (∃ v, m p = some v ∧ (_Py_TYPENODE_IS_ROOT v = 0 →
            InCtx c (_Py_TYPENODE_CLEAR_TAG v)))
          ∧ ∃ r, __typenode_get_rootptr m (c.type_locals_len + c.type_stack_len)
              (_Py_TYPENODE_MAKE_REF p) = .ok r ∧ InCtx c r) := by
  have hsrc : SrcOk m fuel c src dst src_is_new
      ∨ (src_is_new = false ∧ typenode_is_same_tree m fuel src dst = .ok true) := by
    cases src_is_new with
    | true => exact Or.inl (Or.inl ⟨rfl, hnew rfl⟩)
    | false =>
      obtain ⟨t, ht⟩ := same_tree_total hw (hold rfl) hd hf
      cases t with
      | true => exact Or.inr ⟨rfl, ht⟩
      | false => exact Or.inl (Or.inr ⟨rfl, hold rfl, ht⟩)
  refine ⟨?_, ?_, ?_, ?_, ?_⟩
  · obtain ⟨m1, c1, he, _, _, _, _, hw1⟩ := initialize_wellFormed m0 tc harr htc
    exact ⟨m1, c1, he, hw1⟩
  · rcases hsrc with hsrc | ⟨hb, hsame⟩
    · obtain ⟨rd, dd, hrd, _, _⟩ := hw.rootAt hd
      exact ⟨_, set_eval Py_DEBUG hw hd hf hsrc hrd, heap_set_wellFormed hw hd hf hsrc hrd⟩
    · subst hb
      exact ⟨m, set_same Py_DEBUG hsame, hw⟩
  · rcases hsrc with hsrc | ⟨hb, hsame⟩
    · exact overwrite_wellFormed Py_DEBUG hw hd hf hsrc
    · subst hb
      exact ⟨m, overwrite_same Py_DEBUG hsame, hw⟩
  · obtain ⟨rs, rd, _, _, _, _, he⟩ := type_swap_eval hw hx hy hf
    refine ⟨_, he, ?_⟩
    by_cases e : rs = rd
    · rw [if_pos e]; exact hw
    · rw [if_neg e]; exact swapped_wellFormed hw hx hy
  · intro p hp
    obtain ⟨v, hv, htag, href⟩ := hw.1.get hp
    obtain ⟨r, hr⟩ := hw.2.rooted hp
    obtain ⟨d, _, hroot⟩ := rootAt_of_get_rootptr _ _ _ hr
    rw [clear_tag_make_ref (hp.aligned4 hw.1.1)] at hroot
    refine ⟨⟨v, hv, fun h => href ?_⟩, r, hr, hw.1.rootAt_inCtx hroot hp⟩
    rcases (not_root_iff v).1 h with h | h
    · exact h
    · exact absurd h htag

theorem forest_invariant_witness :
    Arrays 64 2 128 3 ∧ WellFormed ex_mem ex_ctx ∧ InCtx ex_ctx 136 ∧ InCtx ex_ctx 72
      ∧ InCtx ex_ctx 128
      ∧ (∃ m1 c1, initialize_type_context (fun _ => none) 2 3 64 128 8 = .ok (m1, some c1)
          ∧ WellFormed m1 c1)
      ∧ (∃ m', __type_propagate_TYPE_SET true ex_mem 5 72 136 false = .ok m'
          ∧ WellFormed m' ex_ctx)
      ∧ (∃ m', __type_propagate_TYPE_OVERWRITE true ex_mem 5 ex_ctx 72 136 false = .ok m'
          ∧ WellFormed m' ex_ctx)
      ∧ (∃ m', __type_propagate_TYPE_SWAP ex_mem 5 ex_ctx 136 128 = .ok m'
          ∧ WellFormed m' ex_ctx)
      ∧ (∀ p, InCtx ex_ctx p →
          (∃ v, ex_mem p = some v ∧ (_Py_TYPENODE_IS_ROOT v = 0 →
            InCtx ex_ctx (_Py_TYPENODE_CLEAR_TAG v)))
          ∧ ∃ r, __typenode_get_rootptr ex_mem
              (ex_ctx.type_locals_len + ex_ctx.type_stack_len)
              (_Py_TYPENODE_MAKE_REF p) = .ok r ∧ InCtx ex_ctx r) :=
  ⟨by decide, by decide, by decide, by decide, by decide,
    forest_invariant true (fun _ => none) 2 3 64 128 8 ex_mem ex_ctx 5 72 136 false 136 128
      (by decide) (by decide) (by decide) (by decide) (by decide) (by decide) (by decide)
      (by decide) (by decide)⟩

end forest_claim

/-! ## Type propagation of `SWAP` -/

section propagate_swap

theorem ptr_index_neg {p : Nat} (k : Nat) (h1 : 8 * k ≤ p) (h2 : p < 18446744073709551616) :
    ptr_index p (-(k : Int)) = p - 8 * k := by
  unfold ptr_index
  omega

/-- The `k`-th slot below the stack pointer is a node of the context. -/
theorem inCtx_peek {c : _PyTier2TypeContext} (hl : Layout c) {k : Nat} (hk : 1 ≤ k)
    (h : c.type_stack + 8 * k ≤ c.type_stack_ptr) :
    TYPESTACK_PEEK c (k : Int) = c.type_stack_ptr - 8 * k
      ∧ InCtx c (c.type_stack_ptr - 8 * k) := by
  obtain ⟨harr, h1, h2, h3⟩ := hl
  have h4 := harr.2.2.2.2.2.2.1
  have h5 := harr.2.2.2.1
  constructor
  · unfold TYPESTACK_PEEK
    exact ptr_index_neg k (by omega) (by omega)
  · refine Or.inr ⟨(c.type_stack_ptr - 8 * k - c.type_stack) / 8, by omega, by omega⟩

theorem propagate_swap_unfold (d : Bool) (T : TypeObjects) (m : Mem) (fuel : Nat)
    (oparg : Int) (c : _PyTier2TypeContext) :
    type_propagate.switch d T m fuel .SWAP oparg c =
      (__type_propagate_TYPE_SWAP m fuel c (TYPESTACK_PEEK c 1)
        (TYPESTACK_PEEK c (2 + (oparg - 2)))).map fun m1 => (m1, c) := rfl

/-- After the swap of two `REF` slots of distinct trees, the nodes other than the two
slots keep their roots up to the exchange of the two addresses. -/
theorem swapped_other {m : Mem} {c : _PyTier2TypeContext} (hw : WellFormed m c)
    {src dst fuel : Nat} (hs : InCtx c src) (hd : InCtx c dst)
    (hf : c.type_locals_len + c.type_stack_len ≤ fuel) :
    (∀ a b, InCtx c a → InCtx c b → a ≠ src → a ≠ dst → b ≠ src → b ≠ dst →
        typenode_is_same_tree (swapped m c src dst) fuel a b
          = typenode_is_same_tree m fuel a b)
      ∧ (∀ a, InCtx c a → a ≠ src → a ≠ dst →
          (load (swapped m c src dst) a >>= typenode_get_root (swapped m c src dst) fuel)
            = (load m a >>= typenode_get_root m fuel)) := by
  have hw' := swapped_wellFormed hw hs hd
  have hfix : ∀ a, a ≠ src → a ≠ dst → swap_addr src dst a = a := by
    intro a h1 h2
    simp [swap_addr, h1, h2]
  have hroot : ∀ a, InCtx c a → a ≠ src → a ≠ dst → ∀ r d0, RootAt m a r d0 →
      RootAt (swapped m c src dst) a (swap_addr src dst r) d0 := by
    intro a ha h1 h2 r d0 hr
    have := swapped_rootAt hw.1 hs hd hr ha
    rwa [hfix a h1 h2] at this
  constructor
  · intro a b ha hb ha1 ha2 hb1 hb2
    obtain ⟨ra, da, hra, hda, _⟩ := hw.rootAt ha
    obtain ⟨rb, db, hrb, hdb, _⟩ := hw.rootAt hb
    rw [same_tree_eq hw.1 ha hb hra hrb (by omega) (by omega),
      same_tree_eq hw'.1 ha hb (hroot a ha ha1 ha2 ra da hra) (hroot b hb hb1 hb2 rb db hrb)
        (by omega) (by omega)]
    congr 1
    by_cases e : ra = rb
    · simp [e]
    · have : swap_addr src dst ra ≠ swap_addr src dst rb := fun h => e (swap_addr_inj h)
      simp [e, this]
  · intro a ha h1 h2
    obtain ⟨ra, da, hra, hda, hrain⟩ := hw.rootAt ha
    obtain ⟨v, hv, htag, _⟩ := hw.1.get ha
    obtain ⟨rv, hrv, hrr⟩ := hra.root_is_root
    obtain ⟨v', hv', htag', _⟩ := hw'.1.get ha
    have hval : swapped m c src dst (swap_addr src dst ra) = some rv := by
      rw [swapped_at hs hd hrain, hrv]
      simp [swap_ref_root hrr]
    rw [load_get_root_eq hv htag hra (by omega) hrv,
      load_get_root_eq hv' htag' (hroot a ha h1 h2 ra da hra) (by omega) hval]

end propagate_swap
section propagate_swap_claim

/-- The `switch` of `type_propagate` for `SWAP`: the heap it returns is the swapped heap. -/
theorem swap_switch_spec (Py_DEBUG : Bool) (T : TypeObjects) (fuel : Nat)
    (m : Mem) (c : _PyTier2TypeContext) (n : Nat)
    (m2 : Mem) (c2 : _PyTier2TypeContext)
    (hl : Layout c) (hn : 1 ≤ n) (hlive : c.type_stack + 8 * n ≤ c.type_stack_ptr)
    (hw : WellFormed m2 c2) (hf : c2.type_locals_len + c2.type_stack_len ≤ fuel)
    (hlocals : 2 ≤ c2.type_locals_len) (hstack : c2.type_stack + 16 ≤ c2.type_stack_ptr)
    (h0 : m2 (c2.type_stack_ptr - 16) = some (_Py_TYPENODE_MAKE_REF c2.type_locals))
    (h1 : m2 (c2.type_stack_ptr - 8) = some (_Py_TYPENODE_MAKE_REF (c2.type_locals + 8)))
    (hdist : typenode_is_same_tree m2 fuel c2.type_locals (c2.type_locals + 8) = .ok false) :
    type_propagate.switch Py_DEBUG T m fuel .SWAP (n : Int) c =
        (__type_propagate_TYPE_SWAP m fuel c (c.type_stack_ptr - 8)
          (c.type_stack_ptr - 8 * n)).map (fun m1 => (m1, c))
      ∧ ∃ m', type_propagate.switch Py_DEBUG T m2 fuel .SWAP 2 c2 = .ok (m', c2)
        ∧ m' = swapped m2 c2 (c2.type_stack_ptr - 8) (c2.type_stack_ptr - 16)
        ∧ m' (c2.type_stack_ptr - 16) = some (_Py_TYPENODE_MAKE_REF (c2.type_locals + 8))
        ∧ m' (c2.type_stack_ptr - 8) = some (_Py_TYPENODE_MAKE_REF c2.type_locals)
        ∧ typenode_is_same_tree m' fuel (c2.type_stack_ptr - 16) (c2.type_locals + 8)
            = .ok true
        ∧ typenode_is_same_tree m' fuel (c2.type_stack_ptr - 8) c2.type_locals = .ok true
        ∧ (∀ a b, InCtx c2 a → InCtx c2 b →
            a ≠ c2.type_stack_ptr - 8 → a ≠ c2.type_stack_ptr - 16 →
            b ≠ c2.type_stack_ptr - 8 → b ≠ c2.type_stack_ptr - 16 →
            typenode_is_same_tree m' fuel a b = typenode_is_same_tree m2 fuel a b)
        ∧ (load m' c2.type_locals >>= typenode_get_root m' fuel)
            = (load m2 c2.type_locals >>= typenode_get_root m2 fuel)
        ∧ (load m' (c2.type_locals + 8) >>= typenode_get_root m' fuel)
            = (load m2 (c2.type_locals + 8) >>= typenode_get_root m2 fuel) := by
  constructor
  · rw [propagate_swap_unfold]
    have e : (2 : Int) + ((n : Int) - 2) = (n : Int) := by omega
    have p1 := (inCtx_peek hl (Nat.le_refl 1) (by omega)).1
    rw [e, (inCtx_peek hl hn hlive).1]
    rw [show ((1 : Nat) : Int) = 1 from rfl] at p1
    rw [p1]
  · have hl2 := hw.1.1
    obtain ⟨ps, hs⟩ := inCtx_peek hl2 (Nat.le_refl 1) (by omega)
    obtain ⟨pd, hd⟩ := inCtx_peek hl2 (show 1 ≤ 2 by decide) (by omega)
    rw [show ((1 : Nat) : Int) = 1 from rfl] at ps
    rw [show ((2 : Nat) : Int) = 2 from rfl] at pd
    simp only [Nat.mul_one] at ps hs
    have e16 : 8 * 2 = 16 := rfl
    rw [e16] at pd hd
    have hi0 : InCtx c2 c2.type_locals := by
      have := @InCtx.locals c2 0 (by omega)
      simpa using this
    have hi1 : InCtx c2 (c2.type_locals + 8) := by
      have := @InCtx.locals c2 1 (by omega)
      simpa using this
    have hsl : ∀ a, InCtx c2 a → (∃ i, i < c2.type_stack_len ∧ a = c2.type_stack + 8 * i) →
        ∀ b, (∃ i, i < c2.type_locals_len ∧ b = c2.type_locals + 8 * i) → b ≠ a := by
      rintro a _ ⟨j, hj, rfl⟩ b ⟨i, hi, rfl⟩
      exact locals_ne_stack hl2 hi hj
    have hstk : ∀ k, 1 ≤ k → c2.type_stack + 8 * k ≤ c2.type_stack_ptr →
        ∃ i, i < c2.type_stack_len ∧ c2.type_stack_ptr - 8 * k = c2.type_stack + 8 * i := by
      intro k _ hk
      have h1' := hl2.2.1
      have h2' := hl2.2.2.1
      have h3' := hl2.2.2.2
      have := hl2.1.2.2.2.1
      exact ⟨(c2.type_stack_ptr - 8 * k - c2.type_stack) / 8, by omega, by omega⟩
    have hsrc_s := hstk 1 (Nat.le_refl 1) (by omega)
    have hdst_s := hstk 2 (by decide) (by omega)
    simp only [Nat.mul_one] at hsrc_s
    rw [e16] at hdst_s
    have l0s : c2.type_locals ≠ c2.type_stack_ptr - 8 :=
      hsl _ hs hsrc_s _ ⟨0, by omega, by simp⟩
    have l0d : c2.type_locals ≠ c2.type_stack_ptr - 16 :=
      hsl _ hd hdst_s _ ⟨0, by omega, by simp⟩
    have l1s : c2.type_locals + 8 ≠ c2.type_stack_ptr - 8 :=
      hsl _ hs hsrc_s _ ⟨1, by omega, by simp⟩
    have l1d : c2.type_locals + 8 ≠ c2.type_stack_ptr - 16 :=
      hsl _ hd hdst_s _ ⟨1, by omega, by simp⟩
    have hsd : c2.type_stack_ptr - 8 ≠ c2.type_stack_ptr - 16 := by omega
    obtain ⟨r0, d0, hr0, hd0, _⟩ := hw.rootAt hi0
    obtain ⟨r1, d1, hr1, hd1, _⟩ := hw.rootAt hi1
    have hne : r1 ≠ r0 := by
      intro e
      rw [same_tree_eq hw.1 hi0 hi1 hr0 hr1 (by omega) (by omega)] at hdist
      simp [e] at hdist
    have al0 := hi0.aligned4 hl2
    have al1 := hi1.aligned4 hl2
    have hrs : RootAt m2 (c2.type_stack_ptr - 8) r1 (d1 + 1) :=
      RootAt.step _ _ r1 d1 h1 (is_root_make_ref _) (by rw [clear_tag_make_ref al1]; exact hr1)
    have hrd : RootAt m2 (c2.type_stack_ptr - 16) r0 (d0 + 1) :=
      RootAt.step _ _ r0 d0 h0 (is_root_make_ref _) (by rw [clear_tag_make_ref al0]; exact hr0)
    obtain ⟨rs, rd, ds, dd, hrs', hrd', he⟩ := type_swap_eval hw hs hd hf
    obtain ⟨e1, _⟩ := hrs.unique hrs'
    obtain ⟨e2, _⟩ := hrd.unique hrd'
    subst e1; subst e2
    rw [if_neg hne] at he
    have hw' := swapped_wellFormed hw hs hd
    obtain ⟨hsame, hval⟩ := @swapped_other m2 c2 hw (c2.type_stack_ptr - 8)
      (c2.type_stack_ptr - 16) fuel hs hd hf
    have hfix : ∀ a, a ≠ c2.type_stack_ptr - 8 → a ≠ c2.type_stack_ptr - 16 →
        swap_addr (c2.type_stack_ptr - 8) (c2.type_stack_ptr - 16) a = a := by
      intro a h1 h2
      simp [swap_addr, h1, h2]
    have hrefne : ∀ {x y : Nat}, x % 4 = 0 → y % 4 = 0 → x ≠ y →
        _Py_TYPENODE_MAKE_REF x ≠ _Py_TYPENODE_MAKE_REF y :=
      fun hx hy hxy e => hxy (make_ref_inj hx hy e)
    have als := hs.aligned4 hl2
    have ald := hd.aligned4 hl2
    have hmd : swapped m2 c2 (c2.type_stack_ptr - 8) (c2.type_stack_ptr - 16)
        (c2.type_stack_ptr - 16) = some (_Py_TYPENODE_MAKE_REF (c2.type_locals + 8)) := by
      have := @swapped_at m2 c2 (c2.type_stack_ptr - 8) (c2.type_stack_ptr - 16)
        (c2.type_stack_ptr - 8) hs hd hs
      rw [show swap_addr (c2.type_stack_ptr - 8) (c2.type_stack_ptr - 16)
        (c2.type_stack_ptr - 8) = c2.type_stack_ptr - 16 by simp [swap_addr]] at this
      rw [this, h1]
      simp [swap_ref, hrefne al1 als l1s, hrefne al1 ald l1d]
    have hms : swapped m2 c2 (c2.type_stack_ptr - 8) (c2.type_stack_ptr - 16)
        (c2.type_stack_ptr - 8) = some (_Py_TYPENODE_MAKE_REF c2.type_locals) := by
      have := @swapped_at m2 c2 (c2.type_stack_ptr - 8) (c2.type_stack_ptr - 16)
        (c2.type_stack_ptr - 16) hs hd hd
      rw [show swap_addr (c2.type_stack_ptr - 8) (c2.type_stack_ptr - 16)
        (c2.type_stack_ptr - 16) = c2.type_stack_ptr - 8 by simp [swap_addr, hsd.symm]] at this
      rw [this, h0]
      simp [swap_ref, hrefne al0 als l0s, hrefne al0 ald l0d]
    have hroot0 := swapped_rootAt hw.1 hs hd hr0 hi0
    have hroot1 := swapped_rootAt hw.1 hs hd hr1 hi1
    rw [hfix _ l0s l0d] at hroot0
    rw [hfix _ l1s l1d] at hroot1
    refine ⟨_, ?_, rfl, hmd, hms, ?_, ?_, ?_, hval _ hi0 l0s l0d, hval _ hi1 l1s l1d⟩
    · rw [propagate_swap_unfold]
      have e : (2 : Int) + ((2 : Int) - 2) = 2 := by omega
      rw [e, ps, pd, he]
      rfl
    · have hstep := RootAt.step _ _ _ d1 hmd (is_root_make_ref _)
        (by rw [clear_tag_make_ref al1]; exact hroot1)
      rw [same_tree_eq hw'.1 hd hi1 hstep hroot1 (by omega) (by omega)]
      simp
    · have hstep := RootAt.step _ _ _ d0 hms (is_root_make_ref _)
        (by rw [clear_tag_make_ref al0]; exact hroot0)
      rw [same_tree_eq hw'.1 hs hi0 hstep hroot0 (by omega) (by omega)]
      simp
    · intro a b ha hb ha1 ha2 hb1 hb2
      exact hsame a b ha hb ha1 ha2 hb1 hb2

/-- C13: type propagation of `SWAP n` is TYPE_SWAP of `stack[top-1]` and `stack[top-n]`,
after which the context is printed (first conjunct, for every context with at least
`n ≥ 1` live stack slots).  For a well-formed context whose slot `stack[top-2]` is a `REF`
to `locals[0]` and whose slot `stack[top-1]` is a `REF` to `locals[1]`, the two locals
being in distinct trees: when the context has no more stack slots than locals,
propagating `SWAP 2` returns a heap in which `stack[top-2]` is a `REF` to `locals[1]`
and `stack[top-1]` a `REF` to `locals[0]` (each in the tree of that local), the same-tree
relation between any two nodes other than the two slots is as before, and the two
locals resolve to the same root values as before (second conjunct); when it has more
stack slots than locals and the unit behind `type_locals` is not mapped, the call ends in
a bad access, in the print that reads `type_locals[i]` for the indices of the stack
(third conjunct). -/
theorem type_propagate_swap (Py_DEBUG : Bool) (T : TypeObjects) (fuel : Nat)
    (m : Mem) (c : _PyTier2TypeContext) (n : Nat)
    (m2 : Mem) (c2 : _PyTier2TypeContext)
    (hl : Layout c) (hn : 1 ≤ n) (hlive : c.type_stack + 8 * n ≤ c.type_stack_ptr)
    (hw : WellFormed m2 c2) (hf : c2.type_locals_len + c2.type_stack_len ≤ fuel)
    (hlocals : 2 ≤ c2.type_locals_len) (hstack : c2.type_stack + 16 ≤ c2.type_stack_ptr)
    (h0 : m2 (c2.type_stack_ptr - 16) = some (_Py_TYPENODE_MAKE_REF c2.type_locals))
    (h1 : m2 (c2.type_stack_ptr - 8) = some (_Py_TYPENODE_MAKE_REF (c2.type_locals + 8)))
    (hdist : typenode_is_same_tree m2 fuel c2.type_locals (c2.type_locals + 8) = .ok false) :
    type_propagate Py_DEBUG T m fuel .SWAP (n : Int) c =
        ((__type_propagate_TYPE_SWAP m fuel c (c.type_stack_ptr - 8)
          (c.type_stack_ptr - 8 * n)).map (fun m1 => (m1, c)) >>= fun r =>
          print_typestack Py_DEBUG r.1 fuel r.2 >>= fun _ => .ok r)
      ∧ (c2.type_stack_len ≤ c2.type_locals_len →
        ∃ m', type_propagate Py_DEBUG T m2 fuel .SWAP 2 c2 = .ok (m', c2)
        ∧ m' (c2.type_stack_ptr - 16) = some (_Py_TYPENODE_MAKE_REF (c2.type_locals + 8))
        ∧ m' (c2.type_stack_ptr - 8) = some (_Py_TYPENODE_MAKE_REF c2.type_locals)
        ∧ typenode_is_same_tree m' fuel (c2.type_stack_ptr - 16) (c2.type_locals + 8)
            = .ok true
        ∧ typenode_is_same_tree m' fuel (c2.type_stack_ptr - 8) c2.type_locals = .ok true
        ∧ (∀ a b, InCtx c2 a → InCtx c2 b →
            a ≠ c2.type_stack_ptr - 8 → a ≠ c2.type_stack_ptr - 16 →
            b ≠ c2.type_stack_ptr - 8 → b ≠ c2.type_stack_ptr - 16 →
            typenode_is_same_tree m' fuel a b = typenode_is_same_tree m2 fuel a b)
        ∧ (load m' c2.type_locals >>= typenode_get_root m' fuel)
            = (load m2 c2.type_locals >>= typenode_get_root m2 fuel)
        ∧ (load m' (c2.type_locals + 8) >>= typenode_get_root m' fuel)
            = (load m2 (c2.type_locals + 8) >>= typenode_get_root m2 fuel))
      ∧ (c2.type_locals_len < c2.type_stack_len →
        m2 (c2.type_locals + 8 * c2.type_locals_len) = none →
        type_propagate Py_DEBUG T m2 fuel .SWAP 2 c2 = .error .bad_access) := by
  obtain ⟨hsw0, m', hsw, hm', rest⟩ := swap_switch_spec Py_DEBUG T fuel m c n m2 c2 hl hn
    hlive hw hf hlocals hstack h0 h1 hdist
  have hl2 := hw.1.1
  have hs := (inCtx_peek hl2 (Nat.le_refl 1) (by omega)).2
  have hd := (inCtx_peek hl2 (show 1 ≤ 2 by decide) (by omega)).2
  simp only [Nat.mul_one] at hs
  rw [show 8 * 2 = 16 from rfl] at hd
  have hw' : WellFormed m' c2 := by
    rw [hm']
    exact swapped_wellFormed hw hs hd
  refine ⟨?_, ?_, ?_⟩
  · unfold type_propagate
    rw [hsw0]
  · intro hlen
    exact ⟨m', type_propagate_eq_switch Py_DEBUG T hsw
      (print_typestack_ok Py_DEBUG hw' hf hlen), rest⟩
  · intro hlt hnone
    have hout : m' (c2.type_locals + 8 * c2.type_locals_len) = none := by
      rw [hm']
      unfold swapped
      rw [if_neg (not_inCtx_of_unmapped hw hnone)]
      exact hnone
    exact type_propagate_print_error Py_DEBUG T hsw
      (print_typestack_out_of_bounds Py_DEBUG hw' hf hlt hout)

theorem type_propagate_swap_witness :
    (Layout room_ctx ∧ WellFormed swap_room_mem swap_room_ctx
      ∧ typenode_is_same_tree swap_room_mem 6 swap_room_ctx.type_locals
          (swap_room_ctx.type_locals + 8) = .ok false
      ∧ WellFormed swap_mem swap_ctx
      ∧ typenode_is_same_tree swap_mem 6 swap_ctx.type_locals (swap_ctx.type_locals + 8)
          = .ok false
      ∧ swap_ctx.type_locals_len < swap_ctx.type_stack_len
      ∧ swap_mem (swap_ctx.type_locals + 8 * swap_ctx.type_locals_len) = none)
      ∧ (∃ m', type_propagate true ⟨24, 32, 40, 48, 56⟩ swap_room_mem 6 .SWAP 2 swap_room_ctx
            = .ok (m', swap_room_ctx)
        ∧ m' (swap_room_ctx.type_stack_ptr - 16)
            = some (_Py_TYPENODE_MAKE_REF (swap_room_ctx.type_locals + 8))
        ∧ m' (swap_room_ctx.type_stack_ptr - 8)
            = some (_Py_TYPENODE_MAKE_REF swap_room_ctx.type_locals)
        ∧ typenode_is_same_tree m' 6 (swap_room_ctx.type_stack_ptr - 16)
            (swap_room_ctx.type_locals + 8) = .ok true
        ∧ typenode_is_same_tree m' 6 (swap_room_ctx.type_stack_ptr - 8)
            swap_room_ctx.type_locals = .ok true
        ∧ (∀ a b, InCtx swap_room_ctx a → InCtx swap_room_ctx b →
            a ≠ swap_room_ctx.type_stack_ptr - 8 → a ≠ swap_room_ctx.type_stack_ptr - 16 →
            b ≠ swap_room_ctx.type_stack_ptr - 8 → b ≠ swap_room_ctx.type_stack_ptr - 16 →
            typenode_is_same_tree m' 6 a b = typenode_is_same_tree swap_room_mem 6 a b)
        ∧ (load m' swap_room_ctx.type_locals >>= typenode_get_root m' 6)
            = (load swap_room_mem swap_room_ctx.type_locals
                >>= typenode_get_root swap_room_mem 6)
        ∧ (load m' (swap_room_ctx.type_locals + 8) >>= typenode_get_root m' 6)
            = (load swap_room_mem (swap_room_ctx.type_locals + 8)
                >>= typenode_get_root swap_room_mem 6))
      ∧ type_propagate true ⟨24, 32, 40, 48, 56⟩ swap_mem 6 .SWAP 2 swap_ctx
          = .error .bad_access
      ∧ type_propagate false ⟨24, 32, 40, 48, 56⟩ swap_mem 6 .SWAP 2 swap_ctx
          = .error .bad_access :=
  ⟨⟨by decide, by decide, by decide, by decide, by decide, by decide, by decide⟩,
    (type_propagate_swap true ⟨24, 32, 40, 48, 56⟩ 6 room_mem room_ctx 2 swap_room_mem
      swap_room_ctx (by decide) (by decide) (by decide) (by decide) (by decide) (by decide)
      (by decide) (by decide) (by decide) (by decide)).2.1 (by decide),
    (type_propagate_swap true ⟨24, 32, 40, 48, 56⟩ 6 room_mem room_ctx 2 swap_mem swap_ctx
      (by decide) (by decide) (by decide) (by decide) (by decide) (by decide) (by decide)
      (by decide) (by decide) (by decide)).2.2 (by decide) (by decide),
    (type_propagate_swap false ⟨24, 32, 40, 48, 56⟩ 6 room_mem room_ctx 2 swap_mem swap_ctx
      (by decide) (by decide) (by decide) (by decide) (by decide) (by decide) (by decide)
      (by decide) (by decide) (by decide)).2.2 (by decide) (by decide)⟩

end propagate_swap_claim

/-! ## Basic-block ids -/

section bb_ids

theorem take_succ_set {α : Type} (x : α) :
    ∀ (arr : List α) (k : Nat), k < arr.length →
      (arr.set k x).take (k + 1) = arr.take k ++ [x] := by
  intro arr
  induction arr with
  | nil => intro k h; simp at h
  | cons a as ih =>
    intro k h
    cases k with
    | zero => simp
    | succ k =>
      simp only [List.set_cons_succ, List.take_succ_cons, List.cons_append, List.cons.injEq,
        true_and]
      exact ih k (by simpa using h)

theorem realloc_bb_data_spec (arr : List Nat) (new_len : Int) (k : Nat)
    (h : (arr.length : Int) ≤ new_len) (hk : k ≤ arr.length) :
    ((realloc_bb_data (some arr) new_len).length : Int) = new_len
      ∧ (realloc_bb_data (some arr) new_len).take k = arr.take k := by
  unfold realloc_bb_data
  simp only [Option.getD_some]
  have h1 : arr.length ≤ new_len.toNat := by omega
  constructor
  · simp only [List.length_take, List.length_append, List.length_replicate]
    omega
  · rw [List.take_take, Nat.min_eq_left (by omega), List.take_append_of_le_length hk]

/-- One call of `write_bb_metadata` in a dense state. -/
theorem write_bb_metadata_step (t : _PyTier2Info) (ids : Nat → Int) (metas : List Nat)
    (metadata : Nat) (realloc_ok : Bool) (hd : Dense t metas) :
    ∃ ret t' ids', write_bb_metadata t ids metadata realloc_ok = .ok (ret, t', ids')
      ∧ ((ret = 0 ∧ ids' metadata = (metas.length : Int)
            ∧ (∀ p, p ≠ metadata → ids' p = ids p)
            ∧ t'.bb_data_curr = (metas.length : Int) + 1
            ∧ (∃ arr, t'.bb_data = some arr ∧ arr[metas.length]? = some metadata)
            ∧ Dense t' (metas ++ [metadata]))
          ∨ (ret = 1 ∧ t' = t ∧ ids' = ids))
      ∧ (realloc_ok = true → t.bb_data_len < 1073741823 → ret = 0) := by
  obtain ⟨hcurr, hlen1, hlen2, harr⟩ := hd
  unfold INT_MAX at hlen2
  cases hb : t.bb_data with
  | none => rw [hb] at harr; exact absurd harr id
  | some arr =>
    rw [hb] at harr
    obtain ⟨hal, htake⟩ := harr
    have hk : metas.length ≤ arr.length := by
      have := congrArg List.length htake
      simp only [List.length_take] at this
      omega
    have fin : ∀ (t1 : _PyTier2Info) (arr1 : List Nat), t1.bb_data = some arr1 →
        t1.bb_data_curr = (metas.length : Int) → (arr1.length : Int) = t1.bb_data_len →
        metas.length < arr1.length → arr1.take metas.length = metas →
        t1.bb_data_len < 2147483647 →
        ∃ t' ids', (match t1.bb_data with
          | none => (.error .bad_access : Exec (Int × _PyTier2Info × (Nat → Int)))
          | some a =>
            if 0 ≤ t1.bb_data_curr ∧ t1.bb_data_curr.toNat < a.length then
              .ok (0,
                { t1 with
                  bb_data := some (a.set t1.bb_data_curr.toNat metadata)
                  bb_data_curr := to_int (t1.bb_data_curr + 1) },
                fun p => if p = metadata then t1.bb_data_curr else ids p)
            else .error .bad_access)
          = .ok (0, t', ids')
          ∧ ids' metadata = (metas.length : Int)
          ∧ (∀ p, p ≠ metadata → ids' p = ids p)
          ∧ t'.bb_data_curr = (metas.length : Int) + 1
          ∧ (∃ arr, t'.bb_data = some arr ∧ arr[metas.length]? = some metadata)
          ∧ Dense t' (metas ++ [metadata]) := by
      intro t1 arr1 h1 h2 h3 h4 h5 h6
      refine ⟨{ t1 with
                bb_data := some (arr1.set metas.length metadata)
                bb_data_curr := (metas.length : Int) + 1 },
              fun p => if p = metadata then (metas.length : Int) else ids p,
              ?_, by simp, fun p hp => by simp [hp], rfl,
              ⟨_, rfl, by simp [List.getElem?_set, h4]⟩, ?_⟩
      · rw [h1]
        simp only [h2]
        rw [if_pos ⟨by omega, by simpa using h4⟩]
        have e : to_int ((metas.length : Int) + 1) = (metas.length : Int) + 1 :=
          to_int_of_range (by omega) (by omega)
        rw [e]
        simp
      · refine ⟨by simp, by simp only; omega, by simp only [INT_MAX]; omega, ?_⟩
        simp only [List.length_set, List.length_append, List.length_singleton]
        exact ⟨h3, by rw [take_succ_set metadata arr1 _ h4, h5]⟩
    by_cases hgrow : t.bb_data_curr ≥ t.bb_data_len
    · -- the array is full: it is reallocated
      have hkl : metas.length = arr.length := by omega
      by_cases hof : to_int ((t.bb_data_len + 1) * 2) < 0
      · refine ⟨1, t, ids, ?_, Or.inr ⟨rfl, rfl, rfl⟩, ?_⟩
        · unfold write_bb_metadata
          simp [hb, hgrow, hof]
        · intro _ hsmall
          have : to_int ((t.bb_data_len + 1) * 2) = (t.bb_data_len + 1) * 2 :=
            to_int_of_range (by omega) (by omega)
          omega
      · have hnl : to_int ((t.bb_data_len + 1) * 2) = (t.bb_data_len + 1) * 2 := by
          unfold to_int at hof ⊢
          omega
        have hnl2 : (t.bb_data_len + 1) * 2 < 2147483647 := by
          have : to_int ((t.bb_data_len + 1) * 2) < 2147483648 := by
            unfold to_int; omega
          omega
        cases realloc_ok with
        | false =>
          refine ⟨1, t, ids, ?_, Or.inr ⟨rfl, rfl, rfl⟩, fun h => by cases h⟩
          unfold write_bb_metadata
          simp [hb, hgrow, hof]
        | true =>
          obtain ⟨r1, r2⟩ := realloc_bb_data_spec arr ((t.bb_data_len + 1) * 2)
            metas.length (by omega) hk
          obtain ⟨t', ids', f1, f2⟩ := fin
            { t with
              bb_data := some (realloc_bb_data (some arr) ((t.bb_data_len + 1) * 2))
              bb_data_len := (t.bb_data_len + 1) * 2 }
            (realloc_bb_data (some arr) ((t.bb_data_len + 1) * 2)) rfl hcurr r1
            (by omega) (by rw [r2, htake]) hnl2
          refine ⟨0, t', ids', ?_, Or.inl ⟨rfl, f2⟩, fun _ _ => rfl⟩
          unfold write_bb_metadata
          have hof' : ¬ (t.bb_data_len + 1) * 2 < 0 := by omega
          simp only [hb, hgrow, or_true, if_true, hnl, hof', if_false, Bool.not_true,
            Bool.false_eq_true]
          exact f1
    · obtain ⟨t', ids', f1, f2⟩ := fin t arr hb hcurr hal (by omega) htake hlen2
      refine ⟨0, t', ids', ?_, Or.inl ⟨rfl, f2⟩, fun _ _ => rfl⟩
      unfold write_bb_metadata
      simp only [hb, hgrow, or_false, if_false]
      simp only [reduceCtorEq, if_false]
      exact f1

end bb_ids
section bb_ids_claim

/-- C14: basic-block ids are dense and strictly increasing.  `Dense t metas` describes the
state after the successful calls that wrote `metas`.  A freshly initialized tier-2 info is
dense for the empty list.  In a dense state with `k - 1 = metas.length` entries, a call of
`write_bb_metadata` returns: either `0`, and then it has assigned the id `k - 1` to the
metadata, stored the metadata at `bb_data[k - 1]` keeping the entries before it, and set
`bb_data_curr` to `k` (the state is dense for `metas ++ [metadata]`, also when the array
was reallocated), or `1`, and then the state is unchanged.  The call succeeds whenever the
reallocation does and the doubled length fits an `int`. -/
theorem bb_ids_dense (Py_DEBUG : Bool) (size : Nat) (t : _PyTier2Info) (ids : Nat → Int)
    (metas : List Nat) (metadata : Nat) (realloc_ok : Bool)
    (hsize : size / 5 + 1 < 2147483647) (hd : Dense t metas) :
    (∃ t0, _PyTier2Info_Initialize Py_DEBUG size true true = .ok (some t0) ∧ Dense t0 [])
      ∧ ∃ ret t' ids', write_bb_metadata t ids metadata realloc_ok = .ok (ret, t', ids')
        ∧ ((ret = 0 ∧ ids' metadata = (metas.length : Int)
              ∧ (∀ p, p ≠ metadata → ids' p = ids p)
              ∧ t'.bb_data_curr = (metas.length : Int) + 1
              ∧ (∃ arr, t'.bb_data = some arr ∧ arr[metas.length]? = some metadata)
              ∧ Dense t' (metas ++ [metadata]))
            ∨ (ret = 1 ∧ t' = t ∧ ids' = ids))
        ∧ (realloc_ok = true → t.bb_data_len < 1073741823 → ret = 0) := by
  refine ⟨?_, write_bb_metadata_step t ids metas metadata realloc_ok hd⟩
  have e : to_int ((size / 5 + 1 : Nat) : Int) = ((size / 5 + 1 : Nat) : Int) :=
    to_int_of_range (by omega) (by omega)
  refine ⟨{ bb_data_len := ((size / 5 + 1 : Nat) : Int), bb_data_curr := 0,
            bb_data := some (List.replicate (size / 5 + 1) 0) }, ?_, ?_⟩
  · unfold _PyTier2Info_Initialize
    simp only [Bool.not_true, Bool.false_eq_true, if_false, e, decide_True, c_assert_true,
      ok_bind, Int.toNat_ofNat]
  · refine ⟨rfl, ?_, ?_, ?_⟩
    · show (1 : Int) ≤ ((size / 5 + 1 : Nat) : Int)
      omega
    · show ((size / 5 + 1 : Nat) : Int) < INT_MAX
      unfold INT_MAX; omega
    · show ((List.replicate (size / 5 + 1) 0).length : Int) = ((size / 5 + 1 : Nat) : Int) ∧ _
      simp

theorem bb_ids_dense_witness :
    Dense ⟨2, 2, some [100, 200]⟩ [100, 200]
      ∧ (∃ t0, _PyTier2Info_Initialize true 7 true true = .ok (some t0) ∧ Dense t0 [])
      ∧ ∃ ret t' ids', write_bb_metadata ⟨2, 2, some [100, 200]⟩ (fun _ => 0) 300 true
            = .ok (ret, t', ids')
        ∧ ((ret = 0 ∧ ids' 300 = (([100, 200] : List Nat).length : Int)
              ∧ (∀ p, p ≠ 300 → ids' p = (fun _ => 0) p)
              ∧ t'.bb_data_curr = (([100, 200] : List Nat).length : Int) + 1
              ∧ (∃ arr, t'.bb_data = some arr
                  ∧ arr[([100, 200] : List Nat).length]? = some 300)
              ∧ Dense t' ([100, 200] ++ [300]))
            ∨ (ret = 1 ∧ t' = ⟨2, 2, some [100, 200]⟩ ∧ ids' = fun _ => 0))
        ∧ (true = true → (⟨2, 2, some [100, 200]⟩ : _PyTier2Info).bb_data_len < 1073741823
            → ret = 0) :=
  ⟨by decide, bb_ids_dense true 7 ⟨2, 2, some [100, 200]⟩ (fun _ => 0) [100, 200] 300 true
    (by decide) (by decide)⟩

end bb_ids_claim

/-! ## The branch-cache tag -/

section bb_tag

/-- C15: the branch-cache tag is a lossless encoding of 15-bit ids.  For `0 ≤ bb_id < 2^15`
and a flag `f`, `write_bb_id` (its assertions hold) writes the 16-bit word
`(bb_id << 1) | f` into the cache entry and nothing else; `BB_ID` of that word is `bb_id`
and `BB_IS_TYPE_BRANCH` of it is `f`. -/
theorem bb_id_tag_lossless (Py_DEBUG : Bool) (code : Code) (cache : Nat) (bb_id : Int)
    (f : Bool) (h0 : 0 ≤ bb_id) (h1 : bb_id < 32768) :
    ∃ code' w, write_bb_id Py_DEBUG code cache bb_id f = .ok code'
      ∧ code' cache = .cache w
      ∧ (∀ a, a ≠ cache → code' a = code a)
      ∧ w < 65536
      ∧ w = bb_id.toNat <<< 1 ||| f.toNat
      ∧ BB_ID w = bb_id.toNat ∧ BB_IS_TYPE_BRANCH w = f.toNat := by
  have hf : f.toNat < 2 ^ 1 := by cases f <;> decide
  have hor : bb_id.toNat <<< 1 ||| f.toNat = 2 * bb_id.toNat + f.toNat := by
    rw [Nat.shiftLeft_eq, Nat.mul_comm]
    exact (Nat.mul_add_lt_is_or hf bb_id.toNat).symm
  have hmod : (bb_id % 65536).toNat = bb_id.toNat := by omega
  have hlt : 2 * bb_id.toNat + f.toNat < 65536 := by
    have : f.toNat < 2 := hf
    omega
  refine ⟨fun a => if a = cache then .cache (bb_id.toNat <<< 1 ||| f.toNat) else code a,
    bb_id.toNat <<< 1 ||| f.toNat, ?_, by simp, fun a ha => by simp [ha], by omega, rfl,
    ?_, ?_⟩
  · unfold write_bb_id MAKE_TAGGED_BB_ID
    have a1 : decide (bb_id % 65536 = bb_id) = true := decide_eq_true (by omega)
    have a2 : decide (bb_id / 32768 % 2 = 0) = true := decide_eq_true (by omega)
    rw [a1, a2, hmod]
    simp only [c_assert_true, ok_bind, pure_eq_ok]
    rw [Nat.mod_eq_of_lt (by rw [hor]; exact hlt)]
  · unfold BB_ID
    rw [hor, Nat.shiftRight_eq_div_pow]
    have : f.toNat < 2 := hf
    omega
  · unfold BB_IS_TYPE_BRANCH
    rw [hor, Nat.and_one_is_mod]
    have : f.toNat < 2 := hf
    omega

theorem bb_id_tag_lossless_witness :
    (0 : Int) ≤ 32767 ∧ (32767 : Int) < 32768
      ∧ ∃ code' w, write_bb_id true (fun _ => .cache 0) 3 32767 true = .ok code'
        ∧ code' 3 = .cache w
        ∧ (∀ a, a ≠ 3 → code' a = (fun _ => _Py_CODEUNIT.cache 0) a)
        ∧ w < 65536
        ∧ w = (32767 : Int).toNat <<< 1 ||| true.toNat
        ∧ BB_ID w = (32767 : Int).toNat ∧ BB_IS_TYPE_BRANCH w = true.toNat :=
  ⟨by decide, by decide,
    bb_id_tag_lossless true (fun _ => .cache 0) 3 32767 true (by decide) (by decide)⟩

end bb_tag

/-! ## `infer_BINARY_OP` -/

section overwrite_new

/-- TYPE_OVERWRITE of a node by a new root: the call returns, the context stays well
formed, the node holds the new root and every other node resolves as before. -/
theorem overwrite_new_root (d : Bool) {m : Mem} {c : _PyTier2TypeContext}
    (hw : WellFormed m c) {src dst fuel : Nat} (hd : InCtx c dst)
    (hf : c.type_locals_len + c.type_stack_len ≤ fuel)
    (hroot : _Py_TYPENODE_IS_ROOT src ≠ 0) :
    ∃ m', __type_propagate_TYPE_OVERWRITE d m fuel c src dst true = .ok m'
      ∧ WellFormed m' c ∧ m' dst = some src
      ∧ ∀ a, InCtx c a → a ≠ dst →
          (load m' a >>= typenode_get_root m' fuel) = (load m a >>= typenode_get_root m fuel) := by
  have hsrc : SrcOk m fuel c src dst true := Or.inl ⟨rfl, hroot⟩
  obtain ⟨m1, he1, hw1⟩ := overwrite_wellFormed d hw hd hf hsrc
  obtain ⟨old, hold, htag, _⟩ := hw.1.get hd
  refine ⟨m1, he1, hw1, ?_⟩
  by_cases hr : _Py_TYPENODE_IS_ROOT old ≠ 0
  · obtain ⟨m', hm', hdet⟩ := overwrite_root_eval d hw hd hf hsrc hold hr
    rw [he1] at hm'
    cases hm'
    obtain ⟨ρ, _, _, H, Hinj⟩ := rootDetached_roots hw hd hold hr hdet
    obtain ⟨f1, _⟩ := frame_of_roots hw hw1.1 hf ρ H Hinj
    exact ⟨hdet.1, fun a ha hne => (f1 a ha hne).1⟩
  · have href : _Py_TYPENODE_GET_TAG old = TYPE_REF := by
      rcases (not_root_iff old).1 (by simpa using hr) with h | h
      · exact h
      · exact absurd h htag
    obtain ⟨m', hm', hdet⟩ := overwrite_ref_eval d hw hd hf hsrc hold href
    rw [he1] at hm'
    cases hm'
    obtain ⟨f1, _⟩ := frame_of_roots hw hw1.1 hf id
      (refDetached_roots hw hd hold href hdet) (fun _ _ _ _ _ _ _ _ _ _ _ _ e => e)
    exact ⟨hdet.1, fun a ha hne => (f1 a ha hne).1⟩

/-- Moving the stack pointer inside the stack keeps a context well formed. -/
theorem wellFormed_stack_ptr {m : Mem} {c : _PyTier2TypeContext} (hw : WellFormed m c)
    (p : Nat) (h1 : c.type_stack ≤ p) (h2 : p ≤ c.type_stack_ptr) (h3 : p % 8 = 0) :
    WellFormed m { c with type_stack_ptr := p } := by
  obtain ⟨⟨⟨harr, l1, l2, l3⟩, n1, n2⟩, a1, a2⟩ := hw
  exact ⟨⟨⟨harr, h1, Nat.le_trans h2 l2, h3⟩, n1, n2⟩, a1, a2⟩

theorem root_positive_facts {t : Nat} (h : t % 4 = 0) :
    _Py_TYPENODE_MAKE_ROOT_POSITIVE t = t + 1
      ∧ _Py_TYPENODE_IS_ROOT (_Py_TYPENODE_MAKE_ROOT_POSITIVE t) ≠ 0
      ∧ _Py_TYPENODE_GET_TAG (_Py_TYPENODE_MAKE_ROOT_POSITIVE t) = TYPE_ROOT_POSITIVE
      ∧ _Py_TYPENODE_CLEAR_TAG (_Py_TYPENODE_MAKE_ROOT_POSITIVE t) = t := by
  unfold _Py_TYPENODE_MAKE_ROOT_POSITIVE _Py_TYPENODE_IS_ROOT _Py_TYPENODE_GET_TAG
    _Py_TYPENODE_CLEAR_TAG TYPE_ROOT_POSITIVE
  refine ⟨by omega, by omega, by omega, by omega⟩

end overwrite_new

section infer_floats

theorem peek_int {c : _PyTier2TypeContext} (hl : Layout c) {idx : Int} {n : Nat}
    (hidx : idx = -(n : Int)) (hn : 1 ≤ n) (h : c.type_stack + 8 * n ≤ c.type_stack_ptr) :
    ptr_index c.type_stack_ptr idx = c.type_stack_ptr - 8 * n
      ∧ InCtx c (c.type_stack_ptr - 8 * n) := by
  obtain ⟨h1, h2⟩ := inCtx_peek hl hn h
  unfold TYPESTACK_PEEK at h1
  rw [hidx]
  exact ⟨h1, h2⟩

theorem get_root_of_root {m : Mem} {fuel v : Nat} (h : _Py_TYPENODE_IS_ROOT v ≠ 0) :
    typenode_get_root m fuel v = .ok v := by
  unfold typenode_get_root
  simp only [(is_root_iff v).1 h, if_true]

/-- If the node at `a` resolves to `rv`, the load succeeds and the loaded value
resolves to `rv`. -/
theorem load_get_root_split {m : Mem} {fuel a rv : Nat}
    (h : (load m a >>= typenode_get_root m fuel) = .ok rv) :
    ∃ v, load m a = .ok v ∧ typenode_get_root m fuel v = .ok rv := by
  cases hv : load m a with
  | error e => rw [hv] at h; cases h
  | ok v => rw [hv] at h; exact ⟨v, rfl, h⟩

/-- The unboxing step of `infer_BINARY_OP` for the operand at depth `k`. -/
theorem unbox_spec (d : Bool) (T : TypeObjects) {s : Emitter} {fuel : Nat} (k : Nat)
    (hw : WellFormed s.m s.type_context)
    (hf : s.type_context.type_locals_len + s.type_context.type_stack_len ≤ fuel)
    (hlen : s.type_context.type_stack_len ≤ s.type_context.type_locals_len)
    (hlive : s.type_context.type_stack + 8 * (k + 1) ≤ s.type_context.type_stack_ptr)
    (hT : T.PyRawFloat_Type % 4 = 0) :
    ∃ m', infer_BINARY_OP.unbox d T fuel (k : Int) s =
        .ok ({ code := set_op s.code s.write_curr .UNBOX_FLOAT (k : Int)
               write_curr := s.write_curr + 1
               m := m'
               type_context := s.type_context }, T.PyRawFloat_Type)
      ∧ WellFormed m' s.type_context
      ∧ (load m' (s.type_context.type_stack_ptr - 8 * (k + 1)) >>= typenode_get_root m' fuel)
          = .ok (_Py_TYPENODE_MAKE_ROOT_POSITIVE T.PyRawFloat_Type)
      ∧ ∀ a, InCtx s.type_context a → a ≠ s.type_context.type_stack_ptr - 8 * (k + 1) →
          (load m' a >>= typenode_get_root m' fuel)
            = (load s.m a >>= typenode_get_root s.m fuel) := by
  obtain ⟨e1, r1, r2, r3⟩ := root_positive_facts hT
  obtain ⟨p1, hin⟩ := @peek_int s.type_context hw.1.1 (-(1 + (k : Int))) (k + 1)
    (by push_cast; omega) (by omega) hlive
  obtain ⟨p2, _⟩ := @peek_int s.type_context hw.1.1 (-1 - (k : Int)) (k + 1)
    (by push_cast; omega) (by omega) hlive
  obtain ⟨m', he, hw', hdst, hframe⟩ := @overwrite_new_root d s.m s.type_context hw
    (_Py_TYPENODE_MAKE_ROOT_POSITIVE T.PyRawFloat_Type)
    (s.type_context.type_stack_ptr - 8 * (k + 1)) fuel hin hf r1
  have hp : type_propagate.switch d T s.m fuel .UNBOX_FLOAT (k : Int) s.type_context
      = .ok (m', s.type_context) := by
    show (__type_propagate_TYPE_OVERWRITE d s.m fuel s.type_context
      (_Py_TYPENODE_MAKE_ROOT_POSITIVE T.PyRawFloat_Type)
      (ptr_index s.type_context.type_stack_ptr (-(1 + (k : Int)))) true).map _ = _
    rw [p1, he]
    rfl
  refine ⟨m', ?_, hw', ?_, hframe⟩
  · unfold infer_BINARY_OP.unbox
    rw [type_propagate_eq_switch d T hp (print_typestack_ok d hw' hf hlen)]
    simp only [ok_bind, p2, load_eq hdst, get_root_of_root r1, pure_eq_ok, r3]
  · rw [load_eq hdst, ok_bind, get_root_of_root r1]

theorem float_opcode_spec (H : Headers) {oparg : Int}
    (hop : oparg = H.NB_ADD ∨ oparg = H.NB_SUBTRACT ∨ oparg = H.NB_MULTIPLY)
    (hH : H.NB_ADD ≠ H.NB_SUBTRACT ∧ H.NB_ADD ≠ H.NB_MULTIPLY
      ∧ H.NB_SUBTRACT ≠ H.NB_MULTIPLY) :
    ∃ opcode, infer_BINARY_OP.float_opcode H oparg = .ok opcode
      ∧ (opcode = .BINARY_OP_ADD_FLOAT_UNBOXED ∨ opcode = .BINARY_OP_SUBTRACT_FLOAT_UNBOXED
          ∨ opcode = .BINARY_OP_MULTIPLY_FLOAT_UNBOXED)
      ∧ (oparg = H.NB_ADD → opcode = .BINARY_OP_ADD_FLOAT_UNBOXED)
      ∧ (oparg = H.NB_SUBTRACT → opcode = .BINARY_OP_SUBTRACT_FLOAT_UNBOXED)
      ∧ (oparg = H.NB_MULTIPLY → opcode = .BINARY_OP_MULTIPLY_FLOAT_UNBOXED) := by
  obtain ⟨h1, h2, h3⟩ := hH
  unfold infer_BINARY_OP.float_opcode
  rcases hop with h | h | h
  · subst h
    exact ⟨_, by simp, Or.inl rfl, fun _ => rfl, fun e => absurd e h1, fun e => absurd e h2⟩
  · subst h
    exact ⟨_, by simp [h1.symm], Or.inr (Or.inl rfl), fun e => absurd e.symm h1,
      fun _ => rfl, fun e => absurd e h3⟩
  · subst h
    exact ⟨_, by simp [h2.symm, h3.symm], Or.inr (Or.inr rfl), fun e => absurd e.symm h2,
      fun e => absurd e.symm h3, fun _ => rfl⟩

/-- The specialised float instruction is emitted and propagated. -/
theorem specialise_float_spec (d : Bool) (T : TypeObjects) {s : Emitter} {fuel : Nat}
    {opcode : Opcode}
    (hw : WellFormed s.m s.type_context)
    (hf : s.type_context.type_locals_len + s.type_context.type_stack_len ≤ fuel)
    (hlen : s.type_context.type_stack_len ≤ s.type_context.type_locals_len)
    (hlive : s.type_context.type_stack + 16 ≤ s.type_context.type_stack_ptr)
    (hT : T.PyRawFloat_Type % 4 = 0)
    (hop : opcode = .BINARY_OP_ADD_FLOAT_UNBOXED ∨ opcode = .BINARY_OP_SUBTRACT_FLOAT_UNBOXED
      ∨ opcode = .BINARY_OP_MULTIPLY_FLOAT_UNBOXED) :
    ∃ m' c', infer_BINARY_OP.specialise d T fuel opcode s =
        .ok (false, { code := _py_set_opcode s.code s.write_curr opcode
                      write_curr := s.write_curr + 1
                      m := m'
                      type_context := c' }) := by
  obtain ⟨_, r1, _, _⟩ := root_positive_facts hT
  have hl := hw.1.1
  obtain ⟨p1, _⟩ := @peek_int s.type_context hl (-1) 1 (by norm_num) (by omega) (by omega)
  have hal := hl.2.2.2
  have hw2 : WellFormed s.m (__type_stack_shrink s.type_context 1) := by
    unfold __type_stack_shrink
    rw [p1]
    exact wellFormed_stack_ptr hw _ (by omega) (by omega) (by omega)
  have hsp : (__type_stack_shrink s.type_context 1).type_stack_ptr
      = s.type_context.type_stack_ptr - 8 * 1 := p1
  have hst : (__type_stack_shrink s.type_context 1).type_stack = s.type_context.type_stack :=
    rfl
  have hll : (__type_stack_shrink s.type_context 1).type_locals_len
      = s.type_context.type_locals_len := rfl
  have hsl : (__type_stack_shrink s.type_context 1).type_stack_len
      = s.type_context.type_stack_len := rfl
  obtain ⟨p2, hin⟩ := @peek_int (__type_stack_shrink s.type_context 1) hw2.1.1 (-1) 1
    (by norm_num) (by omega) (by rw [hsp, hst]; omega)
  obtain ⟨m', he, hw', _⟩ := @overwrite_new_root d s.m _ hw2
    (_Py_TYPENODE_MAKE_ROOT_POSITIVE T.PyRawFloat_Type) _ fuel hin (by rw [hll, hsl]; exact hf)
    r1
  have hp : type_propagate.switch d T s.m fuel opcode 0 s.type_context
      = .ok (m', __type_stack_shrink s.type_context 1) := by
    have key : type_propagate.switch d T s.m fuel opcode 0 s.type_context
        = (__type_propagate_TYPE_OVERWRITE d s.m fuel (__type_stack_shrink s.type_context 1)
            (_Py_TYPENODE_MAKE_ROOT_POSITIVE T.PyRawFloat_Type)
            (TYPESTACK_PEEK (__type_stack_shrink s.type_context 1) 1) true).map
            fun m1 => (m1, __type_stack_shrink s.type_context 1) := by
      rcases hop with h | h | h <;> subst h <;> rfl
    rw [key]
    unfold TYPESTACK_PEEK
    rw [p2, he]
    rfl
  refine ⟨m', __type_stack_shrink s.type_context 1, ?_⟩
  unfold infer_BINARY_OP.specialise
  rw [type_propagate_eq_switch d T hp
    (print_typestack_ok d hw' (by rw [hll, hsl]; exact hf) (by rw [hll, hsl]; exact hlen))]
  rfl

/-- A bind that returns: its first part returned, and the rest returned the result. -/
theorem ok_of_bind {α β : Type} {x : Exec α} {f : α → Exec β} {r : β}
    (h : (x >>= f) = .ok r) : ∃ a, x = .ok a ∧ f a = .ok r := by
  cases x with
  | error e => cases h
  | ok a => exact ⟨a, rfl, h⟩

/-- A store leaves an unmapped address unmapped. -/
theorem store_unmapped {m m1 : Mem} {p v a : Nat} (h : store m p v = .ok m1)
    (ha : m a = none) : m1 a = none := by
  unfold store at h
  cases hp : m p with
  | none => rw [hp] at h; cases h
  | some w =>
    rw [hp] at h
    injection h with h
    subst h
    have hne : a ≠ p := by
      intro e
      rw [e] at ha
      rw [ha] at hp
      cases hp
    simp [hne, ha]

theorem overwrite_root_visit_unmapped {ct od p a : Nat} {s s1 : Mem × Nat}
    (h : __type_propagate_TYPE_OVERWRITE.root_visit ct od p s = .ok s1)
    (ha : s.1 a = none) : s1.1 a = none := by
  unfold __type_propagate_TYPE_OVERWRITE.root_visit at h
  obtain ⟨v, hv, h⟩ := ok_of_bind h
  by_cases hc : v = ct
  · rw [if_pos hc] at h
    by_cases h0 : s.2 = 0
    · rw [if_pos h0] at h
      obtain ⟨m1, hm1, h⟩ := ok_of_bind h
      injection h with h
      subst h
      exact store_unmapped hm1 ha
    · rw [if_neg h0] at h
      obtain ⟨m1, hm1, h⟩ := ok_of_bind h
      injection h with h
      subst h
      exact store_unmapped hm1 ha
  · rw [if_neg hc] at h
    injection h with h
    subst h
    exact ha

theorem overwrite_root_loop_unmapped {arr ct od a : Nat} :
    ∀ (n i : Nat) (s s1 : Mem × Nat),
      __type_propagate_TYPE_OVERWRITE.root_loop arr ct od n i s = .ok s1 →
      s.1 a = none → s1.1 a = none := by
  intro n
  induction n with
  | zero =>
    intro i s s1 h ha
    unfold __type_propagate_TYPE_OVERWRITE.root_loop at h
    injection h with h
    subst h
    exact ha
  | succ n ih =>
    intro i s s1 h ha
    unfold __type_propagate_TYPE_OVERWRITE.root_loop at h
    obtain ⟨s2, h2, h⟩ := ok_of_bind h
    exact ih _ _ _ h (overwrite_root_visit_unmapped h2 ha)

theorem overwrite_ref_visit_unmapped {ct od p a : Nat} {m m1 : Mem}
    (h : __type_propagate_TYPE_OVERWRITE.ref_visit ct od p m = .ok m1)
    (ha : m a = none) : m1 a = none := by
  unfold __type_propagate_TYPE_OVERWRITE.ref_visit at h
  obtain ⟨v, hv, h⟩ := ok_of_bind h
  by_cases hc : v = ct
  · rw [if_pos hc] at h
    exact store_unmapped h ha
  · rw [if_neg hc] at h
    injection h with h
    subst h
    exact ha

theorem overwrite_ref_loop_unmapped {arr ct od a : Nat} :
    ∀ (n i : Nat) (m m1 : Mem),
      __type_propagate_TYPE_OVERWRITE.ref_loop arr ct od n i m = .ok m1 →
      m a = none → m1 a = none := by
  intro n
  induction n with
  | zero =>
    intro i m m1 h ha
    unfold __type_propagate_TYPE_OVERWRITE.ref_loop at h
    injection h with h
    subst h
    exact ha
  | succ n ih =>
    intro i m m1 h ha
    unfold __type_propagate_TYPE_OVERWRITE.ref_loop at h
    obtain ⟨m2, h2, h⟩ := ok_of_bind h
    exact ih _ _ _ h (overwrite_ref_visit_unmapped h2 ha)

/-- TYPE_OVERWRITE leaves an unmapped address unmapped: it writes to nodes only. -/
theorem overwrite_unmapped (d : Bool) {m m1 : Mem} {c : _PyTier2TypeContext}
    {src dst fuel old : Nat} {b : Bool} {a : Nat} (hsrc : SrcOk m fuel c src dst b)
    (hold : m dst = some old)
    (h : __type_propagate_TYPE_OVERWRITE d m fuel c src dst b = .ok m1)
    (ha : m a = none) : m1 a = none := by
  rw [overwrite_body d hsrc hold] at h
  have hne : a ≠ dst := by
    intro e
    rw [e, hold] at ha
    cases ha
  have hst : (fun x => if x = dst then some (src_node src b) else m x) a = none := by
    show (if a = dst then some (src_node src b) else m a) = none
    rw [if_neg hne]
    exact ha
  by_cases ht : _Py_TYPENODE_GET_TAG old = TYPE_ROOT_POSITIVE
      ∨ _Py_TYPENODE_GET_TAG old = TYPE_ROOT_NEGATIVE
  · rw [if_pos ht] at h
    obtain ⟨s3, h3, h⟩ := ok_of_bind h
    obtain ⟨s2, h2, h3⟩ := ok_of_bind h3
    injection h with h
    subst h
    exact overwrite_root_loop_unmapped _ _ _ _ h3
      (overwrite_root_loop_unmapped _ _ _ _ h2 hst)
  · rw [if_neg ht] at h
    by_cases hr : _Py_TYPENODE_GET_TAG old = TYPE_REF
    · rw [if_pos hr] at h
      obtain ⟨m2, h2, h⟩ := ok_of_bind h
      exact overwrite_ref_loop_unmapped _ _ _ _ h
        (overwrite_ref_loop_unmapped _ _ _ _ h2 hst)
    · rw [if_neg hr] at h
      cases h

/-- The unboxing step of `infer_BINARY_OP` in a context with more stack slots than locals
whose unit behind `type_locals` is not mapped: the print at the end of `type_propagate`
ends in a bad access. -/
theorem unbox_fault (d : Bool) (T : TypeObjects) {s : Emitter} {fuel : Nat} (k : Nat)
    (hw : WellFormed s.m s.type_context)
    (hf : s.type_context.type_locals_len + s.type_context.type_stack_len ≤ fuel)
    (hlt : s.type_context.type_locals_len < s.type_context.type_stack_len)
    (hout : s.m (s.type_context.type_locals + 8 * s.type_context.type_locals_len) = none)
    (hlive : s.type_context.type_stack + 8 * (k + 1) ≤ s.type_context.type_stack_ptr)
    (hT : T.PyRawFloat_Type % 4 = 0) :
    infer_BINARY_OP.unbox d T fuel (k : Int) s = .error .bad_access := by
  obtain ⟨e1, r1, r2, r3⟩ := root_positive_facts hT
  obtain ⟨p1, hin⟩ := @peek_int s.type_context hw.1.1 (-(1 + (k : Int))) (k + 1)
    (by push_cast; omega) (by omega) hlive
  obtain ⟨m', he, hw', hdst, hframe⟩ := @overwrite_new_root d s.m s.type_context hw
    (_Py_TYPENODE_MAKE_ROOT_POSITIVE T.PyRawFloat_Type)
    (s.type_context.type_stack_ptr - 8 * (k + 1)) fuel hin hf r1
  obtain ⟨old, hold, _⟩ := hw.1.get hin
  have hout' := overwrite_unmapped d (Or.inl ⟨rfl, r1⟩) hold he hout
  have hp : type_propagate.switch d T s.m fuel .UNBOX_FLOAT (k : Int) s.type_context
      = .ok (m', s.type_context) := by
    show (__type_propagate_TYPE_OVERWRITE d s.m fuel s.type_context
      (_Py_TYPENODE_MAKE_ROOT_POSITIVE T.PyRawFloat_Type)
      (ptr_index s.type_context.type_stack_ptr (-(1 + (k : Int)))) true).map _ = _
    rw [p1, he]
    rfl
  unfold infer_BINARY_OP.unbox
  rw [type_propagate_print_error d T hp (print_typestack_out_of_bounds d hw' hf hlt hout')]
  rfl

/-- The specialised instruction of `infer_BINARY_OP` in a context with more stack slots
than locals whose unit behind `type_locals` is not mapped: the print at the end of
`type_propagate` ends in a bad access.  `t` is the type of the result. -/
theorem specialise_fault (d : Bool) (T : TypeObjects) {s : Emitter} {fuel : Nat}
    {opcode : Opcode} {t : Nat}
    (hw : WellFormed s.m s.type_context)
    (hf : s.type_context.type_locals_len + s.type_context.type_stack_len ≤ fuel)
    (hlt : s.type_context.type_locals_len < s.type_context.type_stack_len)
    (hout : s.m (s.type_context.type_locals + 8 * s.type_context.type_locals_len) = none)
    (hlive : s.type_context.type_stack + 16 ≤ s.type_context.type_stack_ptr)
    (hT : t % 4 = 0)
    (key : type_propagate.switch d T s.m fuel opcode 0 s.type_context
        = (__type_propagate_TYPE_OVERWRITE d s.m fuel (__type_stack_shrink s.type_context 1)
            (_Py_TYPENODE_MAKE_ROOT_POSITIVE t)
            (TYPESTACK_PEEK (__type_stack_shrink s.type_context 1) 1) true).map
            fun m1 => (m1, __type_stack_shrink s.type_context 1)) :
    infer_BINARY_OP.specialise d T fuel opcode s = .error .bad_access := by
  obtain ⟨_, r1, _, _⟩ := root_positive_facts hT
  have hl := hw.1.1
  obtain ⟨p1, _⟩ := @peek_int s.type_context hl (-1) 1 (by norm_num) (by omega) (by omega)
  have hal := hl.2.2.2
  have hw2 : WellFormed s.m (__type_stack_shrink s.type_context 1) := by
    unfold __type_stack_shrink
    rw [p1]
    exact wellFormed_stack_ptr hw _ (by omega) (by omega) (by omega)
  have hsp : (__type_stack_shrink s.type_context 1).type_stack_ptr
      = s.type_context.type_stack_ptr - 8 * 1 := p1
  have hst : (__type_stack_shrink s.type_context 1).type_stack = s.type_context.type_stack :=
    rfl
  have hll : (__type_stack_shrink s.type_context 1).type_locals_len
      = s.type_context.type_locals_len := rfl
  have hsl : (__type_stack_shrink s.type_context 1).type_stack_len
      = s.type_context.type_stack_len := rfl
  have hlo : (__type_stack_shrink s.type_context 1).type_locals
      = s.type_context.type_locals := rfl
  obtain ⟨p2, hin⟩ := @peek_int (__type_stack_shrink s.type_context 1) hw2.1.1 (-1) 1
    (by norm_num) (by omega) (by rw [hsp, hst]; omega)
  obtain ⟨m', he, hw', _⟩ := @overwrite_new_root d s.m _ hw2
    (_Py_TYPENODE_MAKE_ROOT_POSITIVE t) _ fuel hin (by rw [hll, hsl]; exact hf) r1
  obtain ⟨old, hold, _⟩ := hw2.1.get hin
  have hout' := overwrite_unmapped d (Or.inl ⟨rfl, r1⟩) hold he hout
  have hp : type_propagate.switch d T s.m fuel opcode 0 s.type_context
      = .ok (m', __type_stack_shrink s.type_context 1) := by
    rw [key]
    unfold TYPESTACK_PEEK
    rw [p2, he]
    rfl
  unfold infer_BINARY_OP.specialise
  rw [type_propagate_print_error d T hp (print_typestack_out_of_bounds d hw'
    (by rw [hll, hsl]; exact hf) (by rw [hll, hsl]; exact hlt)
    (by rw [hlo, hll]; exact hout'))]
  rfl

end infer_floats

section infer_positive_roots

theorem and_four_of_mod {x : Nat} (h : x % 8 = 1) : x &&& 4 = 0 := by
  have e : (4 : Nat) = (2 ^ 3 - 1) &&& 4 := by decide
  rw [e, ← Nat.and_assoc, Nat.and_pow_two_sub_one_eq_mod]
  have : x % 2 ^ 3 = 1 := h
  rw [this]
  decide

/-- On a positive root whose type object is 8-aligned, `has_negativetype` for the float
bit (bit 2) answers `false`. -/
theorem has_negativetype_positive (B : _Py_NegativeTypeMaskBit) (T : TypeObjects) {t : Nat}
    (hB : B.FLOAT_BITIDX = 2) (ht : t % 8 = 0) :
    has_negativetype B T (_Py_TYPENODE_MAKE_ROOT_POSITIVE t) T.PyFloat_Type = .ok false := by
  obtain ⟨e1, _, r2, _⟩ := @root_positive_facts t (by omega)
  unfold has_negativetype typeobject_to_bitidx
  have hne : TYPE_ROOT_POSITIVE ≠ TYPE_ROOT_NEGATIVE := by decide
  rw [r2, if_neg hne, if_pos rfl, hB, e1]
  have e4 : (1 <<< 2 % 18446744073709551616 : Nat) = 4 := by decide
  simp only [ok_bind, pure_eq_ok, e4, and_four_of_mod (show (t + 1) % 8 = 1 by omega)]
  rfl

/-- For two operands with positive, known roots that `has_negativetype` does not flag,
`infer_BINARY_OP` takes none of its guard exits. -/
theorem infer_positive (d : Bool) (H : Headers) (B : _Py_NegativeTypeMaskBit)
    (T : TypeObjects) {s : Emitter} {fuel : Nat} {oparg bb_id : Int} {R L : Nat}
    (hop : oparg = H.NB_ADD ∨ oparg = H.NB_SUBTRACT ∨ oparg = H.NB_MULTIPLY)
    (hr : (load s.m (ptr_index s.type_context.type_stack_ptr (-1))
      >>= typenode_get_root s.m fuel) = .ok R)
    (hl : (load s.m (ptr_index s.type_context.type_stack_ptr (-2))
      >>= typenode_get_root s.m fuel) = .ok L)
    (hRn : R ≠ _Py_TYPENODE_POSITIVE_NULLROOT) (hLn : L ≠ _Py_TYPENODE_POSITIVE_NULLROOT)
    (hRt : _Py_TYPENODE_GET_TAG R = TYPE_ROOT_POSITIVE)
    (hLt : _Py_TYPENODE_GET_TAG L = TYPE_ROOT_POSITIVE)
    (hRh : has_negativetype B T R T.PyFloat_Type = .ok false)
    (hLh : has_negativetype B T L T.PyFloat_Type = .ok false) :
    infer_BINARY_OP d H B T fuel oparg s bb_id =
      infer_BINARY_OP.typed d H T fuel oparg s
        (_Py_TYPENODE_CLEAR_TAG R) (_Py_TYPENODE_CLEAR_TAG L) := by
  obtain ⟨vr, hvr, hgr⟩ := load_get_root_split hr
  obtain ⟨vl, hvl, hgl⟩ := load_get_root_split hl
  have hne : TYPE_ROOT_POSITIVE ≠ TYPE_ROOT_NEGATIVE := by decide
  unfold infer_BINARY_OP
  simp only [decide_eq_true hop, c_assert_true, ok_bind, hvr, hgr, hvl, hgl,
    _Py_TYPENODE_IS_POSITIVE_NULL, decide_eq_false hRn, decide_eq_false hLn,
    Bool.false_eq_true, if_false, hRt, hLt, hne, false_and, or_self, hRh, hLh]

end infer_positive_roots

section infer_floats_claim

/-- Two operands of a float flavour, in a context with no more stack slots than locals:
`infer_BINARY_OP` returns, and what it has emitted. -/
theorem float_operands_return (Py_DEBUG : Bool) (H : Headers)
    (B : _Py_NegativeTypeMaskBit) (T : TypeObjects) (fuel : Nat) (oparg : Int)
    (s : Emitter) (bb_id : Int) (rt lt : Nat)
    (hw : WellFormed s.m s.type_context)
    (hf : s.type_context.type_locals_len + s.type_context.type_stack_len ≤ fuel)
    (hlen : s.type_context.type_stack_len ≤ s.type_context.type_locals_len)
    (hlive : s.type_context.type_stack + 16 ≤ s.type_context.type_stack_ptr)
    (hop : oparg = H.NB_ADD ∨ oparg = H.NB_SUBTRACT ∨ oparg = H.NB_MULTIPLY)
    (hH : H.NB_ADD ≠ H.NB_SUBTRACT ∧ H.NB_ADD ≠ H.NB_MULTIPLY
      ∧ H.NB_SUBTRACT ≠ H.NB_MULTIPLY)
    (hB : B.FLOAT_BITIDX = 2)
    (hT : T.PyFloat_Type ≠ T.PyRawFloat_Type ∧ T.PyFloat_Type % 8 = 0
      ∧ T.PyRawFloat_Type % 8 = 0 ∧ T.PyFloat_Type ≠ 0 ∧ T.PyRawFloat_Type ≠ 0)
    (hr : (load s.m (s.type_context.type_stack_ptr - 8) >>= typenode_get_root s.m fuel)
      = .ok (_Py_TYPENODE_MAKE_ROOT_POSITIVE rt))
    (hl : (load s.m (s.type_context.type_stack_ptr - 16) >>= typenode_get_root s.m fuel)
      = .ok (_Py_TYPENODE_MAKE_ROOT_POSITIVE lt))
    (hrt : rt = T.PyFloat_Type ∨ rt = T.PyRawFloat_Type)
    (hlt : lt = T.PyFloat_Type ∨ lt = T.PyRawFloat_Type) :
    ∃ r opcode, infer_BINARY_OP Py_DEBUG H B T fuel oparg s bb_id = .ok (false, r)
      ∧ emitted r.code s.write_curr r.write_curr =
          (if rt = T.PyFloat_Type then [.op .UNBOX_FLOAT 0] else [])
            ++ (if lt = T.PyFloat_Type then [.op .UNBOX_FLOAT 1] else [])
            ++ [.op opcode (s.code (r.write_curr - 1)).op_arg]
      ∧ r.write_curr = s.write_curr + (if rt = T.PyFloat_Type then 1 else 0)
          + (if lt = T.PyFloat_Type then 1 else 0) + 1
      ∧ (∀ p, p < s.write_curr ∨ r.write_curr ≤ p → r.code p = s.code p)
      ∧ (oparg = H.NB_ADD → opcode = .BINARY_OP_ADD_FLOAT_UNBOXED)
      ∧ (oparg = H.NB_SUBTRACT → opcode = .BINARY_OP_SUBTRACT_FLOAT_UNBOXED)
      ∧ (oparg = H.NB_MULTIPLY → opcode = .BINARY_OP_MULTIPLY_FLOAT_UNBOXED) := by
  obtain ⟨hFR, hF8, hR8, hF0, hR0⟩ := hT
  have hl0 := hw.1.1
  obtain ⟨p1, hin1⟩ := @peek_int s.type_context hl0 (-1) 1 (by norm_num) (by omega)
    (by omega)
  obtain ⟨p2, hin2⟩ := @peek_int s.type_context hl0 (-2) 2 (by norm_num) (by omega)
    (by omega)
  have e8 : 8 * 1 = 8 := rfl
  have e16 : 8 * 2 = 16 := rfl
  rw [e8] at p1 hin1
  rw [e16] at p2 hin2
  have hrt8 : rt % 8 = 0 := by rcases hrt with h | h <;> rw [h] <;> assumption
  have hlt8 : lt % 8 = 0 := by rcases hlt with h | h <;> rw [h] <;> assumption
  have hrt0 : rt ≠ 0 := by rcases hrt with h | h <;> rw [h] <;> assumption
  have hlt0 : lt ≠ 0 := by rcases hlt with h | h <;> rw [h] <;> assumption
  obtain ⟨a1, _, a3, a4⟩ := @root_positive_facts rt (by omega)
  obtain ⟨b1, _, b3, b4⟩ := @root_positive_facts lt (by omega)
  have hnull : _Py_TYPENODE_POSITIVE_NULLROOT = 1 := by decide
  have key := @infer_positive Py_DEBUG H B T s fuel oparg bb_id
    (_Py_TYPENODE_MAKE_ROOT_POSITIVE rt) (_Py_TYPENODE_MAKE_ROOT_POSITIVE lt) hop
    (by rw [p1]; exact hr) (by rw [p2]; exact hl)
    (by rw [a1, hnull]; omega) (by rw [b1, hnull]; omega) a3 b3
    (has_negativetype_positive B T hB hrt8) (has_negativetype_positive B T hB hlt8)
  rw [key, a4, b4]
  obtain ⟨opcode, hopc, hkind, o1, o2, o3⟩ := float_opcode_spec H hop hH
  have hR4 : T.PyRawFloat_Type % 4 = 0 := by omega
  -- the end of the function, once both types are raw floats
  have fin : ∀ s' : Emitter, WellFormed s'.m s'.type_context →
      s'.type_context = s.type_context →
      ∃ r, infer_BINARY_OP.finish Py_DEBUG H T fuel oparg s' T.PyRawFloat_Type
          T.PyRawFloat_Type = .ok (false, r)
        ∧ r.code = _py_set_opcode s'.code s'.write_curr opcode
        ∧ r.write_curr = s'.write_curr + 1 := by
    intro s' hw' hc'
    obtain ⟨m', c', he⟩ := @specialise_float_spec Py_DEBUG T s' fuel opcode hw'
      (by rw [hc']; exact hf) (by rw [hc']; exact hlen) (by rw [hc']; exact hlive) hR4 hkind
    refine ⟨{ code := _py_set_opcode s'.code s'.write_curr opcode
              write_curr := s'.write_curr + 1
              m := m'
              type_context := c' }, ?_, rfl, rfl⟩
    unfold infer_BINARY_OP.finish
    rw [if_pos ⟨rfl, rfl⟩, hopc, ok_bind, he]
  have u0 := @unbox_spec Py_DEBUG T s fuel 0 hw hf hlen (by omega) hR4
  simp only [Nat.cast_zero] at u0
  obtain ⟨m1, hu0, hw1, _, _⟩ := u0
  unfold infer_BINARY_OP.typed
  rcases hrt with hrt | hrt <;> rcases hlt with hlt | hlt <;> subst hrt <;> subst hlt
  · -- both boxed
    have u1 := @unbox_spec Py_DEBUG T
      { code := set_op s.code s.write_curr .UNBOX_FLOAT 0, write_curr := s.write_curr + 1,
        m := m1, type_context := s.type_context } fuel 1 hw1 hf hlen
      (by show s.type_context.type_stack + 8 * (1 + 1) ≤ s.type_context.type_stack_ptr
          omega) hR4
    simp only [Nat.cast_one] at u1
    obtain ⟨m2, hu1, hw2, _, _⟩ := u1
    obtain ⟨r, hfin, hrc, hrw⟩ := fin
      { code := set_op (set_op s.code s.write_curr .UNBOX_FLOAT 0) (s.write_curr + 1)
          .UNBOX_FLOAT 1,
        write_curr := s.write_curr + 1 + 1, m := m2, type_context := s.type_context }
      hw2 rfl
    have hrw3 : r.write_curr = s.write_curr + 3 := by rw [hrw]
    have hrc3 : r.code = _py_set_opcode (set_op (set_op s.code s.write_curr .UNBOX_FLOAT 0)
        (s.write_curr + 1) .UNBOX_FLOAT 1) (s.write_curr + 2) opcode := by rw [hrc]
    refine ⟨r, opcode, ?_, ?_, ?_, ?_, o1, o2, o3⟩
    · simp only [true_or, and_self, if_true, hu0, ok_bind, hu1, hfin]
    · rw [hrw3, hrc3]
      unfold emitted
      rw [Nat.add_sub_cancel_left, show s.write_curr + 3 - 1 = s.write_curr + 2 by omega]
      simp [List.range_succ, set_op, _py_set_opcode]
    · rw [hrw3]; simp
    · intro p hp
      rw [hrw3] at hp
      have h1 : p ≠ s.write_curr := by omega
      have h2 : p ≠ s.write_curr + 1 := by omega
      have h3 : p ≠ s.write_curr + 2 := by omega
      simp [hrc3, set_op, _py_set_opcode, h1, h2, h3]
  · -- right boxed, left raw
    obtain ⟨r, hfin, hrc, hrw⟩ := fin
      { code := set_op s.code s.write_curr .UNBOX_FLOAT 0,
        write_curr := s.write_curr + 1, m := m1, type_context := s.type_context }
      hw1 rfl
    have hrw3 : r.write_curr = s.write_curr + 2 := by rw [hrw]
    have hrc3 : r.code = _py_set_opcode (set_op s.code s.write_curr .UNBOX_FLOAT 0)
        (s.write_curr + 1) opcode := by rw [hrc]
    refine ⟨r, opcode, ?_, ?_, ?_, ?_, o1, o2, o3⟩
    · simp only [or_true, and_self, if_true, hu0, ok_bind, if_neg hFR.symm, pure_eq_ok,
        hfin]
    · rw [hrw3, hrc3]
      unfold emitted
      rw [Nat.add_sub_cancel_left, show s.write_curr + 2 - 1 = s.write_curr + 1 by omega]
      simp [List.range_succ, set_op, _py_set_opcode, hFR.symm]
    · rw [hrw3]; simp [hFR.symm]
    · intro p hp
      rw [hrw3] at hp
      have h1 : p ≠ s.write_curr := by omega
      have h2 : p ≠ s.write_curr + 1 := by omega
      simp [hrc3, set_op, _py_set_opcode, h1, h2]
  · -- right raw, left boxed
    have u1 := @unbox_spec Py_DEBUG T s fuel 1 hw hf hlen (by omega) hR4
    simp only [Nat.cast_one] at u1
    obtain ⟨m2, hu1, hw2, _, _⟩ := u1
    obtain ⟨r, hfin, hrc, hrw⟩ := fin
      { code := set_op s.code s.write_curr .UNBOX_FLOAT 1,
        write_curr := s.write_curr + 1, m := m2, type_context := s.type_context }
      hw2 rfl
    have hrw3 : r.write_curr = s.write_curr + 2 := by rw [hrw]
    have hrc3 : r.code = _py_set_opcode (set_op s.code s.write_curr .UNBOX_FLOAT 1)
        (s.write_curr + 1) opcode := by rw [hrc]
    refine ⟨r, opcode, ?_, ?_, ?_, ?_, o1, o2, o3⟩
    · simp only [hFR.symm, false_and, if_false, pure_eq_ok, ok_bind, if_true, hu1, hfin]
    · rw [hrw3, hrc3]
      unfold emitted
      rw [Nat.add_sub_cancel_left, show s.write_curr + 2 - 1 = s.write_curr + 1 by omega]
      simp [List.range_succ, set_op, _py_set_opcode, hFR.symm]
    · rw [hrw3]; simp [hFR.symm]
    · intro p hp
      rw [hrw3] at hp
      have h1 : p ≠ s.write_curr := by omega
      have h2 : p ≠ s.write_curr + 1 := by omega
      simp [hrc3, set_op, _py_set_opcode, h1, h2]
  · -- both raw
    obtain ⟨r, hfin, hrc, hrw⟩ := fin s hw rfl
    refine ⟨r, opcode, ?_, ?_, ?_, ?_, o1, o2, o3⟩
    · simp only [hFR.symm, false_and, if_false, pure_eq_ok, ok_bind, hfin]
    · rw [hrw, hrc]
      unfold emitted
      rw [Nat.add_sub_cancel_left, Nat.add_sub_cancel]
      simp [List.range_succ, _py_set_opcode, hFR.symm]
    · rw [hrw]; simp [hFR.symm]
    · intro p hp
      rw [hrw] at hp
      have h1 : p ≠ s.write_curr := by omega
      simp [hrc, _py_set_opcode, h1]

/-- Two operands of a float flavour, in a context with more stack slots than locals whose
unit behind `type_locals` is not mapped: the first `type_propagate` of `infer_BINARY_OP`
ends in a bad access. -/
theorem float_operands_fault (Py_DEBUG : Bool) (H : Headers)
    (B : _Py_NegativeTypeMaskBit) (T : TypeObjects) (fuel : Nat) (oparg : Int)
    (s : Emitter) (bb_id : Int) (rt lt : Nat)
    (hw : WellFormed s.m s.type_context)
    (hf : s.type_context.type_locals_len + s.type_context.type_stack_len ≤ fuel)
    (hmore : s.type_context.type_locals_len < s.type_context.type_stack_len)
    (hout : s.m (s.type_context.type_locals + 8 * s.type_context.type_locals_len) = none)
    (hlive : s.type_context.type_stack + 16 ≤ s.type_context.type_stack_ptr)
    (hop : oparg = H.NB_ADD ∨ oparg = H.NB_SUBTRACT ∨ oparg = H.NB_MULTIPLY)
    (hH : H.NB_ADD ≠ H.NB_SUBTRACT ∧ H.NB_ADD ≠ H.NB_MULTIPLY
      ∧ H.NB_SUBTRACT ≠ H.NB_MULTIPLY)
    (hB : B.FLOAT_BITIDX = 2)
    (hT : T.PyFloat_Type ≠ T.PyRawFloat_Type ∧ T.PyFloat_Type % 8 = 0
      ∧ T.PyRawFloat_Type % 8 = 0 ∧ T.PyFloat_Type ≠ 0 ∧ T.PyRawFloat_Type ≠ 0)
    (hr : (load s.m (s.type_context.type_stack_ptr - 8) >>= typenode_get_root s.m fuel)
      = .ok (_Py_TYPENODE_MAKE_ROOT_POSITIVE rt))
    (hl : (load s.m (s.type_context.type_stack_ptr - 16) >>= typenode_get_root s.m fuel)
      = .ok (_Py_TYPENODE_MAKE_ROOT_POSITIVE lt))
    (hrt : rt = T.PyFloat_Type ∨ rt = T.PyRawFloat_Type)
    (hlt : lt = T.PyFloat_Type ∨ lt = T.PyRawFloat_Type) :
    infer_BINARY_OP Py_DEBUG H B T fuel oparg s bb_id = .error .bad_access := by
  obtain ⟨hFR, hF8, hR8, hF0, hR0⟩ := hT
  have hl0 := hw.1.1
  obtain ⟨p1, hin1⟩ := @peek_int s.type_context hl0 (-1) 1 (by norm_num) (by omega)
    (by omega)
  obtain ⟨p2, hin2⟩ := @peek_int s.type_context hl0 (-2) 2 (by norm_num) (by omega)
    (by omega)
  have e8 : 8 * 1 = 8 := rfl
  have e16 : 8 * 2 = 16 := rfl
  rw [e8] at p1 hin1
  rw [e16] at p2 hin2
  have hrt8 : rt % 8 = 0 := by rcases hrt with h | h <;> rw [h] <;> assumption
  have hlt8 : lt % 8 = 0 := by rcases hlt with h | h <;> rw [h] <;> assumption
  have hrt0 : rt ≠ 0 := by rcases hrt with h | h <;> rw [h] <;> assumption
  have hlt0 : lt ≠ 0 := by rcases hlt with h | h <;> rw [h] <;> assumption
  obtain ⟨a1, _, a3, a4⟩ := @root_positive_facts rt (by omega)
  obtain ⟨b1, _, b3, b4⟩ := @root_positive_facts lt (by omega)
  have hnull : _Py_TYPENODE_POSITIVE_NULLROOT = 1 := by decide
  have key := @infer_positive Py_DEBUG H B T s fuel oparg bb_id
    (_Py_TYPENODE_MAKE_ROOT_POSITIVE rt) (_Py_TYPENODE_MAKE_ROOT_POSITIVE lt) hop
    (by rw [p1]; exact hr) (by rw [p2]; exact hl)
    (by rw [a1, hnull]; omega) (by rw [b1, hnull]; omega) a3 b3
    (has_negativetype_positive B T hB hrt8) (has_negativetype_positive B T hB hlt8)
  rw [key, a4, b4]
  obtain ⟨opcode, hopc, hkind, _⟩ := float_opcode_spec H hop hH
  have hR4 : T.PyRawFloat_Type % 4 = 0 := by omega
  have u0 := @unbox_fault Py_DEBUG T s fuel 0 hw hf hmore hout (by omega) hR4
  have u1 := @unbox_fault Py_DEBUG T s fuel 1 hw hf hmore hout (by omega) hR4
  simp only [Nat.cast_zero] at u0
  simp only [Nat.cast_one] at u1
  have sp := @specialise_fault Py_DEBUG T s fuel opcode T.PyRawFloat_Type hw hf hmore hout
    hlive hR4 (by rcases hkind with h | h | h <;> subst h <;> rfl)
  unfold infer_BINARY_OP.typed
  rcases hrt with hrt | hrt <;> rcases hlt with hlt | hlt <;> subst hrt <;> subst hlt
  · simp only [true_or, and_self, if_true, u0]
    rfl
  · simp only [or_true, and_self, if_true, u0]
    rfl
  · simp only [hFR.symm, false_and, if_false, pure_eq_ok, ok_bind, if_true, u1]
    rfl
  · unfold infer_BINARY_OP.finish
    simp only [hFR.symm, false_and, if_false, pure_eq_ok, ok_bind, and_self, if_true, hopc]
    exact sp

/-- C20: both operands of a float flavour.  In a well-formed context with two live stack
slots whose roots are positive roots of type boxed float or raw float: when the context
has no more stack slots than locals, `infer_BINARY_OP` (for `+`, `-`, `*`) returns with
`needs_guard = false`; the code units it has emitted are `UNBOX_FLOAT 0` iff the right
operand is boxed, then `UNBOX_FLOAT 1` iff the left operand is boxed, then the
`BINARY_OP_*_FLOAT_UNBOXED` opcode of the operator (its `op.arg` byte is not written); the
returned pointer is just behind them and no other code unit is changed (first conjunct).
When the context has more stack slots than locals and the unit behind `type_locals` is
not mapped, the call ends in a bad access: each path calls `type_propagate`, whose print
reads `type_locals[i]` for the indices of the stack (second conjunct).  The type objects
are 8-aligned and the float bit has index 2 (so that `has_negativetype`, which also
inspects positive roots, reads a zero address bit). -/
theorem infer_binary_op_floats (Py_DEBUG : Bool) (H : Headers)
    (B : _Py_NegativeTypeMaskBit) (T : TypeObjects) (fuel : Nat) (oparg : Int)
    (s : Emitter) (bb_id : Int) (rt lt : Nat)
    (hw : WellFormed s.m s.type_context)
    (hf : s.type_context.type_locals_len + s.type_context.type_stack_len ≤ fuel)
    (hlive : s.type_context.type_stack + 16 ≤ s.type_context.type_stack_ptr)
    (hop : oparg = H.NB_ADD ∨ oparg = H.NB_SUBTRACT ∨ oparg = H.NB_MULTIPLY)
    (hH : H.NB_ADD ≠ H.NB_SUBTRACT ∧ H.NB_ADD ≠ H.NB_MULTIPLY
      ∧ H.NB_SUBTRACT ≠ H.NB_MULTIPLY)
    (hB : B.FLOAT_BITIDX = 2)
    (hT : T.PyFloat_Type ≠ T.PyRawFloat_Type ∧ T.PyFloat_Type % 8 = 0
      ∧ T.PyRawFloat_Type % 8 = 0 ∧ T.PyFloat_Type ≠ 0 ∧ T.PyRawFloat_Type ≠ 0)
    (hr : (load s.m (s.type_context.type_stack_ptr - 8) >>= typenode_get_root s.m fuel)
      = .ok (_Py_TYPENODE_MAKE_ROOT_POSITIVE rt))
    (hl : (load s.m (s.type_context.type_stack_ptr - 16) >>= typenode_get_root s.m fuel)
      = .ok (_Py_TYPENODE_MAKE_ROOT_POSITIVE lt))
    (hrt : rt = T.PyFloat_Type ∨ rt = T.PyRawFloat_Type)
    (hlt : lt = T.PyFloat_Type ∨ lt = T.PyRawFloat_Type) :
    (s.type_context.type_stack_len ≤ s.type_context.type_locals_len →
      ∃ r opcode, infer_BINARY_OP Py_DEBUG H B T fuel oparg s bb_id = .ok (false, r)
        ∧ emitted r.code s.write_curr r.write_curr =
            (if rt = T.PyFloat_Type then [.op .UNBOX_FLOAT 0] else [])
              ++ (if lt = T.PyFloat_Type then [.op .UNBOX_FLOAT 1] else [])
              ++ [.op opcode (s.code (r.write_curr - 1)).op_arg]
        ∧ r.write_curr = s.write_curr + (if rt = T.PyFloat_Type then 1 else 0)
            + (if lt = T.PyFloat_Type then 1 else 0) + 1
        ∧ (∀ p, p < s.write_curr ∨ r.write_curr ≤ p → r.code p = s.code p)
        ∧ (oparg = H.NB_ADD → opcode = .BINARY_OP_ADD_FLOAT_UNBOXED)
        ∧ (oparg = H.NB_SUBTRACT → opcode = .BINARY_OP_SUBTRACT_FLOAT_UNBOXED)
        ∧ (oparg = H.NB_MULTIPLY → opcode = .BINARY_OP_MULTIPLY_FLOAT_UNBOXED))
      ∧ (s.type_context.type_locals_len < s.type_context.type_stack_len →
        s.m (s.type_context.type_locals + 8 * s.type_context.type_locals_len) = none →
        infer_BINARY_OP Py_DEBUG H B T fuel oparg s bb_id = .error .bad_access) :=
  ⟨fun hlen => float_operands_return Py_DEBUG H B T fuel oparg s bb_id rt lt hw hf hlen hlive hop hH hB hT
      hr hl hrt hlt,
    fun hmore hout => float_operands_fault Py_DEBUG H B T fuel oparg s bb_id rt lt hw hf hmore hout
      hlive hop hH hB hT hr hl hrt hlt⟩

end infer_floats_claim
section infer_floats_witness

theorem infer_binary_op_floats_witness :
    WellFormed (binop_emitter (binop_mem 1025 66 1041)).m
        (binop_emitter (binop_mem 1025 66 1041)).type_context
      ∧ (load (binop_emitter (binop_mem 1025 66 1041)).m
            ((binop_emitter (binop_mem 1025 66 1041)).type_context.type_stack_ptr - 8)
          >>= typenode_get_root (binop_emitter (binop_mem 1025 66 1041)).m 4)
          = .ok (_Py_TYPENODE_MAKE_ROOT_POSITIVE 1040)
      ∧ (load (binop_emitter (binop_mem 1025 66 1041)).m
            ((binop_emitter (binop_mem 1025 66 1041)).type_context.type_stack_ptr - 16)
          >>= typenode_get_root (binop_emitter (binop_mem 1025 66 1041)).m 4)
          = .ok (_Py_TYPENODE_MAKE_ROOT_POSITIVE 1024)
      ∧ (∃ r opcode, infer_BINARY_OP true ex_headers ex_bits ex_types 4 10
              (binop_emitter (binop_mem 1025 66 1041)) 7 = .ok (false, r)
          ∧ emitted r.code (binop_emitter (binop_mem 1025 66 1041)).write_curr r.write_curr =
              (if 1040 = ex_types.PyFloat_Type then [.op .UNBOX_FLOAT 0] else [])
                ++ (if 1024 = ex_types.PyFloat_Type then [.op .UNBOX_FLOAT 1] else [])
                ++ [.op opcode
                  ((binop_emitter (binop_mem 1025 66 1041)).code (r.write_curr - 1)).op_arg]
          ∧ r.write_curr = (binop_emitter (binop_mem 1025 66 1041)).write_curr
              + (if 1040 = ex_types.PyFloat_Type then 1 else 0)
              + (if 1024 = ex_types.PyFloat_Type then 1 else 0) + 1
          ∧ (∀ p, p < (binop_emitter (binop_mem 1025 66 1041)).write_curr ∨ r.write_curr ≤ p →
              r.code p = (binop_emitter (binop_mem 1025 66 1041)).code p)
          ∧ ((10 : Int) = ex_headers.NB_ADD → opcode = .BINARY_OP_ADD_FLOAT_UNBOXED)
          ∧ ((10 : Int) = ex_headers.NB_SUBTRACT → opcode = .BINARY_OP_SUBTRACT_FLOAT_UNBOXED)
          ∧ ((10 : Int) = ex_headers.NB_MULTIPLY → opcode = .BINARY_OP_MULTIPLY_FLOAT_UNBOXED))
      ∧ WellFormed (tight_binop_emitter (tight_binop_mem 1025 66 1041)).m
          (tight_binop_emitter (tight_binop_mem 1025 66 1041)).type_context
      ∧ infer_BINARY_OP true ex_headers ex_bits ex_types 3 10
          (tight_binop_emitter (tight_binop_mem 1025 66 1041)) 7 = .error .bad_access
      ∧ infer_BINARY_OP false ex_headers ex_bits ex_types 3 10
          (tight_binop_emitter (tight_binop_mem 1025 66 1041)) 7 = .error .bad_access :=
  ⟨by decide, by decide, by decide,
    (infer_binary_op_floats true ex_headers ex_bits ex_types 4 10
      (binop_emitter (binop_mem 1025 66 1041)) 7 1040 1024
      (by decide) (by decide) (by decide) (by decide) (by decide) (by decide) (by decide)
      (by decide) (by decide) (by decide) (by decide)).1 (by decide),
    by decide,
    (infer_binary_op_floats true ex_headers ex_bits ex_types 3 10
      (tight_binop_emitter (tight_binop_mem 1025 66 1041)) 7 1040 1024
      (by decide) (by decide) (by decide) (by decide) (by decide) (by decide) (by decide)
      (by decide) (by decide) (by decide) (by decide)).2 (by decide) (by decide),
    (infer_binary_op_floats false ex_headers ex_bits ex_types 3 10
      (tight_binop_emitter (tight_binop_mem 1025 66 1041)) 7 1040 1024
      (by decide) (by decide) (by decide) (by decide) (by decide) (by decide) (by decide)
      (by decide) (by decide) (by decide) (by decide)).2 (by decide) (by decide)⟩

end infer_floats_witness

/-! ## Guards of `BINARY_OP`: evaluations -/

section guard_evaluations

/-- TYPE_SET of a new root value onto a node of a well-formed context: the call returns a
heap in which the context is well formed and the node resolves to the new root; an
unmapped address stays unmapped. -/
theorem set_new_root (d : Bool) {m : Mem} {c : _PyTier2TypeContext} (hw : WellFormed m c)
    {src dst fuel : Nat} (hd : InCtx c dst)
    (hf : c.type_locals_len + c.type_stack_len ≤ fuel)
    (hroot : _Py_TYPENODE_IS_ROOT src ≠ 0) :
    ∃ m', __type_propagate_TYPE_SET d m fuel src dst true = .ok m'
      ∧ WellFormed m' c
      ∧ (load m' dst >>= typenode_get_root m' fuel) = .ok src
      ∧ ∀ a, m a = none → m' a = none := by
  obtain ⟨rd, dd, hrd, hdd, hrdin⟩ := hw.rootAt hd
  obtain ⟨rdv, hrdv, hrdr⟩ := hrd.root_is_root
  have hsrc : SrcOk m fuel c src dst true := Or.inl ⟨rfl, hroot⟩
  obtain ⟨ρ, hρ, _, _, hin⟩ := heap_set_forest hw hd hf hsrc hrd
  have hρ' := hρ rfl
  subst hρ'
  refine ⟨_, set_eval d hw hd hf hsrc hrd, heap_set_wellFormed hw hd hf hsrc hrd, ?_, ?_⟩
  · have hst := same_tree_eq hw.1 hd hd hrd hrd (Nat.le_trans (Nat.le_of_lt hdd) hf)
      (Nat.le_trans (Nat.le_of_lt hdd) hf)
    obtain ⟨d', hd'⟩ := hin dst dd hrd
    exact (set_roots hw hd hf hsrc hrd hd).2 (by rw [hst]; simp) ρ d' src hd'
      (by simp [heap_set, src_node])
  · intro a ha
    have hne : a ≠ ρ := by
      intro e
      rw [e, hrdv] at ha
      cases ha
    simp [heap_set, hne, ha]

/-- The negative root that rules out the type of bit `b` alone, as the guard-failure path
builds it. -/
theorem negative_root_of_bit {b : Nat} (h2 : 2 ≤ b) (h64 : b < 64) :
    (_Py_TYPENODE_MAKE_ROOT_NEGATIVE 0 ||| (1 <<< b) % 18446744073709551616)
        = _Py_TYPENODE_MAKE_ROOT_NEGATIVE (1 <<< b)
      ∧ _Py_TYPENODE_GET_TAG (_Py_TYPENODE_MAKE_ROOT_NEGATIVE (1 <<< b)) = TYPE_ROOT_NEGATIVE
      ∧ _Py_TYPENODE_CLEAR_TAG (_Py_TYPENODE_MAKE_ROOT_NEGATIVE (1 <<< b)) = 1 <<< b
      ∧ _Py_TYPENODE_IS_ROOT (_Py_TYPENODE_MAKE_ROOT_NEGATIVE (1 <<< b)) ≠ 0 := by
  have e0 : _Py_TYPENODE_MAKE_ROOT_NEGATIVE 0 = 3 := by decide
  have hb : (1 <<< b : Nat) = 2 ^ 2 * 2 ^ (b - 2) := by
    rw [Nat.shiftLeft_eq, Nat.one_mul, ← Nat.pow_add]
    congr 1
    omega
  have hlt : (1 <<< b : Nat) < 18446744073709551616 := by
    rw [Nat.shiftLeft_eq, Nat.one_mul]
    exact Nat.pow_lt_pow_right (by decide) h64
  have hmod : (1 <<< b : Nat) % 4 = 0 := by
    rw [hb]
    omega
  have e1 : _Py_TYPENODE_MAKE_ROOT_NEGATIVE (1 <<< b) = 1 <<< b + 3 := by
    unfold _Py_TYPENODE_MAKE_ROOT_NEGATIVE _Py_TYPENODE_CLEAR_TAG TYPE_ROOT_NEGATIVE
    rw [hmod]
    rfl
  refine ⟨?_, ?_, ?_, ?_⟩
  · rw [e0, e1, Nat.mod_eq_of_lt hlt, Nat.lor_comm, hb]
    exact (Nat.mul_add_lt_is_or (by decide) _).symm
  · rw [e1]
    unfold _Py_TYPENODE_GET_TAG TYPE_ROOT_NEGATIVE
    omega
  · rw [e1]
    unfold _Py_TYPENODE_CLEAR_TAG
    omega
  · rw [e1]
    unfold _Py_TYPENODE_IS_ROOT
    omega

/-- C16: the guard-failure path of `_PyTier2_GenerateNextBBMetaWithTypeContext`.  The
branch carries the type-branch flag, the instruction at `curr_executing_instr - 2` is the
guard `CHECK_FLOAT k` or `CHECK_INT k`, the guard failed (`is_successor = false`), and the
guarded slot `stack[top-1-k]` of the context `c` (the copy after the pops) resolves to the
unknown type, the state in which `infer_BINARY_OP` emits a guard: nothing is ruled out at
the slot.  In a build without assertions, or when the context has no more stack slots
than locals, the update returns and the slot resolves to the negative root whose
ruled-out set is the guarded type (float for `CHECK_FLOAT`, int for `CHECK_INT`; first
conjunct).  In a build with assertions, when the context has more stack slots than locals
and the unit behind `type_locals` is not mapped, the update ends in a bad access: the
context is printed after the TYPE_SET, and the print reads `type_locals[i]` for the
indices of the stack (second conjunct).  The bit indices are at least 2 (the tag bits) and
below 64, and `PyLong_Type` is not at the address of a float type. -/
theorem guard_failure_rules_out_guarded (Py_DEBUG : Bool) (B : _Py_NegativeTypeMaskBit)
    (T : TypeObjects) (m : Mem) (fuel : Nat) (code : Code)
    (bb_id_tagged curr_executing_instr : Nat) (n_required_pop : Int)
    (c0 c : _PyTier2TypeContext) (guard_opcode : Opcode) (arg bitidx : Nat)
    (hc : (if n_required_pop ≠ 0 then __type_stack_shrink c0 n_required_pop else c0) = c)
    (hw : WellFormed m c)
    (hf : c.type_locals_len + c.type_stack_len ≤ fuel)
    (hlive : c.type_stack + 8 * (arg + 1) ≤ c.type_stack_ptr)
    (htag : BB_IS_TYPE_BRANCH bb_id_tagged ≠ 0)
    (hcode : code (curr_executing_instr - 2) = .op guard_opcode arg)
    (hguard : (guard_opcode = .CHECK_FLOAT ∧ bitidx = B.FLOAT_BITIDX)
      ∨ (guard_opcode = .CHECK_INT ∧ bitidx = B.LONG_BITIDX))
    (hT : T.PyLong_Type ≠ T.PyFloat_Type ∧ T.PyLong_Type ≠ T.PyRawFloat_Type)
    (hbit : 2 ≤ bitidx ∧ bitidx < 64)
    (hnull : slot_root m fuel c arg = .ok _Py_TYPENODE_POSITIVE_NULLROOT) :
    ((Py_DEBUG = false ∨ c.type_stack_len ≤ c.type_locals_len) →
        ∃ m', _PyTier2_GenerateNextBBMetaWithTypeContext.propagate Py_DEBUG B T m fuel code
            bb_id_tagged curr_executing_instr n_required_pop false c0 = .ok (m', c)
          ∧ slot_root m' fuel c arg = .ok (_Py_TYPENODE_MAKE_ROOT_NEGATIVE (1 <<< bitidx))
          ∧ _Py_TYPENODE_GET_TAG (_Py_TYPENODE_MAKE_ROOT_NEGATIVE (1 <<< bitidx))
              = TYPE_ROOT_NEGATIVE
          ∧ _Py_TYPENODE_CLEAR_TAG (_Py_TYPENODE_MAKE_ROOT_NEGATIVE (1 <<< bitidx))
              = 1 <<< bitidx)
      ∧ (Py_DEBUG = true → c.type_locals_len < c.type_stack_len →
          m (c.type_locals + 8 * c.type_locals_len) = none →
          _PyTier2_GenerateNextBBMetaWithTypeContext.propagate Py_DEBUG B T m fuel code
            bb_id_tagged curr_executing_instr n_required_pop false c0
              = .error .bad_access) := by
  obtain ⟨p1, hin⟩ := @peek_int c hw.1.1 (-1 - (arg : Int)) (arg + 1)
    (by push_cast; omega) (by omega) hlive
  unfold slot_root at hnull
  obtain ⟨v, hv, hg⟩ := load_get_root_split hnull
  obtain ⟨n1, n2, n3, n4⟩ := negative_root_of_bit hbit.1 hbit.2
  obtain ⟨m', hset, hw', hslot, hun⟩ := set_new_root Py_DEBUG hw hin hf n4
  have htyp : ∃ typeobject, guardopcode_to_typeobject T guard_opcode = .ok typeobject
      ∧ typeobject_to_bitidx B T typeobject = .ok bitidx := by
    rcases hguard with ⟨h1, h2⟩ | ⟨h1, h2⟩
    · subst h1 h2
      exact ⟨T.PyFloat_Type, rfl, by unfold typeobject_to_bitidx; rw [if_pos rfl]⟩
    · subst h1 h2
      exact ⟨T.PyLong_Type, rfl, by
        unfold typeobject_to_bitidx; rw [if_neg hT.1, if_neg hT.2, if_pos rfl]⟩
  obtain ⟨typeobject, hty, hbi⟩ := htyp
  have hsn : set_negativetype Py_DEBUG B T (_Py_TYPENODE_MAKE_ROOT_NEGATIVE 0) typeobject
      = .ok (_Py_TYPENODE_MAKE_ROOT_NEGATIVE (1 <<< bitidx)) := by
    unfold set_negativetype
    rw [show decide (_Py_TYPENODE_GET_TAG (_Py_TYPENODE_MAKE_ROOT_NEGATIVE 0)
      = TYPE_ROOT_NEGATIVE) = true by decide, c_assert_true, ok_bind, hbi, ok_bind, ← n1]
    rfl
  have hassert : (decide (_Py_TYPENODE_GET_TAG _Py_TYPENODE_POSITIVE_NULLROOT
      = TYPE_ROOT_NEGATIVE) || _Py_TYPENODE_IS_POSITIVE_NULL _Py_TYPENODE_POSITIVE_NULLROOT)
      = true := by decide
  have key : _PyTier2_GenerateNextBBMetaWithTypeContext.propagate Py_DEBUG B T m fuel code
      bb_id_tagged curr_executing_instr n_required_pop false c0
      = ((if Py_DEBUG = true then print_typestack Py_DEBUG m' fuel c else pure ())
          >>= fun _ => pure (m', c)) := by
    unfold _PyTier2_GenerateNextBBMetaWithTypeContext.propagate
    simp only [hc, htag, ne_eq, not_false_eq_true, if_true, hcode, Bool.false_eq_true,
      if_false, p1, hv, ok_bind, hg, hassert, c_assert_true, hty, hsn, hset]
    cases Py_DEBUG <;> rfl
  rw [key]
  refine ⟨?_, ?_⟩
  · intro h
    refine ⟨m', ?_, hslot, n2, n3⟩
    rcases h with h | h
    · subst h
      rfl
    · rw [print_typestack_ok Py_DEBUG hw' hf h]
      cases Py_DEBUG <;> rfl
  · intro hd hmore hout
    subst hd
    rw [if_pos rfl, print_typestack_out_of_bounds true hw' hf hmore (hun _ hout)]
    rfl

theorem guard_failure_rules_out_guarded_witness :
    (WellFormed (binop_mem 1 1057 1) binop_ctx
      ∧ slot_root (binop_mem 1 1057 1) 4 binop_ctx 0 = .ok _Py_TYPENODE_POSITIVE_NULLROOT
      ∧ WellFormed (tight_binop_mem 1 1057 1) tight_binop_ctx
      ∧ slot_root (tight_binop_mem 1 1057 1) 3 tight_binop_ctx 0
          = .ok _Py_TYPENODE_POSITIVE_NULLROOT)
      ∧ (∃ m', _PyTier2_GenerateNextBBMetaWithTypeContext.propagate true ex_bits ex_types
            (binop_mem 1 1057 1) 4 (set_op ex_code 3 .CHECK_FLOAT 0) 15 5 0 false binop_ctx
            = .ok (m', binop_ctx)
          ∧ slot_root m' 4 binop_ctx 0 = .ok (_Py_TYPENODE_MAKE_ROOT_NEGATIVE (1 <<< 2))
          ∧ _Py_TYPENODE_GET_TAG (_Py_TYPENODE_MAKE_ROOT_NEGATIVE (1 <<< 2))
              = TYPE_ROOT_NEGATIVE
          ∧ _Py_TYPENODE_CLEAR_TAG (_Py_TYPENODE_MAKE_ROOT_NEGATIVE (1 <<< 2)) = 1 <<< 2)
      ∧ (∃ m', _PyTier2_GenerateNextBBMetaWithTypeContext.propagate false ex_bits ex_types
            (tight_binop_mem 1 1057 1) 3 (set_op ex_code 3 .CHECK_FLOAT 0) 15 5 0 false
            tight_binop_ctx = .ok (m', tight_binop_ctx)
          ∧ slot_root m' 3 tight_binop_ctx 0
              = .ok (_Py_TYPENODE_MAKE_ROOT_NEGATIVE (1 <<< 2))
          ∧ _Py_TYPENODE_GET_TAG (_Py_TYPENODE_MAKE_ROOT_NEGATIVE (1 <<< 2))
              = TYPE_ROOT_NEGATIVE
          ∧ _Py_TYPENODE_CLEAR_TAG (_Py_TYPENODE_MAKE_ROOT_NEGATIVE (1 <<< 2)) = 1 <<< 2)
      ∧ _PyTier2_GenerateNextBBMetaWithTypeContext.propagate true ex_bits ex_types
          (tight_binop_mem 1 1057 1) 3 (set_op ex_code 3 .CHECK_FLOAT 0) 15 5 0 false
          tight_binop_ctx = .error .bad_access :=
  ⟨⟨by decide, by decide, by decide, by decide⟩,
    (guard_failure_rules_out_guarded true ex_bits ex_types (binop_mem 1 1057 1) 4
      (set_op ex_code 3 .CHECK_FLOAT 0) 15 5 0 binop_ctx binop_ctx .CHECK_FLOAT 0 2 rfl
      (by decide) (by decide) (by decide) (by decide) (by decide) (Or.inl ⟨rfl, rfl⟩)
      (by decide) (by decide) (by decide)).1 (Or.inr (by decide)),
    (guard_failure_rules_out_guarded false ex_bits ex_types (tight_binop_mem 1 1057 1) 3
      (set_op ex_code 3 .CHECK_FLOAT 0) 15 5 0 tight_binop_ctx tight_binop_ctx .CHECK_FLOAT
      0 2 rfl (by decide) (by decide) (by decide) (by decide) (by decide)
      (Or.inl ⟨rfl, rfl⟩) (by decide) (by decide) (by decide)).1 (Or.inl rfl),
    (guard_failure_rules_out_guarded true ex_bits ex_types (tight_binop_mem 1 1057 1) 3
      (set_op ex_code 3 .CHECK_FLOAT 0) 15 5 0 tight_binop_ctx tight_binop_ctx .CHECK_FLOAT
      0 2 rfl (by decide) (by decide) (by decide) (by decide) (by decide)
      (Or.inl ⟨rfl, rfl⟩) (by decide) (by decide) (by decide)).2 rfl (by decide)
      (by decide)⟩

/-- C17: unknown right operand.  `infer_BINARY_OP` sets `needs_guard` and writes
`CHECK_FLOAT 0`, `NOP`, `BB_BRANCH` and the cache entry with the tagged id
`(7 << 1) | 1` at positions 0 to 3, but the pointer it returns is the `write_curr` it was
given (0), not the position 4 behind the guard, which `emit_type_guard` returns.  The same
happens with `CHECK_FLOAT 1` when the left operand is the unknown one. -/
theorem infer_binary_op_unknown_returns_write_curr :
    (infer_BINARY_OP true ex_headers ex_bits ex_types 3 0
        (binop_emitter (binop_mem 1 1025 1)) 7).map
        (fun r => (r.1, r.2.write_curr, emitted r.2.code 0 4))
      = .ok (true, 0,
          [.op .CHECK_FLOAT 0, .op .NOP 0, .op .BB_BRANCH 0,
            .cache (MAKE_TAGGED_BB_ID 7 1)])
      ∧ (emit_type_guard true ex_headers ex_code 0 .CHECK_FLOAT 0 7).map (fun r => r.2)
        = .ok 4
      ∧ (infer_BINARY_OP true ex_headers ex_bits ex_types 3 0
            (binop_emitter (binop_mem 1 1 1025)) 7).map
          (fun r => (r.1, r.2.write_curr, emitted r.2.code 0 4))
        = .ok (true, 0,
            [.op .CHECK_FLOAT 1, .op .NOP 0, .op .BB_BRANCH 0,
              .cache (MAKE_TAGGED_BB_ID 7 1)]) := by
  decide

/-- C18: right operand with float ruled out (negative root with the float bit alone), left
operand an int.  `has_negativetype` answers `false` for every negative root, so no
`CHECK_INT` guard is requested: without assertions the function returns
`needs_guard = false` and has emitted nothing; with assertions it stops at the assertion
of `typenode_get_type`, reached through `rebox_stack`. -/
theorem infer_binary_op_float_excluded_no_guard :
    has_negativetype ex_bits ex_types
        (_Py_TYPENODE_MAKE_ROOT_NEGATIVE (1 <<< ex_bits.FLOAT_BITIDX)) ex_types.PyFloat_Type
        = .ok false
      ∧ (infer_BINARY_OP false ex_headers ex_bits ex_types 3 0
            (binop_emitter (binop_mem 1 1057 7)) 7).map
          (fun r => (r.1, r.2.write_curr, emitted r.2.code 0 4))
        = .ok (false, 0, emitted ex_code 0 4)
      ∧ (infer_BINARY_OP true ex_headers ex_bits ex_types 3 0
            (binop_emitter (binop_mem 1 1057 7)) 7).map
          (fun r => (r.1, r.2.write_curr, emitted r.2.code 0 4))
        = .error .assertion := by
  decide

end guard_evaluations

/-! ## `infer_BINARY_OP` on two ints -/

section infer_ints

end infer_ints

section infer_ints_claim

end infer_ints_claim

section infer_ints_witness

end infer_ints_witness

/-! ## Rewriting branch placeholders: the written units -/

section rewrite_jumps

theorem c_assert_ok (d : Bool) {c : Bool} (h : c = true) : c_assert d c = .ok () := by
  subst h
  cases d <;> rfl

theorem to_int_small {x : Int} (h1 : -2147483648 ≤ x) (h2 : x < 2147483648) :
    to_int x = x := by
  unfold to_int
  omega

/-- The prefix unit: what it holds afterwards, and that no other unit changes. -/
theorem write_jump_slot_spec (code : Code) (w : Nat) (oparg : Int)
    (h0 : 0 ≤ oparg) (h1 : oparg ≤ 0xFFFF) :
    write_jump_slot code w oparg w
        = (if oparg > 0xFF then .op .EXTENDED_ARG (oparg / 256).toNat else .op .NOP 0)
      ∧ ∀ q, q ≠ w → write_jump_slot code w oparg q = code q := by
  unfold write_jump_slot
  constructor
  · by_cases h : oparg > 0xFF
    · have e : oparg / 256 % 256 % 256 = oparg / 256 := by omega
      simp [h, set_op, e]
    · simp [h, set_op]
  · intro q hq
    by_cases h : oparg > 0xFF <;> simp [h, set_op, _py_set_opcode, hq]

end rewrite_jumps

section rewrite_forward_claim

/-- C23: `_PyTier2_RewriteForwardJump(p, t)`.  For a position `p ≥ 1` that holds
`BB_BRANCH_IF_FLAG_SET` or `BB_BRANCH_IF_FLAG_UNSET` and a target `t` with
`1 ≤ t - p - 1 ≤ 0xFFFF`, the call returns; every unit other than `p - 1` and `p` is
unchanged; `p` holds `BB_JUMP_IF_FLAG_SET` (resp. `UNSET`) with the low byte of the
displacement; `p - 1` holds `EXTENDED_ARG` with the high byte when the displacement
exceeds 0xFF and `NOP` with arg 0 otherwise; the decoded oparg is `t - p - 1`. -/
theorem rewrite_forward_jump (Py_DEBUG : Bool) (code : Code) (p t : Nat)
    (branch : Opcode) (arg : Nat)
    (hp : 1 ≤ p)
    (hb : code p = .op branch arg)
    (hbr : branch = .BB_BRANCH_IF_FLAG_SET ∨ branch = .BB_BRANCH_IF_FLAG_UNSET)
    (h1 : 1 ≤ (t : Int) - p - 1) (h2 : (t : Int) - p - 1 ≤ 0xFFFF) :
    ∃ code', _PyTier2_RewriteForwardJump Py_DEBUG code p t = .ok code'
      ∧ (∀ q, q ≠ p - 1 → q ≠ p → code' q = code q)
      ∧ code' p = .op (if branch = .BB_BRANCH_IF_FLAG_SET then .BB_JUMP_IF_FLAG_SET
            else .BB_JUMP_IF_FLAG_UNSET) ((t - p - 1) % 256)
      ∧ code' (p - 1) = (if t - p - 1 > 0xFF then .op .EXTENDED_ARG ((t - p - 1) / 256)
            else .op .NOP 0)
      ∧ decoded_oparg code' p = t - p - 1 := by
  have hti : to_int ((t : Int) - (p : Int) - 1) = ((t - p - 1 : Nat) : Int) := by
    rw [to_int_small (by omega) (by omega)]
    omega
  obtain ⟨pw, pq⟩ := write_jump_slot_spec code (p - 1) ((t - p - 1 : Nat) : Int)
    (by omega) (by omega)
  have hp0 : p ≠ 0 := by omega
  have hpp : p - 1 + 1 = p := by omega
  have hne : p - 1 ≠ p := by omega
  have hlo : (((t - p - 1 : Nat) : Int) % 256 % 256).toNat = (t - p - 1) % 256 := by omega
  have hhi : (((t - p - 1 : Nat) : Int) / 256).toNat = (t - p - 1) / 256 := by omega
  have hgt : ((t - p - 1 : Nat) : Int) > 0xFF ↔ t - p - 1 > 0xFF := by omega
  refine ⟨set_op (_py_set_opcode (write_jump_slot code (p - 1) ((t - p - 1 : Nat) : Int)) p
      (if branch = .BB_BRANCH_IF_FLAG_SET then .BB_JUMP_IF_FLAG_SET
        else .BB_JUMP_IF_FLAG_UNSET)) p
      (if branch = .BB_BRANCH_IF_FLAG_SET then .BB_JUMP_IF_FLAG_SET
        else .BB_JUMP_IF_FLAG_UNSET) (((t - p - 1 : Nat) : Int) % 256), ?_, ?_, ?_, ?_, ?_⟩
  · unfold _PyTier2_RewriteForwardJump
    rw [hb]
    simp only [_Py_OPCODE, ok_bind, c_assert_ok Py_DEBUG (decide_eq_true hbr), if_neg hp0,
      hti, hpp, pure_eq_ok]
    rw [c_assert_ok Py_DEBUG (decide_eq_true (show ((t - p - 1 : Nat) : Int) > 0 by omega)),
      ok_bind,
      c_assert_ok Py_DEBUG (decide_eq_true (show ((t - p - 1 : Nat) : Int) ≤ 0xFFFF by omega)),
      ok_bind]
  · intro q hq1 hq2
    simp only [set_op, _py_set_opcode, if_neg hq2]
    exact pq q hq1
  · simp only [set_op, if_true, hlo]
  · simp only [set_op, if_neg hne]
    simp only [_py_set_opcode, if_neg hne]
    rw [pw, hhi]
    by_cases h : t - p - 1 > 0xFF
    · rw [if_pos h, if_pos (hgt.2 h)]
    · rw [if_neg h, if_neg (fun h' => h (hgt.1 h'))]
  · have e1 : (set_op (_py_set_opcode (write_jump_slot code (p - 1)
        ((t - p - 1 : Nat) : Int)) p
        (if branch = .BB_BRANCH_IF_FLAG_SET then .BB_JUMP_IF_FLAG_SET
          else .BB_JUMP_IF_FLAG_UNSET)) p
        (if branch = .BB_BRANCH_IF_FLAG_SET then .BB_JUMP_IF_FLAG_SET
          else .BB_JUMP_IF_FLAG_UNSET) (((t - p - 1 : Nat) : Int) % 256)) (p - 1)
        = write_jump_slot code (p - 1) ((t - p - 1 : Nat) : Int) (p - 1) := by
      simp only [set_op, _py_set_opcode, if_neg hne]
    unfold decoded_oparg
    rw [e1, pw]
    by_cases h : t - p - 1 > 0xFF
    · rw [if_pos (hgt.2 h)]
      simp only [set_op, if_true, _Py_CODEUNIT.op_arg, hlo, hhi]
      omega
    · rw [if_neg (fun h' => h (hgt.1 h'))]
      simp only [set_op, if_true, _Py_CODEUNIT.op_arg, hlo]
      omega

theorem rewrite_forward_jump_witness :
    ∃ code', _PyTier2_RewriteForwardJump true jump_code 5 306 = .ok code'
      ∧ (∀ q, q ≠ 5 - 1 → q ≠ 5 → code' q = jump_code q)
      ∧ code' 5 = .op (if Opcode.BB_BRANCH_IF_FLAG_UNSET = .BB_BRANCH_IF_FLAG_SET
            then .BB_JUMP_IF_FLAG_SET else .BB_JUMP_IF_FLAG_UNSET) ((306 - 5 - 1) % 256)
      ∧ code' (5 - 1) = (if 306 - 5 - 1 > 0xFF then .op .EXTENDED_ARG ((306 - 5 - 1) / 256)
            else .op .NOP 0)
      ∧ decoded_oparg code' 5 = 306 - 5 - 1 :=
  rewrite_forward_jump true jump_code 5 306 .BB_BRANCH_IF_FLAG_UNSET 0 (by decide) rfl
    (Or.inr rfl) (by decide) (by decide)

end rewrite_forward_claim

section rewrite_backward_claim

/-- C24: `_PyTier2_RewriteBackwardJump(p, t)`.  For a position `p ≥ 1` that holds
`BB_JUMP_BACKWARD_LAZY` behind an `EXTENDED_ARG` or `NOP`, and a target `t` with
`0 < |t - (p+1)| ≤ 0xFFFF`, the call returns; `p` holds `JUMP_BACKWARD_QUICK` when
`t < p + 1` and `JUMP_FORWARD` when `t > p + 1`, with the low byte of the magnitude;
`p - 1` holds `EXTENDED_ARG` with the high byte when the magnitude exceeds 0xFF and `NOP`
with arg 0 otherwise; the decoded oparg is the magnitude; the unit at `p + 1` gets the
opcode `END_FOR` (its `op.arg` byte is kept) and no further unit changes. -/
theorem rewrite_backward_jump (Py_DEBUG : Bool) (code : Code) (p t : Nat)
    (arg : Nat) (prev : Opcode) (prev_arg : Nat)
    (hp : 1 ≤ p)
    (hb : code p = .op .BB_JUMP_BACKWARD_LAZY arg)
    (hprev : code (p - 1) = .op prev prev_arg)
    (hpo : prev = .EXTENDED_ARG ∨ prev = .NOP)
    (h1 : 0 < ((t : Int) - (p + 1)).natAbs) (h2 : ((t : Int) - (p + 1)).natAbs ≤ 0xFFFF) :
    ∃ code', _PyTier2_RewriteBackwardJump Py_DEBUG code p t = .ok code'
      ∧ (∀ q, q ≠ p - 1 → q ≠ p → q ≠ p + 1 → code' q = code q)
      ∧ code' p = .op (if t < p + 1 then .JUMP_BACKWARD_QUICK else .JUMP_FORWARD)
            (((t : Int) - (p + 1)).natAbs % 256)
      ∧ code' (p - 1) = (if ((t : Int) - (p + 1)).natAbs > 0xFF
            then .op .EXTENDED_ARG (((t : Int) - (p + 1)).natAbs / 256) else .op .NOP 0)
      ∧ code' (p + 1) = .op .END_FOR (code (p + 1)).op_arg
      ∧ decoded_oparg code' p = ((t : Int) - (p + 1)).natAbs := by
  generalize hmag : ((t : Int) - (p + 1)).natAbs = mag at h1 h2 ⊢
  have hti : to_int ((t : Int) - ((p : Int) + 1)) = (t : Int) - ((p : Int) + 1) :=
    to_int_small (by omega) (by omega)
  have hneg : (if decide ((t : Int) - ((p : Int) + 1) < 0) = true
      then to_int (-((t : Int) - ((p : Int) + 1))) else (t : Int) - ((p : Int) + 1))
      = (mag : Int) := by
    by_cases h : (t : Int) - ((p : Int) + 1) < 0
    · rw [if_pos (decide_eq_true h), to_int_small (by omega) (by omega)]
      omega
    · rw [if_neg (by simpa using h)]
      omega
  have hback : decide ((t : Int) - ((p : Int) + 1) < 0) = decide (t < p + 1) := by
    apply decide_eq_decide.2
    omega
  obtain ⟨pw, pq⟩ := write_jump_slot_spec code (p - 1) (mag : Int) (by omega) (by omega)
  have hp0 : p ≠ 0 := by omega
  have hpp : p - 1 + 1 = p := by omega
  have hne : p - 1 ≠ p := by omega
  have hne2 : p - 1 ≠ p + 1 := by omega
  have hne3 : p ≠ p + 1 := by omega
  have hlo : ((mag : Int) % 256 % 256).toNat = mag % 256 := by omega
  have hhi : ((mag : Int) / 256).toNat = mag / 256 := by omega
  have hgt : (mag : Int) > 0xFF ↔ mag > 0xFF := by omega
  have hasserts : _PyTier2_RewriteBackwardJump.asserts Py_DEBUG code p (p - 1) = .ok () := by
    unfold _PyTier2_RewriteBackwardJump.asserts
    rw [hb, hprev]
    cases Py_DEBUG
    · rfl
    · rcases hpo with h | h <;> subst h <;> rfl
  refine ⟨_py_set_opcode (set_op (_py_set_opcode (write_jump_slot code (p - 1) (mag : Int))
      p (if t < p + 1 then .JUMP_BACKWARD_QUICK else .JUMP_FORWARD)) p
      (if t < p + 1 then .JUMP_BACKWARD_QUICK else .JUMP_FORWARD) ((mag : Int) % 256))
      (p + 1) .END_FOR, ?_, ?_, ?_, ?_, ?_, ?_⟩
  · unfold _PyTier2_RewriteBackwardJump
    rw [if_neg hp0]
    simp only [hasserts, ok_bind, hti, hback, hpp, pure_eq_ok]
    rw [hback] at hneg
    rw [hneg, c_assert_ok Py_DEBUG (decide_eq_true (show (t : Int) - ((p : Int) + 1) ≠ 0 by
        omega)),
      c_assert_ok Py_DEBUG (decide_eq_true (show (mag : Int) > 0 by omega)),
      c_assert_ok Py_DEBUG (decide_eq_true (show (mag : Int) ≤ 65535 by omega))]
    simp only [ok_bind, decide_eq_true_eq]
  · intro q hq1 hq2 hq3
    simp only [set_op, _py_set_opcode, if_neg hq2, if_neg hq3]
    exact pq q hq1
  · simp only [_py_set_opcode, if_neg hne3, set_op, if_true, hlo]
  · simp only [_py_set_opcode, if_neg hne2, set_op, if_neg hne]
    rw [pw, hhi]
    by_cases h : mag > 0xFF
    · rw [if_pos h, if_pos (hgt.2 h)]
    · rw [if_neg h, if_neg (fun h' => h (hgt.1 h'))]
  · have hq1 : p + 1 ≠ p - 1 := by omega
    have hq2 : p + 1 ≠ p := by omega
    simp only [_py_set_opcode, if_true, set_op, if_neg hq2, pq (p + 1) hq1]
  · have e1 : (_py_set_opcode (set_op (_py_set_opcode
        (write_jump_slot code (p - 1) (mag : Int))
        p (if t < p + 1 then .JUMP_BACKWARD_QUICK else .JUMP_FORWARD)) p
        (if t < p + 1 then .JUMP_BACKWARD_QUICK else .JUMP_FORWARD) ((mag : Int) % 256))
        (p + 1) .END_FOR) (p - 1)
        = write_jump_slot code (p - 1) (mag : Int) (p - 1) := by
      simp only [set_op, _py_set_opcode, if_neg hne, if_neg hne2]
    unfold decoded_oparg
    rw [e1, pw]
    by_cases h : mag > 0xFF
    · rw [if_pos (hgt.2 h)]
      simp only [_py_set_opcode, if_neg hne3, set_op, if_true, _Py_CODEUNIT.op_arg, hlo, hhi]
      omega
    · rw [if_neg (fun h' => h (hgt.1 h'))]
      simp only [_py_set_opcode, if_neg hne3, set_op, if_true, _Py_CODEUNIT.op_arg, hlo]
      omega

theorem rewrite_backward_jump_witness :
    ∃ code', _PyTier2_RewriteBackwardJump true jump_code 10 2 = .ok code'
      ∧ (∀ q, q ≠ 10 - 1 → q ≠ 10 → q ≠ 10 + 1 → code' q = jump_code q)
      ∧ code' 10 = .op (if 2 < 10 + 1 then .JUMP_BACKWARD_QUICK else .JUMP_FORWARD)
            ((((2 : Nat) : Int) - ((10 : Nat) + 1)).natAbs % 256)
      ∧ code' (10 - 1) = (if (((2 : Nat) : Int) - ((10 : Nat) + 1)).natAbs > 0xFF
            then .op .EXTENDED_ARG ((((2 : Nat) : Int) - ((10 : Nat) + 1)).natAbs / 256)
            else .op .NOP 0)
      ∧ code' (10 + 1) = .op .END_FOR (jump_code (10 + 1)).op_arg
      ∧ decoded_oparg code' 10 = (((2 : Nat) : Int) - ((10 : Nat) + 1)).natAbs :=
  rewrite_backward_jump true jump_code 10 2 0 .NOP 0 (by decide) rfl rfl (Or.inr rfl)
    (by decide) (by decide)

end rewrite_backward_claim

/-! ## The builder on `BINARY_OP`: evaluations -/

section builder_evaluations

/-- C22: fall-back state of `infer_BINARY_OP` (left operand an int, right operand a boxed
float).  `infer_BINARY_OP` returns its `write_curr`, never `NULL`, so the `case BINARY_OP`
of the builder takes the pointer as the new `write_i` and continues behind the cache entry
of the tier-1 instruction: no code unit is emitted for the `BINARY_OP`, and the type
context still has both operands on its stack (stack pointer 144).  The whole basic block,
built from the `BINARY_OP` at index 3 on, consists of the `RETURN_VALUE` alone. -/
theorem builder_fallback_drops_binary_op :
    (_PyTier2_Code_DetectAndEmitBB.case_BINARY_OP true ex_headers ex_bits ex_types
          no_transfers 3 binop_tier1 1
          { s := binop_emitter (binop_mem 1 1057 1025), t2_start := 0, i := 3,
            needs_guard := false }
          3 .BINARY_OP .BINARY_OP 0 1).map
        (fun r => (r.1, r.2.s.write_curr, r.2.i, r.2.s.type_context.type_stack_ptr))
      = .ok (Control.next, 0, 4, 144)
    ∧ (_PyTier2_Code_DetectAndEmitBB.case_BINARY_OP true ex_headers ex_bits ex_types
          no_transfers 3 binop_tier1 1
          { s := binop_emitter (binop_mem 1 1057 1025), t2_start := 0, i := 3,
            needs_guard := false }
          3 .BINARY_OP .BINARY_OP 0 1).map (fun r => emitted r.2.s.code 0 4)
      = .ok (emitted ex_code 0 4)
    ∧ (_PyTier2_Code_DetectAndEmitBB true ex_headers ex_iter ex_bits ex_types ex_tables
          no_transfers
          3 binop_tier1 6 [] [] ex_t2_info (fun _ => 0) ex_bb_space 3 (binop_mem 1 1057 1025)
          binop_ctx no_split (some 4104) true).map (fun e => e.map (Built.summary 3))
      = some (.ok
          { metadata := some { id := 1, type_context := binop_ctx, tier2_start := 0,
                               tier1_end := 6 }
            water_level := 2
            units := [.op .RETURN_VALUE 0, .cache 0, .cache 0] })
    ∧ (_PyTier2_Code_DetectAndEmitBB false ex_headers ex_iter ex_bits ex_types ex_tables
          no_transfers
          3 binop_tier1 6 [] [] ex_t2_info (fun _ => 0) ex_bb_space 3 (binop_mem 1 1057 1025)
          binop_ctx no_split (some 4104) true).map (fun e => e.map (Built.summary 3))
      = some (.ok
          { metadata := some { id := 1, type_context := binop_ctx, tier2_start := 0,
                               tier1_end := 6 }
            water_level := 2
            units := [.op .RETURN_VALUE 0, .cache 0, .cache 0] }) := by
  decide

/-- C29: `water_level` after a basic block that ends in a type guard, and after one that
starts with `END_FOR`.
(1) With an unknown right operand the builder emits the guard `CHECK_FLOAT 0; NOP;
BB_BRANCH; CACHE` at the units 0 to 3, but `water_level` stays 0, since the `write_i` that
`infer_BINARY_OP` returns is the one it was given.
(2) The next run on that space (both operands boxed floats) starts at unit 0 again and
writes its instructions over the guard.
(3) For the tier-1 code `END_FOR; RETURN_VALUE` the builder emits two units, but
`t2_start` was incremented for the `END_FOR`: `water_level` becomes 2, one unit short. -/
theorem water_level_excludes_guard :
    (_PyTier2_Code_DetectAndEmitBB true ex_headers ex_iter ex_bits ex_types ex_tables
          no_transfers
          3 binop_tier1 6 [] [] ex_t2_info (fun _ => 0) ex_bb_space 3 (binop_mem 1 1025 1)
          binop_ctx no_split (some 4104) true).map (fun e => e.map (Built.summary 5))
      = some (.ok
          { metadata := some { id := 1, type_context := binop_ctx, tier2_start := 0,
                               tier1_end := 3 }
            water_level := 0
            units := [.op .CHECK_FLOAT 0, .op .NOP 0, .op .BB_BRANCH 0,
              .cache (MAKE_TAGGED_BB_ID 1 1), .cache 0] })
    ∧ ((_PyTier2_Code_DetectAndEmitBB true ex_headers ex_iter ex_bits ex_types ex_tables
          no_transfers 3 binop_tier1 6 [] [] ex_t2_info (fun _ => 0) ex_bb_space 3
          (binop_mem 1 1025 1) binop_ctx no_split (some 4104) true).bind fun e =>
        match e with
        | .error f => some (.error f)
        | .ok b1 =>
          (_PyTier2_Code_DetectAndEmitBB true ex_headers ex_iter ex_bits ex_types ex_tables
            no_transfers 3 binop_tier1 6 [] [] b1.t2_info (fun _ => 0) b1.bb_space 3
            (binop_mem 1 1025 1025) binop_ctx no_split (some 4112) true).map
            (fun e => e.map (Built.summary 5)))
      = some (.ok
          { metadata := some { id := 2, type_context := __type_stack_shrink binop_ctx 1,
                               tier2_start := 0, tier1_end := 6 }
            water_level := 10
            units := [.op .UNBOX_FLOAT 0, .op .UNBOX_FLOAT 1,
              .op .BINARY_OP_ADD_FLOAT_UNBOXED 0, .op .BOX_FLOAT 0, .op .RETURN_VALUE 0] })
    ∧ (_PyTier2_Code_DetectAndEmitBB true ex_headers ex_iter ex_bits ex_types ex_tables
          end_for_transfers 3 end_for_tier1 2 [] [] ex_t2_info (fun _ => 0) ex_bb_space 0
          (binop_mem 1 1057 1057) binop_ctx no_split (some 4104) true).map
          (fun e => e.map (Built.summary 3))
      = some (.ok
          { metadata := some { id := 1, type_context := binop_ctx, tier2_start := 1,
                               tier1_end := 2 }
            water_level := 2
            units := [.op .END_FOR 0, .op .RETURN_VALUE 0, .cache 0] }) := by
  decide

end builder_evaluations

/-! ## Versions of a backward-jump target: the search -/

section version_search

/-- A loop of `diff_typecontext` never counts beyond `INT_MAX`. -/
theorem diff_loop_le {d : Bool} {T : TypeObjects} {m : Mem} {fuel arr1 arr2 : Nat} :
    ∀ (n i : Nat) (diff r : Int), diff ≤ INT_MAX →
      diff_typecontext.loop d T m fuel arr1 arr2 n i diff = .ok (some r) → r ≤ INT_MAX := by
  intro n
  induction n with
  | zero =>
    intro i diff r hd h
    simp only [diff_typecontext.loop, Except.ok.injEq, Option.some.injEq] at h
    subst h
    exact hd
  | succ n ih =>
    intro i diff r hd h
    obtain ⟨a, b, _, _, hrest⟩ := diff_loop_types h
    by_cases c1 : a = 0 ∧ b ≠ 0
    · rw [if_pos c1] at hrest; simp at hrest
    rw [if_neg c1] at hrest
    by_cases c2 : a ≠ b ∧ b ≠ 0
    · rw [if_pos c2] at hrest; simp at hrest
    rw [if_neg c2] at hrest
    by_cases c3 : is_unboxed_type T a = true ∧ a ≠ b
    · rw [if_pos c3] at hrest; simp at hrest
    rw [if_neg c3] at hrest
    by_cases c4 : diff + (if a ≠ b then 1 else 0) > INT_MAX
    · rw [if_pos c4] at hrest; simp at hrest
    rw [if_neg c4] at hrest
    exact ih (i + 1) _ r (by omega) hrest

/-- The result of `diff_typecontext` is at most `INT_MAX`. -/
theorem diff_typecontext_le {d : Bool} {T : TypeObjects} {m : Mem} {fuel : Nat}
    {c1 c2 : _PyTier2TypeContext} {r : Int}
    (h : diff_typecontext d T m fuel c1 c2 = .ok r) : r ≤ INT_MAX := by
  have h := (diff_body_of_ok h).1
  by_cases hne : r = INT_MAX
  · rw [hne]
  · obtain ⟨_, diff, h1, h2⟩ := diff_finite h hne
    have := diff_loop_le _ _ _ _ (by decide) h1
    exact diff_loop_le _ _ _ _ this h2

/-- The loop body on a slot that holds no version. -/
theorem visit_unregistered (d : Bool) (T : TypeObjects) (m : Mem) (fuel : Nat)
    (cur : _PyTier2TypeContext) {t : _PyTier2BBStartTypeContextTriplet} (st : VersionSearch)
    (h : ¬ 0 ≤ t.id) :
    _PyTier2_LocateJumpBackwardsBB.visit d T m fuel cur t st = .ok st := by
  unfold _PyTier2_LocateJumpBackwardsBB.visit
  simp only [ge_iff_le, if_neg h]
  rfl

/-- The loop body on a registered version with difference `dv`. -/
theorem visit_registered (d : Bool) (T : TypeObjects) (m : Mem) (fuel : Nat)
    (cur : _PyTier2TypeContext) {t : _PyTier2BBStartTypeContextTriplet} (st : VersionSearch)
    {dv : Int} (h : 0 ≤ t.id)
    (hd : t.start_type_context.map (diff_typecontext d T m fuel cur) = some (.ok dv)) :
    _PyTier2_LocateJumpBackwardsBB.visit d T m fuel cur t st =
      .ok (if dv < st.min_diff then
          { candidate_bb_id := t.id, candidate_bb_tier1_start := t.tier1_start,
            min_diff := dv, matching_bb_id := t.id }
        else { st with candidate_bb_id := t.id
                       candidate_bb_tier1_start := t.tier1_start }) := by
  unfold _PyTier2_LocateJumpBackwardsBB.visit
  simp only [ge_iff_le, if_pos h]
  cases hc : t.start_type_context with
  | none => rw [hc] at hd; simp at hd
  | some c =>
    rw [hc] at hd
    simp only [Option.map_some', Option.some.injEq] at hd
    simp only [hd, ok_bind]
    by_cases hlt : dv < st.min_diff
    · rw [if_pos hlt, if_pos hlt]; rfl
    · rw [if_neg hlt, if_neg hlt]; rfl

/-- The search over a list of slots: the version it matches is the first one, in slot
order, whose difference is minimal and below the starting `min_diff`. -/
theorem search_spec (d : Bool) (T : TypeObjects) (m : Mem) (fuel : Nat)
    (cur : _PyTier2TypeContext) (dv : _PyTier2BBStartTypeContextTriplet → Int) :
    ∀ (l : List _PyTier2BBStartTypeContextTriplet) (st : VersionSearch),
      (∀ t ∈ l, 0 ≤ t.id →
        t.start_type_context.map (diff_typecontext d T m fuel cur) = some (.ok (dv t))) →
      ∃ st', _PyTier2_LocateJumpBackwardsBB.search d T m fuel cur l st = .ok st'
        ∧ ((∀ t ∈ l, 0 ≤ t.id → st.min_diff ≤ dv t) →
            st'.matching_bb_id = st.matching_bb_id ∧ st'.min_diff = st.min_diff)
        ∧ ((∃ t ∈ l, 0 ≤ t.id ∧ dv t < st.min_diff) →
            ∃ pre v post, l = pre ++ v :: post ∧ 0 ≤ v.id ∧ dv v < st.min_diff
              ∧ (∀ u ∈ pre, 0 ≤ u.id → dv v < dv u)
              ∧ (∀ u ∈ post, 0 ≤ u.id → dv v ≤ dv u)
              ∧ st'.matching_bb_id = v.id ∧ st'.min_diff = dv v)
        ∧ ((∃ t ∈ l, 0 ≤ t.id) →
            0 ≤ st'.candidate_bb_id
              ∧ ∃ t ∈ l, 0 ≤ t.id ∧ st'.candidate_bb_tier1_start = t.tier1_start)
        ∧ ((∀ t ∈ l, ¬ 0 ≤ t.id) → st' = st) := by
  intro l
  induction l with
  | nil =>
    intro st _
    refine ⟨st, rfl, fun _ => ⟨rfl, rfl⟩, ?_, ?_, fun _ => rfl⟩
    · rintro ⟨t, ht, _⟩; cases ht
    · rintro ⟨t, ht, _⟩; cases ht
  | cons t ts ih =>
    intro st hd
    have hd' : ∀ u ∈ ts, 0 ≤ u.id →
        u.start_type_context.map (diff_typecontext d T m fuel cur) = some (.ok (dv u)) :=
      fun u hu => hd u (List.mem_cons_of_mem _ hu)
    by_cases hreg : 0 ≤ t.id
    · have hv := visit_registered d T m fuel cur st hreg (hd t (List.mem_cons_self _ _) hreg)
      by_cases hlt : dv t < st.min_diff
      · rw [if_pos hlt] at hv
        obtain ⟨st', hs, i1, i2, i3, i4⟩ := ih
          { candidate_bb_id := t.id, candidate_bb_tier1_start := t.tier1_start,
            min_diff := dv t, matching_bb_id := t.id } hd'
        refine ⟨st', ?_, ?_, ?_, ?_, ?_⟩
        · simp only [_PyTier2_LocateJumpBackwardsBB.search, hv, ok_bind, hs]
        · intro h
          have := h t (List.mem_cons_self _ _) hreg
          omega
        · intro _
          by_cases hex : ∃ u ∈ ts, 0 ≤ u.id ∧ dv u < dv t
          · obtain ⟨pre, v, post, e, hv0, hvlt, hpre, hpost, hm, hmin⟩ := i2 hex
            refine ⟨t :: pre, v, post, by rw [e]; rfl, hv0, ?_, ?_, hpost, hm, hmin⟩
            · have : dv v < dv t := hvlt
              omega
            · intro u hu hu0
              rcases List.mem_cons.1 hu with h | h
              · rw [h]; exact hvlt
              · exact hpre u h hu0
          · have hall : ∀ u ∈ ts, 0 ≤ u.id → dv t ≤ dv u := by
              intro u hu hu0
              by_contra hc
              exact hex ⟨u, hu, hu0, by omega⟩
            obtain ⟨hm, hmin⟩ := i1 hall
            exact ⟨[], t, ts, rfl, hreg, hlt, (fun u hu => absurd hu (List.not_mem_nil u)), hall, hm,
              hmin⟩
        · intro _
          by_cases hex : ∃ u ∈ ts, 0 ≤ u.id
          · obtain ⟨h0, u, hu, hu0, hc⟩ := i3 hex
            exact ⟨h0, u, List.mem_cons_of_mem _ hu, hu0, hc⟩
          · have hall : ∀ u ∈ ts, ¬ 0 ≤ u.id := fun u hu hu0 => hex ⟨u, hu, hu0⟩
            rw [i4 hall]
            exact ⟨hreg, t, List.mem_cons_self _ _, hreg, rfl⟩
        · intro h
          exact absurd hreg (h t (List.mem_cons_self _ _))
      · rw [if_neg hlt] at hv
        obtain ⟨st', hs, i1, i2, i3, i4⟩ := ih
          { st with candidate_bb_id := t.id, candidate_bb_tier1_start := t.tier1_start } hd'
        refine ⟨st', ?_, ?_, ?_, ?_, ?_⟩
        · simp only [_PyTier2_LocateJumpBackwardsBB.search, hv, ok_bind, hs]
        · intro h
          exact i1 fun u hu hu0 => h u (List.mem_cons_of_mem _ hu) hu0
        · rintro ⟨u, hu, hu0, hult⟩
          have hin : u ∈ ts := by
            rcases List.mem_cons.1 hu with h | h
            · rw [h] at hult; exact absurd hult hlt
            · exact h
          obtain ⟨pre, v, post, e, hv0, hvlt, hpre, hpost, hm, hmin⟩ :=
            i2 ⟨u, hin, hu0, hult⟩
          refine ⟨t :: pre, v, post, by rw [e]; rfl, hv0, hvlt, ?_, hpost, hm, hmin⟩
          intro w hw hw0
          rcases List.mem_cons.1 hw with h | h
          · rw [h]
            have : dv v < st.min_diff := hvlt
            omega
          · exact hpre w h hw0
        · intro _
          by_cases hex : ∃ u ∈ ts, 0 ≤ u.id
          · obtain ⟨h0, u, hu, hu0, hc⟩ := i3 hex
            exact ⟨h0, u, List.mem_cons_of_mem _ hu, hu0, hc⟩
          · have hall : ∀ u ∈ ts, ¬ 0 ≤ u.id := fun u hu hu0 => hex ⟨u, hu, hu0⟩
            rw [i4 hall]
            exact ⟨hreg, t, List.mem_cons_self _ _, hreg, rfl⟩
        · intro h
          exact absurd hreg (h t (List.mem_cons_self _ _))
    · have hv := visit_unregistered d T m fuel cur st hreg
      obtain ⟨st', hs, i1, i2, i3, i4⟩ := ih st hd'
      refine ⟨st', ?_, ?_, ?_, ?_, ?_⟩
      · simp only [_PyTier2_LocateJumpBackwardsBB.search, hv, ok_bind, hs]
      · intro h
        exact i1 fun u hu hu0 => h u (List.mem_cons_of_mem _ hu) hu0
      · rintro ⟨u, hu, hu0, hult⟩
        have hin : u ∈ ts := by
          rcases List.mem_cons.1 hu with h | h
          · rw [h] at hu0; exact absurd hu0 hreg
          · exact h
        obtain ⟨pre, v, post, e, hv0, hvlt, hpre, hpost, hm, hmin⟩ :=
          i2 ⟨u, hin, hu0, hult⟩
        refine ⟨t :: pre, v, post, by rw [e]; rfl, hv0, hvlt, ?_, hpost, hm, hmin⟩
        intro w hw hw0
        rcases List.mem_cons.1 hw with h | h
        · rw [h] at hw0; exact absurd hw0 hreg
        · exact hpre w h hw0
      · rintro ⟨u, hu, hu0⟩
        have hin : u ∈ ts := by
          rcases List.mem_cons.1 hu with h | h
          · rw [h] at hu0; exact absurd hu0 hreg
          · exact h
        obtain ⟨h0, w, hw, hw0, hc⟩ := i3 ⟨u, hin, hu0⟩
        exact ⟨h0, w, List.mem_cons_of_mem _ hw, hw0, hc⟩
      · intro h
        exact i4 fun u hu => h u (List.mem_cons_of_mem _ hu)

end version_search

section locate_claim

/-- C25: `_PyTier2_LocateJumpBackwardsBB` on a jump target whose row `row` holds the
registered versions (slots with `id ≥ 0`), where `dv t` is the result of
`diff_typecontext` on the current context and the starting context of version `t`.
If some registered version has `dv t < INT_MAX`, the call returns the `tier2_start` of the
version `v` that is first in slot order among those of minimal difference (every
registered version in an earlier slot has a strictly larger difference, every one in a
later slot a larger or equal one); no new basic block is generated and the rows are
unchanged.  Whenever the call generates a new basic block, the difference of every
registered version is `INT_MAX`. -/
theorem locate_picks_first_minimal (Py_DEBUG : Bool) (T : TypeObjects) (m : Mem)
    (fuel : Nat) (size : Int) (t2_info : _PyTier2Info)
    (metas : Nat → Option _PyTier2BBMetadata) (bb_space : _PyTier2BBSpace)
    (backward_jump_offsets : List Int)
    (backward_jump_target_bb_pairs : List (List _PyTier2BBStartTypeContextTriplet))
    (bb_id_tagged : Nat) (jumpby : Int) (stacklevel : Int)
    (copied second_copy : Option _PyTier2TypeContext)
    (generate : Int → _PyTier2TypeContext → Option Nat →
      Option _PyTier2BBMetadata × List (List _PyTier2BBStartTypeContextTriplet))
    (bb : _PyTier2BBMetadata) (i : Nat) (row : List _PyTier2BBStartTypeContextTriplet)
    (dv : _PyTier2BBStartTypeContextTriplet → Int)
    (hid : (BB_ID bb_id_tagged : Int) ≤ t2_info.bb_data_curr)
    (hbb : bb_data_at t2_info metas (BB_ID bb_id_tagged) = .ok bb)
    (hlevel : stack_elems bb.type_context = stacklevel)
    (hspace : bb_space.water_level + (size * 2 - (bb.tier1_end + jumpby) * 2)
      ≤ bb_space.max_capacity)
    (hi : find_jump_offset (to_int (bb.tier1_end + jumpby)) backward_jump_offsets 0 = some i)
    (hrow : backward_jump_target_bb_pairs.get? i = some row)
    (hlen : row.length = MAX_BB_VERSIONS)
    (hreg : ∀ t ∈ row, 0 ≤ t.id →
      t.tier1_start.isSome = true ∧ t.id ≤ t2_info.bb_data_curr
        ∧ (bb_data_at t2_info metas t.id).toOption.isSome = true
        ∧ t.start_type_context.map (diff_typecontext Py_DEBUG T m fuel bb.type_context)
            = some (.ok (dv t))) :
    ((∃ t ∈ row, 0 ≤ t.id ∧ dv t < INT_MAX) →
      ∃ pre v post target_metadata, row = pre ++ v :: post ∧ 0 ≤ v.id
        ∧ (∀ u ∈ pre, 0 ≤ u.id → dv v < dv u)
        ∧ (∀ u ∈ post, 0 ≤ u.id → dv v ≤ dv u)
        ∧ bb_data_at t2_info metas v.id = .ok target_metadata
        ∧ _PyTier2_LocateJumpBackwardsBB Py_DEBUG T m fuel size t2_info metas bb_space
            backward_jump_offsets backward_jump_target_bb_pairs bb_id_tagged jumpby
            stacklevel copied second_copy generate
          = .ok { result := some target_metadata.tier2_start
                  tier1_fallback := bb.tier1_end + jumpby
                  backward_jump_target_bb_pairs := backward_jump_target_bb_pairs
                  generated := false })
    ∧ ∀ r, _PyTier2_LocateJumpBackwardsBB Py_DEBUG T m fuel size t2_info metas bb_space
          backward_jump_offsets backward_jump_target_bb_pairs bb_id_tagged jumpby
          stacklevel copied second_copy generate = .ok r →
        r.generated = true → ∀ t ∈ row, 0 ≤ t.id → dv t = INT_MAX := by
  have htake : row.take MAX_BB_VERSIONS = row := by
    rw [← hlen]; exact List.take_length row
  obtain ⟨st, hs, i1, i2, i3, i4⟩ := search_spec Py_DEBUG T m fuel bb.type_context dv row
    { matching_bb_id := -1, candidate_bb_id := -1, min_diff := INT_MAX,
      candidate_bb_tier1_start := none } (fun t ht h0 => (hreg t ht h0).2.2.2)
  have hscan : _PyTier2_LocateJumpBackwardsBB.scan Py_DEBUG T m fuel backward_jump_offsets
      backward_jump_target_bb_pairs (to_int (bb.tier1_end + jumpby)) bb.type_context
      = .ok ((i : Int), st) := by
    unfold _PyTier2_LocateJumpBackwardsBB.scan
    simp only [hi, hrow, hlen, lt_irrefl, if_false, htake, hs]
    rfl
  have hsp : _PyTier2_BBSpaceCheckAndReallocIfNeeded bb_space
      (size * 2 - (bb.tier1_end + jumpby) * 2) = .ok bb_space := by
    unfold _PyTier2_BBSpaceCheckAndReallocIfNeeded
    rw [if_neg (by omega)]
  -- the match found
  have found : (∃ t ∈ row, 0 ≤ t.id ∧ dv t < INT_MAX) →
      ∃ pre v post target_metadata, row = pre ++ v :: post ∧ 0 ≤ v.id
        ∧ (∀ u ∈ pre, 0 ≤ u.id → dv v < dv u)
        ∧ (∀ u ∈ post, 0 ≤ u.id → dv v ≤ dv u)
        ∧ bb_data_at t2_info metas v.id = .ok target_metadata
        ∧ _PyTier2_LocateJumpBackwardsBB Py_DEBUG T m fuel size t2_info metas bb_space
            backward_jump_offsets backward_jump_target_bb_pairs bb_id_tagged jumpby
            stacklevel copied second_copy generate
          = .ok { result := some target_metadata.tier2_start
                  tier1_fallback := bb.tier1_end + jumpby
                  backward_jump_target_bb_pairs := backward_jump_target_bb_pairs
                  generated := false } := by
    intro hex
    obtain ⟨pre, v, post, e, hv0, _, hpre, hpost, hm, _⟩ := i2 hex
    have hvin : v ∈ row := by rw [e]; simp
    obtain ⟨_, hvle, hvmd, _⟩ := hreg v hvin hv0
    obtain ⟨hc0, u, hu, hu0, hcu⟩ := i3 ⟨v, hvin, hv0⟩
    have hct : st.candidate_bb_tier1_start.isSome = true := by
      rw [hcu]; exact (hreg u hu hu0).1
    cases hmd : bb_data_at t2_info metas v.id with
    | error f => rw [hmd] at hvmd; cases hvmd
    | ok target_metadata =>
      refine ⟨pre, v, post, target_metadata, e, hv0, hpre, hpost, hmd, ?_⟩
      have hne : st.matching_bb_id ≠ -1 := by rw [hm]; omega
      unfold _PyTier2_LocateJumpBackwardsBB
      simp only [c_assert_ok Py_DEBUG (decide_eq_true hid), ok_bind, hbb,
        c_assert_ok Py_DEBUG (decide_eq_true hlevel), hsp, hscan]
      rw [c_assert_ok Py_DEBUG (decide_eq_true (show ((i : Nat) : Int) ≥ 0 by omega)),
        ok_bind, c_assert_ok Py_DEBUG (decide_eq_true (show st.candidate_bb_id ≥ 0 from hc0)),
        ok_bind, c_assert_ok Py_DEBUG hct, ok_bind, if_neg hne,
        c_assert_ok Py_DEBUG (decide_eq_true (show st.matching_bb_id ≥ 0 by rw [hm]; exact hv0)),
        ok_bind,
        c_assert_ok Py_DEBUG (decide_eq_true
          (show st.matching_bb_id ≤ t2_info.bb_data_curr by rw [hm]; exact hvle)),
        ok_bind, hm, hmd]
      rfl
  refine ⟨found, ?_⟩
  intro r hr hgen t ht ht0
  have hle : dv t ≤ INT_MAX := by
    have h := (hreg t ht ht0).2.2.2
    cases hc : t.start_type_context with
    | none => rw [hc] at h; simp at h
    | some c =>
      rw [hc] at h
      simp only [Option.map_some', Option.some.injEq] at h
      exact diff_typecontext_le h
  by_contra hne
  obtain ⟨_, _, _, _, _, _, _, _, _, hloc⟩ := found ⟨t, ht, ht0, by omega⟩
  rw [hloc] at hr
  simp only [Except.ok.injEq] at hr
  rw [← hr] at hgen
  cases hgen

theorem locate_picks_first_minimal_witness :
    ∃ pre v post target_metadata, versions_row = pre ++ v :: post ∧ 0 ≤ v.id
      ∧ (∀ u ∈ pre, 0 ≤ u.id → versions_diff v < versions_diff u)
      ∧ (∀ u ∈ post, 0 ≤ u.id → versions_diff v ≤ versions_diff u)
      ∧ bb_data_at versions_t2_info versions_metas v.id = .ok target_metadata
      ∧ _PyTier2_LocateJumpBackwardsBB true ⟨8, 16, 24, 32, 40⟩ versions_mem 6 40
          versions_t2_info versions_metas versions_bb_space [5] [versions_row] 0 (-15) 2
          none none (fun _ _ _ => (none, []))
        = .ok { result := some target_metadata.tier2_start
                tier1_fallback := (20 : Int) + (-15)
                backward_jump_target_bb_pairs := [versions_row]
                generated := false } :=
  (locate_picks_first_minimal true ⟨8, 16, 24, 32, 40⟩ versions_mem 6 40 versions_t2_info
    versions_metas versions_bb_space [5] [versions_row] 0 (-15) 2 none none
    (fun _ _ _ => (none, []))
    { id := 0, type_context := room_ctx, tier2_start := 0, tier1_end := 20 } 0 versions_row
    versions_diff (by decide) (by decide) (by decide) (by decide) (by decide) (by decide)
    (by decide) (by decide)).1 (by decide)

end locate_claim

/-! ## A row without a free slot: evaluations -/

section version_exhaustion

/-- C26: a row whose `MAX_BB_VERSIONS` slots all hold a version.
(1) `add_metadata_to_jump_2d_array` leaves the rows unchanged and returns 1.
(2) The builder, at its label `end` with `starts_with_backwards_jump_target` set, tests
that result with `< 0`: it returns the metadata of the new basic block (not `NULL`) and
advances `water_level`, with the rows unchanged.
(3) `_PyTier2_LocateJumpBackwardsBB`, when no version is compatible with the current
context, generates a new basic block; its loop finds no free slot, and without assertions
the call returns the `tier2_start` of the new block (110), not `NULL`, with the rows
unchanged.  With assertions the call stops at `assert(found)`. -/
theorem version_exhaustion_not_reported :
    (full_row.length = MAX_BB_VERSIONS ∧ ∀ t ∈ full_row, 0 ≤ t.id)
    ∧ add_metadata_to_jump_2d_array true [5] [full_row] 11 5 room_ctx_wide 5
        = .ok (1, [full_row])
    ∧ (_PyTier2_Code_DetectAndEmitBB.finish true full_t2_info (fun _ => 0) (some 4200) true
          [5] [full_row] versions_bb_space end_builder none true 5 (some room_ctx_wide)
          (some 5)).map
        (fun b => (b.metadata, b.bb_space.water_level, b.backward_jump_target_bb_pairs))
      = .ok (some { id := 11, type_context := room_ctx_wide, tier2_start := 50,
                    tier1_end := 10 }, 106, [full_row])
    ∧ _PyTier2_LocateJumpBackwardsBB false ⟨8, 16, 24, 32, 40⟩ versions_mem 6 40 full_t2_info
          full_metas versions_bb_space [5] [full_row] 0 (-15) 2 (some room_ctx_wide)
          (some room_ctx_wide) (fun _ _ _ => (some new_version, [full_row]))
      = .ok { result := some 110, tier1_fallback := 5,
              backward_jump_target_bb_pairs := [full_row], generated := true }
    ∧ _PyTier2_LocateJumpBackwardsBB true ⟨8, 16, 24, 32, 40⟩ versions_mem 6 40 full_t2_info
          full_metas versions_bb_space [5] [full_row] 0 (-15) 2 (some room_ctx_wide)
          (some room_ctx_wide) (fun _ _ _ => (some new_version, [full_row]))
      = .error .assertion := by
  decide

end version_exhaustion

/-! ## Warmup of a code object with a forbidden opcode -/

section warmup

/-- The replacement of one opcode by its quick variant keeps the deoptimised opcode of
every unit. -/
theorem replace_one_deopt (Tb : OpcodeTables)
    (hT : Tb._PyOpcode_Deopt .RESUME_QUICK = .RESUME
      ∧ Tb._PyOpcode_Deopt .JUMP_BACKWARD_QUICK = .JUMP_BACKWARD)
    (code : Code) (i : Nat) (c : Opcode) (a : Nat) (h : code i = .op c a) (q : Nat) :
    deopt_of Tb ((if Tb._PyOpcode_Deopt c = .RESUME then _py_set_opcode code i .RESUME_QUICK
        else if Tb._PyOpcode_Deopt c = .JUMP_BACKWARD then
          _py_set_opcode code i .JUMP_BACKWARD_QUICK
        else code) q) = deopt_of Tb (code q) := by
  by_cases h1 : Tb._PyOpcode_Deopt c = .RESUME
  · rw [if_pos h1]
    by_cases hq : q = i
    · subst hq
      simp only [_py_set_opcode, if_true, deopt_of, h, hT.1, h1]
    · simp only [_py_set_opcode, if_neg hq]
  · rw [if_neg h1]
    by_cases h2 : Tb._PyOpcode_Deopt c = .JUMP_BACKWARD
    · rw [if_pos h2]
      by_cases hq : q = i
      · subst hq
        simp only [_py_set_opcode, if_true, deopt_of, h, hT.2, h2]
      · simp only [_py_set_opcode, if_neg hq]
    · rw [if_neg h2]

/-- A unit with a deoptimised opcode is an instruction. -/
theorem op_of_deopt {Tb : OpcodeTables} {word : _Py_CODEUNIT} {o : Opcode}
    (h : deopt_of Tb word = some o) :
    ∃ c a, word = .op c a ∧ Tb._PyOpcode_Deopt c = o := by
  cases word with
  | op c a => exact ⟨c, a, rfl, by simpa [deopt_of] using h⟩
  | cache w => simp [deopt_of] at h

/-- The replacement scan returns, and keeps the deoptimised opcode of every unit. -/
theorem replace_loop_spec (Tb : OpcodeTables)
    (hT : Tb._PyOpcode_Deopt .RESUME_QUICK = .RESUME
      ∧ Tb._PyOpcode_Deopt .JUMP_BACKWARD_QUICK = .JUMP_BACKWARD)
    (size : Nat) (code0 : Code) :
    ∀ (n i : Nat) (cur : Code), size ≤ i + n →
      (∀ q, deopt_of Tb (cur q) = deopt_of Tb (code0 q)) →
      (∀ p ∈ instruction_positions Tb code0 size n i,
        (deopt_of Tb (code0 p)).isSome = true) →
      ∃ code', replace_resume_and_jump_backwards.loop Tb size n i cur = .ok code'
        ∧ ∀ q, deopt_of Tb (code' q) = deopt_of Tb (code0 q) := by
  intro n
  induction n with
  | zero =>
    intro i cur hn hsim _
    refine ⟨cur, ?_, hsim⟩
    simp only [replace_resume_and_jump_backwards.loop]
    rw [if_neg (by omega)]
  | succ n ih =>
    intro i cur hn hsim hwf
    by_cases hi : i < size
    · have hpos : instruction_positions Tb code0 size (n + 1) i
          = i :: instruction_positions Tb code0 size n
            (i + (match deopt_of Tb (code0 i) with
                  | some opcode => Tb._PyOpcode_Caches opcode
                  | none => 0) + 1) := by
        simp only [instruction_positions, if_pos hi]
      rw [hpos] at hwf
      have h0 := hwf i (List.mem_cons_self _ _)
      obtain ⟨o, ho⟩ := Option.isSome_iff_exists.1 h0
      obtain ⟨c, a, hc, hco⟩ := op_of_deopt ((hsim i).trans ho)
      rw [ho] at hwf
      subst hco
      obtain ⟨code', h1, h2⟩ := ih (i + Tb._PyOpcode_Caches (Tb._PyOpcode_Deopt c) + 1)
        (if Tb._PyOpcode_Deopt c = .RESUME then _py_set_opcode cur i .RESUME_QUICK
          else if Tb._PyOpcode_Deopt c = .JUMP_BACKWARD then
            _py_set_opcode cur i .JUMP_BACKWARD_QUICK
          else cur)
        (by omega)
        (fun q => (replace_one_deopt Tb hT cur i c a hc q).trans (hsim q))
        (fun p hp => hwf p (List.mem_cons_of_mem _ hp))
      refine ⟨code', ?_, h2⟩
      simp only [replace_resume_and_jump_backwards.loop, if_pos hi, hc, _Py_OPCODE, ok_bind]
      exact h1
    · refine ⟨cur, ?_, hsim⟩
      simp only [replace_resume_and_jump_backwards.loop, if_neg hi]

/-- The scan for forbidden opcodes stops at the first forbidden instruction. -/
theorem scan_forbidden (H : Headers) (Tb : OpcodeTables) (size : Nat) (code0 : Code) :
    ∀ (n i : Nat) (cur : Code) (optimizable : Bool),
      (∀ q, deopt_of Tb (cur q) = deopt_of Tb (code0 q)) →
      (∀ p ∈ instruction_positions Tb code0 size n i,
        (deopt_of Tb (code0 p)).isSome = true) →
      (∃ p ∈ instruction_positions Tb code0 size n i,
        forbidden_at Tb code0 size p = true) →
      _PyCode_Tier2Initialize.scan H Tb cur size n i optimizable = .ok none := by
  intro n
  induction n with
  | zero =>
    intro i cur opt _ _ hex
    obtain ⟨p, hp, _⟩ := hex
    simp [instruction_positions] at hp
  | succ n ih =>
    intro i cur opt hsim hwf hex
    by_cases hi : i < size
    · have hpos : instruction_positions Tb code0 size (n + 1) i
          = i :: instruction_positions Tb code0 size n
            (i + (match deopt_of Tb (code0 i) with
                  | some opcode => Tb._PyOpcode_Caches opcode
                  | none => 0) + 1) := by
        simp only [instruction_positions, if_pos hi]
      rw [hpos] at hwf hex
      have h0 := hwf i (List.mem_cons_self _ _)
      obtain ⟨o, ho⟩ := Option.isSome_iff_exists.1 h0
      obtain ⟨c, a, hc, hco⟩ := op_of_deopt ((hsim i).trans ho)
      rw [ho] at hwf hex
      have hfa : forbidden_at Tb code0 size i
          = IS_FORBIDDEN_OPCODE (Tb._PyOpcode_Deopt c)
              (if i + 1 < size then deopt_of Tb (cur (i + 1)) else none) := by
        unfold forbidden_at
        rw [ho, hco, hsim (i + 1)]
      simp only [_PyCode_Tier2Initialize.scan, if_pos hi, hc, _Py_OPCODE, ok_bind]
      by_cases hf : forbidden_at Tb code0 size i = true
      · rw [hfa] at hf
        rw [if_pos hf]
      · rw [hfa] at hf
        rw [if_neg hf, hco]
        apply ih _ _ _ hsim (fun p hp => hwf p (List.mem_cons_of_mem _ hp))
        obtain ⟨p, hp, hpf⟩ := hex
        rcases List.mem_cons.1 hp with h | h
        · rw [h, hfa] at hpf
          exact absurd hpf hf
        · exact ⟨p, h, hpf⟩
    · obtain ⟨p, hp, _⟩ := hex
      simp [instruction_positions, hi] at hp

/-- With a forbidden opcode at an instruction position, `_PyCode_Tier2Initialize` returns
`NULL` after the replacement scan; the tier-2 info is not touched. -/
theorem initialize_forbidden (d : Bool) (H : Headers) (Tb : OpcodeTables)
    (later : PyCodeObject → Exec (Option Nat × PyCodeObject)) (co : PyCodeObject)
    (next_instr : Nat)
    (hT : Tb._PyOpcode_Deopt .RESUME_QUICK = .RESUME
      ∧ Tb._PyOpcode_Deopt .JUMP_BACKWARD_QUICK = .JUMP_BACKWARD)
    (hsize : co.size < 2147483648)
    (hwf : ∀ p ∈ instruction_positions Tb co.co_code co.size co.size 0,
      (deopt_of Tb (co.co_code p)).isSome = true)
    (hforb : ∃ p ∈ instruction_positions Tb co.co_code co.size co.size 0,
      forbidden_at Tb co.co_code co.size p = true)
    (hres : 1 ≤ next_instr ∧ _Py_OPCODE (co.co_code (next_instr - 1)) = .ok .RESUME) :
    ∃ code', _PyCode_Tier2Initialize d H Tb later co next_instr
      = .ok (none, { co with co_code := code' }) := by
  obtain ⟨code', hrep, hsim⟩ := replace_loop_spec Tb hT co.size co.co_code co.size 0
    co.co_code (by omega) (fun _ => rfl) hwf
  have hscan := scan_forbidden H Tb co.size co.co_code co.size 0 code' false hsim hwf hforb
  have hass : _PyCode_Tier2Initialize.asserts d co.co_code next_instr = .ok () := by
    unfold _PyCode_Tier2Initialize.asserts
    cases d
    · rfl
    · rw [if_pos rfl, if_neg (show next_instr ≠ 0 by omega), hres.2]
      rfl
  have hsz : ¬ (to_int (co.size : Int) ≠ (co.size : Int)) := by
    rw [to_int_small (by omega) (by omega)]
    exact fun h => h rfl
  refine ⟨code', ?_⟩
  unfold _PyCode_Tier2Initialize replace_resume_and_jump_backwards
  rw [hass, ok_bind, hrep, ok_bind]
  show (if to_int (co.size : Int) ≠ (co.size : Int) then _ else _) = _
  rw [if_neg hsz]
  show (_PyCode_Tier2Initialize.scan H Tb code' co.size co.size 0 false >>= _) = _
  rw [hscan]
  rfl

end warmup

section warmup_claim

/-- C27: a forbidden opcode at an instruction position (for instance `YIELD_VALUE`, or an
`EXTENDED_ARG` directly followed by an `EXTENDED_ARG`).  On the call of
`_PyCode_Tier2Warmup` in which the warmup counter reaches zero, `_PyCode_Tier2Initialize`
is called and fails: the call returns the unchanged `next_instr`, `is_tier2` is false and
`_tier2_info` is still `NULL`.  Every later call returns its `next_instr` without calling
`_PyCode_Tier2Initialize` and leaves the code object as it is.  (The tables deoptimise the
two quick variants that the replacement scan writes to `RESUME` and `JUMP_BACKWARD`, and
every instruction position holds an instruction.) -/
theorem forbidden_opcode_blocks_tier2 (Py_DEBUG : Bool) (H : Headers) (Tb : OpcodeTables)
    (later : PyCodeObject → Exec (Option Nat × PyCodeObject)) (code : PyCodeObject)
    (next_instr : Nat)
    (hT : Tb._PyOpcode_Deopt .RESUME_QUICK = .RESUME
      ∧ Tb._PyOpcode_Deopt .JUMP_BACKWARD_QUICK = .JUMP_BACKWARD)
    (hsize : code.size < 2147483648)
    (hwf : ∀ p ∈ instruction_positions Tb code.co_code code.size code.size 0,
      (deopt_of Tb (code.co_code p)).isSome = true)
    (hforb : ∃ p ∈ instruction_positions Tb code.co_code code.size code.size 0,
      forbidden_at Tb code.co_code code.size p = true)
    (hres : 1 ≤ next_instr ∧ _Py_OPCODE (code.co_code (next_instr - 1)) = .ok .RESUME)
    (hw : code._tier2_warmup = -1)
    (hinfo : code._tier2_info = none) :
    ∃ w, _PyCode_Tier2Warmup Py_DEBUG H Tb later code next_instr = .ok w
      ∧ w.next = next_instr ∧ w.is_tier2 = false ∧ w.attempted = true
      ∧ w.co._tier2_info = none ∧ w.co._tier2_warmup = 0
      ∧ ∀ next_instr', _PyCode_Tier2Warmup Py_DEBUG H Tb later w.co next_instr'
          = .ok { next := next_instr', co := w.co, is_tier2 := false, attempted := false } := by
  obtain ⟨code', hinit⟩ := initialize_forbidden Py_DEBUG H Tb later
    { code with _tier2_warmup := to_int (code._tier2_warmup + 1) } next_instr hT hsize hwf
    hforb hres
  have hw1 : to_int (code._tier2_warmup + 1) = 0 := by rw [hw]; rfl
  refine ⟨{ next := next_instr
            co := { code with _tier2_warmup := to_int (code._tier2_warmup + 1)
                              co_code := code' }
            is_tier2 := false, attempted := true }, ?_, rfl, rfl, rfl, hinfo, hw1, ?_⟩
  · have hne : code._tier2_warmup ≠ 0 := by rw [hw]; decide
    have hge : to_int (code._tier2_warmup + 1) ≥ 0 := by rw [hw1]
    have hnone : (code._tier2_info.isNone) = true := by rw [hinfo]; rfl
    unfold _PyCode_Tier2Warmup
    rw [if_pos hne]
    show (if to_int (code._tier2_warmup + 1) ≥ 0 then _ else _) = _
    rw [if_pos hge]
    show (c_assert Py_DEBUG code._tier2_info.isNone >>= _) = _
    rw [c_assert_ok Py_DEBUG hnone, ok_bind, hinit]
    rfl
  · intro next_instr'
    have he : ¬ (to_int (code._tier2_warmup + 1) ≠ 0) := fun h => h hw1
    unfold _PyCode_Tier2Warmup
    exact if_neg he

theorem forbidden_opcode_blocks_tier2_witness :
    ∃ w, _PyCode_Tier2Warmup true ex_headers ex_tables (fun co => .ok (some 0, co)) generator_co 1
        = .ok w
      ∧ w.next = 1 ∧ w.is_tier2 = false ∧ w.attempted = true
      ∧ w.co._tier2_info = none ∧ w.co._tier2_warmup = 0
      ∧ ∀ next_instr', _PyCode_Tier2Warmup true ex_headers ex_tables (fun co => .ok (some 0, co))
            w.co next_instr'
          = .ok { next := next_instr', co := w.co, is_tier2 := false, attempted := false } :=
  forbidden_opcode_blocks_tier2 true ex_headers ex_tables (fun co => .ok (some 0, co))
    generator_co 1 (by decide) (by decide) (by decide) (by decide) (by decide) rfl rfl

end warmup_claim

/-! ## The table of backward-jump targets: sorting and deduplication -/

section jump_targets

/-- Insertion into a sorted list depends on the order only through the comparisons with
the elements of the list. -/
theorem orderedInsert_congr {r1 r2 : Int → Int → Prop} [DecidableRel r1] [DecidableRel r2]
    (a : Int) : ∀ (l : List Int), (∀ b ∈ l, r1 a b ↔ r2 a b) →
      List.orderedInsert r1 a l = List.orderedInsert r2 a l := by
  intro l
  induction l with
  | nil => intro _; rfl
  | cons b l ih =>
    intro h
    have hb := h b (List.mem_cons_self _ _)
    have hl := ih fun c hc => h c (List.mem_cons_of_mem _ hc)
    by_cases hr : r1 a b
    · simp only [List.orderedInsert, if_pos hr, if_pos (hb.1 hr)]
    · simp only [List.orderedInsert, if_neg hr, if_neg (fun h2 => hr (hb.2 h2)), hl]

/-- On offsets that are far from the ends of the `int` range, `compare_ints` orders as `≤`
does. -/
theorem compare_ints_le {a b : Int} (ha : -1073741824 ≤ a ∧ a < 1073741824)
    (hb : -1073741824 ≤ b ∧ b < 1073741824) : compare_ints a b ≤ 0 ↔ a ≤ b := by
  unfold compare_ints
  rw [to_int_small (by omega) (by omega)]
  omega

/-- On such offsets `qsort` with `compare_ints` sorts ascending. -/
theorem qsort_eq : ∀ (l : List Int), (∀ v ∈ l, -1073741824 ≤ v ∧ v < 1073741824) →
    qsort l = l.insertionSort (fun a b => a ≤ b) := by
  intro l
  induction l with
  | nil => intro _; rfl
  | cons a l ih =>
    intro h
    have hl := ih fun v hv => h v (List.mem_cons_of_mem _ hv)
    unfold qsort at hl ⊢
    simp only [List.insertionSort]
    rw [hl]
    apply orderedInsert_congr
    intro b hb
    have hbl : b ∈ l := (List.mem_insertionSort _).1 hb
    exact compare_ints_le (h a (List.mem_cons_self _ _)) (h b (List.mem_cons_of_mem _ hbl))

/-- The deduplication keeps the length. -/
theorem dedupe_length : ∀ (n : Nat) (l : List Int),
    (_PyCode_Tier2FillJumpTargets.dedupe n l).length = l.length := by
  intro n
  induction n with
  | zero => intro l; rfl
  | succ n ih =>
    intro l
    cases l with
    | nil => rfl
    | cons a rest =>
      simp only [_PyCode_Tier2FillJumpTargets.dedupe, List.length_cons, ih, List.length_map]

/-- The deduplication keeps one occurrence of every value other than `-1`. -/
theorem dedupe_spec : ∀ (n : Nat) (l : List Int), l.length ≤ n + 1 → ∀ v : Int, v ≠ -1 →
    (v ∈ _PyCode_Tier2FillJumpTargets.dedupe n l ↔ v ∈ l)
      ∧ (_PyCode_Tier2FillJumpTargets.dedupe n l).count v ≤ 1 := by
  intro n
  induction n with
  | zero =>
    intro l hl v _
    refine ⟨Iff.rfl, ?_⟩
    calc (_PyCode_Tier2FillJumpTargets.dedupe 0 l).count v ≤ l.length := List.count_le_length _ _
      _ ≤ 1 := hl
  | succ n ih =>
    intro l hl v hv
    cases l with
    | nil => exact ⟨Iff.rfl, by simp [_PyCode_Tier2FillJumpTargets.dedupe]⟩
    | cons a rest =>
      have hlen : (rest.map fun x => if a = x then (-1 : Int) else x).length ≤ n + 1 := by
        rw [List.length_map]
        simp only [List.length_cons] at hl
        omega
      obtain ⟨hm, hc⟩ := ih _ hlen v hv
      have hmap : v ∈ (rest.map fun x => if a = x then (-1 : Int) else x)
          ↔ v ∈ rest ∧ v ≠ a := by
        rw [List.mem_map]
        constructor
        · rintro ⟨x, hx, hfx⟩
          by_cases hax : a = x
          · rw [if_pos hax] at hfx
            exact absurd hfx.symm hv
          · rw [if_neg hax] at hfx
            subst hfx
            exact ⟨hx, fun h => hax h.symm⟩
        · rintro ⟨hx, hne⟩
          exact ⟨v, hx, by rw [if_neg (fun h => hne h.symm)]⟩
      simp only [_PyCode_Tier2FillJumpTargets.dedupe]
      refine ⟨?_, ?_⟩
      · rw [List.mem_cons, List.mem_cons, hm, hmap]
        constructor
        · rintro (h | ⟨h, _⟩)
          · exact Or.inl h
          · exact Or.inr h
        · rintro (h | h)
          · exact Or.inl h
          · by_cases hva : v = a
            · exact Or.inl hva
            · exact Or.inr ⟨h, hva⟩
      · rw [List.count_cons]
        by_cases hav : a = v
        · have hnot : v ∉ _PyCode_Tier2FillJumpTargets.dedupe n
              (rest.map fun x => if a = x then (-1 : Int) else x) := by
            rw [hm, hmap]
            exact fun h => h.2 hav.symm
          rw [List.count_eq_zero_of_not_mem hnot]
          simp [hav]
        · simpa [hav] using hc

end jump_targets

section jump_targets_claim

/-- C28, counterexample: three backward jumps to the same target (index 2; the targets
of the backward jumps of the bytecode are `[2, 2, 2]`, which is also what the second loop
writes).  The call succeeds with `backward_jump_count = 3` and the offsets `[-1, -1, 2]`:
two entries are equal, and `-1` is not the target of a jump. -/
theorem jump_offsets_keep_duplicates_as_minus_one :
    (decode_tier1 ex_tables loop_code 10 10 0 none).map backward_jump_targets
      = .ok [2, 2, 2]
    ∧ _PyCode_Tier2FillJumpTargets.fill ex_tables loop_code 10 3 10 0 none [] = .ok [2, 2, 2]
    ∧ _PyCode_Tier2FillJumpTargets true ex_tables loop_code 10 unfilled true true true
      = .ok { ret := 0, backward_jump_count := 3, backward_jump_offsets := some [-1, -1, 2],
              backward_jump_target_bb_pairs := allocate_jump_offset_2d_array 3 } := by
  decide

/-- The targets of a list of instructions that starts with a backward jump. -/
theorem targets_cons_jump (x : DecodedInstruction) (rest : List DecodedInstruction)
    (h : IS_JUMP_BACKWARDS_OPCODE x.opcode = true) :
    backward_jump_targets (x :: rest)
      = ((x.index : Int) + 1 - x.oparg) :: backward_jump_targets rest := by
  simp [backward_jump_targets, List.filter_cons, h]

/-- The targets of a list of instructions that starts with another instruction. -/
theorem targets_cons_other (x : DecodedInstruction) (rest : List DecodedInstruction)
    (h : ¬ IS_JUMP_BACKWARDS_OPCODE x.opcode = true) :
    backward_jump_targets (x :: rest) = backward_jump_targets rest := by
  simp [backward_jump_targets, List.filter_cons, h]

/-- The list of instructions is no longer than the number of code units read. -/
theorem decode_length (Tb : OpcodeTables) (code : Code) (size : Nat) :
    ∀ (n i : Nat) (pending : Option Int) (l : List DecodedInstruction),
      decode_tier1 Tb code size n i pending = .ok l → l.length ≤ n := by
  intro n
  induction n with
  | zero =>
    intro i pending l h
    unfold decode_tier1 at h
    by_cases hi : i < size
    · rw [if_pos hi] at h
      cases h
    · rw [if_neg hi] at h
      by_cases hp : pending.isNone = true
      · rw [if_pos hp] at h
        injection h with h
        subst h
        exact Nat.le_refl 0
      · rw [if_neg hp] at h
        cases h
  | succ n ih =>
    intro i pending l h
    unfold decode_tier1 at h
    by_cases hi : i < size
    · rw [if_pos hi] at h
      obtain ⟨op, _, h⟩ := ok_of_bind h
      dsimp only at h
      by_cases he : Tb._PyOpcode_Deopt op = .EXTENDED_ARG
      · rw [if_pos he] at h
        exact Nat.le_succ_of_le (ih _ _ _ h)
      · rw [if_neg he] at h
        obtain ⟨rest, hrest, h⟩ := ok_of_bind h
        injection h with h
        subst h
        exact Nat.succ_le_succ (ih _ _ _ hrest)
    · rw [if_neg hi] at h
      by_cases hp : pending.isNone = true
      · rw [if_pos hp] at h
        injection h with h
        subst h
        exact Nat.zero_le _
      · rw [if_neg hp] at h
        cases h

/-- The first loop of `_PyCode_Tier2FillJumpTargets` counts the backward jumps among the
instructions of the bytecode (an `EXTENDED_ARG` has no cache entries). -/
theorem count_spec (Tb : OpcodeTables) (code : Code) (size : Nat)
    (hext : Tb._PyOpcode_Caches .EXTENDED_ARG = 0) :
    ∀ (n i : Nat) (pending : Option Int) (l : List DecodedInstruction),
      decode_tier1 Tb code size n i pending = .ok l → ∀ k : Int,
      _PyCode_Tier2FillJumpTargets.count Tb code size n i k
        = .ok (k + ((backward_jump_targets l).length : Int)) := by
  intro n
  induction n with
  | zero =>
    intro i pending l h k
    unfold decode_tier1 at h
    unfold _PyCode_Tier2FillJumpTargets.count
    by_cases hi : i < size
    · rw [if_pos hi] at h
      cases h
    · rw [if_neg hi] at h
      rw [if_neg hi]
      by_cases hp : pending.isNone = true
      · rw [if_pos hp] at h
        injection h with h
        subst h
        simp [backward_jump_targets]
      · rw [if_neg hp] at h
        cases h
  | succ n ih =>
    intro i pending l h k
    unfold decode_tier1 at h
    unfold _PyCode_Tier2FillJumpTargets.count
    by_cases hi : i < size
    · rw [if_pos hi] at h
      rw [if_pos hi]
      obtain ⟨op, hop, h⟩ := ok_of_bind h
      dsimp only at h
      rw [hop, ok_bind]
      dsimp only
      by_cases he : Tb._PyOpcode_Deopt op = .EXTENDED_ARG
      · rw [if_pos he] at h
        rw [he, hext]
        have := ih _ _ _ h (k + ((IS_JUMP_BACKWARDS_OPCODE .EXTENDED_ARG).toNat : Int))
        rw [this]
        congr 1
        have e : (IS_JUMP_BACKWARDS_OPCODE .EXTENDED_ARG).toNat = 0 := by decide
        rw [e]
        simp
      · rw [if_neg he] at h
        obtain ⟨rest, hrest, h⟩ := ok_of_bind h
        injection h with h
        subst h
        rw [ih _ _ _ hrest]
        congr 1
        by_cases hj : IS_JUMP_BACKWARDS_OPCODE (Tb._PyOpcode_Deopt op) = true
        · rw [targets_cons_jump _ _ hj, hj]
          simp
          omega
        · rw [targets_cons_other _ _ hj]
          have : IS_JUMP_BACKWARDS_OPCODE (Tb._PyOpcode_Deopt op) = false := by
            simpa using hj
          rw [this]
          simp
    · rw [if_neg hi] at h
      rw [if_neg hi]
      by_cases hp : pending.isNone = true
      · rw [if_pos hp] at h
        injection h with h
        subst h
        simp [backward_jump_targets]
      · rw [if_neg hp] at h
        cases h

/-- The second loop of `_PyCode_Tier2FillJumpTargets` appends the targets of the backward
jumps among the instructions of the bytecode, each converted to `int`, as long as the
array has room for them. -/
theorem fill_spec (Tb : OpcodeTables) (code : Code) (size count : Nat) :
    ∀ (n i : Nat) (pending : Option Int) (l : List DecodedInstruction),
      decode_tier1 Tb code size n i pending = .ok l → ∀ offsets : List Int,
      offsets.length + (backward_jump_targets l).length ≤ count →
      _PyCode_Tier2FillJumpTargets.fill Tb code size count n i pending offsets
        = .ok (offsets ++ (backward_jump_targets l).map to_int) := by
  intro n
  induction n with
  | zero =>
    intro i pending l h offsets _
    unfold decode_tier1 at h
    unfold _PyCode_Tier2FillJumpTargets.fill
    by_cases hi : i < size
    · rw [if_pos hi] at h
      cases h
    · rw [if_neg hi] at h
      by_cases hp : pending.isNone = true
      · rw [if_pos hp] at h
        injection h with h
        subst h
        rw [if_pos ⟨hp, hi⟩]
        simp [backward_jump_targets]
      · rw [if_neg hp] at h
        cases h
  | succ n ih =>
    intro i pending l h offsets hroom
    unfold decode_tier1 at h
    unfold _PyCode_Tier2FillJumpTargets.fill
    by_cases hi : i < size
    · rw [if_pos hi] at h
      rw [if_neg (fun e => e.2 hi)]
      obtain ⟨op, hop, h⟩ := ok_of_bind h
      dsimp only at h
      rw [hop, ok_bind]
      dsimp only
      by_cases he : Tb._PyOpcode_Deopt op = .EXTENDED_ARG
      · rw [if_pos he] at h
        have hnj : ¬ IS_JUMP_BACKWARDS_OPCODE (Tb._PyOpcode_Deopt op) = true := by
          rw [he]
          decide
        rw [if_neg hnj, if_pos he]
        exact ih _ _ _ h offsets hroom
      · rw [if_neg he] at h
        obtain ⟨rest, hrest, h⟩ := ok_of_bind h
        injection h with h
        subst h
        by_cases hj : IS_JUMP_BACKWARDS_OPCODE (Tb._PyOpcode_Deopt op) = true
        · rw [targets_cons_jump _ _ hj] at hroom ⊢
          rw [List.length_cons] at hroom
          rw [if_pos hj, if_pos (by omega)]
          rw [ih _ _ _ hrest _ (by rw [List.length_append, List.length_singleton]; omega)]
          rw [List.append_assoc, List.singleton_append, List.map_cons]
        · rw [targets_cons_other _ _ hj] at hroom ⊢
          rw [if_neg hj, if_neg he]
          exact ih _ _ _ hrest offsets hroom
    · rw [if_neg hi] at h
      by_cases hp : pending.isNone = true
      · rw [if_pos hp] at h
        injection h with h
        subst h
        rw [if_pos ⟨hp, hi⟩]
        simp [backward_jump_targets]
      · rw [if_neg hp] at h
        cases h

/-- What `_PyCode_Tier2FillJumpTargets` makes of the offsets `targets` that its second loop
has written, when the first loop has counted as many: they are sorted, each duplicate is
replaced by `-1`, and they are sorted again. -/
theorem fill_sorts_and_marks (Py_DEBUG : Bool) (Tb : OpcodeTables) (code : Code)
    (size : Nat) (t : FilledJumpTargets) (c : Int) (targets : List Int)
    (hc : _PyCode_Tier2FillJumpTargets.count Tb code size size 0 0 = .ok c)
    (hpos : 0 < c) (hint : c < 2147483648)
    (hfill : _PyCode_Tier2FillJumpTargets.fill Tb code size c.toNat size 0 none []
      = .ok targets)
    (hlen : (targets.length : Int) = c)
    (hrange : ∀ v ∈ targets, -1073741824 ≤ v ∧ v < 1073741824) :
    ∃ offsets, _PyCode_Tier2FillJumpTargets Py_DEBUG Tb code size t true true true
        = .ok { ret := 0, backward_jump_count := c, backward_jump_offsets := some offsets,
                backward_jump_target_bb_pairs := allocate_jump_offset_2d_array c.toNat }
      ∧ offsets.length = targets.length
      ∧ (allocate_jump_offset_2d_array c.toNat).length = offsets.length
      ∧ offsets.Sorted (fun a b => a ≤ b)
      ∧ (∀ v, v ≠ -1 → offsets.count v ≤ 1)
      ∧ (∀ v, v ≠ -1 → (v ∈ offsets ↔ v ∈ targets))
      ∧ ∀ v ∈ offsets, v = -1 ∨ v ∈ targets := by
  have hs1 := qsort_eq targets hrange
  have hl1 : (qsort targets).length = targets.length := by
    rw [hs1]; exact List.length_insertionSort _ _
  have hm1 : ∀ v, v ∈ qsort targets ↔ v ∈ targets := by
    intro v; rw [hs1]; exact List.mem_insertionSort _
  have hcn : targets.length = c.toNat := by omega
  have hd := dedupe_spec (c.toNat - 1) (qsort targets) (by rw [hl1]; omega)
  have hdl := dedupe_length (c.toNat - 1) (qsort targets)
  have hmem : ∀ v ∈ _PyCode_Tier2FillJumpTargets.dedupe (c.toNat - 1) (qsort targets),
      v = -1 ∨ v ∈ targets := by
    intro v hv
    by_cases h1 : v = -1
    · exact Or.inl h1
    · exact Or.inr ((hm1 v).1 (((hd v h1).1).1 hv))
  have hr2 : ∀ v ∈ _PyCode_Tier2FillJumpTargets.dedupe (c.toNat - 1) (qsort targets),
      -1073741824 ≤ v ∧ v < 1073741824 := by
    intro v hv
    rcases hmem v hv with h | h
    · rw [h]; decide
    · exact hrange v h
  have hs2 := qsort_eq _ hr2
  refine ⟨qsort (_PyCode_Tier2FillJumpTargets.dedupe (c.toNat - 1) (qsort targets)),
    ?_, ?_, ?_, ?_, ?_, ?_, ?_⟩
  · have h1 : ¬ (c ≠ to_int c) := by
      rw [to_int_small (by omega) (by omega)]
      exact fun h => h rfl
    have h2 : ¬ c = 0 := by omega
    have h3 : targets ++ List.replicate (c.toNat - targets.length) 0 = targets := by
      rw [hcn, Nat.sub_self]
      simp
    unfold _PyCode_Tier2FillJumpTargets
    rw [hc, ok_bind, if_neg h1, if_neg h2]
    simp only [Bool.not_true, Bool.false_eq_true, if_false, hfill, ok_bind,
      c_assert_ok Py_DEBUG (decide_eq_true hlen), h3]
    rw [to_int_small (by omega) (by omega)]
  · rw [hs2, List.length_insertionSort, hdl, hl1]
  · rw [hs2, List.length_insertionSort, hdl, hl1, hcn]
    simp [allocate_jump_offset_2d_array]
  · rw [hs2]
    exact List.sorted_insertionSort _ _
  · intro v hv
    rw [hs2, (List.perm_insertionSort _ _).count_eq]
    exact (hd v hv).2
  · intro v hv
    rw [hs2, List.mem_insertionSort, (hd v hv).1, hm1]
  · intro v hv
    rw [hs2, List.mem_insertionSort] at hv
    exact hmem v hv

/-- C28 (amended): after a successful `_PyCode_Tier2FillJumpTargets` on a bytecode that
decodes into the instructions `instructions`, at least one of which is a backward jump:
`backward_jump_count` is the number of backward jumps, and the array
`backward_jump_offsets[0 .. backward_jump_count)` has one entry per backward jump, is
sorted ascending, every value other than `-1` occurs in it at most once, the values other
than `-1` in it are exactly the tier-1 offsets targeted by the backward jumps, and every
entry is `-1` or such a target: each further occurrence of a target is replaced by `-1`.
The version table has one row per entry.  (An `EXTENDED_ARG` has no cache entries, the
bytecode has fewer than `2^31` units, and the targets are offsets far from the ends of the
`int` range, so that `compare_ints` does not overflow.) -/
theorem jump_offsets_sorted_deduplicated (Py_DEBUG : Bool) (Tb : OpcodeTables) (code : Code)
    (size : Nat) (t : FilledJumpTargets) (instructions : List DecodedInstruction)
    (hdec : decode_tier1 Tb code size size 0 none = .ok instructions)
    (hext : Tb._PyOpcode_Caches .EXTENDED_ARG = 0)
    (hsize : size < 2147483648)
    (hjump : backward_jump_targets instructions ≠ [])
    (hrange : ∀ v ∈ backward_jump_targets instructions,
      -1073741824 ≤ v ∧ v < 1073741824) :
    ∃ offsets, _PyCode_Tier2FillJumpTargets Py_DEBUG Tb code size t true true true
        = .ok { ret := 0
                backward_jump_count := ((backward_jump_targets instructions).length : Int)
                backward_jump_offsets := some offsets
                backward_jump_target_bb_pairs :=
                  allocate_jump_offset_2d_array (backward_jump_targets instructions).length }
      ∧ offsets.length = (backward_jump_targets instructions).length
      ∧ (allocate_jump_offset_2d_array (backward_jump_targets instructions).length).length
          = offsets.length
      ∧ offsets.Sorted (fun a b => a ≤ b)
      ∧ (∀ v, v ≠ -1 → offsets.count v ≤ 1)
      ∧ (∀ v, v ≠ -1 → (v ∈ offsets ↔ v ∈ backward_jump_targets instructions))
      ∧ ∀ v ∈ offsets, v = -1 ∨ v ∈ backward_jump_targets instructions := by
  have hlen0 : (backward_jump_targets instructions).length ≤ size := by
    have h1 := decode_length Tb code size size 0 none instructions hdec
    have h2 : (backward_jump_targets instructions).length ≤ instructions.length := by
      unfold backward_jump_targets
      rw [List.length_map]
      exact List.length_filter_le _ _
    omega
  have hpos : 0 < (backward_jump_targets instructions).length :=
    List.length_pos.2 hjump
  have hc := count_spec Tb code size hext size 0 none instructions hdec 0
  rw [Int.zero_add] at hc
  have hmap : (backward_jump_targets instructions).map to_int
      = backward_jump_targets instructions := by
    conv_rhs => rw [← List.map_id (backward_jump_targets instructions)]
    apply List.map_congr_left
    intro v hv
    have := hrange v hv
    exact to_int_small (by omega) (by omega)
  have hfill := fill_spec Tb code size (backward_jump_targets instructions).length size 0
    none instructions hdec [] (by simp)
  rw [List.nil_append, hmap] at hfill
  have key := fill_sorts_and_marks Py_DEBUG Tb code size t
    ((backward_jump_targets instructions).length : Int) (backward_jump_targets instructions)
    hc (by omega) (by omega) (by rw [Int.toNat_ofNat]; exact hfill) rfl hrange
  rw [Int.toNat_ofNat] at key
  exact key

theorem jump_offsets_sorted_deduplicated_witness :
    (decode_tier1 ex_tables two_loops_code 10 10 0 none = .ok two_loops_instructions
      ∧ backward_jump_targets two_loops_instructions = [2, 6])
      ∧ ∃ offsets, _PyCode_Tier2FillJumpTargets true ex_tables two_loops_code 10 unfilled true
          true true
        = .ok { ret := 0
                backward_jump_count :=
                  ((backward_jump_targets two_loops_instructions).length : Int)
                backward_jump_offsets := some offsets
                backward_jump_target_bb_pairs :=
                  allocate_jump_offset_2d_array
                    (backward_jump_targets two_loops_instructions).length }
      ∧ offsets.length = (backward_jump_targets two_loops_instructions).length
      ∧ (allocate_jump_offset_2d_array
            (backward_jump_targets two_loops_instructions).length).length = offsets.length
      ∧ offsets.Sorted (fun a b => a ≤ b)
      ∧ (∀ v, v ≠ -1 → offsets.count v ≤ 1)
      ∧ (∀ v, v ≠ -1 →
          (v ∈ offsets ↔ v ∈ backward_jump_targets two_loops_instructions))
      ∧ ∀ v ∈ offsets, v = -1 ∨ v ∈ backward_jump_targets two_loops_instructions :=
  ⟨by decide,
    jump_offsets_sorted_deduplicated true ex_tables two_loops_code 10 unfilled
      two_loops_instructions (by decide) (by decide) (by decide) (by decide) (by decide)⟩

end jump_targets_claim

/-! ## The copy-and-patch compiler: sizes -/

section jit_sizes

theorem to_size_t_small {x : Nat} (h : x < 18446744073709551616) : to_size_t x = x :=
  Nat.mod_eq_of_lt h

/-- The body of the second loop advances `head` by the size of the stencil, and
`entry_points` by the size of the trampoline when a jump target is seen. -/
theorem visit_cursors (J : JitStencils) (memory size : Nat) (offsets : Nat → Int) (i : Nat)
    (instruction : TraceInstruction) (s : Stamping) :
    (_PyJIT_CompileTrace.visit J memory size offsets i instruction s).head
        = s.head + (J.stencils instruction.code).nbytes
      ∧ (_PyJIT_CompileTrace.visit J memory size offsets i instruction s).seen_jump_targets
        = (if (i : Int) = offsets s.seen_jump_targets then s.seen_jump_targets + 1
            else s.seen_jump_targets)
      ∧ (_PyJIT_CompileTrace.visit J memory size offsets i instruction s).entry_points
        = s.entry_points + (if (i : Int) = offsets s.seen_jump_targets
            then J.trampoline_stencil.nbytes else 0) := by
  unfold _PyJIT_CompileTrace.visit
  by_cases h : (i : Int) = offsets s.seen_jump_targets
  · simp [h]
  · simp [h]

end jit_sizes

section jit_alloc

end jit_alloc

section jit_sizes_claim

end jit_sizes_claim

section jit_sizes_witness

end jit_sizes_witness

section jit_reads

/-- A sequence of two steps that returns has a first step that returns. -/
theorem bind_ok {α β : Type} (x : Exec α) (f : α → Exec β) (r : β)
    (h : (x >>= f) = .ok r) : ∃ a, x = .ok a ∧ f a = .ok r := by
  cases x with
  | error e => cases h
  | ok a => exact ⟨a, rfl, h⟩

/-- The body of the second loop reads `jump_target_trace_offsets` once, at the index
`seen_jump_targets`. -/
theorem visit_reads (J : JitStencils) (memory size : Nat) (offsets : Nat → Int) (i : Nat)
    (instruction : TraceInstruction) (s : Stamping) :
    (_PyJIT_CompileTrace.visit J memory size offsets i instruction s).reads
      = s.reads ++ [s.seen_jump_targets] := by
  unfold _PyJIT_CompileTrace.visit
  by_cases h : (i : Int) = offsets s.seen_jump_targets
  · simp [h]
  · simp [h]

/-- The second loop keeps the reads made so far. -/
theorem stamp_reads_mono (J : JitStencils) (memory size : Nat) (offsets : Nat → Int) :
    ∀ (trace : List TraceInstruction) (i : Nat) (s : Stamping) (r : Nat), r ∈ s.reads →
      r ∈ (_PyJIT_CompileTrace.stamp J memory size offsets trace i s).reads := by
  intro trace
  induction trace with
  | nil => intro i s r h; exact h
  | cons a rest ih =>
    intro i s r h
    simp only [_PyJIT_CompileTrace.stamp]
    apply ih
    rw [visit_reads]
    exact List.mem_append_left _ h

/-- The second loop on strictly increasing offsets whose last one is not the index of the
last instruction: in its last iteration every jump target has been seen, so the read
`jump_target_trace_offsets[seen_jump_targets]` is at an index that is not below `n`. -/
theorem stamp_reads_past_end (J : JitStencils) (memory size : Nat) (offsets : Nat → Int)
    (n : Nat) (hn : 0 < n)
    (hinc : ∀ j k : Nat, j < k → k < n → offsets j < offsets k) :
    ∀ (trace : List TraceInstruction) (i : Nat) (s : Stamping), trace ≠ [] →
      (∀ k : Nat, k < n → offsets k < (i : Int) → k < s.seen_jump_targets) →
      offsets (n - 1) + 1 < ((i + trace.length : Nat) : Int) →
      ∃ r ∈ (_PyJIT_CompileTrace.stamp J memory size offsets trace i s).reads, n ≤ r := by
  intro trace
  induction trace with
  | nil => intro i s h; exact absurd rfl h
  | cons a rest ih =>
    intro i s _ hinv hlast
    simp only [_PyJIT_CompileTrace.stamp]
    by_cases hrest : rest = []
    · subst hrest
      simp only [_PyJIT_CompileTrace.stamp]
      refine ⟨s.seen_jump_targets, ?_, ?_⟩
      · rw [visit_reads]
        exact List.mem_append_right _ (List.mem_singleton_self _)
      · have hl : offsets (n - 1) < (i : Int) := by
          simp only [List.length_cons, List.length_nil] at hlast
          omega
        have := hinv (n - 1) (by omega) hl
        omega
    · apply ih (i + 1) _ hrest
      · intro k hk hlt
        rw [(visit_cursors J memory size offsets i a s).2.1]
        by_cases hki : offsets k < (i : Int)
        · have := hinv k hk hki
          split <;> omega
        · have hke : offsets k = (i : Int) := by omega
          have hge : k ≤ s.seen_jump_targets := by
            by_contra hc
            have hs : s.seen_jump_targets < k := by omega
            have h1 := hinc s.seen_jump_targets k hs hk
            have h2 := hinv s.seen_jump_targets (by omega) (by omega)
            omega
          by_cases hkeq : k = s.seen_jump_targets
          · rw [← hkeq, if_pos hke.symm]
            omega
          · split <;> omega
      · simp only [List.length_cons] at hlast ⊢
        omega

/-- A call of `_PyJIT_CompileTrace` that returns an entry point has run the second loop
over the whole trace, from the body start and the start of the trampolines. -/
theorem compile_trace_stamping (Py_DEBUG : Bool) (J : JitStencils) (st : JitState)
    (preload_ok : Bool) (mmap_body mmap_entry_points : Option Nat)
    (trace : List TraceInstruction) (offsets : Nat → Int) (n_jump_targets : Int)
    (r : Compiled)
    (h : _PyJIT_CompileTrace Py_DEBUG J st preload_ok mmap_body mmap_entry_points trace
      offsets n_jump_targets = .ok r)
    (hr : r.result ≠ none) :
    r.stamping = _PyJIT_CompileTrace.stamp J r.memory trace.length offsets trace 0
      { head := r.memory, entry_points := r.first_entry_point, seen_jump_targets := 0,
        stamps := [], reads := [] } := by
  unfold _PyJIT_CompileTrace at h
  obtain ⟨_, _, h⟩ := bind_ok _ _ _ h
  obtain ⟨_, _, h⟩ := bind_ok _ _ _ h
  dsimp only at h
  by_cases hl : _PyJIT_CompileTrace.preload st.stencils_loaded preload_ok < 0
  · rw [if_pos hl] at h
    cases h
    exact absurd rfl hr
  · rw [if_neg hl] at h
    cases ht : _PyJIT_CompileTrace.total J trace 0 with
    | none =>
      rw [ht] at h
      cases h
      exact absurd rfl hr
    | some nbytes =>
      rw [ht] at h
      obtain ⟨a1, _, h⟩ := bind_ok _ _ _ h
      by_cases hm : a1.2 = 0
      · rw [if_pos hm] at h
        cases h
        exact absurd rfl hr
      · rw [if_neg hm] at h
        obtain ⟨a2, _, h⟩ := bind_ok _ _ _ h
        obtain ⟨_, _, h⟩ := bind_ok _ _ _ h
        obtain ⟨_, _, h⟩ := bind_ok _ _ _ h
        obtain ⟨_, _, h⟩ := bind_ok _ _ _ h
        obtain ⟨_, _, h⟩ := bind_ok _ _ _ h
        cases h
        rfl

end jit_reads

section jit_reads_claim

/-- C38: the stamping loop of `_PyJIT_CompileTrace` reads `jump_target_trace_offsets` past
its end.  For every trace and every strictly increasing array of `n_jump_targets > 0`
offsets whose last one is not the index of the last instruction, a call that returns an
entry point has read `jump_target_trace_offsets[seen_jump_targets]` at an index that is
not below `n_jump_targets`: once all jump targets are seen, every later iteration
compares `i` with the `int` behind the array. -/
theorem compile_trace_reads_past_end (Py_DEBUG : Bool) (J : JitStencils) (st : JitState)
    (preload_ok : Bool) (mmap_body mmap_entry_points : Option Nat)
    (trace : List TraceInstruction) (jump_target_trace_offsets : Nat → Int)
    (n_jump_targets : Nat) (hn : 0 < n_jump_targets)
    (hinc : ∀ j k : Nat, j < k → k < n_jump_targets →
      jump_target_trace_offsets j < jump_target_trace_offsets k)
    (hrange : ∀ k : Nat, k < n_jump_targets →
      0 ≤ jump_target_trace_offsets k ∧ jump_target_trace_offsets k < (trace.length : Int))
    (hlast : jump_target_trace_offsets (n_jump_targets - 1) + 1 < (trace.length : Int))
    (r : Compiled)
    (h : _PyJIT_CompileTrace Py_DEBUG J st preload_ok mmap_body mmap_entry_points trace
      jump_target_trace_offsets (n_jump_targets : Int) = .ok r)
    (hr : r.result ≠ none) :
    ∃ index ∈ r.stamping.reads, n_jump_targets ≤ index := by
  rw [compile_trace_stamping Py_DEBUG J st preload_ok mmap_body mmap_entry_points trace
    jump_target_trace_offsets n_jump_targets r h hr]
  have hne : trace ≠ [] := by
    intro he
    rw [he] at hlast
    have := (hrange (n_jump_targets - 1) (by omega)).1
    simp only [List.length_nil] at hlast
    omega
  apply stamp_reads_past_end J r.memory trace.length jump_target_trace_offsets n_jump_targets
    hn hinc trace 0 _ hne
  · intro k hk hlt
    have := (hrange k hk).1
    simp only [Nat.cast_zero] at hlt
    omega
  · simpa using hlast

end jit_reads_claim

section jit_reads_witness

theorem compile_trace_reads_past_end_witness :
    _PyJIT_CompileTrace true ex_stencils ex_jit_state true (some 65536) (some 131072)
        ex_trace ex_offsets 1 = .ok ex_compiled
      ∧ ex_compiled.result = some 131080
      ∧ ex_compiled.stamping.reads = [0, 1]
      ∧ ex_compiled.stamping.seen_jump_targets = 1
      ∧ ∃ index ∈ ex_compiled.stamping.reads, 1 ≤ index :=
  ⟨by decide, by decide, by decide, by decide,
    compile_trace_reads_past_end true ex_stencils ex_jit_state true (some 65536)
      (some 131072) ex_trace ex_offsets 1 (by decide)
      (by intro j k hjk hk; omega)
      (by intro k hk; have : k = 0 := by omega
          subst this; decide)
      (by decide) ex_compiled (by decide) (by decide)⟩

end jit_reads_witness

section jit_patches

/-- The body of the second loop stamps the stencil of the instruction at `head`, behind
the trampoline of a jump target. -/
theorem visit_stamps (J : JitStencils) (memory size : Nat) (offsets : Nat → Int) (i : Nat)
    (instruction : TraceInstruction) (s : Stamping) :
    ∃ before, (_PyJIT_CompileTrace.visit J memory size offsets i instruction s).stamps
      = s.stamps ++ before ++ [copy_and_patch s.head (J.stencils instruction.code)
          (_PyJIT_CompileTrace.patches J memory size i instruction s.head)] := by
  unfold _PyJIT_CompileTrace.visit _PyJIT_CompileTrace.patches
  by_cases h : (i : Int) = offsets s.seen_jump_targets
  · exact ⟨[copy_and_patch s.entry_points J.trampoline_stencil
      (set_patch (set_patch J.GET_PATCHES J.HOLE_base s.entry_points) J.HOLE_continue
        s.head)], by simp [h]⟩
  · exact ⟨[], by simp [h]⟩

/-- The second loop keeps the stencils stamped so far. -/
theorem stamp_stamps_mono (J : JitStencils) (memory size : Nat) (offsets : Nat → Int) :
    ∀ (trace : List TraceInstruction) (i : Nat) (s : Stamping) (x : Stamp), x ∈ s.stamps →
      x ∈ (_PyJIT_CompileTrace.stamp J memory size offsets trace i s).stamps := by
  intro trace
  induction trace with
  | nil => intro i s x h; exact h
  | cons a rest ih =>
    intro i s x h
    simp only [_PyJIT_CompileTrace.stamp]
    apply ih
    obtain ⟨before, hb⟩ := visit_stamps J memory size offsets i a s
    rw [hb]
    exact List.mem_append_left _ (List.mem_append_left _ h)

/-- The second loop stamps the stencil of the `k`-th instruction of the rest of the trace
at the cursor advanced by the sizes of the stencils in front of it. -/
theorem stamp_instruction (J : JitStencils) (memory size : Nat) (offsets : Nat → Int) :
    ∀ (trace : List TraceInstruction) (i : Nat) (s : Stamping) (k : Nat)
      (instruction : TraceInstruction), trace.get? k = some instruction →
      copy_and_patch
          (s.head + ((trace.take k).map fun x => (J.stencils x.code).nbytes).sum)
          (J.stencils instruction.code)
          (_PyJIT_CompileTrace.patches J memory size (i + k) instruction
            (s.head + ((trace.take k).map fun x => (J.stencils x.code).nbytes).sum))
        ∈ (_PyJIT_CompileTrace.stamp J memory size offsets trace i s).stamps := by
  intro trace
  induction trace with
  | nil => intro i s k instruction h; simp at h
  | cons a rest ih =>
    intro i s k instruction h
    simp only [_PyJIT_CompileTrace.stamp]
    cases k with
    | zero =>
      simp only [List.get?_cons_zero, Option.some.injEq] at h
      subst h
      apply stamp_stamps_mono
      obtain ⟨before, hb⟩ := visit_stamps J memory size offsets i a s
      rw [hb]
      simp
    | succ k =>
      simp only [List.get?_cons_succ] at h
      have := ih (i + 1) (_PyJIT_CompileTrace.visit J memory size offsets i a s) k
        instruction h
      rw [(visit_cursors J memory size offsets i a s).1] at this
      simp only [List.take_succ_cons, List.map_cons, List.sum_cons]
      have e1 : i + (k + 1) = i + 1 + k := by omega
      rw [e1, ← Nat.add_assoc]
      exact this

/-- The values of the array `patches` at the four indices that `_PyJIT_CompileTrace`
sets, when the indices differ from each other. -/
theorem patches_spec (J : JitStencils) (memory size i : Nat) (instruction : TraceInstruction)
    (head : Nat)
    (h1 : J.HOLE_base ≠ J.HOLE_continue) (h2 : J.HOLE_base ≠ J.HOLE_next_instr)
    (h3 : J.HOLE_base ≠ J.HOLE_oparg_plus_one) (h4 : J.HOLE_continue ≠ J.HOLE_next_instr)
    (h5 : J.HOLE_continue ≠ J.HOLE_oparg_plus_one)
    (h6 : J.HOLE_next_instr ≠ J.HOLE_oparg_plus_one) :
    _PyJIT_CompileTrace.patches J memory size i instruction head J.HOLE_base = head
      ∧ _PyJIT_CompileTrace.patches J memory size i instruction head J.HOLE_continue
        = (if i + 1 ≠ size then head + (J.stencils instruction.code).nbytes
            else memory + J.trampoline_stencil.nbytes)
      ∧ _PyJIT_CompileTrace.patches J memory size i instruction head J.HOLE_next_instr
        = instruction.address
      ∧ _PyJIT_CompileTrace.patches J memory size i instruction head J.HOLE_oparg_plus_one
        = instruction.arg + 1
      ∧ ∀ kind, kind ≠ J.HOLE_base → kind ≠ J.HOLE_continue → kind ≠ J.HOLE_next_instr →
          kind ≠ J.HOLE_oparg_plus_one →
          _PyJIT_CompileTrace.patches J memory size i instruction head kind
            = J.GET_PATCHES kind := by
  unfold _PyJIT_CompileTrace.patches set_patch
  refine ⟨?_, ?_, ?_, ?_, ?_⟩
  · simp only [if_neg h3, if_neg h2, if_neg h1, if_true]
  · simp only [if_neg h5, if_neg h4, if_true]
  · simp only [if_neg h6, if_true]
  · simp only [if_true]
  · intro kind k1 k2 k3 k4
    simp only [if_neg k1, if_neg k2, if_neg k3, if_neg k4]

end jit_patches
section jit_patches_claim

/-- C31: what `_PyJIT_CompileTrace` stamps for the instruction at index `k` of the trace,
in a call that returns an entry point.  The stencil of its opcode is copied to
`BASE = body start + sum of nbytes of the instructions before k` with the patches
`HOLE_base = BASE`, `HOLE_next_instr = address of the source instruction`,
`HOLE_oparg_plus_one = arg + 1`, and `HOLE_continue = BASE + its own nbytes` when it is
not the last instruction; every hole at `addr = BASE + offset` receives
`patches[kind] + addend + pc * addr`.  For the last instruction `HOLE_continue` is
`body start + trampoline_stencil.nbytes`: an address inside or behind the body, where no
trampoline is (the trampolines are stamped in the second mapping). -/
theorem compile_trace_patches (Py_DEBUG : Bool) (J : JitStencils) (st : JitState)
    (preload_ok : Bool) (mmap_body mmap_entry_points : Option Nat)
    (trace : List TraceInstruction) (jump_target_trace_offsets : Nat → Int)
    (n_jump_targets : Int) (r : Compiled)
    (h : _PyJIT_CompileTrace Py_DEBUG J st preload_ok mmap_body mmap_entry_points trace
      jump_target_trace_offsets n_jump_targets = .ok r)
    (hr : r.result ≠ none)
    (h1 : J.HOLE_base ≠ J.HOLE_continue) (h2 : J.HOLE_base ≠ J.HOLE_next_instr)
    (h3 : J.HOLE_base ≠ J.HOLE_oparg_plus_one) (h4 : J.HOLE_continue ≠ J.HOLE_next_instr)
    (h5 : J.HOLE_continue ≠ J.HOLE_oparg_plus_one)
    (h6 : J.HOLE_next_instr ≠ J.HOLE_oparg_plus_one)
    (k : Nat) (instruction : TraceInstruction) (hk : trace.get? k = some instruction) :
    ∃ patches : Nat → Nat,
      patches J.HOLE_base
          = r.memory + ((trace.take k).map fun x => (J.stencils x.code).nbytes).sum
      ∧ patches J.HOLE_next_instr = instruction.address
      ∧ patches J.HOLE_oparg_plus_one = instruction.arg + 1
      ∧ (k + 1 ≠ trace.length → patches J.HOLE_continue
          = r.memory + ((trace.take k).map fun x => (J.stencils x.code).nbytes).sum
            + (J.stencils instruction.code).nbytes)
      ∧ (k + 1 = trace.length → patches J.HOLE_continue
          = r.memory + J.trampoline_stencil.nbytes)
      ∧ copy_and_patch
            (r.memory + ((trace.take k).map fun x => (J.stencils x.code).nbytes).sum)
            (J.stencils instruction.code) patches ∈ r.stamping.stamps
      ∧ ∀ hole ∈ (J.stencils instruction.code).holes,
          (r.memory + ((trace.take k).map fun x => (J.stencils x.code).nbytes).sum
              + hole.offset,
            to_size_t (patches hole.kind + hole.addend + hole.pc
              * (r.memory + ((trace.take k).map fun x => (J.stencils x.code).nbytes).sum
                  + hole.offset)))
          ∈ (copy_and_patch
              (r.memory + ((trace.take k).map fun x => (J.stencils x.code).nbytes).sum)
              (J.stencils instruction.code) patches).holes := by
  have hs := compile_trace_stamping Py_DEBUG J st preload_ok mmap_body mmap_entry_points
    trace jump_target_trace_offsets n_jump_targets r h hr
  have hm := stamp_instruction J r.memory trace.length jump_target_trace_offsets trace 0
    { head := r.memory, entry_points := r.first_entry_point, seen_jump_targets := 0,
      stamps := [], reads := [] } k instruction hk
  rw [← hs, Nat.zero_add] at hm
  obtain ⟨p1, p2, p3, p4, _⟩ := patches_spec J r.memory trace.length k instruction
    (r.memory + ((trace.take k).map fun x => (J.stencils x.code).nbytes).sum)
    h1 h2 h3 h4 h5 h6
  refine ⟨_, p1, p3, p4, ?_, ?_, hm, ?_⟩
  · intro hne
    rw [p2, if_pos hne]
  · intro he
    rw [p2, if_neg (fun hne => hne he)]
  · intro hole hh
    unfold copy_and_patch
    exact List.mem_map.2 ⟨hole, hh, rfl⟩

end jit_patches_claim

section jit_patches_witness

theorem compile_trace_patches_witness :
    _PyJIT_CompileTrace true ex_stencils ex_jit_state true (some 65536) (some 131072)
        ex_trace_continue ex_offsets 1 = .ok ex_compiled_continue
      ∧ ex_compiled_continue.memory = 65544
      ∧ (ex_compiled_continue.stamping.stamps.map fun x => (x.memory, x.nbytes))
        = [(131080, 32), (65544, 24), (65568, 16)]
      ∧ ∃ patches : Nat → Nat,
        patches ex_stencils.HOLE_base = 65568
        ∧ patches ex_stencils.HOLE_continue = 65576
        ∧ copy_and_patch 65568 (ex_stencils.stencils 1) patches
            ∈ ex_compiled_continue.stamping.stamps :=
  ⟨by decide, by decide, by decide,
    (compile_trace_patches true ex_stencils ex_jit_state true (some 65536) (some 131072)
      ex_trace_continue ex_offsets 1 ex_compiled_continue (by decide) (by decide)
      (by decide) (by decide) (by decide) (by decide) (by decide) (by decide)
      1 ⟨4002, 1, 0⟩ (by decide)).elim
      fun patches hp => ⟨patches, hp.1, hp.2.2.2.2.1 (by decide), hp.2.2.2.2.2.1⟩⟩

end jit_patches_witness

section jit_free

/-- What `alloc` returns: `NULL` with the memory unchanged when the mapping fails,
otherwise the pointer behind the header of the new region. -/
theorem alloc_ok (d : Bool) (st : JitState) (mmap : Option Nat) (nbytes : Nat)
    (a : JitState × Nat) (h : alloc d st mmap nbytes = .ok a) :
    (mmap = none ∧ a = (st, 0))
      ∨ ∃ p, mmap = some p
        ∧ a = ({ st with mapped := (p, to_size_t (nbytes + sizeof_size_t)) :: st.mapped
                         headers := (p, to_size_t (nbytes + sizeof_size_t)) :: st.headers },
            p + sizeof_size_t) := by
  unfold alloc at h
  cases mmap with
  | none => cases h; exact Or.inl ⟨rfl, rfl⟩
  | some p =>
    obtain ⟨_, _, h⟩ := bind_ok _ _ _ h
    cases h
    exact Or.inr ⟨p, rfl, rfl⟩

/-- A call of `_PyJIT_CompileTrace` that returns an entry point has mapped two regions:
first the body, then the trampolines, whose pointer it returns. -/
theorem compile_trace_mapped (Py_DEBUG : Bool) (J : JitStencils) (st : JitState)
    (preload_ok : Bool) (mmap_body mmap_entry_points : Option Nat)
    (trace : List TraceInstruction) (offsets : Nat → Int) (n_jump_targets : Int)
    (r : Compiled)
    (h : _PyJIT_CompileTrace Py_DEBUG J st preload_ok mmap_body mmap_entry_points trace
      offsets n_jump_targets = .ok r)
    (hr : r.result ≠ none) :
    ∃ body entry size_body size_entry,
      mmap_body = some body ∧ mmap_entry_points = some entry
      ∧ _PyJIT_CompileTrace.total J trace 0 = some r.nbytes
      ∧ size_body = to_size_t (r.nbytes + sizeof_size_t)
      ∧ size_entry = to_size_t (to_size_t (J.trampoline_stencil.nbytes
          * (n_jump_targets % 18446744073709551616).toNat) + sizeof_size_t)
      ∧ r.result = some (entry + sizeof_size_t)
      ∧ r.memory = body + sizeof_size_t
      ∧ r.st.mapped = (entry, size_entry) :: (body, size_body) :: st.mapped
      ∧ r.st.headers = (entry, size_entry) :: (body, size_body) :: st.headers := by
  unfold _PyJIT_CompileTrace at h
  obtain ⟨_, _, h⟩ := bind_ok _ _ _ h
  obtain ⟨_, _, h⟩ := bind_ok _ _ _ h
  dsimp only at h
  by_cases hl : _PyJIT_CompileTrace.preload st.stencils_loaded preload_ok < 0
  · rw [if_pos hl] at h
    cases h
    exact absurd rfl hr
  · rw [if_neg hl] at h
    cases ht : _PyJIT_CompileTrace.total J trace 0 with
    | none =>
      rw [ht] at h
      cases h
      exact absurd rfl hr
    | some nbytes =>
      rw [ht] at h
      obtain ⟨a1, ha1, h⟩ := bind_ok _ _ _ h
      by_cases hm : a1.2 = 0
      · rw [if_pos hm] at h
        cases h
        exact absurd rfl hr
      · rw [if_neg hm] at h
        obtain ⟨a2, ha2, h⟩ := bind_ok _ _ _ h
        obtain ⟨_, _, h⟩ := bind_ok _ _ _ h
        obtain ⟨_, _, h⟩ := bind_ok _ _ _ h
        obtain ⟨_, _, h⟩ := bind_ok _ _ _ h
        obtain ⟨_, _, h⟩ := bind_ok _ _ _ h
        rcases alloc_ok _ _ _ _ _ ha1 with ⟨_, e1⟩ | ⟨body, hb, e1⟩
        · rw [e1] at hm
          exact absurd rfl hm
        · subst e1
          rcases alloc_ok _ _ _ _ _ ha2 with ⟨_, e2⟩ | ⟨entry, he, e2⟩
          · subst e2
            cases h
            exact absurd rfl hr
          · subst e2
            cases h
            have h8 : entry + sizeof_size_t ≠ 0 := by
              have : sizeof_size_t = 8 := rfl
              omega
            refine ⟨body, entry, _, _, hb, he, rfl, rfl, rfl, ?_, rfl, rfl, rfl⟩
            show (if entry + sizeof_size_t = 0 then none else some (entry + sizeof_size_t))
              = some (entry + sizeof_size_t)
            exact if_neg h8

end jit_free
section jit_free_claim

/-- C32: `_PyJIT_Free` on the entry point of a compiled trace leaves the body mapped.
A call of `_PyJIT_CompileTrace` that returns an entry point has mapped two regions, each
with its size in the header in front of the pointer that `alloc` returns: the body
(`nbytes + sizeof(size_t)` bytes) and the trampolines.  The entry point is the pointer of
the trampoline region, so `_PyJIT_Free` reads the header of that region and unmaps it
alone: the body region of the trace is still mapped afterwards, and no pointer to it is
returned to the caller. -/
theorem free_leaves_body_mapped (Py_DEBUG : Bool) (J : JitStencils) (st : JitState)
    (preload_ok : Bool) (mmap_body mmap_entry_points : Option Nat)
    (trace : List TraceInstruction) (jump_target_trace_offsets : Nat → Int)
    (n_jump_targets : Int) (r : Compiled)
    (h : _PyJIT_CompileTrace Py_DEBUG J st preload_ok mmap_body mmap_entry_points trace
      jump_target_trace_offsets n_jump_targets = .ok r)
    (entry_point : Nat) (hr : r.result = some entry_point)
    (hn : 0 ≤ n_jump_targets) (hint : n_jump_targets < 2147483648)
    (hsb : r.nbytes + sizeof_size_t < 18446744073709551616)
    (hse : J.trampoline_stencil.nbytes * n_jump_targets.toNat + sizeof_size_t
      < 18446744073709551616)
    (body entry : Nat) (hb : mmap_body = some body) (he : mmap_entry_points = some entry)
    (hdisjoint : body + (r.nbytes + sizeof_size_t) ≤ entry
      ∨ entry + (J.trampoline_stencil.nbytes * n_jump_targets.toNat + sizeof_size_t)
          ≤ body) :
    r.st.mapped
        = (entry, J.trampoline_stencil.nbytes * n_jump_targets.toNat + sizeof_size_t)
          :: (body, r.nbytes + sizeof_size_t) :: st.mapped
      ∧ r.st.headers.lookup (entry_point - sizeof_size_t)
        = some (J.trampoline_stencil.nbytes * n_jump_targets.toNat + sizeof_size_t)
      ∧ ∃ freed, _PyJIT_Free r.st entry_point = .ok freed
        ∧ (body, r.nbytes + sizeof_size_t) ∈ freed.mapped
        ∧ (entry, J.trampoline_stencil.nbytes * n_jump_targets.toNat + sizeof_size_t)
            ∉ freed.mapped := by
  have h8 : sizeof_size_t = 8 := rfl
  obtain ⟨body1, entry1, sb, se, hb1, he1, _, hsb1, hse1, hres, _, hmap, hhead⟩ :=
    compile_trace_mapped Py_DEBUG J st preload_ok mmap_body mmap_entry_points trace
      jump_target_trace_offsets n_jump_targets r h (by rw [hr]; exact Option.some_ne_none _)
  rw [hb] at hb1
  rw [he] at he1
  cases hb1
  cases he1
  have hnmod : (n_jump_targets % 18446744073709551616).toNat = n_jump_targets.toNat := by
    omega
  have htr : J.trampoline_stencil.nbytes * n_jump_targets.toNat < 18446744073709551616 := by
    omega
  rw [hnmod, to_size_t_small htr, to_size_t_small hse] at hse1
  rw [to_size_t_small hsb] at hsb1
  subst hsb1 hse1
  rw [hr] at hres
  cases hres
  have hsub : entry + sizeof_size_t - sizeof_size_t = entry := by omega
  have hlook : r.st.headers.lookup (entry + sizeof_size_t - sizeof_size_t)
      = some (J.trampoline_stencil.nbytes * n_jump_targets.toNat + sizeof_size_t) := by
    rw [hsub, hhead]
    simp [List.lookup]
  have hread : read_header r.st entry
      = .ok (J.trampoline_stencil.nbytes * n_jump_targets.toNat + sizeof_size_t) := by
    unfold read_header
    rw [hsub] at hlook
    rw [hlook, hmap]
    simp
  have hfree : _PyJIT_Free r.st (entry + sizeof_size_t)
      = .ok { mapped := MUNMAP r.st.mapped entry
                (J.trampoline_stencil.nbytes * n_jump_targets.toNat + sizeof_size_t)
              headers := r.st.headers
              stamps := r.st.stamps
              stencils_loaded := r.st.stencils_loaded } := by
    unfold _PyJIT_Free
    rw [if_neg (by omega), hsub]
    dsimp only
    rw [hread]
    rfl
  refine ⟨hmap, hlook, ⟨_, hfree, ?_, ?_⟩⟩
  · show _ ∈ MUNMAP r.st.mapped entry _
    unfold MUNMAP
    rw [hmap]
    apply List.mem_filter.2
    refine ⟨List.mem_cons_of_mem _ (List.mem_cons_self _ _), ?_⟩
    simp only [Bool.not_eq_true', Bool.and_eq_false_imp, decide_eq_true_eq,
      decide_eq_false_iff_not]
    intro hle
    omega
  · show _ ∉ MUNMAP r.st.mapped entry _
    unfold MUNMAP
    intro hmem
    have := (List.mem_filter.1 hmem).2
    simp at this

end jit_free_claim

section jit_free_witness

theorem free_leaves_body_mapped_witness :
    _PyJIT_CompileTrace true ex_stencils ex_jit_state true (some 65536) (some 131072)
        ex_trace ex_offsets 1 = .ok ex_compiled
      ∧ ex_compiled.result = some 131080
      ∧ ex_compiled.st.mapped = [(131072, 40), (65536, 48)]
      ∧ ex_compiled.st.headers.lookup (131080 - sizeof_size_t) = some 40
      ∧ ∃ freed, _PyJIT_Free ex_compiled.st 131080 = .ok freed
        ∧ (65536, 48) ∈ freed.mapped
        ∧ (131072, 40) ∉ freed.mapped :=
  ⟨by decide, by decide,
    free_leaves_body_mapped true ex_stencils ex_jit_state true (some 65536) (some 131072)
      ex_trace ex_offsets 1 ex_compiled (by decide) 131080 (by decide) (by decide)
      (by decide) (by decide) (by decide) 65536 131072 rfl rfl (by decide)⟩

end jit_free_witness

section negative_readback

/-- Setting a bit from index 2 up keeps the tag of a node. -/
theorem tag_or_bit (node b : Nat) (hb : 2 ≤ b) :
    _Py_TYPENODE_GET_TAG (node ||| 2 ^ b) = _Py_TYPENODE_GET_TAG node := by
  unfold _Py_TYPENODE_GET_TAG
  have h4 : (4 : Nat) = 2 ^ 2 := rfl
  rw [h4]
  apply Nat.eq_of_testBit_eq
  intro i
  rw [Nat.testBit_mod_two_pow, Nat.testBit_mod_two_pow, Nat.testBit_or]
  by_cases hi : i < 2
  · have hne : b ≠ i := by omega
    rw [Nat.testBit_two_pow_of_ne hne, Bool.or_false]
  · simp [hi]

/-- A node with a further bit set has every bit of the node. -/
theorem or_bit_and (node x : Nat) : (node ||| x) &&& node = node := by
  apply Nat.eq_of_testBit_eq
  intro i
  rw [Nat.testBit_and, Nat.testBit_or]
  cases node.testBit i <;> cases x.testBit i <;> rfl

/-- The bit index of a type of the negative set. -/
theorem typeobject_to_bitidx_ok (B : _Py_NegativeTypeMaskBit) (T : TypeObjects)
    (typeobject : Nat)
    (hT : typeobject = T.PyFloat_Type ∨ typeobject = T.PyRawFloat_Type
      ∨ typeobject = T.PyLong_Type ∨ typeobject = T.PySmallInt_Type
      ∨ typeobject = T.PyList_Type) :
    ∃ bitidx, typeobject_to_bitidx B T typeobject = .ok bitidx
      ∧ (bitidx = B.FLOAT_BITIDX ∨ bitidx = B.RAWFLOAT_BITIDX ∨ bitidx = B.LONG_BITIDX
        ∨ bitidx = B.SMALLINT_BITIDX ∨ bitidx = B.LIST_BITIDX) := by
  unfold typeobject_to_bitidx
  by_cases h1 : typeobject = T.PyFloat_Type
  · exact ⟨_, if_pos h1, Or.inl rfl⟩
  · rw [if_neg h1]
    by_cases h2 : typeobject = T.PyRawFloat_Type
    · exact ⟨_, if_pos h2, Or.inr (Or.inl rfl)⟩
    · rw [if_neg h2]
      by_cases h3 : typeobject = T.PyLong_Type
      · exact ⟨_, if_pos h3, Or.inr (Or.inr (Or.inl rfl))⟩
      · rw [if_neg h3]
        by_cases h4 : typeobject = T.PySmallInt_Type
        · exact ⟨_, if_pos h4, Or.inr (Or.inr (Or.inr (Or.inl rfl)))⟩
        · rw [if_neg h4]
          by_cases h5 : typeobject = T.PyList_Type
          · exact ⟨_, if_pos h5, Or.inr (Or.inr (Or.inr (Or.inr rfl)))⟩
          · rcases hT with h | h | h | h | h
            · exact absurd h h1
            · exact absurd h h2
            · exact absurd h h3
            · exact absurd h h4
            · exact absurd h h5

end negative_readback

section negative_readback_claim

/-- C36: `has_negativetype` does not read back what `set_negativetype` wrote.  For every
`ROOT_NEG` node and every type of the negative set (bit indices from 2 up, below 64),
`set_negativetype` returns the node with the bit of the type set, keeps the tag `ROOT_NEG`
and every bit of the node; but `has_negativetype` on the result is false, as it is on
every `ROOT_NEG` node: its first statement returns false when the tag IS
`TYPE_ROOT_NEGATIVE`.  On a node that is not a `ROOT_NEG` it answers from the bit of the
node at the index of the type, which for a positive root is a bit of the address. -/
theorem has_negativetype_never_reads_back (Py_DEBUG : Bool) (B : _Py_NegativeTypeMaskBit)
    (T : TypeObjects) (node typeobject : Nat)
    (hT : typeobject = T.PyFloat_Type ∨ typeobject = T.PyRawFloat_Type
      ∨ typeobject = T.PyLong_Type ∨ typeobject = T.PySmallInt_Type
      ∨ typeobject = T.PyList_Type)
    (hbits : (2 ≤ B.FLOAT_BITIDX ∧ B.FLOAT_BITIDX < 64)
      ∧ (2 ≤ B.RAWFLOAT_BITIDX ∧ B.RAWFLOAT_BITIDX < 64)
      ∧ (2 ≤ B.LONG_BITIDX ∧ B.LONG_BITIDX < 64)
      ∧ (2 ≤ B.SMALLINT_BITIDX ∧ B.SMALLINT_BITIDX < 64)
      ∧ (2 ≤ B.LIST_BITIDX ∧ B.LIST_BITIDX < 64))
    (hnode : _Py_TYPENODE_GET_TAG node = TYPE_ROOT_NEGATIVE) :
    ∃ bitidx written,
      typeobject_to_bitidx B T typeobject = .ok bitidx
      ∧ set_negativetype Py_DEBUG B T node typeobject = .ok written
      ∧ written = node ||| 2 ^ bitidx
      ∧ _Py_TYPENODE_GET_TAG written = TYPE_ROOT_NEGATIVE
      ∧ written &&& node = node
      ∧ written.testBit bitidx = true
      ∧ has_negativetype B T written typeobject = .ok false
      ∧ has_negativetype B T node typeobject = .ok false
      ∧ ∀ other, _Py_TYPENODE_GET_TAG other ≠ TYPE_ROOT_NEGATIVE →
          has_negativetype B T other typeobject
            = .ok (decide (other &&& 2 ^ bitidx ≠ 0)) := by
  obtain ⟨bitidx, hidx, hcase⟩ := typeobject_to_bitidx_ok B T typeobject hT
  have hb : 2 ≤ bitidx ∧ bitidx < 64 := by
    obtain ⟨b1, b2, b3, b4, b5⟩ := hbits
    rcases hcase with h | h | h | h | h <;> rw [h] <;> assumption
  have hsmall : (1 <<< bitidx) % 18446744073709551616 = 2 ^ bitidx := by
    rw [Nat.one_shiftLeft]
    apply Nat.mod_eq_of_lt
    have h64 : (18446744073709551616 : Nat) = 2 ^ 64 := by norm_num
    rw [h64]
    exact Nat.pow_lt_pow_right (by omega) hb.2
  have htag := tag_or_bit node bitidx hb.1
  refine ⟨bitidx, node ||| 2 ^ bitidx, hidx, ?_, rfl, by rw [htag, hnode],
    or_bit_and node _, ?_, ?_, ?_, ?_⟩
  · unfold set_negativetype
    rw [c_assert_ok Py_DEBUG (decide_eq_true hnode), hidx]
    show Except.ok (node ||| (1 <<< bitidx) % 18446744073709551616) = _
    rw [hsmall]
  · rw [Nat.testBit_or, Nat.testBit_two_pow_self, Bool.or_true]
  · unfold has_negativetype
    rw [if_pos (by rw [htag, hnode])]
  · unfold has_negativetype
    rw [if_pos hnode]
  · intro other hother
    unfold has_negativetype
    rw [if_neg hother, hidx]
    show Except.ok (decide (other &&& (1 <<< bitidx) % 18446744073709551616 ≠ 0)) = _
    rw [hsmall]

end negative_readback_claim

section negative_readback_witness

theorem has_negativetype_never_reads_back_witness :
    (∃ bitidx written,
      typeobject_to_bitidx ex_bits ex_types ex_types.PyFloat_Type = .ok bitidx
      ∧ set_negativetype true ex_bits ex_types 3 ex_types.PyFloat_Type = .ok written
      ∧ written = 3 ||| 2 ^ bitidx
      ∧ _Py_TYPENODE_GET_TAG written = TYPE_ROOT_NEGATIVE
      ∧ written &&& 3 = 3
      ∧ written.testBit bitidx = true
      ∧ has_negativetype ex_bits ex_types written ex_types.PyFloat_Type = .ok false
      ∧ has_negativetype ex_bits ex_types 3 ex_types.PyFloat_Type = .ok false
      ∧ ∀ other, _Py_TYPENODE_GET_TAG other ≠ TYPE_ROOT_NEGATIVE →
          has_negativetype ex_bits ex_types other ex_types.PyFloat_Type
            = .ok (decide (other &&& 2 ^ bitidx ≠ 0)))
      ∧ set_negativetype true ex_bits ex_types 3 ex_types.PyFloat_Type = .ok 7
      ∧ has_negativetype ex_bits ex_types 7 ex_types.PyFloat_Type = .ok false
      ∧ has_negativetype ex_bits ex_types
          (_Py_TYPENODE_MAKE_ROOT_POSITIVE ex_types.PyRawFloat_Type) ex_types.PyLong_Type
        = .ok true :=
  ⟨has_negativetype_never_reads_back true ex_bits ex_types 3 ex_types.PyFloat_Type
    (Or.inl rfl) (by decide) (by decide), by decide, by decide, by decide⟩

end negative_readback_witness

section rebox_negative

/-- A root node resolves to itself. -/
theorem typenode_get_root_of_root (m : Mem) (fuel node : Nat)
    (h : _Py_TYPENODE_GET_TAG node = TYPE_ROOT_POSITIVE
      ∨ _Py_TYPENODE_GET_TAG node = TYPE_ROOT_NEGATIVE) :
    typenode_get_root m fuel node = .ok node := by
  unfold typenode_get_root
  exact if_pos h

/-- With assertions, the type of a negative root cannot be asked for. -/
theorem typenode_get_type_negative (m : Mem) (fuel node : Nat)
    (h : _Py_TYPENODE_GET_TAG node = TYPE_ROOT_NEGATIVE) :
    typenode_get_type true m fuel node = .error .assertion := by
  unfold typenode_get_type
  rw [typenode_get_root_of_root m fuel node (Or.inr h)]
  have : decide (_Py_TYPENODE_GET_TAG node ≠ TYPE_ROOT_NEGATIVE) = false :=
    decide_eq_false (fun hn => hn h)
  simp only [ok_bind, this]
  rfl

/-- With assertions, `rebox_stack` of one or more entries stops at the assertion of
`typenode_get_type` when the top entry is a negative root. -/
theorem rebox_stack_negative (T : TypeObjects) (fuel : Nat) (s : Emitter) (right : Nat)
    (num_elements : Int) (hnum : 0 < num_elements)
    (hright : s.m (ptr_index s.type_context.type_stack_ptr (-1)) = some right)
    (h : _Py_TYPENODE_GET_TAG right = TYPE_ROOT_NEGATIVE) :
    rebox_stack true T fuel s num_elements = .error .assertion := by
  unfold rebox_stack
  obtain ⟨n, hn⟩ : ∃ n, num_elements.toNat = n + 1 := ⟨num_elements.toNat - 1, by omega⟩
  rw [hn]
  have hv : rebox_stack.visit true T fuel 0 s = .error .assertion := by
    unfold rebox_stack.visit
    have e : (-1 : Int) - 0 = -1 := by norm_num
    dsimp only
    rw [e, load_eq hright]
    simp only [ok_bind]
    rw [typenode_get_type_negative s.m fuel right h]
    rfl
  unfold rebox_stack.loop
  rw [hv]
  rfl

end rebox_negative
section rebox_negative_path

/-- The path of `infer_BINARY_OP` for a right operand that is a negative root, next to a
left operand that is a root of known type other than boxed float: whatever the mask of
the negative root, the function ends in `rebox_stack(write_curr, type_context, 2)`. -/
theorem infer_binary_op_negative_path (d : Bool) (H : Headers) (B : _Py_NegativeTypeMaskBit)
    (T : TypeObjects) (fuel : Nat) (oparg : Int) (s : Emitter) (bb_id : Int)
    (right left : Nat)
    (hop : oparg = H.NB_ADD ∨ oparg = H.NB_SUBTRACT ∨ oparg = H.NB_MULTIPLY)
    (hright : s.m (ptr_index s.type_context.type_stack_ptr (-1)) = some right)
    (hleft : s.m (ptr_index s.type_context.type_stack_ptr (-2)) = some left)
    (hrneg : _Py_TYPENODE_GET_TAG right = TYPE_ROOT_NEGATIVE)
    (hlroot : _Py_TYPENODE_GET_TAG left = TYPE_ROOT_POSITIVE
      ∨ _Py_TYPENODE_GET_TAG left = TYPE_ROOT_NEGATIVE)
    (hlnull : left ≠ _Py_TYPENODE_POSITIVE_NULLROOT)
    (hlbit : _Py_TYPENODE_GET_TAG left = TYPE_ROOT_POSITIVE →
      left &&& (1 <<< B.FLOAT_BITIDX) % 18446744073709551616 = 0)
    (hltype : _Py_TYPENODE_CLEAR_TAG left ≠ T.PyFloat_Type)
    (hmask : _Py_TYPENODE_CLEAR_TAG right ≠ T.PyFloat_Type
      ∧ _Py_TYPENODE_CLEAR_TAG right ≠ T.PyRawFloat_Type
      ∧ _Py_TYPENODE_CLEAR_TAG right ≠ T.PyLong_Type) :
    infer_BINARY_OP d H B T fuel oparg s bb_id
      = (rebox_stack d T fuel s 2 >>= fun s1 => pure (false, s1)) := by
  have hrnull : _Py_TYPENODE_IS_POSITIVE_NULL right = false := by
    unfold _Py_TYPENODE_IS_POSITIVE_NULL
    apply decide_eq_false
    intro e
    rw [e] at hrneg
    revert hrneg
    decide
  have hlnull2 : _Py_TYPENODE_IS_POSITIVE_NULL left = false := by
    unfold _Py_TYPENODE_IS_POSITIVE_NULL
    exact decide_eq_false hlnull
  have hhr : has_negativetype B T right T.PyFloat_Type = .ok false := by
    unfold has_negativetype
    exact if_pos hrneg
  have hhl : has_negativetype B T left T.PyFloat_Type = .ok false := by
    unfold has_negativetype
    by_cases hn : _Py_TYPENODE_GET_TAG left = TYPE_ROOT_NEGATIVE
    · exact if_pos hn
    · rw [if_neg hn]
      have hp : _Py_TYPENODE_GET_TAG left = TYPE_ROOT_POSITIVE := by
        rcases hlroot with h | h
        · exact h
        · exact absurd h hn
      unfold typeobject_to_bitidx
      rw [if_pos rfl]
      show Except.ok (decide (left &&& (1 <<< B.FLOAT_BITIDX) % 18446744073709551616 ≠ 0))
        = _
      rw [hlbit hp]
      rfl
  unfold infer_BINARY_OP
  rw [c_assert_ok d (decide_eq_true hop), load_eq hright, load_eq hleft]
  simp only [ok_bind]
  rw [typenode_get_root_of_root s.m fuel right (Or.inr hrneg),
    typenode_get_root_of_root s.m fuel left hlroot]
  simp only [ok_bind, hrnull, hlnull2, Bool.false_eq_true, if_false]
  by_cases hend : (_Py_TYPENODE_GET_TAG left = TYPE_ROOT_NEGATIVE
        ∧ _Py_TYPENODE_CLEAR_TAG left = END_GUARD B)
      ∨ (_Py_TYPENODE_GET_TAG right = TYPE_ROOT_NEGATIVE
        ∧ _Py_TYPENODE_CLEAR_TAG right = END_GUARD B)
  · rw [if_pos hend]
  · rw [if_neg hend, hhr]
    simp only [ok_bind, Bool.false_eq_true, if_false]
    rw [hhl]
    simp only [ok_bind, Bool.false_eq_true, if_false]
    unfold infer_BINARY_OP.typed
    rw [if_neg (fun h => hmask.1 h.1)]
    simp only [pure_eq_ok, ok_bind, if_neg hltype]
    unfold infer_BINARY_OP.finish
    rw [if_neg (fun h => hmask.2.1 h.1), if_neg (fun h => hmask.2.2 h.1)]
    rfl

end rebox_negative_path

section rebox_negative_claim

/-- C40: the assertion of `typenode_get_type` fails on a call that `infer_BINARY_OP` makes
through `rebox_stack`.  Whenever the right operand is a negative root (whatever its set of
ruled-out types) and the left operand is a root of known type other than boxed float,
`infer_BINARY_OP` reaches `rebox_stack(write_curr, type_context, 2)` (through the
`END_GUARD` branch or through the final fall-back, since `has_negativetype` is false on
negative roots), and `rebox_stack` calls `typenode_get_type` on the right operand, whose
root is a `ROOT_NEG`: with assertions the call aborts there. -/
theorem infer_binary_op_rebox_negative_root (H : Headers) (B : _Py_NegativeTypeMaskBit)
    (T : TypeObjects) (fuel : Nat) (oparg : Int) (s : Emitter) (bb_id : Int)
    (right left : Nat)
    (hop : oparg = H.NB_ADD ∨ oparg = H.NB_SUBTRACT ∨ oparg = H.NB_MULTIPLY)
    (hright : s.m (ptr_index s.type_context.type_stack_ptr (-1)) = some right)
    (hleft : s.m (ptr_index s.type_context.type_stack_ptr (-2)) = some left)
    (hrneg : _Py_TYPENODE_GET_TAG right = TYPE_ROOT_NEGATIVE)
    (hlroot : _Py_TYPENODE_GET_TAG left = TYPE_ROOT_POSITIVE
      ∨ _Py_TYPENODE_GET_TAG left = TYPE_ROOT_NEGATIVE)
    (hlnull : left ≠ _Py_TYPENODE_POSITIVE_NULLROOT)
    (hlbit : _Py_TYPENODE_GET_TAG left = TYPE_ROOT_POSITIVE →
      left &&& (1 <<< B.FLOAT_BITIDX) % 18446744073709551616 = 0)
    (hltype : _Py_TYPENODE_CLEAR_TAG left ≠ T.PyFloat_Type)
    (hmask : _Py_TYPENODE_CLEAR_TAG right ≠ T.PyFloat_Type
      ∧ _Py_TYPENODE_CLEAR_TAG right ≠ T.PyRawFloat_Type
      ∧ _Py_TYPENODE_CLEAR_TAG right ≠ T.PyLong_Type) :
    (∀ d, infer_BINARY_OP d H B T fuel oparg s bb_id
        = (rebox_stack d T fuel s 2 >>= fun s1 => pure (false, s1)))
      ∧ typenode_get_root s.m fuel right = .ok right
      ∧ typenode_get_type true s.m fuel right = .error .assertion
      ∧ rebox_stack true T fuel s 2 = .error .assertion
      ∧ infer_BINARY_OP true H B T fuel oparg s bb_id = .error .assertion := by
  have hpath := fun d => infer_binary_op_negative_path d H B T fuel oparg s bb_id right left
    hop hright hleft hrneg hlroot hlnull hlbit hltype hmask
  have hre := rebox_stack_negative T fuel s right 2 (by decide) hright hrneg
  refine ⟨hpath, typenode_get_root_of_root s.m fuel right (Or.inr hrneg),
    typenode_get_type_negative s.m fuel right hrneg, hre, ?_⟩
  rw [hpath true, hre]
  rfl

end rebox_negative_claim

section rebox_negative_witness

theorem infer_binary_op_rebox_negative_root_witness :
    (∀ d, infer_BINARY_OP d ex_headers ex_bits ex_types 3 0
          (binop_emitter (binop_mem 1 1057 7)) 7
        = (rebox_stack d ex_types 3 (binop_emitter (binop_mem 1 1057 7)) 2
            >>= fun s1 => pure (false, s1)))
      ∧ typenode_get_root (binop_emitter (binop_mem 1 1057 7)).m 3 7 = .ok 7
      ∧ typenode_get_type true (binop_emitter (binop_mem 1 1057 7)).m 3 7
        = .error .assertion
      ∧ rebox_stack true ex_types 3 (binop_emitter (binop_mem 1 1057 7)) 2
        = .error .assertion
      ∧ infer_BINARY_OP true ex_headers ex_bits ex_types 3 0
          (binop_emitter (binop_mem 1 1057 7)) 7 = .error .assertion :=
  infer_binary_op_rebox_negative_root ex_headers ex_bits ex_types 3 0
    (binop_emitter (binop_mem 1 1057 7)) 7 7 1057 (by decide) (by decide) (by decide)
    (by decide) (by decide) (by decide) (by decide) (by decide) (by decide)

end rebox_negative_witness

section rebox

theorem emitted_nil (code : Code) (w : Nat) : emitted code w w = [] := by
  unfold emitted
  rw [Nat.sub_self]
  rfl

theorem emitted_cons (code : Code) {start stop : Nat} (h : start < stop) :
    emitted code start stop = code start :: emitted code (start + 1) stop := by
  unfold emitted
  obtain ⟨k, hk⟩ : ∃ k, stop - start = k + 1 := ⟨stop - start - 1, by omega⟩
  have hk2 : stop - (start + 1) = k := by omega
  rw [hk, hk2, List.range_succ_eq_map, List.map_cons, List.map_map]
  congr 1
  apply List.map_congr_left
  intro a _
  show code (start + (a + 1)) = code (start + 1 + a)
  congr 1
  omega

theorem emitted_congr {c1 c2 : Code} {start stop : Nat}
    (h : ∀ p, start ≤ p → p < stop → c1 p = c2 p) :
    emitted c1 start stop = emitted c2 start stop := by
  unfold emitted
  apply List.map_congr_left
  intro a ha
  have := List.mem_range.1 ha
  exact h _ (by omega) (by omega)

/-- The type that `typenode_get_type` returns for a node that resolves to a root that is
not negative. -/
theorem get_type_of_root (d : Bool) {m : Mem} {fuel v R : Nat}
    (hg : typenode_get_root m fuel v = .ok R)
    (hR : _Py_TYPENODE_GET_TAG R ≠ TYPE_ROOT_NEGATIVE) :
    typenode_get_type d m fuel v = .ok (_Py_TYPENODE_CLEAR_TAG R) := by
  unfold typenode_get_type
  rw [hg]
  simp only [ok_bind]
  rw [c_assert_ok d (decide_eq_true hR)]
  rfl

/-- A slot with a root that is not negative: the root. -/
theorem positiveRoot_root {m : Mem} {fuel p : Nat} (h : PositiveRoot m fuel p) :
    ∃ R, (load m p >>= typenode_get_root m fuel) = .ok R
      ∧ _Py_TYPENODE_GET_TAG R ≠ TYPE_ROOT_NEGATIVE := by
  unfold PositiveRoot at h
  cases hr : load m p >>= typenode_get_root m fuel with
  | error e => rw [hr] at h; exact absurd h id
  | ok R => rw [hr] at h; exact ⟨R, rfl, h⟩

/-- One iteration of the loop of `rebox_stack`, for the slot at depth `i`, whose root is
not negative unless assertions are compiled out: a slot of raw
float type gets a `BOX_FLOAT i` and becomes a new root of boxed float type, with every
other node resolving as before, when the context has no more stack slots than locals (else
the print of `type_propagate` ends in a bad access); any other slot is left alone. -/
theorem rebox_visit_spec (d : Bool) (T : TypeObjects) {s : Emitter} {fuel : Nat} (i : Nat)
    (hw : WellFormed s.m s.type_context)
    (hf : s.type_context.type_locals_len + s.type_context.type_stack_len ≤ fuel)
    (hlive : s.type_context.type_stack + 8 * (i + 1) ≤ s.type_context.type_stack_ptr)
    (hT : T.PyFloat_Type % 4 = 0)
    (hpos : d = false
      ∨ PositiveRoot s.m fuel (s.type_context.type_stack_ptr - 8 * (i + 1))) :
    (is_raw_float T s.m fuel s.type_context i = false
        ∧ rebox_stack.visit d T fuel (i : Int) s = .ok s)
      ∨ (is_raw_float T s.m fuel s.type_context i = true
        ∧ ∃ m', (s.type_context.type_stack_len ≤ s.type_context.type_locals_len →
            rebox_stack.visit d T fuel (i : Int) s
              = .ok { code := set_op s.code s.write_curr .BOX_FLOAT (i : Int)
                      write_curr := s.write_curr + 1
                      m := m'
                      type_context := s.type_context })
          ∧ (s.type_context.type_locals_len < s.type_context.type_stack_len →
            s.m (s.type_context.type_locals + 8 * s.type_context.type_locals_len) = none →
            rebox_stack.visit d T fuel (i : Int) s = .error .bad_access)
          ∧ WellFormed m' s.type_context
          ∧ slot_root m' fuel s.type_context i
              = .ok (_Py_TYPENODE_MAKE_ROOT_POSITIVE T.PyFloat_Type)
          ∧ ∀ a, InCtx s.type_context a →
              a ≠ s.type_context.type_stack_ptr - 8 * (i + 1) →
              (load m' a >>= typenode_get_root m' fuel)
                = (load s.m a >>= typenode_get_root s.m fuel)) := by
  obtain ⟨e1, r1, r2, r3⟩ := root_positive_facts hT
  obtain ⟨p1, hin⟩ := @peek_int s.type_context hw.1.1 (-(1 + (i : Int))) (i + 1)
    (by push_cast; omega) (by omega) hlive
  obtain ⟨R, hR⟩ : ∃ R, (load s.m (s.type_context.type_stack_ptr - 8 * (i + 1))
      >>= typenode_get_root s.m fuel) = .ok R := by
    obtain ⟨r, dd, hra, hdd, _⟩ := hw.rootAt hin
    obtain ⟨v, hv, htag, _⟩ := hw.1.get hin
    obtain ⟨rv, hrv, _⟩ := hra.root_is_root
    exact ⟨rv, load_get_root_eq hv htag hra (by omega) hrv⟩
  obtain ⟨v, hv, hg⟩ := load_get_root_split hR
  obtain ⟨p2, _⟩ := @peek_int s.type_context hw.1.1 (-1 - (i : Int)) (i + 1)
    (by push_cast; omega) (by omega) hlive
  have hraw : is_raw_float T s.m fuel s.type_context i
      = decide (_Py_TYPENODE_CLEAR_TAG R = T.PyRawFloat_Type) := by
    unfold is_raw_float slot_root
    rw [hR]
    show decide (Except.ok (_Py_TYPENODE_CLEAR_TAG R) = Except.ok T.PyRawFloat_Type) = _
    exact decide_eq_decide.2 ⟨fun e => Except.ok.inj e, fun e => congrArg _ e⟩
  have hty : typenode_get_type d s.m fuel v = .ok (_Py_TYPENODE_CLEAR_TAG R) := by
    rcases hpos with h | h
    · subst h
      unfold typenode_get_type
      rw [hg]
      rfl
    · obtain ⟨R', hR', hRt⟩ := positiveRoot_root h
      rw [hR] at hR'
      cases hR'
      exact get_type_of_root d hg hRt
  by_cases h : _Py_TYPENODE_CLEAR_TAG R = T.PyRawFloat_Type
  · right
    obtain ⟨m', he, hw', hdst, hframe⟩ := @overwrite_new_root d s.m s.type_context hw
      (_Py_TYPENODE_MAKE_ROOT_POSITIVE T.PyFloat_Type)
      (s.type_context.type_stack_ptr - 8 * (i + 1)) fuel hin hf r1
    have hp : type_propagate.switch d T s.m fuel .BOX_FLOAT (i : Int) s.type_context
        = .ok (m', s.type_context) := by
      show (__type_propagate_TYPE_OVERWRITE d s.m fuel s.type_context
        (_Py_TYPENODE_MAKE_ROOT_POSITIVE T.PyFloat_Type)
        (ptr_index s.type_context.type_stack_ptr (-(1 + (i : Int)))) true).map _ = _
      rw [p1, he]
      rfl
    obtain ⟨old, hold, _⟩ := hw.1.get hin
    refine ⟨by rw [hraw]; exact decide_eq_true h, m', ?_, ?_, hw', ?_, hframe⟩
    · intro hlen
      unfold rebox_stack.visit
      dsimp only
      rw [p2, hv]
      simp only [ok_bind]
      rw [hty]
      simp only [ok_bind, if_pos h]
      rw [type_propagate_eq_switch d T hp (print_typestack_ok d hw' hf hlen)]
      rfl
    · intro hmore hout
      have hout' := overwrite_unmapped d (Or.inl ⟨rfl, r1⟩) hold he hout
      unfold rebox_stack.visit
      dsimp only
      rw [p2, hv]
      simp only [ok_bind]
      rw [hty]
      simp only [ok_bind, if_pos h]
      rw [type_propagate_print_error d T hp
        (print_typestack_out_of_bounds d hw' hf hmore hout')]
      rfl
    · unfold slot_root
      rw [load_eq hdst, ok_bind, get_root_of_root r1]
  · left
    refine ⟨by rw [hraw]; exact decide_eq_false h, ?_⟩
    unfold rebox_stack.visit
    dsimp only
    rw [p2, hv]
    simp only [ok_bind]
    rw [hty]
    simp only [ok_bind, if_neg h]
    rfl

end rebox
section rebox_loop

theorem is_raw_float_congr (T : TypeObjects) {m m' : Mem} {fuel : Nat}
    {c : _PyTier2TypeContext} {j : Nat}
    (h : (load m' (c.type_stack_ptr - 8 * (j + 1)) >>= typenode_get_root m' fuel)
      = (load m (c.type_stack_ptr - 8 * (j + 1)) >>= typenode_get_root m fuel)) :
    is_raw_float T m' fuel c j = is_raw_float T m fuel c j := by
  unfold is_raw_float slot_root
  rw [h]

/-- The loop of `rebox_stack` over the depths `i ..< i + k`. -/
theorem rebox_loop_spec (d : Bool) (T : TypeObjects) (fuel : Nat)
    (hT : T.PyFloat_Type % 4 = 0) :
    ∀ (k i : Nat) (s : Emitter), WellFormed s.m s.type_context →
      s.type_context.type_locals_len + s.type_context.type_stack_len ≤ fuel →
      s.type_context.type_stack_len ≤ s.type_context.type_locals_len →
      s.type_context.type_stack + 8 * (i + k) ≤ s.type_context.type_stack_ptr →
      i + k ≤ 256 →
      (∀ j, i ≤ j → j < i + k →
        d = false ∨ PositiveRoot s.m fuel (s.type_context.type_stack_ptr - 8 * (j + 1))) →
      ∃ r, rebox_stack.loop d T fuel k (i : Int) s = .ok r
        ∧ r.type_context = s.type_context
        ∧ WellFormed r.m s.type_context
        ∧ emitted r.code s.write_curr r.write_curr
          = ((List.range' i k).filter (is_raw_float T s.m fuel s.type_context)).map
              (fun j => _Py_CODEUNIT.op .BOX_FLOAT j)
        ∧ r.write_curr = s.write_curr
            + ((List.range' i k).filter (is_raw_float T s.m fuel s.type_context)).length
        ∧ (∀ p, p < s.write_curr ∨ r.write_curr ≤ p → r.code p = s.code p)
        ∧ (∀ j, i ≤ j → j < i + k →
            slot_root r.m fuel s.type_context j
              = if is_raw_float T s.m fuel s.type_context j
                then .ok (_Py_TYPENODE_MAKE_ROOT_POSITIVE T.PyFloat_Type)
                else slot_root s.m fuel s.type_context j)
        ∧ (∀ a, InCtx s.type_context a →
            (∀ j, i ≤ j → j < i + k → a ≠ s.type_context.type_stack_ptr - 8 * (j + 1)) →
            (load r.m a >>= typenode_get_root r.m fuel)
              = (load s.m a >>= typenode_get_root s.m fuel)) := by
  intro k
  induction k with
  | zero =>
    intro i s hw _ _ _ _ _
    refine ⟨s, rfl, rfl, hw, ?_, ?_, fun _ _ => rfl, ?_, fun _ _ _ => rfl⟩
    · rw [emitted_nil]; rfl
    · rfl
    · intro j h1 h2
      omega
  | succ k ih =>
    intro i s hw hf hlen hlive h256 hpos
    have hcast : ((i : Int) + 1) = ((i + 1 : Nat) : Int) := by push_cast; rfl
    have hl := hw.1.1
    have hin : ∀ j, j < i + (k + 1) →
        InCtx s.type_context (s.type_context.type_stack_ptr - 8 * (j + 1)) := by
      intro j hj
      exact (@inCtx_peek s.type_context hl (j + 1) (by omega) (by omega)).2
    have hrange : List.range' i (k + 1) = i :: List.range' (i + 1) k := rfl
    rcases rebox_visit_spec d T i hw hf (by omega) hT (hpos i (by omega) (by omega)) with
      ⟨hraw, hv⟩ | ⟨hraw, m', hv0, _, hw', hslot, hframe⟩
    · obtain ⟨r, hr, c1, c2, c3, c4, c5, c6, c7⟩ := ih (i + 1) s hw hf hlen (by omega) (by omega)
        (fun j h1 h2 => hpos j (by omega) (by omega))
      have hloop : rebox_stack.loop d T fuel (k + 1) (i : Int) s = .ok r := by
        unfold rebox_stack.loop
        rw [hv]
        simp only [ok_bind]
        rw [hcast]
        exact hr
      refine ⟨r, hloop, c1, c2, ?_, ?_, c5, ?_, ?_⟩
      · rw [hrange, List.filter_cons_of_neg (by rw [hraw]; exact Bool.false_ne_true)]
        exact c3
      · rw [hrange, List.filter_cons_of_neg (by rw [hraw]; exact Bool.false_ne_true)]
        exact c4
      · intro j h1 h2
        by_cases hj : j = i
        · subst hj
          rw [hraw]
          simp only [Bool.false_eq_true, if_false]
          unfold slot_root
          exact c7 _ (hin j (by omega)) (fun j' h1' h2' => by omega)
        · exact c6 j (by omega) (by omega)
      · intro a ha hne
        exact c7 a ha (fun j h1 h2 => hne j (by omega) (by omega))
    · have hv := hv0 hlen
      have hpos1 : ∀ j, i + 1 ≤ j → j < i + 1 + k →
          d = false
            ∨ PositiveRoot m' fuel (s.type_context.type_stack_ptr - 8 * (j + 1)) := by
        intro j h1 h2
        rcases hpos j (by omega) (by omega) with h | h
        · exact Or.inl h
        · right
          unfold PositiveRoot at h ⊢
          rw [hframe _ (hin j (by omega)) (by omega)]
          exact h
      obtain ⟨r, hr, c1, c2, c3, c4, c5, c6, c7⟩ := ih (i + 1)
        { code := set_op s.code s.write_curr .BOX_FLOAT (i : Int)
          write_curr := s.write_curr + 1
          m := m'
          type_context := s.type_context } hw' hf hlen
        (by
          show s.type_context.type_stack + 8 * (i + 1 + k) ≤ s.type_context.type_stack_ptr
          omega)
        (by omega) hpos1
      have c5 : ∀ p, p < s.write_curr + 1 ∨ r.write_curr ≤ p →
          r.code p = set_op s.code s.write_curr .BOX_FLOAT (i : Int) p := c5
      have c6 : ∀ j, i + 1 ≤ j → j < i + 1 + k →
          slot_root r.m fuel s.type_context j
            = if is_raw_float T m' fuel s.type_context j
              then .ok (_Py_TYPENODE_MAKE_ROOT_POSITIVE T.PyFloat_Type)
              else slot_root m' fuel s.type_context j := c6
      have c7 : ∀ a, InCtx s.type_context a →
          (∀ j, i + 1 ≤ j → j < i + 1 + k →
            a ≠ s.type_context.type_stack_ptr - 8 * (j + 1)) →
          (load r.m a >>= typenode_get_root r.m fuel)
            = (load m' a >>= typenode_get_root m' fuel) := c7
      have c3 : emitted r.code (s.write_curr + 1) r.write_curr
          = ((List.range' (i + 1) k).filter (is_raw_float T m' fuel s.type_context)).map
              (fun j => _Py_CODEUNIT.op .BOX_FLOAT j) := c3
      have c4 : r.write_curr = s.write_curr + 1
          + ((List.range' (i + 1) k).filter (is_raw_float T m' fuel s.type_context)).length :=
        c4
      have hloop : rebox_stack.loop d T fuel (k + 1) (i : Int) s = .ok r := by
        unfold rebox_stack.loop
        rw [hv]
        simp only [ok_bind]
        rw [hcast]
        exact hr
      have hfilter : (List.range' (i + 1) k).filter (is_raw_float T m' fuel s.type_context)
          = (List.range' (i + 1) k).filter (is_raw_float T s.m fuel s.type_context) := by
        apply List.filter_congr
        intro j hj
        have hj2 := List.mem_range'_1.1 hj
        exact is_raw_float_congr T (hframe _ (hin j (by omega)) (by omega))
      have hi256 : ((i : Int) % 256).toNat = i := by omega
      have hcode : r.code s.write_curr = .op .BOX_FLOAT i := by
        rw [c5 s.write_curr (Or.inl (by omega))]
        unfold set_op
        rw [if_pos rfl, hi256]
      have c3' : emitted r.code (s.write_curr + 1) r.write_curr
          = ((List.range' (i + 1) k).filter (is_raw_float T s.m fuel s.type_context)).map
              (fun j => _Py_CODEUNIT.op .BOX_FLOAT j) := by
        rw [← hfilter]
        exact c3
      have c4' : r.write_curr = s.write_curr + 1
          + ((List.range' (i + 1) k).filter
              (is_raw_float T s.m fuel s.type_context)).length := by
        rw [← hfilter]
        exact c4
      refine ⟨r, hloop, c1, c2, ?_, ?_, ?_, ?_, ?_⟩
      · rw [hrange, List.filter_cons_of_pos hraw, List.map_cons,
          emitted_cons r.code (by omega), hcode, c3']
      · rw [hrange, List.filter_cons_of_pos hraw, List.length_cons, c4']
        omega
      · intro p hp
        rw [c5 p (by
          rcases hp with h | h
          · exact Or.inl (by omega)
          · exact Or.inr h)]
        unfold set_op
        rw [if_neg (by omega)]
      · intro j h1 h2
        by_cases hj : j = i
        · subst hj
          rw [hraw, if_pos rfl, ← hslot]
          unfold slot_root
          exact c7 _ (hin j (by omega)) (fun j' h1' h2' => by omega)
        · have e := c6 j (by omega) (by omega)
          have hfr := hframe _ (hin j (by omega))
            (by omega : s.type_context.type_stack_ptr - 8 * (j + 1)
              ≠ s.type_context.type_stack_ptr - 8 * (i + 1))
          rw [is_raw_float_congr T hfr] at e
          rw [e]
          unfold slot_root
          rw [hfr]
      · intro a ha hne
        rw [← hframe a ha (hne i (by omega) (by omega))]
        exact c7 a ha (fun j h1 h2 => hne j (by omega) (by omega))

/-- The loop of `rebox_stack` over the depths `i ..< i + k`, one of which holds a raw
float, in a context with more stack slots than locals whose unit behind `type_locals` is
not mapped: the first `BOX_FLOAT` ends in a bad access, in the print of `type_propagate`. -/
theorem rebox_loop_fault (d : Bool) (T : TypeObjects) (fuel : Nat)
    (hT : T.PyFloat_Type % 4 = 0) :
    ∀ (k i : Nat) (s : Emitter), WellFormed s.m s.type_context →
      s.type_context.type_locals_len + s.type_context.type_stack_len ≤ fuel →
      s.type_context.type_locals_len < s.type_context.type_stack_len →
      s.m (s.type_context.type_locals + 8 * s.type_context.type_locals_len) = none →
      s.type_context.type_stack + 8 * (i + k) ≤ s.type_context.type_stack_ptr →
      (∀ j, i ≤ j → j < i + k →
        PositiveRoot s.m fuel (s.type_context.type_stack_ptr - 8 * (j + 1))) →
      (∃ j, i ≤ j ∧ j < i + k ∧ is_raw_float T s.m fuel s.type_context j = true) →
      rebox_stack.loop d T fuel k (i : Int) s = .error .bad_access := by
  intro k
  induction k with
  | zero =>
    intro i s _ _ _ _ _ _ hex
    obtain ⟨j, h1, h2, _⟩ := hex
    omega
  | succ k ih =>
    intro i s hw hf hmore hout hlive hpos hex
    have hcast : ((i : Int) + 1) = ((i + 1 : Nat) : Int) := by push_cast; rfl
    rcases rebox_visit_spec d T i hw hf (by omega) hT
      (Or.inr (hpos i (by omega) (by omega))) with
      ⟨hraw, hv⟩ | ⟨hraw, m', _, hv, _⟩
    · unfold rebox_stack.loop
      rw [hv]
      simp only [ok_bind]
      rw [hcast]
      refine ih (i + 1) s hw hf hmore hout (by omega)
        (fun j h1 h2 => hpos j (by omega) (by omega)) ?_
      obtain ⟨j, h1, h2, h3⟩ := hex
      have hne : j ≠ i := by
        intro e
        rw [e, hraw] at h3
        cases h3
      exact ⟨j, by omega, by omega, h3⟩
    · unfold rebox_stack.loop
      rw [hv hmore hout]
      rfl

end rebox_loop
section rebox_claim

/-- The call `rebox_stack(write, ctx, n)` in a context with no more stack slots than locals:
it returns, and what it has emitted. -/
theorem rebox_returns (Py_DEBUG : Bool) (T : TypeObjects) (fuel : Nat)
    (s : Emitter) (n : Nat)
    (hw : WellFormed s.m s.type_context)
    (hf : s.type_context.type_locals_len + s.type_context.type_stack_len ≤ fuel)
    (hlen : s.type_context.type_stack_len ≤ s.type_context.type_locals_len)
    (hlive : s.type_context.type_stack + 8 * n ≤ s.type_context.type_stack_ptr)
    (hn : n ≤ 256)
    (hT : T.PyFloat_Type % 4 = 0 ∧ T.PyFloat_Type ≠ T.PyRawFloat_Type)
    (hpos : ∀ i, i < n →
      PositiveRoot s.m fuel (s.type_context.type_stack_ptr - 8 * (i + 1))) :
    ∃ r, rebox_stack Py_DEBUG T fuel s (n : Int) = .ok r
      ∧ r.type_context = s.type_context
      ∧ WellFormed r.m r.type_context
      ∧ emitted r.code s.write_curr r.write_curr
        = ((List.range n).filter (is_raw_float T s.m fuel s.type_context)).map
            (fun i => _Py_CODEUNIT.op .BOX_FLOAT i)
      ∧ r.write_curr = s.write_curr
          + ((List.range n).filter (is_raw_float T s.m fuel s.type_context)).length
      ∧ (∀ p, p < s.write_curr ∨ r.write_curr ≤ p → r.code p = s.code p)
      ∧ (∀ i, i < n → is_raw_float T r.m fuel r.type_context i = false)
      ∧ (∀ i, i < n → is_raw_float T s.m fuel s.type_context i = false →
          slot_root r.m fuel r.type_context i = slot_root s.m fuel s.type_context i)
      ∧ (∀ a, InCtx s.type_context a →
          (∀ i, i < n → a ≠ s.type_context.type_stack_ptr - 8 * (i + 1)) →
          (load r.m a >>= typenode_get_root r.m fuel)
            = (load s.m a >>= typenode_get_root s.m fuel)) := by
  obtain ⟨r, hr, c1, c2, c3, c4, c5, c6, c7⟩ := rebox_loop_spec Py_DEBUG T fuel hT.1 n 0 s hw
    hf hlen (by omega) (by omega) (fun j _ h2 => Or.inr (hpos j (by omega)))
  rw [← List.range_eq_range'] at c3 c4
  obtain ⟨_, _, _, r3⟩ := root_positive_facts hT.1
  refine ⟨r, ?_, c1, by rw [c1]; exact c2, c3, c4, c5, ?_, ?_, ?_⟩
  · unfold rebox_stack
    rw [Int.toNat_ofNat]
    exact hr
  · intro i hi
    rw [c1]
    have e := c6 i (by omega) (by omega)
    cases hraw : is_raw_float T s.m fuel s.type_context i with
    | true =>
      rw [hraw, if_pos rfl] at e
      unfold is_raw_float
      rw [e]
      apply decide_eq_false
      intro h
      have h2 : _Py_TYPENODE_CLEAR_TAG (_Py_TYPENODE_MAKE_ROOT_POSITIVE T.PyFloat_Type)
          = T.PyRawFloat_Type := Except.ok.inj h
      rw [r3] at h2
      exact hT.2 h2
    | false =>
      rw [hraw] at e
      simp only [Bool.false_eq_true, if_false] at e
      unfold is_raw_float at hraw ⊢
      rw [e]
      exact hraw
  · intro i hi hraw
    rw [c1]
    have e := c6 i (by omega) (by omega)
    rw [hraw] at e
    simpa using e
  · intro a ha hne
    exact c7 a ha (fun j _ h2 => hne j (by omega))

/-- C33: `rebox_stack(write, ctx, n)` in a well-formed context whose top `n` stack slots
resolve to roots that are not negative (`n ≤ 256`, the range of `op.arg`).  When the
context has no more stack slots than locals, the call returns; the code units written
from `write` on are one `BOX_FLOAT i` for exactly the depths `i < n` whose slot is of raw
float type, in increasing `i`, and no other unit is changed; the returned pointer is
`write` plus their number; afterwards none of the top `n` slots is of raw float type (each
slot that was is a root of boxed float type, the others resolve as before), and every
other node of the context, so every deeper stack slot, resolves as before (first
conjunct).  When the context has more stack slots than locals, the unit behind
`type_locals` is not mapped and one of the top `n` slots is of raw float type, the call
ends in a bad access: the `type_propagate` of the first `BOX_FLOAT` prints the context and
reads `type_locals[i]` for the indices of the stack (second conjunct). -/
theorem rebox_stack_boxes_raw_floats (Py_DEBUG : Bool) (T : TypeObjects) (fuel : Nat)
    (s : Emitter) (n : Nat)
    (hw : WellFormed s.m s.type_context)
    (hf : s.type_context.type_locals_len + s.type_context.type_stack_len ≤ fuel)
    (hlive : s.type_context.type_stack + 8 * n ≤ s.type_context.type_stack_ptr)
    (hn : n ≤ 256)
    (hT : T.PyFloat_Type % 4 = 0 ∧ T.PyFloat_Type ≠ T.PyRawFloat_Type)
    (hpos : ∀ i, i < n →
      PositiveRoot s.m fuel (s.type_context.type_stack_ptr - 8 * (i + 1))) :
    (s.type_context.type_stack_len ≤ s.type_context.type_locals_len →
      ∃ r, rebox_stack Py_DEBUG T fuel s (n : Int) = .ok r
        ∧ r.type_context = s.type_context
        ∧ WellFormed r.m r.type_context
        ∧ emitted r.code s.write_curr r.write_curr
          = ((List.range n).filter (is_raw_float T s.m fuel s.type_context)).map
              (fun i => _Py_CODEUNIT.op .BOX_FLOAT i)
        ∧ r.write_curr = s.write_curr
            + ((List.range n).filter (is_raw_float T s.m fuel s.type_context)).length
        ∧ (∀ p, p < s.write_curr ∨ r.write_curr ≤ p → r.code p = s.code p)
        ∧ (∀ i, i < n → is_raw_float T r.m fuel r.type_context i = false)
        ∧ (∀ i, i < n → is_raw_float T s.m fuel s.type_context i = false →
            slot_root r.m fuel r.type_context i = slot_root s.m fuel s.type_context i)
        ∧ (∀ a, InCtx s.type_context a →
            (∀ i, i < n → a ≠ s.type_context.type_stack_ptr - 8 * (i + 1)) →
            (load r.m a >>= typenode_get_root r.m fuel)
              = (load s.m a >>= typenode_get_root s.m fuel)))
      ∧ (s.type_context.type_locals_len < s.type_context.type_stack_len →
        s.m (s.type_context.type_locals + 8 * s.type_context.type_locals_len) = none →
        (∃ i, i < n ∧ is_raw_float T s.m fuel s.type_context i = true) →
        rebox_stack Py_DEBUG T fuel s (n : Int) = .error .bad_access) := by
  refine ⟨fun hlen => rebox_returns Py_DEBUG T fuel s n hw hf hlen hlive hn hT hpos, ?_⟩
  intro hmore hout hex
  unfold rebox_stack
  rw [Int.toNat_ofNat]
  obtain ⟨i, hi, hraw⟩ := hex
  exact rebox_loop_fault Py_DEBUG T fuel hT.1 n 0 s hw hf hmore hout (by omega)
    (fun j _ h2 => hpos j (by omega)) ⟨i, by omega, by omega, hraw⟩

end rebox_claim

section rebox_witness

theorem rebox_stack_boxes_raw_floats_witness :
    (is_raw_float ex_types rebox_room_mem 6 rebox_room_ctx 0 = false
        ∧ is_raw_float ex_types rebox_room_mem 6 rebox_room_ctx 1 = true
        ∧ is_raw_float ex_types rebox_room_mem 6 rebox_room_ctx 2 = true)
      ∧ (∃ r, rebox_stack true ex_types 6 rebox_room_emitter ((2 : Nat) : Int) = .ok r
          ∧ r.type_context = rebox_room_emitter.type_context
          ∧ WellFormed r.m r.type_context
          ∧ emitted r.code rebox_room_emitter.write_curr r.write_curr
            = ((List.range 2).filter
                (is_raw_float ex_types rebox_room_emitter.m 6 rebox_room_emitter.type_context)).map
                (fun i => _Py_CODEUNIT.op .BOX_FLOAT i)
          ∧ r.write_curr = rebox_room_emitter.write_curr
              + ((List.range 2).filter
                  (is_raw_float ex_types rebox_room_emitter.m 6
                    rebox_room_emitter.type_context)).length
          ∧ (∀ p, p < rebox_room_emitter.write_curr ∨ r.write_curr ≤ p →
              r.code p = rebox_room_emitter.code p)
          ∧ (∀ i, i < 2 → is_raw_float ex_types r.m 6 r.type_context i = false)
          ∧ (∀ i, i < 2 →
              is_raw_float ex_types rebox_room_emitter.m 6 rebox_room_emitter.type_context i
                = false →
              slot_root r.m 6 r.type_context i
                = slot_root rebox_room_emitter.m 6 rebox_room_emitter.type_context i)
          ∧ (∀ a, InCtx rebox_room_emitter.type_context a →
              (∀ i, i < 2 → a ≠ rebox_room_emitter.type_context.type_stack_ptr - 8 * (i + 1)) →
              (load r.m a >>= typenode_get_root r.m 6)
                = (load rebox_room_emitter.m a >>= typenode_get_root rebox_room_emitter.m 6)))
      ∧ (WellFormed rebox_emitter.m rebox_emitter.type_context
        ∧ is_raw_float ex_types rebox_emitter.m 5 rebox_emitter.type_context 1 = true)
      ∧ rebox_stack true ex_types 5 rebox_emitter ((2 : Nat) : Int) = .error .bad_access
      ∧ rebox_stack false ex_types 5 rebox_emitter ((2 : Nat) : Int) = .error .bad_access :=
  ⟨by decide,
    (rebox_stack_boxes_raw_floats true ex_types 6 rebox_room_emitter 2 (by decide)
      (by decide) (by decide) (by decide) (by decide) (by decide)).1 (by decide),
    by decide,
    (rebox_stack_boxes_raw_floats true ex_types 5 rebox_emitter 2 (by decide) (by decide)
      (by decide) (by decide) (by decide) (by decide)).2 (by decide) (by decide)
      ⟨1, by decide, by decide⟩,
    (rebox_stack_boxes_raw_floats false ex_types 5 rebox_emitter 2 (by decide) (by decide)
      (by decide) (by decide) (by decide) (by decide)).2 (by decide) (by decide)
      ⟨1, by decide, by decide⟩⟩

end rebox_witness

section init_cleanup

/-- A successful `_PyTier2Info_Initialize`. -/
theorem info_initialize_ok (d : Bool) (size : Nat) (hsize : size < 2147483648) :
    _PyTier2Info_Initialize d size true true
      = .ok (some { bb_data_len := ((size / 5 + 1 : Nat) : Int)
                    bb_data_curr := 0
                    bb_data := some (List.replicate (size / 5 + 1) 0) }) := by
  have hlen : to_int ((size / 5 + 1 : Nat) : Int) = ((size / 5 + 1 : Nat) : Int) :=
    to_int_small (by omega) (by omega)
  unfold _PyTier2Info_Initialize
  simp only [Bool.not_true, Bool.false_eq_true, if_false]
  rw [c_assert_ok d (decide_eq_true hlen), hlen]
  rfl

/-- The part of `_PyCode_Tier2Initialize` behind a successful `_PyTier2Info_Initialize`,
when a later step fails: `NULL` is returned, the tier-2 info has been freed, and
`co->_tier2_info` still points to it. -/
theorem later_failure (d : Bool) (Tb : OpcodeTables)
    (bb_space_ok offsets_ok pairs_ok rows_ok type_context_ok : Bool) (entry : Option Nat)
    (co : PyCodeObject) (filled : FilledJumpTargets)
    (hinfo : co._tier2_info = none) (hsize : co.size < 2147483648)
    (hfill : _PyCode_Tier2FillJumpTargets d Tb co.co_code co.size unfilled offsets_ok
      pairs_ok rows_ok = .ok filled)
    (hfail : bb_space_ok = false ∨ filled.ret ≠ 0 ∨ type_context_ok = false
      ∨ entry = none) :
    _PyCode_Tier2Initialize.later d Tb true true bb_space_ok offsets_ok pairs_ok rows_ok
        type_context_ok entry co
      = .ok { next := none
              co :=
                { co_code := co.co_code
                  size := co.size
                  _tier2_warmup := co._tier2_warmup
                  _tier2_info := some
                    ({ bb_data_len := ((co.size / 5 + 1 : Nat) : Int)
                       bb_data_curr := 0
                       bb_data := some (List.replicate (co.size / 5 + 1) 0) }) }
              t2_info_freed := true } := by
  have hnone : co._tier2_info.isNone = true := by rw [hinfo]; rfl
  unfold _PyCode_Tier2Initialize.later _PyTier2Info_Initialize.attach
  rw [c_assert_ok d hnone, ok_bind, info_initialize_ok d co.size hsize]
  simp only [ok_bind]
  cases bb_space_ok with
  | false => rfl
  | true =>
    simp only [Bool.not_true, Bool.false_eq_true, if_false]
    rw [hfill, ok_bind]
    by_cases hret : filled.ret ≠ 0
    · rw [if_pos hret]
      rfl
    · rw [if_neg hret]
      cases type_context_ok with
      | false => rfl
      | true =>
        simp only [Bool.not_true, Bool.false_eq_true, if_false]
        rcases hfail with h | h | h | h
        · cases h
        · exact absurd h hret
        · cases h
        · rw [h]
          rfl

end init_cleanup

section init_cleanup_claim

/-- C39: `_PyCode_Tier2Initialize` can return `NULL` with `co->_tier2_info` set.  For a
code object without tier-2 info whose scan finds no forbidden and some optimizable opcode,
`_PyTier2Info_Initialize` succeeds and stores the new info in `co->_tier2_info`.  When a
later step fails (`_PyTier2_CreateBBSpace`, `_PyCode_Tier2FillJumpTargets`,
`initialize_type_context` or the build of the entry basic block), the function frees the
info and returns `NULL`, but `co->_tier2_info` is not reset: it still holds the pointer to
the freed info. -/
theorem initialize_failure_leaves_tier2_info (Py_DEBUG : Bool) (H : Headers)
    (Tb : OpcodeTables)
    (bb_space_ok offsets_ok pairs_ok rows_ok type_context_ok : Bool) (entry : Option Nat)
    (co : PyCodeObject) (next_instr : Nat) (code1 : Code) (filled : FilledJumpTargets)
    (hinfo : co._tier2_info = none) (hsize : co.size < 2147483648)
    (hass : _PyCode_Tier2Initialize.asserts Py_DEBUG co.co_code next_instr = .ok ())
    (hrep : replace_resume_and_jump_backwards Tb co = .ok code1)
    (hscan : _PyCode_Tier2Initialize.scan H Tb code1 co.size co.size 0 false
      = .ok (some true))
    (hfill : _PyCode_Tier2FillJumpTargets Py_DEBUG Tb code1 co.size unfilled offsets_ok
      pairs_ok rows_ok = .ok filled)
    (hfail : bb_space_ok = false ∨ filled.ret ≠ 0 ∨ type_context_ok = false
      ∨ entry = none) :
    ∃ t r, _PyTier2Info_Initialize Py_DEBUG co.size true true = .ok (some t)
      ∧ _PyCode_Tier2Initialize.later Py_DEBUG Tb true true bb_space_ok offsets_ok pairs_ok
          rows_ok type_context_ok entry { co with co_code := code1 } = .ok r
      ∧ r.next = none ∧ r.t2_info_freed = true ∧ r.co._tier2_info = some t
      ∧ _PyCode_Tier2Initialize Py_DEBUG H Tb
          (fun c => (_PyCode_Tier2Initialize.later Py_DEBUG Tb true true bb_space_ok
            offsets_ok pairs_ok rows_ok type_context_ok entry c).map
            fun r => (r.next, r.co)) co next_instr
        = .ok (none, r.co) := by
  have hlater := later_failure Py_DEBUG Tb bb_space_ok offsets_ok pairs_ok rows_ok
    type_context_ok entry { co with co_code := code1 } filled hinfo hsize hfill hfail
  have hsz : ¬ (to_int (co.size : Int) ≠ (co.size : Int)) := by
    rw [to_int_small (by omega) (by omega)]
    exact fun h => h rfl
  refine ⟨_, _, info_initialize_ok Py_DEBUG co.size hsize, hlater, rfl, rfl, rfl, ?_⟩
  unfold _PyCode_Tier2Initialize
  rw [hass, ok_bind, hrep, ok_bind]
  show (if to_int (co.size : Int) ≠ (co.size : Int) then _ else _) = _
  rw [if_neg hsz]
  show (_PyCode_Tier2Initialize.scan H Tb code1 co.size co.size 0 false >>= _) = _
  rw [hscan, ok_bind]
  show (_PyCode_Tier2Initialize.later Py_DEBUG Tb true true bb_space_ok offsets_ok pairs_ok
    rows_ok type_context_ok entry { co with co_code := code1 }).map _ = _
  rw [hlater]
  rfl

end init_cleanup_claim

section init_cleanup_witness

theorem initialize_failure_leaves_tier2_info_witness :
    ∃ t r, _PyTier2Info_Initialize true hot_co.size true true = .ok (some t)
      ∧ _PyCode_Tier2Initialize.later true ex_tables true true true true true true true none
          { hot_co with co_code := _py_set_opcode hot_code 0 .RESUME_QUICK } = .ok r
      ∧ r.next = none ∧ r.t2_info_freed = true ∧ r.co._tier2_info = some t
      ∧ _PyCode_Tier2Initialize true ex_headers ex_tables
          (fun c => (_PyCode_Tier2Initialize.later true ex_tables true true true true true
            true true none c).map fun r => (r.next, r.co)) hot_co 1
        = .ok (none, r.co) :=
  initialize_failure_leaves_tier2_info true ex_headers ex_tables true true true true true
    none hot_co 1 (_py_set_opcode hot_code 0 .RESUME_QUICK)
    { ret := 0, backward_jump_count := 0, backward_jump_offsets := none,
      backward_jump_target_bb_pairs := [] }
    rfl (by decide) (by decide) rfl (by decide) (by decide) (Or.inr (Or.inr (Or.inr rfl)))

end init_cleanup_witness

section compat_partition

/-- The location of a node of `c`, mapped to the arrays of `c'`, is the corresponding
position. -/
theorem get_location_reloc {c : _PyTier2TypeContext} (hl : Layout c) {r : Nat}
    (hr : InCtx c r) (c' : _PyTier2TypeContext)
    (hL : c'.type_locals_len = c.type_locals_len) (hS : c'.type_stack_len = c.type_stack_len)
    (hl' : Layout c') :
    ∃ idx is_local, typenode_get_location c r = .ok (idx, is_local)
      ∧ (if is_local then ptr_index c'.type_locals idx else ptr_index c'.type_stack idx)
        = reloc c c'.type_locals c'.type_stack r := by
  rcases hr with ⟨i, hi, rfl⟩ | ⟨j, hj, rfl⟩
  · refine ⟨i, true, get_location_locals hl hi, ?_⟩
    have hb : c'.type_locals + 8 * i < 18446744073709551616 := by
      have := hl'.1.2.2.2.2.2.1
      omega
    simp only [if_true]
    rw [ptr_index_nat hb, reloc_locals _ _ hi]
  · refine ⟨j, false, get_location_stack hl hj, ?_⟩
    have hb : c'.type_stack + 8 * j < 18446744073709551616 := by
      have := hl'.1.2.2.2.2.2.2.1
      omega
    simp only [Bool.false_eq_true, if_false]
    rw [ptr_index_nat hb, reloc_stack hl _ _ hj]

/-- What `typenode_is_compatible` computes for the nodes `p1` of `c1` and `p2` of `c2`
with the roots `r1` and `r2`: whether the position of `r1` lies, in `c2`, in the tree of
`r2`, and the position of `r2`, in `c1`, in the tree of `r1`. -/
theorem typenode_is_compatible_eq {m : Mem} {c1 c2 : _PyTier2TypeContext}
    (hw1 : WellFormed m c1) (hw2 : WellFormed m c2)
    (hL : c1.type_locals_len = c2.type_locals_len) (hS : c1.type_stack_len = c2.type_stack_len)
    {p1 p2 fuel : Nat} (hp1 : InCtx c1 p1) (hp2 : InCtx c2 p2)
    (hf : c1.type_locals_len + c1.type_stack_len ≤ fuel)
    {r1 d1 r2 d2 a da b db : Nat} (hr1 : RootAt m p1 r1 d1) (hr2 : RootAt m p2 r2 d2)
    (ha : RootAt m (reloc c1 c2.type_locals c2.type_stack r1) a da)
    (hb : RootAt m (reloc c2 c1.type_locals c1.type_stack r2) b db) :
    typenode_is_compatible m fuel c1 c2 p1 p2
      = .ok (decide (a = r2) && decide (b = r1)) := by
  have hf2 : c2.type_locals_len + c2.type_stack_len ≤ fuel := by omega
  obtain ⟨r1', d1', hr1', hd1, hr1in⟩ := hw1.rootAt hp1
  obtain ⟨e1, e1'⟩ := hr1.unique hr1'
  subst e1 e1'
  obtain ⟨r2', d2', hr2', hd2, hr2in⟩ := hw2.rootAt hp2
  obtain ⟨e2, e2'⟩ := hr2.unique hr2'
  subst e2 e2'
  obtain ⟨v1, hv1, htag1, _⟩ := hw1.1.get hp1
  obtain ⟨v2, hv2, htag2, _⟩ := hw2.1.get hp2
  obtain ⟨idx1, loc1, hloc1, hm1⟩ :=
    get_location_reloc hw1.1.1 hr1in c2 hL.symm hS.symm hw2.1.1
  obtain ⟨idx2, loc2, hloc2, hm2⟩ :=
    get_location_reloc hw2.1.1 hr2in c1 hL hS hw1.1.1
  have hin1 : InCtx c2 (reloc c1 c2.type_locals c2.type_stack r1) :=
    reloc_inCtx hw1.1.1 hL.symm hS.symm hr1in
  have hin2 : InCtx c1 (reloc c2 c1.type_locals c1.type_stack r2) :=
    reloc_inCtx hw2.1.1 hL hS hr2in
  obtain ⟨a', da', ha', hda, _⟩ := hw2.rootAt hin1
  obtain ⟨ea, ea'⟩ := ha.unique ha'
  subst ea ea'
  obtain ⟨b', db', hb', hdb, _⟩ := hw1.rootAt hin2
  obtain ⟨eb, eb'⟩ := hb.unique hb'
  subst eb eb'
  have hz : 0 ≤ fuel := Nat.zero_le _
  have hda2 : da ≤ fuel := by omega
  have hdb2 : db ≤ fuel := by omega
  have hb1 := same_tree_eq hw2.1 hin1 hr2in ha hr2.root_self hda2 hz
  have hb2 := same_tree_eq hw1.1 hin2 hr1in hb hr1.root_self hdb2 hz
  unfold typenode_is_compatible
  rw [load_eq hv1]
  simp only [ok_bind]
  rw [rootref_of_eq hv1 htag1 hr1 (by omega)]
  simp only [ok_bind]
  rw [load_eq hv2]
  simp only [ok_bind]
  rw [rootref_of_eq hv2 htag2 hr2 (by omega)]
  simp only [ok_bind]
  rw [hloc1]
  simp only [ok_bind]
  rw [hloc2]
  simp only [ok_bind]
  rw [hm1, hm2, hb1]
  simp only [ok_bind]
  by_cases h : a = r2
  · simp only [h, decide_True, if_true, Bool.true_and]
    rw [hb2]
  · simp only [h, decide_False, Bool.false_eq_true, if_false, Bool.false_and]
    rfl

/-- A loop of `typecontext_is_compatible` that returns true has found every pair of nodes
compatible. -/
theorem compatible_loop_true (m : Mem) (fuel : Nat) (c1 c2 : _PyTier2TypeContext)
    (arr1 arr2 : Nat) :
    ∀ (n i : Nat), typecontext_is_compatible.loop m fuel c1 c2 arr1 arr2 n i = .ok true →
      ∀ k, i ≤ k → k < i + n →
        typenode_is_compatible m fuel c1 c2 (arr1 + 8 * k) (arr2 + 8 * k) = .ok true := by
  intro n
  induction n with
  | zero => intro i _ k h1 h2; omega
  | succ n ih =>
    intro i h k h1 h2
    unfold typecontext_is_compatible.loop at h
    obtain ⟨b, hb, h⟩ := bind_ok _ _ _ h
    cases b with
    | false => cases h
    | true =>
      simp only [Bool.not_true, Bool.false_eq_true, if_false] at h
      by_cases hk : k = i
      · rw [hk]; exact hb
      · exact ih (i + 1) h k (by omega) (by omega)

end compat_partition
section compat_partition_top

theorem livePair_inCtx {c1 c2 : _PyTier2TypeContext} (hl1 : Layout c1)
    (hL : c1.type_locals_len = c2.type_locals_len) (hS : c1.type_stack_len = c2.type_stack_len)
    {p1 p2 : Nat} (h : LivePair c1 c2 p1 p2) :
    InCtx c1 p1 ∧ InCtx c2 p2 ∧ p2 = reloc c1 c2.type_locals c2.type_stack p1 := by
  obtain ⟨k, hk, _, hse⟩ := layout_stack_elems hl1
  rcases h with ⟨i, hi, rfl, rfl⟩ | ⟨i, hi, rfl, rfl⟩
  · exact ⟨InCtx.locals hi, InCtx.locals (by omega), (reloc_locals _ _ hi).symm⟩
  · rw [hse, Int.toNat_ofNat] at hi
    exact ⟨InCtx.stack (by omega), InCtx.stack (by omega),
      (reloc_stack hl1 _ _ (by omega)).symm⟩

theorem livePair_symm {c1 c2 : _PyTier2TypeContext} (hd : SameDims c1 c2) {p1 p2 : Nat}
    (h : LivePair c1 c2 p1 p2) : LivePair c2 c1 p2 p1 := by
  obtain ⟨hL, hS, hH⟩ := hd
  rcases h with ⟨i, hi, e1, e2⟩ | ⟨i, hi, e1, e2⟩
  · exact Or.inl ⟨i, by omega, e2, e1⟩
  · exact Or.inr ⟨i, by rw [← hH]; exact hi, e2, e1⟩

/-- The result of `typecontext_is_compatible`: true exactly when `typenode_is_compatible`
is true for every local and every live stack slot. -/
theorem compatible_iff_nodes (d : Bool) {m : Mem} {c1 c2 : _PyTier2TypeContext}
    (hw1 : WellFormed m c1) (hw2 : WellFormed m c2) (hd : SameDims c1 c2)
    {fuel : Nat} (hf : c1.type_locals_len + c1.type_stack_len ≤ fuel) :
    ∃ b, typecontext_is_compatible d m fuel c1 c2 = .ok b
      ∧ (b = true ↔ ∀ p1 p2, LivePair c1 c2 p1 p2 →
          typenode_is_compatible m fuel c1 c2 p1 p2 = .ok true) := by
  obtain ⟨b, hb⟩ := typecontext_is_compatible_total d hw1 hw2 hd hf
  obtain ⟨hL, hS, hH⟩ := hd
  refine ⟨b, hb, ?_, ?_⟩
  · intro hbt
    subst hbt
    unfold typecontext_is_compatible at hb
    simp only [hL, hS, hH, decide_True, c_assert_true, ok_bind] at hb
    obtain ⟨okl, hl, h⟩ := bind_ok _ _ _ hb
    cases okl with
    | false => cases h
    | true =>
      simp only [Bool.not_true, Bool.false_eq_true, if_false] at h
      intro p1 p2 hp
      rcases hp with ⟨i, hi, rfl, rfl⟩ | ⟨i, hi, rfl, rfl⟩
      · exact compatible_loop_true m fuel c1 c2 _ _ _ 0 hl i (Nat.zero_le _) (by omega)
      · rw [hH] at hi
        exact compatible_loop_true m fuel c1 c2 _ _ _ 0 h i (Nat.zero_le _) (by omega)
  · intro hall
    have hl := compatible_loop_all m fuel c1 c2 c1.type_locals c2.type_locals
      c1.type_locals_len 0
      (fun k _ hk => hall _ _ (Or.inl ⟨k, by omega, rfl, rfl⟩))
    have hs := compatible_loop_all m fuel c1 c2 c1.type_stack c2.type_stack
      (stack_elems c1).toNat 0
      (fun k _ hk => hall _ _ (Or.inr ⟨k, by omega, rfl, rfl⟩))
    unfold typecontext_is_compatible at hb
    simp only [hL, hS, hH, decide_True, c_assert_true, ok_bind] at hb
    rw [hL] at hl
    rw [hH] at hs
    rw [hl] at hb
    simp only [ok_bind, Bool.not_true, Bool.false_eq_true, if_false] at hb
    rw [hs] at hb
    cases hb
    rfl

/-- The roots of the two trees that `typenode_is_compatible` looks at. -/
theorem compatible_roots {m : Mem} {c1 c2 : _PyTier2TypeContext}
    (hw1 : WellFormed m c1) (hw2 : WellFormed m c2)
    (hL : c1.type_locals_len = c2.type_locals_len) (hS : c1.type_stack_len = c2.type_stack_len)
    {p1 p2 fuel : Nat} (hp1 : InCtx c1 p1) (hp2 : InCtx c2 p2)
    (hf : c1.type_locals_len + c1.type_stack_len ≤ fuel) :
    ∃ r1 d1 r2 d2 a da b db, RootAt m p1 r1 d1 ∧ RootAt m p2 r2 d2
      ∧ InCtx c1 r1 ∧ InCtx c2 r2
      ∧ RootAt m (reloc c1 c2.type_locals c2.type_stack r1) a da
      ∧ RootAt m (reloc c2 c1.type_locals c1.type_stack r2) b db
      ∧ typenode_is_compatible m fuel c1 c2 p1 p2 = .ok (decide (a = r2) && decide (b = r1))
      ∧ typenode_is_compatible m fuel c2 c1 p2 p1
        = .ok (decide (b = r1) && decide (a = r2)) := by
  obtain ⟨r1, d1, hr1, _, hr1in⟩ := hw1.rootAt hp1
  obtain ⟨r2, d2, hr2, _, hr2in⟩ := hw2.rootAt hp2
  obtain ⟨a, da, ha, _, _⟩ := hw2.rootAt
    (reloc_inCtx hw1.1.1 hL.symm hS.symm hr1in : InCtx c2 _)
  obtain ⟨b, db, hb, _, _⟩ := hw1.rootAt (reloc_inCtx hw2.1.1 hL hS hr2in : InCtx c1 _)
  exact ⟨r1, d1, r2, d2, a, da, b, db, hr1, hr2, hr1in, hr2in, ha, hb,
    typenode_is_compatible_eq hw1 hw2 hL hS hp1 hp2 hf hr1 hr2 ha hb,
    typenode_is_compatible_eq hw2 hw1 hL.symm hS.symm hp2 hp1 (by omega) hr2 hr1 hb ha⟩

end compat_partition_top
section compat_partition_live

theorem liveRoot_pair {m : Mem} {c : _PyTier2TypeContext} (hw : WellFormed m c)
    {p r d fuel : Nat} (hp : InCtx c p) (hr : RootAt m p r d) (hd : d ≤ fuel)
    (h : LiveRoot m fuel c p) : LivePair c c r r := by
  obtain ⟨v, hv, htag, _⟩ := hw.1.get hp
  unfold LiveRoot at h
  rw [load_eq hv, ok_bind, rootref_of_eq hv htag hr hd] at h
  exact h

theorem livePair_reloc {c c' : _PyTier2TypeContext} (hl : Layout c) {r : Nat}
    (h : LivePair c c r r) : LivePair c c' r (reloc c c'.type_locals c'.type_stack r) := by
  obtain ⟨k, hk, _, hse⟩ := layout_stack_elems hl
  rcases h with ⟨i, hi, e, _⟩ | ⟨i, hi, e, _⟩
  · subst e
    exact Or.inl ⟨i, hi, rfl, reloc_locals _ _ hi⟩
  · subst e
    have hi2 : i < c.type_stack_len := by
      rw [hse, Int.toNat_ofNat] at hi
      omega
    exact Or.inr ⟨i, hi, rfl, reloc_stack hl _ _ hi2⟩

theorem liveRoots_at {m : Mem} {fuel : Nat} {c1 c2 : _PyTier2TypeContext}
    (hd : SameDims c1 c2) {p1 p2 : Nat} (h : LivePair c1 c2 p1 p2) :
    (LiveRoots m fuel c1 → LiveRoot m fuel c1 p1)
      ∧ (LiveRoots m fuel c2 → LiveRoot m fuel c2 p2) := by
  obtain ⟨hL, hS, hH⟩ := hd
  rcases h with ⟨i, hi, rfl, rfl⟩ | ⟨i, hi, rfl, rfl⟩
  · exact ⟨fun h => h.1 i hi, fun h => h.1 i (by omega)⟩
  · exact ⟨fun h => h.2 i hi, fun h => h.2 i (by rw [← hH]; exact hi)⟩

end compat_partition_live

section compat_partition_claim

/-- C35 (amended): `typecontext_is_compatible` and the aliasing partitions.  For
well-formed (acyclic, in-bounds) contexts `c1`, `c2` of equal dimensions and stack height,
the call returns a Boolean `b`, and the call with the arguments exchanged returns the same
`b`.  If `b` is true, then any two positions among the locals and the live stack slots are
in the same tree in `c1` exactly when they are in `c2`.  Conversely, if in both contexts
every local and live stack slot has the root of its tree among the locals and the live
stack slots, and any two such positions are in the same tree in `c1` exactly when they
are in `c2`, then `b` is true. -/
theorem compatible_iff_same_partition (Py_DEBUG : Bool) (m : Mem)
    (c1 c2 : _PyTier2TypeContext) (fuel : Nat)
    (hw1 : WellFormed m c1) (hw2 : WellFormed m c2) (hd : SameDims c1 c2)
    (hf : c1.type_locals_len + c1.type_stack_len ≤ fuel) :
    ∃ b, typecontext_is_compatible Py_DEBUG m fuel c1 c2 = .ok b
      ∧ typecontext_is_compatible Py_DEBUG m fuel c2 c1 = .ok b
      ∧ (b = true → ∀ p1 p2 q1 q2, LivePair c1 c2 p1 p2 → LivePair c1 c2 q1 q2 →
          typenode_is_same_tree m fuel p1 q1 = typenode_is_same_tree m fuel p2 q2)
      ∧ (LiveRoots m fuel c1 → LiveRoots m fuel c2 →
          (∀ p1 p2 q1 q2, LivePair c1 c2 p1 p2 → LivePair c1 c2 q1 q2 →
            typenode_is_same_tree m fuel p1 q1 = typenode_is_same_tree m fuel p2 q2) →
          b = true) := by
  have hd' : SameDims c2 c1 := ⟨hd.1.symm, hd.2.1.symm, hd.2.2.symm⟩
  have hL := hd.1
  have hS := hd.2.1
  have hf2 : c2.type_locals_len + c2.type_stack_len ≤ fuel := by omega
  obtain ⟨b, hb, hiff⟩ := compatible_iff_nodes Py_DEBUG hw1 hw2 hd hf
  obtain ⟨b', hb', hiff'⟩ := compatible_iff_nodes Py_DEBUG hw2 hw1 hd' hf2
  have hsym : ∀ p1 p2, LivePair c1 c2 p1 p2 →
      (typenode_is_compatible m fuel c1 c2 p1 p2 = .ok true
        ↔ typenode_is_compatible m fuel c2 c1 p2 p1 = .ok true) := by
    intro p1 p2 hp
    obtain ⟨hp1, hp2, _⟩ := livePair_inCtx hw1.1.1 hL hS hp
    obtain ⟨r1, d1, r2, d2, a, da, b, db, _, _, _, _, _, _, e12, e21⟩ :=
      compatible_roots hw1 hw2 hL hS hp1 hp2 hf
    rw [e12, e21, Bool.and_comm]
  have hbb : b' = b := by
    have h1 : b = true ↔ b' = true := by
      rw [hiff, hiff']
      constructor
      · intro h p2 p1 hp
        exact (hsym p1 p2 (livePair_symm hd' hp)).1 (h p1 p2 (livePair_symm hd' hp))
      · intro h p1 p2 hp
        exact (hsym p1 p2 hp).2 (h p2 p1 (livePair_symm hd hp))
    cases b <;> cases b' <;> simp at h1 ⊢
  rw [hbb] at hb'
  refine ⟨b, hb, hb', ?_, ?_⟩
  · intro hbt p1 p2 q1 q2 hp hq
    have hall := hiff.1 hbt
    obtain ⟨hp1, hp2, _⟩ := livePair_inCtx hw1.1.1 hL hS hp
    obtain ⟨hq1, hq2, _⟩ := livePair_inCtx hw1.1.1 hL hS hq
    obtain ⟨r1, d1, r2, d2, a, da, b0, db, hr1, hr2, _, _, ha, hb0, e12, _⟩ :=
      compatible_roots hw1 hw2 hL hS hp1 hp2 hf
    obtain ⟨s1, k1, s2, k2, a', da', b1, db', hs1, hs2, _, _, ha', hb1, f12, _⟩ :=
      compatible_roots hw1 hw2 hL hS hq1 hq2 hf
    have c1' := hall p1 p2 hp
    rw [e12] at c1'
    have c2' := hall q1 q2 hq
    rw [f12] at c2'
    have hA : a = r2 ∧ b0 = r1 := by
      have := Except.ok.inj c1'
      simpa using this
    have hA' : a' = s2 ∧ b1 = s1 := by
      have := Except.ok.inj c2'
      simpa using this
    obtain ⟨_, _, hr1', hd1, _⟩ := hw1.rootAt hp1
    obtain ⟨e, e'⟩ := hr1.unique hr1'
    subst e e'
    obtain ⟨_, _, hs1', hk1, _⟩ := hw1.rootAt hq1
    obtain ⟨e, e'⟩ := hs1.unique hs1'
    subst e e'
    obtain ⟨_, _, hr2', hd2, _⟩ := hw2.rootAt hp2
    obtain ⟨e, e'⟩ := hr2.unique hr2'
    subst e e'
    obtain ⟨_, _, hs2', hk2, _⟩ := hw2.rootAt hq2
    obtain ⟨e, e'⟩ := hs2.unique hs2'
    subst e e'
    have hd1' : d1 ≤ fuel := by omega
    have hk1' : k1 ≤ fuel := by omega
    have hd2' : d2 ≤ fuel := by omega
    have hk2' : k2 ≤ fuel := by omega
    rw [same_tree_eq hw1.1 hp1 hq1 hr1 hs1 hd1' hk1',
      same_tree_eq hw2.1 hp2 hq2 hr2 hs2 hd2' hk2']
    have key : r1 = s1 ↔ r2 = s2 := by
      constructor
      · intro e
        subst e
        have := (ha.unique ha').1
        rw [← hA.1, ← hA'.1]
        exact this
      · intro e
        subst e
        have := (hb0.unique hb1).1
        rw [← hA.2, ← hA'.2]
        exact this
    by_cases h : r1 = s1
    · rw [decide_eq_true h, decide_eq_true (key.1 h)]
    · rw [decide_eq_false h, decide_eq_false (fun e => h (key.2 e))]
  · intro hlive1 hlive2 hpart
    apply hiff.2
    intro p1 p2 hp
    obtain ⟨hp1, hp2, _⟩ := livePair_inCtx hw1.1.1 hL hS hp
    obtain ⟨r1, d1, r2, d2, a, da, b0, db, hr1, hr2, hr1in, hr2in, ha, hb0, e12, _⟩ :=
      compatible_roots hw1 hw2 hL hS hp1 hp2 hf
    obtain ⟨_, _, hr1', hd1, _⟩ := hw1.rootAt hp1
    obtain ⟨e, e'⟩ := hr1.unique hr1'
    subst e e'
    obtain ⟨_, _, hr2', hd2, _⟩ := hw2.rootAt hp2
    obtain ⟨e, e'⟩ := hr2.unique hr2'
    subst e e'
    have hd1' : d1 ≤ fuel := by omega
    have hd2' : d2 ≤ fuel := by omega
    have hz : 0 ≤ fuel := Nat.zero_le _
    obtain ⟨l1, l2⟩ := @liveRoots_at m fuel c1 c2 hd p1 p2 hp
    have hlr1 := liveRoot_pair hw1 hp1 hr1 hd1' (l1 hlive1)
    have hlr2 := liveRoot_pair hw2 hp2 hr2 hd2' (l2 hlive2)
    have hpair1 : LivePair c1 c2 r1 (reloc c1 c2.type_locals c2.type_stack r1) :=
      livePair_reloc hw1.1.1 hlr1
    have hpair2 : LivePair c1 c2 (reloc c2 c1.type_locals c1.type_stack r2) r2 :=
      livePair_symm hd' (livePair_reloc hw2.1.1 hlr2)
    obtain ⟨_, hain, _⟩ := livePair_inCtx hw1.1.1 hL hS hpair1
    obtain ⟨hbin, _, _⟩ := livePair_inCtx hw1.1.1 hL hS hpair2
    obtain ⟨_, _, ha', hda, _⟩ := hw2.rootAt hain
    obtain ⟨e, e'⟩ := ha.unique ha'
    subst e e'
    obtain ⟨_, _, hb', hdb, _⟩ := hw1.rootAt hbin
    obtain ⟨e, e'⟩ := hb0.unique hb'
    subst e e'
    have hda' : da ≤ fuel := by omega
    have hdb' : db ≤ fuel := by omega
    have h1 := hpart p1 p2 _ _ hp hpair1
    rw [same_tree_eq hw1.1 hp1 hr1in hr1 hr1.root_self hd1' hz,
      same_tree_eq hw2.1 hp2 hain hr2 ha hd2' hda'] at h1
    have h2 := hpart p1 p2 _ _ hp hpair2
    rw [same_tree_eq hw1.1 hp1 hbin hr1 hb0 hd1' hdb',
      same_tree_eq hw2.1 hp2 hr2in hr2 hr2.root_self hd2' hz] at h2
    have ea : a = r2 := by
      have := Except.ok.inj h1
      simp at this
      exact this.symm
    have eb : b0 = r1 := by
      have := Except.ok.inj h2
      simp at this
      exact this.symm
    rw [e12, ea, eb]
    simp

end compat_partition_claim
section compat_partition_witness

theorem compatible_iff_same_partition_witness :
    (LiveRoots ex_mem_copy 5 ex_ctx ∧ LiveRoots ex_mem_copy 5 ex_ctx_copy
        ∧ typecontext_is_compatible true ex_mem_copy 5 ex_ctx ex_ctx_copy = .ok true)
      ∧ ∃ b, typecontext_is_compatible true ex_mem_copy 5 ex_ctx ex_ctx_copy = .ok b
        ∧ typecontext_is_compatible true ex_mem_copy 5 ex_ctx_copy ex_ctx = .ok b
        ∧ (b = true → ∀ p1 p2 q1 q2, LivePair ex_ctx ex_ctx_copy p1 p2 →
            LivePair ex_ctx ex_ctx_copy q1 q2 →
            typenode_is_same_tree ex_mem_copy 5 p1 q1
              = typenode_is_same_tree ex_mem_copy 5 p2 q2)
        ∧ (LiveRoots ex_mem_copy 5 ex_ctx → LiveRoots ex_mem_copy 5 ex_ctx_copy →
            (∀ p1 p2 q1 q2, LivePair ex_ctx ex_ctx_copy p1 p2 →
              LivePair ex_ctx ex_ctx_copy q1 q2 →
              typenode_is_same_tree ex_mem_copy 5 p1 q1
                = typenode_is_same_tree ex_mem_copy 5 p2 q2) →
            b = true) :=
  ⟨by decide,
    compatible_iff_same_partition true ex_mem_copy ex_ctx ex_ctx_copy 5 (by decide)
      (by decide) (by decide) (by decide)⟩

end compat_partition_witness

section compat_partition_counterexample

/-- C35, counterexample: `dead_ctx1` and `dead_ctx2` are well formed, of equal dimensions
and stack height, and any two positions among their locals and live stack slots are in
the same tree in the one exactly when they are in the other (no two distinct positions
are).  Yet `typecontext_is_compatible` returns false: the live stack slot of `dead_ctx1`
has its root in the slot `stack[2]` above the stack pointer, and the function asks whether
that position is, in `dead_ctx2`, in the tree of the live stack slot. -/
theorem compatible_false_on_same_partition :
    WellFormed dead_mem dead_ctx1 ∧ WellFormed dead_mem dead_ctx2
      ∧ SameDims dead_ctx1 dead_ctx2
      ∧ (∀ p1 p2 q1 q2, LivePair dead_ctx1 dead_ctx2 p1 p2 →
          LivePair dead_ctx1 dead_ctx2 q1 q2 →
          typenode_is_same_tree dead_mem 4 p1 q1 = typenode_is_same_tree dead_mem 4 p2 q2)
      ∧ typecontext_is_compatible true dead_mem 4 dead_ctx1 dead_ctx2 = .ok false
      ∧ typecontext_is_compatible false dead_mem 4 dead_ctx1 dead_ctx2 = .ok false
      ∧ ¬ LiveRoots dead_mem 4 dead_ctx1 := by
  refine ⟨by decide, by decide, by decide, ?_, by decide, by decide, by decide⟩
  have hL : dead_ctx1.type_locals_len = 1 := rfl
  have hS : (stack_elems dead_ctx1).toNat = 1 := by decide
  intro p1 p2 q1 q2 hp hq
  rcases hp with ⟨i, hi, rfl, rfl⟩ | ⟨i, hi, rfl, rfl⟩ <;>
    rcases hq with ⟨j, hj, rfl, rfl⟩ | ⟨j, hj, rfl, rfl⟩
  · have hi0 : i = 0 := by omega
    have hj0 : j = 0 := by omega
    subst hi0 hj0
    decide
  · have hi0 : i = 0 := by omega
    have hj0 : j = 0 := by omega
    subst hi0 hj0
    decide
  · have hi0 : i = 0 := by omega
    have hj0 : j = 0 := by omega
    subst hi0 hj0
    decide
  · have hi0 : i = 0 := by omega
    have hj0 : j = 0 := by omega
    subst hi0 hj0
    decide

end compat_partition_counterexample

/-! ## The builder: `EXTENDED_ARG` in front of a copied instruction -/

section builder_dispatch

/-- What `copy_cache_entries` writes: the units before `write_curr` stay, the `n_entries`
units from `write_curr` on are those of the tier-1 code from `cache` on, and the returned
pointer is `write_curr + n_entries`. -/
theorem copy_cache_entries_spec (tier1 : Code) (n : Nat) (code : Code) (w c : Nat) :
    (copy_cache_entries tier1 n code w c).2 = w + n
      ∧ (∀ a, a < w → (copy_cache_entries tier1 n code w c).1 a = code a)
      ∧ (∀ k, k < n → (copy_cache_entries tier1 n code w c).1 (w + k) = tier1 (c + k)) := by
  induction n generalizing code w c with
  | zero =>
    refine ⟨rfl, fun a _ => rfl, fun k hk => absurd hk (Nat.not_lt_zero k)⟩
  | succ n ih =>
    obtain ⟨h1, h2, h3⟩ :=
      ih (fun a => if a = w then tier1 c else code a) (w + 1) (c + 1)
    refine ⟨?_, ?_, ?_⟩
    · show (copy_cache_entries tier1 n _ (w + 1) (c + 1)).2 = w + (n + 1)
      rw [h1]
      omega
    · intro a ha
      show (copy_cache_entries tier1 n _ (w + 1) (c + 1)).1 a = code a
      rw [h2 a (by omega)]
      exact if_neg (by omega)
    · intro k hk
      show (copy_cache_entries tier1 n _ (w + 1) (c + 1)).1 (w + k) = tier1 (c + k)
      cases k with
      | zero =>
        rw [h2 (w + 0) (by omega)]
        exact if_pos rfl
      | succ k =>
        have e := h3 k (by omega)
        have e1 : w + (k + 1) = w + 1 + k := by omega
        have e2 : c + (k + 1) = c + 1 + k := by omega
        rw [e1, e2]
        exact e

/-- An instruction with an oparg of one byte is emitted as a single unit. -/
theorem emit_i_small (code : Code) (w : Nat) (opcode : Opcode) (arg : Nat)
    (h : arg ≤ 255) :
    (emit_i code w opcode (arg : Int)).2 = w + 1
      ∧ (emit_i code w opcode (arg : Int)).1 w = .op opcode arg
      ∧ ∀ a, a ≠ w → (emit_i code w opcode (arg : Int)).1 a = code a := by
  have hn : ¬ ((arg : Int) > 0xFF) := by omega
  have hm : ((arg : Int) % 256 % 256).toNat = arg := by omega
  have e : emit_i code w opcode (arg : Int)
      = (set_op (_py_set_opcode code w opcode) w opcode ((arg : Int) % 256), w + 1) := by
    unfold emit_i
    dsimp only
    rw [if_neg hn]
  rw [e]
  refine ⟨rfl, ?_, ?_⟩
  · show (if w = w then _Py_CODEUNIT.op opcode ((arg : Int) % 256 % 256).toNat else _) = _
    rw [if_pos rfl, hm]
  · intro a ha
    show (if a = w then _Py_CODEUNIT.op opcode ((arg : Int) % 256 % 256).toNat
      else _py_set_opcode code w opcode a) = _
    rw [if_neg ha]
    exact if_neg ha

/-- Without an `EXTENDED_ARG` in front, the decoded oparg is the `op.arg` byte. -/
theorem decoded_oparg_unprefixed (code : Code) (p : Nat)
    (h : ∀ x, code (p - 1) ≠ .op .EXTENDED_ARG x) :
    decoded_oparg code p = (code p).op_arg := by
  unfold decoded_oparg
  split
  · rename_i x hx
    exact absurd hx (h x)
  · rfl

end builder_dispatch
section extended_arg_claim

/-- The merged oparg of an `EXTENDED_ARG hi` in front of an instruction with `op.arg`
byte `lo`. -/
theorem merged_oparg (hi lo : Nat) (hhi : hi ≤ 255) (hlo : lo ≤ 255) :
    to_int (((((hi : Nat) : Int).toNat <<< 8 ||| lo : Nat)) : Int)
      = ((hi * 256 + lo : Nat) : Int) := by
  have e1 : ((hi : Nat) : Int).toNat = hi := Int.toNat_ofNat hi
  have e2 : hi <<< 8 ||| lo = hi * 256 + lo := by
    have h := Nat.mul_add_lt_is_or (show lo < 2 ^ 8 by omega) hi
    rw [Nat.shiftLeft_eq, Nat.mul_comm hi (2 ^ 8), ← h]
  rw [e1, e2]
  exact to_int_small (by omega) (by omega)

/-- C34 (fails on the code): an instruction that the builder copies with `DISPATCH()` and
that has one `EXTENDED_ARG hi` in front (`1 ≤ hi ≤ 255`, so the merged oparg `hi * 256 + lo`
is in `0x100..0xFFFF`).  When the propagation of the instruction with the merged oparg
returns, the iteration of the builder at the `EXTENDED_ARG` returns and continues behind
the instruction; what it emits at `write_i` is the single unit `specop lo`, followed by the
cache entries of the instruction: `DISPATCH()` passes `curr->op.arg`, the low byte, to
`emit_i`, and the merge of the `EXTENDED_ARG` emits nothing.  The units before `write_i`
are unchanged, so unless the unit in front happens to be an `EXTENDED_ARG`, the emitted
instruction decodes to the oparg `lo`, which is less than the merged oparg. -/
theorem extended_arg_high_byte_dropped (Py_DEBUG : Bool) (H : Headers) (I : IterHeaders)
    (B : _Py_NegativeTypeMaskBit) (T : TypeObjects) (Tb : OpcodeTables) (G : Transfers)
    (fuel : Nat) (tier1 : Code) (backward_jump_offsets : List Int) (A : Nat → SplitAllocs)
    (gotos : Nat) (e : BuilderSpace) (b : Builder) (specop : Opcode) (hi lo : Nat)
    (r : Mem × _PyTier2TypeContext)
    (hhi : 1 ≤ hi ∧ hi ≤ 255) (hlo : lo ≤ 255)
    (hext_arg : tier1 b.i.toNat = .op .EXTENDED_ARG hi)
    (hinstr : tier1 (b.i.toNat + 1) = .op specop lo)
    (hext : Tb._PyOpcode_Deopt .EXTENDED_ARG = .EXTENDED_ARG)
    (hcase : Tb._PyOpcode_Deopt specop ≠ .RESUME ∧ Tb._PyOpcode_Deopt specop ≠ .END_FOR
      ∧ Tb._PyOpcode_Deopt specop ≠ .BINARY_OP ∧ Tb._PyOpcode_Deopt specop ≠ .LOAD_CONST
      ∧ Tb._PyOpcode_Deopt specop ≠ .LOAD_FAST ∧ Tb._PyOpcode_Deopt specop ≠ .EXTENDED_ARG)
    (hexit : IS_SCOPE_EXIT_OPCODE (Tb._PyOpcode_Deopt specop) = false)
    (hjump : IS_JUMP_OPCODE (Tb._PyOpcode_Deopt specop) = false)
    (hvirtual : b.virtual_start = false)
    (htarget : IS_BACKWARDS_JUMP_TARGET backward_jump_offsets b.i.toNat = false
      ∧ IS_BACKWARDS_JUMP_TARGET backward_jump_offsets (b.i.toNat + 1) = false)
    (hprop : dispatch_propagate Py_DEBUG T G fuel (Tb._PyOpcode_Deopt specop)
      ((hi * 256 + lo : Nat) : Int) b.s = .ok r) :
    ∃ b1, _PyTier2_Code_DetectAndEmitBB.step Py_DEBUG H I B T Tb G fuel tier1
          backward_jump_offsets A (gotos + 1) e b = some (.ok (.next, e, b1))
      ∧ b1.i = b.i + 1 + (Tb._PyOpcode_Caches (Tb._PyOpcode_Deopt specop) : Int)
      ∧ b1.s.write_curr
          = b.s.write_curr + 1 + Tb._PyOpcode_Caches (Tb._PyOpcode_Deopt specop)
      ∧ b1.s.code b.s.write_curr = .op specop lo
      ∧ (∀ a, a < b.s.write_curr → b1.s.code a = b.s.code a)
      ∧ (∀ k, k < Tb._PyOpcode_Caches (Tb._PyOpcode_Deopt specop) →
          b1.s.code (b.s.write_curr + 1 + k) = tier1 (b.i.toNat + 2 + k))
      ∧ ((∀ x, b.s.code (b.s.write_curr - 1) ≠ .op .EXTENDED_ARG x) →
          decoded_oparg b1.s.code b.s.write_curr = lo ∧ lo < hi * 256 + lo) := by
  obtain ⟨c1, c2, c3, c4, c5, c6⟩ := hcase
  -- the iteration at the `EXTENDED_ARG`
  have hfirst : _PyTier2_Code_DetectAndEmitBB.case_default Py_DEBUG H I T Tb G fuel tier1
      backward_jump_offsets A e b
      { curr := b.i.toNat, specop := .EXTENDED_ARG, opcode := .EXTENDED_ARG,
        oparg := (hi : Int), caches := Tb._PyOpcode_Caches .EXTENDED_ARG }
      = .ok (.again e { b with i := b.i + 1 }
          { curr := b.i.toNat + 1, specop := specop,
            opcode := Tb._PyOpcode_Deopt specop,
            oparg := ((hi * 256 + lo : Nat) : Int),
            caches := Tb._PyOpcode_Caches (Tb._PyOpcode_Deopt specop) }) := by
    unfold _PyTier2_Code_DetectAndEmitBB.case_default
    dsimp only
    rw [if_neg (by rw [hvirtual]; decide), if_neg (by rw [htarget.1]; decide)]
    unfold _PyTier2_Code_DetectAndEmitBB.fall_through
    dsimp only
    rw [if_neg (by decide), if_neg (by decide), if_pos rfl]
    unfold _PyTier2_Code_DetectAndEmitBB.extended_arg
    dsimp only
    rw [hinstr]
    have hov : ¬ ((hi : Int) < 0 ∨ (hi : Int) * 256 > INT_MAX) := by
      unfold INT_MAX
      omega
    simp only [_Py_OPCODE, ok_bind, if_neg hov, _Py_CODEUNIT.op_arg]
    rw [merged_oparg hi lo hhi.2 hlo]
  -- the instruction behind it
  let b0 : Builder := { b with i := b.i + 1 }
  let w1 := emit_i b.s.code b.s.write_curr specop ((lo : Nat) : Int)
  let w2 := copy_cache_entries tier1 (Tb._PyOpcode_Caches (Tb._PyOpcode_Deopt specop))
    w1.1 w1.2 (b.i.toNat + 1 + 1)
  let b1 : Builder :=
    { b0 with
      s := { code := w2.1, write_curr := w2.2, m := r.1, type_context := r.2 }
      i := b0.i + (Tb._PyOpcode_Caches (Tb._PyOpcode_Deopt specop) : Int) }
  have hsecond : _PyTier2_Code_DetectAndEmitBB.case_default Py_DEBUG H I T Tb G fuel tier1
      backward_jump_offsets A e b0
      { curr := b.i.toNat + 1, specop := specop,
        opcode := Tb._PyOpcode_Deopt specop,
        oparg := ((hi * 256 + lo : Nat) : Int),
        caches := Tb._PyOpcode_Caches (Tb._PyOpcode_Deopt specop) }
      = .ok (.done .next e b1) := by
    unfold _PyTier2_Code_DetectAndEmitBB.case_default
    dsimp only
    rw [if_neg (by show ¬ (b.virtual_start = true); rw [hvirtual]; decide),
      if_neg (by rw [htarget.2]; decide)]
    unfold _PyTier2_Code_DetectAndEmitBB.fall_through
    dsimp only
    rw [if_neg (by rw [hexit]; decide), if_neg (by rw [hjump]; decide), if_neg c6]
    unfold DISPATCH
    have hp : dispatch_propagate Py_DEBUG T G fuel (Tb._PyOpcode_Deopt specop)
        ((hi * 256 + lo : Nat) : Int) b0.s = .ok r := hprop
    rw [hinstr]
    simp only [bind_pure_comp, hp, _Py_CODEUNIT.op_arg]
    rfl
  refine ⟨b1, ?_, ?_, ?_, ?_, ?_, ?_, ?_⟩
  · unfold _PyTier2_Code_DetectAndEmitBB.step
    dsimp only
    rw [hext_arg]
    dsimp only
    rw [hext]
    unfold _PyTier2_Code_DetectAndEmitBB.dispatch_opcode
    dsimp only
    rw [if_neg (by decide), if_neg (by decide), if_neg (by decide), if_neg (by decide), hfirst]
    dsimp only
    unfold _PyTier2_Code_DetectAndEmitBB.dispatch_opcode
    dsimp only
    rw [if_neg c1, if_neg c2, if_neg c3, if_neg (not_or.2 ⟨c4, c5⟩), hsecond]
  · show b.i + 1 + _ = _
    rfl
  · show w2.2 = _
    rw [(copy_cache_entries_spec tier1 _ w1.1 w1.2 _).1, (emit_i_small _ _ _ lo hlo).1]
  · show w2.1 b.s.write_curr = _
    rw [(copy_cache_entries_spec tier1 _ w1.1 w1.2 _).2.1 _
      (by rw [(emit_i_small _ _ _ lo hlo).1]; omega)]
    exact (emit_i_small _ _ _ lo hlo).2.1
  · intro a ha
    show w2.1 a = _
    rw [(copy_cache_entries_spec tier1 _ w1.1 w1.2 _).2.1 _
      (by rw [(emit_i_small _ _ _ lo hlo).1]; omega)]
    exact (emit_i_small _ _ _ lo hlo).2.2 a (by omega)
  · intro k hk
    show w2.1 (b.s.write_curr + 1 + k) = _
    have h3 := (copy_cache_entries_spec tier1 _ w1.1 w1.2 (b.i.toNat + 1 + 1)).2.2 k hk
    have ew : w1.2 = b.s.write_curr + 1 := (emit_i_small _ _ _ lo hlo).1
    have e2 : b.i.toNat + 2 + k = b.i.toNat + 1 + 1 + k := by omega
    rw [e2, ← ew]
    exact h3
  · intro hfront
    have hw : w2.1 b.s.write_curr = .op specop lo := by
      rw [(copy_cache_entries_spec tier1 _ w1.1 w1.2 _).2.1 _
        (by rw [(emit_i_small _ _ _ lo hlo).1]; omega)]
      exact (emit_i_small _ _ _ lo hlo).2.1
    have hne : specop ≠ .EXTENDED_ARG := by
      intro h
      rw [h, hext] at c6
      exact c6 rfl
    constructor
    · show decoded_oparg w2.1 b.s.write_curr = lo
      rw [decoded_oparg_unprefixed, hw]
      · rfl
      · intro x hx
        by_cases h0 : b.s.write_curr = 0
        · rw [h0] at hx hw
          rw [hw] at hx
          exact hne (by injection hx)
        · rw [(copy_cache_entries_spec tier1 _ w1.1 w1.2 _).2.1 _
            (by rw [(emit_i_small _ _ _ lo hlo).1]; omega),
            (emit_i_small _ _ _ lo hlo).2.2 _ (by omega)] at hx
          exact hfront x hx
    · omega

theorem extended_arg_high_byte_dropped_witness :
    (store_global_tier1 0 = .op .EXTENDED_ARG 1 ∧ store_global_tier1 1 = .op .STORE_GLOBAL 4)
      ∧ ∃ b1, _PyTier2_Code_DetectAndEmitBB.step true ex_headers ex_iter ex_bits ex_types
            ex_tables store_global_transfers 4 store_global_tier1 [] no_split (0 + 1)
            store_global_space store_global_builder
          = some (.ok (.next, store_global_space, b1))
        ∧ b1.i = 1
        ∧ b1.s.write_curr = 1
        ∧ b1.s.code 0 = .op .STORE_GLOBAL 4
        ∧ decoded_oparg b1.s.code 0 = 4
        ∧ 4 < 1 * 256 + 4 :=
  ⟨by decide,
    let ⟨b1, h1, h2, h3, h4, _, _, h7⟩ :=
      extended_arg_high_byte_dropped true ex_headers ex_iter ex_bits ex_types ex_tables
        store_global_transfers 4 store_global_tier1 [] no_split 0 store_global_space
        store_global_builder .STORE_GLOBAL 1 4
        ((binop_mem 1 1057 1057), __type_stack_shrink binop_ctx 1)
        (by decide) (by decide) (by decide) (by decide) (by decide) (by decide) (by decide)
        (by decide) (by decide) (by decide) rfl
    ⟨b1, h1, h2.trans (by decide), h3.trans (by decide), h4,
      (h7 (by intro x; simp [store_global_builder, binop_emitter, ex_code])).1,
      by decide⟩⟩

end extended_arg_claim

/-! ## The builder: the id in the branch cache -/

section branch_cache

/-- The tag of a basic-block id of at most 15 bits fits the 16-bit cache word, and `BB_ID`
recovers the id from it. -/
theorem tagged_bb_id_small (bb_id : Nat) (g : Bool) (h : bb_id < 32768) :
    MAKE_TAGGED_BB_ID bb_id g.toNat % 65536 = MAKE_TAGGED_BB_ID bb_id g.toNat
      ∧ BB_ID (MAKE_TAGGED_BB_ID bb_id g.toNat) = bb_id := by
  have hg : g.toNat < 2 ^ 1 := by cases g <;> decide
  have e : MAKE_TAGGED_BB_ID bb_id g.toNat = 2 * bb_id + g.toNat := by
    unfold MAKE_TAGGED_BB_ID
    have h1 := Nat.mul_add_lt_is_or hg bb_id
    rw [Nat.shiftLeft_eq, Nat.mul_comm bb_id (2 ^ 1), ← h1]
  have hg2 : g.toNat < 2 := hg
  rw [e]
  unfold BB_ID
  rw [Nat.shiftRight_eq_div_pow]
  omega

/-- What `write_bb_id` writes for an id of at most 15 bits. -/
theorem write_bb_id_spec (d : Bool) (code : Code) (cache : Nat) (bb_id : Int) (g : Bool)
    (code1 : Code) (h : write_bb_id d code cache bb_id g = .ok code1)
    (h0 : 0 ≤ bb_id) (h1 : bb_id < 32768) :
    code1 cache = .cache (MAKE_TAGGED_BB_ID bb_id.toNat g.toNat)
      ∧ ∀ a, a ≠ cache → code1 a = code a := by
  unfold write_bb_id at h
  rw [c_assert_ok d (decide_eq_true (by omega)), c_assert_ok d (decide_eq_true (by omega))]
    at h
  have hm : (bb_id % 65536).toNat = bb_id.toNat := by
    have : bb_id % 65536 = bb_id := by omega
    rw [this]
  simp only [ok_bind, pure_eq_ok, hm, (tagged_bb_id_small bb_id.toNat g (by omega)).1] at h
  have h2 := Except.ok.inj h
  subst h2
  exact ⟨if_pos rfl, fun a ha => if_neg ha⟩

/-- The pointer that `emit_cache_entries` returns. -/
theorem emit_cache_entries_end (n : Nat) (code : Code) (w : Nat) :
    (emit_cache_entries code w n).2 = w + n := by
  induction n generalizing code w with
  | zero => rfl
  | succ n ih =>
    show (emit_cache_entries _ (w + 1) n).2 = w + (n + 1)
    rw [ih]
    omega

/-- The guard that `emit_type_guard` emits has the tagged id in the unit behind its
`BB_BRANCH`. -/
theorem emit_type_guard_cache (d : Bool) (H : Headers) (code : Code) (w : Nat)
    (guard_opcode : Opcode) (guard_oparg : Int) (bb_id : Int) (r : Code × Nat)
    (h : emit_type_guard d H code w guard_opcode guard_oparg bb_id = .ok r)
    (h0 : 0 ≤ bb_id) (h1 : bb_id < 32768) :
    r.1 (w + 3) = .cache (MAKE_TAGGED_BB_ID bb_id.toNat 1) := by
  unfold emit_type_guard at h
  obtain ⟨_, _, h⟩ := bind_ok _ _ _ h
  dsimp only at h
  obtain ⟨code5, h5, h⟩ := bind_ok _ _ _ h
  have h2 := Except.ok.inj h
  subst h2
  exact (write_bb_id_spec d _ _ bb_id true code5 h5 h0 h1).1

end branch_cache
section branch_cache_guard

/-- The guard exits of `infer_BINARY_OP`: the guard is at the `write_curr` that was given,
which is also the pointer they return. -/
theorem infer_guard_cache (d : Bool) (H : Headers) (s : Emitter) (guard_opcode : Opcode)
    (guard_oparg : Int) (bb_id : Int) (r : Bool × Emitter)
    (h : infer_BINARY_OP.guard d H s guard_opcode guard_oparg bb_id = .ok r)
    (h0 : 0 ≤ bb_id) (h1 : bb_id < 32768) :
    r.2.code (s.write_curr + 3) = .cache (MAKE_TAGGED_BB_ID bb_id.toNat 1)
      ∧ r.2.write_curr = s.write_curr := by
  unfold infer_BINARY_OP.guard at h
  obtain ⟨g, hg, h⟩ := bind_ok _ _ _ h
  have h2 := Except.ok.inj h
  subst h2
  exact ⟨emit_type_guard_cache d H _ _ _ _ bb_id g hg h0 h1, rfl⟩

/-- A rebox is not a guard. -/
theorem rebox_no_guard (d : Bool) (T : TypeObjects) (fuel : Nat) (s : Emitter) (x : Int)
    (r : Bool × Emitter)
    (h : (rebox_stack d T fuel s x >>= fun s1 => (pure (false, s1) : Exec (Bool × Emitter)))
      = .ok r) : r.1 = false := by
  obtain ⟨s1, _, h⟩ := bind_ok _ _ _ h
  have h2 := Except.ok.inj h
  subst h2
  rfl

/-- The specialised instructions need no guard. -/
theorem specialise_no_guard (d : Bool) (T : TypeObjects) (fuel : Nat) (opcode : Opcode)
    (s : Emitter) (r : Bool × Emitter)
    (h : infer_BINARY_OP.specialise d T fuel opcode s = .ok r) : r.1 = false := by
  unfold infer_BINARY_OP.specialise at h
  obtain ⟨_, _, h⟩ := bind_ok _ _ _ h
  have h2 := Except.ok.inj h
  subst h2
  rfl

/-- Behind its guard exits `infer_BINARY_OP` leaves `*needs_guard` false. -/
theorem typed_no_guard (d : Bool) (H : Headers) (T : TypeObjects) (fuel : Nat) (oparg : Int)
    (s : Emitter) (righttype lefttype : Nat) (r : Bool × Emitter)
    (h : infer_BINARY_OP.typed d H T fuel oparg s righttype lefttype = .ok r) :
    r.1 = false := by
  unfold infer_BINARY_OP.typed at h
  obtain ⟨r1, _, h⟩ := bind_ok _ _ _ h
  obtain ⟨r2, _, h⟩ := bind_ok _ _ _ h
  unfold infer_BINARY_OP.finish at h
  by_cases c1 : r1.2 = T.PyRawFloat_Type ∧ r2.2 = T.PyRawFloat_Type
  · rw [if_pos c1] at h
    obtain ⟨_, _, h⟩ := bind_ok _ _ _ h
    exact specialise_no_guard d T fuel _ _ r h
  · rw [if_neg c1] at h
    by_cases c2 : r1.2 = T.PyLong_Type ∧ r2.2 = T.PyLong_Type
    · rw [if_pos c2] at h
      obtain ⟨_, _, h⟩ := bind_ok _ _ _ h
      exact specialise_no_guard d T fuel _ _ r h
    · rw [if_neg c2] at h
      exact rebox_no_guard d T fuel _ 2 r h

/-- When `infer_BINARY_OP` sets `*needs_guard`, it has emitted a type guard at the
`write_curr` it was given, with the tagged `bb_id` in the unit behind the `BB_BRANCH`,
and it returns that `write_curr`. -/
theorem infer_binary_op_guard_cache (d : Bool) (H : Headers) (B : _Py_NegativeTypeMaskBit)
    (T : TypeObjects) (fuel : Nat) (oparg : Int) (s : Emitter) (bb_id : Int)
    (r : Bool × Emitter)
    (h : infer_BINARY_OP d H B T fuel oparg s bb_id = .ok r) (hg : r.1 = true)
    (h0 : 0 ≤ bb_id) (h1 : bb_id < 32768) :
    r.2.code (s.write_curr + 3) = .cache (MAKE_TAGGED_BB_ID bb_id.toNat 1)
      ∧ r.2.write_curr = s.write_curr := by
  unfold infer_BINARY_OP at h
  obtain ⟨_, _, h⟩ := bind_ok _ _ _ h
  obtain ⟨right, _, h⟩ := bind_ok _ _ _ h
  obtain ⟨rightroot, _, h⟩ := bind_ok _ _ _ h
  obtain ⟨left, _, h⟩ := bind_ok _ _ _ h
  obtain ⟨leftroot, _, h⟩ := bind_ok _ _ _ h
  by_cases c1 : _Py_TYPENODE_IS_POSITIVE_NULL rightroot = true
  · rw [if_pos c1] at h
    exact infer_guard_cache d H s _ _ bb_id r h h0 h1
  · rw [if_neg c1] at h
    by_cases c2 : _Py_TYPENODE_IS_POSITIVE_NULL leftroot = true
    · rw [if_pos c2] at h
      exact infer_guard_cache d H s _ _ bb_id r h h0 h1
    · rw [if_neg c2] at h
      by_cases c3 : (_Py_TYPENODE_GET_TAG leftroot = TYPE_ROOT_NEGATIVE
            ∧ _Py_TYPENODE_CLEAR_TAG leftroot = END_GUARD B)
          ∨ (_Py_TYPENODE_GET_TAG rightroot = TYPE_ROOT_NEGATIVE
            ∧ _Py_TYPENODE_CLEAR_TAG rightroot = END_GUARD B)
      · rw [if_pos c3] at h
        have := rebox_no_guard d T fuel s 2 r h
        rw [this] at hg
        cases hg
      · rw [if_neg c3] at h
        obtain ⟨x, _, h⟩ := bind_ok _ _ _ h
        by_cases c4 : x = true
        · rw [if_pos c4] at h
          exact infer_guard_cache d H s _ _ bb_id r h h0 h1
        · rw [if_neg c4] at h
          obtain ⟨y, _, h⟩ := bind_ok _ _ _ h
          by_cases c5 : y = true
          · rw [if_pos c5] at h
            exact infer_guard_cache d H s _ _ bb_id r h h0 h1
          · rw [if_neg c5] at h
            have := typed_no_guard d H T fuel oparg s _ _ r h
            rw [this] at hg
            cases hg

end branch_cache_guard
section branch_cache_branch

/-- When the `case BINARY_OP` of the builder ends the basic block, the units behind
`write_i` hold a type guard with the tagged `bb_data_curr`. -/
theorem case_binary_op_end (d : Bool) (H : Headers) (B : _Py_NegativeTypeMaskBit)
    (T : TypeObjects) (G : Transfers) (fuel : Nat) (tier1 : Code) (bb_data_curr : Int)
    (b : Builder) (curr : Nat) (specop opcode : Opcode) (oparg : Int) (caches : Nat)
    (b1 : Builder)
    (h : _PyTier2_Code_DetectAndEmitBB.case_BINARY_OP d H B T G fuel tier1 bb_data_curr b
      curr specop opcode oparg caches = .ok (.END, b1))
    (h0 : 0 ≤ bb_data_curr) (h1 : bb_data_curr < 32768) :
    b1.s.code (b1.s.write_curr + 3) = .cache (MAKE_TAGGED_BB_ID bb_data_curr.toNat 1) := by
  unfold _PyTier2_Code_DetectAndEmitBB.case_BINARY_OP at h
  by_cases c : oparg = H.NB_ADD ∨ oparg = H.NB_SUBTRACT ∨ oparg = H.NB_MULTIPLY
  · rw [if_pos c] at h
    obtain ⟨r, hr, h⟩ := bind_ok _ _ _ h
    dsimp only at h
    by_cases g : r.1 = true
    · rw [if_pos g] at h
      have h2 := Except.ok.inj h
      have h3 : b1 = _ := (congrArg Prod.snd h2).symm
      obtain ⟨k1, k2⟩ := infer_binary_op_guard_cache d H B T fuel oparg b.s bb_data_curr r
        hr g h0 h1
      rw [h3]
      show r.2.code (r.2.write_curr + 3) = _
      rw [k2]
      exact k1
    · rw [if_neg g] at h
      have h2 := congrArg Prod.fst (Except.ok.inj h)
      cases h2
  · rw [if_neg c] at h
    cases hx : DISPATCH_REBOX d T G fuel tier1 b curr specop opcode oparg caches 2 with
    | error f =>
      rw [hx] at h
      cases h
    | ok x =>
      rw [hx] at h
      have h2 := congrArg Prod.fst (Except.ok.inj h)
      cases h2

/-- The end of each shape of `emit_logical_branch`: the first cache entry behind the
branch instruction holds the tagged id, and the returned pointer is behind the cache
entries. -/
theorem branch_cache (d : Bool) (H : Headers) (code : Code) (w : Nat) (opcode : Opcode)
    (oparg : Int) (bb_id : Int) (r : Code × Nat)
    (h : emit_logical_branch.branch d H code w opcode oparg bb_id = .ok r)
    (h0 : 0 ≤ bb_id) (h1 : bb_id < 32768) :
    r.1 (r.2 - H.INLINE_CACHE_ENTRIES_BB_BRANCH)
      = .cache (MAKE_TAGGED_BB_ID bb_id.toNat 0) := by
  unfold emit_logical_branch.branch at h
  dsimp only at h
  obtain ⟨code2, h2, h⟩ := bind_ok _ _ _ h
  have h3 := Except.ok.inj h
  subst h3
  show code2 ((emit_cache_entries _ (w + 1) H.INLINE_CACHE_ENTRIES_BB_BRANCH).2
    - H.INLINE_CACHE_ENTRIES_BB_BRANCH) = _
  rw [emit_cache_entries_end, Nat.add_sub_cancel]
  exact (write_bb_id_spec d _ _ bb_id false code2 h2 h0 h1).1

/-- Whatever shape `emit_logical_branch` emits, the first cache entry of the last
instruction holds the tagged `bb_id`. -/
theorem emit_logical_branch_cache (d : Bool) (H : Headers) (I : IterHeaders)
    (T : TypeObjects) (Tb : OpcodeTables) (G : Transfers) (fuel : Nat) (s : Emitter)
    (branch : _Py_CODEUNIT) (bb_id : Int) (oparg : Int) (s1 : Emitter)
    (h : emit_logical_branch d H I T Tb G fuel s branch bb_id oparg = .ok s1)
    (h0 : 0 ≤ bb_id) (h1 : bb_id < 32768) :
    s1.code (s1.write_curr - H.INLINE_CACHE_ENTRIES_BB_BRANCH)
      = .cache (MAKE_TAGGED_BB_ID bb_id.toNat 0) := by
  unfold emit_logical_branch at h
  obtain ⟨_, _, h⟩ := bind_ok _ _ _ h
  obtain ⟨chosen, _, h⟩ := bind_ok _ _ _ h
  dsimp only at h
  obtain ⟨p1, _, h⟩ := bind_ok _ _ _ h
  obtain ⟨_, _, h⟩ := bind_ok _ _ _ h
  by_cases c1 : chosen.1 = .BB_JUMP_BACKWARD_LAZY
  · rw [if_pos c1] at h
    obtain ⟨r, hr, h⟩ := bind_ok _ _ _ h
    have h3 := Except.ok.inj h
    subst h3
    exact branch_cache d H _ _ _ _ bb_id r hr h0 h1
  · rw [if_neg c1] at h
    by_cases c2 : chosen.1 = .BB_TEST_ITER
    · rw [if_pos c2] at h
      obtain ⟨p2, _, h⟩ := bind_ok _ _ _ h
      obtain ⟨r, hr, h⟩ := bind_ok _ _ _ h
      have h3 := Except.ok.inj h
      subst h3
      exact branch_cache d H _ _ _ _ bb_id r hr h0 h1
    · rw [if_neg c2] at h
      obtain ⟨r, hr, h⟩ := bind_ok _ _ _ h
      have h3 := Except.ok.inj h
      subst h3
      exact branch_cache d H _ _ _ _ bb_id r hr h0 h1

end branch_cache_branch
section branch_cache_dispatch

/-- A jump opcode has no case of its own in the `switch` of the builder, and is no scope
exit. -/
theorem jump_opcode_cases (op : Opcode) (h : IS_JUMP_OPCODE op = true) :
    op ≠ .RESUME ∧ op ≠ .END_FOR ∧ op ≠ .BINARY_OP ∧ op ≠ .LOAD_CONST ∧ op ≠ .LOAD_FAST
      ∧ op ≠ .EXTENDED_ARG ∧ IS_SCOPE_EXIT_OPCODE op = false := by
  cases op <;> first | decide | exact absurd h (by decide)

/-- From the label `fall_through` on, a jump other than `JUMP_FORWARD` is converted by
`emit_logical_branch` with `bb_data_curr`, and the basic block ends. -/
theorem fall_through_branch (d : Bool) (H : Headers) (I : IterHeaders) (T : TypeObjects)
    (Tb : OpcodeTables) (G : Transfers) (fuel : Nat) (tier1 : Code) (e : BuilderSpace)
    (b : Builder) (x : Dispatched) (flow : Flow)
    (hj : IS_JUMP_OPCODE x.opcode = true) (hf : x.opcode ≠ .JUMP_FORWARD)
    (h : _PyTier2_Code_DetectAndEmitBB.fall_through d H I T Tb G fuel tier1 e b x
      = .ok flow) :
    ∃ s1, emit_logical_branch d H I T Tb G fuel b.s (tier1 x.curr) e.t2_info.bb_data_curr
          x.oparg = .ok s1
      ∧ flow = .done .END e { b with s := s1, i := b.i + x.caches } := by
  have hc := jump_opcode_cases x.opcode hj
  unfold _PyTier2_Code_DetectAndEmitBB.fall_through at h
  rw [if_neg (by rw [hc.2.2.2.2.2.2]; decide), if_pos hj, if_neg hf] at h
  obtain ⟨s1, hs, h⟩ := bind_ok _ _ _ h
  exact ⟨s1, hs, (Except.ok.inj h).symm⟩

/-- A split at a backwards jump target either returns `NULL` or dispatches the same
instruction again, unless that is an `EXTENDED_ARG`. -/
theorem split_flow (d : Bool) (Tb : OpcodeTables) (fuel : Nat) (tier1 : Code)
    (A : Nat → SplitAllocs) (e : BuilderSpace) (b : Builder) (x : Dispatched) (flow : Flow)
    (hx : x.opcode ≠ .EXTENDED_ARG)
    (h : _PyTier2_Code_DetectAndEmitBB.split d Tb fuel tier1 A e b x = .ok flow) :
    (∃ e1 b1, flow = .done .RETURN_NULL e1 b1) ∨ (∃ e1 b1, flow = .again e1 b1 x) := by
  unfold _PyTier2_Code_DetectAndEmitBB.split at h
  dsimp only at h
  obtain ⟨_, _, h⟩ := bind_ok _ _ _ h
  obtain ⟨copied, _, h⟩ := bind_ok _ _ _ h
  cases hc : copied.2 with
  | none =>
    rw [hc] at h
    exact Or.inl ⟨_, _, (Except.ok.inj h).symm⟩
  | some type_context_copy =>
    rw [hc] at h
    dsimp only at h
    obtain ⟨r, _, h⟩ := bind_ok _ _ _ h
    cases hr : r.1 with
    | none =>
      rw [hr] at h
      exact Or.inl ⟨_, _, (Except.ok.inj h).symm⟩
    | some new_meta =>
      rw [hr] at h
      dsimp only at h
      rw [if_neg hx] at h
      exact Or.inr ⟨_, _, (Except.ok.inj h).symm⟩

/-- The `default` case at a jump other than `JUMP_FORWARD`: it returns `NULL`, or it
dispatches the jump again after a split, or it ends the basic block with the tagged
`bb_data_curr` in the first cache entry of the last instruction. -/
theorem case_default_branch (d : Bool) (H : Headers) (I : IterHeaders) (T : TypeObjects)
    (Tb : OpcodeTables) (G : Transfers) (fuel : Nat) (tier1 : Code)
    (backward_jump_offsets : List Int) (A : Nat → SplitAllocs) (e : BuilderSpace)
    (b : Builder) (x : Dispatched) (flow : Flow)
    (hj : IS_JUMP_OPCODE x.opcode = true) (hf : x.opcode ≠ .JUMP_FORWARD)
    (h : _PyTier2_Code_DetectAndEmitBB.case_default d H I T Tb G fuel tier1
      backward_jump_offsets A e b x = .ok flow) :
    (∃ e1 b1, flow = .done .RETURN_NULL e1 b1) ∨ (∃ e1 b1, flow = .again e1 b1 x)
      ∨ ∃ b1, flow = .done .END e b1
          ∧ (0 ≤ e.t2_info.bb_data_curr → e.t2_info.bb_data_curr < 32768 →
              b1.s.code (b1.s.write_curr - H.INLINE_CACHE_ENTRIES_BB_BRANCH)
                = .cache (MAKE_TAGGED_BB_ID e.t2_info.bb_data_curr.toNat 0)) := by
  have hc := jump_opcode_cases x.opcode hj
  unfold _PyTier2_Code_DetectAndEmitBB.case_default at h
  by_cases c1 : b.virtual_start = true
  · rw [if_pos c1] at h
    dsimp only at h
    obtain ⟨copied, _, h⟩ := bind_ok _ _ _ h
    cases hcp : copied.2 with
    | none =>
      rw [hcp] at h
      exact Or.inl ⟨_, _, (Except.ok.inj h).symm⟩
    | some c =>
      rw [hcp] at h
      dsimp only at h
      obtain ⟨s1, hs, hflow⟩ := fall_through_branch d H I T Tb G fuel tier1 e _ x flow hj hf h
      refine Or.inr (Or.inr ⟨_, hflow, fun h0 h1 => ?_⟩)
      exact emit_logical_branch_cache d H I T Tb G fuel _ _ _ _ s1 hs h0 h1
  · rw [if_neg c1] at h
    by_cases c2 : IS_BACKWARDS_JUMP_TARGET backward_jump_offsets x.curr = true
    · rw [if_pos c2] at h
      rcases split_flow d Tb fuel tier1 A e b x flow hc.2.2.2.2.2.1 h with k | k
      · exact Or.inl k
      · exact Or.inr (Or.inl k)
    · rw [if_neg c2] at h
      obtain ⟨s1, hs, hflow⟩ := fall_through_branch d H I T Tb G fuel tier1 e _ x flow hj hf h
      refine Or.inr (Or.inr ⟨_, hflow, fun h0 h1 => ?_⟩)
      exact emit_logical_branch_cache d H I T Tb G fuel _ _ _ _ s1 hs h0 h1

/-- Position of the branch cache of the terminator that the builder emits for a dispatched
instruction: a type guard for `BINARY_OP` lies behind `write_i`, the cache entries of a
converted jump lie in front of it. -/
theorem dispatch_end_cache (d : Bool) (H : Headers) (I : IterHeaders)
    (B : _Py_NegativeTypeMaskBit) (T : TypeObjects) (Tb : OpcodeTables) (G : Transfers)
    (fuel : Nat) (tier1 : Code) (backward_jump_offsets : List Int) (A : Nat → SplitAllocs)
    (x : Dispatched)
    (hop : x.opcode = .BINARY_OP
      ∨ (IS_JUMP_OPCODE x.opcode = true ∧ x.opcode ≠ .JUMP_FORWARD))
    (n : Nat) (e : BuilderSpace) (b : Builder) (e1 : BuilderSpace) (b1 : Builder)
    (h : _PyTier2_Code_DetectAndEmitBB.dispatch_opcode d H I B T Tb G fuel tier1
      backward_jump_offsets A n e b x = some (.ok (.END, e1, b1)))
    (h0 : 0 ≤ e1.t2_info.bb_data_curr) (h1 : e1.t2_info.bb_data_curr < 32768) :
    b1.s.code (if x.opcode = .BINARY_OP then b1.s.write_curr + 3
        else b1.s.write_curr - H.INLINE_CACHE_ENTRIES_BB_BRANCH)
      = .cache (MAKE_TAGGED_BB_ID e1.t2_info.bb_data_curr.toNat
          (if x.opcode = .BINARY_OP then 1 else 0)) := by
  induction n generalizing e b with
  | zero =>
    unfold _PyTier2_Code_DetectAndEmitBB.dispatch_opcode at h
    cases h
  | succ n ih =>
    unfold _PyTier2_Code_DetectAndEmitBB.dispatch_opcode at h
    rcases hop with hb | ⟨hj, hf⟩
    · rw [if_neg (by rw [hb]; decide), if_neg (by rw [hb]; decide), if_pos hb] at h
      rw [if_pos hb, if_pos hb]
      cases hc : _PyTier2_Code_DetectAndEmitBB.case_BINARY_OP d H B T G fuel tier1
          e.t2_info.bb_data_curr b x.curr x.specop x.opcode x.oparg x.caches with
      | error f =>
        rw [hc] at h
        cases h
      | ok r =>
        rw [hc] at h
        have h2 : (r.1, e, r.2) = (Control.END, e1, b1) :=
          Except.ok.inj (Option.some.inj h)
        have k1 : r.1 = .END := congrArg Prod.fst h2
        have k2 : e = e1 := congrArg (fun p => p.2.1) h2
        have k3 : r.2 = b1 := congrArg (fun p => p.2.2) h2
        subst k2
        subst k3
        have hc2 : _PyTier2_Code_DetectAndEmitBB.case_BINARY_OP d H B T G fuel tier1
            e.t2_info.bb_data_curr b x.curr x.specop x.opcode x.oparg x.caches
            = .ok (.END, r.2) := by
          rw [hc, ← k1]
        exact case_binary_op_end d H B T G fuel tier1 _ b _ _ _ _ _ r.2 hc2 h0 h1
    · have hc := jump_opcode_cases x.opcode hj
      have hnb : x.opcode ≠ .BINARY_OP := hc.2.2.1
      rw [if_neg hc.1, if_neg hc.2.1, if_neg hnb,
        if_neg (not_or.2 ⟨hc.2.2.2.1, hc.2.2.2.2.1⟩)] at h
      rw [if_neg hnb, if_neg hnb]
      cases hd : _PyTier2_Code_DetectAndEmitBB.case_default d H I T Tb G fuel tier1
          backward_jump_offsets A e b x with
      | error f =>
        rw [hd] at h
        cases h
      | ok flow =>
        rw [hd] at h
        rcases case_default_branch d H I T Tb G fuel tier1 backward_jump_offsets A e b x
          flow hj hf hd with ⟨e2, b2, k⟩ | ⟨e2, b2, k⟩ | ⟨b2, k, kc⟩
        · subst k
          have h2 := congrArg Prod.fst (Except.ok.inj (Option.some.inj h))
          cases h2
        · subst k
          have k4 := ih e2 b2 h
          rw [if_neg hnb, if_neg hnb] at k4
          exact k4
        · subst k
          have h2 : (Control.END, e, b2) = (Control.END, e1, b1) :=
            Except.ok.inj (Option.some.inj h)
          have k2 : e = e1 := congrArg (fun p => p.2.1) h2
          have k3 : b2 = b1 := congrArg (fun p => p.2.2) h2
          subst k2
          subst k3
          exact kc h0 h1

end branch_cache_dispatch
section branch_cache_commit

/-- A successful `write_bb_metadata` gives the metadata the id `bb_data_curr` and stores
its pointer in `bb_data[bb_data_curr]`. -/
theorem write_bb_metadata_id (t : _PyTier2Info) (ids : Nat → Int) (metadata : Nat)
    (realloc_ok : Bool) (r : Int × _PyTier2Info × (Nat → Int))
    (h : write_bb_metadata t ids metadata realloc_ok = .ok r) (hr : r.1 = 0) :
    r.2.2 metadata = t.bb_data_curr ∧ 0 ≤ t.bb_data_curr
      ∧ ∃ arr, r.2.1.bb_data = some arr ∧ t.bb_data_curr.toNat < arr.length
          ∧ arr.getD t.bb_data_curr.toNat 0 = metadata := by
  have tail : ∀ tt : _PyTier2Info, tt.bb_data_curr = t.bb_data_curr →
      (match tt.bb_data with
        | none => (.error .bad_access : Exec (Int × _PyTier2Info × (Nat → Int)))
        | some arr =>
          if 0 ≤ tt.bb_data_curr ∧ tt.bb_data_curr.toNat < arr.length then
            .ok (0,
              { tt with
                bb_data := some (arr.set tt.bb_data_curr.toNat metadata)
                bb_data_curr := to_int (tt.bb_data_curr + 1) },
              fun p => if p = metadata then tt.bb_data_curr else ids p)
          else .error .bad_access) = .ok r →
      r.2.2 metadata = t.bb_data_curr ∧ 0 ≤ t.bb_data_curr
        ∧ ∃ arr, r.2.1.bb_data = some arr ∧ t.bb_data_curr.toNat < arr.length
            ∧ arr.getD t.bb_data_curr.toNat 0 = metadata := by
    intro tt hcurr htail
    cases ha : tt.bb_data with
    | none =>
      rw [ha] at htail
      cases htail
    | some arr =>
      rw [ha] at htail
      dsimp only at htail
      by_cases c : 0 ≤ tt.bb_data_curr ∧ tt.bb_data_curr.toNat < arr.length
      · rw [if_pos c] at htail
        have h2 := Except.ok.inj htail
        subst h2
        rw [hcurr] at c
        refine ⟨?_, c.1, arr.set t.bb_data_curr.toNat metadata, ?_, ?_, ?_⟩
        · show (if metadata = metadata then tt.bb_data_curr else ids metadata) = _
          rw [if_pos rfl, hcurr]
        · show some (arr.set tt.bb_data_curr.toNat metadata) = _
          rw [hcurr]
        · rw [List.length_set]
          exact c.2
        · rw [List.getD_eq_getElem?_getD, List.getElem?_set_self c.2]
          rfl
      · rw [if_neg c] at htail
        cases htail
  unfold write_bb_metadata at h
  dsimp only at h
  by_cases c : t.bb_data = none ∨ t.bb_data_curr ≥ t.bb_data_len
  · rw [if_pos c] at h
    by_cases c1 : to_int ((t.bb_data_len + 1) * 2) < 0
    · rw [if_pos c1] at h
      have h2 := Except.ok.inj h
      subst h2
      cases hr
    · rw [if_neg c1] at h
      by_cases c2 : (!realloc_ok) = true
      · rw [if_pos c2] at h
        have h2 := Except.ok.inj h
        subst h2
        cases hr
      · rw [if_neg c2] at h
        exact tail
          { bb_data_len := to_int ((t.bb_data_len + 1) * 2)
            bb_data_curr := t.bb_data_curr
            bb_data := some (realloc_bb_data t.bb_data (to_int ((t.bb_data_len + 1) * 2))) }
          rfl h
  · rw [if_neg c] at h
    exact tail t rfl h

/-- The metadata that `_PyTier2_AllocateBBMetaData` returns has the id `bb_data_curr` and
the type context it was given, and `bb_data` holds its pointer at that id. -/
theorem allocate_bb_metadata_id (t : _PyTier2Info) (ids : Nat → Int) (metadata : Nat)
    (realloc_ok : Bool) (tier2_start : Nat) (tier1_end : Int)
    (type_context : _PyTier2TypeContext) (x : _PyTier2BBMetadata) (t1 : _PyTier2Info)
    (ids1 : Nat → Int)
    (h : _PyTier2_AllocateBBMetaData t ids (some metadata) realloc_ok tier2_start tier1_end
      type_context = .ok (some x, t1, ids1)) :
    x.id = t.bb_data_curr ∧ ids1 metadata = x.id ∧ x.type_context = type_context
      ∧ 0 ≤ t.bb_data_curr
      ∧ ∃ arr, t1.bb_data = some arr ∧ t.bb_data_curr.toNat < arr.length
          ∧ arr.getD t.bb_data_curr.toNat 0 = metadata := by
  unfold _PyTier2_AllocateBBMetaData at h
  dsimp only at h
  obtain ⟨r, hr, h⟩ := bind_ok _ _ _ h
  by_cases c : r.1 ≠ 0
  · rw [if_pos c] at h
    have h2 := congrArg Prod.fst (Except.ok.inj h)
    cases h2
  · rw [if_neg c] at h
    have h2 := Except.ok.inj h
    have k1 : some _ = some x := congrArg Prod.fst h2
    have k2 : r.2.1 = t1 := congrArg (fun p => p.2.1) h2
    have k3 : r.2.2 = ids1 := congrArg (fun p => p.2.2) h2
    have k4 := Option.some.inj k1
    obtain ⟨w1, w2, w3⟩ := write_bb_metadata_id t ids metadata realloc_ok r hr
      (not_not.1 c)
    subst k2
    subst k3
    subst k4
    exact ⟨w1, rfl, rfl, w2, w3⟩

end branch_cache_commit
section branch_cache_claim

/-- C37: the id in the branch cache of the terminator of a basic block is the id of the
metadata committed for that block.  `x` is a dispatched instruction that ends the block
with a branch: a `BINARY_OP` (type guard) or a jump other than `JUMP_FORWARD` (conditional
branch, `FOR_ITER`, lazy backward jump); the run of the `switch` from `dispatch_opcode` on
includes a split at a backwards jump target, which commits an earlier block first and
dispatches `x` again.  When the run ends the block (`END()`), with the tier-2 info in `e1`
and the locals in `b1`, and the call of `_PyTier2_AllocateBBMetaData` at the label `end`
returns the metadata `temp_meta` (at the address `metadata`), then for ids within the 15
bits of a tag: the first cache entry of the terminator (behind `write_i` for a type guard,
in front of it for a converted jump) holds `MAKE_TAGGED_BB_ID(temp_meta.id, flag)`, `BB_ID`
of the tag is `temp_meta.id`, the id written to the metadata object, and for every heap of
metadata objects with `temp_meta` at its address, the lookup `bb_data[BB_ID(tag)]` of the
linker retrieves `temp_meta`, whose type context is the one of the builder at the end of
the block. -/
theorem branch_cache_id_is_committed_id (Py_DEBUG : Bool) (H : Headers) (I : IterHeaders)
    (B : _Py_NegativeTypeMaskBit) (T : TypeObjects) (Tb : OpcodeTables) (G : Transfers)
    (fuel : Nat) (tier1 : Code) (backward_jump_offsets : List Int) (A : Nat → SplitAllocs)
    (n : Nat) (e : BuilderSpace) (b : Builder) (x : Dispatched)
    (e1 : BuilderSpace) (b1 : Builder) (metadata : Nat) (realloc_ok : Bool)
    (temp_meta : _PyTier2BBMetadata) (t2_info1 : _PyTier2Info) (ids1 : Nat → Int)
    (hop : x.opcode = .BINARY_OP
      ∨ (IS_JUMP_OPCODE x.opcode = true ∧ x.opcode ≠ .JUMP_FORWARD))
    (hrun : _PyTier2_Code_DetectAndEmitBB.dispatch_opcode Py_DEBUG H I B T Tb G fuel tier1
      backward_jump_offsets A n e b x = some (.ok (.END, e1, b1)))
    (hlimit : e1.t2_info.bb_data_curr < 32768)
    (hend : _PyTier2_AllocateBBMetaData e1.t2_info e1.ids (some metadata) realloc_ok
      b1.t2_start (b1.i + 1) b1.s.type_context = .ok (some temp_meta, t2_info1, ids1)) :
    ∃ tag : Nat,
      b1.s.code (if x.opcode = .BINARY_OP then b1.s.write_curr + 3
          else b1.s.write_curr - H.INLINE_CACHE_ENTRIES_BB_BRANCH) = .cache tag
      ∧ tag = MAKE_TAGGED_BB_ID temp_meta.id.toNat (if x.opcode = .BINARY_OP then 1 else 0)
      ∧ ((BB_ID tag : Nat) : Int) = temp_meta.id
      ∧ ids1 metadata = temp_meta.id
      ∧ temp_meta.type_context = b1.s.type_context
      ∧ ∀ metas : Nat → Option _PyTier2BBMetadata, metas metadata = some temp_meta →
          bb_data_at t2_info1 metas (BB_ID tag) = .ok temp_meta := by
  obtain ⟨k1, k2, k3, k4, arr, k5, k6, k7⟩ := allocate_bb_metadata_id e1.t2_info e1.ids
    metadata realloc_ok b1.t2_start (b1.i + 1) b1.s.type_context temp_meta t2_info1 ids1 hend
  have hcache := dispatch_end_cache Py_DEBUG H I B T Tb G fuel tier1 backward_jump_offsets A
    x hop n e b e1 b1 hrun k4 hlimit
  rw [← k1] at hcache k4 hlimit k6 k7
  have hid : ∀ g : Bool,
      ((BB_ID (MAKE_TAGGED_BB_ID temp_meta.id.toNat g.toNat) : Nat) : Int) = temp_meta.id := by
    intro g
    rw [(tagged_bb_id_small temp_meta.id.toNat g (by omega)).2]
    omega
  have hflag : (if x.opcode = .BINARY_OP then 1 else 0 : Nat)
      = (decide (x.opcode = .BINARY_OP)).toNat := by
    by_cases c : x.opcode = .BINARY_OP
    · rw [if_pos c, decide_eq_true c]
      rfl
    · rw [if_neg c, decide_eq_false c]
      rfl
  refine ⟨_, hcache, rfl, ?_, k2, k3, ?_⟩
  · rw [hflag]
    exact hid _
  · intro metas hm
    rw [hflag]
    have hb := (tagged_bb_id_small temp_meta.id.toNat (decide (x.opcode = .BINARY_OP))
      (by omega)).2
    unfold bb_data_at
    rw [k5, hb]
    have hnat : ((temp_meta.id.toNat : Nat) : Int).toNat = temp_meta.id.toNat :=
      Int.toNat_ofNat _
    have hc : 0 ≤ ((temp_meta.id.toNat : Nat) : Int)
        ∧ ((temp_meta.id.toNat : Nat) : Int).toNat < arr.length := by
      rw [hnat]
      exact ⟨by omega, k6⟩
    dsimp only
    rw [if_pos hc, hnat, k7, hm]

theorem branch_cache_id_is_committed_id_witness :
    (IS_BACKWARDS_JUMP_TARGET [1] branch_dispatched.curr = true
      ∧ branch_space.t2_info.bb_data_curr = 1
      ∧ branch_end.1.t2_info.bb_data_curr = 2
      ∧ branch_meta.1.id = 2)
      ∧ ∃ tag : Nat,
        branch_end.2.s.code (if branch_dispatched.opcode = .BINARY_OP
            then branch_end.2.s.write_curr + 3
            else branch_end.2.s.write_curr - ex_headers.INLINE_CACHE_ENTRIES_BB_BRANCH)
          = .cache tag
        ∧ tag = MAKE_TAGGED_BB_ID branch_meta.1.id.toNat
            (if branch_dispatched.opcode = .BINARY_OP then 1 else 0)
        ∧ ((BB_ID tag : Nat) : Int) = branch_meta.1.id
        ∧ branch_meta.2.2 4112 = branch_meta.1.id
        ∧ branch_meta.1.type_context = branch_end.2.s.type_context
        ∧ ∀ metas : Nat → Option _PyTier2BBMetadata, metas 4112 = some branch_meta.1 →
            bb_data_at branch_meta.2.1 metas (BB_ID tag) = .ok branch_meta.1 :=
  ⟨by decide,
    branch_cache_id_is_committed_id true ex_headers ex_iter ex_bits ex_types ex_tables
      branch_transfers 6 branch_tier1 [1] branch_allocs 2 branch_space branch_builder
      branch_dispatched branch_end.1 branch_end.2 4112 true branch_meta.1 branch_meta.2.1
      branch_meta.2.2 (Or.inr (by decide)) rfl (by decide) rfl⟩

end branch_cache_claim

end Tier2
